import Mathlib

/-!
# qbsp/map.cc: brush, face and texture-projection model

A shallow embedding of the brush/face data model and of the texture-projection
code of `src/qbsp/map.cc`.

Numbers.  The C++ code computes in `double` (`vec_t`) and `float`.  The embedding
is exact: every function is written over an arbitrary linearly ordered field
`K`, so that it runs on rational inputs and its theorems hold over the reals.
Rounding is not modelled.  The functions of the C math library that the code
calls (`sqrt`, `sin`, `cos`, ...) are passed in as a record `libm K`; theorems
state which laws of these functions they rely on.

State.  The global `map` object is passed explicitly: a function that changes
the plane table or the texture tables takes the table and returns the new one.
-/

namespace qbsp

/-! ## Math library and vectors -/

/-- The functions of the C math library called by map.cc. -/
structure libm (K : Type) where
  sqrt : K → K
  sin : K → K
  cos : K → K
  acos : K → K
  atan2 : K → K → K
  /-- Q_rint: rounding to the nearest integer -/
  rint : K → K
  pi : K
  /-- the conversion of a value to float (single precision): float objects
  built from double values, float parameters, static_cast to float -/
  to_float : K → K

/-- The square root is exact: for non-negative input it returns the
non-negative number whose square is the input. -/
def libm.SqrtExact {K : Type} [LinearOrderedField K] (m : libm K) : Prop :=
  ∀ x : K, 0 ≤ x → 0 ≤ m.sqrt x ∧ m.sqrt x * m.sqrt x = x

/-- Sine and cosine take their exact values at angle zero. -/
def libm.TrigZero {K : Type} [LinearOrderedField K] (m : libm K) : Prop :=
  m.sin 0 = 0 ∧ m.cos 0 = 1

/-- The conversion to float is exact: the reading of the code in exact
arithmetic. -/
def libm.FloatExact {K : Type} [LinearOrderedField K] (m : libm K) : Prop :=
  ∀ x : K, m.to_float x = x

/-- The finite values of the IEEE single-precision format: the numbers
n * 2^e with |n| < 2^24 and -149 ≤ e ≤ 104. -/
def IsFloat32 {K : Type} [LinearOrderedField K] (y : K) : Prop :=
  ∃ n e : Int, |n| < 2 ^ 24 ∧ -149 ≤ e ∧ e ≤ 104 ∧ y = (n : K) * (2 : K) ^ e

/-- The conversion to float rounds to nearest: the result is a single-precision
value, and no single-precision value is nearer to the argument.  Nothing is
said about which of two nearest values is taken.  The overflow to infinity of
values beyond the largest float is not modelled. -/
def libm.FloatNearest {K : Type} [LinearOrderedField K] (m : libm K) : Prop :=
  ∀ x : K, IsFloat32 (m.to_float x) ∧ ∀ y : K, IsFloat32 y → |m.to_float x - x| ≤ |y - x|

/-- The math library of the real numbers in exact arithmetic: the conversion to
float is the identity. -/
noncomputable def libm.real : libm ℝ :=
  { sqrt := Real.sqrt, sin := Real.sin, cos := Real.cos, acos := Real.arccos,
    atan2 := fun y x => Complex.arg ⟨x, y⟩, rint := fun x => (⌊x + 1 / 2⌋ : ℤ), pi := Real.pi,
    to_float := fun x => x }

/-- Rounding of a real number to a nearest single-precision value. -/
noncomputable def float32_round (x : ℝ) : ℝ :=
  Classical.epsilon fun y : ℝ => IsFloat32 y ∧ ∀ z : ℝ, IsFloat32 z → |y - x| ≤ |z - x|

/-- The math library of the real numbers with single-precision floats: the
functions are those of the real numbers, the conversion to float rounds to a
nearest single-precision value. -/
noncomputable def libm.real32 : libm ℝ :=
  { sqrt := Real.sqrt, sin := Real.sin, cos := Real.cos, acos := Real.arccos,
    atan2 := fun y x => Complex.arg ⟨x, y⟩, rint := fun x => (⌊x + 1 / 2⌋ : ℤ), pi := Real.pi,
    to_float := float32_round }

/-- Two-component vector (qvec2d / qvec2f). -/
structure qvec2 (K : Type) where
  x : K
  y : K
deriving DecidableEq

/-- Three-component vector (qvec3d / qvec3f). -/
structure qvec3 (K : Type) where
  x : K
  y : K
  z : K
deriving DecidableEq

/-- Four-component vector: one row of the texture-vector matrix. -/
structure qvec4 (K : Type) where
  x : K
  y : K
  z : K
  w : K
deriving DecidableEq

/-- The 2x4 texture-vector matrix (texvecf): row 0 is S, row 1 is T. -/
structure texvecf (K : Type) where
  row0 : qvec4 K
  row1 : qvec4 K
deriving DecidableEq

/-- A 2x3 matrix (qmat<vec_t, 2, 3>): two 3-vectors as rows. -/
structure qmat2x3 (K : Type) where
  row0 : qvec3 K
  row1 : qvec3 K
deriving DecidableEq

section vec
variable {K : Type} [LinearOrderedField K]

/-- The first three components of a row (qvec4::xyz). -/
def qvec4.xyz (v : qvec4 K) : qvec3 K := ⟨v.x, v.y, v.z⟩

/-- Component access v[i]. -/
def qvec3.get (v : qvec3 K) (i : Nat) : K :=
  match i with
  | 0 => v.x
  | 1 => v.y
  | _ => v.z

/-- Component update v[i] = a. -/
def qvec3.set (v : qvec3 K) (i : Nat) (a : K) : qvec3 K :=
  match i with
  | 0 => { v with x := a }
  | 1 => { v with y := a }
  | _ => { v with z := a }

/-- The zero vector. -/
def qvec3.zero : qvec3 K := ⟨0, 0, 0⟩

/-- Vector sum. -/
def qvec3.add (a b : qvec3 K) : qvec3 K := ⟨a.x + b.x, a.y + b.y, a.z + b.z⟩

/-- Vector difference. -/
def qvec3.sub (a b : qvec3 K) : qvec3 K := ⟨a.x - b.x, a.y - b.y, a.z - b.z⟩

/-- Negated vector. -/
def qvec3.neg (a : qvec3 K) : qvec3 K := ⟨-a.x, -a.y, -a.z⟩

/-- Vector times scalar. -/
def qvec3.scale (a : qvec3 K) (c : K) : qvec3 K := ⟨a.x * c, a.y * c, a.z * c⟩

/-- Vector divided by scalar. -/
def qvec3.div (a : qvec3 K) (c : K) : qvec3 K := ⟨a.x / c, a.y / c, a.z / c⟩

/-- Dot product (qv::dot). -/
def qv.dot (a b : qvec3 K) : K := a.x * b.x + a.y * b.y + a.z * b.z

/-- Cross product (qv::cross). -/
def qv.cross (a b : qvec3 K) : qvec3 K :=
  ⟨a.y * b.z - a.z * b.y, a.z * b.x - a.x * b.z, a.x * b.y - a.y * b.x⟩

/-- Modelled from the spec: qv::length of common/qvec.hh, which is not among
the sources; the Euclidean length, the square root of the dot product of the
vector with itself. -/
def qv.length (m : libm K) (a : qvec3 K) : K := m.sqrt (qv.dot a a)

/-- Modelled from the spec: qv::normalize / qv::normalizeInPlace of
common/qvec.hh, which is not among the sources ("normalizes each axis vector to
unit length"): returns the length and the vector divided by its length.  A
vector of length zero is returned as it is. -/
def qv.normalize (m : libm K) (a : qvec3 K) : K × qvec3 K :=
  let len := qv.length m a
  (len, if len = 0 then a else a.div len)

end vec

/-! ## Valve-220 texture definitions -/

/-- The texdef_valve_t record: two axes, per-axis scale and shift. -/
structure texdef_valve_t (K : Type) where
  axis : qmat2x3 K
  scale : qvec2 K
  shift : qvec2 K
deriving DecidableEq

section valve
variable {K : Type} [LinearOrderedField K]

/-- SetTexinfo_Valve220: the texture vectors written for a Valve-220 texture
definition. -/
def SetTexinfo_Valve220 (axis : qmat2x3 K) (shift scale : qvec2 K) : texvecf K :=
  { row0 := ⟨axis.row0.x / scale.x, axis.row0.y / scale.x, axis.row0.z / scale.x, shift.x⟩
    row1 := ⟨axis.row1.x / scale.y, axis.row1.y / scale.y, axis.row1.z / scale.y, shift.y⟩ }

/-- One iteration of the loop of TexDef_BSPToValve: axis, scale and shift
recovered from one row of the texture vectors. -/
def TexDef_BSPToValve_row (m : libm K) (row : qvec4 K) : qvec3 K × K × K :=
  let n := qv.normalize m row.xyz
  let length := n.1
  let scale : K := if length ≠ 0 then 1 / length else 0
  (n.2, scale, row.w)

/-- TexDef_BSPToValve: the Valve-220 definition recovered from texture
vectors. -/
def TexDef_BSPToValve (m : libm K) (in_vecs : texvecf K) : texdef_valve_t K :=
  let r0 := TexDef_BSPToValve_row m in_vecs.row0
  let r1 := TexDef_BSPToValve_row m in_vecs.row1
  { axis := ⟨r0.1, r1.1⟩
    scale := ⟨r0.2.1, r1.2.1⟩
    shift := ⟨r0.2.2, r1.2.2⟩ }

end valve

/-! ## Planes, faces, brushes, entities -/

/-- A plane (qplane3d / qbsp_plane_t): normal and distance from the origin. -/
structure qplane3 (K : Type) where
  normal : qvec3 K
  dist : K
deriving DecidableEq

/-- Bounding box (aabb3d). -/
structure aabb3 (K : Type) where
  mins : qvec3 K
  maxs : qvec3 K
deriving DecidableEq

/-- Content flags (contentflags_t): the native bits and the extended flags set
by Brush_GetContents. -/
structure contentflags_t where
  native : Int := 0
  mirrored : Option Bool := none
  clips_same_type : Option Bool := none
  illusionary_visblocker : Bool := false
deriving DecidableEq

/-- Surface flags (surfflags_t). -/
structure surfflags_t (K : Type) where
  native : Int
  is_skip : Bool
  is_hint : Bool
  no_expand : Bool
  no_dirt : Bool
  no_shadow : Bool
  no_bounce : Bool
  no_minlight : Bool
  light_ignore : Bool
  phong_angle : K
  phong_angle_concave : K
  minlight : K
  minlight_color : qvec3 K
  light_alpha : K
deriving DecidableEq

/-- Extended (Quake II) texture info read with a face (extended_texinfo_t). -/
structure extended_texinfo_t where
  contents : Int := 0
  flags : Int := 0
  value : Int := 0
  animation : String := ""
deriving DecidableEq

/-- One entry of the texinfo table (maptexinfo_t). -/
structure maptexinfo_t (K : Type) where
  vecs : texvecf K
  flags : surfflags_t K
  value : Int
  miptex : Nat
  next : Option Nat
  outputnum : Option Nat
deriving DecidableEq

/-- One entry of the texture table (maptexdata_t). -/
structure maptexdata_t where
  name : String
  flags : Int := 0
  value : Int := 0
  animation : String := ""
  animation_miptex : Option Nat := none
deriving DecidableEq

/-- The three points that define the plane of a face. -/
structure planepts_t (K : Type) where
  p0 : qvec3 K
  p1 : qvec3 K
  p2 : qvec3 K
deriving DecidableEq

/-- A brush face (mapface_t).  An empty winding list is "no winding". -/
structure mapface_t (K : Type) where
  planepts : planepts_t K
  planenum : Nat
  texname : String
  texinfo : Nat
  contents : contentflags_t
  line : Nat
  winding : List (qvec3 K)
  bevel : Bool
  lmshift : Int
  raw_info : Option extended_texinfo_t
deriving DecidableEq

/-- Source format of a brush (brushformat_t). -/
inductive brushformat_t where
  | NORMAL
  | BRUSH_PRIMITIVES
deriving DecidableEq

/-- A brush (mapbrush_t). -/
structure mapbrush_t (K : Type) where
  faces : List (mapface_t K)
  format : brushformat_t
  bounds : aabb3 K
  contents : contentflags_t
  lmshift : Int
  is_hint : Bool
  func_areaportal : Bool
  line : Nat
deriving DecidableEq

/-- Rotation classification of an entity (rotation_t). -/
inductive rotation_t where
  | none
  | hipnotic
  | origin_brush
deriving DecidableEq

/-- An entity (mapentity_t).  The key/value pairs are kept in insertion
order. -/
structure mapentity_t (K : Type) where
  epairs : List (String × String)
  origin : qvec3 K
  rotation : rotation_t
  mapbrushes : List (mapbrush_t K)
  numboxbevels : Nat
  numedgebevels : Nat
  areaportalnum : Nat
  location : Nat
deriving DecidableEq

/-- The texture definition read for a face by ParseTextureDef: the grammar that
was recognised (texcoord_style_t) together with the numbers read. -/
inductive texdef_src (K : Type) where
  | TX_QUAKED (shift : qvec2 K) (rotate : K) (scale : qvec2 K)
  | TX_QUARK_TYPE1 (shift : qvec2 K) (rotate : K) (scale : qvec2 K)
  | TX_QUARK_TYPE2 (shift : qvec2 K) (rotate : K) (scale : qvec2 K)
  | TX_VALVE_220 (axis : qmat2x3 K) (shift : qvec2 K) (rotate : K) (scale : qvec2 K)
  | TX_BRUSHPRIM (texMat : qmat2x3 K)

/-- The text of one face of a brush, split into the parts that ParsePlaneDef
and ParseTextureDef read: source line, plane points, texture name, texture
definition and the optional extended info.  Tokenisation (common/parser.hh) is
not among the sources. -/
structure face_src (K : Type) where
  line : Nat
  planepts : planepts_t K
  texname : String
  texdef : texdef_src K
  extinfo : Option extended_texinfo_t

/-- What ParseTextureDef stores in the face and the texinfo besides the texture
vectors, and the size of the texture when its metadata is known. -/
structure texture_attrs (K : Type) where
  texname : String
  raw_info : Option extended_texinfo_t
  contents : contentflags_t
  miptex : Nat
  flags : surfflags_t K
  value : Int
  size : Option (Int × Int)

/-- The command-line options read by the code (qbsp_options). -/
structure qbsp_options_t (K : Type) where
  oldaxis : Bool
  oldrottex : Bool
  epsilon : K
  worldextent : K

/-- Constants and helper functions that map.cc takes from headers which are not
among the sources (qbsp.hh, common/qvec.hh, common/polylib.hh, common/aabb.hh):
they are parameters of the embedding. -/
structure qbsp_env (K : Type) where
  NORMAL_EPSILON : K
  ZERO_EPSILON : K
  ANGLEEPSILON : K
  /-- qv::epsilonEqual on planes -/
  epsilonEqual : qplane3 K → qplane3 K → Bool
  /-- qv::Snap -/
  Snap : qvec3 K → qvec3 K
  /-- BaseWindingForPlane; none is a missing winding -/
  BaseWindingForPlane : qplane3 K → Option (List (qvec3 K))
  /-- winding_t::clip_front -/
  clip_front : List (qvec3 K) → qplane3 K → K → Option (List (qvec3 K))
  /-- the bounds of the default-constructed aabb3d -/
  aabb_empty : aabb3 K
  /-- qv::to_string on vectors -/
  to_string : qvec3 K → String
  /-- The part of ParseTextureDef that resolves texture name, extended info,
  contents and flags of a face (texture remapping, load_image_meta, FindMiptex,
  game rules).  It reads and extends the texture table only. -/
  ParseTextureDef_attrs : List maptexdata_t → face_src K → List maptexdata_t × texture_attrs K
  /-- SurfFlagsForEntity -/
  SurfFlagsForEntity : List maptexdata_t → maptexinfo_t K → mapentity_t K → surfflags_t K
  /-- FindTexinfo: reads the texture table, extends the texinfo table and
  returns the index of the texinfo. -/
  FindTexinfo : List maptexdata_t → List (maptexinfo_t K) → maptexinfo_t K →
    List (maptexinfo_t K) × Nat
  /-- entdict_t::get_float: the number stored under a key of an entity -/
  epairs_get_float : List (String × String) → String → K
  /-- the conversion of a floating-point value to int -/
  to_int : K → Int
  /-- whether the members width and height of img::texture_meta
  (common/imglib.hh) have an unsigned 32-bit type; otherwise they are ints -/
  texture_meta_unsigned : Bool
  /-- contentflags_t::is_origin for the target game -/
  contents_is_origin : contentflags_t → Bool
  /-- FixRotateOrigin: the origin of a "rotate_" entity -/
  FixRotateOrigin : mapentity_t K → qvec3 K

section planes
variable {K : Type} [LinearOrderedField K]

/-- The flipped plane (unary minus of qplane3d). -/
def qplane3.neg (p : qplane3 K) : qplane3 K := ⟨p.normal.neg, -p.dist⟩

/-- Modelled from the spec: mapdata_t::get_plane of qbsp/map.hh, which is not
among the sources; the plane stored at the given index of the plane table. -/
def get_plane (planes : List (qplane3 K)) (planenum : Nat) : qplane3 K :=
  planes.getD planenum ⟨qvec3.zero, 0⟩

/-- Modelled from the spec: mapdata_t::add_or_find_plane of qbsp/map.hh, which
is not among the sources: "returns the existing index if a geometrically equal
plane (exact numeric match) already exists; otherwise appends a new entry and
also implicitly allocates the flipped plane at the adjacent index".  Returns the
new table and the index. -/
def add_or_find_plane (planes : List (qplane3 K)) (p : qplane3 K) : List (qplane3 K) × Nat :=
  if p ∈ planes then (planes, planes.indexOf p)
  else (planes ++ [p, p.neg], planes.length)

/-- Plane of a face: mapface_t::get_plane. -/
def mapface_t.get_plane (planes : List (qplane3 K)) (f : mapface_t K) : qplane3 K :=
  qbsp.get_plane planes f.planenum

/-- Plane computation of mapface_t::set_planepts: the normalised cross product
of the two edge vectors, its length before normalisation, and the distance. -/
def planepts_plane (m : libm K) (pts : planepts_t K) : K × qplane3 K :=
  let ab := pts.p0.sub pts.p1
  let cb := pts.p2.sub pts.p1
  let n := qv.normalize m (qv.cross ab cb)
  let length := n.1
  let normal := n.2
  let dist := qv.dot pts.p1 normal
  (length, ⟨normal, dist⟩)

/-- The method mapface_t::set_planepts: stores the points, registers the plane
in the plane table and returns whether the normal is long enough. -/
def mapface_t.set_planepts (env : qbsp_env K) (m : libm K) (planes : List (qplane3 K))
    (face : mapface_t K) (pts : planepts_t K) : List (qplane3 K) × mapface_t K × Bool :=
  let lp := planepts_plane m pts
  let r := add_or_find_plane planes lp.2
  (r.1, { face with planepts := pts, planenum := r.2 }, decide (env.NORMAL_EPSILON ≤ lp.1))

end planes

/-! ## Quake-Ed texture axes and projection validation -/

section quaked
variable {K : Type} [LinearOrderedField K]

/-- The table baseaxis of TextureAxisFromPlane: for each of the six base
orientations the base normal and the two texture axes. -/
def baseaxis : List (qvec3 K) :=
  [⟨0, 0, 1⟩, ⟨1, 0, 0⟩, ⟨0, -1, 0⟩, -- floor
   ⟨0, 0, -1⟩, ⟨1, 0, 0⟩, ⟨0, -1, 0⟩, -- ceiling
   ⟨1, 0, 0⟩, ⟨0, 1, 0⟩, ⟨0, 0, -1⟩, -- west wall
   ⟨-1, 0, 0⟩, ⟨0, 1, 0⟩, ⟨0, 0, -1⟩, -- east wall
   ⟨0, 1, 0⟩, ⟨1, 0, 0⟩, ⟨0, 0, -1⟩, -- south wall
   ⟨0, -1, 0⟩, ⟨1, 0, 0⟩, ⟨0, 0, -1⟩] -- north wall

/-- Entry i of the table baseaxis. -/
def baseaxis_at (i : Nat) : qvec3 K := (baseaxis : List (qvec3 K)).getD i qvec3.zero

/-- One iteration of the search loop of TextureAxisFromPlane; the state is
(best, bestaxis). -/
def TextureAxisFromPlane_step (oldaxis : Bool) (normal : qvec3 K) (acc : K × Nat) (i : Nat) :
    K × Nat :=
  let dot := qv.dot normal (baseaxis_at (i * 3))
  if dot > acc.1 ∨ (dot = acc.1 ∧ oldaxis = false) then (dot, i) else acc

/-- The index bestaxis found by TextureAxisFromPlane. -/
def TextureAxisFromPlane_best (oldaxis : Bool) (normal : qvec3 K) : K × Nat :=
  (List.range 6).foldl (TextureAxisFromPlane_step oldaxis normal) (0, 0)

/-- TextureAxisFromPlane: returns (xv, yv, snapped_normal). -/
def TextureAxisFromPlane (oldaxis : Bool) (plane : qplane3 K) : qvec3 K × qvec3 K × qvec3 K :=
  let bestaxis := (TextureAxisFromPlane_best oldaxis plane.normal).2
  (baseaxis_at (bestaxis * 3 + 1), baseaxis_at (bestaxis * 3 + 2), baseaxis_at (bestaxis * 3))

/-- The rotation step of SetTexinfo_QuakeEd applied to one texture axis. -/
def SetTexinfo_QuakeEd_rotate (sinv cosv : K) (sv tv : Nat) (v : qvec3 K) : qvec3 K :=
  let ns := cosv * v.get sv - sinv * v.get tv
  let nt := sinv * v.get sv + cosv * v.get tv
  (v.set sv ns).set tv nt

/-- SetTexinfo_QuakeEd: the texture vectors of a Quake-Ed texture definition
(shift, rotate, scale) on the given plane.  The self-tests under "if (false)"
are dead code and are left out. -/
def SetTexinfo_QuakeEd (opts : qbsp_options_t K) (m : libm K) (plane : qplane3 K)
    (_planepts : planepts_t K) (shift : qvec2 K) (rotate : K) (scale : qvec2 K) : texvecf K :=
  let ax := TextureAxisFromPlane opts.oldaxis plane
  let vecs0 := ax.1
  let vecs1 := ax.2.1
  let ang := rotate / 180 * m.pi
  let sinv := m.sin ang
  let cosv := m.cos ang
  let sv : Nat := if vecs0.x ≠ 0 then 0 else if vecs0.y ≠ 0 then 1 else 2
  let tv : Nat := if vecs1.x ≠ 0 then 0 else if vecs1.y ≠ 0 then 1 else 2
  let r0 := SetTexinfo_QuakeEd_rotate sinv cosv sv tv vecs0
  let r1 := SetTexinfo_QuakeEd_rotate sinv cosv sv tv vecs1
  let s0 := if scale.x ≠ 0 then scale.x else 1
  let s1 := if scale.y ≠ 0 then scale.y else 1
  { row0 := ⟨r0.x / s0, r0.y / s0, r0.z / s0, shift.x⟩
    row1 := ⟨r1.x / s1, r1.y / s1, r1.z / s1, shift.y⟩ }

/-- IsValidTextureProjection on vectors.  The isnan tests of the source have
no counterpart: no value of the exact model is NaN.  The inputs for which the
floating-point code produces NaN (a zero cross product, which cannot be
normalised) give cosangle 0 here and are rejected by the epsilon test. -/
def IsValidTextureProjection (env : qbsp_env K) (m : libm K) (faceNormal s_vec t_vec : qvec3 K) :
    Bool :=
  let tex_normal := (qv.normalize m (qv.cross s_vec t_vec)).2
  let cosangle := qv.dot tex_normal faceNormal
  if |cosangle| < env.ZERO_EPSILON then false else true

/-- IsValidTextureProjection on a face and its texinfo. -/
def IsValidTextureProjection_face (env : qbsp_env K) (m : libm K) (planes : List (qplane3 K))
    (mapface : mapface_t K) (tx : maptexinfo_t K) : Bool :=
  IsValidTextureProjection env m (mapface.get_plane planes).normal tx.vecs.row0.xyz tx.vecs.row1.xyz

/-- ValidateTextureProjection: an invalid projection is replaced by the default
Quake-Ed projection (shift 0, rotate 0, scale 1).  The result none stands for a
failure of the Q_assert after the repair, which aborts the program. -/
def ValidateTextureProjection (env : qbsp_env K) (opts : qbsp_options_t K) (m : libm K)
    (planes : List (qplane3 K)) (mapface : mapface_t K) (tx : maptexinfo_t K) :
    Option (maptexinfo_t K) :=
  if IsValidTextureProjection_face env m planes mapface tx then some tx
  else
    let vecs := SetTexinfo_QuakeEd opts m (mapface.get_plane planes) mapface.planepts
      ⟨0, 0⟩ 0 ⟨1, 1⟩
    let tx2 := { tx with vecs := vecs }
    if IsValidTextureProjection_face env m planes mapface tx2 then some tx2 else none

end quaked

/-! ## Default values and an example environment -/

section defaults
variable {K : Type} [LinearOrderedField K]

/-- A default-constructed surfflags_t. -/
def surfflags_t.default : surfflags_t K :=
  { native := 0, is_skip := false, is_hint := false, no_expand := false, no_dirt := false,
    no_shadow := false, no_bounce := false, no_minlight := false, light_ignore := false,
    phong_angle := 0, phong_angle_concave := 0, minlight := 0, minlight_color := qvec3.zero,
    light_alpha := 0 }

/-- A default-constructed maptexinfo_t. -/
def maptexinfo_t.default : maptexinfo_t K :=
  { vecs := ⟨⟨0, 0, 0, 0⟩, ⟨0, 0, 0, 0⟩⟩, flags := surfflags_t.default, value := 0, miptex := 0,
    next := none, outputnum := none }

/-- A default-constructed mapface_t. -/
def mapface_t.default : mapface_t K :=
  { planepts := ⟨qvec3.zero, qvec3.zero, qvec3.zero⟩, planenum := 0, texname := "", texinfo := 0,
    contents := {}, line := 0, winding := [], bevel := false, lmshift := 0, raw_info := none }

/-- An instance of the environment, used to run the code on examples: small
positive tolerances, planes compared component by component within the
tolerances, no snapping, no windings, every texture name entered as a new
texture, texinfos looked up by equality, no numeric entity keys, and the
contents value -7 (CONTENTS_ORIGIN of Quake) as the origin contents. -/
def qbsp_env.sample : qbsp_env K :=
  { NORMAL_EPSILON := 1 / 1000000
    ZERO_EPSILON := 1 / 10000
    ANGLEEPSILON := 1 / 1000000
    epsilonEqual := fun p q =>
      decide (|p.normal.x - q.normal.x| ≤ 1 / 1000000) &&
      decide (|p.normal.y - q.normal.y| ≤ 1 / 1000000) &&
      decide (|p.normal.z - q.normal.z| ≤ 1 / 1000000) &&
      decide (|p.dist - q.dist| ≤ 1 / 10000)
    Snap := fun v => v
    BaseWindingForPlane := fun _ => none
    clip_front := fun w _ _ => some w
    aabb_empty := ⟨qvec3.zero, qvec3.zero⟩
    to_string := fun _ => ""
    ParseTextureDef_attrs := fun miptex src =>
      (miptex ++ [{ name := src.texname }],
        { texname := src.texname, raw_info := src.extinfo, contents := {},
          miptex := miptex.length, flags := surfflags_t.default, value := 0, size := none })
    SurfFlagsForEntity := fun _ tx _ => tx.flags
    FindTexinfo := fun _ mtexinfos tx =>
      if tx ∈ mtexinfos then (mtexinfos, mtexinfos.indexOf tx)
      else (mtexinfos ++ [tx], mtexinfos.length)
    epairs_get_float := fun _ _ => 0
    to_int := fun _ => 0
    texture_meta_unsigned := false
    contents_is_origin := fun c => decide (c.native = -7)
    FixRotateOrigin := fun e => e.origin }

/-- Example options: all compatibility switches off. -/
def qbsp_options_t.sample : qbsp_options_t K :=
  { oldaxis := false, oldrottex := false, epsilon := 1 / 10000, worldextent := 65536 }

end defaults

/-! ## QuArK and brush-primitives texture definitions -/

section quark
variable {K : Type} [LinearOrderedField K]

/-- SetTexinfo_QuArK for style TX_QUARK_TYPE1 (type2 = false) or
TX_QUARK_TYPE2 (type2 = true). -/
def SetTexinfo_QuArK (env : qbsp_env K) (planepts : planepts_t K) (type2 : Bool) : texvecf K :=
  let v0 := if type2 then planepts.p1.sub planepts.p0 else planepts.p2.sub planepts.p0
  let v1 := if type2 then planepts.p2.sub planepts.p0 else planepts.p1.sub planepts.p0
  let vecs0 := v0.scale (1 / 128)
  let vecs1 := v1.scale (1 / 128)
  let a := qv.dot vecs0 vecs0
  let b := qv.dot vecs0 vecs1
  let c := b
  let d := qv.dot vecs1 vecs1
  let determinant := a * d - b * c
  let out0 : qvec3 K :=
    if |determinant| < env.ZERO_EPSILON then qvec3.zero
    else ⟨(d * vecs0.x - b * vecs1.x) / determinant, (d * vecs0.y - b * vecs1.y) / determinant,
          (d * vecs0.z - b * vecs1.z) / determinant⟩
  let out1 : qvec3 K :=
    if |determinant| < env.ZERO_EPSILON then qvec3.zero
    else ⟨-(a * vecs1.x - c * vecs0.x) / determinant, -(a * vecs1.y - c * vecs0.y) / determinant,
          -(a * vecs1.z - c * vecs0.z) / determinant⟩
  { row0 := ⟨out0.x, out0.y, out0.z, -qv.dot out0 planepts.p0⟩
    row1 := ⟨out1.x, out1.y, out1.z, -qv.dot out1 planepts.p0⟩ }

/-- ComputeAxisBase: the texture axes texX, texY of brush primitives. -/
def ComputeAxisBase (m : libm K) (normal_unsanitized : qvec3 K) : qvec3 K × qvec3 K :=
  let nx : K := if |normal_unsanitized.x| < 1 / 1000000 then 0 else normal_unsanitized.x
  let ny : K := if |normal_unsanitized.y| < 1 / 1000000 then 0 else normal_unsanitized.y
  let nz : K := if |normal_unsanitized.z| < 1 / 1000000 then 0 else normal_unsanitized.z
  let RotY := -m.atan2 nz (m.sqrt (ny * ny + nx * nx))
  let RotZ := m.atan2 ny nx
  (⟨-m.sin RotZ, m.cos RotZ, 0⟩,
   ⟨-m.sin RotY * m.cos RotZ, -m.sin RotY * m.sin RotZ, -m.cos RotY⟩)

/-- SetTexinfo_BrushPrimitives. -/
def SetTexinfo_BrushPrimitives (m : libm K) (texMat : qmat2x3 K) (faceNormal : qvec3 K)
    (texWidth texHeight : Int) : texvecf K :=
  let b := ComputeAxisBase m faceNormal
  let texX := b.1
  let texY := b.2
  let w : K := texWidth
  let h : K := texHeight
  { row0 := ⟨w * (texX.x * texMat.row0.x + texY.x * texMat.row0.y),
             w * (texX.y * texMat.row0.x + texY.y * texMat.row0.y),
             w * (texX.z * texMat.row0.x + texY.z * texMat.row0.y),
             w * texMat.row0.z⟩
    row1 := ⟨h * (texX.x * texMat.row1.x + texY.x * texMat.row1.y),
             h * (texX.y * texMat.row1.x + texY.y * texMat.row1.y),
             h * (texX.z * texMat.row1.x + texY.z * texMat.row1.y),
             h * texMat.row1.z⟩ }

end quark

/-! ## Parsing faces and brushes -/

/-- The tables of the global map object that parsing reads and extends. -/
structure mapdata_t (K : Type) where
  planes : List (qplane3 K)
  mtexinfos : List (maptexinfo_t K)
  miptex : List maptexdata_t

section parse
variable {K : Type} [LinearOrderedField K]

/-- The switch at the end of ParseTextureDef: the texture vectors for the
texture definition that was read. -/
def ParseTextureDef_vecs (env : qbsp_env K) (opts : qbsp_options_t K) (m : libm K)
    (attrs : texture_attrs K) (texdef : texdef_src K) (planepts : planepts_t K)
    (plane : qplane3 K) : texvecf K :=
  match texdef with
  | .TX_QUARK_TYPE1 _ _ _ => SetTexinfo_QuArK env planepts false
  | .TX_QUARK_TYPE2 _ _ _ => SetTexinfo_QuArK env planepts true
  | .TX_VALVE_220 axis shift _ scale => SetTexinfo_Valve220 axis shift scale
  | .TX_BRUSHPRIM texMat =>
    let width : Int := match attrs.size with
      | some sz => sz.1
      | none => 64
    let height : Int := match attrs.size with
      | some sz => sz.2
      | none => 64
    SetTexinfo_BrushPrimitives m texMat plane.normal width height
  | .TX_QUAKED shift rotate scale => SetTexinfo_QuakeEd opts m plane planepts shift rotate scale

/-- The rounding step of ParseBrushFace on one component. -/
def snapToInteger (env : qbsp_env K) (m : libm K) (v : K) : K :=
  let r := m.rint v
  if |v - r| < env.ZERO_EPSILON then r else v

/-- The rounding loop of ParseBrushFace over the eight components. -/
def snapTexvecs (env : qbsp_env K) (m : libm K) (vecs : texvecf K) : texvecf K :=
  let f := snapToInteger env m
  { row0 := ⟨f vecs.row0.x, f vecs.row0.y, f vecs.row0.z, f vecs.row0.w⟩
    row1 := ⟨f vecs.row1.x, f vecs.row1.y, f vecs.row1.z, f vecs.row1.w⟩ }

/-- ParseBrushFace.  The outer none stands for an abort (the Q_assert of
ValidateTextureProjection); the inner none is the std::nullopt returned for a
face without a normal. -/
def ParseBrushFace (env : qbsp_env K) (opts : qbsp_options_t K) (m : libm K) (map : mapdata_t K)
    (entity : mapentity_t K) (src : face_src K) : Option (mapdata_t K × Option (mapface_t K)) :=
  let face0 : mapface_t K := { (mapface_t.default : mapface_t K) with line := src.line }
  let sp := mapface_t.set_planepts env m map.planes face0 src.planepts
  let planes := sp.1
  let face1 := sp.2.1
  let normal_ok := sp.2.2
  -- ParseTextureDef
  let pa := env.ParseTextureDef_attrs map.miptex src
  let miptex := pa.1
  let attrs := pa.2
  let face2 : mapface_t K :=
    { face1 with texname := attrs.texname, raw_info := attrs.raw_info, contents := attrs.contents }
  let tx0 : maptexinfo_t K :=
    { (maptexinfo_t.default : maptexinfo_t K) with
      miptex := attrs.miptex, flags := attrs.flags, value := attrs.value,
      vecs := (ParseTextureDef_vecs env opts m attrs src.texdef face2.planepts
        (face2.get_plane planes)) }
  if normal_ok = false then
    some ({ planes := planes, mtexinfos := map.mtexinfos, miptex := miptex }, none)
  else
    let tx1 : maptexinfo_t K := { tx0 with vecs := (snapTexvecs env m tx0.vecs) }
    match ValidateTextureProjection env opts m planes face2 tx1 with
    | none => none
    | some tx2 =>
      let tx3 : maptexinfo_t K := { tx2 with flags := (env.SurfFlagsForEntity miptex tx2 entity) }
      let ft := env.FindTexinfo miptex map.mtexinfos tx3
      some ({ planes := planes, mtexinfos := ft.1, miptex := miptex },
        some { face2 with texinfo := ft.2 })

/-- One iteration of the duplicate-plane check of ParseBrush: the state is
discardFace and the messages printed. -/
def ParseBrush_check_step (env : qbsp_env K) (planes : List (qplane3 K)) (face : mapface_t K)
    (acc : Bool × List String) (check : mapface_t K) : Bool × List String :=
  if env.epsilonEqual (check.get_plane planes) (face.get_plane planes) then
    (true, acc.2 ++ ["Brush with duplicate plane"])
  else if env.epsilonEqual (check.get_plane planes).neg (face.get_plane planes) then
    (acc.1, acc.2 ++ ["Brush with duplicate plane"])
  else acc

/-- The duplicate-plane check of ParseBrush for a parsed face against the faces
kept so far: returns discardFace and the messages printed. -/
def ParseBrush_check (env : qbsp_env K) (planes : List (qplane3 K)) (faces : List (mapface_t K))
    (face : mapface_t K) : Bool × List String :=
  faces.foldl (ParseBrush_check_step env planes face) (false, [])

/-- The face loop of ParseBrush over the faces of the brush text, in source
order.  The state is the map tables, the brush and the messages printed; none
stands for an abort. -/
def ParseBrush_faces (env : qbsp_env K) (opts : qbsp_options_t K) (m : libm K)
    (entity : mapentity_t K) :
    mapdata_t K → mapbrush_t K → List String → List (face_src K) →
      Option (mapdata_t K × mapbrush_t K × List String)
  | map, brush, log, [] => some (map, brush, log)
  | map, brush, log, src :: rest =>
    let brush1 : mapbrush_t K := if brush.line = 0 then { brush with line := src.line } else brush
    match ParseBrushFace env opts m map entity src with
    | none => none
    | some (map2, none) =>
      ParseBrush_faces env opts m entity map2 brush1 (log ++ ["WARNING: Brush plane with no normal"])
        rest
    | some (map2, some face) =>
      let c := ParseBrush_check env map2.planes brush1.faces face
      if c.1 then
        ParseBrush_faces env opts m entity map2 brush1 (log ++ c.2) rest
      else
        ParseBrush_faces env opts m entity map2 { brush1 with faces := brush1.faces ++ [face] }
          (log ++ c.2) rest

end parse

section parse_spec
variable {K : Type} [LinearOrderedField K]

/-- Specification of the face loop of ParseBrush on the plane points alone: a
face is appended to the faces kept so far when its normal is long enough and
its plane does not compare equal to the plane of a face kept before it. -/
def keptPlanepts (env : qbsp_env K) (m : libm K) :
    List (planepts_t K) → List (planepts_t K) → List (planepts_t K)
  | kept, [] => kept
  | kept, p :: rest =>
    if env.NORMAL_EPSILON ≤ (planepts_plane m p).1 ∧
        (kept.any fun k => env.epsilonEqual (planepts_plane m k).2 (planepts_plane m p).2) = false
    then keptPlanepts env m (kept ++ [p]) rest
    else keptPlanepts env m kept rest

/-- Invariant of the faces kept by ParseBrush: the plane number is an index of
the plane table, the plane stored there is the one computed from the plane
points of the face, and the normal computed from them was long enough. -/
def mapface_t.FromPlanepts (env : qbsp_env K) (m : libm K) (planes : List (qplane3 K))
    (f : mapface_t K) : Prop :=
  f.planenum < planes.length ∧ f.get_plane planes = (planepts_plane m f.planepts).2 ∧
    env.NORMAL_EPSILON ≤ (planepts_plane m f.planepts).1

/-- A default-constructed mapbrush_t. -/
def mapbrush_t.default : mapbrush_t K :=
  { faces := [], format := brushformat_t.NORMAL, bounds := ⟨qvec3.zero, qvec3.zero⟩,
    contents := {}, lmshift := 0, is_hint := false, func_areaportal := false, line := 0 }

/-- A default-constructed mapentity_t. -/
def mapentity_t.default : mapentity_t K :=
  { epairs := [], origin := qvec3.zero, rotation := rotation_t.none, mapbrushes := [],
    numboxbevels := 0, numedgebevels := 0, areaportalnum := 0, location := 0 }

/-- The map tables after mapdata_t::reset: all empty. -/
def mapdata_t.empty : mapdata_t K := { planes := [], mtexinfos := [], miptex := [] }

/-- The face line "( p0 ) ( p1 ) ( p2 ) skip 0 0 0 1 1": a Quake-Ed texture
definition with shift 0, rotation 0 and scale 1. -/
def face_src.plain (line : Nat) (p0 p1 p2 : qvec3 K) : face_src K :=
  { line := line, planepts := ⟨p0, p1, p2⟩, texname := "skip",
    texdef := texdef_src.TX_QUAKED ⟨0, 0⟩ 0 ⟨1, 1⟩, extinfo := none }

end parse_spec

/-! ## Brush bevels -/

/-- The objects AddBrushBevels works on: the plane table of the map, the
entity (for its bevel counters) and the brush. -/
structure bevel_state (K : Type) where
  planes : List (qplane3 K)
  e : mapentity_t K
  b : mapbrush_t K

section bevels
variable {K : Type} [LinearOrderedField K]

/-- Exchange of two elements of the face list (std::swap on b.faces[a] and
b.faces[b]). -/
def swapFaces (l : List (mapface_t K)) (a b : Nat) : List (mapface_t K) :=
  (l.set a (l.getD b mapface_t.default)).set b (l.getD a mapface_t.default)

/-- The plane that AddBrushBevels builds for a missing axial side: normal dir
along the axis, at the bounding box of the brush. -/
def axialBevelPlane (b : mapbrush_t K) (axis : Nat) (dir : Int) : qplane3 K :=
  { normal := (qvec3.zero : qvec3 K).set axis (dir : K)
    dist := if dir = 1 then b.bounds.maxs.get axis else -(b.bounds.mins.get axis) }

/-- One iteration of the first loop nest of AddBrushBevels, for the given axis
and direction; order is the canonical position of that side. -/
def AddBrushBevels_axial_step (st : bevel_state K) (axis : Nat) (dir : Int) (order : Nat) :
    bevel_state K :=
  -- see if the plane is already present
  let i := st.b.faces.findIdx
    (fun s => decide ((get_plane st.planes s.planenum).normal.get axis = (dir : K)))
  let st1 : bevel_state K :=
    if i = st.b.faces.length then
      -- add a new side; b.faces[0] is read after the emplace_back
      let r := add_or_find_plane st.planes (axialBevelPlane st.b axis dir)
      let first := (st.b.faces ++ [mapface_t.default]).getD 0 mapface_t.default
      let s : mapface_t K :=
        { (mapface_t.default : mapface_t K) with
          planenum := r.2, texinfo := first.texinfo, contents := first.contents,
          texname := first.texname, bevel := true }
      { planes := r.1
        e := { st.e with numboxbevels := st.e.numboxbevels + 1 }
        b := { st.b with faces := st.b.faces ++ [s] } }
    else st
  -- if the plane is not in it canonical order, swap it
  if i ≠ order then { st1 with b := { st1.b with faces := swapFaces st1.b.faces order i } }
  else st1

/-- The six (axis, dir, order) combinations in the order of the loop nest. -/
def axialOrder : List (Nat × Int × Nat) :=
  [(0, -1, 0), (0, 1, 1), (1, -1, 2), (1, 1, 3), (2, -1, 4), (2, 1, 5)]

/-- The first loop nest of AddBrushBevels: the axial planes. -/
def AddBrushBevels_axial (st : bevel_state K) : bevel_state K :=
  axialOrder.foldl (fun s c => AddBrushBevels_axial_step s c.1 c.2.1 c.2.2) st

/-- The hull test of the edge-bevel loop: the candidate plane is not
epsilon-equal to the plane of any face, and no point of any winding lies in
front of it by more than the epsilon option. -/
def edgeBevel_isHull (env : qbsp_env K) (opts : qbsp_options_t K) (st : bevel_state K)
    (plane : qplane3 K) : Bool :=
  st.b.faces.all fun f =>
    !env.epsilonEqual (f.get_plane st.planes) plane &&
    f.winding.all fun p => !decide (qv.dot p plane.normal - plane.dist > opts.epsilon)

/-- The body of the innermost loop nest: the slanted plane through the edge
starting at vertex j of face i, along vec, for one axis and direction. -/
def AddBrushBevels_tryPlane (env : qbsp_env K) (opts : qbsp_options_t K) (m : libm K)
    (i : Nat) (wj vec : qvec3 K) (st : bevel_state K) (axis : Nat) (dir : Int) : bevel_state K :=
  let n := qv.normalize m (qv.cross vec ((qvec3.zero : qvec3 K).set axis (dir : K)))
  let sin_of_angle := n.1
  if sin_of_angle < env.ANGLEEPSILON then st
  else
    let plane : qplane3 K := { normal := n.2, dist := qv.dot wj n.2 }
    if edgeBevel_isHull env opts st plane = false then st
    else
      -- add this plane
      let r := add_or_find_plane st.planes plane
      let fi := st.b.faces.getD i mapface_t.default
      let s : mapface_t K :=
        { (mapface_t.default : mapface_t K) with
          planenum := r.2, texinfo := fi.texinfo, contents := fi.contents,
          texname := fi.texname, bevel := true }
      { planes := r.1
        e := { st.e with numedgebevels := st.e.numedgebevels + 1 }
        b := { st.b with faces := st.b.faces ++ [s] } }

/-- The six (axis, dir) combinations tried for an edge. -/
def edgeOrder : List (Nat × Int) := [(0, -1), (0, 1), (1, -1), (1, 1), (2, -1), (2, 1)]

/-- The body of the loop over the winding of face i, for the edge from vertex
j to vertex (j + 1) mod n. -/
def AddBrushBevels_edge (env : qbsp_env K) (opts : qbsp_options_t K) (m : libm K)
    (i : Nat) (st : bevel_state K) (j : Nat) : bevel_state K :=
  let w := (st.b.faces.getD i mapface_t.default).winding
  let k := (j + 1) % w.length
  let wj := w.getD j qvec3.zero
  let n := qv.normalize m (wj.sub (w.getD k qvec3.zero))
  if n.1 < 1 / 2 then st
  else
    let vec := env.Snap n.2
    -- only test non-axial edges
    if vec.x = -1 ∨ vec.x = 1 ∨ vec.y = -1 ∨ vec.y = 1 ∨ vec.z = -1 ∨ vec.z = 1 then st
    else edgeOrder.foldl (fun s c => AddBrushBevels_tryPlane env opts m i wj vec s c.1 c.2) st

/-- The body of the loop over the faces from position 6 on: a face without
winding is skipped; the winding of face i does not change while its edges are
visited, since faces are only appended. -/
def AddBrushBevels_face (env : qbsp_env K) (opts : qbsp_options_t K) (m : libm K)
    (st : bevel_state K) (i : Nat) : bevel_state K :=
  let w := (st.b.faces.getD i mapface_t.default).winding
  (List.range w.length).foldl (AddBrushBevels_edge env opts m i) st

/-- The loop "for (i = 6; i < b.faces.size(); i++)" over a face list that
grows; the first argument bounds the number of iterations and none is returned
if it is used up before the loop ends. -/
def AddBrushBevels_edgeLoop (env : qbsp_env K) (opts : qbsp_options_t K) (m : libm K) :
    Nat → Nat → bevel_state K → Option (bevel_state K)
  | 0, i, st => if i < st.b.faces.length then none else some st
  | fuel + 1, i, st =>
    if i < st.b.faces.length then
      AddBrushBevels_edgeLoop env opts m fuel (i + 1) (AddBrushBevels_face env opts m st i)
    else some st

/-- AddBrushBevels: the axial planes, then, unless the brush is purely axial,
the edge bevels.  The iteration bound given to the edge loop is the number of
faces plus six times the number of winding vertices; the result none would mean
that the loop has not ended within that bound. -/
def AddBrushBevels (env : qbsp_env K) (opts : qbsp_options_t K) (m : libm K)
    (planes : List (qplane3 K)) (e : mapentity_t K) (b : mapbrush_t K) :
    Option (bevel_state K) :=
  let st := AddBrushBevels_axial { planes := planes, e := e, b := b }
  if st.b.faces.length = 6 then some st
  else
    AddBrushBevels_edgeLoop env opts m
      (st.b.faces.length + 6 * (st.b.faces.map (fun f => f.winding.length)).sum) 6 st

/-- The brushes handed to AddBrushBevels: every face refers to an entry of the
plane table, and the normal of that plane has unit length. -/
def bevel_state.WellFormed (st : bevel_state K) : Prop :=
  ∀ f ∈ st.b.faces, f.planenum < st.planes.length ∧
    qv.dot (f.get_plane st.planes).normal (f.get_plane st.planes).normal = 1

/-- The normal of the canonical side at position order of a brush with bevels:
-X, +X, -Y, +Y, -Z, +Z for the positions 0 to 5. -/
def canonicalNormal (order : Nat) : qvec3 K :=
  (qvec3.zero : qvec3 K).set (order / 2) (if order % 2 = 0 then -1 else 1)

/-- Invariant of the axial loop after k iterations: the state is well formed
and the faces at the positions below k have the canonical normals. -/
def bevel_state.Canonical (st : bevel_state K) (k : Nat) : Prop :=
  st.WellFormed ∧ k ≤ st.b.faces.length ∧
    ∀ j, j < k → ∃ f, st.b.faces[j]? = some f ∧ (f.get_plane st.planes).normal = canonicalNormal j

/-- Relation between the states before and after a part of the edge-bevel
loops: the plane table is extended, the entity changes in its edge-bevel counter
only, and at most n faces are appended to the brush, all without winding and
marked as bevels, as many as the counter was increased by; each takes its
texinfo, contents and texture name from a face that was present (or from a
default-constructed face). -/
def bevel_state.Extends (st st2 : bevel_state K) (n : Nat) : Prop :=
  st.planes <+: st2.planes ∧
  ∃ new : List (mapface_t K),
    st2.b = { st.b with faces := st.b.faces ++ new } ∧
    st2.e = { st.e with numedgebevels := st.e.numedgebevels + new.length } ∧
    new.length ≤ n ∧ ∀ f ∈ new, f.winding = [] ∧ f.bevel = true ∧
      ∃ g ∈ mapface_t.default :: st.b.faces,
        f.texinfo = g.texinfo ∧ f.contents = g.contents ∧ f.texname = g.texname

/-! ### Example brushes -/

/-- The plane table of the example cube: the six sides of the cube from -1 to
1 in the order +X, -X, +Y, -Y, +Z, -Z, each followed by its flipped plane. -/
def cube_planes : List (qplane3 K) :=
  [⟨⟨1, 0, 0⟩, 1⟩, ⟨⟨-1, 0, 0⟩, -1⟩, ⟨⟨-1, 0, 0⟩, 1⟩, ⟨⟨1, 0, 0⟩, -1⟩,
   ⟨⟨0, 1, 0⟩, 1⟩, ⟨⟨0, -1, 0⟩, -1⟩, ⟨⟨0, -1, 0⟩, 1⟩, ⟨⟨0, 1, 0⟩, -1⟩,
   ⟨⟨0, 0, 1⟩, 1⟩, ⟨⟨0, 0, -1⟩, -1⟩, ⟨⟨0, 0, -1⟩, 1⟩, ⟨⟨0, 0, 1⟩, -1⟩]

/-- A face of an example brush: default-constructed but for its plane number. -/
def cube_face (n : Nat) : mapface_t K := { (mapface_t.default : mapface_t K) with planenum := n }

/-- The example cube: six faces on the planes 0, 2, 4, 6, 8, 10 of cube_planes,
in the order +X, -X, +Y, -Y, +Z, -Z. -/
def cube_brush : mapbrush_t K :=
  { (mapbrush_t.default : mapbrush_t K) with
    faces := [cube_face 0, cube_face 2, cube_face 4, cube_face 6, cube_face 8, cube_face 10]
    bounds := ⟨⟨-1, -1, -1⟩, ⟨1, 1, 1⟩⟩ }

/-- An example brush with one slanted face, on the plane with normal
(3/5, 4/5, 0) through the origin, with a triangle as its winding. -/
def wedge_planes : List (qplane3 K) := [⟨⟨3 / 5, 4 / 5, 0⟩, 0⟩, ⟨⟨-3 / 5, -4 / 5, 0⟩, 0⟩]

/-- The brush of the slanted example: a single face with a winding. -/
def wedge_brush : mapbrush_t K :=
  { (mapbrush_t.default : mapbrush_t K) with
    faces := [{ (cube_face 0 : mapface_t K) with
      winding := [⟨0, 0, 0⟩, ⟨4, -3, 0⟩, ⟨4, -3, 5⟩] }]
    bounds := ⟨⟨0, -3, 0⟩, ⟨4, 0, 5⟩⟩ }

end bevels

/-! ## Processing the brushes of the entities -/

/-- The state of the loop over the brushes of one entity in ProcessMapBrushes:
the tables of the map, the entity, and the messages printed.  The brush list of
the entity holds the brushes that were visited and kept so far. -/
structure process_state (K : Type) where
  map : mapdata_t K
  entity : mapentity_t K
  log : List String

section process
variable {K : Type} [LinearOrderedField K]

/-- Modelled from the spec: entdict_t::has of common/entdata.h, which is not
among the sources; whether the "ordered key/value property set" holds the key. -/
def epairs_has (epairs : List (String × String)) (key : String) : Bool :=
  epairs.any (fun kv => kv.1 == key)

/-- Modelled from the spec: entdict_t::get of common/entdata.h, which is not
among the sources; the value stored under the key, or the empty string. -/
def epairs_get (epairs : List (String × String)) (key : String) : String :=
  match epairs.find? (fun kv => kv.1 == key) with
  | some kv => kv.2
  | none => ""

/-- Modelled from the spec: entdict_t::set of common/entdata.h, which is not
among the sources; the value of an existing key is replaced, a new key is
appended to the "ordered key/value property set". -/
def epairs_set (epairs : List (String × String)) (key val : String) : List (String × String) :=
  if epairs_has epairs key then epairs.map (fun kv => if kv.1 == key then (kv.1, val) else kv)
  else epairs ++ [(key, val)]

/-- Modelled from the spec: aabb3d::operator+= with a point (common/aabb.hh,
which is not among the sources); the bounding box grown to contain the point. -/
def aabb3.add_point (b : aabb3 K) (p : qvec3 K) : aabb3 K :=
  ⟨⟨min b.mins.x p.x, min b.mins.y p.y, min b.mins.z p.z⟩,
   ⟨max b.maxs.x p.x, max b.maxs.y p.y, max b.maxs.z p.z⟩⟩

/-- Modelled from the spec: aabb3d::centroid (common/aabb.hh, which is not among
the sources); the "bounding-box centroid", the midpoint of mins and maxs. -/
def aabb3.centroid (b : aabb3 K) : qvec3 K := (b.mins.add b.maxs).scale (1 / 2)

/-- Modelled from the spec: Q_strncasecmp(classname, "rotate_", 7) == 0 (the
function is not among the sources); whether the classname starts with
"rotate_", letter case ignored ('Legacy "rotate_" classname entities'). -/
def classname_is_rotate (classname : String) : Bool :=
  (classname.take 7).toLower == "rotate_"

/-- The method mapface_t::get_texinfo: map.mtexinfos.at(texinfo); none stands
for the exception thrown for an index outside the table. -/
def mapface_t.get_texinfo (mtexinfos : List (maptexinfo_t K)) (f : mapface_t K) :
    Option (maptexinfo_t K) :=
  mtexinfos[f.texinfo]?

/-- The inner loop of CalculateBrushBounds: the winding of face i is clipped by
the flipped planes of the other faces that are not bevels, as long as there is
a winding. -/
def CalculateBrushBounds_clip (env : qbsp_env K) (planes : List (qplane3 K)) (ob : mapbrush_t K)
    (i : Nat) (w0 : Option (List (qvec3 K))) : Option (List (qvec3 K)) :=
  (List.range ob.faces.length).foldl
    (fun w j =>
      match w with
      | none => none
      | some w =>
        let fj := ob.faces.getD j mapface_t.default
        if i = j then some w
        else if fj.bevel then some w
        else env.clip_front w (get_plane planes (fj.planenum ^^^ 1)) 0)
    w0

/-- The body of the loop over the faces in CalculateBrushBounds. -/
def CalculateBrushBounds_face (env : qbsp_env K) (planes : List (qplane3 K)) (ob : mapbrush_t K)
    (i : Nat) : mapbrush_t K :=
  let fi := ob.faces.getD i mapface_t.default
  match CalculateBrushBounds_clip env planes ob i (env.BaseWindingForPlane (fi.get_plane planes)) with
  | some w =>
    -- calc bounds before moving from w
    { ob with
      bounds := w.foldl aabb3.add_point ob.bounds
      faces := ob.faces.set i { fi with winding := w } }
  | none => ob

/-- The messages of the last loop of CalculateBrushBounds; its three iterations
all test the component 0 of the bounds. -/
def CalculateBrushBounds_warnings (opts : qbsp_options_t K) (ob : mapbrush_t K) : List String :=
  (List.range 3).flatMap fun _ =>
    (if ob.bounds.mins.get 0 ≤ -opts.worldextent ∨ ob.bounds.maxs.get 0 ≥ opts.worldextent then
      ["WARNING: brush bounds out of range"] else []) ++
    (if ob.bounds.mins.get 0 ≥ opts.worldextent ∨ ob.bounds.maxs.get 0 ≤ -opts.worldextent then
      ["WARNING: no visible sides on brush"] else [])

/-- CalculateBrushBounds: the brush with its bounds and windings recomputed, and
the messages printed. -/
def CalculateBrushBounds (env : qbsp_env K) (opts : qbsp_options_t K) (planes : List (qplane3 K))
    (ob : mapbrush_t K) : mapbrush_t K × List String :=
  let ob1 := (List.range ob.faces.length).foldl (CalculateBrushBounds_face env planes)
    { ob with bounds := env.aabb_empty }
  (ob1, CalculateBrushBounds_warnings opts ob1)

/-- The loop of MapBrush_IsHint over the faces. -/
def MapBrush_IsHint_faces (mtexinfos : List (maptexinfo_t K)) :
    List (mapface_t K) → Option Bool
  | [] => some false
  | f :: fs =>
    match f.get_texinfo mtexinfos with
    | none => none
    | some tx => if tx.flags.is_hint then some true else MapBrush_IsHint_faces mtexinfos fs

/-- MapBrush_IsHint: whether some face of the brush has the hint flag. -/
def MapBrush_IsHint (mtexinfos : List (maptexinfo_t K)) (brush : mapbrush_t K) : Option Bool :=
  MapBrush_IsHint_faces mtexinfos brush.faces

/-- The loop "while (i > 1) { lmshift++; i /= 2; }" of ProcessMapBrushes; the
first argument bounds the number of iterations. -/
def lmshift_loop : Nat → Int → Int → Option Int
  | 0, i, lmshift => if i > 1 then none else some lmshift
  | fuel + 1, i, lmshift =>
    if i > 1 then lmshift_loop fuel (Int.tdiv i 2) (lmshift + 1) else some lmshift

/-- The light-map shift that ProcessMapBrushes computes for an entity. -/
def entity_lmshift (env : qbsp_env K) (entity : mapentity_t K) : Option Int :=
  let i0 := env.to_int (16 * env.epairs_get_float entity.epairs "_lmscale")
  -- if 0, pick a suitable default
  let i := if i0 = 0 then 16 else i0
  lmshift_loop i.toNat i 0

/-- The branch of ProcessMapBrushes for an origin brush, before the brush is
erased: the entity and the message printed. -/
def ProcessMapBrushes_origin_brush (env : qbsp_env K) ( is_world : Bool) (entity : mapentity_t K)
    (brush : mapbrush_t K) : mapentity_t K × List String :=
  if is_world then (entity, ["WARNING: Ignoring origin brush in worldspawn"])
  else if epairs_has entity.epairs "origin" then
    (entity, ["WARNING: Entity has multiple origin brushes"])
  else
    ({ entity with
        origin := brush.bounds.centroid
        epairs := epairs_set entity.epairs "origin" (env.to_string brush.bounds.centroid) },
      [])

/-- The body of the loop over the brushes of an entity in ProcessMapBrushes.
The statistics counters, which are only printed, are left out. -/
def ProcessMapBrushes_brush (env : qbsp_env K) (opts : qbsp_options_t K) (m : libm K)
    ( is_world : Bool) (lmshift : Int) (areaportal : Bool)
    (st : process_state K) (brush0 : mapbrush_t K) : Option (process_state K) :=
  match MapBrush_IsHint st.map.mtexinfos brush0 with
  | none => none
  | some hint =>
    -- set properties calculated above
    let brush1 : mapbrush_t K :=
      { brush0 with lmshift := lmshift, func_areaportal := areaportal, is_hint := hint }
    -- calculate brush bounds
    let cb := CalculateBrushBounds env opts st.map.planes brush1
    let brush := cb.1
    let log := st.log ++ cb.2
    -- origin brushes are removed, and the origin of the entity is overwritten
    -- with its centroid.
    if env.contents_is_origin brush.contents then
      let r := ProcessMapBrushes_origin_brush env is_world st.entity brush
      some { map := st.map, entity := { r.1 with rotation := rotation_t.origin_brush },
             log := log ++ r.2 }
    else
      -- add the brush bevels
      match AddBrushBevels env opts m st.map.planes st.entity brush with
      | none => none
      | some bs =>
        let faces := bs.b.faces.map fun f => { f with lmshift := bs.b.lmshift }
        some { map := { st.map with planes := bs.planes }
               entity := { bs.e with mapbrushes := bs.e.mapbrushes ++ [{ bs.b with faces := faces }] }
               log := log }

/-- The loop over the brushes of an entity. -/
def ProcessMapBrushes_brushes (env : qbsp_env K) (opts : qbsp_options_t K) (m : libm K)
    ( is_world : Bool) (lmshift : Int) (areaportal : Bool) :
    process_state K → List (mapbrush_t K) → Option (process_state K)
  | st, [] => some st
  | st, brush :: rest =>
    match ProcessMapBrushes_brush env opts m is_world lmshift areaportal st brush with
    | none => none
    | some st1 => ProcessMapBrushes_brushes env opts m is_world lmshift areaportal st1 rest

/-- The body of the loop over the faces of a brush of an entity with a rotation:
the texture offset and the plane are re-expressed relative to the origin of the
entity. -/
def ProcessMapBrushes_offset_face (env : qbsp_env K) (opts : qbsp_options_t K) (origin : qvec3 K)
    (map : mapdata_t K) (f : mapface_t K) : Option (mapdata_t K × mapface_t K) :=
  -- account for texture offset, from txqbsp-xt
  let r1 : Option (mapdata_t K × mapface_t K) :=
    if opts.oldrottex = false then
      match f.get_texinfo map.mtexinfos with
      | none => none
      | some tx =>
        let row0 : qvec4 K := { tx.vecs.row0 with w := tx.vecs.row0.w + qv.dot origin tx.vecs.row0.xyz }
        let row1 : qvec4 K := { tx.vecs.row1 with w := tx.vecs.row1.w + qv.dot origin tx.vecs.row1.xyz }
        let texInfoNew : maptexinfo_t K := { tx with outputnum := none, vecs := ⟨row0, row1⟩ }
        let ft := env.FindTexinfo map.miptex map.mtexinfos texInfoNew
        some ({ map with mtexinfos := ft.1 }, { f with texinfo := ft.2 })
    else some (map, f)
  match r1 with
  | none => none
  | some (map1, f1) =>
    let plane := f1.get_plane map1.planes
    let plane2 : qplane3 K := { plane with dist := plane.dist - qv.dot plane.normal origin }
    let r := add_or_find_plane map1.planes plane2
    some ({ map1 with planes := r.1 }, { f1 with planenum := r.2 })

/-- The loop over the faces of a brush of an entity with a rotation. -/
def ProcessMapBrushes_offset_faces (env : qbsp_env K) (opts : qbsp_options_t K) (origin : qvec3 K) :
    mapdata_t K → List (mapface_t K) → Option (mapdata_t K × List (mapface_t K))
  | map, [] => some (map, [])
  | map, f :: fs =>
    match ProcessMapBrushes_offset_face env opts origin map f with
    | none => none
    | some (map1, f1) =>
      match ProcessMapBrushes_offset_faces env opts origin map1 fs with
      | none => none
      | some (map2, fs1) => some (map2, f1 :: fs1)

/-- The loop "offset brush bounds" over the brushes of an entity with a
rotation; the bounds and windings of each brush are calculated again. -/
def ProcessMapBrushes_offset_brushes (env : qbsp_env K) (opts : qbsp_options_t K)
    (origin : qvec3 K) :
    mapdata_t K → List (mapbrush_t K) → Option (mapdata_t K × List (mapbrush_t K) × List String)
  | map, [] => some (map, [], [])
  | map, brush :: rest =>
    match ProcessMapBrushes_offset_faces env opts origin map brush.faces with
    | none => none
    | some (map1, faces) =>
      -- re-calculate brush bounds/windings
      let cb := CalculateBrushBounds env opts map1.planes { brush with faces := faces }
      match ProcessMapBrushes_offset_brushes env opts origin map1 rest with
      | none => none
      | some (map2, rest1, log) => some (map2, cb.1 :: rest1, cb.2 ++ log)

/-- The step "Hipnotic rotation" of ProcessMapBrushes: an entity without
origin brush whose classname starts with "rotate_" gets its origin from
FixRotateOrigin. -/
def ProcessMapBrushes_hipnotic (env : qbsp_env K) (entity : mapentity_t K) : mapentity_t K :=
  if entity.rotation = rotation_t.none then
    if classname_is_rotate (epairs_get entity.epairs "classname") then
      { entity with origin := env.FixRotateOrigin entity, rotation := rotation_t.hipnotic }
    else entity
  else entity

/-- The step "offset brush bounds" of ProcessMapBrushes: the brushes of an
entity with a rotation are re-expressed relative to its origin. -/
def ProcessMapBrushes_offset (env : qbsp_env K) (opts : qbsp_options_t K) (map : mapdata_t K)
    (entity : mapentity_t K) : Option (mapdata_t K × List (mapbrush_t K) × List String) :=
  if entity.rotation ≠ rotation_t.none then
    ProcessMapBrushes_offset_brushes env opts entity.origin map entity.mapbrushes
  else some (map, entity.mapbrushes, [])

/-- The body of the loop over the entities in ProcessMapBrushes, for one entity.
The statistics counters, which are only printed, are left out, and the options
are those in effect after the world extent has been calculated. -/
def ProcessMapBrushes_entity (env : qbsp_env K) (opts : qbsp_options_t K) (m : libm K)
    ( is_world : Bool) (map : mapdata_t K) (entity0 : mapentity_t K) :
    Option (mapdata_t K × mapentity_t K × List String) :=
  /- Origin brush support -/
  let entity : mapentity_t K := { entity0 with rotation := rotation_t.none }
  /- entities with custom lmscales are important for the qbsp to know about -/
  match entity_lmshift env entity with
  | none => none
  | some lmshift =>
    let areaportal := epairs_get entity.epairs "classname" == "func_areaportal"
    match ProcessMapBrushes_brushes env opts m is_world lmshift areaportal
        { map := map, entity := { entity with mapbrushes := [] }, log := [] } entity.mapbrushes with
    | none => none
    | some st =>
      /- Hipnotic rotation -/
      let entity2 := ProcessMapBrushes_hipnotic env st.entity
      -- offset brush bounds
      match ProcessMapBrushes_offset env opts st.map entity2 with
      | none => none
      | some (map3, brushes, log) =>
        -- remove windings, we no longer need them
        let brushes2 := brushes.map fun brush =>
          { brush with faces := brush.faces.map fun f => { f with winding := [] } }
        some (map3, { entity2 with mapbrushes := brushes2 }, st.log ++ log)

/-- Modelled from the spec: mapdata_t::is_world_entity of qbsp/map.hh, which is
not among the sources; "The first entity in a map file is always the world
entity". -/
def is_world_entity (index : Nat) : Bool := index == 0

/-- The loop over the entities in ProcessMapBrushes, from the entity with the
given index on. -/
def ProcessMapBrushes_entities (env : qbsp_env K) (opts : qbsp_options_t K) (m : libm K) :
    Nat → mapdata_t K → List (mapentity_t K) →
    Option (mapdata_t K × List (mapentity_t K) × List String)
  | _, map, [] => some (map, [], [])
  | index, map, entity :: rest =>
    match ProcessMapBrushes_entity env opts m (is_world_entity index) map entity with
    | none => none
    | some (map1, entity1, log1) =>
      match ProcessMapBrushes_entities env opts m (index + 1) map1 rest with
      | none => none
      | some (map2, rest1, log2) => some (map2, entity1 :: rest1, log1 ++ log2)

/-- ProcessMapBrushes on the tables and the entity list of the map: the new
tables, the new entities and the messages printed. -/
def ProcessMapBrushes (env : qbsp_env K) (opts : qbsp_options_t K) (m : libm K)
    (map : mapdata_t K) (entities : List (mapentity_t K)) :
    Option (mapdata_t K × List (mapentity_t K) × List String) :=
  ProcessMapBrushes_entities env opts m 0 map entities

end process

/-! ### Relations used to state what the processing preserves -/

section process_spec
variable {K : Type} [LinearOrderedField K]

/-- Relation between the states before and after AddBrushBevels or a part of
it: the plane table is extended, the brush changes in its face list only, the
entity in its bevel counters only, and every face takes its texinfo, contents
and texture name from a face that was present before (or from a
default-constructed face). -/
def bevel_state.Grows (st st2 : bevel_state K) : Prop :=
  st.planes <+: st2.planes ∧
  st2.b = { st.b with faces := st2.b.faces } ∧
  st2.e = { st.e with numboxbevels := st2.e.numboxbevels, numedgebevels := st2.e.numedgebevels } ∧
  ∀ f ∈ st2.b.faces, ∃ g ∈ mapface_t.default :: st.b.faces,
    f.texinfo = g.texinfo ∧ f.contents = g.contents ∧ f.texname = g.texname

/-- The faces of the brush refer to entries of the texinfo table and of the
plane table, and so do the numbers of their flipped planes. -/
def mapbrush_t.Valid (map : mapdata_t K) (b : mapbrush_t K) : Prop :=
  ∀ f ∈ b.faces, f.texinfo < map.mtexinfos.length ∧ f.planenum < map.planes.length ∧
    f.planenum ^^^ 1 < map.planes.length

/-- The brushes of the entity are valid for the tables of the map, and the
texinfo table is not empty. -/
def mapentity_t.Valid (map : mapdata_t K) (e : mapentity_t K) : Prop :=
  0 < map.mtexinfos.length ∧ ∀ b ∈ e.mapbrushes, b.Valid map

/-- The law of FindTexinfo that the processing relies on: the texinfo table
is never shortened and the index returned lies within the new table. -/
def qbsp_env.FindTexinfoGrows (env : qbsp_env K) : Prop :=
  ∀ miptex mtexinfos tx, mtexinfos.length ≤ (env.FindTexinfo miptex mtexinfos tx).1.length ∧
    (env.FindTexinfo miptex mtexinfos tx).2 < (env.FindTexinfo miptex mtexinfos tx).1.length

end process_spec

/-! ### Example map -/

section process_examples
variable {K : Type} [LinearOrderedField K]

/-- The windings of the faces of the example cube: for each side plane of the
cube from -1 to 1, the four corners of that side. -/
def cube_winding (p : qplane3 K) : Option (List (qvec3 K)) :=
  if p = ⟨⟨1, 0, 0⟩, 1⟩ then some [⟨1, -1, -1⟩, ⟨1, 1, -1⟩, ⟨1, 1, 1⟩, ⟨1, -1, 1⟩]
  else if p = ⟨⟨-1, 0, 0⟩, 1⟩ then some [⟨-1, -1, -1⟩, ⟨-1, 1, -1⟩, ⟨-1, 1, 1⟩, ⟨-1, -1, 1⟩]
  else if p = ⟨⟨0, 1, 0⟩, 1⟩ then some [⟨-1, 1, -1⟩, ⟨1, 1, -1⟩, ⟨1, 1, 1⟩, ⟨-1, 1, 1⟩]
  else if p = ⟨⟨0, -1, 0⟩, 1⟩ then some [⟨-1, -1, -1⟩, ⟨1, -1, -1⟩, ⟨1, -1, 1⟩, ⟨-1, -1, 1⟩]
  else if p = ⟨⟨0, 0, 1⟩, 1⟩ then some [⟨-1, -1, 1⟩, ⟨1, -1, 1⟩, ⟨1, 1, 1⟩, ⟨-1, 1, 1⟩]
  else if p = ⟨⟨0, 0, -1⟩, 1⟩ then some [⟨-1, -1, -1⟩, ⟨1, -1, -1⟩, ⟨1, 1, -1⟩, ⟨-1, 1, -1⟩]
  else none

/-- An environment for the example map: as qbsp_env.sample, but the base
winding of a side plane of the example cube is that side of the cube, which
the clipping leaves as it is, and the zero vector is printed as "0 0 0". -/
def qbsp_env.sample_cube : qbsp_env K :=
  { (qbsp_env.sample : qbsp_env K) with
    BaseWindingForPlane := cube_winding
    to_string := fun v => if v = ⟨0, 0, 0⟩ then "0 0 0" else "" }

/-- The tables of the example map: the planes of the cube, one texinfo and one
texture. -/
def cube_map : mapdata_t K :=
  { planes := cube_planes, mtexinfos := [maptexinfo_t.default], miptex := [{ name := "origin" }] }

/-- The example cube as an origin brush: its contents are CONTENTS_ORIGIN. -/
def origin_cube : mapbrush_t K :=
  { (cube_brush : mapbrush_t K) with contents := { native := -7 }, line := 7 }

/-- The world entity of the example map, without brushes. -/
def example_world : mapentity_t K :=
  { (mapentity_t.default : mapentity_t K) with epairs := [("classname", "worldspawn")] }

end process_examples

/-! ## Quake-Ed texture definitions: decoding -/

/-- A 2x2 matrix (qmat2x2f); the field mrc is the entry at(r, c). -/
structure qmat2x2 (K : Type) where
  m00 : K
  m01 : K
  m10 : K
  m11 : K
deriving DecidableEq

/-- A 4x4 matrix (qmat4x4f); the field mrc is the entry at(r, c). -/
structure qmat4x4 (K : Type) where
  m00 : K
  m01 : K
  m02 : K
  m03 : K
  m10 : K
  m11 : K
  m12 : K
  m13 : K
  m20 : K
  m21 : K
  m22 : K
  m23 : K
  m30 : K
  m31 : K
  m32 : K
  m33 : K

/-- The record texdef_quake_ed_noshift_t: rotation in degrees and scale. -/
structure texdef_quake_ed_noshift_t (K : Type) where
  rotate : K
  scale : qvec2 K
deriving DecidableEq

/-- The record texdef_quake_ed_t: rotation in degrees, scale and shift. -/
structure texdef_quake_ed_t (K : Type) where
  rotate : K
  scale : qvec2 K
  shift : qvec2 K
deriving DecidableEq

/-- The laws of the trigonometric functions that decoding relies on: the
Pythagorean identity, the half-turn symmetry of sine and cosine, and atan2
returning an angle of the given point of the unit circle, which for the point
(cos x, sin x) is x up to full turns. -/
def libm.TrigExact {K : Type} [LinearOrderedField K] (m : libm K) : Prop :=
  m.pi ≠ 0 ∧
  (∀ x, m.sin x * m.sin x + m.cos x * m.cos x = 1) ∧
  (∀ x, m.sin (x + m.pi) = -m.sin x ∧ m.cos (x + m.pi) = -m.cos x) ∧
  (∀ x y, x * x + y * y = 1 → m.cos (m.atan2 y x) = x ∧ m.sin (m.atan2 y x) = y) ∧
  (∀ x, ∃ k : Int, m.atan2 (m.sin x) (m.cos x) = x + k * (2 * m.pi))

section quaked_decode
variable {K : Type} [LinearOrderedField K]

/-- Modelled from the spec: the constructor of qmat2x2f from an initialiser list
(common/qvec.hh, which is not among the sources); the list gives the entries
column by column, as the comments "col 0", "col 1" in map.cc say. -/
def qmat2x2.cols (c0r0 c0r1 c1r0 c1r1 : K) : qmat2x2 K := ⟨c0r0, c1r0, c0r1, c1r1⟩

/-- Modelled from the spec: the constructor of qmat4x4f from an initialiser list
(common/qvec.hh, which is not among the sources); the list gives the entries
column by column. -/
def qmat4x4.cols (c0r0 c0r1 c0r2 c0r3 c1r0 c1r1 c1r2 c1r3 c2r0 c2r1 c2r2 c2r3
    c3r0 c3r1 c3r2 c3r3 : K) : qmat4x4 K :=
  { m00 := c0r0, m01 := c1r0, m02 := c2r0, m03 := c3r0
    m10 := c0r1, m11 := c1r1, m12 := c2r1, m13 := c3r1
    m20 := c0r2, m21 := c1r2, m22 := c2r2, m23 := c3r2
    m30 := c0r3, m31 := c1r3, m32 := c2r3, m33 := c3r3 }

/-- Modelled from the spec: the product of two 2x2 matrices (operator* of
common/qvec.hh, which is not among the sources). -/
def qmat2x2.mul (a b : qmat2x2 K) : qmat2x2 K :=
  { m00 := a.m00 * b.m00 + a.m01 * b.m10, m01 := a.m00 * b.m01 + a.m01 * b.m11
    m10 := a.m10 * b.m00 + a.m11 * b.m10, m11 := a.m10 * b.m01 + a.m11 * b.m11 }

/-- Modelled from the spec: a 2x2 matrix times a vector (operator* of
common/qvec.hh, which is not among the sources). -/
def qmat2x2.mulVec (a : qmat2x2 K) (v : qvec2 K) : qvec2 K :=
  ⟨a.m00 * v.x + a.m01 * v.y, a.m10 * v.x + a.m11 * v.y⟩

/-- Modelled from the spec: qmat::row of common/qvec.hh, which is not among the
sources; row i of the matrix. -/
def qmat2x2.row (a : qmat2x2 K) (i : Nat) : qvec2 K :=
  if i = 0 then ⟨a.m00, a.m01⟩ else ⟨a.m10, a.m11⟩

/-- Modelled from the spec: qv::inverse on qmat2x2f (common/qvec.hh, which is
not among the sources); "matrix inversion". -/
def qmat2x2.inverse (a : qmat2x2 K) : qmat2x2 K :=
  let d := a.m00 * a.m11 - a.m01 * a.m10
  { m00 := a.m11 / d, m01 := -a.m01 / d, m10 := -a.m10 / d, m11 := a.m00 / d }

/-- Modelled from the spec: a 4x4 matrix times a vector (operator* of
common/qvec.hh, which is not among the sources). -/
def qmat4x4.mulVec (A : qmat4x4 K) (v : qvec4 K) : qvec4 K :=
  ⟨A.m00 * v.x + A.m01 * v.y + A.m02 * v.z + A.m03 * v.w,
   A.m10 * v.x + A.m11 * v.y + A.m12 * v.z + A.m13 * v.w,
   A.m20 * v.x + A.m21 * v.y + A.m22 * v.z + A.m23 * v.w,
   A.m30 * v.x + A.m31 * v.y + A.m32 * v.z + A.m33 * v.w⟩

/-- Determinant of a 3x3 matrix given by its rows (a b c), (d e f), (g h i). -/
def det3 (a b c d e f g h i : K) : K :=
  a * (e * i - f * h) - b * (d * i - f * g) + c * (d * h - e * g)

/-- Determinant of a 4x4 matrix, expanded along row 0. -/
def qmat4x4.det (A : qmat4x4 K) : K :=
  A.m00 * (det3 A.m11 A.m12 A.m13 A.m21 A.m22 A.m23 A.m31 A.m32 A.m33) -
  A.m01 * (det3 A.m10 A.m12 A.m13 A.m20 A.m22 A.m23 A.m30 A.m32 A.m33) +
  A.m02 * (det3 A.m10 A.m11 A.m13 A.m20 A.m21 A.m23 A.m30 A.m31 A.m33) -
  A.m03 * (det3 A.m10 A.m11 A.m12 A.m20 A.m21 A.m22 A.m30 A.m31 A.m32)

/-- Modelled from the spec: qv::inverse on qmat4x4f (common/qvec.hh, which is
not among the sources); "matrix inversion": the transposed cofactors divided by
the determinant. -/
def qmat4x4.inverse (A : qmat4x4 K) : qmat4x4 K :=
  let d := A.det
  { m00 := (det3 A.m11 A.m12 A.m13 A.m21 A.m22 A.m23 A.m31 A.m32 A.m33) / d
    m01 := -(det3 A.m01 A.m02 A.m03 A.m21 A.m22 A.m23 A.m31 A.m32 A.m33) / d
    m02 := (det3 A.m01 A.m02 A.m03 A.m11 A.m12 A.m13 A.m31 A.m32 A.m33) / d
    m03 := -(det3 A.m01 A.m02 A.m03 A.m11 A.m12 A.m13 A.m21 A.m22 A.m23) / d
    m10 := -(det3 A.m10 A.m12 A.m13 A.m20 A.m22 A.m23 A.m30 A.m32 A.m33) / d
    m11 := (det3 A.m00 A.m02 A.m03 A.m20 A.m22 A.m23 A.m30 A.m32 A.m33) / d
    m12 := -(det3 A.m00 A.m02 A.m03 A.m10 A.m12 A.m13 A.m30 A.m32 A.m33) / d
    m13 := (det3 A.m00 A.m02 A.m03 A.m10 A.m12 A.m13 A.m20 A.m22 A.m23) / d
    m20 := (det3 A.m10 A.m11 A.m13 A.m20 A.m21 A.m23 A.m30 A.m31 A.m33) / d
    m21 := -(det3 A.m00 A.m01 A.m03 A.m20 A.m21 A.m23 A.m30 A.m31 A.m33) / d
    m22 := (det3 A.m00 A.m01 A.m03 A.m10 A.m11 A.m13 A.m30 A.m31 A.m33) / d
    m23 := -(det3 A.m00 A.m01 A.m03 A.m10 A.m11 A.m13 A.m20 A.m21 A.m23) / d
    m30 := -(det3 A.m10 A.m11 A.m12 A.m20 A.m21 A.m22 A.m30 A.m31 A.m32) / d
    m31 := (det3 A.m00 A.m01 A.m02 A.m20 A.m21 A.m22 A.m30 A.m31 A.m32) / d
    m32 := -(det3 A.m00 A.m01 A.m02 A.m10 A.m11 A.m12 A.m30 A.m31 A.m32) / d
    m33 := (det3 A.m00 A.m01 A.m02 A.m10 A.m11 A.m12 A.m20 A.m21 A.m22) / d }

/-- Difference of two 2-vectors. -/
def qvec2.sub (a b : qvec2 K) : qvec2 K := ⟨a.x - b.x, a.y - b.y⟩

/-- A 2-vector times a scalar. -/
def qvec2.scale (a : qvec2 K) (c : K) : qvec2 K := ⟨a.x * c, a.y * c⟩

/-- Dot product of 2-vectors (qv::dot). -/
def qv2.dot (a b : qvec2 K) : K := a.x * b.x + a.y * b.y

/-- Modelled from the spec: qv::normalize on 2-vectors (common/qvec.hh, which
is not among the sources): the vector divided by its length.  A vector of
length zero is returned as it is. -/
def qv2.normalize (m : libm K) (a : qvec2 K) : qvec2 K :=
  let len := m.sqrt (qv2.dot a a)
  if len = 0 then a else ⟨a.x / len, a.y / len⟩

/-- A value held in a qvec2f: both components are floats. -/
def qvec2.to_float (m : libm K) (v : qvec2 K) : qvec2 K := ⟨m.to_float v.x, m.to_float v.y⟩

/-- A value held in a qvec4f: the four components are floats. -/
def qvec4.to_float (m : libm K) (v : qvec4 K) : qvec4 K :=
  ⟨m.to_float v.x, m.to_float v.y, m.to_float v.z, m.to_float v.w⟩

/-- A value held in a qmat2x2f: the four entries are floats. -/
def qmat2x2.to_float (m : libm K) (a : qmat2x2 K) : qmat2x2 K :=
  ⟨m.to_float a.m00, m.to_float a.m01, m.to_float a.m10, m.to_float a.m11⟩

/-- A value held in a qmat4x4f: the sixteen entries are floats. -/
def qmat4x4.to_float (m : libm K) (a : qmat4x4 K) : qmat4x4 K :=
  { m00 := m.to_float a.m00, m01 := m.to_float a.m01, m02 := m.to_float a.m02,
    m03 := m.to_float a.m03, m10 := m.to_float a.m10, m11 := m.to_float a.m11,
    m12 := m.to_float a.m12, m13 := m.to_float a.m13, m20 := m.to_float a.m20,
    m21 := m.to_float a.m21, m22 := m.to_float a.m22, m23 := m.to_float a.m23,
    m30 := m.to_float a.m30, m31 := m.to_float a.m31, m32 := m.to_float a.m32,
    m33 := m.to_float a.m33 }

/-- The function texVecsTo4x4Matrix: the matrix that maps a world point to
(s, t, distance off the plane, 1).  The normal and the distance of the plane
are doubles and are converted with static_cast to float; the texture vectors
are floats already. -/
def texVecsTo4x4Matrix (m : libm K) (faceplane : qplane3 K) (in_vecs : texvecf K) : qmat4x4 K :=
  qmat4x4.cols
    in_vecs.row0.x in_vecs.row1.x (m.to_float faceplane.normal.x) 0 -- col 0
    in_vecs.row0.y in_vecs.row1.y (m.to_float faceplane.normal.y) 0 -- col 1
    in_vecs.row0.z in_vecs.row1.z (m.to_float faceplane.normal.z) 0 -- col 2
    in_vecs.row0.w in_vecs.row1.w (m.to_float (-faceplane.dist)) 1 -- col 3

/-- The expression qvec2f(T * qvec4f(p[0], p[1], p[2], 1.0)): the texture
coordinates of a world point.  The coordinates of the point are converted to
float, and the two coordinates of the product are floats. -/
def texcoords_at (m : libm K) (T : qmat4x4 K) (p : qvec3 K) : qvec2 K :=
  let r := T.mulVec ⟨m.to_float p.x, m.to_float p.y, m.to_float p.z, 1⟩
  ⟨m.to_float r.x, m.to_float r.y⟩

/-- The function scale2x2; its parameters are floats, so the arguments are
converted. -/
def scale2x2 (m : libm K) (xscale yscale : K) : qmat2x2 K :=
  qmat2x2.cols (m.to_float xscale) 0 -- col 0
    0 (m.to_float yscale) -- col 1

/-- The function rotation2x2_deg.  The parameter is a float, so the argument
is converted; the angle in radians is computed in double and stored in a
float, and so are the cosine and the sine. -/
def rotation2x2_deg (m : libm K) (degrees : K) : qmat2x2 K :=
  let degrees := m.to_float degrees
  let r := m.to_float (degrees * (m.pi / 180))
  let cosr := m.to_float (m.cos r)
  let sinr := m.to_float (m.sin r)
  qmat2x2.cols cosr sinr -- col 0
    (-sinr) cosr -- col 1

/-- The function extractRotation; the point and the rotation are floats. -/
def extractRotation (m : libm K) (mat : qmat2x2 K) : K :=
  let point := (mat.mulVec ⟨1, 0⟩).to_float m
  m.to_float (m.atan2 point.y point.x * 180 / m.pi)

/-- The function getSTAxes. -/
def getSTAxes (snapped_normal : qvec3 K) : Nat × Nat :=
  if snapped_normal.x ≠ 0 then (1, 2)
  else if snapped_normal.y ≠ 0 then (0, 2)
  else (0, 1)

/-- The function projectToAxisPlane. -/
def projectToAxisPlane (snapped_normal point : qvec3 K) : qvec2 K :=
  let axes := getSTAxes snapped_normal
  ⟨point.get axes.1, point.get axes.2⟩

/-- The function clockwiseDegreesBetween. -/
def clockwiseDegreesBetween (env : qbsp_env K) (m : libm K) (start endv : qvec2 K) : K :=
  let start := qv2.normalize m start
  let endv := qv2.normalize m endv
  let cosAngle := max (-1) (min 1 (qv2.dot start endv))
  let unsigned_degrees := m.acos cosAngle * (360 / (2 * m.pi))
  if unsigned_degrees < env.ANGLEEPSILON then 0
  else
    -- get a normal for the rotation plane using the right-hand rule
    let rotationNormal :=
      (qv.normalize m (qv.cross ⟨start.x, start.y, 0⟩ ⟨endv.x, endv.y, 0⟩)).2
    let normalsCosAngle := qv.dot rotationNormal ⟨0, 0, 1⟩
    if normalsCosAngle ≥ 0 then -unsigned_degrees -- counterclockwise rotation
    else unsigned_degrees -- clockwise rotation

/-- The first block of Reverse_QuakeEd: the check for shear and its removal.
The result none stands for FError("SHEAR correction failed"). -/
def Reverse_QuakeEd_shear (env : qbsp_env K) (m : libm K) (M : qmat2x2 K) (preserveX : Bool) :
    Option (qmat2x2 K) :=
  let Xvec := M.row 0
  let Yvec := M.row 1
  let cosAngle := qv2.dot (qv2.normalize m Xvec) (qv2.normalize m Yvec)
  if |cosAngle| > 1 / 1000 then
    -- Detected shear
    let XY : qvec2 K × qvec2 K :=
      if preserveX then
        let degreesToY := clockwiseDegreesBetween env m Xvec Yvec
        let CW := decide (degreesToY > 0)
        -- turn 90 degrees from Xvec
        let c := qv.cross ⟨0, 0, if CW then -1 else 1⟩ ⟨Xvec.x, Xvec.y, 0⟩
        let newYdir := qv2.normalize m ⟨c.x, c.y⟩
        -- scalar projection of the old Yvec onto newYDir to get the new Yscale
        let newYscale := qv2.dot Yvec newYdir
        (Xvec, newYdir.scale newYscale)
      else
        -- Preserve Y.
        let degreesToX := clockwiseDegreesBetween env m Yvec Xvec
        let CW := decide (degreesToX > 0)
        -- turn 90 degrees from Yvec
        let c := qv.cross ⟨0, 0, if CW then -1 else 1⟩ ⟨Yvec.x, Yvec.y, 0⟩
        let newXdir := qv2.normalize m ⟨c.x, c.y⟩
        -- scalar projection of the old Xvec onto newXDir to get the new Xscale
        let newXscale := qv2.dot Xvec newXdir
        (newXdir.scale newXscale, Yvec)
    -- recheck
    let cosAngle2 := qv2.dot (qv2.normalize m XY.1) (qv2.normalize m XY.2)
    if |cosAngle2| > 1 / 1000 then none
    else
      -- update M
      some { m00 := XY.1.x, m01 := XY.1.y, m10 := XY.2.x, m11 := XY.2.y }
  else some M

/-- The body of the loop of Reverse_QuakeEd over the four sign combinations:
the texture definition if the guessed signs reproduce the matrix.  The
matrices rotateMGuess and Mguess are float matrices: their entries are
converted to float, once for each matrix.  Of the products that make up the
two matrices only the one with the rotation matrix rounds: the other factors
are the sign matrices, with the entries 0, 1 and -1, and the diagonal matrix of
the absolute scales, which holds floats. -/
def Reverse_QuakeEd_guess (m : libm K) (M applyAbsScaleM flipRotate axisFlipsM : qmat2x2 K)
    (absXscale absYscale : K) (sgn : K × K) : Option (texdef_quake_ed_noshift_t K) :=
  let xScaleSgn := sgn.1
  let yScaleSgn := sgn.2
  let applyGuessedFlipM := qmat2x2.cols xScaleSgn 0 -- col0
    0 yScaleSgn -- col1
  let rotateMGuess := (applyGuessedFlipM.inverse.mul flipRotate).to_float m
  let angleGuess := extractRotation m rotateMGuess
  let applyAngleGuessM := rotation2x2_deg m angleGuess
  let Mguess :=
    (((applyGuessedFlipM.mul applyAbsScaleM).mul applyAngleGuessM).mul axisFlipsM).to_float m
  if |M.m00 - Mguess.m00| < 1 / 1000 ∧ |M.m10 - Mguess.m10| < 1 / 1000 ∧
      |M.m01 - Mguess.m01| < 1 / 1000 ∧ |M.m11 - Mguess.m11| < 1 / 1000 then
    some { rotate := angleGuess, scale := ⟨xScaleSgn / absXscale, yScaleSgn / absYscale⟩ }
  else none

/-- Modelled from the spec: the default-constructed texdef_quake_ed_noshift_t
(qbsp/map.hh, which is not among the sources) that Reverse_QuakeEd returns when
no sign combination matches; "it returns a zeroed/failure result". -/
def texdef_quake_ed_noshift_t.fail : texdef_quake_ed_noshift_t K :=
  { rotate := 0, scale := ⟨0, 0⟩ }

/-- Reverse_QuakeEd: rotation and scale of the 2x2 matrix of a Quake-Ed texture
definition on the plane.  The result none stands for the FError of the shear
correction.  After the shear block, the values stored in float objects are
converted to float: the absolute scales in applyAbsScaleM (static_cast), the
projected axes and the matrix flipRotate (its entries once; the rounding inside
qv::inverse and operator* of common/qvec.hh, which is not among the sources, is
not modelled further); absXscale and absYscale themselves are doubles. -/
def Reverse_QuakeEd (env : qbsp_env K) (opts : qbsp_options_t K) (m : libm K) (M0 : qmat2x2 K)
    (plane : qplane3 K) (preserveX : Bool) : Option (texdef_quake_ed_noshift_t K) :=
  match Reverse_QuakeEd_shear env m M0 preserveX with
  | none => none
  | some M =>
    -- extract abs(scale)
    let absXscale := m.sqrt (M.m00 ^ 2 + M.m01 ^ 2)
    let absYscale := m.sqrt (M.m10 ^ 2 + M.m11 ^ 2)
    let applyAbsScaleM := qmat2x2.cols (m.to_float absXscale) -- col0
      0 0 -- col1
      (m.to_float absYscale)
    let ax := TextureAxisFromPlane opts.oldaxis plane
    let sAxis := (projectToAxisPlane ax.2.2 ax.1).to_float m
    let tAxis := (projectToAxisPlane ax.2.2 ax.2.1).to_float m
    -- This is an identity matrix possibly with negative signs.
    let axisFlipsM := qmat2x2.cols sAxis.x tAxis.x -- col0
      sAxis.y tAxis.y -- col1
    -- strip off the magnitude component of the scale, and axisFlipsM.
    let flipRotate := ((applyAbsScaleM.inverse.mul M).mul axisFlipsM.inverse).to_float m
    -- try all 4 combinations of signs; the first that matches is returned
    match [((-1 : K), (-1 : K)), (-1, 1), (1, -1), (1, 1)].findSome?
        (Reverse_QuakeEd_guess m M applyAbsScaleM flipRotate axisFlipsM absXscale absYscale) with
    | some reversed => some reversed
    | none => some texdef_quake_ed_noshift_t.fail

/-- The last block of SetTexinfo_QuakeEd_New, "copy M into the output
vectors": row 0 of M becomes the S vector and row 1 the T vector, in the
components given by getSTAxes, with the shifts as fourth components. -/
def SetTexinfo_QuakeEd_New_copy (axes : Nat × Nat) (M : qmat2x2 K) (shift : qvec2 K) :
    texvecf K :=
  let S := ((qvec3.zero : qvec3 K).set axes.1 M.m00).set axes.2 M.m01
  let T := ((qvec3.zero : qvec3 K).set axes.1 M.m10).set axes.2 M.m11
  { row0 := ⟨S.x, S.y, S.z, shift.x⟩, row1 := ⟨T.x, T.y, T.z, shift.y⟩ }

/-- SetTexinfo_QuakeEd_New: the texture vectors of a Quake-Ed texture
definition, built from the 2x2 matrix scaleM * rotateM * axisFlipsM.  The
self-test under "if (false)" is dead code and is left out.  The sanitized
scale is a double; the projected axes and the three matrices are float objects
(qvec2f, qmat2x2f), so the values stored in them are converted to float: the
reciprocals of the scale and the rotation in scale2x2 and rotation2x2_deg, and
the entries of each float matrix product, once per product (the rounding inside
operator* of common/qvec.hh is not modelled further). -/
def SetTexinfo_QuakeEd_New (opts : qbsp_options_t K) (m : libm K) (plane : qplane3 K)
    (shift : qvec2 K) (rotate : K) (scale : qvec2 K) : texvecf K :=
  let s0 := if scale.x ≠ 0 then scale.x else 1
  let s1 := if scale.y ≠ 0 then scale.y else 1
  let ax := TextureAxisFromPlane opts.oldaxis plane
  let sAxis := (projectToAxisPlane ax.2.2 ax.1).to_float m
  let tAxis := (projectToAxisPlane ax.2.2 ax.2.1).to_float m
  -- This is an identity matrix possibly with negative signs.
  let axisFlipsM := qmat2x2.cols sAxis.x tAxis.x -- col0
    sAxis.y tAxis.y -- col1
  let rotateM := rotation2x2_deg m rotate
  let scaleM := scale2x2 m (1 / s0) (1 / s1)
  let M := (((scaleM.mul rotateM).to_float m).mul axisFlipsM).to_float m
  -- copy M into the output vectors
  SetTexinfo_QuakeEd_New_copy (getSTAxes ax.2.2) M shift

/-- The function addShift. -/
def addShift (texdef : texdef_quake_ed_noshift_t K) (shift : qvec2 K) : texdef_quake_ed_t K :=
  { rotate := texdef.rotate, scale := ⟨texdef.scale.x, texdef.scale.y⟩,
    shift := ⟨shift.x, shift.y⟩ }

/-- The function evalTexDefAtPoint. -/
def evalTexDefAtPoint (opts : qbsp_options_t K) (m : libm K) (texdef : texdef_quake_ed_t K)
    (faceplane : qplane3 K) (point : qvec3 K) : qvec2 K :=
  let temp := SetTexinfo_QuakeEd_New opts m faceplane texdef.shift texdef.rotate texdef.scale
  let worldToTexSpace_res := texVecsTo4x4Matrix m faceplane temp
  texcoords_at m worldToTexSpace_res point

/-- The integer that normalizeShift converts to float for one component,
fullOffsets * size with fullOffsets = static_cast<int>(in) / size, where t is
the value of the cast to int.  The members width and height of
img::texture_meta are declared in common/imglib.hh, which is not among the
sources.  If they are ints, the division and the product are those of int.  If
they are unsigned, the int operand is converted to unsigned int for the
division, the quotient is stored in an int, and converted to unsigned int again
for the product. -/
def normalizeShift_offset (size_unsigned : Bool) (t size : Int) : Int :=
  if size_unsigned then
    let q := (t % 2 ^ 32) / size
    let fullOffsets := if q < 2 ^ 31 then q else q - 2 ^ 32
    ((fullOffsets % 2 ^ 32) * size) % 2 ^ 32
  else Int.tdiv t size * size

/-- The function normalizeShift; the texture metadata, if given, is the width
and height of the texture.  The shift is a qvec2f; the product of the offsets
and the size is converted with static_cast to float, and the difference is a
float. -/
def normalizeShift (env : qbsp_env K) (m : libm K) (texture : Option (Int × Int))
    (v : qvec2 K) : qvec2 K :=
  match texture with
  | none => v -- can't do anything without knowing the texture size.
  | some (width, height) =>
    let widthOffset := normalizeShift_offset env.texture_meta_unsigned (env.to_int v.x) width
    let heightOffset := normalizeShift_offset env.texture_meta_unsigned (env.to_int v.y) height
    ⟨m.to_float (v.x - m.to_float ((widthOffset : Int) : K)),
     m.to_float (v.y - m.to_float ((heightOffset : Int) : K))⟩

/-- The first part of TexDef_BSPToQuakeEd: the 2x2 matrix texPlaneToUV that
maps the projections of the edges p0p1 and p0p2 of the reference points to the
differences of their texture coordinates.  All vectors and matrices here are
float objects (qvec2f, qvec4f, qmat4x4f): the values stored in them are
converted to float, once per stored value. -/
def TexDef_BSPToQuakeEd_matrix (m : libm K) (snapped_normal : qvec3 K)
    (worldToTexSpace : qmat4x4 K) (facepoints : planepts_t K) : qmat2x2 K :=
  -- Grab the UVs of the 3 reference points
  let uv0 := texcoords_at m worldToTexSpace facepoints.p0
  let uv1 := texcoords_at m worldToTexSpace facepoints.p1
  let uv2 := texcoords_at m worldToTexSpace facepoints.p2
  -- Project the 3 reference points onto the axis plane. They are now 2d points.
  let pr0 := (projectToAxisPlane snapped_normal facepoints.p0).to_float m
  let pr1 := (projectToAxisPlane snapped_normal facepoints.p1).to_float m
  let pr2 := (projectToAxisPlane snapped_normal facepoints.p2).to_float m
  -- Now make 2 vectors out of our 3 points (so we are ignoring translation for now)
  let p0p1 := (pr1.sub pr0).to_float m
  let p0p2 := (pr2.sub pr0).to_float m
  let p0p1_uv := (uv1.sub uv0).to_float m
  let p0p2_uv := (uv2.sub uv0).to_float m
  let M := qmat4x4.cols
    p0p1.x 0 p0p2.x 0 -- col 0
    p0p1.y 0 p0p2.y 0 -- col 1
    0 p0p1.x 0 p0p2.x -- col 2
    0 p0p1.y 0 p0p2.y -- col 3
  let Minv := M.inverse.to_float m
  let abcd := (Minv.mulVec ⟨p0p1_uv.x, p0p1_uv.y, p0p2_uv.x, p0p2_uv.y⟩).to_float m
  qmat2x2.cols abcd.x abcd.z -- col 0
    abcd.y abcd.w -- col 1

/-- TexDef_BSPToQuakeEd: the Quake-Ed texture definition (shift, rotate, scale)
of the texture vectors of a face; texture is optional.  The result none stands
for the FError of Reverse_QuakeEd.  The decoder works on float objects: the
texture coordinates, the matrix texPlaneToUV and the shift are converted to
float where they are stored. -/
def TexDef_BSPToQuakeEd (env : qbsp_env K) (opts : qbsp_options_t K) (m : libm K)
    (faceplane : qplane3 K) (texture : Option (Int × Int)) (in_vecs : texvecf K)
    (facepoints : planepts_t K) : Option (texdef_quake_ed_t K) :=
  -- First get the un-rotated, un-scaled unit texture vecs (based on the face plane).
  let snapped_normal := (TextureAxisFromPlane opts.oldaxis faceplane).2.2
  let worldToTexSpace := texVecsTo4x4Matrix m faceplane in_vecs
  let texPlaneToUV := TexDef_BSPToQuakeEd_matrix m snapped_normal worldToTexSpace facepoints
  match Reverse_QuakeEd env opts m texPlaneToUV faceplane false with
  | none => none
  | some res =>
    -- figure out shift based on facepoints[0]
    let testpoint := facepoints.p0
    let uv0_actual := evalTexDefAtPoint opts m (addShift res ⟨0, 0⟩) faceplane testpoint
    let uv0_desired := texcoords_at m worldToTexSpace testpoint
    let shift := (uv0_desired.sub uv0_actual).to_float m
    -- sometime we have very large shift values, normalize them to be smaller
    let shift2 := normalizeShift env m texture shift
    some (addShift res shift2)

end quaked_decode

section axis_spec
variable {K : Type} [LinearOrderedField K]

/-- The state (best, bestaxis) of the search loop of TextureAxisFromPlane before
iteration k: best bounds the dot products seen so far, and either bestaxis is
an index seen so far that attains best and is the last such index (oldaxis
off) or the first one (oldaxis on), or no index was taken yet. -/
def TextureAxisFromPlane_inv (oldaxis : Bool) (n : qvec3 K) (k : Nat) (acc : K × Nat) : Prop :=
  0 ≤ acc.1 ∧ (∀ i, i < k → qv.dot n (baseaxis_at (i * 3)) ≤ acc.1) ∧
  ((acc.2 < k ∧ acc.1 = qv.dot n (baseaxis_at (acc.2 * 3)) ∧
      ∀ i, i < k → qv.dot n (baseaxis_at (i * 3)) = acc.1 →
        if oldaxis = true then acc.2 ≤ i else i ≤ acc.2) ∨
    (acc = (0, 0) ∧ ∀ i, i < k → oldaxis = false → qv.dot n (baseaxis_at (i * 3)) < 0))

end axis_spec

section quark_spec
variable {K : Type} [LinearOrderedField K]

/-- The two texture-plane vectors vecs[0], vecs[1] of SetTexinfo_QuArK after the
scaling by 1/128, for style TX_QUARK_TYPE1 (type2 = false) or TX_QUARK_TYPE2
(type2 = true). -/
def SetTexinfo_QuArK_vecs (planepts : planepts_t K) (type2 : Bool) : qvec3 K × qvec3 K :=
  let v0 := if type2 then planepts.p1.sub planepts.p0 else planepts.p2.sub planepts.p0
  let v1 := if type2 then planepts.p2.sub planepts.p0 else planepts.p1.sub planepts.p0
  (v0.scale (1 / 128), v1.scale (1 / 128))

/-- The value "determinant" of SetTexinfo_QuArK: a * d - b * c for the dot
products a, b, c, d of the two texture-plane vectors. -/
def SetTexinfo_QuArK_determinant (planepts : planepts_t K) (type2 : Bool) : K :=
  let vecs := SetTexinfo_QuArK_vecs planepts type2
  let a := qv.dot vecs.1 vecs.1
  let b := qv.dot vecs.1 vecs.2
  let c := b
  let d := qv.dot vecs.2 vecs.2
  a * d - b * c

end quark_spec

section lmshift_spec
variable {K : Type} [LinearOrderedField K]

end lmshift_spec

section planes_spec
variable {K : Type} [LinearOrderedField K]

/-- The invariant of the plane table: with every index, the index XOR 1 lies in
the table as well and holds the negation of the plane. -/
def PlanesPaired (planes : List (qplane3 K)) : Prop :=
  ∀ i, i < planes.length →
    i ^^^ 1 < planes.length ∧ get_plane planes (i ^^^ 1) = (get_plane planes i).neg

/-- The method mapface_t::get_positive_plane: the plane at planenum & ~1, the
plane number with its lowest bit cleared. -/
def mapface_t.get_positive_plane (planes : List (qplane3 K)) (f : mapface_t K) : qplane3 K :=
  qbsp.get_plane planes (f.planenum / 2 * 2)

end planes_spec

section world_examples
variable {K : Type} [LinearOrderedField K]

/-- The world entity of the example map with two brushes: the example cube as a
solid brush, followed by the example cube as an origin brush. -/
def world_with_origin_brush : mapentity_t K :=
  { (example_world : mapentity_t K) with
    mapbrushes := [{ (cube_brush : mapbrush_t K) with line := 3 }, origin_cube] }

end world_examples

section areaportal
variable {K : Type} [LinearOrderedField K]

/-- Modelled from the spec: Q_strcasecmp of common/cmdlib.hh, which is not among
the sources; the comparison of two strings "ignoring case": 0 when they are
equal up to letter case, otherwise negative or positive by their order. -/
def Q_strcasecmp (a b : String) : Int :=
  let la := a.data.map Char.toLower
  let lb := b.data.map Char.toLower
  if la = lb then 0 else if la < lb then -1 else 1

/-- ProcessAreaPortal.  The arguments are the option onlyents, the constant
Q2_CONTENTS_AREAPORTAL and the fields skip_texinfo and numareaportals of the
map; the result is the new value of numareaportals and the entity.  The result
none stands for the failure of the Q_assert and for the fatal error
"func_areaportal can only be a single brush". -/
def ProcessAreaPortal (onlyents : Bool) (Q2_CONTENTS_AREAPORTAL : Int) (skip_texinfo : Nat)
    (numareaportals : Nat) (entity : mapentity_t K) : Option (Nat × mapentity_t K) :=
  if onlyents then none
  else
    let classname := epairs_get entity.epairs "classname"
    if Q_strcasecmp classname "func_areaportal" ≠ 0 then some (numareaportals, entity)
    -- areaportal entities move their brushes, but don't eliminate
    -- the entity
    else if entity.mapbrushes.length ≠ 1 then none
    else
      let brushes := entity.mapbrushes.map fun brush =>
        { brush with
          contents := { brush.contents with native := Q2_CONTENTS_AREAPORTAL }
          faces := brush.faces.map fun face =>
            { face with
              contents := { face.contents with native := Q2_CONTENTS_AREAPORTAL }
              texinfo := skip_texinfo } }
      let numareaportals := numareaportals + 1
      -- set the portal number as "style"
      some (numareaportals,
        { entity with
          mapbrushes := brushes
          areaportalnum := numareaportals
          epairs := epairs_set entity.epairs "style" (toString numareaportals) })

/-- Modelled from the spec: the calls of ProcessAreaPortal on the entities of
the map in their order (the calling loop is not among the sources), so that
"each gets a unique sequential portal number"; the portal counter is passed
from each call to the next. -/
def ProcessAreaPortal_entities (onlyents : Bool) (Q2_CONTENTS_AREAPORTAL : Int)
    (skip_texinfo : Nat) : Nat → List (mapentity_t K) → Option (Nat × List (mapentity_t K))
  | n, [] => some (n, [])
  | n, e :: rest =>
    match ProcessAreaPortal onlyents Q2_CONTENTS_AREAPORTAL skip_texinfo n e with
    | none => none
    | some (n1, e1) =>
      match ProcessAreaPortal_entities onlyents Q2_CONTENTS_AREAPORTAL skip_texinfo n1 rest with
      | none => none
      | some (n2, rest1) => some (n2, e1 :: rest1)

/-- Whether the classname of the entity is func_areaportal, compared ignoring
case. -/
def mapentity_t.is_areaportal (e : mapentity_t K) : Bool :=
  decide (Q_strcasecmp (epairs_get e.epairs "classname") "func_areaportal" = 0)

/-- A func_areaportal entity with the example cube as its only brush. -/
def example_areaportal : mapentity_t K :=
  { (mapentity_t.default : mapentity_t K) with
    epairs := [("classname", "FUNC_AreaPortal")]
    mapbrushes := [cube_brush] }

end areaportal

section texinfo_table
variable {K : Type} [LinearOrderedField K]

/-- The texinfo table of the map together with its reverse lookup
(map.mtexinfos and map.mtexinfo_lookup). -/
structure texinfo_tables (K : Type) where
  mtexinfos : List (maptexinfo_t K)
  mtexinfo_lookup : List (maptexinfo_t K × Nat)

/-- Modelled from the spec: the key under which mtexinfo_lookup stores a
texinfo.  The comparison operator of maptexinfo_t is in qbsp/map.hh, which is
not among the sources; "a lookup keyed on the full tuple": the texture vectors,
the texture index, the flags, the value and the animation link.  The output
number, which is assigned when the BSP is written, is not part of the key. -/
def maptexinfo_t.as_tuple (t : maptexinfo_t K) :
    texvecf K × Nat × surfflags_t K × Int × Option Nat :=
  (t.vecs, t.miptex, t.flags, t.value, t.next)

/-- The call map.mtexinfo_lookup.find(texinfo): the index stored under the key
of the texinfo, if there is one. -/
def mtexinfo_lookup_find (lookup : List (maptexinfo_t K × Nat)) (texinfo : maptexinfo_t K) :
    Option Nat :=
  (lookup.find? fun kv => decide (kv.1.as_tuple = texinfo.as_tuple)).map Prod.snd

/-- The step "Allocate a new texinfo at the end of the array" of FindTexinfo. -/
def FindTexinfo_insert (tb : texinfo_tables K) (texinfo : maptexinfo_t K) : texinfo_tables K :=
  { mtexinfos := tb.mtexinfos ++ [texinfo]
    mtexinfo_lookup := tb.mtexinfo_lookup ++ [(texinfo, tb.mtexinfos.length)] }

/-- The assignment map.mtexinfos[num_texinfo].next = j of FindTexinfo. -/
def FindTexinfo_link (tb : texinfo_tables K) (num_texinfo j : Nat) : texinfo_tables K :=
  match tb.mtexinfos[num_texinfo]? with
  | some e => { tb with mtexinfos := tb.mtexinfos.set num_texinfo { e with next := some j } }
  | none => tb

/-- FindTexinfo with a bound on the depth of the recursion.  The result none
stands for an index outside the texture table (map.miptex[...]) and for a
recursion deeper than the bound.  The assertions on NaN have no counterpart: no
value of the exact model is NaN. -/
def FindTexinfo_fuel (miptex : List maptexdata_t) :
    Nat → texinfo_tables K → maptexinfo_t K → Option (texinfo_tables K × Nat)
  | fuel, tb, texinfo =>
    -- check for an exact match in the reverse lookup
    match mtexinfo_lookup_find tb.mtexinfo_lookup texinfo with
    | some i => some (tb, i)
    | none =>
      /- Allocate a new texinfo at the end of the array -/
      let num_texinfo := tb.mtexinfos.length
      let tb1 := FindTexinfo_insert tb texinfo
      -- create a copy of the miptex for animation chains
      match miptex[texinfo.miptex]? with
      | none => none
      | some tex =>
        match tex.animation_miptex with
        | none => some (tb1, num_texinfo)
        | some p =>
          match fuel with
          | 0 => none
          | fuel + 1 =>
            match FindTexinfo_fuel miptex fuel tb1 { texinfo with miptex := p } with
            | none => none
            | some (tb2, j) => some (FindTexinfo_link tb2 num_texinfo j, num_texinfo)

/-- FindTexinfo: the recursion visits every texture of the table at most once,
so its depth is bounded by the size of the texture table. -/
def FindTexinfo (miptex : List maptexdata_t) (tb : texinfo_tables K) (texinfo : maptexinfo_t K) :
    Option (texinfo_tables K × Nat) :=
  FindTexinfo_fuel miptex miptex.length tb texinfo

/-- Two texinfos have the same texture vectors, flags, value and texture
index. -/
def maptexinfo_t.SameTex (a b : maptexinfo_t K) : Prop :=
  a.vecs = b.vecs ∧ a.flags = b.flags ∧ a.value = b.value ∧ a.miptex = b.miptex

/-- Consistency of the reverse lookup with the texinfo table: every index
stored in the lookup is an index of the table, and the entry there has the
texture vectors, flags, value and texture index of the key. -/
def texinfo_tables.Ok (tb : texinfo_tables K) : Prop :=
  ∀ kv ∈ tb.mtexinfo_lookup, ∃ e, tb.mtexinfos[kv.2]? = some e ∧ e.SameTex kv.1

/-- Entry i of the texinfo table is linked along the animation chain: when its
texture has an animation partner p, its next link is the index of an entry with
the same texture vectors, flags and value and the texture index p. -/
def texinfo_tables.Linked (miptex : List maptexdata_t) (tb : texinfo_tables K) (i : Nat) : Prop :=
  ∀ e tex p, tb.mtexinfos[i]? = some e → miptex[e.miptex]? = some tex →
    tex.animation_miptex = some p →
    ∃ j e2, e.next = some j ∧ tb.mtexinfos[j]? = some e2 ∧
      e2.vecs = e.vecs ∧ e2.flags = e.flags ∧ e2.value = e.value ∧ e2.miptex = p

/-- Every animation partner named in the texture table is an index of the
table. -/
def miptex_closed (miptex : List maptexdata_t) : Prop :=
  ∀ tex ∈ miptex, ∀ p, tex.animation_miptex = some p → p < miptex.length

/-- The number of textures of the table for which the lookup holds no texinfo
that differs from the given one in the texture index only; it bounds the depth
of the recursion of FindTexinfo. -/
def FindTexinfo_missing (miptex : List maptexdata_t) (lookup : List (maptexinfo_t K × Nat))
    (texinfo : maptexinfo_t K) : Nat :=
  ((List.range miptex.length).filter fun p =>
    (mtexinfo_lookup_find lookup { texinfo with miptex := p }).isNone).length

/-- The texture reached from texture p by n steps along the animation
partners of the texture table, if all of them exist. -/
def animation_partner (miptex : List maptexdata_t) (p : Nat) : Nat → Option Nat
  | 0 => some p
  | n + 1 =>
    match animation_partner miptex p n with
    | none => none
    | some q =>
      match miptex[q]? with
      | none => none
      | some tex => tex.animation_miptex

/-- The entry reached from entry i of the texinfo table by n steps along the
next links, if all of them exist. -/
def texinfo_tables.follow (tb : texinfo_tables K) (i : Nat) : Nat → Option Nat
  | 0 => some i
  | n + 1 =>
    match tb.follow i n with
    | none => none
    | some j =>
      match tb.mtexinfos[j]? with
      | none => none
      | some e => e.next

/-- A texture table with a circular animation chain of three frames. -/
def example_anim_miptex : List maptexdata_t :=
  [{ name := "+0lava", animation_miptex := some 1 }, { name := "+1lava", animation_miptex := some 2 },
   { name := "+2lava", animation_miptex := some 0 }]

end texinfo_table

section miptex_table
variable {K : Type} [LinearOrderedField K]

/-- The texture metadata that load_image_meta returns (img::texture_meta, which
is not among the sources): the fields that FindMiptex reads. -/
structure texture_meta where
  name : String
  contents : Int := 0
  flags : Int := 0
  value : Int := 0
  animation : String := ""
deriving DecidableEq

/-- The result of the lookup part of FindMiptex for Quake II: the texture
table, the extended info in effect, the index, whether the entry was added by
this call, and the metadata loaded for the name. -/
structure miptex_entry where
  miptex : List maptexdata_t
  extended_info : extended_texinfo_t
  index : Nat
  added : Bool
  wal : Option texture_meta

/-- The step "Ignore leading path in texture names" of FindMiptex: the part of
the name after its last '/', the whole name when it holds no '/'. -/
def FindMiptex_basename (name : String) : String :=
  String.mk (name.data.reverse.takeWhile fun c => decide (c ≠ '/')).reverse

/-- The frame number and the base character that AddAnimTex reads from the
second character of the name; none stands for the fatal error "Bad animating
texture".  A name of length 1 has the terminating NUL as second character. -/
def AddAnimTex_frame (name : String) : Option (Nat × Nat) :=
  let frame := (name.data.getD 1 (Char.ofNat 0)).toNat
  let frame := if 97 ≤ frame ∧ frame ≤ 106 then frame - 32 else frame
  let r : Nat × Nat :=
    if 48 ≤ frame ∧ frame ≤ 57 then (frame - 48, 48)
    else if 65 ≤ frame ∧ frame ≤ 74 then (frame - 65, 65)
    else (frame, 48)
  if r.1 > 9 then none else some r

/-- The body of the loop of AddAnimTex: the frame name with number i is added to
the texture table unless a texture of that name, ignoring case, is there. -/
def AddAnimTex_step (framename : List Char) (basechar : Nat) (miptex : List maptexdata_t)
    (i : Nat) : List maptexdata_t :=
  let fn := String.mk (framename.set 1 (Char.ofNat (basechar + i)))
  if miptex.any (fun tex => decide (Q_strcasecmp fn tex.name = 0)) then miptex
  else miptex ++ [{ name := fn }]

/-- AddAnimTex: adds the lower numbered animation frames of the name to the
texture table.  The frame name is the name cut to the 15 characters that fit
into the buffer framename. -/
def AddAnimTex (miptex : List maptexdata_t) (name : String) : Option (List maptexdata_t) :=
  match AddAnimTex_frame name with
  | none => none
  | some (frame, basechar) =>
    some ((List.range frame).foldl (AddAnimTex_step (name.data.take 15) basechar) miptex)

/-- FindMiptex for a target game other than Quake II. -/
def FindMiptex_other (miptex : List maptexdata_t) (name : String)
    (extended_info : Option extended_texinfo_t) :
    Option (List maptexdata_t × extended_texinfo_t × Nat) :=
  /- Ignore leading path in texture names (Q2 map compatibility) -/
  let name := FindMiptex_basename name
  let extended_info := extended_info.getD {}
  let i := miptex.findIdx fun tex => decide (Q_strcasecmp name tex.name = 0)
  if i < miptex.length then some (miptex, extended_info, i)
  else
    let miptex1 := miptex ++ [{ name := name }]
    /- Handle animating textures carefully -/
    if name.data.head? = some '+' then
      match AddAnimTex miptex1 name with
      | none => none
      | some miptex2 => some (miptex2, extended_info, miptex.length)
    else some (miptex1, extended_info, miptex.length)

/-- The extended info in effect in FindMiptex for Quake II: the metadata of the
.wal when there is one and the call is not internal and was given no extended
info, otherwise the extended info given, otherwise the default. -/
def FindMiptex_q2_info (wal : Option texture_meta) (extended_info : Option extended_texinfo_t)
    ( internal : Bool) : extended_texinfo_t :=
  let extended_info : Option extended_texinfo_t :=
    match wal with
    | some w =>
      if internal = false ∧ extended_info = none then
        some { contents := w.contents, flags := w.flags, value := w.value, animation := w.animation }
      else extended_info
    | none => extended_info
  extended_info.getD {}

/-- The lookup part of FindMiptex for Quake II, which is all that a call with
recursive = false does. -/
def FindMiptex_q2_entry (load_image_meta : String → Option texture_meta)
    (miptex : List maptexdata_t) (name : String) (extended_info : Option extended_texinfo_t)
    ( internal : Bool) : miptex_entry :=
  -- load .wal first
  let wal := load_image_meta name
  let extended_info := FindMiptex_q2_info wal extended_info internal
  let i := miptex.findIdx fun tex =>
    decide (Q_strcasecmp name tex.name = 0) && decide (tex.flags = extended_info.flags) &&
    decide (tex.value = extended_info.value) && decide (tex.animation = extended_info.animation)
  if i < miptex.length then
    { miptex := miptex, extended_info := extended_info, index := i, added := false, wal := wal }
  else
    { miptex := miptex ++ [{ name := name, flags := extended_info.flags,
                             value := extended_info.value, animation := extended_info.animation }]
      extended_info := extended_info, index := miptex.length, added := true, wal := wal }

/-- The assignment map.miptex[i].animation_miptex = j. -/
def set_animation_miptex (miptex : List maptexdata_t) (i j : Nat) : List maptexdata_t :=
  match miptex[i]? with
  | some tex => miptex.set i { tex with animation_miptex := some j }
  | none => miptex

/-- The loop "recursively load animated textures until we loop back to us" of
FindMiptex, with a bound on the number of iterations; the state is the texture
table, the metadata wal and the index last_i.  The result none stands for the
use of metadata that load_image_meta did not find and for more iterations than
the bound. -/
def FindMiptex_q2_loop (load_image_meta : String → Option texture_meta) ( internal : Bool)
    (name : String) (extended_info : extended_texinfo_t) :
    Nat → List maptexdata_t → Option texture_meta → Nat → Option (List maptexdata_t × Nat)
  | 0, _, _, _ => none
  | fuel + 1, miptex, wal, last_i =>
    match wal with
    | none => none
    | some w =>
      -- wal for next chain
      match load_image_meta w.animation with
      | none => none
      | some w2 =>
        -- texinfo base for animated wal
        let animation_info : extended_texinfo_t := { extended_info with animation := w2.animation }
        -- fetch animation chain
        let r := FindMiptex_q2_entry load_image_meta miptex w2.name (some animation_info) internal
        let miptex2 := set_animation_miptex r.miptex last_i r.index
        -- looped back
        if w2.animation = name then some (miptex2, r.index)
        else FindMiptex_q2_loop load_image_meta internal name extended_info fuel miptex2 (some w2)
          r.index

/-- FindMiptex for Quake II. -/
def FindMiptex_q2 (load_image_meta : String → Option texture_meta) (fuel : Nat)
    (miptex : List maptexdata_t) (name : String) (extended_info : Option extended_texinfo_t)
    ( internal recursive : Bool) : Option (List maptexdata_t × extended_texinfo_t × Nat) :=
  let r := FindMiptex_q2_entry load_image_meta miptex name extended_info internal
  if r.added = false then some (r.miptex, r.extended_info, r.index)
  /- Handle animating textures carefully -/
  else if r.extended_info.animation ≠ "" ∧ recursive = true then
    match FindMiptex_q2_loop load_image_meta internal name r.extended_info fuel r.miptex r.wal
        r.index with
    | none => none
    | some (miptex2, last_i) =>
      -- link back to the start
      some (set_animation_miptex miptex2 last_i r.index, r.extended_info, r.index)
  else some (r.miptex, r.extended_info, r.index)

/-- FindMiptex: the index of the texture in the texture table, which is
extended when the texture is new.  The arguments are the function
load_image_meta (common/imglib.hh, not among the sources), whether the target
game is Quake II, a bound on the iterations of the animation loop, and the
texture table; the result is the new texture table, the extended info and the
index. -/
def FindMiptex (load_image_meta : String → Option texture_meta) ( is_quake2 : Bool) (fuel : Nat)
    (miptex : List maptexdata_t) (name : String) (extended_info : Option extended_texinfo_t)
    ( internal recursive : Bool) : Option (List maptexdata_t × extended_texinfo_t × Nat) :=
  if is_quake2 = false then FindMiptex_other miptex name extended_info
  else FindMiptex_q2 load_image_meta fuel miptex name extended_info internal recursive

/-- Every entry of the texture table m is an entry of m2 with the same name,
flags, value and animation name. -/
def miptex_kept (m m2 : List maptexdata_t) : Prop :=
  ∀ (k : Nat) (tex : maptexdata_t), m[k]? = some tex →
    ∃ tex2 : maptexdata_t, m2[k]? = some tex2 ∧ tex2.name = tex.name ∧
    tex2.flags = tex.flags ∧ tex2.value = tex.value ∧ tex2.animation = tex.animation

/-- Example metadata for Quake II: the texture "e1u1/wall" with flags 4 and
value 100, and no other texture. -/
def example_image_meta (name : String) : Option texture_meta :=
  if name = "e1u1/wall" then some { name := "e1u1/wall", flags := 4, value := 100 } else none

end miptex_table

section shift_spec
variable {K : Type} [LinearOrderedField K]

/-- The conversion of a floating-point value to int (static_cast<int>)
truncates toward zero for values inside the range of int; outside of that range
the conversion is undefined and nothing is assumed. -/
def qbsp_env.ToIntTruncates (env : qbsp_env K) : Prop :=
  ∀ x : K, |x| < 2 ^ 31 →
    (0 ≤ x → ((env.to_int x : Int) : K) ≤ x ∧ x < ((env.to_int x : Int) : K) + 1) ∧
    (x ≤ 0 → x ≤ ((env.to_int x : Int) : K) ∧ ((env.to_int x : Int) : K) - 1 < x)

/-- The example environment with the conversion to int of an archimedean
field: the floor of a non-negative value and the ceiling of a negative one. -/
def qbsp_env.sample_trunc [FloorRing K] : qbsp_env K :=
  { (qbsp_env.sample : qbsp_env K) with to_int := fun x => if 0 ≤ x then ⌊x⌋ else ⌈x⌉ }

end shift_spec

section snap_spec
variable {K : Type} [LinearOrderedField K]

/-- Q_rint returns an integer nearest to its argument. -/
def libm.RintNearest (m : libm K) : Prop :=
  ∀ x : K, ∃ n : Int, m.rint x = (n : K) ∧ ∀ k : Int, |x - (n : K)| ≤ |x - (k : K)|

/-- The eight components of the texture vectors in the order of the loops of
ParseBrushFace: vecs.at(i, j) for i = 0, 1 and j = 0, 1, 2, 3. -/
def texvecf.components (v : texvecf K) : List K :=
  [v.row0.x, v.row0.y, v.row0.z, v.row0.w, v.row1.x, v.row1.y, v.row1.z, v.row1.w]

end snap_spec

section repair_spec
variable {K : Type} [LinearOrderedField K]

/-- The Quake II surface and content bits that ParseTextureDef names; they are
declared in common/bspfile.hh, which is not among the sources. -/
structure q2_consts where
  Q2_SURF_SKY : Int
  Q2_SURF_NODRAW : Int
  Q2_SURF_TRANS33 : Int
  Q2_SURF_TRANS66 : Int
  Q2_CONTENTS_TRANSLUCENT : Int
  Q2_CONTENTS_DETAIL : Int

/-- The values of the Quake II bits. -/
def q2_consts.standard : q2_consts :=
  { Q2_SURF_SKY := 0x4, Q2_SURF_NODRAW := 0x80, Q2_SURF_TRANS33 := 0x10, Q2_SURF_TRANS66 := 0x20,
    Q2_CONTENTS_TRANSLUCENT := 0x10000000, Q2_CONTENTS_DETAIL := 0x8000000 }

/-- Each named constant is a single bit; the SKY and NODRAW bits differ, and so
do the TRANSLUCENT and DETAIL bits. -/
structure q2_consts.Bits (c : q2_consts) (sky nodraw trans33 trans66 translucent detail : Nat) :
    Prop where
  sky_eq : c.Q2_SURF_SKY = ((2 ^ sky : Nat) : Int)
  nodraw_eq : c.Q2_SURF_NODRAW = ((2 ^ nodraw : Nat) : Int)
  trans33_eq : c.Q2_SURF_TRANS33 = ((2 ^ trans33 : Nat) : Int)
  trans66_eq : c.Q2_SURF_TRANS66 = ((2 ^ trans66 : Nat) : Int)
  translucent_eq : c.Q2_CONTENTS_TRANSLUCENT = ((2 ^ translucent : Nat) : Int)
  detail_eq : c.Q2_CONTENTS_DETAIL = ((2 ^ detail : Nat) : Int)
  sky_ne : sky ≠ nodraw
  translucent_ne : translucent ≠ detail

/-- The start of the Quake II branch of ParseTextureDef: the extended info of
the face is completed from the metadata of the texture (wal), when there is
one, and default-constructed when neither is given; the animation is always
taken from the metadata. -/
def ParseTextureDef_q2_info (wal : Option texture_meta) (info : Option extended_texinfo_t) :
    extended_texinfo_t :=
  match wal with
  | some w =>
    let i : extended_texinfo_t :=
      match info with
      | none => { contents := w.contents, flags := w.flags, value := w.value }
      | some i => i
    { i with animation := w.animation }
  | none =>
    match info with
    | none => {}
    | some i => i

/-- The first repair of the Quake II branch of ParseTextureDef: TRANSLUCENT is
removed from the contents, and DETAIL is given instead when the surface has
neither TRANS33 nor TRANS66.  Returns the info and the warnings printed. -/
def ParseTextureDef_translucent (c : q2_consts) (info : extended_texinfo_t) :
    extended_texinfo_t × List String :=
  if Int.land info.contents c.Q2_CONTENTS_TRANSLUCENT ≠ 0 then
    -- remove TRANSLUCENT; it's only meant to be set by the compiler
    let contents1 := Int.land info.contents (Int.lnot c.Q2_CONTENTS_TRANSLUCENT)
    -- but give us detail if we lack trans. this is likely what they intended
    if Int.land info.flags (Int.lor c.Q2_SURF_TRANS33 c.Q2_SURF_TRANS66) = 0 then
      ({ info with contents := Int.lor contents1 c.Q2_CONTENTS_DETAIL },
        ["WARNING: swapped TRANSLUCENT for DETAIL"])
    else ({ info with contents := contents1 }, [])
  else (info, [])

/-- The second repair of the Quake II branch of ParseTextureDef ("This fixes a
bug in some old maps"): NODRAW is removed from the flags of a surface that has
both SKY and NODRAW. -/
def ParseTextureDef_sky_nodraw (c : q2_consts) (info : extended_texinfo_t) :
    extended_texinfo_t × List String :=
  if Int.land info.flags (Int.lor c.Q2_SURF_SKY c.Q2_SURF_NODRAW) =
      Int.lor c.Q2_SURF_SKY c.Q2_SURF_NODRAW then
    ({ info with flags := Int.land info.flags (Int.lnot c.Q2_SURF_NODRAW) },
      ["WARNING: SKY | NODRAW mixed. Removing NODRAW."])
  else (info, [])

/-- The repair step of the Quake II branch of ParseTextureDef: the two repairs
one after the other.  Returns the repaired info and the warnings printed. -/
def ParseTextureDef_repair (c : q2_consts) (info : extended_texinfo_t) :
    extended_texinfo_t × List String :=
  let r1 := ParseTextureDef_translucent c info
  let r2 := ParseTextureDef_sky_nodraw c r1.1
  (r2.1, r1.2 ++ r2.2)

/-- The Quake II branch of ParseTextureDef on the extended info read with the
face and the metadata of its texture. -/
def ParseTextureDef_q2 (c : q2_consts) (wal : Option texture_meta)
    (info : Option extended_texinfo_t) : extended_texinfo_t × List String :=
  ParseTextureDef_repair c (ParseTextureDef_q2_info wal info)

end repair_spec

section translate_spec
variable {K : Type} [LinearOrderedField K]

/-- The texture coordinates that texture vectors assign to a world point, by
the classic formula quoted in SetTexinfo_BrushPrimitives:
u = dot(vert, vecs[0]) + vecs[0][3], and the same with vecs[1] for v. -/
def texvecf.texcoords (vecs : texvecf K) (p : qvec3 K) : qvec2 K :=
  ⟨qv.dot p vecs.row0.xyz + vecs.row0.w, qv.dot p vecs.row1.xyz + vecs.row1.w⟩

/-- The method mapface_t::get_texvecs: the texture vectors of the texinfo of
the face. -/
def mapface_t.get_texvecs (mtexinfos : List (maptexinfo_t K)) (f : mapface_t K) :
    Option (texvecf K) :=
  match f.get_texinfo mtexinfos with
  | none => none
  | some tx => some tx.vecs

/-- The method mapface_t::set_texvecs: a copy of the texinfo of the face with
the given texture vectors is looked up with FindTexinfo. -/
def mapface_t.set_texvecs (env : qbsp_env K) (map : mapdata_t K) (f : mapface_t K)
    (vecs : texvecf K) : Option (mapdata_t K × mapface_t K) :=
  -- start with a copy of the current texinfo structure
  match f.get_texinfo map.mtexinfos with
  | none => none
  | some tx =>
    let texInfoNew : maptexinfo_t K := { tx with outputnum := none, vecs := vecs }
    let ft := env.FindTexinfo map.miptex map.mtexinfos texInfoNew
    some ({ map with mtexinfos := ft.1 }, { f with texinfo := ft.2 })

/-- One pass of the loop of TranslateMapFace over the rows of the texture
vectors: out[3] += dot(out.xyz, offset * -1). -/
def TranslateMapFace_row (out : qvec4 K) (offset : qvec3 K) : qvec4 K :=
  { out with w := out.w + qv.dot out.xyz (offset.scale (-1)) }

/-- TranslateMapFace: the plane points are moved by the offset and the
texture vectors are adjusted; none stands for the exception of get_texinfo on
a face whose texinfo index lies outside the table. -/
def TranslateMapFace (env : qbsp_env K) (m : libm K) (map : mapdata_t K) (face : mapface_t K)
    (offset : qvec3 K) : Option (mapdata_t K × mapface_t K) :=
  let new_planepts : planepts_t K :=
    ⟨face.planepts.p0.add offset, face.planepts.p1.add offset, face.planepts.p2.add offset⟩
  let sp := mapface_t.set_planepts env m map.planes face new_planepts
  let map1 : mapdata_t K := { map with planes := sp.1 }
  let face1 := sp.2.1
  -- update texinfo
  match face1.get_texvecs map1.mtexinfos with
  | none => none
  | some texvecs =>
    let newtexvecs : texvecf K :=
      ⟨TranslateMapFace_row texvecs.row0 offset, TranslateMapFace_row texvecs.row1 offset⟩
    face1.set_texvecs env map1 newtexvecs

/-- The law of FindTexinfo on texture vectors: the entries of the table keep
their texture vectors, and the entry at the index returned has the texture
vectors of the texinfo that was looked up. -/
def qbsp_env.FindTexinfoVecs (env : qbsp_env K) : Prop :=
  ∀ (miptex : List maptexdata_t) (mtexinfos : List (maptexinfo_t K)) (tx : maptexinfo_t K),
    (∀ (i : Nat) (t : maptexinfo_t K), mtexinfos[i]? = some t →
      ∃ t2 : maptexinfo_t K,
        (env.FindTexinfo miptex mtexinfos tx).1[i]? = some t2 ∧ t2.vecs = t.vecs) ∧
    ∃ t2 : maptexinfo_t K, (env.FindTexinfo miptex mtexinfos tx).1[(env.FindTexinfo miptex mtexinfos tx).2]? =
      some t2 ∧ t2.vecs = tx.vecs

/-- An example face for TranslateMapFace: the plane z = 0 with the texinfo 0. -/
def example_floor_face : mapface_t K :=
  { (mapface_t.default : mapface_t K) with
    planepts := ⟨⟨0, 0, 0⟩, ⟨0, 1, 0⟩, ⟨1, 0, 0⟩⟩, texinfo := 0 }

/-- The tables for the example face: one texinfo with the S axis along x, the
T axis along -y and the shifts 5 and 7. -/
def example_floor_map : mapdata_t K :=
  { planes := [], miptex := [{ name := "floor" }]
    mtexinfos := [{ (maptexinfo_t.default : maptexinfo_t K) with
      vecs := ⟨⟨1, 0, 0, 5⟩, ⟨0, -1, 0, 7⟩⟩ }] }

end translate_spec

section contents_spec
variable {K : Type} [LinearOrderedField K]

/-- The functions of the target game (qbsp_options.target_game, the gamedef_t
of common/bspfile.hh, which is not among the sources) that Brush_GetContents
calls, and entdict_t::get_int of common/entdata.h: they are parameters of the
embedding. -/
structure gamedef_t (K : Type) where
  create_empty_contents : contentflags_t
  face_get_contents : String → surfflags_t K → contentflags_t → contentflags_t
  /-- contentflags_t::is_empty -/
  contents_is_empty : contentflags_t → Bool
  /-- contentflags_t::types_equal -/
  contents_types_equal : contentflags_t → contentflags_t → Bool
  /-- contentflags_t::is_valid with its strict argument -/
  contents_is_valid : contentflags_t → Bool → Bool
  /-- contentflags_t::to_string -/
  contents_to_string : contentflags_t → String
  /-- entdict_t::get_int -/
  epairs_get_int : List (String × String) → String → Int

/-- The content classification of a face in Brush_GetContents: face_get_contents
on the texture name, the flags of the texinfo and the contents of the face;
none stands for the exception of get_texinfo on an index outside the table. -/
def Brush_GetContents_face (game : gamedef_t K) (mtexinfos : List (maptexinfo_t K))
    (mapface : mapface_t K) : Option contentflags_t :=
  match mapface.get_texinfo mtexinfos with
  | none => none
  | some texinfo => some (game.face_get_contents mapface.texname texinfo.flags mapface.contents)

/-- The loop of Brush_GetContents over the faces ("validate that all of the
sides have valid contents"); the state is base_contents_set, base_contents and
the messages printed, and the loop ends at the first face of another type. -/
def Brush_GetContents_loop (game : gamedef_t K) (mtexinfos : List (maptexinfo_t K)) :
    List (mapface_t K) → Bool → contentflags_t → List String →
      Option (contentflags_t × List String)
  | [], _, base_contents, log => some (base_contents, log)
  | mapface :: rest, base_contents_set, base_contents, log =>
    match Brush_GetContents_face game mtexinfos mapface with
    | none => none
    | some contents =>
      if game.contents_is_empty contents then
        Brush_GetContents_loop game mtexinfos rest base_contents_set base_contents log
      else
        -- use the first non-empty as the base contents value
        let base1 := if base_contents_set = false then contents else base_contents
        if game.contents_types_equal contents base1 = false then
          some (base1, log ++ ["WARNING: mixed face contents (" ++
            game.contents_to_string base1 ++ " != " ++ game.contents_to_string contents ++ ")"])
        else Brush_GetContents_loop game mtexinfos rest true base1 log

/-- The extended flags that Brush_GetContents takes from the entity. -/
def Brush_GetContents_extended (game : gamedef_t K) (entity : mapentity_t K)
    (base_contents : contentflags_t) : contentflags_t :=
  { base_contents with
    mirrored :=
      if epairs_has entity.epairs "_mirrorinside" then
        some (decide (game.epairs_get_int entity.epairs "_mirrorinside" ≠ 0))
      else none
    clips_same_type :=
      if epairs_has entity.epairs "_noclipfaces" then
        some (decide (game.epairs_get_int entity.epairs "_noclipfaces" = 0))
      else none
    illusionary_visblocker :=
      decide (Q_strcasecmp (epairs_get entity.epairs "classname") "func_illusionary_visblocker" = 0) }

/-- Brush_GetContents: the contents of the brush and the messages printed;
none stands for an abort (the Q_assert on the validity of the base contents, or
the exception of get_texinfo). -/
def Brush_GetContents (game : gamedef_t K) (mtexinfos : List (maptexinfo_t K))
    (entity : mapentity_t K) (mapbrush : mapbrush_t K) : Option (contentflags_t × List String) :=
  match Brush_GetContents_loop game mtexinfos mapbrush.faces false game.create_empty_contents [] with
  | none => none
  | some (base_contents, log) =>
    -- make sure we found a valid type
    if game.contents_is_valid base_contents false = false then none
    else some (Brush_GetContents_extended game entity base_contents, log)

/-- The base contents that the claim describes: the classification of the
first face whose classification is not empty, and the empty contents of the
game when there is no such face. -/
def Brush_GetContents_base (game : gamedef_t K) (mtexinfos : List (maptexinfo_t K))
    (faces : List (mapface_t K)) : contentflags_t :=
  match (faces.filterMap (Brush_GetContents_face game mtexinfos)).find?
      (fun c => !game.contents_is_empty c) with
  | some c => c
  | none => game.create_empty_contents

/-- An example game: the contents with native value 0 are the empty contents,
two contents have the same type when their native values are equal, and every
contents value is valid; the classification of a face is the contents read
with the face. -/
def gamedef_t.sample : gamedef_t K :=
  { create_empty_contents := {}
    face_get_contents := fun _ _ c => c
    contents_is_empty := fun c => decide (c.native = 0)
    contents_types_equal := fun a b => decide (a.native = b.native)
    contents_is_valid := fun _ _ => true
    contents_to_string := fun _ => ""
    epairs_get_int := fun _ _ => 0 }

/-- An example brush with mixed contents: an empty face, a face with contents
1 and a face with contents 2, all with the texinfo 0. -/
def mixed_brush : mapbrush_t K :=
  { (mapbrush_t.default : mapbrush_t K) with
    faces := [{ (mapface_t.default : mapface_t K) with texinfo := 0 },
      { (mapface_t.default : mapface_t K) with texinfo := 0, contents := { native := 1 } },
      { (mapface_t.default : mapface_t K) with texinfo := 0, contents := { native := 2 } }] }

end contents_spec

section entity_parse
variable {K : Type} [LinearOrderedField K]

/-- A token of the map text together with the number of the line it stands
on. -/
structure ptoken where
  text : String
  line : Nat
deriving DecidableEq

/-- The state of the token reader (parser_t of common/parser.hh, which is not
among the sources): the tokens not yet read, the token read last
(parser.token) and the line of the position reached (parser.location). -/
structure parser_t where
  tokens : List ptoken
  token : String
  location : Nat
deriving DecidableEq

/-- The outcome of a parsing function: a fatal error (FError, a failed
assertion or an uncaught exception), a result, or, for a loop that is run with
an iteration bound, the bound used up before the loop ended. -/
inductive parse_result (α : Type) where
  | fatal : parse_result α
  | unfinished : parse_result α
  | ok : α → parse_result α

/-- The tables of the map, the position in the text and the messages printed
while a map text is parsed. -/
structure parse_state (K : Type) where
  parser : parser_t
  map : mapdata_t K
  log : List String

/-- What the entity parser takes from code that is not among the sources or is
not embedded token by token. -/
structure parse_env (K : Type) where
  /-- ParsePlaneDef followed by the token-reading part of ParseTextureDef, for
  a face of a brush of the given format, started with the first token of the
  face as the current token; none is a fatal error or an exception. -/
  read_face : parser_t → brushformat_t → Option (parser_t × face_src K)
  /-- entdict_t::get_vector on a key, given the value the vector had -/
  epairs_get_vector : List (String × String) → String → qvec3 K → qvec3 K
  /-- qbsp_options.loaded_entity_defs: the aliases for entity classes -/
  loaded_entity_defs : List (String × List (String × String))

/-- Modelled from the spec: parser_t::parse_token without flags ("state
machine over a token stream"): the next token is read, on whatever line it
stands; false at the end of the text. -/
def parser_t.parse_token (p : parser_t) : Bool × parser_t :=
  match p.tokens with
  | [] => (false, { p with token := "" })
  | t :: rest => (true, { tokens := rest, token := t.text, location := t.line })

/-- Modelled from the spec: parser_t::parse_token(PARSE_PEEK): the next token
becomes the current token but is not consumed. -/
def parser_t.peek_token (p : parser_t) : Bool × parser_t :=
  match p.tokens with
  | [] => (false, { p with token := "" })
  | t :: _ => (true, { p with token := t.text })

/-- Modelled from the spec: parser_t::parse_token(PARSE_SAMELINE): the next
token is read if it stands on the line of the position; none is the fatal
error for a line that ends before the token. -/
def parser_t.parse_token_sameline (p : parser_t) : Option parser_t :=
  match p.tokens with
  | [] => none
  | t :: rest =>
    if t.line = p.location then some { tokens := rest, token := t.text, location := t.line }
    else none

/-- The characters for which std::isspace holds (in the "C" locale). -/
def isspace (c : Char) : Bool := c.toNat == 32 || (9 ≤ c.toNat && c.toNat ≤ 13)

/-- The trimming of the key in ParseEpair: white space is removed from its
start and from its end. -/
def ParseEpair_trim (key : String) : String :=
  String.mk ((key.data.dropWhile isspace).reverse.dropWhile isspace).reverse

/-- The end of ParseEpair, after key and value have been read: the property
is set on the entity, and the origin of the entity is read from the value of a
key that is "origin", ignoring case. -/
def ParseEpair_set (penv : parse_env K) (entity : mapentity_t K) (key value : String) :
    mapentity_t K :=
  let entity1 : mapentity_t K := { entity with epairs := epairs_set entity.epairs key value }
  if Q_strcasecmp key "origin" = 0 then
    { entity1 with origin := penv.epairs_get_vector entity1.epairs key entity1.origin }
  else entity1

/-- ParseEpair: the current token, trimmed, is the key, and the next token on
the line is the value. -/
def ParseEpair (penv : parse_env K) (p : parser_t) (entity : mapentity_t K) :
    parse_result (parser_t × mapentity_t K) :=
  let key := ParseEpair_trim p.token
  match p.parse_token_sameline with
  | none => parse_result.fatal
  | some p1 => parse_result.ok (p1, ParseEpair_set penv entity key p1.token)

/-- The start of ParseBrush: the format of the brush is told by a look at the
next token; a brush in brush-primitives format opens with an optional
"brushDef" and a second "{". -/
def ParseBrush_start (p : parser_t) : parse_result (parser_t × brushformat_t) :=
  let r := p.peek_token
  if r.1 = false then parse_result.fatal -- unexpected EOF after { beginning brush
  else if r.2.token = "(" then parse_result.ok (r.2, brushformat_t.NORMAL)
  else
    let p1 := r.2.parse_token.2
    -- optional
    let r2 : parse_result parser_t :=
      if p1.token = "brushDef" then
        let r3 := p1.parse_token
        if r3.1 = false then parse_result.fatal else parse_result.ok r3.2
      else parse_result.ok p1
    match r2 with
    | parse_result.fatal => parse_result.fatal
    | parse_result.unfinished => parse_result.unfinished
    | parse_result.ok p2 =>
      -- mandatory
      if p2.token ≠ "\x7b" then parse_result.fatal
      else parse_result.ok (p2, brushformat_t.BRUSH_PRIMITIVES)

/-- The loop "while (parser.parse_token())" of ParseBrush over the faces of the
brush; the first argument bounds the number of iterations. -/
def ParseBrush_loop (env : qbsp_env K) (opts : qbsp_options_t K) (m : libm K)
    (penv : parse_env K) (entity : mapentity_t K) :
    Nat → parse_state K → mapbrush_t K → parse_result (parse_state K × mapbrush_t K)
  | 0, _, _ => parse_result.unfinished
  | fuel + 1, st, brush =>
    let r := st.parser.parse_token
    if r.1 = false then parse_result.ok ({ st with parser := r.2 }, brush)
    else
      -- set linenum after first parsed token
      let brush1 : mapbrush_t K :=
        if brush.line = 0 then { brush with line := r.2.location } else brush
      if r.2.token = "\x7d" then parse_result.ok ({ st with parser := r.2 }, brush1)
      else
        match penv.read_face r.2 brush1.format with
        | none => parse_result.fatal
        | some (p2, src) =>
          match ParseBrushFace env opts m st.map entity src with
          | none => parse_result.fatal
          | some (map2, none) =>
            ParseBrush_loop env opts m penv entity fuel
              { parser := p2, map := map2,
                log := st.log ++ ["WARNING: Brush plane with no normal"] } brush1
          | some (map2, some face) =>
            /- Check for duplicate planes -/
            let c := ParseBrush_check env map2.planes brush1.faces face
            if c.1 then
              ParseBrush_loop env opts m penv entity fuel
                { parser := p2, map := map2, log := st.log ++ c.2 } brush1
            else
              /- Save the face, update progress -/
              ParseBrush_loop env opts m penv entity fuel
                { parser := p2, map := map2, log := st.log ++ c.2 }
                { brush1 with faces := brush1.faces ++ [face] }

/-- The end of ParseBrush for a brush in brush-primitives format: "there
should be another closing }". -/
def ParseBrush_end (p : parser_t) (format : brushformat_t) : parse_result parser_t :=
  if format = brushformat_t.BRUSH_PRIMITIVES then
    let r := p.parse_token
    if r.1 = false then parse_result.fatal
    else if r.2.token ≠ "\x7d" then parse_result.fatal
    else parse_result.ok r.2
  else parse_result.ok p

/-- ParseBrush, called after the "{" that opens the brush has been read. -/
def ParseBrush (env : qbsp_env K) (opts : qbsp_options_t K) (m : libm K) (penv : parse_env K)
    (game : gamedef_t K) (st : parse_state K) (entity : mapentity_t K) :
    parse_result (parse_state K × mapbrush_t K) :=
  match ParseBrush_start st.parser with
  | parse_result.fatal => parse_result.fatal
  | parse_result.unfinished => parse_result.unfinished
  | parse_result.ok (p1, format) =>
    let brush0 : mapbrush_t K := { (mapbrush_t.default : mapbrush_t K) with format := format }
    match ParseBrush_loop env opts m penv entity (p1.tokens.length + 1)
        { st with parser := p1 } brush0 with
    | parse_result.fatal => parse_result.fatal
    | parse_result.unfinished => parse_result.unfinished
    | parse_result.ok (st2, brush) =>
      match ParseBrush_end st2.parser brush.format with
      | parse_result.fatal => parse_result.fatal
      | parse_result.unfinished => parse_result.unfinished
      | parse_result.ok p3 =>
        match Brush_GetContents game st2.map.mtexinfos entity brush with
        | none => parse_result.fatal
        | some (contents, log) =>
          parse_result.ok ({ st2 with parser := p3, log := st2.log ++ log },
            { brush with contents := contents })

/-- The loop "do ... while (1)" of ParseEntity over the brushes and the
key/value pairs of the entity; the first argument bounds the number of
iterations. -/
def ParseEntity_loop (env : qbsp_env K) (opts : qbsp_options_t K) (m : libm K)
    (penv : parse_env K) (game : gamedef_t K) :
    Nat → parse_state K → mapentity_t K → parse_result (parse_state K × mapentity_t K)
  | 0, _, _ => parse_result.unfinished
  | fuel + 1, st, entity =>
    let r := st.parser.parse_token
    if r.1 = false then parse_result.fatal -- Unexpected EOF (no closing brace)
    else if r.2.token = "\x7d" then parse_result.ok ({ st with parser := r.2 }, entity)
    else if r.2.token = "\x7b" then
      match ParseBrush env opts m penv game { st with parser := r.2 } entity with
      | parse_result.fatal => parse_result.fatal
      | parse_result.unfinished => parse_result.unfinished
      | parse_result.ok (st2, brush) =>
        ParseEntity_loop env opts m penv game fuel st2
          { entity with mapbrushes := entity.mapbrushes ++ [brush] }
    else
      match ParseEpair penv r.2 entity with
      | parse_result.fatal => parse_result.fatal
      | parse_result.unfinished => parse_result.unfinished
      | parse_result.ok (p2, entity2) =>
        ParseEntity_loop env opts m penv game fuel { st with parser := p2 } entity2

/-- The step "replace aliases" of ParseEntity. -/
def ParseEntity_aliases (penv : parse_env K) (entity : mapentity_t K) : mapentity_t K :=
  match penv.loaded_entity_defs.find? (fun d => d.1 == epairs_get entity.epairs "classname") with
  | none => entity
  | some d =>
    { entity with
      epairs := d.2.foldl (fun epairs pair =>
        if pair.1 = "classname" ∨ epairs_has epairs pair.1 = false then
          epairs_set epairs pair.1 pair.2
        else epairs) entity.epairs }

/-- ParseEntity: the return value, the new state and the entity. -/
def ParseEntity (env : qbsp_env K) (opts : qbsp_options_t K) (m : libm K) (penv : parse_env K)
    (game : gamedef_t K) (st : parse_state K) (entity : mapentity_t K) :
    parse_result (Bool × parse_state K × mapentity_t K) :=
  let entity0 : mapentity_t K := { entity with location := st.parser.location }
  let r := st.parser.parse_token
  if r.1 = false then parse_result.ok (false, { st with parser := r.2 }, entity0)
  else if r.2.token ≠ "\x7b" then parse_result.fatal -- Invalid entity format, { not found
  else
    let entity1 : mapentity_t K := { entity0 with mapbrushes := [] }
    match ParseEntity_loop env opts m penv game (r.2.tokens.length + 1)
        { st with parser := r.2 } entity1 with
    | parse_result.fatal => parse_result.fatal
    | parse_result.unfinished => parse_result.unfinished
    | parse_result.ok (st2, entity2) =>
      parse_result.ok (true, st2, ParseEntity_aliases penv entity2)

/-- One item of the body of an entity: a key/value pair or a brush. -/
inductive entity_item (K : Type) where
  | pair (key value : String) : entity_item K
  | brush (b : mapbrush_t K) : entity_item K

/-- The brushes among the items, in their order. -/
def entity_item.brushes : List (entity_item K) → List (mapbrush_t K)
  | [] => []
  | entity_item.pair _ _ :: rest => entity_item.brushes rest
  | entity_item.brush b :: rest => b :: entity_item.brushes rest

/-- The key/value pairs among the items, in their order. -/
def entity_item.pairs : List (entity_item K) → List (String × String)
  | [] => []
  | entity_item.pair k v :: rest => (k, v) :: entity_item.pairs rest
  | entity_item.brush _ :: rest => entity_item.pairs rest

/-- The grammar of the body of an entity in the words of the specification
("repeatedly reads either a nested brush ({ ... }) or a key/value pair"): from
the given state and entity, the text continues with the given items, which
lead to the second state and entity.  A brush is a "{" followed by what
ParseBrush reads; a pair is a key, which is neither "{" nor "}", followed on
its line by a value. -/
inductive ReadsItems (env : qbsp_env K) (opts : qbsp_options_t K) (m : libm K)
    (penv : parse_env K) (game : gamedef_t K) :
    parse_state K → mapentity_t K → List (entity_item K) → parse_state K → mapentity_t K → Prop
  | nil (st : parse_state K) (e : mapentity_t K) : ReadsItems env opts m penv game st e [] st e
  | brush (st st2 st3 : parse_state K) (e e3 : mapentity_t K) (t : ptoken) (rest : List ptoken)
      (b : mapbrush_t K) (items : List (entity_item K)) :
      st.parser.tokens = t :: rest → t.text = "\x7b" →
      ParseBrush env opts m penv game
        { st with parser := { tokens := rest, token := t.text, location := t.line } } e =
        parse_result.ok (st2, b) →
      ReadsItems env opts m penv game st2 { e with mapbrushes := e.mapbrushes ++ [b] } items
        st3 e3 →
      ReadsItems env opts m penv game st e (entity_item.brush b :: items) st3 e3
  | pair (st st3 : parse_state K) (e e3 : mapentity_t K) (k v : ptoken) (rest : List ptoken)
      (items : List (entity_item K)) :
      st.parser.tokens = k :: v :: rest → k.text ≠ "\x7b" → k.text ≠ "\x7d" → v.line = k.line →
      ReadsItems env opts m penv game
        { st with parser := { tokens := rest, token := v.text, location := v.line } }
        (ParseEpair_set penv e (ParseEpair_trim k.text) v.text) items st3 e3 →
      ReadsItems env opts m penv game st e
        (entity_item.pair (ParseEpair_trim k.text) v.text :: items) st3 e3

/-- The law of the face reader: it moves forward in the text, so that the
tokens left after it are a suffix of the tokens it was given. -/
def parse_env.ReaderAdvances (penv : parse_env K) : Prop :=
  ∀ (p p2 : parser_t) (format : brushformat_t) (src : face_src K),
    penv.read_face p format = some (p2, src) → p2.tokens <:+ p.tokens

/-- An example parse environment: no face can be read, vectors are not read
from values, and there are no aliases. -/
def parse_env.sample : parse_env K :=
  { read_face := fun _ _ => none, epairs_get_vector := fun _ _ v => v, loaded_entity_defs := [] }

/-- The tokens of a text that stands on one line. -/
def line_tokens (texts : List String) : List ptoken := texts.map fun t => { text := t, line := 1 }

/-- The state at the start of a text. -/
def parse_state.start (tokens : List ptoken) : parse_state K :=
  { parser := { tokens := tokens, token := "", location := 1 }, map := mapdata_t.empty, log := [] }

end entity_parse

section external_map
variable {K : Type} [LinearOrderedField K]

/-- The loop of LoadExternalMap over the entities after the first one
("parse any subsequent entities, move any brushes to worldspawn"); the
first argument bounds the number of iterations. -/
def LoadExternalMap_loop (env : qbsp_env K) (opts : qbsp_options_t K) (m : libm K)
    (penv : parse_env K) (game : gamedef_t K) :
    Nat → parse_state K → mapentity_t K → parse_result (parse_state K × mapentity_t K)
  | 0, _, _ => parse_result.unfinished
  | fuel + 1, st, dest =>
    match ParseEntity env opts m penv game st mapentity_t.default with
    | parse_result.fatal => parse_result.fatal
    | parse_result.unfinished => parse_result.unfinished
    | parse_result.ok (false, st1, _) => parse_result.ok (st1, dest)
    | parse_result.ok (true, st1, dummy) =>
      -- move the brushes to the worldspawn
      LoadExternalMap_loop env opts m penv game fuel st1
        { dest with mapbrushes := dest.mapbrushes ++ dummy.mapbrushes }

/-- LoadExternalMap on the tokens of the file, none for a file that cannot be
loaded: the new state and the entity returned. -/
def LoadExternalMap (env : qbsp_env K) (opts : qbsp_options_t K) (m : libm K)
    (penv : parse_env K) (game : gamedef_t K) (map : mapdata_t K) (file : Option (List ptoken)) :
    parse_result (parse_state K × mapentity_t K) :=
  match file with
  | none => parse_result.fatal -- Couldn't load external map file
  | some tokens =>
    let st : parse_state K :=
      { parser := { tokens := tokens, token := "", location := 1 }, map := map, log := [] }
    -- parse the worldspawn
    match ParseEntity env opts m penv game st mapentity_t.default with
    | parse_result.fatal => parse_result.fatal
    | parse_result.unfinished => parse_result.unfinished
    | parse_result.ok (false, _, _) => parse_result.fatal -- Couldn't parse worldspawn entity
    | parse_result.ok (true, st1, dest) =>
      if Q_strcasecmp "worldspawn" (epairs_get dest.epairs "classname") ≠ 0 then
        parse_result.fatal -- Expected first entity to be worldspawn
      else
        match LoadExternalMap_loop env opts m penv game (st1.parser.tokens.length + 1) st1 dest with
        | parse_result.fatal => parse_result.fatal
        | parse_result.unfinished => parse_result.unfinished
        | parse_result.ok (st2, dest2) =>
          if dest2.mapbrushes.length = 0 then
            parse_result.fatal -- Expected at least one brush for external map
          else
            parse_result.ok ({ st2 with log := st2.log ++ ["Loaded mapbrushes."] }, dest2)

/-- The brushes of a list of entities, in the order of the entities. -/
def entities_brushes : List (mapentity_t K) → List (mapbrush_t K)
  | [] => []
  | e :: rest => e.mapbrushes ++ entities_brushes rest

/-- The text continues with the given entities, each read by ParseEntity into
a default-constructed entity, which lead from the first state to the
second. -/
inductive ReadsEntities (env : qbsp_env K) (opts : qbsp_options_t K) (m : libm K)
    (penv : parse_env K) (game : gamedef_t K) :
    parse_state K → List (mapentity_t K) → parse_state K → Prop
  | nil (st : parse_state K) : ReadsEntities env opts m penv game st [] st
  | cons (st st1 st2 : parse_state K) (e : mapentity_t K) (rest : List (mapentity_t K)) :
      ParseEntity env opts m penv game st mapentity_t.default = parse_result.ok (true, st1, e) →
      ReadsEntities env opts m penv game st1 rest st2 →
      ReadsEntities env opts m penv game st (e :: rest) st2

end external_map

section axial_bevel_spec
variable {K : Type} [LinearOrderedField K]

/-- The test of the axial loop of AddBrushBevels for "the plane is already
present": some face of the brush has a normal whose component along the axis
is dir. -/
def axialPresent (planes : List (qplane3 K)) (b : mapbrush_t K) (axis : Nat) (dir : Int) : Prop :=
  ∃ f ∈ b.faces, (f.get_plane planes).normal.get axis = (dir : K)

/-- The face whose surface attributes the new axial sides get: the first face
of the brush whose normal has the component -1 along x, if there is one, since
the loop moves it to position 0 before it adds a side; otherwise the first
face of the brush, and a default-constructed face for a brush without faces. -/
def axialBevelSource (planes : List (qplane3 K)) (b : mapbrush_t K) : mapface_t K :=
  match b.faces.find?
      (fun s => decide ((get_plane planes s.planenum).normal.get 0 = ((-1 : Int) : K))) with
  | some g => g
  | none => (b.faces ++ [mapface_t.default]).getD 0 mapface_t.default

/-- The state of the axial loop of AddBrushBevels after its first k passes. -/
def AddBrushBevels_axial_upto (st : bevel_state K) : Nat → bevel_state K
  | 0 => st
  | k + 1 =>
    AddBrushBevels_axial_step (AddBrushBevels_axial_upto st k) (k / 2)
      (if k % 2 = 0 then -1 else 1) k

/-- An example brush that lacks axial sides: a face with normal +x and
texinfo 1 followed by a face with normal -x and texinfo 2, on the planes of
the example cube. -/
def slab_brush : mapbrush_t K :=
  { (mapbrush_t.default : mapbrush_t K) with
    faces := [{ (cube_face 0 : mapface_t K) with texinfo := 1, texname := "a" },
      { (cube_face 2 : mapface_t K) with texinfo := 2, texname := "b" }]
    bounds := ⟨⟨-1, -1, -1⟩, ⟨1, 1, 1⟩⟩ }

/-- Invariant of the axial loop of AddBrushBevels after k passes, started in
the state st0.  The first k positions hold the canonical sides; the plane
table is extended; the brush differs in its face list only; every face was in
the brush at the start or has one of the first k canonical normals; each of
the first k sides that was missing at the start is a bevel on the axial plane
at the bounding box with the surface attributes of axialBevelSource; and from
the first pass on so has the face at position 0. -/
def bevel_state.AxialInv (st0 s : bevel_state K) (k : Nat) : Prop :=
  s.Canonical k ∧ st0.planes <+: s.planes ∧ s.b = { st0.b with faces := s.b.faces } ∧
  (k = 0 → s = st0) ∧
  (∀ g ∈ s.b.faces, g ∈ st0.b.faces ∨
    ∃ j, j < k ∧ (g.get_plane s.planes).normal = canonicalNormal j) ∧
  (∀ j, j < k → ¬ axialPresent st0.planes st0.b (j / 2) (if j % 2 = 0 then -1 else 1) →
    ∃ f, s.b.faces[j]? = some f ∧
      f.get_plane s.planes = axialBevelPlane st0.b (j / 2) (if j % 2 = 0 then -1 else 1) ∧
      f.bevel = true ∧
      f.texinfo = (axialBevelSource st0.planes st0.b).texinfo ∧
      f.contents = (axialBevelSource st0.planes st0.b).contents ∧
      f.texname = (axialBevelSource st0.planes st0.b).texname) ∧
  (1 ≤ k → ∃ f0, s.b.faces[0]? = some f0 ∧
    f0.texinfo = (axialBevelSource st0.planes st0.b).texinfo ∧
    f0.contents = (axialBevelSource st0.planes st0.b).contents ∧
    f0.texname = (axialBevelSource st0.planes st0.b).texname)

end axial_bevel_spec

section edge_bevel_spec
variable {K : Type} [LinearOrderedField K]

/-- Every face of the brush refers to an entry of the plane table. -/
def bevel_state.PlanesValid (st : bevel_state K) : Prop :=
  ∀ f ∈ st.b.faces, f.planenum < st.planes.length

/-- What holds of an edge bevel f at position p of the face list of a brush:
it is marked as a bevel, has no winding and refers to an entry of the plane
table; it was built from a vertex wj of the winding of a face g that stands at
a position i from 6 on and before p, and has the texinfo, contents and texture
name of g; its plane contains wj; and for every face that stands before p, the
plane of that face is not epsilon-equal to the plane of f and no vertex of its
winding lies in front of the plane of f by more than the epsilon option. -/
def EdgeBevel (env : qbsp_env K) (opts : qbsp_options_t K) (planes : List (qplane3 K))
    (faces : List (mapface_t K)) (p : Nat) (f : mapface_t K) : Prop :=
  f.bevel = true ∧ f.winding = [] ∧ f.planenum < planes.length ∧
  ∃ (i : Nat) (g : mapface_t K) (wj : qvec3 K), 6 ≤ i ∧ i < p ∧ faces[i]? = some g ∧
    wj ∈ g.winding ∧
    f.texinfo = g.texinfo ∧ f.contents = g.contents ∧ f.texname = g.texname ∧
    qv.dot wj (f.get_plane planes).normal = (f.get_plane planes).dist ∧
    ∀ (k : Nat) (h : mapface_t K), k < p → faces[k]? = some h →
      env.epsilonEqual (h.get_plane planes) (f.get_plane planes) = false ∧
      ∀ v ∈ h.winding,
        qv.dot v (f.get_plane planes).normal - (f.get_plane planes).dist ≤ opts.epsilon

/-- Relation between the states before and after a part of the edge-bevel
loops: the plane table is extended, the faces of the new state refer to
entries of it, the entity changes in its edge-bevel counter only, which is
increased by the number of faces appended to the brush, and every appended
face is an edge bevel in the sense of EdgeBevel. -/
def bevel_state.EdgeExtends (env : qbsp_env K) (opts : qbsp_options_t K)
    (st st2 : bevel_state K) : Prop :=
  st.planes <+: st2.planes ∧ st2.PlanesValid ∧
  ∃ new : List (mapface_t K),
    st2.b = { st.b with faces := st.b.faces ++ new } ∧
    st2.e = { st.e with numedgebevels := st.e.numedgebevels + new.length } ∧
    ∀ (p : Nat) (f : mapface_t K), st.b.faces.length ≤ p → st2.b.faces[p]? = some f →
      EdgeBevel env opts st2.planes st2.b.faces p f

end edge_bevel_spec

section offset_spec
variable {K : Type} [LinearOrderedField K]

end offset_spec

section bounds_warning_spec
variable {K : Type} [LinearOrderedField K]

/-- The plane table of the far example box, which reaches from -1 to 1 along x
and y and from 70000 to 70002 along z: its six sides in the order +X, -X, +Y,
-Y, +Z, -Z, each followed by its flipped plane. -/
def far_box_planes : List (qplane3 K) :=
  [⟨⟨1, 0, 0⟩, 1⟩, ⟨⟨-1, 0, 0⟩, -1⟩, ⟨⟨-1, 0, 0⟩, 1⟩, ⟨⟨1, 0, 0⟩, -1⟩,
   ⟨⟨0, 1, 0⟩, 1⟩, ⟨⟨0, -1, 0⟩, -1⟩, ⟨⟨0, -1, 0⟩, 1⟩, ⟨⟨0, 1, 0⟩, -1⟩,
   ⟨⟨0, 0, 1⟩, 70002⟩, ⟨⟨0, 0, -1⟩, -70002⟩, ⟨⟨0, 0, -1⟩, -70000⟩, ⟨⟨0, 0, 1⟩, 70000⟩]

/-- The windings of the faces of the far example box: for each side plane, the
four corners of that side. -/
def far_box_winding (p : qplane3 K) : Option (List (qvec3 K)) :=
  if p = ⟨⟨1, 0, 0⟩, 1⟩ then
    some [⟨1, -1, 70000⟩, ⟨1, 1, 70000⟩, ⟨1, 1, 70002⟩, ⟨1, -1, 70002⟩]
  else if p = ⟨⟨-1, 0, 0⟩, 1⟩ then
    some [⟨-1, -1, 70000⟩, ⟨-1, 1, 70000⟩, ⟨-1, 1, 70002⟩, ⟨-1, -1, 70002⟩]
  else if p = ⟨⟨0, 1, 0⟩, 1⟩ then
    some [⟨-1, 1, 70000⟩, ⟨1, 1, 70000⟩, ⟨1, 1, 70002⟩, ⟨-1, 1, 70002⟩]
  else if p = ⟨⟨0, -1, 0⟩, 1⟩ then
    some [⟨-1, -1, 70000⟩, ⟨1, -1, 70000⟩, ⟨1, -1, 70002⟩, ⟨-1, -1, 70002⟩]
  else if p = ⟨⟨0, 0, 1⟩, 70002⟩ then
    some [⟨-1, -1, 70002⟩, ⟨1, -1, 70002⟩, ⟨1, 1, 70002⟩, ⟨-1, 1, 70002⟩]
  else if p = ⟨⟨0, 0, -1⟩, -70000⟩ then
    some [⟨-1, -1, 70000⟩, ⟨1, -1, 70000⟩, ⟨1, 1, 70000⟩, ⟨-1, 1, 70000⟩]
  else none

/-- An environment for the far example box: as qbsp_env.sample, but the base
winding of a side plane of the box is that side of the box, which the clipping
leaves as it is, and the empty bounding box has the mins 10^9 and the maxs
-10^9 in every component (standing for the largest and the lowest number). -/
def qbsp_env.sample_far_box : qbsp_env K :=
  { (qbsp_env.sample : qbsp_env K) with
    BaseWindingForPlane := far_box_winding
    aabb_empty := ⟨⟨1000000000, 1000000000, 1000000000⟩,
      ⟨-1000000000, -1000000000, -1000000000⟩⟩ }

/-- The far example box as a brush: six faces on the planes 0, 2, 4, 6, 8, 10 of
far_box_planes. -/
def far_box_brush : mapbrush_t K :=
  { (mapbrush_t.default : mapbrush_t K) with
    faces := [cube_face 0, cube_face 2, cube_face 4, cube_face 6, cube_face 8, cube_face 10]
    line := 5 }

end bounds_warning_spec

section extents_spec
variable {K : Type} [LinearOrderedField K]

end extents_spec

section quark_solve_spec
variable {K : Type} [LinearOrderedField K]

/-- Example plane points for SetTexinfo_QuArK: with style TX_QUARK_TYPE1 the two
texture-plane vectors are (1, 0, 0) and (0, 1, 0). -/
def quark_example_pts : planepts_t K := ⟨⟨0, 0, 0⟩, ⟨0, 128, 0⟩, ⟨128, 0, 0⟩⟩

end quark_solve_spec

section valve_decode_spec
variable {K : Type} [LinearOrderedField K]

/-- Example texture vectors for TexDef_BSPToValve: axis rows of the lengths 5
and 2, with the shifts 7 and 9. -/
def valve_example_vecs : texvecf K := ⟨⟨3, 4, 0, 7⟩, ⟨0, 0, -2, 9⟩⟩

end valve_decode_spec

section shear_spec
variable {K : Type} [LinearOrderedField K]

/-- An example matrix with shear for Reverse_QuakeEd: the rows (1, 1) and
(0, 2). -/
def shear_example : qmat2x2 K := ⟨1, 1, 0, 2⟩

end shear_spec

section anim_loop_spec
variable {K : Type} [LinearOrderedField K]

/-- How a run of the animation loop of FindMiptex with a bound on the number
of iterations ends: with the use of metadata that load_image_meta did not find
(the code reads through an empty std::optional), with the bound reached, or
with the break of the loop. -/
inductive miptex_loop_result where
  | missing
  | unfinished
  | done (miptex : List maptexdata_t) (last_i : Nat)
deriving DecidableEq

/-- The loop "recursively load animated textures until we loop back to us" of
FindMiptex as in FindMiptex_q2_loop, with the two ways of not returning told
apart. -/
def FindMiptex_q2_loop_result (load_image_meta : String → Option texture_meta) ( internal : Bool)
    (name : String) (extended_info : extended_texinfo_t) :
    Nat → List maptexdata_t → Option texture_meta → Nat → miptex_loop_result
  | 0, _, _, _ => miptex_loop_result.unfinished
  | fuel + 1, miptex, wal, last_i =>
    match wal with
    | none => miptex_loop_result.missing
    | some w =>
      -- wal for next chain
      match load_image_meta w.animation with
      | none => miptex_loop_result.missing
      | some w2 =>
        -- texinfo base for animated wal
        let animation_info : extended_texinfo_t := { extended_info with animation := w2.animation }
        -- fetch animation chain
        let r := FindMiptex_q2_entry load_image_meta miptex w2.name (some animation_info) internal
        let miptex2 := set_animation_miptex r.miptex last_i r.index
        -- looped back
        if w2.animation = name then miptex_loop_result.done miptex2 r.index
        else FindMiptex_q2_loop_result load_image_meta internal name extended_info fuel miptex2
          (some w2) r.index

/-- The result of the loop as an optional value: the state at the break. -/
def miptex_loop_result.toOption : miptex_loop_result → Option (List maptexdata_t × Nat)
  | miptex_loop_result.done miptex last_i => some (miptex, last_i)
  | _ => none

/-- Metadata of three textures whose animation chain never returns to the
first: A names B, B names C, and C names B. -/
def chain_image_meta (name : String) : Option texture_meta :=
  if name = "A" then some { name := "A", animation := "B" }
  else if name = "B" then some { name := "B", animation := "C" }
  else if name = "C" then some { name := "C", animation := "B" }
  else none

/-- Metadata of one texture whose animation names a texture without
metadata. -/
def dangling_image_meta (name : String) : Option texture_meta :=
  if name = "A" then some { name := "A", animation := "B" } else none

/-- The texture table that the animation loop reaches on chain_image_meta after
three iterations and keeps from then on. -/
def chain_miptex : List maptexdata_t :=
  [{ name := "A", animation := "B", animation_miptex := some 1 },
   { name := "B", animation := "C", animation_miptex := some 2 },
   { name := "C", animation := "B", animation_miptex := some 1 }]

/-- Metadata of two textures whose animation chain closes: A names B and B
names A. -/
def closing_image_meta (name : String) : Option texture_meta :=
  if name = "A" then some { name := "A", animation := "B" }
  else if name = "B" then some { name := "B", animation := "A" }
  else none

end anim_loop_spec

section anim_order_spec
variable {K : Type} [LinearOrderedField K]

/-- The name of the animation frame with number k that AddAnimTex derives from
a texture name: the name cut to 15 characters, with the second character
replaced by the base character plus k. -/
def AddAnimTex_framename (name : String) (basechar k : Nat) : String :=
  String.mk ((name.data.take 15).set 1 (Char.ofNat (basechar + k)))

end anim_order_spec

section axes_spec
variable {K : Type} [LinearOrderedField K]

/-- The Pythagorean identity of the sine and cosine of the math library. -/
def libm.TrigPythagorean {K : Type} [LinearOrderedField K] (m : libm K) : Prop :=
  ∀ x : K, m.sin x * m.sin x + m.cos x * m.cos x = 1

/-- The index of the coordinate axis of a base normal: the component of the
snapped normal that is not zero. -/
def baseNormalAxis (snapped_normal : qvec3 K) : Nat :=
  if snapped_normal.x ≠ 0 then 0 else if snapped_normal.y ≠ 0 then 1 else 2

end axes_spec

section appends_spec
variable {K : Type} [LinearOrderedField K]

/-- Relation between the states before and after AddBrushBevels or a part of
it: the plane table is extended, the brush changes in its face list only, and
the new face list is a rearrangement of the old one followed by the added box
bevels and edge bevels; every added face is marked as a bevel and has no
winding; the entity changes in its two bevel counters only, which grow by the
numbers of added box bevels and edge bevels. -/
def bevel_state.Appends (st st2 : bevel_state K) : Prop :=
  st.planes <+: st2.planes ∧
  st2.b = { st.b with faces := st2.b.faces } ∧
  ∃ box edge : List (mapface_t K),
    st2.b.faces.Perm (st.b.faces ++ (box ++ edge)) ∧
    st2.e = { st.e with numboxbevels := st.e.numboxbevels + box.length,
                        numedgebevels := st.e.numedgebevels + edge.length } ∧
    ∀ f ∈ box ++ edge, f.bevel = true ∧ f.winding = []

end appends_spec

section shift_float_spec
variable {K : Type} [LinearOrderedField K]

/-- The example environment with the truncating conversion to int and with
unsigned members width and height of img::texture_meta. -/
def qbsp_env.sample_trunc_unsigned [FloorRing K] : qbsp_env K :=
  { (qbsp_env.sample_trunc : qbsp_env K) with texture_meta_unsigned := true }

end shift_float_spec

end qbsp

/-! # Theorems -/

namespace qbsp

section vec_lemmas
variable {K : Type} [LinearOrderedField K]

theorem qv.dot_self_nonneg (a : qvec3 K) : 0 ≤ qv.dot a a := by
  unfold qv.dot
  nlinarith [mul_self_nonneg a.x, mul_self_nonneg a.y, mul_self_nonneg a.z]

theorem qv.dot_self_pos {a : qvec3 K} (ha : a ≠ qvec3.zero) : 0 < qv.dot a a := by
  rcases lt_or_eq_of_le (qv.dot_self_nonneg a) with h | h
  · exact h
  · exfalso
    apply ha
    unfold qv.dot at h
    have hx : a.x = 0 := by nlinarith [mul_self_nonneg a.x, mul_self_nonneg a.y, mul_self_nonneg a.z]
    have hy : a.y = 0 := by nlinarith [mul_self_nonneg a.x, mul_self_nonneg a.y, mul_self_nonneg a.z]
    have hz : a.z = 0 := by nlinarith [mul_self_nonneg a.x, mul_self_nonneg a.y, mul_self_nonneg a.z]
    cases a
    simp only [qvec3.zero, qvec3.mk.injEq]
    exact ⟨hx, hy, hz⟩

theorem qv.length_nonneg {m : libm K} (hm : m.SqrtExact) (a : qvec3 K) : 0 ≤ qv.length m a :=
  (hm _ (qv.dot_self_nonneg a)).1

theorem qv.length_mul_self {m : libm K} (hm : m.SqrtExact) (a : qvec3 K) :
    qv.length m a * qv.length m a = qv.dot a a :=
  (hm _ (qv.dot_self_nonneg a)).2

theorem qv.length_pos {m : libm K} (hm : m.SqrtExact) {a : qvec3 K} (ha : a ≠ qvec3.zero) :
    0 < qv.length m a := by
  rcases lt_or_eq_of_le (qv.length_nonneg hm a) with h | h
  · exact h
  · have h2 := qv.length_mul_self hm a
    rw [← h] at h2
    have := qv.dot_self_pos ha
    simp at h2
    linarith

/-- The exact square root is determined by its square. -/
theorem libm.sqrt_eq {m : libm K} (hm : m.SqrtExact) {x y : K} (hy : 0 ≤ y) (h : y * y = x) :
    m.sqrt x = y := by
  have hx : 0 ≤ x := by rw [← h]; exact mul_self_nonneg y
  obtain ⟨h1, h2⟩ := hm x hx
  have : m.sqrt x * m.sqrt x = y * y := by rw [h2, h]
  exact (mul_self_inj h1 hy).1 this

end vec_lemmas

section valve_lemmas
variable {K : Type} [LinearOrderedField K]

theorem TexDef_BSPToValve_row_encode {m : libm K} (hm : m.SqrtExact) (a : qvec3 K) (s sh : K)
    (ha : a ≠ qvec3.zero) (hs : s ≠ 0) :
    TexDef_BSPToValve_row m ⟨a.x / s, a.y / s, a.z / s, sh⟩ =
      (((qv.normalize m a).2).scale (|s| / s), |s| / qv.length m a, sh) := by
  have hL : 0 < qv.length m a := qv.length_pos hm ha
  have hLL := qv.length_mul_self hm a
  have habs : 0 < |s| := abs_pos.mpr hs
  have hlen : qv.length m (⟨a.x / s, a.y / s, a.z / s⟩ : qvec3 K) = qv.length m a / |s| := by
    unfold qv.length
    apply libm.sqrt_eq hm (by positivity)
    have h2 : qv.dot a a = m.sqrt (qv.dot a a) * m.sqrt (qv.dot a a) := hLL.symm
    have h3 : |s| * |s| = s * s := abs_mul_abs_self s
    unfold qv.dot at h2 ⊢
    simp only []
    field_simp
    rw [← h2]
  have hne : qv.length m a / |s| ≠ 0 := by positivity
  simp only [TexDef_BSPToValve_row, qv.normalize, qvec4.xyz, hlen, if_neg hne, if_neg (ne_of_gt hL),
    ne_eq, not_false_eq_true, if_true, hne, qvec3.div, qvec3.scale]
  refine Prod.ext ?_ (Prod.ext ?_ rfl)
  · simp only [if_false, qvec3.mk.injEq]
    refine ⟨?_, ?_, ?_⟩ <;> (field_simp; left; ring)
  · simp only []
    field_simp

theorem libm.real_sqrtExact : libm.real.SqrtExact :=
  fun x hx => ⟨Real.sqrt_nonneg x, Real.mul_self_sqrt hx⟩

theorem libm.real_trigZero : libm.real.TrigZero :=
  ⟨Real.sin_zero, Real.cos_zero⟩

theorem qv.normalize_dot_self {m : libm K} (hm : m.SqrtExact) {a : qvec3 K} (ha : a ≠ qvec3.zero) :
    qv.dot (qv.normalize m a).2 (qv.normalize m a).2 = 1 := by
  have hL : 0 < qv.length m a := qv.length_pos hm ha
  have hLL := qv.length_mul_self hm a
  simp only [qv.normalize, if_neg (ne_of_gt hL), qvec3.div]
  unfold qv.dot at hLL ⊢
  simp only []
  field_simp
  linarith

/-- C1 (counterexample).  With a negative scale the decoder does not return the
original axis and scale: for axes (1,0,0), (0,1,0), shift (0,0) and scale
(-1, 1) over the reals it returns the first axis (-1,0,0) and the first scale 1,
while the normalised original axis is (1,0,0) and the original scale is -1. -/
theorem valve220_roundtrip_negative_scale :
    (TexDef_BSPToValve libm.real
        (SetTexinfo_Valve220 ⟨⟨1, 0, 0⟩, ⟨0, 1, 0⟩⟩ ⟨0, 0⟩ ⟨-1, 1⟩)).axis.row0 = ⟨-1, 0, 0⟩ ∧
    (TexDef_BSPToValve libm.real
        (SetTexinfo_Valve220 ⟨⟨1, 0, 0⟩, ⟨0, 1, 0⟩⟩ ⟨0, 0⟩ ⟨-1, 1⟩)).scale.x = 1 ∧
    (qv.normalize libm.real (⟨1, 0, 0⟩ : qvec3 ℝ)).2 = ⟨1, 0, 0⟩ ∧
    ¬ ((TexDef_BSPToValve libm.real
        (SetTexinfo_Valve220 ⟨⟨1, 0, 0⟩, ⟨0, 1, 0⟩⟩ ⟨0, 0⟩ ⟨-1, 1⟩)).axis.row0 =
          (qv.normalize libm.real (⟨1, 0, 0⟩ : qvec3 ℝ)).2 ∧
       (TexDef_BSPToValve libm.real
        (SetTexinfo_Valve220 ⟨⟨1, 0, 0⟩, ⟨0, 1, 0⟩⟩ ⟨0, 0⟩ ⟨-1, 1⟩)).scale.x = -1) := by
  have h1 : Real.sqrt 1 = 1 := Real.sqrt_one
  refine ⟨?_, ?_, ?_, ?_⟩
  · norm_num [TexDef_BSPToValve, TexDef_BSPToValve_row, SetTexinfo_Valve220, qv.normalize,
      qv.length, qv.dot, qvec4.xyz, qvec3.div, libm.real, h1]
  · norm_num [TexDef_BSPToValve, TexDef_BSPToValve_row, SetTexinfo_Valve220, qv.normalize,
      qv.length, qv.dot, qvec4.xyz, qvec3.div, libm.real, h1]
  · norm_num [qv.normalize, qv.length, qv.dot, qvec3.div, libm.real, h1]
  · norm_num [TexDef_BSPToValve, TexDef_BSPToValve_row, SetTexinfo_Valve220, qv.normalize,
      qv.length, qv.dot, qvec4.xyz, qvec3.div, libm.real, h1]

/-- C1 (amended).  For non-zero axes and non-zero scales, decoding the encoded
Valve-220 definition returns the original shift, unit-length axes equal to the
normalised original axes multiplied by the sign of the corresponding scale,
and the scale |scale| / |axis|.  For a positive scale this is the normalised
original axis, and the original scale when the axis has unit length. -/
theorem valve220_roundtrip (m : libm K) (hm : m.SqrtExact) (axis : qmat2x3 K) (shift scale : qvec2 K)
    (ha0 : axis.row0 ≠ qvec3.zero) (ha1 : axis.row1 ≠ qvec3.zero)
    (hs0 : scale.x ≠ 0) (hs1 : scale.y ≠ 0) :
    (TexDef_BSPToValve m (SetTexinfo_Valve220 axis shift scale)).shift = shift ∧
    (TexDef_BSPToValve m (SetTexinfo_Valve220 axis shift scale)).axis.row0 =
      ((qv.normalize m axis.row0).2).scale (|scale.x| / scale.x) ∧
    (TexDef_BSPToValve m (SetTexinfo_Valve220 axis shift scale)).axis.row1 =
      ((qv.normalize m axis.row1).2).scale (|scale.y| / scale.y) ∧
    (TexDef_BSPToValve m (SetTexinfo_Valve220 axis shift scale)).scale.x =
      |scale.x| / qv.length m axis.row0 ∧
    (TexDef_BSPToValve m (SetTexinfo_Valve220 axis shift scale)).scale.y =
      |scale.y| / qv.length m axis.row1 ∧
    qv.length m (TexDef_BSPToValve m (SetTexinfo_Valve220 axis shift scale)).axis.row0 = 1 ∧
    qv.length m (TexDef_BSPToValve m (SetTexinfo_Valve220 axis shift scale)).axis.row1 = 1 ∧
    (0 < scale.x →
      (TexDef_BSPToValve m (SetTexinfo_Valve220 axis shift scale)).axis.row0 =
        (qv.normalize m axis.row0).2 ∧
      (qv.length m axis.row0 = 1 →
        (TexDef_BSPToValve m (SetTexinfo_Valve220 axis shift scale)).scale.x = scale.x)) ∧
    (0 < scale.y →
      (TexDef_BSPToValve m (SetTexinfo_Valve220 axis shift scale)).axis.row1 =
        (qv.normalize m axis.row1).2 ∧
      (qv.length m axis.row1 = 1 →
        (TexDef_BSPToValve m (SetTexinfo_Valve220 axis shift scale)).scale.y = scale.y)) := by
  have r0 := TexDef_BSPToValve_row_encode hm axis.row0 scale.x shift.x ha0 hs0
  have r1 := TexDef_BSPToValve_row_encode hm axis.row1 scale.y shift.y ha1 hs1
  have n0 := qv.normalize_dot_self hm ha0
  have n1 := qv.normalize_dot_self hm ha1
  have sq : ∀ (v : qvec3 K) (c : K), c * c = 1 → qv.dot v v = 1 → qv.length m (v.scale c) = 1 := by
    intro v c hc hv
    unfold qv.length
    apply libm.sqrt_eq hm zero_le_one
    unfold qv.dot at hv ⊢
    simp only [qvec3.scale]
    have : v.x * c * (v.x * c) + v.y * c * (v.y * c) + v.z * c * (v.z * c)
        = (v.x * v.x + v.y * v.y + v.z * v.z) * (c * c) := by ring
    rw [this, hv, hc]
  have sg : ∀ s : K, s ≠ 0 → (|s| / s) * (|s| / s) = 1 := by
    intro s hs
    field_simp
  have pos : ∀ s : K, 0 < s → |s| / s = 1 := by
    intro s hs
    rw [abs_of_pos hs, div_self (ne_of_gt hs)]
  have sc1 : ∀ v : qvec3 K, v.scale 1 = v := by
    intro v
    cases v
    simp [qvec3.scale]
  simp only [TexDef_BSPToValve, SetTexinfo_Valve220, r0, r1]
  refine ⟨trivial, trivial, trivial, trivial, trivial, sq _ _ (sg _ hs0) n0,
    sq _ _ (sg _ hs1) n1, ?_, ?_⟩
  · intro h
    refine ⟨by rw [pos _ h, sc1], ?_⟩
    intro hl
    rw [hl, abs_of_pos h, div_one]
  · intro h
    refine ⟨by rw [pos _ h, sc1], ?_⟩
    intro hl
    rw [hl, abs_of_pos h, div_one]

/-- C1 (witness): axes (3,4,0) and (0,0,2), shift (5,7), scale (2,-3) over the
reals. -/
theorem valve220_roundtrip_witness :
    libm.real.SqrtExact ∧ (⟨3, 4, 0⟩ : qvec3 ℝ) ≠ qvec3.zero ∧ (⟨0, 0, 2⟩ : qvec3 ℝ) ≠ qvec3.zero ∧
    (2 : ℝ) ≠ 0 ∧ (-3 : ℝ) ≠ 0 ∧
    (TexDef_BSPToValve libm.real
      (SetTexinfo_Valve220 ⟨⟨3, 4, 0⟩, ⟨0, 0, 2⟩⟩ ⟨5, 7⟩ ⟨2, -3⟩)).shift = ⟨5, 7⟩ :=
  have h0 : (⟨3, 4, 0⟩ : qvec3 ℝ) ≠ qvec3.zero := by simp [qvec3.zero]
  have h1 : (⟨0, 0, 2⟩ : qvec3 ℝ) ≠ qvec3.zero := by simp [qvec3.zero]
  have h2 : (2 : ℝ) ≠ 0 := by norm_num
  have h3 : (-3 : ℝ) ≠ 0 := by norm_num
  ⟨libm.real_sqrtExact, h0, h1, h2, h3,
    (valve220_roundtrip libm.real libm.real_sqrtExact ⟨⟨3, 4, 0⟩, ⟨0, 0, 2⟩⟩ ⟨5, 7⟩ ⟨2, -3⟩
      h0 h1 h2 h3).1⟩

end valve_lemmas

section quaked_lemmas
variable {K : Type} [LinearOrderedField K]

/-- Dot product of a normal with base normal i of the table. -/
theorem baseaxis_dot (n : qvec3 K) :
    qv.dot n (baseaxis_at (0 * 3)) = n.z ∧ qv.dot n (baseaxis_at (1 * 3)) = -n.z ∧
    qv.dot n (baseaxis_at (2 * 3)) = n.x ∧ qv.dot n (baseaxis_at (3 * 3)) = -n.x ∧
    qv.dot n (baseaxis_at (4 * 3)) = n.y ∧ qv.dot n (baseaxis_at (5 * 3)) = -n.y := by
  simp [baseaxis_at, baseaxis, qv.dot]

/-- Invariant of the search loop of TextureAxisFromPlane after k iterations. -/
theorem TextureAxisFromPlane_step_inv (oldaxis : Bool) (n : qvec3 K) (k : Nat) (acc : K × Nat)
    (h0 : 0 ≤ acc.1) (hall : ∀ i, i < k → qv.dot n (baseaxis_at (i * 3)) ≤ acc.1)
    (hbest : (acc.2 < k ∧ acc.1 = qv.dot n (baseaxis_at (acc.2 * 3))) ∨ acc = (0, 0)) :
    0 ≤ (TextureAxisFromPlane_step oldaxis n acc k).1 ∧
    (∀ i, i < k + 1 → qv.dot n (baseaxis_at (i * 3)) ≤ (TextureAxisFromPlane_step oldaxis n acc k).1) ∧
    (((TextureAxisFromPlane_step oldaxis n acc k).2 < k + 1 ∧
      (TextureAxisFromPlane_step oldaxis n acc k).1 =
        qv.dot n (baseaxis_at ((TextureAxisFromPlane_step oldaxis n acc k).2 * 3))) ∨
      TextureAxisFromPlane_step oldaxis n acc k = (0, 0)) := by
  unfold TextureAxisFromPlane_step
  simp only []
  split_ifs with h
  · have hge : acc.1 ≤ qv.dot n (baseaxis_at (k * 3)) := by
      rcases h with h | h
      · exact le_of_lt h
      · exact le_of_eq h.1.symm
    refine ⟨le_trans h0 hge, ?_, Or.inl ⟨Nat.lt_succ_self k, rfl⟩⟩
    intro i hi
    rcases Nat.lt_succ_iff_lt_or_eq.mp hi with hi | hi
    · exact le_trans (hall i hi) hge
    · rw [hi]
  · have hlt : qv.dot n (baseaxis_at (k * 3)) ≤ acc.1 := by
      by_contra hc
      exact h (Or.inl (not_le.mp hc))
    refine ⟨h0, ?_, ?_⟩
    · intro i hi
      rcases Nat.lt_succ_iff_lt_or_eq.mp hi with hi | hi
      · exact hall i hi
      · rw [hi]; exact hlt
    · rcases hbest with hb | hb
      · exact Or.inl ⟨Nat.lt_succ_of_lt hb.1, hb.2⟩
      · exact Or.inr hb

theorem TextureAxisFromPlane_best_spec (oldaxis : Bool) (n : qvec3 K) :
    0 ≤ (TextureAxisFromPlane_best oldaxis n).1 ∧
    (∀ i, i < 6 → qv.dot n (baseaxis_at (i * 3)) ≤ (TextureAxisFromPlane_best oldaxis n).1) ∧
    (((TextureAxisFromPlane_best oldaxis n).2 < 6 ∧
      (TextureAxisFromPlane_best oldaxis n).1 =
        qv.dot n (baseaxis_at ((TextureAxisFromPlane_best oldaxis n).2 * 3))) ∨
      TextureAxisFromPlane_best oldaxis n = (0, 0)) := by
  have e : TextureAxisFromPlane_best oldaxis n =
      TextureAxisFromPlane_step oldaxis n (TextureAxisFromPlane_step oldaxis n
        (TextureAxisFromPlane_step oldaxis n (TextureAxisFromPlane_step oldaxis n
          (TextureAxisFromPlane_step oldaxis n (TextureAxisFromPlane_step oldaxis n (0, 0) 0) 1) 2) 3) 4) 5 := by
    simp [TextureAxisFromPlane_best, List.range, List.range.loop]
  rw [e]
  have s0 := TextureAxisFromPlane_step_inv oldaxis n 0 (0, 0) (le_refl _)
    (fun i hi => absurd hi (Nat.not_lt_zero i)) (Or.inr rfl)
  have s1 := TextureAxisFromPlane_step_inv oldaxis n 1 _ s0.1 s0.2.1 s0.2.2
  have s2 := TextureAxisFromPlane_step_inv oldaxis n 2 _ s1.1 s1.2.1 s1.2.2
  have s3 := TextureAxisFromPlane_step_inv oldaxis n 3 _ s2.1 s2.2.1 s2.2.2
  have s4 := TextureAxisFromPlane_step_inv oldaxis n 4 _ s3.1 s3.2.1 s3.2.2
  exact TextureAxisFromPlane_step_inv oldaxis n 5 _ s4.1 s4.2.1 s4.2.2

theorem libm.sqrt_one {m : libm K} (hm : m.SqrtExact) : m.sqrt 1 = 1 :=
  libm.sqrt_eq hm zero_le_one (one_mul 1)

/-- For a unit normal the search loop finds a base normal whose dot product with
the normal is positive and at least the absolute value of each component. -/
theorem TextureAxisFromPlane_best_unit (oldaxis : Bool) (n : qvec3 K) (hn : qv.dot n n = 1) :
    (TextureAxisFromPlane_best oldaxis n).2 < 6 ∧
    (TextureAxisFromPlane_best oldaxis n).1 =
      qv.dot n (baseaxis_at ((TextureAxisFromPlane_best oldaxis n).2 * 3)) ∧
    0 < (TextureAxisFromPlane_best oldaxis n).1 ∧
    1 ≤ 3 * ((TextureAxisFromPlane_best oldaxis n).1 * (TextureAxisFromPlane_best oldaxis n).1) := by
  obtain ⟨h0, hall, hbest⟩ := TextureAxisFromPlane_best_spec oldaxis n
  obtain ⟨d0, d1, d2, d3, d4, d5⟩ := baseaxis_dot n
  have a0 := hall 0 (by norm_num)
  have a1 := hall 1 (by norm_num)
  have a2 := hall 2 (by norm_num)
  have a3 := hall 3 (by norm_num)
  have a4 := hall 4 (by norm_num)
  have a5 := hall 5 (by norm_num)
  rw [d0] at a0
  rw [d1] at a1
  rw [d2] at a2
  rw [d3] at a3
  rw [d4] at a4
  rw [d5] at a5
  set b := (TextureAxisFromPlane_best oldaxis n).1 with hb
  have hx : n.x * n.x ≤ b * b := by nlinarith
  have hy : n.y * n.y ≤ b * b := by nlinarith
  have hz : n.z * n.z ≤ b * b := by nlinarith
  have h3 : 1 ≤ 3 * (b * b) := by
    unfold qv.dot at hn
    linarith
  have hpos : 0 < b := by
    rcases lt_or_eq_of_le h0 with h | h
    · exact h
    · rw [← h] at h3
      norm_num at h3
  refine ⟨?_, ?_, hpos, h3⟩
  · rcases hbest with h | h
    · exact h.1
    · rw [h]; norm_num
  · rcases hbest with h | h
    · exact h.2
    · exfalso
      have : b = 0 := by rw [hb, h]
      linarith

/-- The default Quake-Ed projection (shift 0, rotate 0, scale 1) consists of the
two unrotated base texture axes. -/
theorem SetTexinfo_QuakeEd_default (opts : qbsp_options_t K) {m : libm K} (ht : m.TrigZero)
    (plane : qplane3 K) (pts : planepts_t K)
    (hk : (TextureAxisFromPlane_best opts.oldaxis plane.normal).2 < 6) :
    (SetTexinfo_QuakeEd opts m plane pts ⟨0, 0⟩ 0 ⟨1, 1⟩).row0.xyz =
      (TextureAxisFromPlane opts.oldaxis plane).1 ∧
    (SetTexinfo_QuakeEd opts m plane pts ⟨0, 0⟩ 0 ⟨1, 1⟩).row1.xyz =
      (TextureAxisFromPlane opts.oldaxis plane).2.1 := by
  obtain ⟨hs, hc⟩ := ht
  unfold SetTexinfo_QuakeEd TextureAxisFromPlane
  generalize (TextureAxisFromPlane_best opts.oldaxis plane.normal).2 = k at hk
  interval_cases k <;>
    simp [baseaxis_at, baseaxis, SetTexinfo_QuakeEd_rotate, qvec3.get, qvec3.set, qvec4.xyz, hs, hc]

/-- The normalised cross product of the two base texture axes of table entry k
is the base normal of that entry up to sign. -/
theorem baseaxis_cross {m : libm K} (hm : m.SqrtExact) (n : qvec3 K) (k : Nat) (hk : k < 6) :
    |qv.dot (qv.normalize m (qv.cross (baseaxis_at (k * 3 + 1)) (baseaxis_at (k * 3 + 2)))).2 n| =
      |qv.dot n (baseaxis_at (k * 3))| := by
  have h1 := libm.sqrt_one hm
  interval_cases k <;>
    simp [baseaxis_at, baseaxis, qv.cross, qv.normalize, qv.length, qv.dot, qvec3.div, h1]

/-- Component of the default projection along a unit face normal. -/
theorem default_projection_cosangle (opts : qbsp_options_t K) {m : libm K} (hm : m.SqrtExact)
    (ht : m.TrigZero) (plane : qplane3 K) (pts : planepts_t K)
    (hn : qv.dot plane.normal plane.normal = 1) :
    1 / m.sqrt 3 ≤
      |qv.dot (qv.normalize m (qv.cross (SetTexinfo_QuakeEd opts m plane pts ⟨0, 0⟩ 0 ⟨1, 1⟩).row0.xyz
        (SetTexinfo_QuakeEd opts m plane pts ⟨0, 0⟩ 0 ⟨1, 1⟩).row1.xyz)).2 plane.normal| ∧
    1 / 2 <
      |qv.dot (qv.normalize m (qv.cross (SetTexinfo_QuakeEd opts m plane pts ⟨0, 0⟩ 0 ⟨1, 1⟩).row0.xyz
        (SetTexinfo_QuakeEd opts m plane pts ⟨0, 0⟩ 0 ⟨1, 1⟩).row1.xyz)).2 plane.normal| := by
  obtain ⟨hk, hb, hpos, h3⟩ := TextureAxisFromPlane_best_unit opts.oldaxis plane.normal hn
  obtain ⟨e0, e1⟩ := SetTexinfo_QuakeEd_default opts ht plane pts hk
  rw [e0, e1]
  simp only [TextureAxisFromPlane]
  rw [baseaxis_cross hm plane.normal _ hk, ← hb, abs_of_pos hpos]
  set b := (TextureAxisFromPlane_best opts.oldaxis plane.normal).1
  obtain ⟨s0, s3⟩ := hm 3 (by norm_num)
  have spos : 0 < m.sqrt 3 := by
    rcases lt_or_eq_of_le s0 with h | h
    · exact h
    · rw [← h] at s3
      norm_num at s3
  constructor
  · rw [div_le_iff₀ spos]
    by_contra hc
    have hc2 : b * m.sqrt 3 < 1 := not_le.mp hc
    have hnn : 0 ≤ b * m.sqrt 3 := le_of_lt (mul_pos hpos spos)
    have : (b * m.sqrt 3) * (b * m.sqrt 3) < 1 := by nlinarith
    have e : (b * m.sqrt 3) * (b * m.sqrt 3) = 3 * (b * b) := by
      calc (b * m.sqrt 3) * (b * m.sqrt 3) = (b * b) * (m.sqrt 3 * m.sqrt 3) := by ring
        _ = 3 * (b * b) := by rw [s3]; ring
    linarith
  · by_contra hc
    have hc2 : b ≤ 1 / 2 := not_lt.mp hc
    nlinarith


/-- ValidateTextureProjection returns a valid projection for a face whose plane
has a unit normal. -/
theorem ValidateTextureProjection_repairs (env : qbsp_env K) (opts : qbsp_options_t K) (m : libm K)
    (hm : m.SqrtExact) (ht : m.TrigZero) (heps : env.ZERO_EPSILON ≤ 1 / 2)
    (planes : List (qplane3 K)) (mapface : mapface_t K) (tx : maptexinfo_t K)
    (hn : qv.dot (mapface.get_plane planes).normal (mapface.get_plane planes).normal = 1) :
    ∃ tx2, ValidateTextureProjection env opts m planes mapface tx = some tx2 ∧
      IsValidTextureProjection_face env m planes mapface tx2 = true := by
  obtain ⟨_, hc2⟩ := default_projection_cosangle opts hm ht (mapface.get_plane planes)
    mapface.planepts hn
  unfold ValidateTextureProjection
  by_cases hv : IsValidTextureProjection_face env m planes mapface tx = true
  · exact ⟨tx, by simp [hv], hv⟩
  · have hd : IsValidTextureProjection_face env m planes mapface
        { tx with vecs := (SetTexinfo_QuakeEd opts m (mapface.get_plane planes) mapface.planepts
            ⟨0, 0⟩ 0 ⟨1, 1⟩) } = true := by
      unfold IsValidTextureProjection_face IsValidTextureProjection
      simp only []
      rw [if_neg]
      exact not_lt.mpr (le_trans heps (le_of_lt hc2))
    refine ⟨_, ?_, hd⟩
    simp only [hv, hd]
    simp

/-- C6.  For a face whose plane has a unit normal, ValidateTextureProjection
returns (its assertion does not fail) and the texture vectors it returns satisfy
IsValidTextureProjection, whatever the texture vectors were before; the default
Quake-Ed projection has a texture normal whose component along the face normal
has magnitude at least 1/sqrt(3).  The constant ZERO_EPSILON is taken to be at
most 1/2. -/
theorem ValidateTextureProjection_valid (env : qbsp_env K) (opts : qbsp_options_t K) (m : libm K)
    (hm : m.SqrtExact) (ht : m.TrigZero) (heps : env.ZERO_EPSILON ≤ 1 / 2)
    (planes : List (qplane3 K)) (mapface : mapface_t K) (tx : maptexinfo_t K)
    (hn : qv.dot (mapface.get_plane planes).normal (mapface.get_plane planes).normal = 1) :
    (∃ tx2, ValidateTextureProjection env opts m planes mapface tx = some tx2 ∧
      IsValidTextureProjection_face env m planes mapface tx2 = true) ∧
    1 / m.sqrt 3 ≤
      |qv.dot (qv.normalize m (qv.cross
          (SetTexinfo_QuakeEd opts m (mapface.get_plane planes) mapface.planepts
            ⟨0, 0⟩ 0 ⟨1, 1⟩).row0.xyz
          (SetTexinfo_QuakeEd opts m (mapface.get_plane planes) mapface.planepts
            ⟨0, 0⟩ 0 ⟨1, 1⟩).row1.xyz)).2 (mapface.get_plane planes).normal| :=
  ⟨ValidateTextureProjection_repairs env opts m hm ht heps planes mapface tx hn,
    (default_projection_cosangle opts hm ht (mapface.get_plane planes) mapface.planepts hn).1⟩

/-- C6 (witness): a default face on the plane z = 0 with all-zero texture
vectors, over the reals. -/
theorem ValidateTextureProjection_valid_witness :
    libm.real.SqrtExact ∧ libm.real.TrigZero ∧
    (qbsp_env.sample : qbsp_env ℝ).ZERO_EPSILON ≤ 1 / 2 ∧
    qv.dot ((mapface_t.default : mapface_t ℝ).get_plane [⟨⟨0, 0, 1⟩, 0⟩]).normal
      ((mapface_t.default : mapface_t ℝ).get_plane [⟨⟨0, 0, 1⟩, 0⟩]).normal = 1 ∧
    ∃ tx2, ValidateTextureProjection qbsp_env.sample qbsp_options_t.sample libm.real
        [⟨⟨0, 0, 1⟩, 0⟩] mapface_t.default maptexinfo_t.default = some tx2 ∧
      IsValidTextureProjection_face qbsp_env.sample libm.real [⟨⟨0, 0, 1⟩, 0⟩]
        mapface_t.default tx2 = true :=
  have h1 : (qbsp_env.sample : qbsp_env ℝ).ZERO_EPSILON ≤ 1 / 2 := by
    norm_num [qbsp_env.sample]
  have h2 : qv.dot ((mapface_t.default : mapface_t ℝ).get_plane [⟨⟨0, 0, 1⟩, 0⟩]).normal
      ((mapface_t.default : mapface_t ℝ).get_plane [⟨⟨0, 0, 1⟩, 0⟩]).normal = 1 := by
    norm_num [mapface_t.get_plane, get_plane, mapface_t.default, qv.dot]
  ⟨libm.real_sqrtExact, libm.real_trigZero, h1, h2,
    (ValidateTextureProjection_valid qbsp_env.sample qbsp_options_t.sample libm.real
      libm.real_sqrtExact libm.real_trigZero h1 [⟨⟨0, 0, 1⟩, 0⟩] mapface_t.default
      maptexinfo_t.default h2).1⟩

end quaked_lemmas

section parse_lemmas
variable {K : Type} [LinearOrderedField K]

/-! ### The plane table -/

theorem get_plane_add_or_find (planes : List (qplane3 K)) (p : qplane3 K) :
    get_plane (add_or_find_plane planes p).1 (add_or_find_plane planes p).2 = p ∧
    (add_or_find_plane planes p).2 < (add_or_find_plane planes p).1.length ∧
    planes <+: (add_or_find_plane planes p).1 := by
  unfold add_or_find_plane get_plane
  by_cases h : p ∈ planes
  · simp only [if_pos h]
    have hlt : planes.indexOf p < planes.length := List.indexOf_lt_length.mpr h
    refine ⟨?_, hlt, List.prefix_refl _⟩
    rw [List.getD_eq_getElem _ _ hlt]
    exact List.indexOf_get hlt
  · simp only [if_neg h]
    refine ⟨?_, by simp, List.prefix_append _ _⟩
    rw [List.getD_append_right _ _ _ _ (le_refl _)]
    simp

theorem get_plane_extended {planes planes2 : List (qplane3 K)} (h : planes <+: planes2) {n : Nat}
    (hn : n < planes.length) : get_plane planes2 n = get_plane planes n := by
  obtain ⟨t, rfl⟩ := h
  unfold get_plane
  rw [List.getD_append _ _ _ _ hn]

/-! ### Parsing one face -/

theorem qv.length_zero {m : libm K} (hm : m.SqrtExact) : qv.length m (qvec3.zero : qvec3 K) = 0 := by
  unfold qv.length
  apply libm.sqrt_eq hm (le_refl _)
  simp [qv.dot, qvec3.zero]

/-- A plane computed from plane points with a cross product of positive length
has a unit normal. -/
theorem planepts_plane_unit {m : libm K} (hm : m.SqrtExact) (pts : planepts_t K)
    (hpos : 0 < (planepts_plane m pts).1) :
    qv.dot (planepts_plane m pts).2.normal (planepts_plane m pts).2.normal = 1 := by
  unfold planepts_plane at hpos ⊢
  simp only [] at hpos ⊢
  apply qv.normalize_dot_self hm
  intro hz
  rw [qv.normalize, hz, qv.length_zero hm] at hpos
  exact lt_irrefl _ hpos

/-- ParseBrushFace does not abort; it extends the plane table, and it returns a
face exactly when the normal is long enough.  The face returned carries the
plane points of the source and refers to their plane. -/
theorem ParseBrushFace_spec (env : qbsp_env K) (opts : qbsp_options_t K) (m : libm K)
    (hm : m.SqrtExact) (ht : m.TrigZero) (heps : env.ZERO_EPSILON ≤ 1 / 2)
    (hne : 0 < env.NORMAL_EPSILON) (map : mapdata_t K) (entity : mapentity_t K)
    (src : face_src K) :
    ∃ map2 r, ParseBrushFace env opts m map entity src = some (map2, r) ∧
      map.planes <+: map2.planes ∧
      ((env.NORMAL_EPSILON ≤ (planepts_plane m src.planepts).1 ∧
          ∃ face, r = some face ∧ face.planepts = src.planepts ∧ face.line = src.line ∧
            face.planenum < map2.planes.length ∧
            face.get_plane map2.planes = (planepts_plane m src.planepts).2 ∧
            face.bevel = false ∧ face.winding = []) ∨
        (¬ env.NORMAL_EPSILON ≤ (planepts_plane m src.planepts).1 ∧ r = none)) := by
  obtain ⟨hg, hl, hp⟩ := get_plane_add_or_find map.planes (planepts_plane m src.planepts).2
  unfold ParseBrushFace mapface_t.set_planepts
  simp only []
  by_cases hok : env.NORMAL_EPSILON ≤ (planepts_plane m src.planepts).1
  · have hpos : 0 < (planepts_plane m src.planepts).1 := lt_of_lt_of_le hne hok
    have hunit := planepts_plane_unit hm src.planepts hpos
    simp only [hok, decide_True, Bool.true_eq_false, if_false]
    set planes2 := (add_or_find_plane map.planes (planepts_plane m src.planepts).2).1 with hplanes2
    set face2 : mapface_t K :=
      { planepts := src.planepts,
        planenum := (add_or_find_plane map.planes (planepts_plane m src.planepts).2).2,
        texname := (env.ParseTextureDef_attrs map.miptex src).2.texname,
        texinfo := (mapface_t.default : mapface_t K).texinfo,
        contents := (env.ParseTextureDef_attrs map.miptex src).2.contents,
        line := src.line,
        winding := (mapface_t.default : mapface_t K).winding,
        bevel := (mapface_t.default : mapface_t K).bevel,
        lmshift := (mapface_t.default : mapface_t K).lmshift,
        raw_info := (env.ParseTextureDef_attrs map.miptex src).2.raw_info } with hface2
    have hgp : face2.get_plane planes2 = (planepts_plane m src.planepts).2 := hg
    have hn : qv.dot (face2.get_plane planes2).normal (face2.get_plane planes2).normal = 1 := by
      rw [hgp]; exact hunit
    obtain ⟨tx2, htx2, _⟩ := ValidateTextureProjection_repairs env opts m hm ht heps planes2 face2
      { (maptexinfo_t.default : maptexinfo_t K) with
        miptex := (env.ParseTextureDef_attrs map.miptex src).2.miptex,
        flags := (env.ParseTextureDef_attrs map.miptex src).2.flags,
        value := (env.ParseTextureDef_attrs map.miptex src).2.value,
        vecs := (snapTexvecs env m (ParseTextureDef_vecs env opts m
          (env.ParseTextureDef_attrs map.miptex src).2 src.texdef face2.planepts
          (face2.get_plane planes2))) } hn
    simp only [htx2]
    refine ⟨_, _, rfl, hp, Or.inl ⟨trivial, _, rfl, rfl, rfl, hl, hg, rfl, rfl⟩⟩
  · simp only [hok, decide_False, if_true]
    exact ⟨_, _, rfl, hp, Or.inr ⟨not_false, rfl⟩⟩

/-! ### The face loop of ParseBrush -/

theorem ParseBrush_check_fold (env : qbsp_env K) (planes : List (qplane3 K)) (face : mapface_t K)
    (faces : List (mapface_t K)) (acc : Bool × List String) :
    (faces.foldl (ParseBrush_check_step env planes face) acc).1 =
      (acc.1 || faces.any fun c => env.epsilonEqual (c.get_plane planes) (face.get_plane planes)) ∧
    (("Brush with duplicate plane" ∈ acc.2 ∨
        ∃ c ∈ faces, env.epsilonEqual (c.get_plane planes) (face.get_plane planes) = true ∨
          env.epsilonEqual (c.get_plane planes).neg (face.get_plane planes) = true) →
      "Brush with duplicate plane" ∈ (faces.foldl (ParseBrush_check_step env planes face) acc).2) := by
  induction faces generalizing acc with
  | nil => simp
  | cons c rest ih =>
    simp only [List.foldl_cons, List.any_cons]
    obtain ⟨i1, i2⟩ := ih (ParseBrush_check_step env planes face acc c)
    rw [i1]
    by_cases h1 : env.epsilonEqual (c.get_plane planes) (face.get_plane planes) = true
    · have e : ParseBrush_check_step env planes face acc c =
          (true, acc.2 ++ ["Brush with duplicate plane"]) := by
        simp [ParseBrush_check_step, h1]
      rw [e] at i2 ⊢
      refine ⟨by simp [h1], fun _ => i2 (Or.inl (by simp))⟩
    · by_cases h2 : env.epsilonEqual (c.get_plane planes).neg (face.get_plane planes) = true
      · have e : ParseBrush_check_step env planes face acc c =
            (acc.1, acc.2 ++ ["Brush with duplicate plane"]) := by
          simp [ParseBrush_check_step, h1, h2]
        rw [e] at i2 ⊢
        refine ⟨by simp [h1], fun _ => i2 (Or.inl (by simp))⟩
      · have e : ParseBrush_check_step env planes face acc c = acc := by
          simp [ParseBrush_check_step, h1, h2]
        rw [e] at i2 ⊢
        refine ⟨by simp [h1], fun h => i2 ?_⟩
        rcases h with h | ⟨d, hd, hh⟩
        · exact Or.inl h
        · rcases List.mem_cons.mp hd with rfl | hd
          · rcases hh with hh | hh
            · exact absurd hh h1
            · exact absurd hh h2
          · exact Or.inr ⟨d, hd, hh⟩

theorem ParseBrush_check_spec (env : qbsp_env K) (planes : List (qplane3 K)) (face : mapface_t K)
    (faces : List (mapface_t K)) :
    (ParseBrush_check env planes faces face).1 =
      (faces.any fun c => env.epsilonEqual (c.get_plane planes) (face.get_plane planes)) ∧
    ((∃ c ∈ faces, env.epsilonEqual (c.get_plane planes) (face.get_plane planes) = true ∨
          env.epsilonEqual (c.get_plane planes).neg (face.get_plane planes) = true) →
      "Brush with duplicate plane" ∈ (ParseBrush_check env planes faces face).2) := by
  obtain ⟨h1, h2⟩ := ParseBrush_check_fold env planes face faces (false, [])
  unfold ParseBrush_check
  refine ⟨by rw [h1]; simp, fun h => h2 (Or.inr h)⟩

theorem mapface_t.FromPlanepts_prefix {env : qbsp_env K} {m : libm K}
    {planes planes2 : List (qplane3 K)} (h : planes <+: planes2) {f : mapface_t K}
    (hf : f.FromPlanepts env m planes) : f.FromPlanepts env m planes2 := by
  obtain ⟨h1, h2, h3⟩ := hf
  refine ⟨lt_of_lt_of_le h1 h.length_le, ?_, h3⟩
  rw [← h2]
  exact get_plane_extended h h1

theorem ParseBrush_check_FromPlanepts (env : qbsp_env K) (m : libm K) (planes : List (qplane3 K))
    (face : mapface_t K) (faces : List (mapface_t K))
    (hinv : ∀ f ∈ faces, f.FromPlanepts env m planes) :
    (ParseBrush_check env planes faces face).1 =
      ((faces.map (·.planepts)).any fun k =>
        env.epsilonEqual (planepts_plane m k).2 (face.get_plane planes)) := by
  rw [(ParseBrush_check_spec env planes face faces).1]
  induction faces with
  | nil => rfl
  | cons c rest ih =>
    simp only [List.any_cons, List.map_cons]
    rw [ih (fun f hf => hinv f (List.mem_cons_of_mem _ hf)), (hinv c (List.mem_cons_self _ _)).2.1]

/-- The face loop of ParseBrush returns, keeps the invariant of the kept faces,
only appends to the face list, the plane table and the messages, and keeps the
faces described by keptPlanepts. -/
theorem ParseBrush_faces_spec (env : qbsp_env K) (opts : qbsp_options_t K) (m : libm K)
    (hm : m.SqrtExact) (ht : m.TrigZero) (heps : env.ZERO_EPSILON ≤ 1 / 2)
    (hne : 0 < env.NORMAL_EPSILON) (entity : mapentity_t K) (srcs : List (face_src K)) :
    ∀ (map : mapdata_t K) (brush : mapbrush_t K) (log : List String),
      (∀ f ∈ brush.faces, f.FromPlanepts env m map.planes) →
      ∃ map2 brush2 log2,
        ParseBrush_faces env opts m entity map brush log srcs = some (map2, brush2, log2) ∧
        (∀ f ∈ brush2.faces, f.FromPlanepts env m map2.planes) ∧
        brush2.faces.map (·.planepts) =
          keptPlanepts env m (brush.faces.map (·.planepts)) (srcs.map (·.planepts)) ∧
        map.planes <+: map2.planes ∧ brush.faces <+: brush2.faces ∧ log <+: log2 := by
  induction srcs with
  | nil =>
    intro map brush log hinv
    exact ⟨map, brush, log, rfl, hinv, rfl, List.prefix_refl _, List.prefix_refl _,
      List.prefix_refl _⟩
  | cons src rest ih =>
    intro map brush log hinv
    obtain ⟨map2, r, hpf, hpre, hcase⟩ := ParseBrushFace_spec env opts m hm ht heps hne map entity src
    have hinv0 : ∀ f ∈ brush.faces, f.FromPlanepts env m map2.planes :=
      fun f hf => mapface_t.FromPlanepts_prefix hpre (hinv f hf)
    rw [ParseBrush_faces]
    simp only [hpf]
    generalize hbdef : (if brush.line = 0 then { brush with line := src.line } else brush) = brush1
    have hb1 : brush1.faces = brush.faces := by
      rw [← hbdef]
      split_ifs <;> rfl
    have hinv2 : ∀ f ∈ brush1.faces, f.FromPlanepts env m map2.planes := by
      rw [hb1]; exact hinv0
    rcases hcase with ⟨hok, face, rfl, hpts, _, hlt, hgp, _, _⟩ | ⟨hnok, rfl⟩
    · simp only []
      have hc := ParseBrush_check_FromPlanepts env m map2.planes face brush1.faces hinv2
      rw [hgp] at hc
      by_cases hd : (ParseBrush_check env map2.planes brush1.faces face).1 = true
      · simp only [hd, if_true]
        obtain ⟨map3, brush3, log3, e, i1, i2, i3, i4, i5⟩ := ih map2 brush1
          (log ++ (ParseBrush_check env map2.planes brush1.faces face).2) hinv2
        refine ⟨map3, brush3, log3, e, i1, ?_, hpre.trans i3, by rw [hb1] at i4; exact i4,
          (List.prefix_append _ _).trans i5⟩
        rw [i2, ← hb1, List.map_cons, keptPlanepts]
        rw [hd] at hc
        simp only [← hc, Bool.true_eq_false, and_false, if_false]
      · have hd2 : (ParseBrush_check env map2.planes brush1.faces face).1 = false := by
          simpa using hd
        simp only [hd2, Bool.false_eq_true, if_false]
        obtain ⟨map3, brush3, log3, e, i1, i2, i3, i4, i5⟩ := ih map2
          { brush1 with faces := brush1.faces ++ [face] }
          (log ++ (ParseBrush_check env map2.planes brush1.faces face).2)
          (by
            intro f hf
            rcases List.mem_append.mp hf with hf | hf
            · exact hinv2 f hf
            · rw [List.mem_singleton.mp hf]
              exact ⟨hlt, by rw [hpts]; exact hgp, by rw [hpts]; exact hok⟩)
        refine ⟨map3, brush3, log3, e, i1, ?_, hpre.trans i3,
          by rw [← hb1]; exact (List.prefix_append _ _).trans i4,
          (List.prefix_append _ _).trans i5⟩
        rw [i2, ← hb1, List.map_cons, keptPlanepts]
        rw [hd2] at hc
        simp only [← hc, hok, and_self, if_true, List.map_append, List.map_cons, List.map_nil, hpts]
    · simp only []
      obtain ⟨map3, brush3, log3, e, i1, i2, i3, i4, i5⟩ := ih map2 brush1
        (log ++ ["WARNING: Brush plane with no normal"]) hinv2
      refine ⟨map3, brush3, log3, e, i1, ?_, hpre.trans i3, by rw [hb1] at i4; exact i4,
        (List.prefix_append _ _).trans i5⟩
      rw [i2, hb1, List.map_cons, keptPlanepts]
      simp only [hnok, false_and, if_false]

/-! ### Properties of the kept faces -/

theorem keptPlanepts_append (env : qbsp_env K) (m : libm K) (l1 l2 : List (planepts_t K)) :
    ∀ kept, keptPlanepts env m kept (l1 ++ l2) =
      keptPlanepts env m (keptPlanepts env m kept l1) l2 := by
  induction l1 with
  | nil => intro kept; rfl
  | cons p rest ih =>
    intro kept
    simp only [List.cons_append, keptPlanepts]
    split_ifs
    · exact ih _
    · exact ih _

theorem keptPlanepts_sublist (env : qbsp_env K) (m : libm K) (srcs : List (planepts_t K)) :
    ∀ kept, ∃ new, keptPlanepts env m kept srcs = kept ++ new ∧ new.Sublist srcs := by
  induction srcs with
  | nil => intro kept; exact ⟨[], by simp [keptPlanepts], List.Sublist.refl _⟩
  | cons p rest ih =>
    intro kept
    simp only [keptPlanepts]
    split_ifs
    · obtain ⟨new, h1, h2⟩ := ih (kept ++ [p])
      exact ⟨p :: new, by rw [h1]; simp, h2.cons₂ p⟩
    · obtain ⟨new, h1, h2⟩ := ih kept
      exact ⟨new, h1, h2.cons p⟩

theorem keptPlanepts_pairwise (env : qbsp_env K) (m : libm K) (srcs : List (planepts_t K)) :
    ∀ kept,
      kept.Pairwise (fun a b => env.epsilonEqual (planepts_plane m a).2 (planepts_plane m b).2 = false) →
      (keptPlanepts env m kept srcs).Pairwise
        (fun a b => env.epsilonEqual (planepts_plane m a).2 (planepts_plane m b).2 = false) := by
  induction srcs with
  | nil => intro kept h; exact h
  | cons p rest ih =>
    intro kept h
    simp only [keptPlanepts]
    split_ifs with hc
    · apply ih
      rw [List.pairwise_append]
      refine ⟨h, List.pairwise_singleton _ _, ?_⟩
      intro a ha b hb
      rw [List.mem_singleton.mp hb]
      have := hc.2
      rw [List.any_eq_false] at this
      simpa using this a ha
    · exact ih kept h

theorem keptPlanepts_all (env : qbsp_env K) (m : libm K) (srcs : List (planepts_t K)) :
    ∀ kept, (∀ s ∈ srcs, env.NORMAL_EPSILON ≤ (planepts_plane m s).1) →
      (kept ++ srcs).Pairwise
        (fun a b => env.epsilonEqual (planepts_plane m a).2 (planepts_plane m b).2 = false) →
      keptPlanepts env m kept srcs = kept ++ srcs := by
  induction srcs with
  | nil => intro kept _ _; simp [keptPlanepts]
  | cons p rest ih =>
    intro kept hok hpw
    have hany : (kept.any fun k =>
        env.epsilonEqual (planepts_plane m k).2 (planepts_plane m p).2) = false := by
      rw [List.any_eq_false]
      intro k hk
      rw [List.pairwise_append] at hpw
      simpa using hpw.2.2 k hk p (List.mem_cons_self _ _)
    simp only [keptPlanepts, hok p (List.mem_cons_self _ _), hany, and_self, if_true]
    rw [ih (kept ++ [p]) (fun s hs => hok s (List.mem_cons_of_mem _ hs)) (by simpa using hpw)]
    simp

theorem keptPlanepts_drop (env : qbsp_env K) (m : libm K) (kept : List (planepts_t K))
    (d : planepts_t K) (rest : List (planepts_t K))
    (h : ∃ k ∈ kept, env.epsilonEqual (planepts_plane m k).2 (planepts_plane m d).2 = true) :
    keptPlanepts env m kept (d :: rest) = keptPlanepts env m kept rest := by
  have hany : (kept.any fun k =>
      env.epsilonEqual (planepts_plane m k).2 (planepts_plane m d).2) = true := by
    rw [List.any_eq_true]
    exact h
  simp [keptPlanepts, hany]

/-- A brush text with one face whose plane compares equal to that of an earlier
face, and no other such pair, keeps all faces but that one. -/
theorem keptPlanepts_one_duplicate (env : qbsp_env K) (m : libm K)
    (pre post : List (planepts_t K)) (d : planepts_t K)
    (hok : ∀ s ∈ pre ++ post, env.NORMAL_EPSILON ≤ (planepts_plane m s).1)
    (hpw : (pre ++ post).Pairwise
      (fun a b => env.epsilonEqual (planepts_plane m a).2 (planepts_plane m b).2 = false))
    (hdup : ∃ k ∈ pre, env.epsilonEqual (planepts_plane m k).2 (planepts_plane m d).2 = true) :
    keptPlanepts env m [] (pre ++ d :: post) = pre ++ post := by
  rw [keptPlanepts_append]
  have h1 : keptPlanepts env m [] pre = pre := by
    have := keptPlanepts_all env m pre [] (fun s hs => hok s (List.mem_append_left _ hs))
      (by simpa using (List.pairwise_append.mp hpw).1)
    simpa using this
  rw [h1, keptPlanepts_drop env m pre d post hdup]
  exact keptPlanepts_all env m post pre (fun s hs => hok s (List.mem_append_right _ hs)) hpw


end parse_lemmas

section brush_lemmas
variable {K : Type} [LinearOrderedField K]

theorem ParseBrush_faces_append (env : qbsp_env K) (opts : qbsp_options_t K) (m : libm K)
    (entity : mapentity_t K) (l1 l2 : List (face_src K)) :
    ∀ (map : mapdata_t K) (brush : mapbrush_t K) (log : List String),
      ParseBrush_faces env opts m entity map brush log (l1 ++ l2) =
        (ParseBrush_faces env opts m entity map brush log l1).bind
          (fun st => ParseBrush_faces env opts m entity st.1 st.2.1 st.2.2 l2) := by
  induction l1 with
  | nil => intro map brush log; simp [ParseBrush_faces]
  | cons src rest ih =>
    intro map brush log
    rw [List.cons_append, ParseBrush_faces, ParseBrush_faces]
    generalize (if brush.line = 0 then { brush with line := src.line } else brush) = b1
    rcases hpf : ParseBrushFace env opts m map entity src with _ | ⟨map2, _ | face⟩
    · simp
    · simp only []
      exact ih _ _ _
    · simp only []
      by_cases hc : (ParseBrush_check env map2.planes b1.faces face).1 = true
      · simp only [hc, if_true]
        exact ih _ _ _
      · simp only [hc, if_false]
        exact ih _ _ _

/-- Kept faces refer to the plane computed from their plane points. -/
theorem ParseBrush_faces_planes (env : qbsp_env K) (opts : qbsp_options_t K) (m : libm K)
    (hm : m.SqrtExact) (ht : m.TrigZero) (heps : env.ZERO_EPSILON ≤ 1 / 2)
    (hne : 0 < env.NORMAL_EPSILON) (entity : mapentity_t K) (srcs : List (face_src K))
    (map : mapdata_t K) (brush0 : mapbrush_t K) (hb : brush0.faces = []) :
    ∃ map2 brush2 log2,
      ParseBrush_faces env opts m entity map brush0 [] srcs = some (map2, brush2, log2) ∧
      (∀ f ∈ brush2.faces, f.FromPlanepts env m map2.planes) ∧
      brush2.faces.map (·.planepts) = keptPlanepts env m [] (srcs.map (·.planepts)) ∧
      brush2.faces.map (fun f => f.get_plane map2.planes) =
        (keptPlanepts env m [] (srcs.map (·.planepts))).map (fun p => (planepts_plane m p).2) := by
  obtain ⟨map2, brush2, log2, e, i1, i2, _, _, _⟩ :=
    ParseBrush_faces_spec env opts m hm ht heps hne entity srcs map brush0 []
      (by rw [hb]; intro f hf; exact absurd hf (List.not_mem_nil f))
  rw [hb, List.map_nil] at i2
  refine ⟨map2, brush2, log2, e, i1, i2, ?_⟩
  rw [← i2, List.map_map]
  apply List.map_congr_left
  intro f hf
  exact (i1 f hf).2.1

/-- A face whose plane only compares equal to the negation of a kept plane is
kept, and the duplicate-plane message is printed. -/
theorem ParseBrush_faces_negated (env : qbsp_env K) (opts : qbsp_options_t K) (m : libm K)
    (hm : m.SqrtExact) (ht : m.TrigZero) (heps : env.ZERO_EPSILON ≤ 1 / 2)
    (hne : 0 < env.NORMAL_EPSILON) (entity : mapentity_t K) (map : mapdata_t K)
    (brush0 : mapbrush_t K) (hb : brush0.faces = []) (pre : List (face_src K)) (s : face_src K)
    (map1 : mapdata_t K) (brush1 : mapbrush_t K) (log1 : List String)
    (h1 : ParseBrush_faces env opts m entity map brush0 [] pre = some (map1, brush1, log1))
    (hok : env.NORMAL_EPSILON ≤ (planepts_plane m s.planepts).1)
    (hneq : ∀ k ∈ brush1.faces,
      env.epsilonEqual (k.get_plane map1.planes) (planepts_plane m s.planepts).2 = false)
    (hneg : ∃ k ∈ brush1.faces,
      env.epsilonEqual (k.get_plane map1.planes).neg (planepts_plane m s.planepts).2 = true) :
    ∃ map2 brush2 log2 f,
      ParseBrush_faces env opts m entity map brush0 [] (pre ++ [s]) = some (map2, brush2, log2) ∧
      brush2.faces = brush1.faces ++ [f] ∧ f.planepts = s.planepts ∧
      f.get_plane map2.planes = (planepts_plane m s.planepts).2 ∧
      "Brush with duplicate plane" ∈ log2 := by
  obtain ⟨map1b, brush1b, log1b, e, inv1, _, _, _, _⟩ :=
    ParseBrush_faces_spec env opts m hm ht heps hne entity pre map brush0 []
      (by rw [hb]; intro f hf; exact absurd hf (List.not_mem_nil f))
  rw [h1] at e
  simp only [Option.some.injEq, Prod.mk.injEq] at e
  obtain ⟨rfl, rfl, rfl⟩ := e
  rw [ParseBrush_faces_append, h1]
  simp only [Option.some_bind]
  obtain ⟨map2, r, hpf, hpre, hcase⟩ :=
    ParseBrushFace_spec env opts m hm ht heps hne map1 entity s
  rw [ParseBrush_faces]
  simp only [hpf]
  generalize hbdef : (if brush1.line = 0 then { brush1 with line := s.line } else brush1) = brush1b
  have hb1 : brush1b.faces = brush1.faces := by
    rw [← hbdef]
    split_ifs <;> rfl
  rcases hcase with ⟨_, face, rfl, hpts, _, _, hgp, _, _⟩ | ⟨hnok, _⟩
  · simp only []
    have hstable : ∀ k ∈ brush1.faces, k.get_plane map2.planes = k.get_plane map1.planes :=
      fun k hk => get_plane_extended hpre (inv1 k hk).1
    have hd : (ParseBrush_check env map2.planes brush1b.faces face).1 = false := by
      rw [(ParseBrush_check_spec env map2.planes face brush1b.faces).1, List.any_eq_false, hb1]
      intro k hk
      rw [hstable k hk, hgp, hneq k hk]
      simp
    have hmsg : "Brush with duplicate plane" ∈
        (ParseBrush_check env map2.planes brush1b.faces face).2 := by
      apply (ParseBrush_check_spec env map2.planes face brush1b.faces).2
      obtain ⟨k, hk, hkn⟩ := hneg
      refine ⟨k, by rw [hb1]; exact hk, Or.inr ?_⟩
      rw [hstable k hk, hgp]
      exact hkn
    simp only [hd, Bool.false_eq_true, if_false, ParseBrush_faces]
    refine ⟨_, _, _, face, rfl, by rw [hb1], hpts, hgp, ?_⟩
    exact List.mem_append_right _ hmsg
  · exact absurd hok hnok


/-! ### Evaluation on example faces over the reals -/

theorem planepts_plane_example_up :
    planepts_plane libm.real (⟨⟨1, 0, 5⟩, ⟨0, 0, 5⟩, ⟨0, 1, 5⟩⟩ : planepts_t ℝ) =
      (1, ⟨⟨0, 0, 1⟩, 5⟩) := by
  have h1 : Real.sqrt 1 = 1 := Real.sqrt_one
  norm_num [planepts_plane, qv.normalize, qv.length, qv.cross, qv.dot, qvec3.sub, qvec3.div,
    libm.real, h1]

theorem planepts_plane_example_down :
    planepts_plane libm.real (⟨⟨0, 1, 5⟩, ⟨0, 0, 5⟩, ⟨1, 0, 5⟩⟩ : planepts_t ℝ) =
      (1, ⟨⟨0, 0, -1⟩, -5⟩) := by
  have h1 : Real.sqrt 1 = 1 := Real.sqrt_one
  norm_num [planepts_plane, qv.normalize, qv.length, qv.cross, qv.dot, qvec3.sub, qvec3.div,
    libm.real, h1]

theorem qbsp_env.sample_eps :
    (qbsp_env.sample : qbsp_env ℝ).ZERO_EPSILON ≤ 1 / 2 ∧
    0 < (qbsp_env.sample : qbsp_env ℝ).NORMAL_EPSILON := by
  constructor <;> norm_num [qbsp_env.sample]

/-- C4 (counterexample).  A brush text of two faces, the second with the exact
negation of the plane of the first: both faces are kept. -/
theorem ParseBrush_negated_plane_not_dropped :
    ∃ map2 brush2 log2,
      ParseBrush_faces qbsp_env.sample qbsp_options_t.sample libm.real mapentity_t.default
        mapdata_t.empty mapbrush_t.default []
        [face_src.plain 1 ⟨1, 0, 5⟩ ⟨0, 0, 5⟩ ⟨0, 1, 5⟩,
         face_src.plain 2 ⟨0, 1, 5⟩ ⟨0, 0, 5⟩ ⟨1, 0, 5⟩] = some (map2, brush2, log2) ∧
      brush2.faces.map (fun f => f.get_plane map2.planes) =
        [⟨⟨0, 0, 1⟩, 5⟩, (⟨⟨0, 0, 1⟩, 5⟩ : qplane3 ℝ).neg] := by
  obtain ⟨map2, brush2, log2, e, _, _, hp⟩ :=
    ParseBrush_faces_planes qbsp_env.sample qbsp_options_t.sample libm.real libm.real_sqrtExact
      libm.real_trigZero qbsp_env.sample_eps.1 qbsp_env.sample_eps.2 mapentity_t.default
      [face_src.plain 1 ⟨1, 0, 5⟩ ⟨0, 0, 5⟩ ⟨0, 1, 5⟩,
       face_src.plain 2 ⟨0, 1, 5⟩ ⟨0, 0, 5⟩ ⟨1, 0, 5⟩] mapdata_t.empty mapbrush_t.default rfl
  refine ⟨map2, brush2, log2, e, ?_⟩
  rw [hp]
  have hk : keptPlanepts qbsp_env.sample libm.real []
      [(⟨⟨1, 0, 5⟩, ⟨0, 0, 5⟩, ⟨0, 1, 5⟩⟩ : planepts_t ℝ), ⟨⟨0, 1, 5⟩, ⟨0, 0, 5⟩, ⟨1, 0, 5⟩⟩] =
      [⟨⟨1, 0, 5⟩, ⟨0, 0, 5⟩, ⟨0, 1, 5⟩⟩, ⟨⟨0, 1, 5⟩, ⟨0, 0, 5⟩, ⟨1, 0, 5⟩⟩] := by
    norm_num [keptPlanepts, qbsp_env.sample, planepts_plane_example_up,
      planepts_plane_example_down]
  simp only [List.map_cons, List.map_nil, face_src.plain, hk, planepts_plane_example_up,
    planepts_plane_example_down]
  norm_num [qplane3.neg, qvec3.neg]


/-- C3.  The face loop of ParseBrush returns for every brush text; the planes of
the faces it keeps are pairwise not equal under the comparison used by the
loop (qv::epsilonEqual), hence pairwise different when that comparison accepts
identical planes; the kept faces are in source order; and a brush text in which
one face has the plane of an earlier face, with no other such pair, keeps all
faces but that one: 6 faces of 7. -/
theorem ParseBrush_duplicate_planes (env : qbsp_env K) (opts : qbsp_options_t K) (m : libm K)
    (hm : m.SqrtExact) (ht : m.TrigZero) (heps : env.ZERO_EPSILON ≤ 1 / 2)
    (hne : 0 < env.NORMAL_EPSILON) (entity : mapentity_t K) (map : mapdata_t K)
    (brush0 : mapbrush_t K) (hb : brush0.faces = []) (srcs : List (face_src K)) :
    ∃ map2 brush2 log2,
      ParseBrush_faces env opts m entity map brush0 [] srcs = some (map2, brush2, log2) ∧
      brush2.faces.Pairwise (fun a b =>
        env.epsilonEqual (a.get_plane map2.planes) (b.get_plane map2.planes) = false) ∧
      ((∀ p, env.epsilonEqual p p = true) →
        brush2.faces.Pairwise (fun a b => a.get_plane map2.planes ≠ b.get_plane map2.planes)) ∧
      (brush2.faces.map (·.planepts)).Sublist (srcs.map (·.planepts)) ∧
      (∀ (pre post : List (face_src K)) (d : face_src K), srcs = pre ++ d :: post →
        (∀ s ∈ pre ++ post, env.NORMAL_EPSILON ≤ (planepts_plane m s.planepts).1) →
        (pre ++ post).Pairwise (fun a b =>
          env.epsilonEqual (planepts_plane m a.planepts).2 (planepts_plane m b.planepts).2 = false) →
        (∃ k ∈ pre,
          env.epsilonEqual (planepts_plane m k.planepts).2 (planepts_plane m d.planepts).2 = true) →
        brush2.faces.map (·.planepts) = (pre ++ post).map (·.planepts) ∧
        (srcs.length = 7 → brush2.faces.length = 6)) := by
  obtain ⟨map2, brush2, log2, e, inv, hk, _⟩ :=
    ParseBrush_faces_planes env opts m hm ht heps hne entity srcs map brush0 hb
  have hpw : brush2.faces.Pairwise (fun a b =>
      env.epsilonEqual (a.get_plane map2.planes) (b.get_plane map2.planes) = false) := by
    have h := keptPlanepts_pairwise env m (srcs.map (·.planepts)) [] List.Pairwise.nil
    rw [← hk, List.pairwise_map] at h
    refine List.Pairwise.imp_of_mem ?_ h
    intro a b ha hb2 hab
    rw [(inv a ha).2.1, (inv b hb2).2.1]
    exact hab
  refine ⟨map2, brush2, log2, e, hpw, ?_, ?_, ?_⟩
  · intro hrefl
    refine List.Pairwise.imp ?_ hpw
    intro a b hab heq
    rw [heq, hrefl] at hab
    exact Bool.noConfusion hab
  · obtain ⟨new, h1, h2⟩ := keptPlanepts_sublist env m (srcs.map (·.planepts)) []
    rw [hk, h1]
    simpa using h2
  · intro pre post d hsrc hok hpair hdup
    have hkept : brush2.faces.map (·.planepts) = (pre ++ post).map (·.planepts) := by
      rw [hk, hsrc, List.map_append, List.map_cons, List.map_append]
      apply keptPlanepts_one_duplicate
      · intro p hp
        rw [← List.map_append] at hp
        obtain ⟨s, hs, rfl⟩ := List.mem_map.mp hp
        exact hok s hs
      · rw [← List.map_append, List.pairwise_map]
        exact hpair
      · obtain ⟨k, hk1, hk2⟩ := hdup
        exact ⟨k.planepts, List.mem_map_of_mem _ hk1, hk2⟩
    refine ⟨hkept, ?_⟩
    intro h7
    have hl := congrArg List.length hkept
    rw [hsrc] at h7
    simp only [List.length_map, List.length_append, List.length_cons] at hl h7
    omega

/-- C3 (witness): a brush text of two faces with the same plane, over the
reals; one face is kept. -/
theorem ParseBrush_duplicate_planes_witness :
    libm.real.SqrtExact ∧ libm.real.TrigZero ∧
    (qbsp_env.sample : qbsp_env ℝ).ZERO_EPSILON ≤ 1 / 2 ∧
    0 < (qbsp_env.sample : qbsp_env ℝ).NORMAL_EPSILON ∧
    (mapbrush_t.default : mapbrush_t ℝ).faces = [] ∧
    ∃ map2 brush2 log2,
      ParseBrush_faces qbsp_env.sample qbsp_options_t.sample libm.real mapentity_t.default
        mapdata_t.empty mapbrush_t.default []
        [face_src.plain 1 ⟨1, 0, 5⟩ ⟨0, 0, 5⟩ ⟨0, 1, 5⟩,
         face_src.plain 2 ⟨1, 0, 5⟩ ⟨0, 0, 5⟩ ⟨0, 1, 5⟩] = some (map2, brush2, log2) ∧
      brush2.faces.map (·.planepts) = [⟨⟨1, 0, 5⟩, ⟨0, 0, 5⟩, ⟨0, 1, 5⟩⟩] := by
  refine ⟨libm.real_sqrtExact, libm.real_trigZero, qbsp_env.sample_eps.1, qbsp_env.sample_eps.2,
    rfl, ?_⟩
  obtain ⟨map2, brush2, log2, e, _, _, _, h⟩ :=
    ParseBrush_duplicate_planes qbsp_env.sample qbsp_options_t.sample libm.real
      libm.real_sqrtExact libm.real_trigZero qbsp_env.sample_eps.1 qbsp_env.sample_eps.2
      mapentity_t.default mapdata_t.empty mapbrush_t.default rfl
      [face_src.plain 1 ⟨1, 0, 5⟩ ⟨0, 0, 5⟩ ⟨0, 1, 5⟩,
       face_src.plain 2 ⟨1, 0, 5⟩ ⟨0, 0, 5⟩ ⟨0, 1, 5⟩]
  refine ⟨map2, brush2, log2, e, ?_⟩
  have h2 := (h [face_src.plain 1 ⟨1, 0, 5⟩ ⟨0, 0, 5⟩ ⟨0, 1, 5⟩] []
    (face_src.plain 2 ⟨1, 0, 5⟩ ⟨0, 0, 5⟩ ⟨0, 1, 5⟩) rfl
    (by
      intro s hs
      simp only [List.append_nil, List.mem_singleton] at hs
      rw [hs]
      norm_num [face_src.plain, planepts_plane_example_up, qbsp_env.sample])
    (by simp)
    (by
      refine ⟨_, List.mem_singleton_self _, ?_⟩
      norm_num [face_src.plain, planepts_plane_example_up, qbsp_env.sample])).1
  rw [h2]
  rfl


/-- C4 (amended).  A face with a long enough normal whose plane compares equal
to the negation of the plane of a face already kept, and to the plane of no
kept face, is reported with the message "Brush with duplicate plane" and is
kept: it is appended to the face list of the brush. -/
theorem ParseBrush_negated_plane_kept (env : qbsp_env K) (opts : qbsp_options_t K) (m : libm K)
    (hm : m.SqrtExact) (ht : m.TrigZero) (heps : env.ZERO_EPSILON ≤ 1 / 2)
    (hne : 0 < env.NORMAL_EPSILON) (entity : mapentity_t K) (map : mapdata_t K)
    (brush0 : mapbrush_t K) (hb : brush0.faces = []) (pre : List (face_src K)) (s : face_src K)
    (map1 : mapdata_t K) (brush1 : mapbrush_t K) (log1 : List String)
    (h1 : ParseBrush_faces env opts m entity map brush0 [] pre = some (map1, brush1, log1))
    (hok : env.NORMAL_EPSILON ≤ (planepts_plane m s.planepts).1)
    (hneq : ∀ k ∈ brush1.faces,
      env.epsilonEqual (k.get_plane map1.planes) (planepts_plane m s.planepts).2 = false)
    (hneg : ∃ k ∈ brush1.faces,
      env.epsilonEqual (k.get_plane map1.planes).neg (planepts_plane m s.planepts).2 = true) :
    ∃ map2 brush2 log2 f,
      ParseBrush_faces env opts m entity map brush0 [] (pre ++ [s]) = some (map2, brush2, log2) ∧
      brush2.faces = brush1.faces ++ [f] ∧ f.planepts = s.planepts ∧
      f.get_plane map2.planes = (planepts_plane m s.planepts).2 ∧
      "Brush with duplicate plane" ∈ log2 :=
  ParseBrush_faces_negated env opts m hm ht heps hne entity map brush0 hb pre s map1 brush1 log1
    h1 hok hneq hneg

/-- C4 (witness): the face on the plane z = 5 facing up followed by the face on
the same plane facing down, over the reals. -/
theorem ParseBrush_negated_plane_kept_witness :
    libm.real.SqrtExact ∧ libm.real.TrigZero ∧
    (qbsp_env.sample : qbsp_env ℝ).ZERO_EPSILON ≤ 1 / 2 ∧
    0 < (qbsp_env.sample : qbsp_env ℝ).NORMAL_EPSILON ∧
    (mapbrush_t.default : mapbrush_t ℝ).faces = [] ∧
    ∃ map1 brush1 log1,
      ParseBrush_faces qbsp_env.sample qbsp_options_t.sample libm.real mapentity_t.default
        mapdata_t.empty mapbrush_t.default []
        [face_src.plain 1 ⟨1, 0, 5⟩ ⟨0, 0, 5⟩ ⟨0, 1, 5⟩] = some (map1, brush1, log1) ∧
      (qbsp_env.sample : qbsp_env ℝ).NORMAL_EPSILON ≤
        (planepts_plane libm.real
          (face_src.plain 2 ⟨0, 1, 5⟩ ⟨0, 0, 5⟩ ⟨1, 0, 5⟩ : face_src ℝ).planepts).1 ∧
      (∀ k ∈ brush1.faces,
        (qbsp_env.sample : qbsp_env ℝ).epsilonEqual (k.get_plane map1.planes)
          (planepts_plane libm.real
            (face_src.plain 2 ⟨0, 1, 5⟩ ⟨0, 0, 5⟩ ⟨1, 0, 5⟩ : face_src ℝ).planepts).2 = false) ∧
      (∃ k ∈ brush1.faces,
        (qbsp_env.sample : qbsp_env ℝ).epsilonEqual (k.get_plane map1.planes).neg
          (planepts_plane libm.real
            (face_src.plain 2 ⟨0, 1, 5⟩ ⟨0, 0, 5⟩ ⟨1, 0, 5⟩ : face_src ℝ).planepts).2 = true) ∧
      ∃ map2 brush2 log2 f,
        ParseBrush_faces qbsp_env.sample qbsp_options_t.sample libm.real mapentity_t.default
          mapdata_t.empty mapbrush_t.default []
          ([face_src.plain 1 ⟨1, 0, 5⟩ ⟨0, 0, 5⟩ ⟨0, 1, 5⟩] ++
            [face_src.plain 2 ⟨0, 1, 5⟩ ⟨0, 0, 5⟩ ⟨1, 0, 5⟩]) = some (map2, brush2, log2) ∧
        brush2.faces = brush1.faces ++ [f] ∧
        "Brush with duplicate plane" ∈ log2 := by
  refine ⟨libm.real_sqrtExact, libm.real_trigZero, qbsp_env.sample_eps.1, qbsp_env.sample_eps.2,
    rfl, ?_⟩
  obtain ⟨map1, brush1, log1, e, _, _, hp⟩ :=
    ParseBrush_faces_planes qbsp_env.sample qbsp_options_t.sample libm.real libm.real_sqrtExact
      libm.real_trigZero qbsp_env.sample_eps.1 qbsp_env.sample_eps.2 mapentity_t.default
      [face_src.plain 1 ⟨1, 0, 5⟩ ⟨0, 0, 5⟩ ⟨0, 1, 5⟩] mapdata_t.empty mapbrush_t.default rfl
  have hk : keptPlanepts qbsp_env.sample libm.real []
      [(⟨⟨1, 0, 5⟩, ⟨0, 0, 5⟩, ⟨0, 1, 5⟩⟩ : planepts_t ℝ)] = [⟨⟨1, 0, 5⟩, ⟨0, 0, 5⟩, ⟨0, 1, 5⟩⟩] := by
    norm_num [keptPlanepts, qbsp_env.sample, planepts_plane_example_up]
  simp only [List.map_cons, List.map_nil, face_src.plain, hk, planepts_plane_example_up] at hp
  have hplane : ∀ k ∈ brush1.faces, k.get_plane map1.planes = ⟨⟨0, 0, 1⟩, 5⟩ := by
    intro k hk1
    have : k.get_plane map1.planes ∈ brush1.faces.map (fun f => f.get_plane map1.planes) :=
      List.mem_map_of_mem _ hk1
    rw [hp] at this
    exact List.mem_singleton.mp this
  have hex : ∃ k, k ∈ brush1.faces := by
    have hl := congrArg List.length hp
    simp only [List.length_map, List.length_singleton] at hl
    exact List.exists_mem_of_length_pos (by omega)
  have hok : (qbsp_env.sample : qbsp_env ℝ).NORMAL_EPSILON ≤
      (planepts_plane libm.real
        (face_src.plain 2 ⟨0, 1, 5⟩ ⟨0, 0, 5⟩ ⟨1, 0, 5⟩ : face_src ℝ).planepts).1 := by
    norm_num [face_src.plain, planepts_plane_example_down, qbsp_env.sample]
  have hneq : ∀ k ∈ brush1.faces,
      (qbsp_env.sample : qbsp_env ℝ).epsilonEqual (k.get_plane map1.planes)
        (planepts_plane libm.real
          (face_src.plain 2 ⟨0, 1, 5⟩ ⟨0, 0, 5⟩ ⟨1, 0, 5⟩ : face_src ℝ).planepts).2 = false := by
    intro k hk1
    rw [hplane k hk1]
    norm_num [face_src.plain, planepts_plane_example_down, qbsp_env.sample]
  have hneg : ∃ k ∈ brush1.faces,
      (qbsp_env.sample : qbsp_env ℝ).epsilonEqual (k.get_plane map1.planes).neg
        (planepts_plane libm.real
          (face_src.plain 2 ⟨0, 1, 5⟩ ⟨0, 0, 5⟩ ⟨1, 0, 5⟩ : face_src ℝ).planepts).2 = true := by
    obtain ⟨k, hk1⟩ := hex
    refine ⟨k, hk1, ?_⟩
    rw [hplane k hk1]
    norm_num [face_src.plain, planepts_plane_example_down, qbsp_env.sample, qplane3.neg,
      qvec3.neg]
  obtain ⟨map2, brush2, log2, f, e2, hf, _, _, hlog⟩ :=
    ParseBrush_negated_plane_kept qbsp_env.sample qbsp_options_t.sample libm.real
      libm.real_sqrtExact libm.real_trigZero qbsp_env.sample_eps.1 qbsp_env.sample_eps.2
      mapentity_t.default mapdata_t.empty mapbrush_t.default rfl
      [face_src.plain 1 ⟨1, 0, 5⟩ ⟨0, 0, 5⟩ ⟨0, 1, 5⟩]
      (face_src.plain 2 ⟨0, 1, 5⟩ ⟨0, 0, 5⟩ ⟨1, 0, 5⟩) map1 brush1 log1 e hok hneq hneg
  exact ⟨map1, brush1, log1, e, hok, hneq, hneg, map2, brush2, log2, f, e2, hf, hlog⟩

/-- C5.  set_planepts returns true exactly when the cross product of the two
edge vectors has length at least NORMAL_EPSILON; ParseBrushFace returns, and it
returns no face exactly when set_planepts returned false; a face given by
collinear or coincident points (zero cross product) is returned as no face; and
every face kept by the face loop of ParseBrush comes from the brush text and
has a normal of length at least NORMAL_EPSILON. -/
theorem set_planepts_degenerate (env : qbsp_env K) (opts : qbsp_options_t K) (m : libm K)
    (hm : m.SqrtExact) (ht : m.TrigZero) (heps : env.ZERO_EPSILON ≤ 1 / 2)
    (hne : 0 < env.NORMAL_EPSILON) (map : mapdata_t K) (entity : mapentity_t K)
    (src : face_src K) (face0 : mapface_t K) :
    ((mapface_t.set_planepts env m map.planes face0 src.planepts).2.2 = true ↔
      env.NORMAL_EPSILON ≤ qv.length m
        (qv.cross (src.planepts.p0.sub src.planepts.p1) (src.planepts.p2.sub src.planepts.p1))) ∧
    (∃ map2 r, ParseBrushFace env opts m map entity src = some (map2, r) ∧
      (r = none ↔ (mapface_t.set_planepts env m map.planes face0 src.planepts).2.2 = false)) ∧
    (qv.cross (src.planepts.p0.sub src.planepts.p1) (src.planepts.p2.sub src.planepts.p1) =
        qvec3.zero →
      ∃ map2, ParseBrushFace env opts m map entity src = some (map2, none)) ∧
    (∀ (srcs : List (face_src K)) (brush0 : mapbrush_t K), brush0.faces = [] →
      ∃ map2 brush2 log2,
        ParseBrush_faces env opts m entity map brush0 [] srcs = some (map2, brush2, log2) ∧
        ∀ f ∈ brush2.faces, f.planepts ∈ srcs.map (·.planepts) ∧
          env.NORMAL_EPSILON ≤ qv.length m
            (qv.cross (f.planepts.p0.sub f.planepts.p1) (f.planepts.p2.sub f.planepts.p1))) := by
  have hret : (mapface_t.set_planepts env m map.planes face0 src.planepts).2.2 =
      decide (env.NORMAL_EPSILON ≤ (planepts_plane m src.planepts).1) := rfl
  have hlen : ∀ pts : planepts_t K, (planepts_plane m pts).1 =
      qv.length m (qv.cross (pts.p0.sub pts.p1) (pts.p2.sub pts.p1)) := fun _ => rfl
  obtain ⟨map2, r, hpf, _, hcase⟩ := ParseBrushFace_spec env opts m hm ht heps hne map entity src
  refine ⟨?_, ⟨map2, r, hpf, ?_⟩, ?_, ?_⟩
  · rw [hret, ← hlen]
    simp
  · rw [hret]
    rcases hcase with ⟨hok, face, rfl, _⟩ | ⟨hnok, rfl⟩
    · simp [hok]
    · simp [hnok]
  · intro hz
    rcases hcase with ⟨hok, _⟩ | ⟨_, rfl⟩
    · rw [hlen, hz, qv.length_zero hm] at hok
      exact absurd hne (not_lt.mpr hok)
    · exact ⟨map2, hpf⟩
  · intro srcs brush0 hb
    obtain ⟨m2, b2, l2, e, inv, hk, _⟩ :=
      ParseBrush_faces_planes env opts m hm ht heps hne entity srcs map brush0 hb
    refine ⟨m2, b2, l2, e, ?_⟩
    intro f hf
    refine ⟨?_, by rw [← hlen]; exact (inv f hf).2.2⟩
    obtain ⟨new, h1, h2⟩ := keptPlanepts_sublist env m (srcs.map (·.planepts)) []
    have : f.planepts ∈ b2.faces.map (·.planepts) := List.mem_map_of_mem _ hf
    rw [hk, h1, List.nil_append] at this
    exact h2.subset this

/-- C5 (witness): the three collinear points (0,0,0), (1,0,0), (2,0,0) over the
reals give no face. -/
theorem set_planepts_degenerate_witness :
    libm.real.SqrtExact ∧ libm.real.TrigZero ∧
    (qbsp_env.sample : qbsp_env ℝ).ZERO_EPSILON ≤ 1 / 2 ∧
    0 < (qbsp_env.sample : qbsp_env ℝ).NORMAL_EPSILON ∧
    ∃ map2, ParseBrushFace qbsp_env.sample qbsp_options_t.sample libm.real mapdata_t.empty
      mapentity_t.default (face_src.plain 1 ⟨0, 0, 0⟩ ⟨1, 0, 0⟩ ⟨2, 0, 0⟩) = some (map2, none) :=
  ⟨libm.real_sqrtExact, libm.real_trigZero, qbsp_env.sample_eps.1, qbsp_env.sample_eps.2,
    (set_planepts_degenerate qbsp_env.sample qbsp_options_t.sample libm.real libm.real_sqrtExact
      libm.real_trigZero qbsp_env.sample_eps.1 qbsp_env.sample_eps.2 mapdata_t.empty
      mapentity_t.default (face_src.plain 1 ⟨0, 0, 0⟩ ⟨1, 0, 0⟩ ⟨2, 0, 0⟩)
      mapface_t.default).2.2.1
      (by norm_num [face_src.plain, qv.cross, qvec3.sub, qvec3.zero])⟩


end brush_lemmas

section valid_lemmas
variable {K : Type} [LinearOrderedField K]

theorem qv.normalize_zero (m : libm K) : (qv.normalize m (qvec3.zero : qvec3 K)).2 = qvec3.zero := by
  unfold qv.normalize
  simp only []
  split_ifs
  · rfl
  · simp [qvec3.div, qvec3.zero]

theorem qv.cross_zero_left (t : qvec3 K) : qv.cross qvec3.zero t = qvec3.zero := by
  simp [qv.cross, qvec3.zero]

theorem qv.cross_zero_right (s : qvec3 K) : qv.cross s qvec3.zero = qvec3.zero := by
  simp [qv.cross, qvec3.zero]

theorem qv.cross_scale_self (s : qvec3 K) (c : K) : qv.cross s (s.scale c) = qvec3.zero := by
  simp only [qv.cross, qvec3.scale, qvec3.zero, qvec3.mk.injEq]
  refine ⟨by ring, by ring, by ring⟩

theorem IsValidTextureProjection_of_cross_zero (env : qbsp_env K) (m : libm K)
    (hz : 0 < env.ZERO_EPSILON) (n s t : qvec3 K) (h : qv.cross s t = qvec3.zero) :
    IsValidTextureProjection env m n s t = false := by
  unfold IsValidTextureProjection
  simp only [h, qv.normalize_zero]
  have : qv.dot (qvec3.zero : qvec3 K) n = 0 := by simp [qv.dot, qvec3.zero]
  rw [this, abs_zero, if_pos hz]

/-- C7.  IsValidTextureProjection is false when the cross product of the texture
axes is the zero vector (an axis is zero, or the axes are parallel) and when the
normalised cross product has a component along the face normal of magnitude
below ZERO_EPSILON; it is true exactly when the cross product is not zero and
the dot product of its normalisation with the face normal has magnitude at
least ZERO_EPSILON. -/
theorem IsValidTextureProjection_iff (env : qbsp_env K) (m : libm K)
    (hz : 0 < env.ZERO_EPSILON) (n s t : qvec3 K) :
    (qv.cross s t = qvec3.zero → IsValidTextureProjection env m n s t = false) ∧
    (s = qvec3.zero → IsValidTextureProjection env m n s t = false) ∧
    (t = qvec3.zero → IsValidTextureProjection env m n s t = false) ∧
    ((∃ c : K, t = s.scale c) → IsValidTextureProjection env m n s t = false) ∧
    (|qv.dot (qv.normalize m (qv.cross s t)).2 n| < env.ZERO_EPSILON →
      IsValidTextureProjection env m n s t = false) ∧
    (IsValidTextureProjection env m n s t = true ↔
      qv.cross s t ≠ qvec3.zero ∧
        env.ZERO_EPSILON ≤ |qv.dot (qv.normalize m (qv.cross s t)).2 n|) := by
  have hc := IsValidTextureProjection_of_cross_zero env m hz n s t
  refine ⟨hc, ?_, ?_, ?_, ?_, ?_⟩
  · intro h; apply hc; rw [h]; exact qv.cross_zero_left t
  · intro h; apply hc; rw [h]; exact qv.cross_zero_right s
  · rintro ⟨c, rfl⟩; apply hc; exact qv.cross_scale_self s c
  · intro h
    unfold IsValidTextureProjection
    simp only [if_pos h]
  · constructor
    · intro hv
      refine ⟨?_, ?_⟩
      · intro h0
        rw [hc h0] at hv
        exact Bool.noConfusion hv
      · by_contra hlt
        unfold IsValidTextureProjection at hv
        simp only [if_pos (not_le.mp hlt)] at hv
        exact Bool.noConfusion hv
    · rintro ⟨_, hge⟩
      unfold IsValidTextureProjection
      simp only [if_neg (not_lt.mpr hge)]

/-- C7 (witness): the axes (1,0,0) and (0,1,0) on the face normal (0,0,1), over
the reals, are a valid projection. -/
theorem IsValidTextureProjection_iff_witness :
    0 < (qbsp_env.sample : qbsp_env ℝ).ZERO_EPSILON ∧
    IsValidTextureProjection qbsp_env.sample libm.real (⟨0, 0, 1⟩ : qvec3 ℝ) ⟨1, 0, 0⟩ ⟨0, 1, 0⟩ =
      true :=
  have h : 0 < (qbsp_env.sample : qbsp_env ℝ).ZERO_EPSILON := by norm_num [qbsp_env.sample]
  have h1 : Real.sqrt 1 = 1 := Real.sqrt_one
  ⟨h, (IsValidTextureProjection_iff qbsp_env.sample libm.real h ⟨0, 0, 1⟩ ⟨1, 0, 0⟩
    ⟨0, 1, 0⟩).2.2.2.2.2.mpr
    ⟨by norm_num [qv.cross, qvec3.zero],
     by norm_num [qv.cross, qv.normalize, qv.length, qv.dot, qvec3.div, libm.real, h1,
       qbsp_env.sample]⟩⟩


end valid_lemmas

section bevel_lemmas
variable {K : Type} [LinearOrderedField K]

/-! ### Exchanging two faces -/

theorem perm_set_cons {α : Type} (l : List α) (n : Nat) (h : n < l.length) (x : α) :
    (l[n] :: l.set n x).Perm (x :: l) := by
  induction l generalizing n with
  | nil => simp at h
  | cons y t ih =>
    cases n with
    | zero => exact List.Perm.swap _ _ _
    | succ n =>
      have h2 : n < t.length := by simpa using h
      simp only [List.getElem_cons_succ, List.set_cons_succ]
      exact (List.Perm.swap _ _ _).trans (((ih n h2).cons y).trans (List.Perm.swap _ _ _))

theorem perm_set_set {α : Type} (l : List α) (a b : Nat) (hab : a < b) (hb : b < l.length)
    (ha : a < l.length) : ((l.set a (l[b])).set b (l[a])).Perm l := by
  induction l generalizing a b with
  | nil => simp at hb
  | cons y t ih =>
    cases b with
    | zero => exact absurd hab (Nat.not_lt_zero a)
    | succ b =>
      have hb2 : b < t.length := by simpa using hb
      cases a with
      | zero =>
        simp only [List.set_cons_zero, List.set_cons_succ, List.getElem_cons_succ,
          List.getElem_cons_zero]
        exact perm_set_cons t b hb2 y
      | succ a =>
        simp only [List.set_cons_succ, List.getElem_cons_succ]
        exact (ih a b (by omega) hb2 (by omega)).cons y

theorem swapFaces_spec (l : List (mapface_t K)) (a b : Nat) (hab : a < b) (hb : b < l.length) :
    (swapFaces l a b).Perm l ∧ (swapFaces l a b).length = l.length ∧
    (swapFaces l a b)[a]? = l[b]? ∧ (∀ j, j < a → (swapFaces l a b)[j]? = l[j]?) := by
  have ha : a < l.length := lt_trans hab hb
  have e : swapFaces l a b = (l.set a (l[b])).set b (l[a]) := by
    unfold swapFaces
    rw [List.getD_eq_getElem _ _ hb, List.getD_eq_getElem _ _ ha]
  rw [e]
  refine ⟨perm_set_set l a b hab hb ha, by simp, ?_, ?_⟩
  · rw [List.getElem?_set_ne (by omega), List.getElem?_set]
    simp [ha, hb]
  · intro j hj
    rw [List.getElem?_set_ne (by omega), List.getElem?_set_ne (by omega)]

/-! ### The axial planes -/

/-- A unit vector with component dir = -1 or 1 along an axis is the axis vector
itself. -/
theorem unit_axis (n : qvec3 K) (axis : Nat) (dir : Int) (haxis : axis < 3)
    (hdir : dir = -1 ∨ dir = 1) (hn : qv.dot n n = 1) (h : n.get axis = (dir : K)) :
    n = (qvec3.zero : qvec3 K).set axis (dir : K) := by
  have hd : (dir : K) * (dir : K) = 1 := by
    rcases hdir with rfl | rfl <;> norm_num
  have sq0 : ∀ a b : K, a * a + b * b = 0 → a = 0 ∧ b = 0 := by
    intro a b hab
    have ha : a * a = 0 := le_antisymm (by linarith [mul_self_nonneg b]) (mul_self_nonneg a)
    have hb : b * b = 0 := le_antisymm (by linarith [mul_self_nonneg a]) (mul_self_nonneg b)
    exact ⟨mul_self_eq_zero.mp ha, mul_self_eq_zero.mp hb⟩
  obtain ⟨x, y, z⟩ := n
  unfold qv.dot at hn
  simp only [] at hn
  interval_cases axis
  · simp only [qvec3.get] at h
    subst h
    obtain ⟨hy, hz⟩ := sq0 y z (by linarith)
    simp [qvec3.set, qvec3.zero, hy, hz]
  · simp only [qvec3.get] at h
    subst h
    obtain ⟨hx, hz⟩ := sq0 x z (by linarith)
    simp [qvec3.set, qvec3.zero, hx, hz]
  · simp only [qvec3.get] at h
    subst h
    obtain ⟨hx, hy⟩ := sq0 x y (by linarith)
    simp [qvec3.set, qvec3.zero, hx, hy]

theorem axis_unit (axis : Nat) (dir : Int) (hdir : dir = -1 ∨ dir = 1) :
    qv.dot ((qvec3.zero : qvec3 K).set axis (dir : K)) ((qvec3.zero : qvec3 K).set axis (dir : K)) = 1 := by
  have hd : (dir : K) * (dir : K) = 1 := by
    rcases hdir with rfl | rfl <;> norm_num
  rcases axis with _ | _ | _ <;> simp [qvec3.set, qvec3.zero, qv.dot, hd]

theorem bevel_state.WellFormed_prefix {st : bevel_state K} {planes2 : List (qplane3 K)}
    (h : st.planes <+: planes2) {f : mapface_t K} (hf : f.planenum < st.planes.length) :
    f.get_plane planes2 = f.get_plane st.planes :=
  get_plane_extended h hf

/-- One step of the axial loop: the face at the canonical position has the axis
normal afterwards, earlier positions are untouched. -/
theorem AddBrushBevels_axial_step_spec (st : bevel_state K) (axis : Nat) (dir : Int) (order : Nat)
    (haxis : axis < 3) (hdir : dir = -1 ∨ dir = 1) (hwf : st.WellFormed)
    (hlen : order ≤ st.b.faces.length)
    (hpre : ∀ j f, j < order → st.b.faces[j]? = some f →
      (f.get_plane st.planes).normal.get axis ≠ (dir : K)) :
    st.planes <+: (AddBrushBevels_axial_step st axis dir order).planes ∧
    (AddBrushBevels_axial_step st axis dir order).WellFormed ∧
    order < (AddBrushBevels_axial_step st axis dir order).b.faces.length ∧
    (∀ j, j < order → (AddBrushBevels_axial_step st axis dir order).b.faces[j]? = st.b.faces[j]?) ∧
    (∃ f, (AddBrushBevels_axial_step st axis dir order).b.faces[order]? = some f ∧
      (f.get_plane (AddBrushBevels_axial_step st axis dir order).planes).normal =
        (qvec3.zero : qvec3 K).set axis (dir : K)) ∧
    ((∃ f ∈ st.b.faces, (f.get_plane st.planes).normal.get axis = (dir : K)) →
      (AddBrushBevels_axial_step st axis dir order).planes = st.planes ∧
      (AddBrushBevels_axial_step st axis dir order).e = st.e ∧
      (AddBrushBevels_axial_step st axis dir order).b.faces.Perm st.b.faces) := by
  unfold AddBrushBevels_axial_step
  simp only []
  set p : mapface_t K → Bool :=
    fun s => decide ((get_plane st.planes s.planenum).normal.get axis = (dir : K)) with hp
  set i := st.b.faces.findIdx p with hi
  have hige : order ≤ i := by
    by_contra hc
    have hlt : i < order := not_le.mp hc
    have hil : i < st.b.faces.length := lt_of_lt_of_le hlt hlen
    have hpi : p (st.b.faces[i]) = true := List.findIdx_getElem
    have := hpre i (st.b.faces[i]) hlt (List.getElem?_eq_getElem hil)
    rw [hp] at hpi
    simp only [decide_eq_true_eq] at hpi
    exact this hpi
  -- the state after the optional insertion
  generalize hs : ({ (mapface_t.default : mapface_t K) with
      planenum := (add_or_find_plane st.planes (axialBevelPlane st.b axis dir)).2,
      texinfo := ((st.b.faces ++ [mapface_t.default]).getD 0 mapface_t.default).texinfo,
      contents := ((st.b.faces ++ [mapface_t.default]).getD 0 mapface_t.default).contents,
      texname := ((st.b.faces ++ [mapface_t.default]).getD 0 mapface_t.default).texname,
      bevel := true } : mapface_t K) = snew
  have hsn : snew.planenum = (add_or_find_plane st.planes (axialBevelPlane st.b axis dir)).2 := by
    rw [← hs]
  generalize hst1 : (if i = st.b.faces.length then
      ({ planes := (add_or_find_plane st.planes (axialBevelPlane st.b axis dir)).1
         e := { st.e with numboxbevels := st.e.numboxbevels + 1 }
         b := { st.b with faces := st.b.faces ++ [snew] } } : bevel_state K)
    else st) = st1
  have key : st.planes <+: st1.planes ∧ st1.WellFormed ∧ i < st1.b.faces.length ∧
      (∀ j, j < order → st1.b.faces[j]? = st.b.faces[j]?) ∧
      (∃ f, st1.b.faces[i]? = some f ∧
        (f.get_plane st1.planes).normal = (qvec3.zero : qvec3 K).set axis (dir : K)) ∧
      ((∃ f ∈ st.b.faces, (f.get_plane st.planes).normal.get axis = (dir : K)) → st1 = st) := by
    by_cases hnf : i = st.b.faces.length
    · rw [if_pos hnf] at hst1
      obtain ⟨hg, hl, hpf⟩ := get_plane_add_or_find st.planes (axialBevelPlane st.b axis dir)
      have hgs : snew.get_plane (add_or_find_plane st.planes (axialBevelPlane st.b axis dir)).1 =
          axialBevelPlane st.b axis dir := by
        unfold mapface_t.get_plane
        rw [hsn]
        exact hg
      subst hst1
      refine ⟨hpf, ?_, by simp [hnf], ?_, ⟨snew, ?_, ?_⟩, ?_⟩
      · intro f hf
        rcases List.mem_append.mp hf with hf | hf
        · obtain ⟨h1, h2⟩ := hwf f hf
          refine ⟨lt_of_lt_of_le h1 hpf.length_le, ?_⟩
          have e : f.get_plane (add_or_find_plane st.planes (axialBevelPlane st.b axis dir)).1 =
              f.get_plane st.planes := get_plane_extended hpf h1
          simp only [e]
          exact h2
        · rw [List.mem_singleton.mp hf]
          refine ⟨by rw [hsn]; exact hl, ?_⟩
          simp only []
          rw [hgs]
          exact axis_unit axis dir hdir
      · intro j hj
        have hjl : j < st.b.faces.length := lt_of_lt_of_le hj hlen
        simp only []
        rw [List.getElem?_append_left hjl]
      · simp only []
        rw [hnf, List.getElem?_append_right (le_refl st.b.faces.length)]
        simp
      · simp only []
        rw [hgs]
        rfl
      · rintro ⟨f, hf, hfp⟩
        exfalso
        have hall := List.findIdx_eq_length.mp hnf
        have := hall f hf
        rw [hp] at this
        simp only [decide_eq_false_iff_not] at this
        exact this hfp
    · rw [if_neg hnf] at hst1
      subst hst1
      have hil : i < st.b.faces.length := lt_of_le_of_ne (List.findIdx_le_length p) hnf
      have hpi : p (st.b.faces[i]) = true := List.findIdx_getElem
      rw [hp] at hpi
      simp only [decide_eq_true_eq] at hpi
      refine ⟨List.prefix_refl _, hwf, hil, fun j _ => rfl,
        ⟨st.b.faces[i], List.getElem?_eq_getElem hil, ?_⟩, fun _ => rfl⟩
      exact unit_axis _ axis dir haxis hdir (hwf _ (List.getElem_mem hil)).2 hpi
  obtain ⟨k1, k2, k3, k4, ⟨f, k5, k6⟩, k7⟩ := key
  by_cases hne : i = order
  · simp only [hne, ne_eq, not_true_eq_false, if_false]
    rw [hne] at k3 k5
    exact ⟨k1, k2, k3, k4, ⟨f, k5, k6⟩, fun h => by rw [k7 h]; exact ⟨rfl, rfl, List.Perm.refl _⟩⟩
  · simp only [ne_eq, hne, not_false_eq_true, if_true]
    have hlt : order < i := lt_of_le_of_ne hige (Ne.symm hne)
    obtain ⟨s1, s2, s3, s4⟩ := swapFaces_spec st1.b.faces order i hlt k3
    refine ⟨k1, ?_, by rw [s2]; omega, fun j hj => by rw [s4 j hj, k4 j hj],
      ⟨f, by rw [s3, k5], k6⟩, fun h => ?_⟩
    · intro g hg
      exact k2 g (s1.subset hg)
    · have := k7 h
      subst this
      exact ⟨rfl, rfl, s1⟩

/-! ### The axial loop -/

theorem canonicalNormal_get_ne (j k : Nat) (hj : j < k) (hk : k < 6) :
    (canonicalNormal j : qvec3 K).get (k / 2) ≠ ((if k % 2 = 0 then -1 else 1 : Int) : K) := by
  interval_cases k <;> interval_cases j <;>
    norm_num [canonicalNormal, qvec3.set, qvec3.get, qvec3.zero]

theorem AddBrushBevels_axial_step_canonical (st : bevel_state K) (k : Nat) (hk : k < 6)
    (h : st.Canonical k) :
    (AddBrushBevels_axial_step st (k / 2) (if k % 2 = 0 then -1 else 1) k).Canonical (k + 1) ∧
    st.planes <+: (AddBrushBevels_axial_step st (k / 2) (if k % 2 = 0 then -1 else 1) k).planes ∧
    ((∃ f ∈ st.b.faces, (f.get_plane st.planes).normal = canonicalNormal k) →
      (AddBrushBevels_axial_step st (k / 2) (if k % 2 = 0 then -1 else 1) k).planes = st.planes ∧
      (AddBrushBevels_axial_step st (k / 2) (if k % 2 = 0 then -1 else 1) k).e = st.e ∧
      (AddBrushBevels_axial_step st (k / 2) (if k % 2 = 0 then -1 else 1) k).b.faces.Perm
        st.b.faces) := by
  obtain ⟨hwf, hlen, hc⟩ := h
  have haxis : k / 2 < 3 := by omega
  have hdir : (if k % 2 = 0 then -1 else 1 : Int) = -1 ∨ (if k % 2 = 0 then -1 else 1 : Int) = 1 := by
    split_ifs
    · exact Or.inl rfl
    · exact Or.inr rfl
  have hcast : (((if k % 2 = 0 then -1 else 1 : Int)) : K) = (if k % 2 = 0 then -1 else 1 : K) := by
    split_ifs <;> norm_num
  have hpre : ∀ j f, j < k → st.b.faces[j]? = some f →
      (f.get_plane st.planes).normal.get (k / 2) ≠ ((if k % 2 = 0 then -1 else 1 : Int) : K) := by
    intro j f hj hf
    obtain ⟨g, hg, hn⟩ := hc j hj
    rw [hf] at hg
    cases hg
    rw [hn]
    exact canonicalNormal_get_ne j k hj hk
  obtain ⟨r1, r2, r3, r4, ⟨f, r5, r6⟩, r7⟩ :=
    AddBrushBevels_axial_step_spec st (k / 2) (if k % 2 = 0 then -1 else 1) k haxis hdir hwf hlen hpre
  refine ⟨⟨r2, r3, ?_⟩, r1, ?_⟩
  · intro j hj
    rcases Nat.lt_succ_iff_lt_or_eq.mp hj with hj | rfl
    · obtain ⟨g, hg, hn⟩ := hc j hj
      refine ⟨g, by rw [r4 j hj]; exact hg, ?_⟩
      have hmem : g ∈ st.b.faces := List.getElem?_mem hg
      have e : g.get_plane
          (AddBrushBevels_axial_step st (k / 2) (if k % 2 = 0 then -1 else 1) k).planes =
          g.get_plane st.planes := get_plane_extended r1 (hwf g hmem).1
      rw [e]
      exact hn
    · refine ⟨f, r5, ?_⟩
      rw [r6, hcast]
      rfl
  · rintro ⟨g, hg, hn⟩
    apply r7
    refine ⟨g, hg, ?_⟩
    rw [hn, hcast]
    interval_cases k <;> norm_num [canonicalNormal, qvec3.set, qvec3.get, qvec3.zero]

theorem AddBrushBevels_axial_unfold (st : bevel_state K) :
    AddBrushBevels_axial st =
      AddBrushBevels_axial_step (AddBrushBevels_axial_step (AddBrushBevels_axial_step
        (AddBrushBevels_axial_step (AddBrushBevels_axial_step (AddBrushBevels_axial_step st
          (0 / 2) (if 0 % 2 = 0 then -1 else 1) 0) (1 / 2) (if 1 % 2 = 0 then -1 else 1) 1)
          (2 / 2) (if 2 % 2 = 0 then -1 else 1) 2) (3 / 2) (if 3 % 2 = 0 then -1 else 1) 3)
          (4 / 2) (if 4 % 2 = 0 then -1 else 1) 4) (5 / 2) (if 5 % 2 = 0 then -1 else 1) 5 := by
  simp [AddBrushBevels_axial, axialOrder]

/-- The axial loop: afterwards the first six faces have the canonical normals;
if all six axial planes were present, nothing is added and the faces are only
reordered. -/
theorem AddBrushBevels_axial_spec (st : bevel_state K) (hwf : st.WellFormed) :
    (AddBrushBevels_axial st).Canonical 6 ∧ st.planes <+: (AddBrushBevels_axial st).planes ∧
    ((∀ k, k < 6 → ∃ f ∈ st.b.faces, (f.get_plane st.planes).normal = canonicalNormal k) →
      (AddBrushBevels_axial st).planes = st.planes ∧ (AddBrushBevels_axial st).e = st.e ∧
      (AddBrushBevels_axial st).b.faces.Perm st.b.faces) := by
  have h0 : st.Canonical 0 := ⟨hwf, Nat.zero_le _, fun j hj => absurd hj (Nat.not_lt_zero j)⟩
  obtain ⟨c1, p1, f1⟩ := AddBrushBevels_axial_step_canonical st 0 (by norm_num) h0
  obtain ⟨c2, p2, f2⟩ := AddBrushBevels_axial_step_canonical _ 1 (by norm_num) c1
  obtain ⟨c3, p3, f3⟩ := AddBrushBevels_axial_step_canonical _ 2 (by norm_num) c2
  obtain ⟨c4, p4, f4⟩ := AddBrushBevels_axial_step_canonical _ 3 (by norm_num) c3
  obtain ⟨c5, p5, f5⟩ := AddBrushBevels_axial_step_canonical _ 4 (by norm_num) c4
  obtain ⟨c6, p6, f6⟩ := AddBrushBevels_axial_step_canonical _ 5 (by norm_num) c5
  rw [AddBrushBevels_axial_unfold]
  refine ⟨c6, p1.trans (p2.trans (p3.trans (p4.trans (p5.trans p6)))), ?_⟩
  intro hall
  have lift : ∀ (s : bevel_state K) (k : Nat), k < 6 → s.planes = st.planes →
      s.b.faces.Perm st.b.faces →
      ∃ f ∈ s.b.faces, (f.get_plane s.planes).normal = canonicalNormal k := by
    intro s k hk hp hperm
    obtain ⟨f, hf, hn⟩ := hall k hk
    exact ⟨f, hperm.symm.subset hf, by rw [hp]; exact hn⟩
  obtain ⟨a1, b1, d1⟩ := f1 (hall 0 (by norm_num))
  obtain ⟨a2, b2, d2⟩ := f2 (lift _ 1 (by norm_num) a1 d1)
  obtain ⟨a3, b3, d3⟩ := f3 (lift _ 2 (by norm_num) (a2.trans a1) (d2.trans d1))
  obtain ⟨a4, b4, d4⟩ := f4 (lift _ 3 (by norm_num) (a3.trans (a2.trans a1))
    (d3.trans (d2.trans d1)))
  obtain ⟨a5, b5, d5⟩ := f5 (lift _ 4 (by norm_num) (a4.trans (a3.trans (a2.trans a1)))
    (d4.trans (d3.trans (d2.trans d1))))
  obtain ⟨a6, b6, d6⟩ := f6 (lift _ 5 (by norm_num)
    (a5.trans (a4.trans (a3.trans (a2.trans a1))))
    (d5.trans (d4.trans (d3.trans (d2.trans d1)))))
  exact ⟨a6.trans (a5.trans (a4.trans (a3.trans (a2.trans a1)))),
    b6.trans (b5.trans (b4.trans (b3.trans (b2.trans b1)))),
    d6.trans (d5.trans (d4.trans (d3.trans (d2.trans d1))))⟩

/-! ### The edge-bevel loops only append -/

theorem bevel_state.Extends_refl (st : bevel_state K) : st.Extends st 0 := by
  refine ⟨List.prefix_refl _, [], ?_, ?_, le_refl _, fun f hf => absurd hf (List.not_mem_nil f)⟩
  · simp
  · simp

theorem bevel_state.Extends_mono {st st2 : bevel_state K} {n k : Nat} (h : st.Extends st2 n)
    (hnk : n ≤ k) : st.Extends st2 k := by
  obtain ⟨h1, new, h2, h3, h4, h5⟩ := h
  exact ⟨h1, new, h2, h3, le_trans h4 hnk, h5⟩

theorem bevel_state.Extends_trans {st st2 st3 : bevel_state K} {n k : Nat}
    (h : st.Extends st2 n) (h2 : st2.Extends st3 k) : st.Extends st3 (n + k) := by
  obtain ⟨a1, new1, a2, a3, a4, a5⟩ := h
  obtain ⟨b1, new2, b2, b3, b4, b5⟩ := h2
  refine ⟨a1.trans b1, new1 ++ new2, ?_, ?_, ?_, ?_⟩
  · rw [b2, a2]
    simp
  · rw [b3, a3]
    simp [Nat.add_assoc]
  · simp only [List.length_append]
    omega
  · intro f hf
    rcases List.mem_append.mp hf with hf | hf
    · exact a5 f hf
    · obtain ⟨w, bv, g, hg, hgeq⟩ := b5 f hf
      refine ⟨w, bv, ?_⟩
      rw [a2] at hg
      simp only [List.mem_cons, List.mem_append] at hg
      rcases hg with hg | hg | hg
      · exact ⟨g, by rw [hg]; exact List.mem_cons_self _ _, hgeq⟩
      · exact ⟨g, List.mem_cons_of_mem _ hg, hgeq⟩
      · obtain ⟨_, _, g2, hg2, hgeq2⟩ := a5 g hg
        exact ⟨g2, hg2, hgeq.1.trans hgeq2.1, hgeq.2.1.trans hgeq2.2.1,
          hgeq.2.2.trans hgeq2.2.2⟩

theorem AddBrushBevels_tryPlane_extends (env : qbsp_env K) (opts : qbsp_options_t K) (m : libm K)
    (i : Nat) (wj vec : qvec3 K) (st : bevel_state K) (axis : Nat) (dir : Int) :
    st.Extends (AddBrushBevels_tryPlane env opts m i wj vec st axis dir) 1 := by
  unfold AddBrushBevels_tryPlane
  simp only []
  split_ifs
  · exact bevel_state.Extends_mono (bevel_state.Extends_refl st) (Nat.zero_le _)
  · exact bevel_state.Extends_mono (bevel_state.Extends_refl st) (Nat.zero_le _)
  · refine ⟨(get_plane_add_or_find _ _).2.2, [_], rfl, rfl, le_refl _, ?_⟩
    intro f hf
    rw [List.mem_singleton.mp hf]
    refine ⟨rfl, rfl, st.b.faces.getD i mapface_t.default, ?_, rfl, rfl, rfl⟩
    by_cases hi : i < st.b.faces.length
    · rw [List.getD_eq_getElem _ _ hi]
      exact List.mem_cons_of_mem _ (List.getElem_mem hi)
    · rw [List.getD_eq_default _ _ (by omega)]
      exact List.mem_cons_self _ _

theorem foldl_extends {α : Type} (f : bevel_state K → α → bevel_state K) (c : Nat)
    (hf : ∀ (s : bevel_state K) (x : α), s.Extends (f s x) c) (l : List α) :
    ∀ st : bevel_state K, st.Extends (l.foldl f st) (c * l.length) := by
  induction l with
  | nil => intro st; exact bevel_state.Extends_refl st
  | cons x t ih =>
    intro st
    simp only [List.foldl_cons, List.length_cons]
    exact bevel_state.Extends_mono (bevel_state.Extends_trans (hf st x) (ih (f st x)))
      (by rw [Nat.mul_succ]; omega)

theorem AddBrushBevels_edge_extends (env : qbsp_env K) (opts : qbsp_options_t K) (m : libm K)
    (i : Nat) (st : bevel_state K) (j : Nat) :
    st.Extends (AddBrushBevels_edge env opts m i st j) 6 := by
  unfold AddBrushBevels_edge
  simp only []
  split_ifs
  · exact bevel_state.Extends_mono (bevel_state.Extends_refl st) (Nat.zero_le _)
  · exact bevel_state.Extends_mono (bevel_state.Extends_refl st) (Nat.zero_le _)
  · exact foldl_extends _ 1
      (fun (s : bevel_state K) (c : Nat × Int) =>
        AddBrushBevels_tryPlane_extends env opts m i _ _ s c.1 c.2) edgeOrder st

theorem AddBrushBevels_face_extends (env : qbsp_env K) (opts : qbsp_options_t K) (m : libm K)
    (st : bevel_state K) (i : Nat) :
    st.Extends (AddBrushBevels_face env opts m st i)
      (6 * (st.b.faces.getD i mapface_t.default).winding.length) := by
  unfold AddBrushBevels_face
  simp only []
  have := foldl_extends (AddBrushBevels_edge env opts m i) 6
    (fun s j => AddBrushBevels_edge_extends env opts m i s j)
    (List.range (st.b.faces.getD i mapface_t.default).winding.length) st
  simpa using this

theorem bevel_weight (new : List (mapface_t K)) (hnew : ∀ f ∈ new, f.winding = []) :
    ((new.map (fun f => 1 + 6 * f.winding.length)).sum) = new.length := by
  induction new with
  | nil => rfl
  | cons x t iht =>
    simp only [List.map_cons, List.sum_cons, List.length_cons]
    rw [iht (fun f hf => hnew f (List.mem_cons_of_mem _ hf)), hnew x (List.mem_cons_self _ _)]
    simp
    omega

/-- The edge loop ends within the bound: the faces still to visit, counted with
six times their winding size plus one, are a decreasing measure. -/
theorem AddBrushBevels_edgeLoop_returns (env : qbsp_env K) (opts : qbsp_options_t K) (m : libm K) :
    ∀ (fuel i : Nat) (st : bevel_state K),
      ((st.b.faces.drop i).map (fun f => 1 + 6 * f.winding.length)).sum ≤ fuel →
      ∃ st2 n, AddBrushBevels_edgeLoop env opts m fuel i st = some st2 ∧ st.Extends st2 n := by
  intro fuel
  induction fuel with
  | zero =>
    intro i st hμ
    unfold AddBrushBevels_edgeLoop
    by_cases hi : i < st.b.faces.length
    · exfalso
      rw [List.drop_eq_getElem_cons hi] at hμ
      simp only [List.map_cons, List.sum_cons] at hμ
      omega
    · simp only [hi, if_false]
      exact ⟨st, 0, rfl, bevel_state.Extends_refl st⟩
  | succ fuel ih =>
    intro i st hμ
    unfold AddBrushBevels_edgeLoop
    by_cases hi : i < st.b.faces.length
    · simp only [hi, if_true]
      have hext := AddBrushBevels_face_extends env opts m st i
      rw [List.getD_eq_getElem _ _ hi] at hext
      obtain ⟨_, new, hb, _, hlen, hnew⟩ := hext
      have hfaces : (AddBrushBevels_face env opts m st i).b.faces = st.b.faces ++ new := by
        rw [hb]
      have hsum := bevel_weight new (fun f hf => (hnew f hf).1)
      have hμ2 : (((AddBrushBevels_face env opts m st i).b.faces.drop (i + 1)).map
          (fun f => 1 + 6 * f.winding.length)).sum ≤ fuel := by
        rw [hfaces, List.drop_append_of_le_length (by omega), List.map_append, List.sum_append,
          hsum]
        rw [List.drop_eq_getElem_cons hi] at hμ
        simp only [List.map_cons, List.sum_cons] at hμ
        omega
      obtain ⟨st2, n, e, hext2⟩ := ih (i + 1) _ hμ2
      exact ⟨st2, _, e, bevel_state.Extends_trans (AddBrushBevels_face_extends env opts m st i) hext2⟩
    · simp only [hi, if_false]
      exact ⟨st, 0, rfl, bevel_state.Extends_refl st⟩

theorem drop_weight_le (l : List (mapface_t K)) :
    ∀ i, ((l.drop i).map (fun f => 1 + 6 * f.winding.length)).sum ≤
      l.length + 6 * (l.map (fun f => f.winding.length)).sum := by
  induction l with
  | nil => intro i; simp
  | cons x t ih =>
    intro i
    cases i with
    | zero =>
      have := ih 0
      simp only [List.drop_zero, List.map_cons, List.sum_cons, List.length_cons] at this ⊢
      omega
    | succ i =>
      have := ih i
      simp only [List.drop_succ_cons, List.map_cons, List.sum_cons, List.length_cons] at this ⊢
      omega

/-- AddBrushBevels on a well-formed brush returns, extends the plane table, and
leaves the six canonical sides at the positions 0 to 5. -/
theorem AddBrushBevels_spec (env : qbsp_env K) (opts : qbsp_options_t K) (m : libm K)
    (planes : List (qplane3 K)) (e : mapentity_t K) (b : mapbrush_t K)
    (hwf : (bevel_state.mk planes e b).WellFormed) :
    ∃ st, AddBrushBevels env opts m planes e b = some st ∧ planes <+: st.planes ∧
      6 ≤ st.b.faces.length ∧
      (∀ j, j < 6 → ∃ f, st.b.faces[j]? = some f ∧
        (f.get_plane st.planes).normal = canonicalNormal j) ∧
      (b.faces.length = 6 →
        (∀ k, k < 6 → ∃ f ∈ b.faces, (f.get_plane planes).normal = canonicalNormal k) →
        st.planes = planes ∧ st.e = e ∧ st.b.faces.Perm b.faces) := by
  obtain ⟨⟨hwf1, hlen1, hc1⟩, hpre1, hfound⟩ := AddBrushBevels_axial_spec _ hwf
  unfold AddBrushBevels
  simp only []
  by_cases h6 : (AddBrushBevels_axial (bevel_state.mk planes e b)).b.faces.length = 6
  · rw [if_pos h6]
    exact ⟨_, rfl, hpre1, hlen1, hc1, fun _ => hfound⟩
  · rw [if_neg h6]
    obtain ⟨st2, n, e2, hext⟩ := AddBrushBevels_edgeLoop_returns env opts m _ 6 _
      (drop_weight_le (AddBrushBevels_axial (bevel_state.mk planes e b)).b.faces 6)
    obtain ⟨hpre2, new, hb, _, _, _⟩ := hext
    have hfaces : st2.b.faces = (AddBrushBevels_axial (bevel_state.mk planes e b)).b.faces ++ new := by
      rw [hb]
    refine ⟨st2, e2, hpre1.trans hpre2, ?_, ?_, ?_⟩
    · rw [hfaces, List.length_append]
      omega
    · intro j hj
      obtain ⟨f, hf, hn⟩ := hc1 j hj
      refine ⟨f, ?_, ?_⟩
      · rw [hfaces, List.getElem?_append_left (by omega)]
        exact hf
      · rw [← hn]
        unfold mapface_t.get_plane
        rw [get_plane_extended hpre2 (hwf1 f (List.getElem?_mem hf)).1]
    · intro hb6 hall
      exfalso
      apply h6
      rw [(hfound hall).2.2.length_eq]
      exact hb6

end bevel_lemmas

section bevel_claims
variable {K : Type} [LinearOrderedField K]

theorem bevel_wellFormed_of_axes {planes : List (qplane3 K)} {e : mapentity_t K} {b : mapbrush_t K}
    (hvalid : ∀ f ∈ b.faces, f.planenum < planes.length)
    (haxes : ∀ f ∈ b.faces, ∃ k, k < 6 ∧ (f.get_plane planes).normal = canonicalNormal k) :
    (bevel_state.mk planes e b).WellFormed := by
  intro f hf
  refine ⟨hvalid f hf, ?_⟩
  obtain ⟨k, hk, hn⟩ := haxes f hf
  show qv.dot (f.get_plane planes).normal (f.get_plane planes).normal = 1
  rw [hn]
  interval_cases k <;> simp [canonicalNormal, qvec3.set, qvec3.zero, qv.dot]

/-- C8 (amended): for every brush whose faces refer to planes of the table with
unit normals, AddBrushBevels returns, and the faces at the positions 0 to 5 of
the result have the normals -X, +X, -Y, +Y, -Z, +Z, in this order. -/
theorem AddBrushBevels_canonical_order (env : qbsp_env K) (opts : qbsp_options_t K) (m : libm K)
    (planes : List (qplane3 K)) (e : mapentity_t K) (b : mapbrush_t K)
    (hunit : ∀ f ∈ b.faces, f.planenum < planes.length ∧
      qv.dot (f.get_plane planes).normal (f.get_plane planes).normal = 1) :
    ∃ st, AddBrushBevels env opts m planes e b = some st ∧
      (st.b.faces.take 6).map (fun f => (f.get_plane st.planes).normal) =
        [⟨-1, 0, 0⟩, ⟨1, 0, 0⟩, ⟨0, -1, 0⟩, ⟨0, 1, 0⟩, ⟨0, 0, -1⟩, ⟨0, 0, 1⟩] := by
  obtain ⟨st, hst, _, hlen, hc, _⟩ := AddBrushBevels_spec env opts m planes e b hunit
  refine ⟨st, hst, ?_⟩
  apply List.ext_getElem?
  intro n
  by_cases hn : n < 6
  · obtain ⟨f, hf, hnorm⟩ := hc n hn
    rw [List.getElem?_map, List.getElem?_take_of_lt hn, hf, Option.map_some', hnorm]
    interval_cases n <;> simp [canonicalNormal, qvec3.set, qvec3.zero]
  · rw [List.getElem?_eq_none, List.getElem?_eq_none]
    · simp only [List.length_cons, List.length_nil]
      omega
    · simp only [List.length_map, List.length_take]
      omega


/-- C8: on the cube with its faces in the order +X, -X, +Y, -Y, +Z, -Z (all unit
normals) AddBrushBevels exchanges the faces pairwise; the face at position 0 of
the result lies on plane 2, whose normal is (-1, 0, 0) and not (1, 0, 0). -/
theorem AddBrushBevels_order_minus_first :
    (∀ f ∈ (cube_brush : mapbrush_t ℝ).faces, f.planenum < (cube_planes : List (qplane3 ℝ)).length ∧
      qv.dot (f.get_plane cube_planes).normal (f.get_plane cube_planes).normal = 1) ∧
    AddBrushBevels qbsp_env.sample qbsp_options_t.sample libm.real cube_planes
      mapentity_t.default (cube_brush : mapbrush_t ℝ) =
      some ⟨cube_planes, mapentity_t.default,
        { (cube_brush : mapbrush_t ℝ) with
          faces := [cube_face 2, cube_face 0, cube_face 6, cube_face 4, cube_face 10,
            cube_face 8] }⟩ ∧
    ((cube_face 2 : mapface_t ℝ).get_plane cube_planes).normal = ⟨-1, 0, 0⟩ ∧
    ((cube_face 2 : mapface_t ℝ).get_plane cube_planes).normal ≠ ⟨1, 0, 0⟩ := by
  refine ⟨?_, ?_, ?_, ?_⟩
  · intro f hf
    simp only [cube_brush, List.mem_cons, List.mem_singleton, List.not_mem_nil, or_false] at hf
    rcases hf with rfl | rfl | rfl | rfl | rfl | rfl <;>
      norm_num [cube_face, cube_planes, mapface_t.get_plane, get_plane, qv.dot]
  · norm_num [AddBrushBevels, AddBrushBevels_axial, axialOrder, AddBrushBevels_axial_step,
      cube_brush, cube_face, cube_planes, get_plane, qvec3.get, swapFaces, List.findIdx_cons,
      mapbrush_t.default]
  · norm_num [cube_face, cube_planes, mapface_t.get_plane, get_plane]
  · norm_num [cube_face, cube_planes, mapface_t.get_plane, get_plane]


theorem AddBrushBevels_canonical_order_witness :
    (∀ f ∈ (wedge_brush : mapbrush_t ℝ).faces,
      f.planenum < (wedge_planes : List (qplane3 ℝ)).length ∧
      qv.dot (f.get_plane wedge_planes).normal (f.get_plane wedge_planes).normal = 1) ∧
    ∃ st, AddBrushBevels qbsp_env.sample qbsp_options_t.sample libm.real wedge_planes
        mapentity_t.default (wedge_brush : mapbrush_t ℝ) = some st ∧
      (st.b.faces.take 6).map (fun f => (f.get_plane st.planes).normal) =
        [⟨-1, 0, 0⟩, ⟨1, 0, 0⟩, ⟨0, -1, 0⟩, ⟨0, 1, 0⟩, ⟨0, 0, -1⟩, ⟨0, 0, 1⟩] :=
  have h : ∀ f ∈ (wedge_brush : mapbrush_t ℝ).faces,
      f.planenum < (wedge_planes : List (qplane3 ℝ)).length ∧
      qv.dot (f.get_plane wedge_planes).normal (f.get_plane wedge_planes).normal = 1 := by
    intro f hf
    simp only [wedge_brush, List.mem_singleton] at hf
    subst hf
    norm_num [cube_face, wedge_planes, mapface_t.get_plane, get_plane, qv.dot]
  ⟨h, AddBrushBevels_canonical_order qbsp_env.sample qbsp_options_t.sample libm.real wedge_planes
    mapentity_t.default wedge_brush h⟩

/-- C9: for every brush of six faces whose planes are in the table and whose
normals are the six signed coordinate axes, in any order, AddBrushBevels returns
the same plane table, the same entity (so both bevel counters are unchanged) and
the same six faces, reordered; no face is added, and if no face was marked as a
bevel before, none is afterwards. -/
theorem AddBrushBevels_axial_brush (env : qbsp_env K) (opts : qbsp_options_t K) (m : libm K)
    (planes : List (qplane3 K)) (e : mapentity_t K) (b : mapbrush_t K)
    (hvalid : ∀ f ∈ b.faces, f.planenum < planes.length)
    (haxes : (b.faces.map (fun f => (f.get_plane planes).normal)).Perm
      [⟨1, 0, 0⟩, ⟨-1, 0, 0⟩, ⟨0, 1, 0⟩, ⟨0, -1, 0⟩, ⟨0, 0, 1⟩, ⟨0, 0, -1⟩]) :
    ∃ st, AddBrushBevels env opts m planes e b = some st ∧
      st.planes = planes ∧
      st.b.faces.Perm b.faces ∧ st.b.faces.length = 6 ∧
      st.e = e ∧ st.e.numboxbevels = e.numboxbevels ∧ st.e.numedgebevels = e.numedgebevels ∧
      ((∀ f ∈ b.faces, f.bevel = false) → ∀ f ∈ st.b.faces, f.bevel = false) := by
  have hlen : b.faces.length = 6 := by
    have := haxes.length_eq
    simpa using this
  have hax : ∀ f ∈ b.faces, ∃ k, k < 6 ∧ (f.get_plane planes).normal = canonicalNormal k := by
    intro f hf
    have hmem := haxes.subset (List.mem_map_of_mem (fun f => (f.get_plane planes).normal) hf)
    simp only [List.mem_cons, List.mem_singleton, List.not_mem_nil, or_false] at hmem
    rcases hmem with h | h | h | h | h | h
    · exact ⟨1, by omega, by rw [h]; simp [canonicalNormal, qvec3.set, qvec3.zero]⟩
    · exact ⟨0, by omega, by rw [h]; simp [canonicalNormal, qvec3.set, qvec3.zero]⟩
    · exact ⟨3, by omega, by rw [h]; simp [canonicalNormal, qvec3.set, qvec3.zero]⟩
    · exact ⟨2, by omega, by rw [h]; simp [canonicalNormal, qvec3.set, qvec3.zero]⟩
    · exact ⟨5, by omega, by rw [h]; simp [canonicalNormal, qvec3.set, qvec3.zero]⟩
    · exact ⟨4, by omega, by rw [h]; simp [canonicalNormal, qvec3.set, qvec3.zero]⟩
  have hall : ∀ k, k < 6 → ∃ f ∈ b.faces, (f.get_plane planes).normal = canonicalNormal k := by
    intro k hk
    have hmem : (canonicalNormal k : qvec3 K) ∈
        b.faces.map (fun f => (f.get_plane planes).normal) := by
      apply haxes.symm.subset
      interval_cases k <;> simp [canonicalNormal, qvec3.set, qvec3.zero]
    obtain ⟨f, hf, hn⟩ := List.mem_map.mp hmem
    exact ⟨f, hf, hn⟩
  obtain ⟨st, hst, _, _, _, hsame⟩ :=
    AddBrushBevels_spec env opts m planes e b (bevel_wellFormed_of_axes hvalid hax)
  obtain ⟨hp, he, hperm⟩ := hsame hlen hall
  refine ⟨st, hst, hp, hperm, ?_, he, ?_, ?_, ?_⟩
  · rw [hperm.length_eq, hlen]
  · rw [he]
  · rw [he]
  · intro hb f hf
    exact hb f (hperm.subset hf)

theorem AddBrushBevels_axial_brush_witness :
    (∀ f ∈ (cube_brush : mapbrush_t ℝ).faces, f.planenum < (cube_planes : List (qplane3 ℝ)).length) ∧
    ((cube_brush : mapbrush_t ℝ).faces.map (fun f => (f.get_plane cube_planes).normal)).Perm
      [⟨1, 0, 0⟩, ⟨-1, 0, 0⟩, ⟨0, 1, 0⟩, ⟨0, -1, 0⟩, ⟨0, 0, 1⟩, ⟨0, 0, -1⟩] ∧
    ∃ st, AddBrushBevels qbsp_env.sample qbsp_options_t.sample libm.real cube_planes
        mapentity_t.default (cube_brush : mapbrush_t ℝ) = some st ∧
      st.planes = cube_planes ∧
      st.b.faces.Perm (cube_brush : mapbrush_t ℝ).faces ∧ st.b.faces.length = 6 ∧
      st.e = mapentity_t.default ∧
      st.e.numboxbevels = (mapentity_t.default : mapentity_t ℝ).numboxbevels ∧
      st.e.numedgebevels = (mapentity_t.default : mapentity_t ℝ).numedgebevels ∧
      ((∀ f ∈ (cube_brush : mapbrush_t ℝ).faces, f.bevel = false) →
        ∀ f ∈ st.b.faces, f.bevel = false) :=
  have h1 : ∀ f ∈ (cube_brush : mapbrush_t ℝ).faces,
      f.planenum < (cube_planes : List (qplane3 ℝ)).length := by
    intro f hf
    simp only [cube_brush, List.mem_cons, List.mem_singleton, List.not_mem_nil, or_false] at hf
    rcases hf with rfl | rfl | rfl | rfl | rfl | rfl <;> simp [cube_face, cube_planes]
  have h2 : ((cube_brush : mapbrush_t ℝ).faces.map (fun f => (f.get_plane cube_planes).normal)).Perm
      [⟨1, 0, 0⟩, ⟨-1, 0, 0⟩, ⟨0, 1, 0⟩, ⟨0, -1, 0⟩, ⟨0, 0, 1⟩, ⟨0, 0, -1⟩] := by
    rw [show (cube_brush : mapbrush_t ℝ).faces.map (fun f => (f.get_plane cube_planes).normal) =
      [⟨1, 0, 0⟩, ⟨-1, 0, 0⟩, ⟨0, 1, 0⟩, ⟨0, -1, 0⟩, ⟨0, 0, 1⟩, ⟨0, 0, -1⟩] from by
        simp [cube_brush, cube_face, cube_planes, mapface_t.get_plane, get_plane]]
  ⟨h1, h2, AddBrushBevels_axial_brush qbsp_env.sample qbsp_options_t.sample libm.real cube_planes
    mapentity_t.default cube_brush h1 h2⟩

end bevel_claims

section process_lemmas
variable {K : Type} [LinearOrderedField K]

/-! ### Entity keys -/

theorem epairs_has_set (epairs : List (String × String)) (key val : String) :
    epairs_has (epairs_set epairs key val) key = true := by
  unfold epairs_set
  by_cases h : epairs_has epairs key = true
  · rw [if_pos h]
    unfold epairs_has at h ⊢
    rw [List.any_eq_true] at h ⊢
    obtain ⟨kv, hkv, hk⟩ := h
    refine ⟨(kv.1, val), ?_, hk⟩
    rw [List.mem_map]
    exact ⟨kv, hkv, by rw [if_pos hk]⟩
  · rw [if_neg h]
    unfold epairs_has
    simp

/-! ### The light-map shift -/

theorem lmshift_loop_returns : ∀ (fuel : Nat) (i lmshift : Int), i.toNat ≤ fuel →
    ∃ r, lmshift_loop fuel i lmshift = some r := by
  intro fuel
  induction fuel with
  | zero =>
    intro i lmshift h
    unfold lmshift_loop
    have : ¬ i > 1 := by omega
    rw [if_neg this]
    exact ⟨_, rfl⟩
  | succ fuel ih =>
    intro i lmshift h
    unfold lmshift_loop
    by_cases hi : i > 1
    · rw [if_pos hi]
      apply ih
      rw [Int.tdiv_eq_ediv (by omega) (by omega)]
      omega
    · rw [if_neg hi]
      exact ⟨_, rfl⟩

theorem entity_lmshift_returns (env : qbsp_env K) (entity : mapentity_t K) :
    ∃ r, entity_lmshift env entity = some r :=
  lmshift_loop_returns _ _ _ (le_refl _)

/-! ### Hint brushes -/

theorem MapBrush_IsHint_returns (mtexinfos : List (maptexinfo_t K)) (brush : mapbrush_t K)
    (h : ∀ f ∈ brush.faces, f.texinfo < mtexinfos.length) :
    ∃ r, MapBrush_IsHint mtexinfos brush = some r := by
  unfold MapBrush_IsHint
  generalize brush.faces = l at h
  induction l with
  | nil => exact ⟨false, rfl⟩
  | cons f fs ih =>
    unfold MapBrush_IsHint_faces mapface_t.get_texinfo
    have hf := h f (List.mem_cons_self _ _)
    rw [List.getElem?_eq_getElem hf]
    simp only []
    split_ifs
    · exact ⟨true, rfl⟩
    · exact ih (fun g hg => h g (List.mem_cons_of_mem _ hg))

/-! ### CalculateBrushBounds -/

theorem foldl_inv {α β : Type} (Inv : α → Prop) (f : α → β → α) (l : List β)
    (hinv : ∀ a, Inv a → ∀ b ∈ l, Inv (f a b)) : ∀ a, Inv a → Inv (l.foldl f a) := by
  induction l with
  | nil => intro a ha; exact ha
  | cons x t ih =>
    intro a ha
    exact ih (fun a ha b hb => hinv a ha b (List.mem_cons_of_mem _ hb)) _
      (hinv a ha x (List.mem_cons_self _ _))

theorem foldl_congr_inv {α β : Type} (Inv : α → Prop) (f g : α → β → α) (l : List β)
    (hfg : ∀ a, Inv a → ∀ b ∈ l, f a b = g a b)
    (hinv : ∀ a, Inv a → ∀ b ∈ l, Inv (f a b)) :
    ∀ a, Inv a → l.foldl f a = l.foldl g a := by
  induction l with
  | nil => intro a _; rfl
  | cons x t ih =>
    intro a ha
    simp only [List.foldl_cons]
    rw [← hfg a ha x (List.mem_cons_self _ _)]
    exact ih (fun a ha b hb => hfg a ha b (List.mem_cons_of_mem _ hb))
      (fun a ha b hb => hinv a ha b (List.mem_cons_of_mem _ hb)) _
      (hinv a ha x (List.mem_cons_self _ _))

theorem foldl_rel {α β : Type} (R : α → α → Prop) (f : α → β → α) (l : List β)
    (hstep : ∀ a a2 b, R a a2 → R (f a b) (f a2 b)) :
    ∀ a a2, R a a2 → R (l.foldl f a) (l.foldl f a2) := by
  induction l with
  | nil => intro a a2 h; exact h
  | cons x t ih =>
    intro a a2 h
    exact ih _ _ (hstep a a2 x h)

/-- One step of CalculateBrushBounds writes the bounds and one winding. -/
theorem CalculateBrushBounds_face_spec (env : qbsp_env K) (planes : List (qplane3 K))
    (ob : mapbrush_t K) (i : Nat) :
    CalculateBrushBounds_face env planes ob i =
      { ob with bounds := (CalculateBrushBounds_face env planes ob i).bounds
                faces := (CalculateBrushBounds_face env planes ob i).faces } ∧
    ((CalculateBrushBounds_face env planes ob i).faces.map fun f => { f with winding := [] }) =
      (ob.faces.map fun f => { f with winding := [] }) := by
  unfold CalculateBrushBounds_face
  simp only []
  split
  · refine ⟨rfl, ?_⟩
    simp only []
    apply List.ext_getElem?
    intro n
    simp only [List.getElem?_map, List.getElem?_set]
    by_cases hin : i = n
    · subst hin
      by_cases hi : i < ob.faces.length
      · simp [hi, List.getD_eq_getElem _ _ hi, List.getElem?_eq_getElem hi]
      · simp [hi, List.getElem?_eq_none (not_lt.mp hi)]
    · simp [hin]
  · exact ⟨rfl, rfl⟩

/-- CalculateBrushBounds changes the bounds and the windings only. -/
theorem CalculateBrushBounds_spec (env : qbsp_env K) (opts : qbsp_options_t K)
    (planes : List (qplane3 K)) (ob : mapbrush_t K) :
    (CalculateBrushBounds env opts planes ob).1 =
      { ob with bounds := (CalculateBrushBounds env opts planes ob).1.bounds
                faces := (CalculateBrushBounds env opts planes ob).1.faces } ∧
    ((CalculateBrushBounds env opts planes ob).1.faces.map fun f => { f with winding := [] }) =
      (ob.faces.map fun f => { f with winding := [] }) := by
  unfold CalculateBrushBounds
  simp only []
  have h := foldl_inv
    (fun a : mapbrush_t K => a = { ob with bounds := a.bounds, faces := a.faces } ∧
      (a.faces.map fun f => { f with winding := [] }) =
        (ob.faces.map fun f => { f with winding := [] }))
    (CalculateBrushBounds_face env planes) (List.range ob.faces.length)
    (fun a ha i _ => by
      have hs := CalculateBrushBounds_face_spec env planes a i
      refine ⟨?_, hs.2.trans ha.2⟩
      rw [hs.1]
      simp only []
      rw [ha.1])
    { ob with bounds := env.aabb_empty } ⟨rfl, rfl⟩
  exact h

/-- The bounds and windings are computed from the face list alone. -/
theorem CalculateBrushBounds_faces_congr (env : qbsp_env K) (opts : qbsp_options_t K)
    (planes : List (qplane3 K)) (ob ob2 : mapbrush_t K) (h : ob.faces = ob2.faces) :
    (CalculateBrushBounds env opts planes ob).1.bounds =
      (CalculateBrushBounds env opts planes ob2).1.bounds ∧
    (CalculateBrushBounds env opts planes ob).1.faces =
      (CalculateBrushBounds env opts planes ob2).1.faces := by
  unfold CalculateBrushBounds
  simp only []
  rw [show List.range ob.faces.length = List.range ob2.faces.length from by rw [h]]
  have := foldl_rel (fun a a2 : mapbrush_t K => a.bounds = a2.bounds ∧ a.faces = a2.faces)
    (CalculateBrushBounds_face env planes) (List.range ob2.faces.length)
    (fun a a2 i hr => by
      unfold CalculateBrushBounds_face CalculateBrushBounds_clip
      simp only [hr.1, hr.2]
      split
      · exact ⟨rfl, rfl⟩
      · exact hr)
    { ob with bounds := env.aabb_empty } { ob2 with bounds := env.aabb_empty } ⟨rfl, h⟩
  exact this

theorem CalculateBrushBounds_clip_congr (env : qbsp_env K)
    (planes planes2 : List (qplane3 K)) (hpre : planes <+: planes2) (a : mapbrush_t K)
    (ha : ∀ f ∈ a.faces, f.planenum < planes.length ∧ f.planenum ^^^ 1 < planes.length)
    (i : Nat) (w0 : Option (List (qvec3 K))) :
    CalculateBrushBounds_clip env planes2 a i w0 = CalculateBrushBounds_clip env planes a i w0 := by
  unfold CalculateBrushBounds_clip
  apply List.foldl_ext
  intro w j hj
  have hj2 : j < a.faces.length := List.mem_range.mp hj
  have hfj : a.faces.getD j mapface_t.default ∈ a.faces := by
    rw [List.getD_eq_getElem _ _ hj2]
    exact List.getElem_mem hj2
  cases w with
  | none => rfl
  | some w =>
    simp only []
    rw [get_plane_extended hpre (ha _ hfj).2]

/-- Planes appended to the table do not change the result of
CalculateBrushBounds on a brush whose faces and flipped faces are in the table. -/
theorem CalculateBrushBounds_planes_congr (env : qbsp_env K) (opts : qbsp_options_t K)
    (planes planes2 : List (qplane3 K)) (hpre : planes <+: planes2) (ob : mapbrush_t K)
    (hv : ∀ f ∈ ob.faces, f.planenum < planes.length ∧ f.planenum ^^^ 1 < planes.length) :
    CalculateBrushBounds env opts planes2 ob = CalculateBrushBounds env opts planes ob := by
  unfold CalculateBrushBounds
  simp only []
  have hval : ∀ a : mapbrush_t K,
      (∀ f ∈ a.faces, f.planenum < planes.length ∧ f.planenum ^^^ 1 < planes.length) →
      ∀ i, i < a.faces.length →
      CalculateBrushBounds_face env planes2 a i = CalculateBrushBounds_face env planes a i := by
    intro a ha i hi
    unfold CalculateBrushBounds_face mapface_t.get_plane
    simp only []
    have hfi : a.faces.getD i mapface_t.default ∈ a.faces := by
      rw [List.getD_eq_getElem _ _ hi]
      exact List.getElem_mem hi
    rw [get_plane_extended hpre (ha _ hfi).1]
    rw [CalculateBrushBounds_clip_congr env planes planes2 hpre a ha i]
  have hfold2 := foldl_congr_inv
    (fun a : mapbrush_t K => a.faces.length = ob.faces.length ∧
      ∀ f ∈ a.faces, f.planenum < planes.length ∧ f.planenum ^^^ 1 < planes.length)
    (CalculateBrushBounds_face env planes2) (CalculateBrushBounds_face env planes)
    (List.range ob.faces.length)
    (fun a ha i hi => hval a ha.2 i (by rw [ha.1]; exact List.mem_range.mp hi))
    (fun a ha i hi => by
      have hi2 : i < a.faces.length := by rw [ha.1]; exact List.mem_range.mp hi
      rw [hval a ha.2 i hi2]
      have hs := (CalculateBrushBounds_face_spec env planes a i).2
      have hlen : (CalculateBrushBounds_face env planes a i).faces.length = a.faces.length := by
        have := congrArg List.length hs
        simpa using this
      refine ⟨hlen.trans ha.1, ?_⟩
      intro f hf
      have hm : ({ f with winding := [] } : mapface_t K) ∈
          (a.faces.map fun f => { f with winding := [] }) := by
        rw [← hs]
        exact List.mem_map_of_mem _ hf
      obtain ⟨g, hg, hgf⟩ := List.mem_map.mp hm
      have hp : g.planenum = f.planenum := by
        have := congrArg mapface_t.planenum hgf
        simpa using this
      rw [← hp]
      exact ha.2 g hg)
    { ob with bounds := env.aabb_empty } ⟨rfl, hv⟩
  rw [hfold2]

/-! ### AddBrushBevels on arbitrary brushes -/

theorem bevel_state.Grows_refl (st : bevel_state K) : st.Grows st :=
  ⟨List.prefix_refl _, rfl, rfl, fun f hf => ⟨f, List.mem_cons_of_mem _ hf, rfl, rfl, rfl⟩⟩

theorem bevel_state.Grows_trans {st st2 st3 : bevel_state K} (h : st.Grows st2)
    (h2 : st2.Grows st3) : st.Grows st3 := by
  obtain ⟨a1, a2, a3, a4⟩ := h
  obtain ⟨b1, b2, b3, b4⟩ := h2
  refine ⟨a1.trans b1, ?_, ?_, ?_⟩
  · rw [b2, a2]
  · rw [b3, a3]
  · intro f hf
    obtain ⟨g, hg, hgeq⟩ := b4 f hf
    rcases List.mem_cons.mp hg with hg | hg
    · exact ⟨g, by rw [hg]; exact List.mem_cons_self _ _, hgeq⟩
    · obtain ⟨g2, hg2, hgeq2⟩ := a4 g hg
      exact ⟨g2, hg2, hgeq.1.trans hgeq2.1, hgeq.2.1.trans hgeq2.2.1, hgeq.2.2.trans hgeq2.2.2⟩

theorem bevel_state.Extends_grows {st st2 : bevel_state K} {n : Nat} (h : st.Extends st2 n) :
    st.Grows st2 := by
  obtain ⟨a1, new, a2, a3, _, a5⟩ := h
  refine ⟨a1, ?_, ?_, ?_⟩
  · rw [a2]
  · rw [a3]
  · intro f hf
    rw [a2] at hf
    rcases List.mem_append.mp hf with hf | hf
    · exact ⟨f, List.mem_cons_of_mem _ hf, rfl, rfl, rfl⟩
    · exact (a5 f hf).2.2

theorem getD_mem_or_default {α : Type} (l : List α) (i : Nat) (d : α) :
    l.getD i d ∈ l ∨ l.getD i d = d := by
  by_cases hi : i < l.length
  · left
    rw [List.getD_eq_getElem _ _ hi]
    exact List.getElem_mem hi
  · right
    exact List.getD_eq_default _ _ (not_lt.mp hi)

theorem swapFaces_mem (l : List (mapface_t K)) (a b : Nat) (f : mapface_t K)
    (hf : f ∈ swapFaces l a b) : f ∈ l ∨ f = mapface_t.default := by
  unfold swapFaces at hf
  rcases List.mem_or_eq_of_mem_set hf with h | h
  · rcases List.mem_or_eq_of_mem_set h with h2 | h2
    · exact Or.inl h2
    · rw [h2]
      exact getD_mem_or_default l b _
  · rw [h]
    exact getD_mem_or_default l a _

theorem AddBrushBevels_axial_step_grows (st : bevel_state K) (axis : Nat) (dir : Int)
    (order : Nat) : st.Grows (AddBrushBevels_axial_step st axis dir order) := by
  have hmem : ∀ f : mapface_t K, f ∈ st.b.faces ∨ f = mapface_t.default →
      ∃ g ∈ mapface_t.default :: st.b.faces,
        f.texinfo = g.texinfo ∧ f.contents = g.contents ∧ f.texname = g.texname := by
    intro f hf
    rcases hf with hf | hf
    · exact ⟨f, List.mem_cons_of_mem _ hf, rfl, rfl, rfl⟩
    · exact ⟨f, by rw [hf]; exact List.mem_cons_self _ _, rfl, rfl, rfl⟩
  have hfirst : (st.b.faces ++ [mapface_t.default]).getD 0 mapface_t.default ∈
      mapface_t.default :: st.b.faces := by
    rcases getD_mem_or_default (st.b.faces ++ [mapface_t.default]) 0 mapface_t.default with h | h
    · rcases List.mem_append.mp h with h2 | h2
      · exact List.mem_cons_of_mem _ h2
      · rw [List.mem_singleton.mp h2]
        exact List.mem_cons_self _ _
    · rw [h]
      exact List.mem_cons_self _ _
  unfold AddBrushBevels_axial_step
  simp only []
  by_cases hfound : st.b.faces.findIdx
      (fun s => decide ((get_plane st.planes s.planenum).normal.get axis = (dir : K))) =
      st.b.faces.length
  · simp only [hfound, if_true]
    have hnew : ∀ f, f ∈ st.b.faces ++ [({ (mapface_t.default : mapface_t K) with
          planenum := (add_or_find_plane st.planes (axialBevelPlane st.b axis dir)).2
          texinfo := ((st.b.faces ++ [mapface_t.default]).getD 0 mapface_t.default).texinfo
          contents := ((st.b.faces ++ [mapface_t.default]).getD 0 mapface_t.default).contents
          texname := ((st.b.faces ++ [mapface_t.default]).getD 0 mapface_t.default).texname
          bevel := true } : mapface_t K)] ∨ f = mapface_t.default →
        ∃ g ∈ mapface_t.default :: st.b.faces,
          f.texinfo = g.texinfo ∧ f.contents = g.contents ∧ f.texname = g.texname := by
      intro f hf
      rcases hf with hf | hf
      · rcases List.mem_append.mp hf with h2 | h2
        · exact hmem f (Or.inl h2)
        · rw [List.mem_singleton.mp h2]
          exact ⟨_, hfirst, rfl, rfl, rfl⟩
      · exact hmem f (Or.inr hf)
    split_ifs
    · refine ⟨(get_plane_add_or_find _ _).2.2, rfl, rfl, ?_⟩
      intro f hf
      exact hnew f (swapFaces_mem _ _ _ f hf)
    · refine ⟨(get_plane_add_or_find _ _).2.2, rfl, rfl, ?_⟩
      intro f hf
      exact hnew f (Or.inl hf)
  · simp only [hfound, if_false]
    split_ifs
    · refine ⟨List.prefix_refl _, rfl, rfl, ?_⟩
      intro f hf
      exact hmem f (swapFaces_mem _ _ _ f hf)
    · exact bevel_state.Grows_refl st

theorem AddBrushBevels_axial_grows (st : bevel_state K) : st.Grows (AddBrushBevels_axial st) := by
  unfold AddBrushBevels_axial
  generalize axialOrder = l
  induction l generalizing st with
  | nil => exact bevel_state.Grows_refl st
  | cons c t ih =>
    simp only [List.foldl_cons]
    exact bevel_state.Grows_trans (AddBrushBevels_axial_step_grows st c.1 c.2.1 c.2.2) (ih _)

/-- AddBrushBevels returns for every brush; it extends the plane table, changes
the face list of the brush and the bevel counters of the entity only, and every
face of the result takes its texinfo from a face of the brush (or from a
default-constructed face). -/
theorem AddBrushBevels_grows (env : qbsp_env K) (opts : qbsp_options_t K) (m : libm K)
    (planes : List (qplane3 K)) (e : mapentity_t K) (b : mapbrush_t K) :
    ∃ st, AddBrushBevels env opts m planes e b = some st ∧
      (bevel_state.mk planes e b).Grows st := by
  unfold AddBrushBevels
  simp only []
  have h1 := AddBrushBevels_axial_grows (bevel_state.mk planes e b)
  split_ifs
  · exact ⟨_, rfl, h1⟩
  · obtain ⟨st2, n, e2, hext⟩ := AddBrushBevels_edgeLoop_returns env opts m _ 6 _
      (drop_weight_le (AddBrushBevels_axial (bevel_state.mk planes e b)).b.faces 6)
    exact ⟨st2, e2, bevel_state.Grows_trans h1 (bevel_state.Extends_grows hext)⟩

/-! ### The loop over the brushes of an entity -/

theorem CalculateBrushBounds_texinfo (env : qbsp_env K) (opts : qbsp_options_t K)
    (planes : List (qplane3 K)) (ob : mapbrush_t K) (f : mapface_t K)
    (hf : f ∈ (CalculateBrushBounds env opts planes ob).1.faces) :
    ∃ g ∈ ob.faces, f.texinfo = g.texinfo := by
  have hs := (CalculateBrushBounds_spec env opts planes ob).2
  have hm : ({ f with winding := [] } : mapface_t K) ∈
      (ob.faces.map fun f => { f with winding := [] }) := by
    rw [← hs]
    exact List.mem_map_of_mem _ hf
  obtain ⟨g, hg, hgf⟩ := List.mem_map.mp hm
  refine ⟨g, hg, ?_⟩
  have := congrArg mapface_t.texinfo hgf
  simpa using this.symm

theorem CalculateBrushBounds_contents (env : qbsp_env K) (opts : qbsp_options_t K)
    (planes : List (qplane3 K)) (ob : mapbrush_t K) :
    (CalculateBrushBounds env opts planes ob).1.contents = ob.contents ∧
    (CalculateBrushBounds env opts planes ob).1.line = ob.line := by
  have hs := (CalculateBrushBounds_spec env opts planes ob).1
  constructor
  · rw [hs]
  · rw [hs]

/-- One brush of an entity: an origin brush is dropped and gives the entity its
origin unless the entity is the world or has an origin already; every other
brush is kept, with bevels added. -/
theorem ProcessMapBrushes_brush_spec (env : qbsp_env K) (opts : qbsp_options_t K) (m : libm K)
    ( is_world : Bool) (lmshift : Int) (areaportal : Bool) (st : process_state K)
    (brush0 : mapbrush_t K) (h0 : 0 < st.map.mtexinfos.length)
    (hv : ∀ f ∈ brush0.faces, f.texinfo < st.map.mtexinfos.length) :
    ∃ st1, ProcessMapBrushes_brush env opts m is_world lmshift areaportal st brush0 = some st1 ∧
      st.map.planes <+: st1.map.planes ∧ st1.map.mtexinfos = st.map.mtexinfos ∧
      st1.map.miptex = st.map.miptex ∧
      (env.contents_is_origin brush0.contents = true →
        st1.entity.mapbrushes = st.entity.mapbrushes ∧
        st1.entity.rotation = rotation_t.origin_brush ∧
        (( is_world = true ∨ epairs_has st.entity.epairs "origin" = true) →
          st1.entity.origin = st.entity.origin ∧ st1.entity.epairs = st.entity.epairs) ∧
        ( is_world = false → epairs_has st.entity.epairs "origin" = false →
          st1.entity.origin =
            (CalculateBrushBounds env opts st.map.planes brush0).1.bounds.centroid ∧
          st1.entity.epairs = epairs_set st.entity.epairs "origin"
            (env.to_string (CalculateBrushBounds env opts st.map.planes brush0).1.bounds.centroid))) ∧
      (env.contents_is_origin brush0.contents = false →
        ∃ b2, st1.entity.mapbrushes = st.entity.mapbrushes ++ [b2] ∧
          b2.contents = brush0.contents ∧ b2.line = brush0.line ∧
          (∀ f ∈ b2.faces, f.texinfo < st.map.mtexinfos.length) ∧
          st1.entity.origin = st.entity.origin ∧ st1.entity.epairs = st.entity.epairs ∧
          st1.entity.rotation = st.entity.rotation) := by
  obtain ⟨hint, hhint⟩ := MapBrush_IsHint_returns st.map.mtexinfos brush0 hv
  unfold ProcessMapBrushes_brush
  rw [hhint]
  dsimp only
  have hcont := (CalculateBrushBounds_contents env opts st.map.planes
    { brush0 with lmshift := lmshift, func_areaportal := areaportal, is_hint := hint })
  have hbounds := (CalculateBrushBounds_faces_congr env opts st.map.planes
    { brush0 with lmshift := lmshift, func_areaportal := areaportal, is_hint := hint } brush0 rfl).1
  dsimp only at hcont hbounds
  rw [hcont.1]
  by_cases horg : env.contents_is_origin brush0.contents = true
  · rw [if_pos horg]
    refine ⟨_, rfl, List.prefix_refl _, rfl, rfl, ?_, ?_⟩
    · intro _
      refine ⟨?_, rfl, ?_, ?_⟩
      · dsimp only
        unfold ProcessMapBrushes_origin_brush
        split_ifs <;> rfl
      · intro hw
        dsimp only
        unfold ProcessMapBrushes_origin_brush
        rcases hw with hw | hw
        · rw [if_pos hw]
          exact ⟨rfl, rfl⟩
        · split_ifs
          · exact ⟨rfl, rfl⟩
          · exact ⟨rfl, rfl⟩
      · intro hw hno
        dsimp only
        unfold ProcessMapBrushes_origin_brush
        rw [if_neg (by rw [hw]; exact Bool.false_ne_true),
          if_neg (by rw [hno]; exact Bool.false_ne_true)]
        dsimp only
        rw [hbounds]
        exact ⟨rfl, rfl⟩
    · intro hn
      rw [hn] at horg
      exact absurd horg Bool.false_ne_true
  · rw [if_neg horg]
    obtain ⟨bs, hbs, hg1, hg2, hg3, hg4⟩ := AddBrushBevels_grows env opts m st.map.planes st.entity
      (CalculateBrushBounds env opts st.map.planes
        { brush0 with lmshift := lmshift, func_areaportal := areaportal, is_hint := hint }).1
    rw [hbs]
    dsimp only
    refine ⟨_, rfl, hg1, rfl, rfl, ?_, ?_⟩
    · intro hy
      exact absurd hy horg
    · intro _
      refine ⟨{ bs.b with faces := bs.b.faces.map fun f => { f with lmshift := bs.b.lmshift } },
        ?_, ?_, ?_, ?_, ?_, ?_, ?_⟩
      · dsimp only
        rw [hg3]
      · dsimp only
        rw [hg2]
        exact hcont.1
      · dsimp only
        rw [hg2]
        exact hcont.2
      · intro f hf
        simp only [List.mem_map] at hf
        obtain ⟨f1, hf1, rfl⟩ := hf
        simp only []
        obtain ⟨g, hg, hgt, _⟩ := hg4 f1 hf1
        rw [hgt]
        rcases List.mem_cons.mp hg with hg | hg
        · rw [hg]
          exact h0
        · obtain ⟨g2, hg2, hgt2⟩ := CalculateBrushBounds_texinfo env opts _ _ g hg
          rw [hgt2]
          exact hv g2 hg2
      · dsimp only
        rw [hg3]
      · dsimp only
        rw [hg3]
      · dsimp only
        rw [hg3]

/-- The loop over the brushes of an entity returns; it keeps the brushes that
are not origin brushes, in their order, and the first origin brush decides the
origin of an entity that is not the world and has no origin yet. -/
theorem ProcessMapBrushes_brushes_spec (env : qbsp_env K) (opts : qbsp_options_t K) (m : libm K)
    ( is_world : Bool) (lmshift : Int) (areaportal : Bool) :
    ∀ (brushes : List (mapbrush_t K)) (st : process_state K),
      0 < st.map.mtexinfos.length → (∀ b ∈ brushes, b.Valid st.map) →
      ∃ st2, ProcessMapBrushes_brushes env opts m is_world lmshift areaportal st brushes = some st2 ∧
        st.map.planes <+: st2.map.planes ∧ st2.map.mtexinfos = st.map.mtexinfos ∧
        st2.map.miptex = st.map.miptex ∧
        (∃ kept, st2.entity.mapbrushes = st.entity.mapbrushes ++ kept ∧
          kept.map (fun b => (b.line, b.contents)) =
            (brushes.filter fun b => !env.contents_is_origin b.contents).map
              (fun b => (b.line, b.contents)) ∧
          ∀ b ∈ kept, ∀ f ∈ b.faces, f.texinfo < st.map.mtexinfos.length) ∧
        ((∀ b ∈ brushes, env.contents_is_origin b.contents = false) →
          st2.entity.origin = st.entity.origin ∧ st2.entity.epairs = st.entity.epairs ∧
          st2.entity.rotation = st.entity.rotation) ∧
        (( is_world = true ∨ epairs_has st.entity.epairs "origin" = true) →
          st2.entity.origin = st.entity.origin ∧ st2.entity.epairs = st.entity.epairs) ∧
        (st.entity.rotation = rotation_t.origin_brush →
          st2.entity.rotation = rotation_t.origin_brush) ∧
        (∀ pre ob post, brushes = pre ++ ob :: post →
          (∀ b ∈ pre, env.contents_is_origin b.contents = false) →
          env.contents_is_origin ob.contents = true →
          st2.entity.rotation = rotation_t.origin_brush ∧
          ( is_world = false → epairs_has st.entity.epairs "origin" = false →
            st2.entity.origin =
              (CalculateBrushBounds env opts st.map.planes ob).1.bounds.centroid ∧
            st2.entity.epairs = epairs_set st.entity.epairs "origin"
              (env.to_string (CalculateBrushBounds env opts st.map.planes ob).1.bounds.centroid))) := by
  intro brushes
  induction brushes with
  | nil =>
    intro st _ _
    refine ⟨st, rfl, List.prefix_refl _, rfl, rfl, ⟨[], by simp, rfl, by simp⟩,
      fun _ => ⟨rfl, rfl, rfl⟩, fun _ => ⟨rfl, rfl⟩, fun h => h, ?_⟩
    intro pre ob post h
    exact absurd h (by simp)
  | cons b rest ih =>
    intro st h0 hv
    have hvb := hv b (List.mem_cons_self _ _)
    obtain ⟨st1, hst1, hp1, hm1, hmi1, horg1, hnon1⟩ :=
      ProcessMapBrushes_brush_spec env opts m is_world lmshift areaportal st b h0
        (fun f hf => (hvb f hf).1)
    have hv1 : ∀ b2 ∈ rest, b2.Valid st1.map := by
      intro b2 hb2 f hf
      have := hv b2 (List.mem_cons_of_mem _ hb2) f hf
      rw [hm1]
      exact ⟨this.1, lt_of_lt_of_le this.2.1 hp1.length_le, lt_of_lt_of_le this.2.2 hp1.length_le⟩
    obtain ⟨st2, hst2, hp2, hm2, hmi2, ⟨kept, hk1, hk2, hk3⟩, ha2, hc2, hr2, hb2⟩ :=
      ih st1 (by rw [hm1]; exact h0) hv1
    have hrun : ProcessMapBrushes_brushes env opts m is_world lmshift areaportal st (b :: rest) =
        some st2 := by
      rw [ProcessMapBrushes_brushes, hst1]
      exact hst2
    refine ⟨st2, hrun, hp1.trans hp2, hm2.trans hm1, hmi2.trans hmi1, ?_, ?_, ?_, ?_, ?_⟩
    · by_cases hob : env.contents_is_origin b.contents = true
      · obtain ⟨hsame, _⟩ := horg1 hob
        refine ⟨kept, by rw [hk1, hsame], ?_, ?_⟩
        · rw [hk2, List.filter_cons_of_neg (by simp [hob])]
        · intro b2 hb2m f hf
          rw [← hm1]
          exact hk3 b2 hb2m f hf
      · have hob2 : env.contents_is_origin b.contents = false := by
          simpa using hob
        obtain ⟨b2, hb2eq, hb2c, hb2l, hb2v, _⟩ := hnon1 hob2
        refine ⟨b2 :: kept, ?_, ?_, ?_⟩
        · rw [hk1, hb2eq, List.append_assoc, List.singleton_append]
        · rw [List.filter_cons_of_pos (by simp [hob2]), List.map_cons, List.map_cons, hk2,
            hb2c, hb2l]
        · intro b3 hb3 f hf
          rcases List.mem_cons.mp hb3 with h | h
          · rw [h] at hf
            exact hb2v f hf
          · rw [← hm1]
            exact hk3 b3 h f hf
    · intro hall
      obtain ⟨b2, _, _, _, _, ho, he, hr⟩ := hnon1 (hall b (List.mem_cons_self _ _))
      obtain ⟨ho2, he2, hr3⟩ := ha2 (fun b3 hb3 => hall b3 (List.mem_cons_of_mem _ hb3))
      exact ⟨ho2.trans ho, he2.trans he, hr3.trans hr⟩
    · intro hw
      have hstep : st1.entity.origin = st.entity.origin ∧ st1.entity.epairs = st.entity.epairs := by
        by_cases hob : env.contents_is_origin b.contents = true
        · exact (horg1 hob).2.2.1 hw
        · obtain ⟨b2, _, _, _, _, ho, he, _⟩ := hnon1 (by simpa using hob)
          exact ⟨ho, he⟩
      have hw1 : is_world = true ∨ epairs_has st1.entity.epairs "origin" = true := by
        rw [hstep.2]
        exact hw
      obtain ⟨ho2, he2⟩ := hc2 hw1
      exact ⟨ho2.trans hstep.1, he2.trans hstep.2⟩
    · intro hrot
      apply hr2
      by_cases hob : env.contents_is_origin b.contents = true
      · exact (horg1 hob).2.1
      · obtain ⟨b2, _, _, _, _, _, _, hr⟩ := hnon1 (by simpa using hob)
        exact hr.trans hrot
    · intro pre ob post hsplit hpre hobo
      cases pre with
      | nil =>
        simp only [List.nil_append, List.cons.injEq] at hsplit
        obtain ⟨hbo, hrest⟩ := hsplit
        subst hbo
        obtain ⟨_, hrot, _, hset⟩ := horg1 hobo
        refine ⟨hr2 hrot, ?_⟩
        intro hw hno
        obtain ⟨ho1, he1⟩ := hset hw hno
        have hw1 : is_world = true ∨ epairs_has st1.entity.epairs "origin" = true := by
          right
          rw [he1]
          exact epairs_has_set _ _ _
        obtain ⟨ho2, he2⟩ := hc2 hw1
        exact ⟨ho2.trans ho1, he2.trans he1⟩
      | cons p pre2 =>
        simp only [List.cons_append, List.cons.injEq] at hsplit
        obtain ⟨hbp, hrest⟩ := hsplit
        subst hbp
        obtain ⟨b2, _, _, _, _, ho, he, _⟩ := hnon1 (hpre b (List.mem_cons_self _ _))
        obtain ⟨hrot2, hset2⟩ := hb2 pre2 ob post hrest
          (fun b3 hb3 => hpre b3 (List.mem_cons_of_mem _ hb3)) hobo
        refine ⟨hrot2, ?_⟩
        intro hw hno
        obtain ⟨ho2, he2⟩ := hset2 hw (by rw [he]; exact hno)
        have hobv : ∀ f ∈ ob.faces, f.planenum < st.map.planes.length ∧
            f.planenum ^^^ 1 < st.map.planes.length := by
          intro f hf
          have := hv ob (by rw [hrest]; simp) f hf
          exact this.2
        rw [CalculateBrushBounds_planes_congr env opts st.map.planes st1.map.planes hp1 ob hobv]
          at ho2 he2
        rw [he] at he2
        exact ⟨ho2, he2⟩

/-! ### Brushes of entities with a rotation -/

theorem ProcessMapBrushes_offset_face_returns (env : qbsp_env K) (opts : qbsp_options_t K)
    (origin : qvec3 K) (hfind : env.FindTexinfoGrows) (map : mapdata_t K) (f : mapface_t K)
    (hf : f.texinfo < map.mtexinfos.length) :
    ∃ map1 f1, ProcessMapBrushes_offset_face env opts origin map f = some (map1, f1) ∧
      map.planes <+: map1.planes ∧ map.mtexinfos.length ≤ map1.mtexinfos.length := by
  unfold ProcessMapBrushes_offset_face mapface_t.get_texinfo
  rw [List.getElem?_eq_getElem hf]
  dsimp only
  by_cases hold : opts.oldrottex = false
  · rw [if_pos hold]
    dsimp only
    exact ⟨_, _, rfl, (get_plane_add_or_find _ _).2.2, (hfind _ _ _).1⟩
  · rw [if_neg hold]
    dsimp only
    exact ⟨_, _, rfl, (get_plane_add_or_find _ _).2.2, le_refl _⟩

theorem ProcessMapBrushes_offset_faces_returns (env : qbsp_env K) (opts : qbsp_options_t K)
    (origin : qvec3 K) (hfind : env.FindTexinfoGrows) :
    ∀ (fs : List (mapface_t K)) (map : mapdata_t K),
      (∀ f ∈ fs, f.texinfo < map.mtexinfos.length) →
      ∃ map2 fs1, ProcessMapBrushes_offset_faces env opts origin map fs = some (map2, fs1) ∧
        map.planes <+: map2.planes ∧ map.mtexinfos.length ≤ map2.mtexinfos.length := by
  intro fs
  induction fs with
  | nil =>
    intro map _
    exact ⟨map, [], rfl, List.prefix_refl _, le_refl _⟩
  | cons f fs ih =>
    intro map hv
    obtain ⟨map1, f1, h1, hp1, hl1⟩ := ProcessMapBrushes_offset_face_returns env opts origin hfind
      map f (hv f (List.mem_cons_self _ _))
    obtain ⟨map2, fs1, h2, hp2, hl2⟩ := ih map1
      (fun g hg => lt_of_lt_of_le (hv g (List.mem_cons_of_mem _ hg)) hl1)
    refine ⟨map2, f1 :: fs1, ?_, hp1.trans hp2, le_trans hl1 hl2⟩
    rw [ProcessMapBrushes_offset_faces, h1]
    dsimp only
    rw [h2]

theorem ProcessMapBrushes_offset_brushes_returns (env : qbsp_env K) (opts : qbsp_options_t K)
    (origin : qvec3 K) (hfind : env.FindTexinfoGrows) :
    ∀ (brushes : List (mapbrush_t K)) (map : mapdata_t K),
      (∀ b ∈ brushes, ∀ f ∈ b.faces, f.texinfo < map.mtexinfos.length) →
      ∃ map2 brushes1 log,
        ProcessMapBrushes_offset_brushes env opts origin map brushes = some (map2, brushes1, log) ∧
        map.planes <+: map2.planes ∧ map.mtexinfos.length ≤ map2.mtexinfos.length ∧
        brushes1.map (fun b => (b.line, b.contents)) =
          brushes.map (fun b => (b.line, b.contents)) := by
  intro brushes
  induction brushes with
  | nil =>
    intro map _
    exact ⟨map, [], [], rfl, List.prefix_refl _, le_refl _, rfl⟩
  | cons b rest ih =>
    intro map hv
    obtain ⟨map1, faces, h1, hp1, hl1⟩ := ProcessMapBrushes_offset_faces_returns env opts origin
      hfind b.faces map (hv b (List.mem_cons_self _ _))
    obtain ⟨map2, rest1, log, h2, hp2, hl2, hk2⟩ := ih map1
      (fun b2 hb2 f hf => lt_of_lt_of_le (hv b2 (List.mem_cons_of_mem _ hb2) f hf) hl1)
    refine ⟨map2,
      (CalculateBrushBounds env opts map1.planes { b with faces := faces }).1 :: rest1,
      (CalculateBrushBounds env opts map1.planes { b with faces := faces }).2 ++ log,
      ?_, hp1.trans hp2, le_trans hl1 hl2, ?_⟩
    · rw [ProcessMapBrushes_offset_brushes, h1]
      dsimp only
      rw [h2]
    · have hc := CalculateBrushBounds_contents env opts map1.planes { b with faces := faces }
      rw [List.map_cons, List.map_cons, hk2, hc.1, hc.2]

/-! ### One entity -/

theorem ProcessMapBrushes_hipnotic_spec (env : qbsp_env K) (entity : mapentity_t K) :
    (ProcessMapBrushes_hipnotic env entity).mapbrushes = entity.mapbrushes ∧
    (ProcessMapBrushes_hipnotic env entity).epairs = entity.epairs ∧
    (entity.rotation = rotation_t.origin_brush →
      ProcessMapBrushes_hipnotic env entity = entity) := by
  unfold ProcessMapBrushes_hipnotic
  refine ⟨?_, ?_, ?_⟩
  · split_ifs <;> rfl
  · split_ifs <;> rfl
  · intro h
    rw [if_neg (by rw [h]; decide)]

theorem ProcessMapBrushes_offset_returns (env : qbsp_env K) (opts : qbsp_options_t K)
    (hfind : env.FindTexinfoGrows) (map : mapdata_t K) (entity : mapentity_t K)
    (hv : ∀ b ∈ entity.mapbrushes, ∀ f ∈ b.faces, f.texinfo < map.mtexinfos.length) :
    ∃ map2 brushes1 log,
      ProcessMapBrushes_offset env opts map entity = some (map2, brushes1, log) ∧
      map.planes <+: map2.planes ∧ map.mtexinfos.length ≤ map2.mtexinfos.length ∧
      brushes1.map (fun b => (b.line, b.contents)) =
        entity.mapbrushes.map (fun b => (b.line, b.contents)) := by
  unfold ProcessMapBrushes_offset
  split_ifs
  · exact ProcessMapBrushes_offset_brushes_returns env opts entity.origin hfind _ map hv
  · exact ⟨map, _, [], rfl, List.prefix_refl _, le_refl _, rfl⟩

/-- The body of ProcessMapBrushes for one valid entity returns; the tables grow,
the brushes that are not origin brushes are kept in their order, and the first
origin brush decides the origin of an entity that is not the world and has no
origin property, while the world and an entity with an origin property keep
their origin. -/
theorem ProcessMapBrushes_entity_spec (env : qbsp_env K) (opts : qbsp_options_t K) (m : libm K)
    ( is_world : Bool) (hfind : env.FindTexinfoGrows) (map : mapdata_t K) (e : mapentity_t K)
    (hv : e.Valid map) :
    ∃ map2 e2 log, ProcessMapBrushes_entity env opts m is_world map e = some (map2, e2, log) ∧
      map.planes <+: map2.planes ∧ map.mtexinfos.length ≤ map2.mtexinfos.length ∧
      e2.mapbrushes.map (fun b => (b.line, b.contents)) =
        (e.mapbrushes.filter fun b => !env.contents_is_origin b.contents).map
          (fun b => (b.line, b.contents)) ∧
      (∀ pre ob post, e.mapbrushes = pre ++ ob :: post →
        (∀ b ∈ pre, env.contents_is_origin b.contents = false) →
        env.contents_is_origin ob.contents = true →
        e2.rotation = rotation_t.origin_brush ∧
        ( is_world = false → epairs_has e.epairs "origin" = false →
          e2.origin = (CalculateBrushBounds env opts map.planes ob).1.bounds.centroid ∧
          e2.epairs = epairs_set e.epairs "origin"
            (env.to_string (CalculateBrushBounds env opts map.planes ob).1.bounds.centroid)) ∧
        (( is_world = true ∨ epairs_has e.epairs "origin" = true) →
          e2.origin = e.origin ∧ e2.epairs = e.epairs)) := by
  obtain ⟨lmshift, hlm⟩ := entity_lmshift_returns env { e with rotation := rotation_t.none }
  obtain ⟨st, hst, hp, hm, _, ⟨kept, hk1, hk2, hk3⟩, _, hc, _, hb⟩ :=
    ProcessMapBrushes_brushes_spec env opts m is_world lmshift
      (epairs_get e.epairs "classname" == "func_areaportal") e.mapbrushes
      { map := map, entity := { e with rotation := rotation_t.none, mapbrushes := [] }, log := [] }
      hv.1 hv.2
  dsimp only at hst hp hm hk1 hk2 hk3 hc hb
  rw [List.nil_append] at hk1
  obtain ⟨hh1, hh2, hh3⟩ := ProcessMapBrushes_hipnotic_spec env st.entity
  obtain ⟨map3, brushes, log, hoff, hp3, hl3, hk4⟩ := ProcessMapBrushes_offset_returns env opts hfind
    st.map (ProcessMapBrushes_hipnotic env st.entity) (by
      intro b hb2 f hf
      rw [hh1, hk1] at hb2
      rw [hm]
      exact hk3 b hb2 f hf)
  refine ⟨map3,
    { ProcessMapBrushes_hipnotic env st.entity with
      mapbrushes := brushes.map fun brush =>
        { brush with faces := brush.faces.map fun f => { f with winding := [] } } },
    st.log ++ log, ?_, hp.trans hp3, ?_, ?_, ?_⟩
  · unfold ProcessMapBrushes_entity
    dsimp only
    rw [hlm]
    dsimp only
    rw [hst]
    dsimp only
    rw [hoff]
  · rw [← hm]
    exact hl3
  · dsimp only
    rw [List.map_map]
    have : ((fun b : mapbrush_t K => (b.line, b.contents)) ∘ fun brush : mapbrush_t K =>
        { brush with faces := brush.faces.map fun f => { f with winding := [] } }) =
        fun b : mapbrush_t K => (b.line, b.contents) := rfl
    rw [this, hk4, hh1, hk1, hk2]
  · intro pre ob post hsplit hpre hob
    obtain ⟨hrot, hset⟩ := hb pre ob post hsplit hpre hob
    dsimp only
    rw [hh3 hrot]
    refine ⟨hrot, hset, ?_⟩
    intro hw
    exact hc hw

/-! ### All entities -/

theorem epairs_get_set (epairs : List (String × String)) (key val : String) :
    epairs_get (epairs_set epairs key val) key = val := by
  unfold epairs_set epairs_get
  by_cases h : epairs_has epairs key = true
  · rw [if_pos h]
    unfold epairs_has at h
    induction epairs with
    | nil => simp at h
    | cons kv t ih =>
      by_cases hk : (kv.1 == key) = true
      · simp [List.find?, hk]
      · have hk2 : (kv.1 == key) = false := by simpa using hk
        simp only [List.any_cons, hk2, Bool.false_or] at h
        simp only [List.map_cons, hk2, List.find?, Bool.false_eq_true, if_false]
        exact ih h
  · rw [if_neg h]
    unfold epairs_has at h
    have hnone : epairs.find? (fun kv => kv.1 == key) = none := by
      rw [List.find?_eq_none]
      intro kv hkv hk
      apply h
      rw [List.any_eq_true]
      exact ⟨kv, hkv, hk⟩
    rw [List.find?_append, hnone]
    simp [List.find?]

theorem mapentity_t.Valid_mono {map map1 : mapdata_t K} {e : mapentity_t K} (h : e.Valid map)
    (hp : map.planes <+: map1.planes) (hl : map.mtexinfos.length ≤ map1.mtexinfos.length) :
    e.Valid map1 := by
  refine ⟨lt_of_lt_of_le h.1 hl, ?_⟩
  intro b hb f hf
  have := h.2 b hb f hf
  exact ⟨lt_of_lt_of_le this.1 hl, lt_of_lt_of_le this.2.1 hp.length_le,
    lt_of_lt_of_le this.2.2 hp.length_le⟩

/-- The loop over the entities returns for valid entities; every entity is
processed with tables that extend the initial ones. -/
theorem ProcessMapBrushes_entities_spec (env : qbsp_env K) (opts : qbsp_options_t K) (m : libm K)
    (hfind : env.FindTexinfoGrows) :
    ∀ (entities : List (mapentity_t K)) (index : Nat) (map : mapdata_t K),
      (∀ e ∈ entities, e.Valid map) →
      ∃ map2 entities2 log,
        ProcessMapBrushes_entities env opts m index map entities = some (map2, entities2, log) ∧
        ∀ n e, entities[n]? = some e →
          ∃ map1 map3 e2 log1, entities2[n]? = some e2 ∧
            map.planes <+: map1.planes ∧ map.mtexinfos.length ≤ map1.mtexinfos.length ∧
            ProcessMapBrushes_entity env opts m (is_world_entity (index + n)) map1 e =
              some (map3, e2, log1) := by
  intro entities
  induction entities with
  | nil =>
    intro index map _
    refine ⟨map, [], [], rfl, ?_⟩
    intro n e h
    simp at h
  | cons e rest ih =>
    intro index map hv
    obtain ⟨map1, e1, log1, h1, hp1, hl1, _⟩ := ProcessMapBrushes_entity_spec env opts m
      (is_world_entity index) hfind map e (hv e (List.mem_cons_self _ _))
    obtain ⟨map2, rest2, log2, h2, hrest⟩ := ih (index + 1) map1
      (fun e2 he2 => mapentity_t.Valid_mono (hv e2 (List.mem_cons_of_mem _ he2)) hp1 hl1)
    refine ⟨map2, e1 :: rest2, log1 ++ log2, ?_, ?_⟩
    · rw [ProcessMapBrushes_entities, h1]
      dsimp only
      rw [h2]
    · intro n e3 hn
      cases n with
      | zero =>
        simp only [List.getElem?_cons_zero, Option.some.injEq] at hn
        subst hn
        exact ⟨map, map1, e1, log1, List.getElem?_cons_zero, List.prefix_refl _, le_refl _, h1⟩
      | succ n =>
        simp only [List.getElem?_cons_succ] at hn
        obtain ⟨map4, map5, e4, log4, hn4, hp4, hl4, hrun4⟩ := hrest n e3 hn
        refine ⟨map4, map5, e4, log4, ?_, hp1.trans hp4, le_trans hl1 hl4, ?_⟩
        · simp only [List.getElem?_cons_succ]
          exact hn4
        · rw [show index + (n + 1) = index + 1 + n from by omega]
          exact hrun4

/-- ProcessMapBrushes returns for valid entities; each entity keeps its brushes
that are not origin brushes, and its first origin brush decides its origin
unless it is the world or has an origin property. -/
theorem ProcessMapBrushes_spec (env : qbsp_env K) (opts : qbsp_options_t K) (m : libm K)
    (hfind : env.FindTexinfoGrows) (map : mapdata_t K) (entities : List (mapentity_t K))
    (hv : ∀ e ∈ entities, e.Valid map) :
    ∃ map2 entities2 log,
      ProcessMapBrushes env opts m map entities = some (map2, entities2, log) ∧
      ∀ n e, entities[n]? = some e →
        ∃ e2, entities2[n]? = some e2 ∧
          e2.mapbrushes.map (fun b => (b.line, b.contents)) =
            (e.mapbrushes.filter fun b => !env.contents_is_origin b.contents).map
              (fun b => (b.line, b.contents)) ∧
          (∀ pre ob post, e.mapbrushes = pre ++ ob :: post →
            (∀ b ∈ pre, env.contents_is_origin b.contents = false) →
            env.contents_is_origin ob.contents = true →
            e2.rotation = rotation_t.origin_brush ∧
            ( is_world_entity n = false → epairs_has e.epairs "origin" = false →
              e2.origin = (CalculateBrushBounds env opts map.planes ob).1.bounds.centroid ∧
              e2.epairs = epairs_set e.epairs "origin"
                (env.to_string (CalculateBrushBounds env opts map.planes ob).1.bounds.centroid)) ∧
            (( is_world_entity n = true ∨ epairs_has e.epairs "origin" = true) →
              e2.origin = e.origin ∧ e2.epairs = e.epairs)) := by
  obtain ⟨map2, entities2, log, hrun, hall⟩ :=
    ProcessMapBrushes_entities_spec env opts m hfind entities 0 map hv
  refine ⟨map2, entities2, log, hrun, ?_⟩
  intro n e hn
  obtain ⟨map1, map3, e2, log1, hn2, hp, hl, hrun1⟩ := hall n e hn
  rw [Nat.zero_add] at hrun1
  have hve : e.Valid map := hv e (List.getElem?_mem hn)
  obtain ⟨map4, e4, log4, hrun4, _, _, hkeys, horg⟩ := ProcessMapBrushes_entity_spec env opts m
    (is_world_entity n) hfind map1 e (mapentity_t.Valid_mono hve hp hl)
  rw [hrun1] at hrun4
  simp only [Option.some.injEq, Prod.mk.injEq] at hrun4
  obtain ⟨_, he, _⟩ := hrun4
  subst he
  refine ⟨e2, hn2, hkeys, ?_⟩
  intro pre ob post hsplit hpre hob
  obtain ⟨hrot, hset, hkeep⟩ := horg pre ob post hsplit hpre hob
  refine ⟨hrot, ?_, hkeep⟩
  intro hw hno
  have hobv : ∀ f ∈ ob.faces, f.planenum < map.planes.length ∧
      f.planenum ^^^ 1 < map.planes.length := by
    intro f hf
    exact (hve.2 ob (by rw [hsplit]; simp) f hf).2
  have := hset hw hno
  rw [CalculateBrushBounds_planes_congr env opts map.planes map1.planes hp ob hobv] at this
  exact this

theorem qbsp_env.sample_findTexinfoGrows : (qbsp_env.sample : qbsp_env K).FindTexinfoGrows := by
  intro miptex mtexinfos tx
  unfold qbsp_env.sample
  dsimp only
  split_ifs with h
  · exact ⟨le_refl _, List.indexOf_lt_length.mpr h⟩
  · simp

theorem qbsp_env.sample_cube_findTexinfoGrows :
    (qbsp_env.sample_cube : qbsp_env K).FindTexinfoGrows :=
  qbsp_env.sample_findTexinfoGrows

theorem cube_brush_valid (b : mapbrush_t ℝ) (hb : b.faces = (cube_brush : mapbrush_t ℝ).faces) :
    b.Valid cube_map := by
  intro f hf
  rw [hb] at hf
  simp only [cube_brush, List.mem_cons, List.mem_singleton, List.not_mem_nil, or_false] at hf
  rcases hf with rfl | rfl | rfl | rfl | rfl | rfl <;>
    simp [cube_face, cube_map, cube_planes, mapface_t.default]

end process_lemmas

/-! ## Decoding Quake-Ed texture definitions -/

section quaked_decode_lemmas
variable {K : Type} [LinearOrderedField K]
set_option maxHeartbeats 1000000

/-! ### Decoding Quake-Ed texture definitions -/

/-- The 4x4 system of TexDef_BSPToQuakeEd: for two independent vectors u and v
the inverse matrix recovers the entries of the 2x2 matrix from the images of u
and v. -/
theorem TexDef_BSPToQuakeEd_solve (u v : qvec2 K) (a b c d : K)
    (hD : u.x * v.y - u.y * v.x ≠ 0) :
    (qmat4x4.cols u.x 0 v.x 0 u.y 0 v.y 0 0 u.x 0 v.x 0 u.y 0 v.y).inverse.mulVec
      ⟨a * u.x + b * u.y, c * u.x + d * u.y, a * v.x + b * v.y, c * v.x + d * v.y⟩ =
      ⟨a, b, c, d⟩ := by
  have hdet : (qmat4x4.cols u.x 0 v.x 0 u.y 0 v.y 0 0 u.x 0 v.x 0 u.y 0 v.y).det =
      -((u.x * v.y - u.y * v.x) * (u.x * v.y - u.y * v.x)) := by
    simp only [qmat4x4.det, qmat4x4.cols, det3]
    ring
  have hne : (qmat4x4.cols u.x 0 v.x 0 u.y 0 v.y 0 0 u.x 0 v.x 0 u.y 0 v.y).det ≠ 0 := by
    rw [hdet]
    exact neg_ne_zero.mpr (mul_ne_zero hD hD)
  unfold qmat4x4.inverse qmat4x4.mulVec
  simp only [hdet]
  simp only [qmat4x4.cols, det3, qvec4.mk.injEq]
  have hD2 : -((u.x * v.y - u.y * v.x) * (u.x * v.y - u.y * v.x)) ≠ 0 := by
    rw [← hdet]
    exact hne
  refine ⟨?_, ?_, ?_, ?_⟩ <;>
  · field_simp
    ring

/-- The data that the codec derives from the base axes of a plane: the S axis
projects to (1, 0) and the T axis to (0, -1), the two texture components are
two different coordinates, and the snapped normal is the base normal. -/
theorem TextureAxisFromPlane_axes (oldaxis : Bool) (plane : qplane3 K)
    (hk : (TextureAxisFromPlane_best oldaxis plane.normal).2 < 6) :
    (getSTAxes (TextureAxisFromPlane oldaxis plane).2.2 = (1, 2) ∨
      getSTAxes (TextureAxisFromPlane oldaxis plane).2.2 = (0, 2) ∨
      getSTAxes (TextureAxisFromPlane oldaxis plane).2.2 = (0, 1)) ∧
    projectToAxisPlane (TextureAxisFromPlane oldaxis plane).2.2
      (TextureAxisFromPlane oldaxis plane).1 = ⟨1, 0⟩ ∧
    projectToAxisPlane (TextureAxisFromPlane oldaxis plane).2.2
      (TextureAxisFromPlane oldaxis plane).2.1 = ⟨0, -1⟩ := by
  unfold TextureAxisFromPlane
  generalize (TextureAxisFromPlane_best oldaxis plane.normal).2 = k at hk
  interval_cases k <;>
    simp [baseaxis_at, baseaxis, getSTAxes, projectToAxisPlane, qvec3.get]

/-- The legacy encoder writes the matrix scale * rotation * flips into the
components given by getSTAxes. -/
theorem SetTexinfo_QuakeEd_eq_copy (opts : qbsp_options_t K) (m : libm K) (plane : qplane3 K)
    (pts : planepts_t K) (shift : qvec2 K) (rotate : K) (scale : qvec2 K)
    (hk : (TextureAxisFromPlane_best opts.oldaxis plane.normal).2 < 6)
    (hx : scale.x ≠ 0) (hy : scale.y ≠ 0) :
    SetTexinfo_QuakeEd opts m plane pts shift rotate scale =
      SetTexinfo_QuakeEd_New_copy (getSTAxes (TextureAxisFromPlane opts.oldaxis plane).2.2)
        ⟨m.cos (rotate / 180 * m.pi) / scale.x, m.sin (rotate / 180 * m.pi) / scale.x,
         m.sin (rotate / 180 * m.pi) / scale.y, -m.cos (rotate / 180 * m.pi) / scale.y⟩ shift := by
  unfold SetTexinfo_QuakeEd SetTexinfo_QuakeEd_New_copy TextureAxisFromPlane
  generalize (TextureAxisFromPlane_best opts.oldaxis plane.normal).2 = k at hk
  interval_cases k <;>
    simp [baseaxis_at, baseaxis, getSTAxes, SetTexinfo_QuakeEd_rotate, qvec3.get, qvec3.set,
      qvec3.zero, hx, hy, neg_div]

/-- In exact arithmetic a float vector is the vector itself. -/
theorem qvec2_to_float_exact {m : libm K} (hfl : m.FloatExact) (v : qvec2 K) :
    v.to_float m = v := by
  unfold qvec2.to_float
  rw [hfl, hfl]

theorem qvec4_to_float_exact {m : libm K} (hfl : m.FloatExact) (v : qvec4 K) :
    v.to_float m = v := by
  unfold qvec4.to_float
  rw [hfl, hfl, hfl, hfl]

theorem qmat2x2_to_float_exact {m : libm K} (hfl : m.FloatExact) (a : qmat2x2 K) :
    a.to_float m = a := by
  unfold qmat2x2.to_float
  rw [hfl, hfl, hfl, hfl]

theorem qmat4x4_to_float_exact {m : libm K} (hfl : m.FloatExact) (a : qmat4x4 K) :
    a.to_float m = a := by
  have h : ∀ x, m.to_float x = x := hfl
  unfold qmat4x4.to_float
  simp only [h]

/-- In exact arithmetic rotation2x2_deg is the rotation matrix of the angle. -/
theorem rotation2x2_deg_exact {m : libm K} (hfl : m.FloatExact) (degrees : K) :
    rotation2x2_deg m degrees =
      qmat2x2.cols (m.cos (degrees * (m.pi / 180))) (m.sin (degrees * (m.pi / 180)))
        (-m.sin (degrees * (m.pi / 180))) (m.cos (degrees * (m.pi / 180))) := by
  unfold rotation2x2_deg
  dsimp only
  rw [hfl, hfl, hfl, hfl]

theorem scale2x2_exact {m : libm K} (hfl : m.FloatExact) (x y : K) :
    scale2x2 m x y = qmat2x2.cols x 0 0 y := by
  unfold scale2x2
  rw [hfl, hfl]

theorem extractRotation_exact {m : libm K} (hfl : m.FloatExact) (mat : qmat2x2 K) :
    extractRotation m mat =
      m.atan2 (mat.mulVec ⟨1, 0⟩).y (mat.mulVec ⟨1, 0⟩).x * 180 / m.pi := by
  unfold extractRotation
  dsimp only
  rw [qvec2_to_float_exact hfl, hfl]

/-- The texture coordinates that copied vectors give a point: the matrix
applied to the projection of the point, plus the shift. -/
theorem texcoords_at_copy (m : libm K) (hfl : m.FloatExact) (plane : qplane3 K) (axes : Nat × Nat) (M : qmat2x2 K)
    (shift : qvec2 K) (p : qvec3 K)
    (hax : axes = (1, 2) ∨ axes = (0, 2) ∨ axes = (0, 1)) :
    texcoords_at m (texVecsTo4x4Matrix m plane (SetTexinfo_QuakeEd_New_copy axes M shift)) p =
      ⟨(M.mulVec ⟨p.get axes.1, p.get axes.2⟩).x + shift.x,
       (M.mulVec ⟨p.get axes.1, p.get axes.2⟩).y + shift.y⟩ := by
  have hfl2 : ∀ x, m.to_float x = x := hfl
  rcases hax with h | h | h <;>
  · rw [h]
    simp only [hfl2, texcoords_at, texVecsTo4x4Matrix, SetTexinfo_QuakeEd_New_copy, qmat4x4.cols,
      qmat4x4.mulVec, qmat2x2.mulVec, qvec3.get, qvec3.set, qvec3.zero, qvec2.mk.injEq]
    constructor <;> ring

/-- Three points of a plane that are not collinear are not collinear after the
projection along the base normal of the plane. -/
theorem projectToAxisPlane_independent (oldaxis : Bool) (plane : qplane3 K)
    (hn : qv.dot plane.normal plane.normal = 1) (u v : qvec3 K)
    (hu : qv.dot plane.normal u = 0) (hv : qv.dot plane.normal v = 0)
    (hc : qv.cross u v ≠ qvec3.zero) :
    (projectToAxisPlane (TextureAxisFromPlane oldaxis plane).2.2 u).x *
      (projectToAxisPlane (TextureAxisFromPlane oldaxis plane).2.2 v).y -
    (projectToAxisPlane (TextureAxisFromPlane oldaxis plane).2.2 u).y *
      (projectToAxisPlane (TextureAxisFromPlane oldaxis plane).2.2 v).x ≠ 0 := by
  obtain ⟨⟨nx, ny, nz⟩, dist⟩ := plane
  obtain ⟨hk, hb, hpos, _⟩ := TextureAxisFromPlane_best_unit oldaxis (qvec3.mk nx ny nz) hn
  obtain ⟨d0, d1, d2, d3, d4, d5⟩ := baseaxis_dot (qvec3.mk nx ny nz)
  obtain ⟨ux, uy, uz⟩ := u
  obtain ⟨vx, vy, vz⟩ := v
  simp only [qv.dot] at hn hu hv
  -- the cross product is a multiple of the normal
  have wx : uy * vz - uz * vy = (nx * (uy * vz - uz * vy) + ny * (uz * vx - ux * vz) +
      nz * (ux * vy - uy * vx)) * nx := by
    linear_combination (-(uy * vz - uz * vy)) * hn - (ny * uz - nz * uy) * hv +
      (ny * vz - nz * vy) * hu
  have wy : uz * vx - ux * vz = (nx * (uy * vz - uz * vy) + ny * (uz * vx - ux * vz) +
      nz * (ux * vy - uy * vx)) * ny := by
    linear_combination (-(uz * vx - ux * vz)) * hn - (nz * ux - nx * uz) * hv +
      (nz * vx - nx * vz) * hu
  have wz : ux * vy - uy * vx = (nx * (uy * vz - uz * vy) + ny * (uz * vx - ux * vz) +
      nz * (ux * vy - uy * vx)) * nz := by
    linear_combination (-(ux * vy - uy * vx)) * hn - (nx * uy - ny * ux) * hv +
      (nx * vy - ny * vx) * hu
  have hl : nx * (uy * vz - uz * vy) + ny * (uz * vx - ux * vz) +
      nz * (ux * vy - uy * vx) ≠ 0 := by
    intro h0
    apply hc
    rw [h0, zero_mul] at wx wy wz
    simp only [qv.cross, qvec3.zero, qvec3.mk.injEq]
    exact ⟨wx, wy, wz⟩
  unfold TextureAxisFromPlane
  generalize hkk : (TextureAxisFromPlane_best oldaxis (qvec3.mk nx ny nz)).2 = k at hk hb
  generalize (TextureAxisFromPlane_best oldaxis (qvec3.mk nx ny nz)).1 = best at hb hpos
  interval_cases k
  · rw [d0] at hb
    dsimp only at hb
    simp [baseaxis_at, baseaxis, getSTAxes, projectToAxisPlane, qvec3.get]
    rw [wz]
    exact mul_ne_zero hl (by intro h; rw [h] at hb; linarith)
  · rw [d1] at hb
    dsimp only at hb
    simp [baseaxis_at, baseaxis, getSTAxes, projectToAxisPlane, qvec3.get]
    rw [wz]
    exact mul_ne_zero hl (by intro h; rw [h, neg_zero] at hb; linarith)
  · rw [d2] at hb
    dsimp only at hb
    simp [baseaxis_at, baseaxis, getSTAxes, projectToAxisPlane, qvec3.get]
    rw [wx]
    exact mul_ne_zero hl (by intro h; rw [h] at hb; linarith)
  · rw [d3] at hb
    dsimp only at hb
    simp [baseaxis_at, baseaxis, getSTAxes, projectToAxisPlane, qvec3.get]
    rw [wx]
    exact mul_ne_zero hl (by intro h; rw [h, neg_zero] at hb; linarith)
  · rw [d4] at hb
    dsimp only at hb
    simp [baseaxis_at, baseaxis, getSTAxes, projectToAxisPlane, qvec3.get]
    intro h
    have : uz * vx - ux * vz = 0 := by linear_combination -h
    rw [wy] at this
    exact absurd this (mul_ne_zero hl (by intro h; rw [h] at hb; linarith))
  · rw [d5] at hb
    dsimp only at hb
    simp [baseaxis_at, baseaxis, getSTAxes, projectToAxisPlane, qvec3.get]
    intro h
    have : uz * vx - ux * vz = 0 := by linear_combination -h
    rw [wy] at this
    exact absurd this (mul_ne_zero hl (by intro h; rw [h, neg_zero] at hb; linarith))

theorem qv2.dot_normalize_zero (m : libm K) (a b : qvec2 K) (h : qv2.dot a b = 0) :
    qv2.dot (qv2.normalize m a) (qv2.normalize m b) = 0 := by
  unfold qv2.dot at h
  unfold qv2.normalize qv2.dot
  dsimp only
  split_ifs
  · exact h
  · dsimp only
    rw [mul_div_assoc', mul_div_assoc', ← add_div, h, zero_div]
  · dsimp only
    rw [div_mul_eq_mul_div, div_mul_eq_mul_div, ← add_div, h, zero_div]
  · dsimp only
    rw [div_mul_div_comm, div_mul_div_comm, ← add_div, h, zero_div]

/-- A matrix with orthogonal rows passes the shear check of Reverse_QuakeEd
unchanged. -/
theorem Reverse_QuakeEd_shear_none (env : qbsp_env K) (m : libm K) (M : qmat2x2 K)
    (preserveX : Bool) (h : M.m00 * M.m10 + M.m01 * M.m11 = 0) :
    Reverse_QuakeEd_shear env m M preserveX = some M := by
  have h0 : qv2.dot (M.row 0) (M.row 1) = 0 := by
    simp only [qmat2x2.row, qv2.dot, if_true, if_false, one_ne_zero]
    exact h
  unfold Reverse_QuakeEd_shear
  dsimp only
  rw [qv2.dot_normalize_zero m _ _ h0, abs_zero, if_neg (by norm_num)]

theorem sign_mul_self {x : K} (h : x = 1 ∨ x = -1) : x * x = 1 := by
  rcases h with rfl | rfl <;> norm_num

theorem sign_abs {x : K} (h : x = 1 ∨ x = -1) : |x| = 1 := by
  rcases h with rfl | rfl <;> simp

theorem qmat2x2.inverse_diag (a b : K) (ha : a ≠ 0) (hb : b ≠ 0) :
    (qmat2x2.cols a 0 0 b).inverse = (⟨1 / a, 0, 0, 1 / b⟩ : qmat2x2 K) := by
  simp only [qmat2x2.inverse, qmat2x2.cols, qmat2x2.mk.injEq]
  refine ⟨?_, ?_, ?_, ?_⟩
  · field_simp
    ring
  · field_simp
  · field_simp
  · field_simp

/-- One sign guess of Reverse_QuakeEd on the matrix of a texture definition with
scale (σx ax, σy ay): the guess (xs, ys) is accepted if it differs from the
signs of the scale in both components or in none, and otherwise exactly if the
scales are so large that the matrices differ by less than the tolerance. -/
theorem Reverse_QuakeEd_guess_eval (m : libm K) (ht : m.TrigExact) (hfl : m.FloatExact) (c s : K)
    (hcs : s * s + c * c = 1) (ax ay : K) (hax : 0 < ax) (hay : 0 < ay) (σx σy xs ys : K)
    (hσx : σx = 1 ∨ σx = -1) (hσy : σy = 1 ∨ σy = -1)
    (hxs : xs = 1 ∨ xs = -1) (hys : ys = 1 ∨ ys = -1) :
    Reverse_QuakeEd_guess m ⟨σx * c / ax, σx * s / ax, σy * s / ay, -(σy * c) / ay⟩
      (qmat2x2.cols (1 / ax) 0 0 (1 / ay))
      (((qmat2x2.cols (1 / ax) 0 0 (1 / ay)).inverse.mul
        ⟨σx * c / ax, σx * s / ax, σy * s / ay, -(σy * c) / ay⟩).mul
        (qmat2x2.cols 1 0 0 (-1)).inverse)
      (qmat2x2.cols 1 0 0 (-1)) (1 / ax) (1 / ay) (xs, ys) =
    if xs * σx = ys * σy ∨ (2 * |s| < ax / 1000 ∧ 2 * |c| < ay / 1000) then
      some { rotate := m.atan2 (ys * σy * s) (xs * σx * c) * 180 / m.pi,
             scale := ⟨xs * ax, ys * ay⟩ }
    else none := by
  obtain ⟨hpi, _, _, hat, _⟩ := ht
  have hax0 : ax ≠ 0 := ne_of_gt hax
  have hay0 : ay ≠ 0 := ne_of_gt hay
  have hσx2 := sign_mul_self hσx
  have hσy2 := sign_mul_self hσy
  have hxs2 := sign_mul_self hxs
  have hys2 := sign_mul_self hys
  have hxs0 : xs ≠ 0 := by rintro rfl; simp at hxs2
  have hys0 : ys ≠ 0 := by rintro rfl; simp at hys2
  have hinvA : (qmat2x2.cols (1 / ax) 0 0 (1 / ay)).inverse = (⟨ax, 0, 0, ay⟩ : qmat2x2 K) := by
    rw [qmat2x2.inverse_diag _ _ (one_div_ne_zero hax0) (one_div_ne_zero hay0)]
    simp
  have hinvF : (qmat2x2.cols 1 0 0 (-1)).inverse = (⟨1, 0, 0, -1⟩ : qmat2x2 K) := by
    rw [qmat2x2.inverse_diag _ _ one_ne_zero (by norm_num)]
    norm_num
  have hinvG : (qmat2x2.cols xs 0 0 ys).inverse = (⟨xs, 0, 0, ys⟩ : qmat2x2 K) := by
    rw [qmat2x2.inverse_diag _ _ hxs0 hys0]
    simp only [qmat2x2.mk.injEq, true_and]
    constructor
    · field_simp
      linear_combination -hxs2
    · field_simp
      linear_combination -hys2
  have hfr : ((qmat2x2.cols (1 / ax) 0 0 (1 / ay)).inverse.mul
        ⟨σx * c / ax, σx * s / ax, σy * s / ay, -(σy * c) / ay⟩).mul
        (qmat2x2.cols 1 0 0 (-1)).inverse =
      (⟨σx * c, -(σx * s), σy * s, σy * c⟩ : qmat2x2 K) := by
    rw [hinvA, hinvF]
    simp only [qmat2x2.mul, qmat2x2.mk.injEq]
    refine ⟨?_, ?_, ?_, ?_⟩ <;> field_simp
  have hpoint : (((qmat2x2.cols xs 0 0 ys).inverse.mul
      (((qmat2x2.cols (1 / ax) 0 0 (1 / ay)).inverse.mul
        ⟨σx * c / ax, σx * s / ax, σy * s / ay, -(σy * c) / ay⟩).mul
        (qmat2x2.cols 1 0 0 (-1)).inverse)).mulVec ⟨1, 0⟩ : qvec2 K) =
      ⟨xs * σx * c, ys * σy * s⟩ := by
    rw [hfr, hinvG]
    simp only [qmat2x2.mulVec, qmat2x2.mul, qvec2.mk.injEq]
    constructor <;> ring
  have hcirc : (xs * σx * c) * (xs * σx * c) + (ys * σy * s) * (ys * σy * s) = 1 := by
    have e1 : (xs * σx * c) * (xs * σx * c) = (xs * xs) * (σx * σx) * (c * c) := by ring
    have e2 : (ys * σy * s) * (ys * σy * s) = (ys * ys) * (σy * σy) * (s * s) := by ring
    rw [e1, e2, hxs2, hσx2, hys2, hσy2]
    linear_combination hcs
  obtain ⟨hcos, hsin⟩ := hat _ _ hcirc
  have hang : m.atan2 (ys * σy * s) (xs * σx * c) * 180 / m.pi * (m.pi / 180) =
      m.atan2 (ys * σy * s) (xs * σx * c) := by
    field_simp
  have hMg : (((qmat2x2.cols xs 0 0 ys).mul (qmat2x2.cols (1 / ax) 0 0 (1 / ay))).mul
      (qmat2x2.cols (xs * σx * c) (ys * σy * s) (-(ys * σy * s)) (xs * σx * c))).mul
      (qmat2x2.cols 1 0 0 (-1)) =
      (⟨σx * c / ax, xs * ys * σy * s / ax, σy * s / ay, -(xs * ys * σx * c) / ay⟩ :
        qmat2x2 K) := by
    simp only [qmat2x2.mul, qmat2x2.cols, qmat2x2.mk.injEq]
    refine ⟨?_, ?_, ?_, ?_⟩
    · linear_combination (σx * c / ax) * hxs2
    · ring
    · linear_combination (σy * s / ay) * hys2
    · ring
  unfold Reverse_QuakeEd_guess
  dsimp only
  simp only [qmat2x2_to_float_exact hfl, extractRotation_exact hfl, rotation2x2_deg_exact hfl]
  rw [hpoint]
  dsimp only
  rw [hang, hcos, hsin, hMg]
  dsimp only
  by_cases hab : xs * σx = ys * σy
  · rw [if_pos (Or.inl hab)]
    have e1 : xs * ys * σy = σx := by
      rcases hσx with rfl | rfl <;> rcases hσy with rfl | rfl <;>
        rcases hxs with rfl | rfl <;> rcases hys with rfl | rfl <;> norm_num at hab ⊢
    have e2 : xs * ys * σx = σy := by
      rcases hσx with rfl | rfl <;> rcases hσy with rfl | rfl <;>
        rcases hxs with rfl | rfl <;> rcases hys with rfl | rfl <;> norm_num at hab ⊢
    rw [e1, e2]
    rw [if_pos (by simp)]
    simp only [div_div_eq_mul_div, div_one]
  · have e1 : xs * ys * σy = -σx := by
      rcases hσx with rfl | rfl <;> rcases hσy with rfl | rfl <;>
        rcases hxs with rfl | rfl <;> rcases hys with rfl | rfl <;> norm_num at hab ⊢
    have e2 : xs * ys * σx = -σy := by
      rcases hσx with rfl | rfl <;> rcases hσy with rfl | rfl <;>
        rcases hxs with rfl | rfl <;> rcases hys with rfl | rfl <;> norm_num at hab ⊢
    rw [e1, e2]
    have e3 : σx * s / ax - -σx * s / ax = σx * (2 * s) / ax := by ring
    have e4 : -(σy * c) / ay - -(-σy * c) / ay = -(σy * (2 * c)) / ay := by ring
    have a3 : |σx * s / ax - -σx * s / ax| < 1 / 1000 ↔ 2 * |s| < ax / 1000 := by
      rw [e3, abs_div, abs_of_pos hax, div_lt_iff₀ hax, abs_mul, sign_abs hσx, abs_mul, abs_two,
        one_mul]
      constructor <;> intro h <;> linarith
    have a4 : |-(σy * c) / ay - -(-σy * c) / ay| < 1 / 1000 ↔ 2 * |c| < ay / 1000 := by
      rw [e4, abs_div, abs_of_pos hay, div_lt_iff₀ hay, abs_neg, abs_mul, sign_abs hσy, abs_mul,
        abs_two, one_mul]
      constructor <;> intro h <;> linarith
    have h0 : (0 : K) < 1 / 1000 := by norm_num
    by_cases hsm : 2 * |s| < ax / 1000 ∧ 2 * |c| < ay / 1000
    · rw [if_pos (Or.inr hsm), if_pos ⟨by rw [sub_self, abs_zero]; exact h0,
        by rw [sub_self, abs_zero]; exact h0, a3.mpr hsm.1, a4.mpr hsm.2⟩]
      simp only [div_div_eq_mul_div, div_one]
    · have hR : ¬ (xs * σx = ys * σy ∨ (2 * |s| < ax / 1000 ∧ 2 * |c| < ay / 1000)) := by
        rintro (h | h)
        · exact hab h
        · exact hsm h
      rw [if_neg hR, if_neg]
      rintro ⟨_, _, h3, h4⟩
      exact hsm ⟨a3.mp h3, a4.mp h4⟩

/-- One sign guess of Reverse_QuakeEd on the matrix of a texture definition with
scale (σx ax, σy ay), where ax and ay are at most 1000: the guess (xs, ys) is
accepted exactly if it differs from the signs of the scale in both components or
in none. -/
theorem Reverse_QuakeEd_guess_spec (m : libm K) (ht : m.TrigExact) (hfl : m.FloatExact) (c s : K)
    (hcs : s * s + c * c = 1) (ax ay : K) (hax : 0 < ax) (hay : 0 < ay)
    (hbx : ax ≤ 1000) (hby : ay ≤ 1000) (σx σy xs ys : K)
    (hσx : σx = 1 ∨ σx = -1) (hσy : σy = 1 ∨ σy = -1)
    (hxs : xs = 1 ∨ xs = -1) (hys : ys = 1 ∨ ys = -1) :
    Reverse_QuakeEd_guess m ⟨σx * c / ax, σx * s / ax, σy * s / ay, -(σy * c) / ay⟩
      (qmat2x2.cols (1 / ax) 0 0 (1 / ay))
      (((qmat2x2.cols (1 / ax) 0 0 (1 / ay)).inverse.mul
        ⟨σx * c / ax, σx * s / ax, σy * s / ay, -(σy * c) / ay⟩).mul
        (qmat2x2.cols 1 0 0 (-1)).inverse)
      (qmat2x2.cols 1 0 0 (-1)) (1 / ax) (1 / ay) (xs, ys) =
    if xs * σx = ys * σy then
      some { rotate := m.atan2 (ys * σy * s) (xs * σx * c) * 180 / m.pi,
             scale := ⟨xs * ax, ys * ay⟩ }
    else none := by
  rw [Reverse_QuakeEd_guess_eval m ht hfl c s hcs ax ay hax hay σx σy xs ys hσx hσy hxs hys]
  have hno : ¬ (2 * |s| < ax / 1000 ∧ 2 * |c| < ay / 1000) := by
    rintro ⟨h3, h4⟩
    have h3b : |s| < 1 / 2 := by linarith
    have h4b : |c| < 1 / 2 := by linarith
    have hs2 : s * s < 1 / 4 := by
      have := abs_nonneg s
      calc s * s = |s| * |s| := (abs_mul_abs_self s).symm
        _ < 1 / 4 := by nlinarith
    have hc2 : c * c < 1 / 4 := by
      have := abs_nonneg c
      calc c * c = |c| * |c| := (abs_mul_abs_self c).symm
        _ < 1 / 4 := by nlinarith
    linarith
  simp only [hno, or_false]

/-- Reverse_QuakeEd on the matrix of a texture definition with rotation matrix
entries c, s and scale (σx ax, σy ay), ax and ay at most 1000: the first sign
guess that is accepted negates the x scale. -/
theorem Reverse_QuakeEd_spec (env : qbsp_env K) (opts : qbsp_options_t K) (m : libm K)
    (hm : m.SqrtExact) (ht : m.TrigExact) (hfl : m.FloatExact) (plane : qplane3 K)
    (hk : (TextureAxisFromPlane_best opts.oldaxis plane.normal).2 < 6) (c s : K)
    (hcs : s * s + c * c = 1) (ax ay : K) (hax : 0 < ax) (hay : 0 < ay)
    (hbx : ax ≤ 1000) (hby : ay ≤ 1000) (σx σy : K)
    (hσx : σx = 1 ∨ σx = -1) (hσy : σy = 1 ∨ σy = -1) :
    Reverse_QuakeEd env opts m ⟨σx * c / ax, σx * s / ax, σy * s / ay, -(σy * c) / ay⟩ plane
      false =
    some { rotate := m.atan2 (-σx * s) (-σx * c) * 180 / m.pi,
           scale := ⟨-ax, -(σx * σy) * ay⟩ } := by
  have hσx2 := sign_mul_self hσx
  have hσy2 := sign_mul_self hσy
  have hax0 : ax ≠ 0 := ne_of_gt hax
  have hay0 : ay ≠ 0 := ne_of_gt hay
  obtain ⟨_, hs, ht2⟩ := TextureAxisFromPlane_axes opts.oldaxis plane hk
  have habsX : m.sqrt ((σx * c / ax) ^ 2 + (σx * s / ax) ^ 2) = 1 / ax := by
    apply libm.sqrt_eq hm (le_of_lt (one_div_pos.mpr hax))
    field_simp
    linear_combination (-(ax ^ 2) * (s * s + c * c)) * hσx2 - (ax ^ 2) * hcs
  have habsY : m.sqrt ((σy * s / ay) ^ 2 + (-(σy * c) / ay) ^ 2) = 1 / ay := by
    apply libm.sqrt_eq hm (le_of_lt (one_div_pos.mpr hay))
    field_simp
    linear_combination (-(ay ^ 2) * (s * s + c * c)) * hσy2 - (ay ^ 2) * hcs
  have hshear := Reverse_QuakeEd_shear_none env m
    ⟨σx * c / ax, σx * s / ax, σy * s / ay, -(σy * c) / ay⟩ false (by
      dsimp only
      field_simp
      ring)
  have g1 := Reverse_QuakeEd_guess_spec m ht hfl c s hcs ax ay hax hay hbx hby σx σy (-1) (-1)
    hσx hσy (Or.inr rfl) (Or.inr rfl)
  have g2 := Reverse_QuakeEd_guess_spec m ht hfl c s hcs ax ay hax hay hbx hby σx σy (-1) 1
    hσx hσy (Or.inr rfl) (Or.inl rfl)
  have hfl2 : ∀ x, m.to_float x = x := hfl
  unfold Reverse_QuakeEd
  rw [hshear]
  dsimp only
  simp only [hfl2, qvec2_to_float_exact hfl, qmat2x2_to_float_exact hfl]
  rw [habsX, habsY, hs, ht2]
  dsimp only
  rw [List.findSome?, g1]
  rcases hσx with rfl | rfl <;> rcases hσy with rfl | rfl
  · rw [if_pos (by norm_num)]
    dsimp only
    norm_num
  · rw [if_neg (by norm_num)]
    dsimp only
    rw [List.findSome?, g2, if_pos (by norm_num)]
    dsimp only
    norm_num
  · rw [if_neg (by norm_num)]
    dsimp only
    rw [List.findSome?, g2, if_pos (by norm_num)]
    dsimp only
    norm_num
  · rw [if_pos (by norm_num)]
    dsimp only
    norm_num

/-- Reverse_QuakeEd returns the first sign guess, (-1, -1), whenever that guess
is accepted: if the two scales have the same sign, or if the scales are so
large that the matrices differ by less than the tolerance. -/
theorem Reverse_QuakeEd_first (env : qbsp_env K) (opts : qbsp_options_t K) (m : libm K)
    (hm : m.SqrtExact) (ht : m.TrigExact) (hfl : m.FloatExact) (plane : qplane3 K)
    (hk : (TextureAxisFromPlane_best opts.oldaxis plane.normal).2 < 6) (c s : K)
    (hcs : s * s + c * c = 1) (ax ay : K) (hax : 0 < ax) (hay : 0 < ay) (σx σy : K)
    (hσx : σx = 1 ∨ σx = -1) (hσy : σy = 1 ∨ σy = -1)
    (hacc : -1 * σx = -1 * σy ∨ (2 * |s| < ax / 1000 ∧ 2 * |c| < ay / 1000)) :
    Reverse_QuakeEd env opts m ⟨σx * c / ax, σx * s / ax, σy * s / ay, -(σy * c) / ay⟩ plane
      false =
    some { rotate := m.atan2 (-1 * σy * s) (-1 * σx * c) * 180 / m.pi,
           scale := ⟨-1 * ax, -1 * ay⟩ } := by
  have hσx2 := sign_mul_self hσx
  have hσy2 := sign_mul_self hσy
  have hax0 : ax ≠ 0 := ne_of_gt hax
  have hay0 : ay ≠ 0 := ne_of_gt hay
  obtain ⟨_, hs, ht2⟩ := TextureAxisFromPlane_axes opts.oldaxis plane hk
  have habsX : m.sqrt ((σx * c / ax) ^ 2 + (σx * s / ax) ^ 2) = 1 / ax := by
    apply libm.sqrt_eq hm (le_of_lt (one_div_pos.mpr hax))
    field_simp
    linear_combination (-(ax ^ 2) * (s * s + c * c)) * hσx2 - (ax ^ 2) * hcs
  have habsY : m.sqrt ((σy * s / ay) ^ 2 + (-(σy * c) / ay) ^ 2) = 1 / ay := by
    apply libm.sqrt_eq hm (le_of_lt (one_div_pos.mpr hay))
    field_simp
    linear_combination (-(ay ^ 2) * (s * s + c * c)) * hσy2 - (ay ^ 2) * hcs
  have hshear := Reverse_QuakeEd_shear_none env m
    ⟨σx * c / ax, σx * s / ax, σy * s / ay, -(σy * c) / ay⟩ false (by
      dsimp only
      field_simp
      ring)
  have g1 := Reverse_QuakeEd_guess_eval m ht hfl c s hcs ax ay hax hay σx σy (-1) (-1)
    hσx hσy (Or.inr rfl) (Or.inr rfl)
  have hfl2 : ∀ x, m.to_float x = x := hfl
  unfold Reverse_QuakeEd
  rw [hshear]
  dsimp only
  simp only [hfl2, qvec2_to_float_exact hfl, qmat2x2_to_float_exact hfl]
  rw [habsX, habsY, hs, ht2]
  dsimp only
  rw [List.findSome?, g1, if_pos hacc]

/-- On vectors copied from a matrix, the first part of TexDef_BSPToQuakeEd
recovers the matrix, if the projections of the reference points are not
collinear. -/
theorem TexDef_BSPToQuakeEd_matrix_copy (m : libm K) (hfl : m.FloatExact) (plane : qplane3 K) (snapped_normal : qvec3 K)
    (M : qmat2x2 K) (shift : qvec2 K) (pts : planepts_t K)
    (hax : getSTAxes snapped_normal = (1, 2) ∨ getSTAxes snapped_normal = (0, 2) ∨
      getSTAxes snapped_normal = (0, 1))
    (hD : ((projectToAxisPlane snapped_normal pts.p1).sub
          (projectToAxisPlane snapped_normal pts.p0)).x *
        ((projectToAxisPlane snapped_normal pts.p2).sub
          (projectToAxisPlane snapped_normal pts.p0)).y -
      ((projectToAxisPlane snapped_normal pts.p1).sub
          (projectToAxisPlane snapped_normal pts.p0)).y *
        ((projectToAxisPlane snapped_normal pts.p2).sub
          (projectToAxisPlane snapped_normal pts.p0)).x ≠ 0) :
    TexDef_BSPToQuakeEd_matrix m snapped_normal
      (texVecsTo4x4Matrix m plane (SetTexinfo_QuakeEd_New_copy (getSTAxes snapped_normal) M shift))
      pts = M := by
  unfold TexDef_BSPToQuakeEd_matrix
  dsimp only
  simp only [qvec2_to_float_exact hfl, qvec4_to_float_exact hfl, qmat4x4_to_float_exact hfl]
  rw [texcoords_at_copy m hfl plane _ M shift pts.p0 hax,
    texcoords_at_copy m hfl plane _ M shift pts.p1 hax,
    texcoords_at_copy m hfl plane _ M shift pts.p2 hax]
  have hproj : ∀ p : qvec3 K, (⟨p.get (getSTAxes snapped_normal).1,
      p.get (getSTAxes snapped_normal).2⟩ : qvec2 K) = projectToAxisPlane snapped_normal p :=
    fun p => rfl
  simp only [hproj]
  have hv : (⟨((⟨(M.mulVec (projectToAxisPlane snapped_normal pts.p1)).x + shift.x,
        (M.mulVec (projectToAxisPlane snapped_normal pts.p1)).y + shift.y⟩ : qvec2 K).sub
        ⟨(M.mulVec (projectToAxisPlane snapped_normal pts.p0)).x + shift.x,
          (M.mulVec (projectToAxisPlane snapped_normal pts.p0)).y + shift.y⟩).x,
      ((⟨(M.mulVec (projectToAxisPlane snapped_normal pts.p1)).x + shift.x,
        (M.mulVec (projectToAxisPlane snapped_normal pts.p1)).y + shift.y⟩ : qvec2 K).sub
        ⟨(M.mulVec (projectToAxisPlane snapped_normal pts.p0)).x + shift.x,
          (M.mulVec (projectToAxisPlane snapped_normal pts.p0)).y + shift.y⟩).y,
      ((⟨(M.mulVec (projectToAxisPlane snapped_normal pts.p2)).x + shift.x,
        (M.mulVec (projectToAxisPlane snapped_normal pts.p2)).y + shift.y⟩ : qvec2 K).sub
        ⟨(M.mulVec (projectToAxisPlane snapped_normal pts.p0)).x + shift.x,
          (M.mulVec (projectToAxisPlane snapped_normal pts.p0)).y + shift.y⟩).x,
      ((⟨(M.mulVec (projectToAxisPlane snapped_normal pts.p2)).x + shift.x,
        (M.mulVec (projectToAxisPlane snapped_normal pts.p2)).y + shift.y⟩ : qvec2 K).sub
        ⟨(M.mulVec (projectToAxisPlane snapped_normal pts.p0)).x + shift.x,
          (M.mulVec (projectToAxisPlane snapped_normal pts.p0)).y + shift.y⟩).y⟩ : qvec4 K) =
      ⟨M.m00 * ((projectToAxisPlane snapped_normal pts.p1).sub
            (projectToAxisPlane snapped_normal pts.p0)).x +
          M.m01 * ((projectToAxisPlane snapped_normal pts.p1).sub
            (projectToAxisPlane snapped_normal pts.p0)).y,
        M.m10 * ((projectToAxisPlane snapped_normal pts.p1).sub
            (projectToAxisPlane snapped_normal pts.p0)).x +
          M.m11 * ((projectToAxisPlane snapped_normal pts.p1).sub
            (projectToAxisPlane snapped_normal pts.p0)).y,
        M.m00 * ((projectToAxisPlane snapped_normal pts.p2).sub
            (projectToAxisPlane snapped_normal pts.p0)).x +
          M.m01 * ((projectToAxisPlane snapped_normal pts.p2).sub
            (projectToAxisPlane snapped_normal pts.p0)).y,
        M.m10 * ((projectToAxisPlane snapped_normal pts.p2).sub
            (projectToAxisPlane snapped_normal pts.p0)).x +
          M.m11 * ((projectToAxisPlane snapped_normal pts.p2).sub
            (projectToAxisPlane snapped_normal pts.p0)).y⟩ := by
    simp only [qmat2x2.mulVec, qvec2.sub, qvec4.mk.injEq]
    refine ⟨?_, ?_, ?_, ?_⟩ <;> ring
  rw [hv, TexDef_BSPToQuakeEd_solve _ _ _ _ _ _ hD]
  rfl

/-- The matrix-based encoder writes the matrix scale * rotation * flips into
the components given by getSTAxes. -/
theorem SetTexinfo_QuakeEd_New_eq_copy (opts : qbsp_options_t K) (m : libm K) (plane : qplane3 K)
    (shift : qvec2 K) (rotate : K) (scale : qvec2 K)
    (hk : (TextureAxisFromPlane_best opts.oldaxis plane.normal).2 < 6)
    (hx : scale.x ≠ 0) (hy : scale.y ≠ 0) (hfl : m.FloatExact) :
    SetTexinfo_QuakeEd_New opts m plane shift rotate scale =
      SetTexinfo_QuakeEd_New_copy (getSTAxes (TextureAxisFromPlane opts.oldaxis plane).2.2)
        ⟨m.cos (rotate * (m.pi / 180)) / scale.x, m.sin (rotate * (m.pi / 180)) / scale.x,
         m.sin (rotate * (m.pi / 180)) / scale.y, -m.cos (rotate * (m.pi / 180)) / scale.y⟩
        shift := by
  obtain ⟨_, hs, ht⟩ := TextureAxisFromPlane_axes opts.oldaxis plane hk
  unfold SetTexinfo_QuakeEd_New
  dsimp only
  simp only [qvec2_to_float_exact hfl, qmat2x2_to_float_exact hfl, scale2x2_exact hfl,
    rotation2x2_deg_exact hfl]
  rw [hs, ht, if_pos hx, if_pos hy]
  congr 1
  simp only [qmat2x2.mul, qmat2x2.cols, qmat2x2.mk.injEq]
  refine ⟨?_, ?_, ?_, ?_⟩ <;> ring

/-- Decoding the vectors of a Quake-Ed texture definition with scale
(σx ax, σy ay), ax and ay at most 1000, on a plane with unit normal through
three points that are not collinear: the shift is recovered, the x scale comes
back negative. -/
theorem TexDef_BSPToQuakeEd_signs (env : qbsp_env K) (opts : qbsp_options_t K) (m : libm K)
    (hm : m.SqrtExact) (ht : m.TrigExact) (hfl : m.FloatExact) (plane : qplane3 K)
    (hn : qv.dot plane.normal plane.normal = 1) (pts : planepts_t K)
    (h1 : qv.dot plane.normal (pts.p1.sub pts.p0) = 0)
    (h2 : qv.dot plane.normal (pts.p2.sub pts.p0) = 0)
    (hc : qv.cross (pts.p1.sub pts.p0) (pts.p2.sub pts.p0) ≠ qvec3.zero)
    (shift : qvec2 K) (c s : K) (hcs : s * s + c * c = 1) (ax ay : K) (hax : 0 < ax)
    (hay : 0 < ay) (hbx : ax ≤ 1000) (hby : ay ≤ 1000) (σx σy : K)
    (hσx : σx = 1 ∨ σx = -1) (hσy : σy = 1 ∨ σy = -1) :
    TexDef_BSPToQuakeEd env opts m plane none
      (SetTexinfo_QuakeEd_New_copy (getSTAxes (TextureAxisFromPlane opts.oldaxis plane).2.2)
        ⟨σx * c / ax, σx * s / ax, σy * s / ay, -(σy * c) / ay⟩ shift) pts =
    some { rotate := m.atan2 (-σx * s) (-σx * c) * 180 / m.pi,
           scale := ⟨-ax, -(σx * σy) * ay⟩, shift := shift } := by
  obtain ⟨hk, _, _, _⟩ := TextureAxisFromPlane_best_unit opts.oldaxis plane.normal hn
  obtain ⟨hax3, _, _⟩ := TextureAxisFromPlane_axes opts.oldaxis plane hk
  have hD := projectToAxisPlane_independent opts.oldaxis plane hn _ _ h1 h2 hc
  have hD2 : ((projectToAxisPlane (TextureAxisFromPlane opts.oldaxis plane).2.2 pts.p1).sub
          (projectToAxisPlane (TextureAxisFromPlane opts.oldaxis plane).2.2 pts.p0)).x *
        ((projectToAxisPlane (TextureAxisFromPlane opts.oldaxis plane).2.2 pts.p2).sub
          (projectToAxisPlane (TextureAxisFromPlane opts.oldaxis plane).2.2 pts.p0)).y -
      ((projectToAxisPlane (TextureAxisFromPlane opts.oldaxis plane).2.2 pts.p1).sub
          (projectToAxisPlane (TextureAxisFromPlane opts.oldaxis plane).2.2 pts.p0)).y *
        ((projectToAxisPlane (TextureAxisFromPlane opts.oldaxis plane).2.2 pts.p2).sub
          (projectToAxisPlane (TextureAxisFromPlane opts.oldaxis plane).2.2 pts.p0)).x ≠ 0 := by
    rcases hax3 with h | h | h <;>
    · simp only [projectToAxisPlane, h, qvec2.sub, qvec3.sub, qvec3.get] at hD ⊢
      exact hD
  have hσx2 := sign_mul_self hσx
  have hσy2 := sign_mul_self hσy
  have hax0 : ax ≠ 0 := ne_of_gt hax
  have hay0 : ay ≠ 0 := ne_of_gt hay
  obtain ⟨hpi, _, _, hat, _⟩ := ht
  have hcirc : (-σx * c) * (-σx * c) + (-σx * s) * (-σx * s) = 1 := by
    linear_combination (s * s + c * c) * hσx2 + hcs
  obtain ⟨hcos, hsin⟩ := hat _ _ hcirc
  have hang : m.atan2 (-σx * s) (-σx * c) * 180 / m.pi * (m.pi / 180) =
      m.atan2 (-σx * s) (-σx * c) := by
    field_simp
  have hs0 : -ax ≠ 0 := neg_ne_zero.mpr hax0
  have hs1 : -(σx * σy) * ay ≠ 0 := by
    apply mul_ne_zero _ hay0
    rcases hσx with rfl | rfl <;> rcases hσy with rfl | rfl <;> norm_num
  have hnew := SetTexinfo_QuakeEd_New_eq_copy opts m plane ⟨0, 0⟩
    (m.atan2 (-σx * s) (-σx * c) * 180 / m.pi) ⟨-ax, -(σx * σy) * ay⟩ hk hs0 hs1 hfl
  dsimp only at hnew
  rw [hang, hcos, hsin] at hnew
  have hMeq : (⟨-σx * c / -ax, -σx * s / -ax, -σx * s / (-(σx * σy) * ay),
      -(-σx * c) / (-(σx * σy) * ay)⟩ : qmat2x2 K) =
      ⟨σx * c / ax, σx * s / ax, σy * s / ay, -(σy * c) / ay⟩ := by
    simp only [qmat2x2.mk.injEq]
    rcases hσx with rfl | rfl <;> rcases hσy with rfl | rfl <;>
      simp only [one_mul, neg_one_mul, neg_mul, mul_neg, neg_neg, mul_one, div_neg, neg_div,
        neg_inj] <;>
      refine ⟨?_, ?_, ?_, ?_⟩ <;> field_simp
  rw [hMeq] at hnew
  unfold TexDef_BSPToQuakeEd
  dsimp only
  rw [TexDef_BSPToQuakeEd_matrix_copy m hfl plane _ _ shift pts hax3 hD2,
    Reverse_QuakeEd_spec env opts m hm ⟨hpi, by assumption, by assumption, hat, by assumption⟩
      hfl plane hk c s hcs ax ay hax hay hbx hby σx σy hσx hσy]
  dsimp only
  unfold evalTexDefAtPoint addShift normalizeShift
  dsimp only
  rw [hnew, texcoords_at_copy m hfl plane _ _ _ pts.p0 hax3,
    texcoords_at_copy m hfl plane _ _ _ pts.p0 hax3, qvec2_to_float_exact hfl]
  simp [qvec2.sub]

/-- Decoding the vectors of a Quake-Ed texture definition with scale
(σx ax, σy ay) when the first sign guess of Reverse_QuakeEd is accepted: both
scales come back negative, whatever their signs were. -/
theorem TexDef_BSPToQuakeEd_first (env : qbsp_env K) (opts : qbsp_options_t K) (m : libm K)
    (hm : m.SqrtExact) (ht : m.TrigExact) (hfl : m.FloatExact) (plane : qplane3 K)
    (hn : qv.dot plane.normal plane.normal = 1) (pts : planepts_t K)
    (h1 : qv.dot plane.normal (pts.p1.sub pts.p0) = 0)
    (h2 : qv.dot plane.normal (pts.p2.sub pts.p0) = 0)
    (hc : qv.cross (pts.p1.sub pts.p0) (pts.p2.sub pts.p0) ≠ qvec3.zero)
    (shift : qvec2 K) (c s : K) (hcs : s * s + c * c = 1) (ax ay : K) (hax : 0 < ax)
    (hay : 0 < ay) (σx σy : K) (hσx : σx = 1 ∨ σx = -1) (hσy : σy = 1 ∨ σy = -1)
    (hacc : -1 * σx = -1 * σy ∨ (2 * |s| < ax / 1000 ∧ 2 * |c| < ay / 1000)) :
    TexDef_BSPToQuakeEd env opts m plane none
      (SetTexinfo_QuakeEd_New_copy (getSTAxes (TextureAxisFromPlane opts.oldaxis plane).2.2)
        ⟨σx * c / ax, σx * s / ax, σy * s / ay, -(σy * c) / ay⟩ shift) pts =
    some { rotate := m.atan2 (-1 * σy * s) (-1 * σx * c) * 180 / m.pi,
           scale := ⟨-1 * ax, -1 * ay⟩,
           shift := ⟨shift.x + (σx - σy) * s / ax *
               (projectToAxisPlane (TextureAxisFromPlane opts.oldaxis plane).2.2 pts.p0).y,
             shift.y + (σx - σy) * c / ay *
               (projectToAxisPlane (TextureAxisFromPlane opts.oldaxis plane).2.2 pts.p0).y⟩ } := by
  obtain ⟨hk, _, _, _⟩ := TextureAxisFromPlane_best_unit opts.oldaxis plane.normal hn
  obtain ⟨hax3, _, _⟩ := TextureAxisFromPlane_axes opts.oldaxis plane hk
  have hD := projectToAxisPlane_independent opts.oldaxis plane hn _ _ h1 h2 hc
  have hD2 : ((projectToAxisPlane (TextureAxisFromPlane opts.oldaxis plane).2.2 pts.p1).sub
          (projectToAxisPlane (TextureAxisFromPlane opts.oldaxis plane).2.2 pts.p0)).x *
        ((projectToAxisPlane (TextureAxisFromPlane opts.oldaxis plane).2.2 pts.p2).sub
          (projectToAxisPlane (TextureAxisFromPlane opts.oldaxis plane).2.2 pts.p0)).y -
      ((projectToAxisPlane (TextureAxisFromPlane opts.oldaxis plane).2.2 pts.p1).sub
          (projectToAxisPlane (TextureAxisFromPlane opts.oldaxis plane).2.2 pts.p0)).y *
        ((projectToAxisPlane (TextureAxisFromPlane opts.oldaxis plane).2.2 pts.p2).sub
          (projectToAxisPlane (TextureAxisFromPlane opts.oldaxis plane).2.2 pts.p0)).x ≠ 0 := by
    rcases hax3 with h | h | h <;>
    · simp only [projectToAxisPlane, h, qvec2.sub, qvec3.sub, qvec3.get] at hD ⊢
      exact hD
  have hσx2 := sign_mul_self hσx
  have hσy2 := sign_mul_self hσy
  have hax0 : ax ≠ 0 := ne_of_gt hax
  have hay0 : ay ≠ 0 := ne_of_gt hay
  obtain ⟨hpi, hpy, hadd, hat, hk2⟩ := ht
  have hcirc : (-1 * σx * c) * (-1 * σx * c) + (-1 * σy * s) * (-1 * σy * s) = 1 := by
    linear_combination (c * c) * hσx2 + (s * s) * hσy2 + hcs
  obtain ⟨hcos, hsin⟩ := hat _ _ hcirc
  have hang : m.atan2 (-1 * σy * s) (-1 * σx * c) * 180 / m.pi * (m.pi / 180) =
      m.atan2 (-1 * σy * s) (-1 * σx * c) := by
    field_simp
  have hs0 : -1 * ax ≠ 0 := mul_ne_zero (by norm_num) hax0
  have hs1 : -1 * ay ≠ 0 := mul_ne_zero (by norm_num) hay0
  have hnew := SetTexinfo_QuakeEd_New_eq_copy opts m plane ⟨0, 0⟩
    (m.atan2 (-1 * σy * s) (-1 * σx * c) * 180 / m.pi) ⟨-1 * ax, -1 * ay⟩ hk hs0 hs1 hfl
  dsimp only at hnew
  rw [hang, hcos, hsin] at hnew
  unfold TexDef_BSPToQuakeEd
  dsimp only
  rw [TexDef_BSPToQuakeEd_matrix_copy m hfl plane _ _ shift pts hax3 hD2,
    Reverse_QuakeEd_first env opts m hm ⟨hpi, hpy, hadd, hat, hk2⟩
      hfl plane hk c s hcs ax ay hax hay σx σy hσx hσy hacc]
  dsimp only
  unfold evalTexDefAtPoint addShift normalizeShift
  dsimp only
  rw [hnew, texcoords_at_copy m hfl plane _ _ _ pts.p0 hax3,
    texcoords_at_copy m hfl plane _ _ _ pts.p0 hax3, qvec2_to_float_exact hfl]
  simp only [qvec2.sub, qmat2x2.mulVec, projectToAxisPlane, texdef_quake_ed_t.mk.injEq,
    qvec2.mk.injEq, true_and, Option.some.injEq, neg_one_mul, neg_neg, div_neg, neg_div]
  constructor
  · field_simp
    ring
  · field_simp
    ring

end quaked_decode_lemmas

section quaked_decode_claims
variable {K : Type} [LinearOrderedField K]

/-- The math library of the real numbers in exact arithmetic converts to float
exactly. -/
theorem libm.real_floatExact : libm.real.FloatExact := fun _ => rfl

/-- The angle that atan2 returns for the point (cos, sin) of the input rotation
is the rotation up to full turns. -/
theorem extractRotation_same (m : libm K) (ht : m.TrigExact) (rotate : K) :
    ∃ k : Int, m.atan2 (m.sin (rotate / 180 * m.pi)) (m.cos (rotate / 180 * m.pi)) * 180 / m.pi =
      rotate + 360 * k := by
  obtain ⟨hpi, _, _, _, hk⟩ := ht
  obtain ⟨k, hk⟩ := hk (rotate / 180 * m.pi)
  refine ⟨k, ?_⟩
  rw [hk]
  field_simp
  ring

/-- The angle that atan2 returns for the point opposite to (cos, sin) of the
input rotation is the rotation plus a half turn, up to full turns. -/
theorem extractRotation_opposite (m : libm K) (ht : m.TrigExact) (rotate : K) :
    ∃ k : Int, m.atan2 (-m.sin (rotate / 180 * m.pi)) (-m.cos (rotate / 180 * m.pi)) * 180 /
      m.pi = rotate + 180 + 360 * k := by
  obtain ⟨hpi, _, hadd, _, hk⟩ := ht
  obtain ⟨k, hk⟩ := hk (rotate / 180 * m.pi + m.pi)
  rw [(hadd _).1, (hadd _).2] at hk
  refine ⟨k, ?_⟩
  rw [hk]
  field_simp
  ring

/-- The round trip in exact arithmetic (the conversions to float taken as the
identity): for every plane with unit normal, three points of the plane that are
not collinear, every shift and rotation and every scale pair whose components
are not zero and at most 1000 in absolute value, TexDef_BSPToQuakeEd (called
without texture metadata) applied to the vectors written by SetTexinfo_QuakeEd
returns the input shift, and either the input scales with the input rotation
modulo 360, or both scales negated with the rotation offset by 180 degrees
modulo 360. -/
theorem TexDef_BSPToQuakeEd_roundtrip (env : qbsp_env K) (opts : qbsp_options_t K) (m : libm K)
    (hm : m.SqrtExact) (ht : m.TrigExact) (hfl : m.FloatExact) (plane : qplane3 K)
    (hn : qv.dot plane.normal plane.normal = 1) (pts : planepts_t K)
    (hp0 : qv.dot plane.normal pts.p0 = plane.dist)
    (hp1 : qv.dot plane.normal pts.p1 = plane.dist)
    (hp2 : qv.dot plane.normal pts.p2 = plane.dist)
    (hc : qv.cross (pts.p1.sub pts.p0) (pts.p2.sub pts.p0) ≠ qvec3.zero)
    (shift : qvec2 K) (rotate : K) (scale : qvec2 K) (hx : scale.x ≠ 0) (hy : scale.y ≠ 0)
    (hbx : |scale.x| ≤ 1000) (hby : |scale.y| ≤ 1000) :
    ∃ res, TexDef_BSPToQuakeEd env opts m plane none
        (SetTexinfo_QuakeEd opts m plane pts shift rotate scale) pts = some res ∧
      res.shift = shift ∧
      ((res.scale = scale ∧ ∃ k : Int, res.rotate = rotate + 360 * k) ∨
       (res.scale = ⟨-scale.x, -scale.y⟩ ∧ ∃ k : Int, res.rotate = rotate + 180 + 360 * k)) := by
  obtain ⟨hk, _, _, _⟩ := TextureAxisFromPlane_best_unit opts.oldaxis plane.normal hn
  have h1 : qv.dot plane.normal (pts.p1.sub pts.p0) = 0 := by
    unfold qv.dot qvec3.sub at *
    dsimp only
    linear_combination hp1 - hp0
  have h2 : qv.dot plane.normal (pts.p2.sub pts.p0) = 0 := by
    unfold qv.dot qvec3.sub at *
    dsimp only
    linear_combination hp2 - hp0
  have hcs := ht.2.1 (rotate / 180 * m.pi)
  obtain ⟨sx, sy⟩ := scale
  dsimp only at hx hy hbx hby
  rw [SetTexinfo_QuakeEd_eq_copy opts m plane pts shift rotate ⟨sx, sy⟩ hk hx hy]
  dsimp only
  rcases lt_or_gt_of_ne hx with hxs | hxs
  · -- negative x scale: the input scales and the input rotation are returned
    have hax : 0 < -sx := neg_pos.mpr hxs
    have hbx2 : -sx ≤ 1000 := by rw [abs_of_neg hxs] at hbx; exact hbx
    rcases lt_or_gt_of_ne hy with hys | hys
    · have hay : 0 < -sy := neg_pos.mpr hys
      have hby2 : -sy ≤ 1000 := by rw [abs_of_neg hys] at hby; exact hby
      have hM : (⟨m.cos (rotate / 180 * m.pi) / sx, m.sin (rotate / 180 * m.pi) / sx,
          m.sin (rotate / 180 * m.pi) / sy, -m.cos (rotate / 180 * m.pi) / sy⟩ : qmat2x2 K) =
          ⟨-1 * m.cos (rotate / 180 * m.pi) / -sx, -1 * m.sin (rotate / 180 * m.pi) / -sx,
            -1 * m.sin (rotate / 180 * m.pi) / -sy,
            -(-1 * m.cos (rotate / 180 * m.pi)) / -sy⟩ := by
        simp only [qmat2x2.mk.injEq]
        refine ⟨?_, ?_, ?_, ?_⟩ <;> field_simp
      rw [hM, TexDef_BSPToQuakeEd_signs env opts m hm ht hfl plane hn pts h1 h2 hc shift _ _ hcs
        (-sx) (-sy) hax hay hbx2 hby2 (-1) (-1) (Or.inr rfl) (Or.inr rfl)]
      refine ⟨_, rfl, rfl, Or.inl ⟨?_, ?_⟩⟩
      · simp
      · simp only [neg_neg, one_mul]
        exact extractRotation_same m ht rotate
    · have hay : 0 < sy := hys
      have hby2 : sy ≤ 1000 := by rw [abs_of_pos hys] at hby; exact hby
      have hM : (⟨m.cos (rotate / 180 * m.pi) / sx, m.sin (rotate / 180 * m.pi) / sx,
          m.sin (rotate / 180 * m.pi) / sy, -m.cos (rotate / 180 * m.pi) / sy⟩ : qmat2x2 K) =
          ⟨-1 * m.cos (rotate / 180 * m.pi) / -sx, -1 * m.sin (rotate / 180 * m.pi) / -sx,
            1 * m.sin (rotate / 180 * m.pi) / sy,
            -(1 * m.cos (rotate / 180 * m.pi)) / sy⟩ := by
        simp only [qmat2x2.mk.injEq]
        refine ⟨?_, ?_, ?_, ?_⟩ <;> field_simp
      rw [hM, TexDef_BSPToQuakeEd_signs env opts m hm ht hfl plane hn pts h1 h2 hc shift _ _ hcs
        (-sx) sy hax hay hbx2 hby2 (-1) 1 (Or.inr rfl) (Or.inl rfl)]
      refine ⟨_, rfl, rfl, Or.inl ⟨?_, ?_⟩⟩
      · simp
      · simp only [neg_neg, one_mul]
        exact extractRotation_same m ht rotate
  · -- positive x scale: both scales are negated and the rotation is offset by 180
    have hax : 0 < sx := hxs
    have hbx2 : sx ≤ 1000 := by rw [abs_of_pos hxs] at hbx; exact hbx
    rcases lt_or_gt_of_ne hy with hys | hys
    · have hay : 0 < -sy := neg_pos.mpr hys
      have hby2 : -sy ≤ 1000 := by rw [abs_of_neg hys] at hby; exact hby
      have hM : (⟨m.cos (rotate / 180 * m.pi) / sx, m.sin (rotate / 180 * m.pi) / sx,
          m.sin (rotate / 180 * m.pi) / sy, -m.cos (rotate / 180 * m.pi) / sy⟩ : qmat2x2 K) =
          ⟨1 * m.cos (rotate / 180 * m.pi) / sx, 1 * m.sin (rotate / 180 * m.pi) / sx,
            -1 * m.sin (rotate / 180 * m.pi) / -sy,
            -(-1 * m.cos (rotate / 180 * m.pi)) / -sy⟩ := by
        simp only [qmat2x2.mk.injEq]
        refine ⟨?_, ?_, ?_, ?_⟩ <;> field_simp
      rw [hM, TexDef_BSPToQuakeEd_signs env opts m hm ht hfl plane hn pts h1 h2 hc shift _ _ hcs
        sx (-sy) hax hay hbx2 hby2 1 (-1) (Or.inl rfl) (Or.inr rfl)]
      refine ⟨_, rfl, rfl, Or.inr ⟨?_, ?_⟩⟩
      · simp
      · simp only [neg_mul, one_mul]
        exact extractRotation_opposite m ht rotate
    · have hay : 0 < sy := hys
      have hby2 : sy ≤ 1000 := by rw [abs_of_pos hys] at hby; exact hby
      have hM : (⟨m.cos (rotate / 180 * m.pi) / sx, m.sin (rotate / 180 * m.pi) / sx,
          m.sin (rotate / 180 * m.pi) / sy, -m.cos (rotate / 180 * m.pi) / sy⟩ : qmat2x2 K) =
          ⟨1 * m.cos (rotate / 180 * m.pi) / sx, 1 * m.sin (rotate / 180 * m.pi) / sx,
            1 * m.sin (rotate / 180 * m.pi) / sy,
            -(1 * m.cos (rotate / 180 * m.pi)) / sy⟩ := by
        simp only [qmat2x2.mk.injEq]
        refine ⟨?_, ?_, ?_, ?_⟩ <;> field_simp
      rw [hM, TexDef_BSPToQuakeEd_signs env opts m hm ht hfl plane hn pts h1 h2 hc shift _ _ hcs
        sx sy hax hay hbx2 hby2 1 1 (Or.inl rfl) (Or.inl rfl)]
      refine ⟨_, rfl, rfl, Or.inr ⟨?_, ?_⟩⟩
      · simp
      · simp only [neg_mul, one_mul]
        exact extractRotation_opposite m ht rotate

/-- The real sine, cosine and two-argument arctangent satisfy the laws that
decoding relies on. -/
theorem libm.real_trigExact : libm.real.TrigExact := by
  refine ⟨Real.pi_ne_zero, ?_, ?_, ?_, ?_⟩
  · intro x
    have := Real.sin_sq_add_cos_sq x
    simp only [libm.real]
    nlinarith [this]
  · intro x
    exact ⟨Real.sin_add_pi x, Real.cos_add_pi x⟩
  · intro x y h
    have habs : Complex.abs ⟨x, y⟩ = 1 := by
      rw [Complex.abs_apply, Complex.normSq_mk, h, Real.sqrt_one]
    have hne : (⟨x, y⟩ : ℂ) ≠ 0 := by
      intro h0
      rw [h0, map_zero] at habs
      exact zero_ne_one habs
    constructor
    · show Real.cos (Complex.arg ⟨x, y⟩) = x
      rw [Complex.cos_arg hne, habs, div_one]
    · show Real.sin (Complex.arg ⟨x, y⟩) = y
      rw [Complex.sin_arg, habs, div_one]
  · intro x
    show ∃ k : Int, Complex.arg ⟨Real.cos x, Real.sin x⟩ = x + k * (2 * Real.pi)
    have hexp : (⟨Real.cos x, Real.sin x⟩ : ℂ) = Complex.exp (x * Complex.I) := by
      apply Complex.ext
      · simp [Complex.exp_ofReal_mul_I_re]
      · simp [Complex.exp_ofReal_mul_I_im]
    rw [hexp, Complex.arg_exp_mul_I]
    refine ⟨-toIocDiv Real.two_pi_pos (-Real.pi) x, ?_⟩
    rw [← self_sub_toIocDiv_zsmul]
    simp only [zsmul_eq_mul]
    push_cast
    ring

/-- The angle of the point (-cos x, sin x) for x between 0 and pi. -/
theorem libm.real_atan2_mirror (x : ℝ) (h0 : 0 ≤ x) (h1 : x < 2 * Real.pi) :
    libm.real.atan2 (Real.sin x) (-Real.cos x) = Real.pi - x := by
  show Complex.arg ⟨-Real.cos x, Real.sin x⟩ = Real.pi - x
  have hexp : (⟨-Real.cos x, Real.sin x⟩ : ℂ) =
      (Real.cos (Real.pi - x) : ℂ) + (Real.sin (Real.pi - x) : ℂ) * Complex.I := by
    rw [Real.cos_pi_sub, Real.sin_pi_sub]
    apply Complex.ext <;> simp [Complex.cos_ofReal_re, Complex.sin_ofReal_re]
  rw [hexp]
  exact_mod_cast Complex.arg_cos_add_sin_mul_I ⟨by linarith, by linarith⟩

/-- The round trip in exact arithmetic at an example: the plane z = 0 with the
points (0,0,0), (1,0,0), (0,1,0), shift (3,5), rotation 30 and scale (2,-3)
over the reals. -/
theorem TexDef_BSPToQuakeEd_roundtrip_witness :
    libm.real.SqrtExact ∧ libm.real.TrigExact ∧ libm.real.FloatExact ∧
    qv.dot (⟨0, 0, 1⟩ : qvec3 ℝ) ⟨0, 0, 1⟩ = 1 ∧
    qv.cross ((⟨1, 0, 0⟩ : qvec3 ℝ).sub ⟨0, 0, 0⟩) ((⟨0, 1, 0⟩ : qvec3 ℝ).sub ⟨0, 0, 0⟩) ≠
      qvec3.zero ∧
    |(2 : ℝ)| ≤ 1000 ∧ |(-3 : ℝ)| ≤ 1000 ∧
    ∃ res, TexDef_BSPToQuakeEd qbsp_env.sample qbsp_options_t.sample libm.real
        ⟨⟨0, 0, 1⟩, 0⟩ none
        (SetTexinfo_QuakeEd qbsp_options_t.sample libm.real ⟨⟨0, 0, 1⟩, 0⟩
          ⟨⟨0, 0, 0⟩, ⟨1, 0, 0⟩, ⟨0, 1, 0⟩⟩ ⟨3, 5⟩ 30 ⟨2, -3⟩)
        ⟨⟨0, 0, 0⟩, ⟨1, 0, 0⟩, ⟨0, 1, 0⟩⟩ = some res ∧
      res.shift = ⟨3, 5⟩ ∧
      ((res.scale = ⟨2, -3⟩ ∧ ∃ k : Int, res.rotate = 30 + 360 * k) ∨
       (res.scale = ⟨-2, -(-3)⟩ ∧ ∃ k : Int, res.rotate = 30 + 180 + 360 * k)) :=
  have hn : qv.dot (⟨0, 0, 1⟩ : qvec3 ℝ) ⟨0, 0, 1⟩ = 1 := by norm_num [qv.dot]
  have hc : qv.cross ((⟨1, 0, 0⟩ : qvec3 ℝ).sub ⟨0, 0, 0⟩)
      ((⟨0, 1, 0⟩ : qvec3 ℝ).sub ⟨0, 0, 0⟩) ≠ qvec3.zero := by
    norm_num [qv.cross, qvec3.sub, qvec3.zero]
  have hbx : |(2 : ℝ)| ≤ 1000 := by norm_num [abs_le]
  have hby : |(-3 : ℝ)| ≤ 1000 := by norm_num [abs_le]
  ⟨libm.real_sqrtExact, libm.real_trigExact, libm.real_floatExact, hn, hc, hbx, hby,
    TexDef_BSPToQuakeEd_roundtrip qbsp_env.sample qbsp_options_t.sample libm.real
      libm.real_sqrtExact libm.real_trigExact libm.real_floatExact ⟨⟨0, 0, 1⟩, 0⟩ hn
      ⟨⟨0, 0, 0⟩, ⟨1, 0, 0⟩, ⟨0, 1, 0⟩⟩ (by norm_num [qv.dot]) (by norm_num [qv.dot])
      (by norm_num [qv.dot]) hc ⟨3, 5⟩ 30 ⟨2, -3⟩ (by norm_num) (by norm_num) hbx hby⟩

/-- The decoder in exact arithmetic at a large scale: the plane z = 0 with the
points (0,0,0), (1,0,0), (0,1,0), shift (0,0), rotation 45 and scale
(4000,-4000).  Decoding the vectors written by
SetTexinfo_QuakeEd returns the rotation 135 and the scale (-4000,-4000): the
first sign guess (-1,-1) of Reverse_QuakeEd passes the 0.001 test, because the
entries of both matrices have size 1/4000.  The rotation 135 is neither 45 nor
45 + 180 modulo 360, and the scale is neither the input scale nor its
negation.  The values are those of exact arithmetic (the conversions to float
taken as the identity); with floats the entries compared differ by less than
0.001 all the same, so that the first guess is accepted. -/
theorem TexDef_BSPToQuakeEd_roundtrip_large_scale :
    qv.dot (⟨0, 0, 1⟩ : qvec3 ℝ) ⟨0, 0, 1⟩ = 1 ∧
    qv.cross ((⟨1, 0, 0⟩ : qvec3 ℝ).sub ⟨0, 0, 0⟩) ((⟨0, 1, 0⟩ : qvec3 ℝ).sub ⟨0, 0, 0⟩) ≠
      qvec3.zero ∧
    TexDef_BSPToQuakeEd qbsp_env.sample qbsp_options_t.sample libm.real
        ⟨⟨0, 0, 1⟩, 0⟩ none
        (SetTexinfo_QuakeEd qbsp_options_t.sample libm.real ⟨⟨0, 0, 1⟩, 0⟩
          ⟨⟨0, 0, 0⟩, ⟨1, 0, 0⟩, ⟨0, 1, 0⟩⟩ ⟨0, 0⟩ 45 ⟨4000, -4000⟩)
        ⟨⟨0, 0, 0⟩, ⟨1, 0, 0⟩, ⟨0, 1, 0⟩⟩ =
      some { rotate := 135, scale := ⟨-4000, -4000⟩, shift := ⟨0, 0⟩ } ∧
    (¬ ∃ k : Int, (135 : ℝ) = 45 + 360 * k) ∧
    (¬ ∃ k : Int, (135 : ℝ) = 45 + 180 + 360 * k) := by
  have hn : qv.dot (⟨0, 0, 1⟩ : qvec3 ℝ) ⟨0, 0, 1⟩ = 1 := by norm_num [qv.dot]
  have hc : qv.cross ((⟨1, 0, 0⟩ : qvec3 ℝ).sub ⟨0, 0, 0⟩)
      ((⟨0, 1, 0⟩ : qvec3 ℝ).sub ⟨0, 0, 0⟩) ≠ qvec3.zero := by
    norm_num [qv.cross, qvec3.sub, qvec3.zero]
  refine ⟨hn, hc, ?_, ?_, ?_⟩
  · obtain ⟨hk, _, _, _⟩ :=
      TextureAxisFromPlane_best_unit (qbsp_options_t.sample : qbsp_options_t ℝ).oldaxis
        (⟨0, 0, 1⟩ : qvec3 ℝ) hn
    have hx : (45 : ℝ) / 180 * Real.pi = Real.pi / 4 := by ring
    have hs1 : |Real.sin (Real.pi / 4)| ≤ 1 := Real.abs_sin_le_one _
    have hc1 : |Real.cos (Real.pi / 4)| ≤ 1 := Real.abs_cos_le_one _
    have hcs : Real.sin (Real.pi / 4) * Real.sin (Real.pi / 4) +
        Real.cos (Real.pi / 4) * Real.cos (Real.pi / 4) = 1 := by
      have := Real.sin_sq_add_cos_sq (Real.pi / 4)
      nlinarith [this]
    have h4k : (4000 : ℝ) / 1000 = 4 := by norm_num
    have hfirst := TexDef_BSPToQuakeEd_first qbsp_env.sample qbsp_options_t.sample libm.real
      libm.real_sqrtExact libm.real_trigExact libm.real_floatExact ⟨⟨0, 0, 1⟩, 0⟩ hn
      ⟨⟨0, 0, 0⟩, ⟨1, 0, 0⟩, ⟨0, 1, 0⟩⟩ (by norm_num [qv.dot, qvec3.sub])
      (by norm_num [qv.dot, qvec3.sub]) hc ⟨0, 0⟩ (Real.cos (Real.pi / 4))
      (Real.sin (Real.pi / 4)) hcs 4000 4000 (by norm_num) (by norm_num) 1 (-1)
      (Or.inl rfl) (Or.inr rfl) (Or.inr ⟨by rw [h4k]; linarith, by rw [h4k]; linarith⟩)
    have hM : (⟨Real.cos (Real.pi / 4) / 4000, Real.sin (Real.pi / 4) / 4000,
        Real.sin (Real.pi / 4) / (-4000), -Real.cos (Real.pi / 4) / (-4000)⟩ : qmat2x2 ℝ) =
        ⟨1 * Real.cos (Real.pi / 4) / 4000, 1 * Real.sin (Real.pi / 4) / 4000,
          -1 * Real.sin (Real.pi / 4) / 4000, -(-1 * Real.cos (Real.pi / 4)) / 4000⟩ := by
      simp only [qmat2x2.mk.injEq]
      refine ⟨?_, ?_, ?_, ?_⟩ <;> ring
    have hrot : libm.real.atan2 (-1 * -1 * Real.sin (Real.pi / 4))
        (-1 * 1 * Real.cos (Real.pi / 4)) * 180 / libm.real.pi = 135 := by
      have e1 : (-1 : ℝ) * -1 * Real.sin (Real.pi / 4) = Real.sin (Real.pi / 4) := by ring
      have e2 : (-1 : ℝ) * 1 * Real.cos (Real.pi / 4) = -Real.cos (Real.pi / 4) := by ring
      rw [e1, e2, libm.real_atan2_mirror (Real.pi / 4) (by positivity)
        (by linarith [Real.pi_pos])]
      show (Real.pi - Real.pi / 4) * 180 / Real.pi = 135
      field_simp
      ring
    rw [SetTexinfo_QuakeEd_eq_copy qbsp_options_t.sample libm.real ⟨⟨0, 0, 1⟩, 0⟩
      ⟨⟨0, 0, 0⟩, ⟨1, 0, 0⟩, ⟨0, 1, 0⟩⟩ ⟨0, 0⟩ 45 ⟨4000, -4000⟩ hk (by norm_num) (by norm_num)]
    dsimp only
    have hx2 : (45 : ℝ) / 180 * libm.real.pi = Real.pi / 4 := hx
    rw [hx2]
    have e3 : libm.real.cos (Real.pi / 4) = Real.cos (Real.pi / 4) := rfl
    have e4 : libm.real.sin (Real.pi / 4) = Real.sin (Real.pi / 4) := rfl
    rw [e3, e4, hM, hfirst, hrot]
    norm_num [projectToAxisPlane, qvec3.get]
    split <;> rfl
  · rintro ⟨k, hk⟩
    have h4 : (4 * k : ℤ) = 1 := by
      have : (4 : ℝ) * k = 1 := by linarith
      exact_mod_cast this
    omega
  · rintro ⟨k, hk⟩
    have h4 : (4 * k : ℤ) = -1 := by
      have : (4 : ℝ) * k = -1 := by linarith
      exact_mod_cast this
    omega

end quaked_decode_claims

section axis_claims
variable {K : Type} [LinearOrderedField K]

/-- One iteration of the search loop keeps the invariant. -/
theorem TextureAxisFromPlane_step_tie (oldaxis : Bool) (n : qvec3 K) (k : Nat) (acc : K × Nat)
    (h : TextureAxisFromPlane_inv oldaxis n k acc) :
    TextureAxisFromPlane_inv oldaxis n (k + 1) (TextureAxisFromPlane_step oldaxis n acc k) := by
  obtain ⟨h0, hall, hbest⟩ := h
  unfold TextureAxisFromPlane_step
  dsimp only
  by_cases hu : qv.dot n (baseaxis_at (k * 3)) > acc.1 ∨
      (qv.dot n (baseaxis_at (k * 3)) = acc.1 ∧ oldaxis = false)
  · rw [if_pos hu]
    have hge : acc.1 ≤ qv.dot n (baseaxis_at (k * 3)) := by
      rcases hu with hu | hu
      · exact le_of_lt hu
      · exact le_of_eq hu.1.symm
    refine ⟨le_trans h0 hge, ?_, Or.inl ⟨Nat.lt_succ_self k, rfl, ?_⟩⟩
    · intro i hi
      rcases Nat.lt_succ_iff_lt_or_eq.mp hi with hi | hi
      · exact le_trans (hall i hi) hge
      · rw [hi]
    · intro i hi he
      dsimp only at he ⊢
      cases oldaxis with
      | false => simpa using Nat.lt_succ_iff.mp hi
      | true =>
        simp only [if_true]
        rcases Nat.lt_succ_iff_lt_or_eq.mp hi with hi | hi
        · exfalso
          have h1 := hall i hi
          rcases hu with hu | hu
          · rw [he] at h1
            exact absurd hu (not_lt.mpr h1)
          · exact absurd hu.2 (by simp)
        · exact le_of_eq hi.symm
  · rw [if_neg hu]
    have hle : qv.dot n (baseaxis_at (k * 3)) ≤ acc.1 := by
      by_contra hc
      exact hu (Or.inl (not_le.mp hc))
    refine ⟨h0, ?_, ?_⟩
    · intro i hi
      rcases Nat.lt_succ_iff_lt_or_eq.mp hi with hi | hi
      · exact hall i hi
      · rw [hi]; exact hle
    · rcases hbest with ⟨hb1, hb2, hb3⟩ | ⟨hb1, hb2⟩
      · refine Or.inl ⟨Nat.lt_succ_of_lt hb1, hb2, ?_⟩
        intro i hi he
        rcases Nat.lt_succ_iff_lt_or_eq.mp hi with hi | hi
        · exact hb3 i hi he
        · cases oldaxis with
          | false =>
            exfalso
            rw [hi] at he
            exact hu (Or.inr ⟨he, rfl⟩)
          | true =>
            simp only [if_true]
            rw [hi]
            exact le_of_lt hb1
      · refine Or.inr ⟨hb1, ?_⟩
        intro i hi ho
        rcases Nat.lt_succ_iff_lt_or_eq.mp hi with hi | hi
        · exact hb2 i hi ho
        · rw [hi]
          rw [hb1] at hle hu
          dsimp only at hle hu
          rcases lt_or_eq_of_le hle with hlt | heq
          · exact hlt
          · exact absurd (Or.inr ⟨heq, ho⟩) hu

/-- The search loop of TextureAxisFromPlane: the index found attains the
largest dot product, and among the indices that attain it, it is the last one
when oldaxis is off and the first one when oldaxis is on. -/
theorem TextureAxisFromPlane_best_tie (oldaxis : Bool) (n : qvec3 K) :
    (TextureAxisFromPlane_best oldaxis n).2 < 6 ∧
    (∀ i, i < 6 → qv.dot n (baseaxis_at (i * 3)) ≤
      qv.dot n (baseaxis_at ((TextureAxisFromPlane_best oldaxis n).2 * 3))) ∧
    (∀ i, i < 6 → qv.dot n (baseaxis_at (i * 3)) =
        qv.dot n (baseaxis_at ((TextureAxisFromPlane_best oldaxis n).2 * 3)) →
      if oldaxis = true then (TextureAxisFromPlane_best oldaxis n).2 ≤ i
      else i ≤ (TextureAxisFromPlane_best oldaxis n).2) := by
  have e : TextureAxisFromPlane_best oldaxis n =
      TextureAxisFromPlane_step oldaxis n (TextureAxisFromPlane_step oldaxis n
        (TextureAxisFromPlane_step oldaxis n (TextureAxisFromPlane_step oldaxis n
          (TextureAxisFromPlane_step oldaxis n (TextureAxisFromPlane_step oldaxis n (0, 0) 0) 1) 2) 3) 4) 5 := by
    simp [TextureAxisFromPlane_best, List.range, List.range.loop]
  have s0 : TextureAxisFromPlane_inv oldaxis n 0 (0, 0) :=
    ⟨le_refl _, fun i hi => absurd hi (Nat.not_lt_zero i),
      Or.inr ⟨rfl, fun i hi => absurd hi (Nat.not_lt_zero i)⟩⟩
  have s6 := TextureAxisFromPlane_step_tie oldaxis n 5 _
    (TextureAxisFromPlane_step_tie oldaxis n 4 _
      (TextureAxisFromPlane_step_tie oldaxis n 3 _
        (TextureAxisFromPlane_step_tie oldaxis n 2 _
          (TextureAxisFromPlane_step_tie oldaxis n 1 _
            (TextureAxisFromPlane_step_tie oldaxis n 0 _ s0)))))
  rw [← e] at s6
  obtain ⟨h0, hall, hbest⟩ := s6
  obtain ⟨d0, d1, d2, d3, d4, d5⟩ := baseaxis_dot n
  rcases hbest with ⟨hb1, hb2, hb3⟩ | ⟨hb1, hb2⟩
  · refine ⟨hb1, ?_, ?_⟩
    · intro i hi
      rw [← hb2]
      exact hall i hi
    · intro i hi he
      rw [← hb2] at he
      exact hb3 i hi he
  · -- no index was taken: all dot products are at most 0, so the normal is zero
    have a0 := hall 0 (by norm_num)
    have a1 := hall 1 (by norm_num)
    have a2 := hall 2 (by norm_num)
    have a3 := hall 3 (by norm_num)
    have a4 := hall 4 (by norm_num)
    have a5 := hall 5 (by norm_num)
    rw [hb1] at a0 a1 a2 a3 a4 a5
    rw [d0] at a0
    rw [d1] at a1
    rw [d2] at a2
    rw [d3] at a3
    rw [d4] at a4
    rw [d5] at a5
    dsimp only at a0 a1 a2 a3 a4 a5
    have hz : n.z = 0 := le_antisymm a0 (by linarith)
    cases oldaxis with
    | false =>
      exfalso
      have := hb2 0 (by norm_num) rfl
      rw [d0, hz] at this
      exact lt_irrefl _ this
    | true =>
      rw [hb1]
      dsimp only
      refine ⟨by norm_num, ?_, ?_⟩
      · intro i hi
        rw [d0, hz]
        have := hall i hi
        rw [hb1] at this
        exact this
      · intro i _ _
        simp

/-- TextureAxisFromPlane on a normal (c, 0, c) with c > 0, halfway between +Z
and +X: the west-wall triple with oldaxis off, the floor triple with oldaxis
on. -/
theorem TextureAxisFromPlane_diagonal (c d : K) (hc : 0 < c) :
    TextureAxisFromPlane false ⟨⟨c, 0, c⟩, d⟩ = (⟨0, 1, 0⟩, ⟨0, 0, -1⟩, ⟨1, 0, 0⟩) ∧
    TextureAxisFromPlane true ⟨⟨c, 0, c⟩, d⟩ = (⟨1, 0, 0⟩, ⟨0, -1, 0⟩, ⟨0, 0, 1⟩) := by
  have h1 : ¬ (c < -c) := by intro h; linarith
  have h2 : ¬ (c < 0) := not_lt.mpr (le_of_lt hc)
  have h3 : ¬ (-c = c) := by intro h; linarith
  have h4 : ¬ (0 = c) := fun h => absurd h.symm (ne_of_gt hc)
  have h5 : ¬ (c = 0) := ne_of_gt hc
  have h6 : ¬ (c < c) := lt_irrefl c
  have e1 : (TextureAxisFromPlane_best false (⟨c, 0, c⟩ : qvec3 K)).2 = 2 := by
    simp [TextureAxisFromPlane_best, TextureAxisFromPlane_step, List.range, List.range.loop,
      baseaxis_at, baseaxis, qv.dot, hc, h1, h2, h3, h4, h5, h6]
  have e2 : (TextureAxisFromPlane_best true (⟨c, 0, c⟩ : qvec3 K)).2 = 0 := by
    simp [TextureAxisFromPlane_best, TextureAxisFromPlane_step, List.range, List.range.loop,
      baseaxis_at, baseaxis, qv.dot, hc, h1, h2, h3, h4, h5, h6]
  constructor
  · unfold TextureAxisFromPlane
    dsimp only
    rw [e1]
    simp [baseaxis_at, baseaxis]
  · unfold TextureAxisFromPlane
    dsimp only
    rw [e2]
    simp [baseaxis_at, baseaxis]

/-- C19: for every plane, TextureAxisFromPlane returns the triple k of the table
baseaxis (base normals in the order floor, ceiling, west wall, east wall, south
wall, north wall) whose base normal has the largest dot product with the plane
normal; among the triples that attain the largest value, k is the latest in
the table when oldaxis is off and the earliest when oldaxis is on.  A normal
(c, 0, c) with c > 0, at 45 degrees between +Z and +X, gives the west-wall
triple with oldaxis off and the floor triple with oldaxis on. -/
theorem TextureAxisFromPlane_largest_dot (oldaxis : Bool) (plane : qplane3 K) :
    (List.range 6).map (fun i => (baseaxis_at (i * 3) : qvec3 K)) =
      [⟨0, 0, 1⟩, ⟨0, 0, -1⟩, ⟨1, 0, 0⟩, ⟨-1, 0, 0⟩, ⟨0, 1, 0⟩, ⟨0, -1, 0⟩] ∧
    (∃ k, k < 6 ∧
      TextureAxisFromPlane oldaxis plane =
        (baseaxis_at (k * 3 + 1), baseaxis_at (k * 3 + 2), baseaxis_at (k * 3)) ∧
      (∀ i, i < 6 → qv.dot plane.normal (baseaxis_at (i * 3)) ≤
        qv.dot plane.normal (baseaxis_at (k * 3))) ∧
      (∀ i, i < 6 → qv.dot plane.normal (baseaxis_at (i * 3)) =
          qv.dot plane.normal (baseaxis_at (k * 3)) →
        if oldaxis = true then k ≤ i else i ≤ k)) ∧
    (∀ c d : K, 0 < c →
      TextureAxisFromPlane false ⟨⟨c, 0, c⟩, d⟩ = (⟨0, 1, 0⟩, ⟨0, 0, -1⟩, ⟨1, 0, 0⟩) ∧
      TextureAxisFromPlane true ⟨⟨c, 0, c⟩, d⟩ = (⟨1, 0, 0⟩, ⟨0, -1, 0⟩, ⟨0, 0, 1⟩)) := by
  obtain ⟨h1, h2, h3⟩ := TextureAxisFromPlane_best_tie oldaxis plane.normal
  refine ⟨?_, ⟨_, h1, rfl, h2, h3⟩, fun c d hc => TextureAxisFromPlane_diagonal c d hc⟩
  simp [List.range, List.range.loop, baseaxis_at, baseaxis]

/-- C19 (witness): the normal (1, 0, 1) over the reals. -/
theorem TextureAxisFromPlane_largest_dot_witness :
    (0 : ℝ) < 1 ∧
    TextureAxisFromPlane false (⟨⟨1, 0, 1⟩, 0⟩ : qplane3 ℝ) = (⟨0, 1, 0⟩, ⟨0, 0, -1⟩, ⟨1, 0, 0⟩) ∧
    TextureAxisFromPlane true (⟨⟨1, 0, 1⟩, 0⟩ : qplane3 ℝ) = (⟨1, 0, 0⟩, ⟨0, -1, 0⟩, ⟨0, 0, 1⟩) :=
  ⟨zero_lt_one,
    (TextureAxisFromPlane_largest_dot false (⟨⟨1, 0, 1⟩, 0⟩ : qplane3 ℝ)).2.2 1 0 zero_lt_one⟩

end axis_claims

section scale_claims
variable {K : Type} [LinearOrderedField K]

/-- The divisors of SetTexinfo_QuakeEd: each row of rotated axes is divided by
the scale of the row, or by 1 when that scale is 0, so no divisor is 0; the
fourth components are the shifts. -/
theorem SetTexinfo_QuakeEd_divisors (opts : qbsp_options_t K) (m : libm K) (plane : qplane3 K)
    (pts : planepts_t K) (shift : qvec2 K) (rotate : K) (scale : qvec2 K) :
    ∃ (r0 r1 : qvec3 K) (s0 s1 : K), s0 ≠ 0 ∧ s1 ≠ 0 ∧
      (s0 = scale.x ∨ (scale.x = 0 ∧ s0 = 1)) ∧ (s1 = scale.y ∨ (scale.y = 0 ∧ s1 = 1)) ∧
      SetTexinfo_QuakeEd opts m plane pts shift rotate scale =
        { row0 := ⟨r0.x / s0, r0.y / s0, r0.z / s0, shift.x⟩
          row1 := ⟨r1.x / s1, r1.y / s1, r1.z / s1, shift.y⟩ } := by
  unfold SetTexinfo_QuakeEd
  dsimp only
  refine ⟨_, _, if scale.x ≠ 0 then scale.x else 1, if scale.y ≠ 0 then scale.y else 1,
    ?_, ?_, ?_, ?_, rfl⟩
  · split_ifs with h
    · exact h
    · exact one_ne_zero
  · split_ifs with h
    · exact h
    · exact one_ne_zero
  · by_cases h : scale.x = 0
    · right
      simp [h]
    · left
      simp [h]
  · by_cases h : scale.y = 0
    · right
      simp [h]
    · left
      simp [h]

/-- The divisors of SetTexinfo_QuakeEd_New: the scale matrix holds 1 / s0 and
1 / s1 where s0, s1 are the scales, or 1 for a scale that is 0. -/
theorem SetTexinfo_QuakeEd_New_divisors (opts : qbsp_options_t K) (m : libm K)
    (plane : qplane3 K) (shift : qvec2 K) (rotate : K) (scale : qvec2 K) :
    ∃ (axes : Nat × Nat) (flips : qmat2x2 K) (s0 s1 : K), s0 ≠ 0 ∧ s1 ≠ 0 ∧
      (s0 = scale.x ∨ (scale.x = 0 ∧ s0 = 1)) ∧ (s1 = scale.y ∨ (scale.y = 0 ∧ s1 = 1)) ∧
      SetTexinfo_QuakeEd_New opts m plane shift rotate scale =
        SetTexinfo_QuakeEd_New_copy axes
          (((((scale2x2 m (1 / s0) (1 / s1)).mul (rotation2x2_deg m rotate)).to_float m).mul
            flips).to_float m) shift := by
  unfold SetTexinfo_QuakeEd_New
  dsimp only
  refine ⟨_, _, if scale.x ≠ 0 then scale.x else 1, if scale.y ≠ 0 then scale.y else 1,
    ?_, ?_, ?_, ?_, rfl⟩
  · split_ifs with h
    · exact h
    · exact one_ne_zero
  · split_ifs with h
    · exact h
    · exact one_ne_zero
  · by_cases h : scale.x = 0
    · right
      simp [h]
    · left
      simp [h]
  · by_cases h : scale.y = 0
    · right
      simp [h]
    · left
      simp [h]

/-- C18: for every plane, shift and rotation, SetTexinfo_QuakeEd and
SetTexinfo_QuakeEd_New called with a scale component equal to 0 write the same
texture vectors as when that component is 1; every divisor is the scale or, for
a scale 0, the number 1, so no divisor is 0; and the fourth component of each
row is the corresponding input shift. -/
theorem SetTexinfo_QuakeEd_zero_scale (opts : qbsp_options_t K) (m : libm K) (plane : qplane3 K)
    (pts : planepts_t K) (shift : qvec2 K) (rotate : K) (scale : qvec2 K) :
    SetTexinfo_QuakeEd opts m plane pts shift rotate ⟨0, scale.y⟩ =
      SetTexinfo_QuakeEd opts m plane pts shift rotate ⟨1, scale.y⟩ ∧
    SetTexinfo_QuakeEd opts m plane pts shift rotate ⟨scale.x, 0⟩ =
      SetTexinfo_QuakeEd opts m plane pts shift rotate ⟨scale.x, 1⟩ ∧
    SetTexinfo_QuakeEd_New opts m plane shift rotate ⟨0, scale.y⟩ =
      SetTexinfo_QuakeEd_New opts m plane shift rotate ⟨1, scale.y⟩ ∧
    SetTexinfo_QuakeEd_New opts m plane shift rotate ⟨scale.x, 0⟩ =
      SetTexinfo_QuakeEd_New opts m plane shift rotate ⟨scale.x, 1⟩ ∧
    (SetTexinfo_QuakeEd opts m plane pts shift rotate scale).row0.w = shift.x ∧
    (SetTexinfo_QuakeEd opts m plane pts shift rotate scale).row1.w = shift.y ∧
    (SetTexinfo_QuakeEd_New opts m plane shift rotate scale).row0.w = shift.x ∧
    (SetTexinfo_QuakeEd_New opts m plane shift rotate scale).row1.w = shift.y ∧
    (∃ (r0 r1 : qvec3 K) (s0 s1 : K), s0 ≠ 0 ∧ s1 ≠ 0 ∧
      (s0 = scale.x ∨ (scale.x = 0 ∧ s0 = 1)) ∧ (s1 = scale.y ∨ (scale.y = 0 ∧ s1 = 1)) ∧
      SetTexinfo_QuakeEd opts m plane pts shift rotate scale =
        { row0 := ⟨r0.x / s0, r0.y / s0, r0.z / s0, shift.x⟩
          row1 := ⟨r1.x / s1, r1.y / s1, r1.z / s1, shift.y⟩ }) ∧
    (∃ (axes : Nat × Nat) (flips : qmat2x2 K) (s0 s1 : K), s0 ≠ 0 ∧ s1 ≠ 0 ∧
      (s0 = scale.x ∨ (scale.x = 0 ∧ s0 = 1)) ∧ (s1 = scale.y ∨ (scale.y = 0 ∧ s1 = 1)) ∧
      SetTexinfo_QuakeEd_New opts m plane shift rotate scale =
        SetTexinfo_QuakeEd_New_copy axes
          (((((scale2x2 m (1 / s0) (1 / s1)).mul (rotation2x2_deg m rotate)).to_float m).mul
            flips).to_float m) shift) := by
  refine ⟨?_, ?_, ?_, ?_, ?_, ?_, ?_, ?_,
    SetTexinfo_QuakeEd_divisors opts m plane pts shift rotate scale,
    SetTexinfo_QuakeEd_New_divisors opts m plane shift rotate scale⟩
  · simp [SetTexinfo_QuakeEd]
  · simp [SetTexinfo_QuakeEd]
  · simp [SetTexinfo_QuakeEd_New]
  · simp [SetTexinfo_QuakeEd_New]
  · simp [SetTexinfo_QuakeEd]
  · simp [SetTexinfo_QuakeEd]
  · simp [SetTexinfo_QuakeEd_New, SetTexinfo_QuakeEd_New_copy]
  · simp [SetTexinfo_QuakeEd_New, SetTexinfo_QuakeEd_New_copy]

end scale_claims

section quark_claims
variable {K : Type} [LinearOrderedField K]

/-- SetTexinfo_QuArK takes the branch without division when the determinant is
below ZERO_EPSILON in absolute value, and writes zeros. -/
theorem SetTexinfo_QuArK_small_determinant (env : qbsp_env K) (planepts : planepts_t K)
    (type2 : Bool) (h : |SetTexinfo_QuArK_determinant planepts type2| < env.ZERO_EPSILON) :
    SetTexinfo_QuArK env planepts type2 = ⟨⟨0, 0, 0, 0⟩, ⟨0, 0, 0, 0⟩⟩ := by
  unfold SetTexinfo_QuArK_determinant SetTexinfo_QuArK_vecs at h
  dsimp only at h
  unfold SetTexinfo_QuArK
  dsimp only
  simp only [if_pos h]
  simp [qvec3.zero, qv.dot]

/-- The determinant of SetTexinfo_QuArK is zero when the cross product of the
two edge vectors from the first plane point is zero, which is the case for
collinear and for coincident points. -/
theorem SetTexinfo_QuArK_determinant_collinear (planepts : planepts_t K) (type2 : Bool)
    (h : qv.cross (planepts.p1.sub planepts.p0) (planepts.p2.sub planepts.p0) = qvec3.zero) :
    SetTexinfo_QuArK_determinant planepts type2 = 0 := by
  obtain ⟨⟨x0, y0, z0⟩, ⟨x1, y1, z1⟩, ⟨x2, y2, z2⟩⟩ := planepts
  simp only [qv.cross, qvec3.sub, qvec3.zero, qvec3.mk.injEq] at h
  obtain ⟨h1, h2, h3⟩ := h
  cases type2 <;>
  · simp only [SetTexinfo_QuArK_determinant, SetTexinfo_QuArK_vecs, qv.dot, qvec3.sub,
      qvec3.scale, if_true, if_false, Bool.false_eq_true]
    linear_combination (1 / 128 : K) ^ 4 *
      (((y1 - y0) * (z2 - z0) - (z1 - z0) * (y2 - y0)) * h1 +
       ((z1 - z0) * (x2 - x0) - (x1 - x0) * (z2 - z0)) * h2 +
       ((x1 - x0) * (y2 - y0) - (y1 - y0) * (x2 - x0)) * h3)

/-- C20: for every triple of plane points whose two QuArK texture-plane vectors
have a determinant a * d - b * c of absolute value below ZERO_EPSILON,
SetTexinfo_QuArK with style type 1 or type 2 returns the projection whose eight
components are all zero (the branch taken holds no division); with a positive
ZERO_EPSILON this is the case for collinear points and for coincident
points. -/
theorem SetTexinfo_QuArK_degenerate (env : qbsp_env K) (planepts : planepts_t K) (type2 : Bool) :
    (|SetTexinfo_QuArK_determinant planepts type2| < env.ZERO_EPSILON →
      SetTexinfo_QuArK env planepts type2 = ⟨⟨0, 0, 0, 0⟩, ⟨0, 0, 0, 0⟩⟩) ∧
    (0 < env.ZERO_EPSILON →
      qv.cross (planepts.p1.sub planepts.p0) (planepts.p2.sub planepts.p0) = qvec3.zero →
      SetTexinfo_QuArK env planepts type2 = ⟨⟨0, 0, 0, 0⟩, ⟨0, 0, 0, 0⟩⟩) ∧
    (0 < env.ZERO_EPSILON → planepts.p1 = planepts.p0 → planepts.p2 = planepts.p0 →
      SetTexinfo_QuArK env planepts type2 = ⟨⟨0, 0, 0, 0⟩, ⟨0, 0, 0, 0⟩⟩) := by
  refine ⟨SetTexinfo_QuArK_small_determinant env planepts type2, ?_, ?_⟩
  · intro h0 hc
    apply SetTexinfo_QuArK_small_determinant
    rw [SetTexinfo_QuArK_determinant_collinear planepts type2 hc, abs_zero]
    exact h0
  · intro h0 h1 h2
    apply SetTexinfo_QuArK_small_determinant
    rw [SetTexinfo_QuArK_determinant_collinear planepts type2, abs_zero]
    · exact h0
    · rw [h1]
      simp [qv.cross, qvec3.sub, qvec3.zero]

/-- C20 (witness): three coincident points and the collinear points (0,0,0),
(1,2,3), (2,4,6) over the reals, for both styles. -/
theorem SetTexinfo_QuArK_degenerate_witness :
    (0 : ℝ) < (qbsp_env.sample : qbsp_env ℝ).ZERO_EPSILON ∧
    SetTexinfo_QuArK (qbsp_env.sample : qbsp_env ℝ) ⟨⟨1, 2, 3⟩, ⟨1, 2, 3⟩, ⟨1, 2, 3⟩⟩ false =
      ⟨⟨0, 0, 0, 0⟩, ⟨0, 0, 0, 0⟩⟩ ∧
    SetTexinfo_QuArK (qbsp_env.sample : qbsp_env ℝ) ⟨⟨0, 0, 0⟩, ⟨1, 2, 3⟩, ⟨2, 4, 6⟩⟩ true =
      ⟨⟨0, 0, 0, 0⟩, ⟨0, 0, 0, 0⟩⟩ :=
  have h0 : (0 : ℝ) < (qbsp_env.sample : qbsp_env ℝ).ZERO_EPSILON := by
    norm_num [qbsp_env.sample]
  ⟨h0,
    (SetTexinfo_QuArK_degenerate qbsp_env.sample ⟨⟨1, 2, 3⟩, ⟨1, 2, 3⟩, ⟨1, 2, 3⟩⟩ false).2.2
      h0 rfl rfl,
    (SetTexinfo_QuArK_degenerate qbsp_env.sample ⟨⟨0, 0, 0⟩, ⟨1, 2, 3⟩, ⟨2, 4, 6⟩⟩ true).2.1
      h0 (by norm_num [qv.cross, qvec3.sub, qvec3.zero])⟩

end quark_claims

section lmshift_claims
variable {K : Type} [LinearOrderedField K]

end lmshift_claims

section planes_claims
variable {K : Type} [LinearOrderedField K]

/-- XOR with 1 exchanges 2k and 2k + 1. -/
theorem xor_one_even (k : Nat) : (2 * k) ^^^ 1 = 2 * k + 1 := by
  apply Nat.eq_of_testBit_eq
  intro i
  rw [Nat.testBit_xor]
  cases i with
  | zero =>
    simp only [Nat.testBit_zero]
    have h1 : (2 * k) % 2 = 0 := by omega
    have h2 : (2 * k + 1) % 2 = 1 := by omega
    simp [h1, h2]
  | succ i =>
    simp only [Nat.testBit_succ]
    have h1 : (2 * k) / 2 = k := by omega
    have h2 : (2 * k + 1) / 2 = k := by omega
    simp [h1, h2]

theorem xor_one_odd (k : Nat) : (2 * k + 1) ^^^ 1 = 2 * k := by
  rw [← xor_one_even k, Nat.xor_assoc, Nat.xor_self, Nat.xor_zero]

theorem xor_one_xor_one (i : Nat) : (i ^^^ 1) ^^^ 1 = i := by
  rw [Nat.xor_assoc, Nat.xor_self, Nat.xor_zero]

/-- Clearing the lowest bit gives the same number for i and i XOR 1, and that
number is i or i XOR 1. -/
theorem xor_one_clear_bit (i : Nat) :
    (i ^^^ 1) / 2 * 2 = i / 2 * 2 ∧ (i / 2 * 2 = i ∨ i / 2 * 2 = i ^^^ 1) := by
  rcases Nat.even_or_odd' i with ⟨k, hk | hk⟩
  · rw [hk, xor_one_even]
    constructor
    · omega
    · left
      omega
  · rw [hk, xor_one_odd]
    constructor
    · omega
    · right
      omega

theorem qplane3_neg_neg (p : qplane3 K) : p.neg.neg = p := by
  simp [qplane3.neg, qvec3.neg]

/-- A paired plane table has even length. -/
theorem PlanesPaired_even_length {planes : List (qplane3 K)} (h : PlanesPaired planes) :
    planes.length % 2 = 0 := by
  by_contra hodd
  have hpos : 0 < planes.length := by omega
  obtain ⟨k, hk⟩ : ∃ k, planes.length = 2 * k + 1 := ⟨planes.length / 2, by omega⟩
  have := (h (2 * k) (by omega)).1
  rw [xor_one_even] at this
  omega

theorem PlanesPaired_nil : PlanesPaired ([] : List (qplane3 K)) := by
  intro i hi
  exact absurd hi (Nat.not_lt_zero i)

/-- Appending a plane and its negation keeps the table paired. -/
theorem PlanesPaired_append {planes : List (qplane3 K)} (h : PlanesPaired planes)
    (p : qplane3 K) : PlanesPaired (planes ++ [p, p.neg]) := by
  have heven := PlanesPaired_even_length h
  obtain ⟨k, hk⟩ : ∃ k, planes.length = 2 * k := ⟨planes.length / 2, by omega⟩
  intro i hi
  rw [List.length_append] at hi
  simp only [List.length_cons, List.length_nil] at hi
  by_cases hlt : i < planes.length
  · obtain ⟨h1, h2⟩ := h i hlt
    refine ⟨?_, ?_⟩
    · rw [List.length_append]
      omega
    · unfold get_plane at h2 ⊢
      rw [List.getD_append _ _ _ _ h1, List.getD_append _ _ _ _ hlt]
      exact h2
  · have hi2 : i = 2 * k ∨ i = 2 * k + 1 := by omega
    rcases hi2 with rfl | rfl
    · rw [xor_one_even]
      refine ⟨?_, ?_⟩
      · rw [List.length_append]
        simp only [List.length_cons, List.length_nil]
        omega
      · unfold get_plane
        rw [List.getD_append_right _ _ _ _ (by omega), List.getD_append_right _ _ _ _ (by omega)]
        have e1 : 2 * k + 1 - planes.length = 1 := by omega
        have e2 : 2 * k - planes.length = 0 := by omega
        rw [e1, e2]
        rfl
    · rw [xor_one_odd]
      refine ⟨?_, ?_⟩
      · rw [List.length_append]
        simp only [List.length_cons, List.length_nil]
        omega
      · unfold get_plane
        rw [List.getD_append_right _ _ _ _ (by omega), List.getD_append_right _ _ _ _ (by omega)]
        have e1 : 2 * k + 1 - planes.length = 1 := by omega
        have e2 : 2 * k - planes.length = 0 := by omega
        rw [e1, e2]
        exact (qplane3_neg_neg p).symm

/-- A plane of the table is found again at its first index in every extension
of the table. -/
theorem add_or_find_plane_again (planes planes2 : List (qplane3 K)) (p : qplane3 K)
    (hp : p ∈ planes) (hpre : planes <+: planes2) :
    add_or_find_plane planes2 p = (planes2, planes.indexOf p) := by
  obtain ⟨t, rfl⟩ := hpre
  unfold add_or_find_plane
  rw [if_pos (List.mem_append_left _ hp), List.indexOf_append_of_mem hp]

/-- C12: in a plane table in which every index i is paired with i XOR 1
(as in the empty table), add_or_find_plane returns an index of the new table at
which the plane is stored, the plane stored at that index XOR 1 is the negation
of the plane, and the new table extends the old one and is paired again, so
for every index i of it the plane at i XOR 1 is the negation of the plane at i,
(i XOR 1) XOR 1 is i, and get_positive_plane gives faces with the plane numbers i
and i XOR 1 the same plane, which is the plane at i or its negation; looking up
the same plane again, also after other planes were added, returns the same
index and leaves the table unchanged. -/
theorem add_or_find_plane_flipped (planes : List (qplane3 K)) (hp : PlanesPaired planes)
    (p : qplane3 K) :
    (add_or_find_plane planes p).2 < (add_or_find_plane planes p).1.length ∧
    get_plane (add_or_find_plane planes p).1 (add_or_find_plane planes p).2 = p ∧
    get_plane (add_or_find_plane planes p).1 ((add_or_find_plane planes p).2 ^^^ 1) = p.neg ∧
    planes <+: (add_or_find_plane planes p).1 ∧
    (∀ i, i < (add_or_find_plane planes p).1.length →
      i ^^^ 1 < (add_or_find_plane planes p).1.length ∧ (i ^^^ 1) ^^^ 1 = i ∧
      get_plane (add_or_find_plane planes p).1 (i ^^^ 1) =
        (get_plane (add_or_find_plane planes p).1 i).neg ∧
      (∀ f : mapface_t K,
        mapface_t.get_positive_plane (add_or_find_plane planes p).1 { f with planenum := i ^^^ 1 } =
          mapface_t.get_positive_plane (add_or_find_plane planes p).1 { f with planenum := i } ∧
        (mapface_t.get_positive_plane (add_or_find_plane planes p).1 { f with planenum := i } =
            get_plane (add_or_find_plane planes p).1 i ∨
          mapface_t.get_positive_plane (add_or_find_plane planes p).1 { f with planenum := i } =
            (get_plane (add_or_find_plane planes p).1 i).neg))) ∧
    (∀ planes2, (add_or_find_plane planes p).1 <+: planes2 →
      add_or_find_plane planes2 p = (planes2, (add_or_find_plane planes p).2)) := by
  obtain ⟨h1, h2, h3⟩ := get_plane_add_or_find planes p
  have hpaired : PlanesPaired (add_or_find_plane planes p).1 := by
    unfold add_or_find_plane
    split_ifs
    · exact hp
    · exact PlanesPaired_append hp p
  refine ⟨h2, h1, ?_, h3, ?_, ?_⟩
  · rw [(hpaired _ h2).2, h1]
  · intro i hi
    refine ⟨(hpaired i hi).1, xor_one_xor_one i, (hpaired i hi).2, ?_⟩
    intro f
    obtain ⟨c1, c2⟩ := xor_one_clear_bit i
    unfold mapface_t.get_positive_plane
    dsimp only
    refine ⟨by rw [c1], ?_⟩
    rcases c2 with c2 | c2
    · left
      rw [c2]
    · right
      rw [c2]
      exact (hpaired i hi).2
  · intro planes2 hpre
    have hmem : p ∈ (add_or_find_plane planes p).1 := by
      unfold add_or_find_plane
      split_ifs with h
      · exact h
      · simp
    rw [add_or_find_plane_again _ planes2 p hmem hpre]
    congr 1
    unfold add_or_find_plane
    split_ifs with h
    · rfl
    · dsimp only
      rw [List.indexOf_append_of_not_mem h]
      simp

/-- C12 (witness): the plane x = 1 added to the empty table gets index 0, and
its negation is stored at index 1. -/
theorem add_or_find_plane_flipped_witness :
    PlanesPaired ([] : List (qplane3 ℝ)) ∧
    (add_or_find_plane ([] : List (qplane3 ℝ)) ⟨⟨1, 0, 0⟩, 1⟩).2 = 0 ∧
    get_plane (add_or_find_plane ([] : List (qplane3 ℝ)) ⟨⟨1, 0, 0⟩, 1⟩).1
      ((add_or_find_plane ([] : List (qplane3 ℝ)) ⟨⟨1, 0, 0⟩, 1⟩).2 ^^^ 1) =
      (⟨⟨1, 0, 0⟩, 1⟩ : qplane3 ℝ).neg :=
  ⟨PlanesPaired_nil, rfl,
    (add_or_find_plane_flipped ([] : List (qplane3 ℝ)) PlanesPaired_nil ⟨⟨1, 0, 0⟩, 1⟩).2.2.1⟩

end planes_claims

section world_claims
variable {K : Type} [LinearOrderedField K]

/-- The world entity with an origin brush is valid for the example map. -/
theorem world_with_origin_brush_valid :
    ∀ e ∈ [(world_with_origin_brush : mapentity_t ℝ)], e.Valid cube_map := by
  intro e he
  rw [List.mem_singleton.mp he]
  refine ⟨by simp [cube_map], ?_⟩
  intro b hb
  simp only [world_with_origin_brush, List.mem_cons, List.mem_singleton, List.not_mem_nil,
    or_false] at hb
  rcases hb with rfl | rfl <;> exact cube_brush_valid _ rfl

/-- One entity whose rotation classification is not none after
ProcessMapBrushes: its kept brushes went through the loop "offset brush
bounds", which re-expresses every face relative to the origin of the entity. -/
theorem ProcessMapBrushes_entity_offset (env : qbsp_env K) (opts : qbsp_options_t K)
    (m : libm K) ( is_world : Bool) (map map2 : mapdata_t K) (e e2 : mapentity_t K)
    (log : List String)
    (h : ProcessMapBrushes_entity env opts m is_world map e = some (map2, e2, log))
    (hrot : e2.rotation ≠ rotation_t.none) :
    ∃ (L : Int) (st : process_state K) (brushes : List (mapbrush_t K)) (log1 : List String),
      ProcessMapBrushes_brushes env opts m is_world L
        (epairs_get e.epairs "classname" == "func_areaportal")
        { map := map, entity := { e with rotation := rotation_t.none, mapbrushes := [] },
          log := [] } e.mapbrushes = some st ∧
      ProcessMapBrushes_offset_brushes env opts e2.origin st.map st.entity.mapbrushes =
        some (map2, brushes, log1) ∧
      e2.mapbrushes = brushes.map fun brush =>
        { brush with faces := brush.faces.map fun f => { f with winding := [] } } := by
  unfold ProcessMapBrushes_entity at h
  dsimp only at h
  cases hL : entity_lmshift env { e with rotation := rotation_t.none } with
  | none =>
    rw [hL] at h
    exact absurd h (by simp)
  | some L =>
    rw [hL] at h
    dsimp only at h
    cases h1 : ProcessMapBrushes_brushes env opts m is_world L
        (epairs_get e.epairs "classname" == "func_areaportal")
        { map := map, entity := { e with rotation := rotation_t.none, mapbrushes := [] },
          log := [] } e.mapbrushes with
    | none =>
      rw [h1] at h
      exact absurd h (by simp)
    | some st =>
      rw [h1] at h
      dsimp only at h
      cases h3 : ProcessMapBrushes_offset env opts st.map
          (ProcessMapBrushes_hipnotic env st.entity) with
      | none =>
        rw [h3] at h
        exact absurd h (by simp)
      | some r =>
        obtain ⟨map3, brushes, log1⟩ := r
        rw [h3] at h
        dsimp only at h
        have h2 := Option.some.inj h
        have a1 := congrArg Prod.fst h2
        have a2 := congrArg (fun r => r.2.1) h2
        dsimp only at a1 a2
        subst a1
        rw [← a2] at hrot ⊢
        dsimp only at hrot ⊢
        unfold ProcessMapBrushes_offset at h3
        rw [if_pos hrot, (ProcessMapBrushes_hipnotic_spec env st.entity).1] at h3
        exact ⟨L, st, brushes, log1, h1, h3, rfl⟩

/-- ProcessMapBrushes on a map with one entity is the loop body for the world
entity. -/
theorem ProcessMapBrushes_single (env : qbsp_env K) (opts : qbsp_options_t K) (m : libm K)
    (map map2 : mapdata_t K) (e : mapentity_t K) (es : List (mapentity_t K))
    (log : List String) (h : ProcessMapBrushes env opts m map [e] = some (map2, es, log)) :
    ∃ e2, es = [e2] ∧ ProcessMapBrushes_entity env opts m true map e = some (map2, e2, log) := by
  unfold ProcessMapBrushes ProcessMapBrushes_entities at h
  have hw : is_world_entity 0 = true := by decide
  rw [hw] at h
  cases h1 : ProcessMapBrushes_entity env opts m true map e with
  | none =>
    rw [h1] at h
    exact absurd h (by simp)
  | some r =>
    obtain ⟨map1, e1, log1⟩ := r
    rw [h1] at h
    unfold ProcessMapBrushes_entities at h
    dsimp only at h
    have h2 := Option.some.inj h
    have a1 := congrArg Prod.fst h2
    have a2 := congrArg (fun r => r.2.1) h2
    have a3 := congrArg (fun r => r.2.2) h2
    dsimp only at a1 a2 a3
    rw [List.append_nil] at a3
    rw [← a1, ← a2, ← a3]
    exact ⟨e1, rfl, rfl⟩

/-- C11 (the code at the failing input): the world entity of the example map
holds a solid cube and an origin brush.  ProcessMapBrushes removes the origin
brush and leaves the origin and the properties of the world entity as they
were, but the rotation classification of the world entity becomes origin_brush,
and the brush that the world keeps comes out of the loop "offset brush bounds",
which re-expresses the texture shift and the plane of every face relative to
the origin of the entity. -/
theorem ProcessMapBrushes_world_origin_brush :
    is_world_entity 0 = true ∧
    (qbsp_env.sample_cube : qbsp_env ℝ).contents_is_origin
      (origin_cube : mapbrush_t ℝ).contents = true ∧
    ∃ map2 entities2 log e2,
      ProcessMapBrushes qbsp_env.sample_cube qbsp_options_t.sample libm.real cube_map
        [(world_with_origin_brush : mapentity_t ℝ)] = some (map2, entities2, log) ∧
      entities2[0]? = some e2 ∧
      e2.mapbrushes.map (fun b => b.line) = [3] ∧
      e2.origin = (world_with_origin_brush : mapentity_t ℝ).origin ∧
      e2.epairs = (world_with_origin_brush : mapentity_t ℝ).epairs ∧
      e2.rotation = rotation_t.origin_brush ∧ e2.rotation ≠ rotation_t.none ∧
      ∃ (st : process_state ℝ) (brushes : List (mapbrush_t ℝ)) (log1 : List String),
        ProcessMapBrushes_offset_brushes qbsp_env.sample_cube qbsp_options_t.sample e2.origin
          st.map st.entity.mapbrushes = some (map2, brushes, log1) ∧
        e2.mapbrushes = brushes.map fun brush =>
          { brush with faces := brush.faces.map fun f => { f with winding := [] } } := by
  have horg : (qbsp_env.sample_cube : qbsp_env ℝ).contents_is_origin
      (origin_cube : mapbrush_t ℝ).contents = true := by
    simp [qbsp_env.sample_cube, qbsp_env.sample, origin_cube]
  have hsolid : (qbsp_env.sample_cube : qbsp_env ℝ).contents_is_origin
      ({ (cube_brush : mapbrush_t ℝ) with line := 3 } : mapbrush_t ℝ).contents = false := by
    simp [qbsp_env.sample_cube, qbsp_env.sample, cube_brush, mapbrush_t.default]
  obtain ⟨map2, entities2, log, hrun, hall⟩ := ProcessMapBrushes_spec qbsp_env.sample_cube
    qbsp_options_t.sample libm.real qbsp_env.sample_cube_findTexinfoGrows cube_map
    [(world_with_origin_brush : mapentity_t ℝ)] world_with_origin_brush_valid
  obtain ⟨e2, hn2, hkeys, hfirst⟩ := hall 0 world_with_origin_brush rfl
  obtain ⟨hrot, _, hkeep⟩ := hfirst [{ (cube_brush : mapbrush_t ℝ) with line := 3 }] origin_cube []
    rfl (by intro b hb; rw [List.mem_singleton.mp hb]; exact hsolid) horg
  obtain ⟨ho, he⟩ := hkeep (Or.inl (by decide))
  have hnone : e2.rotation ≠ rotation_t.none := by
    rw [hrot]
    decide
  obtain ⟨e3, hes, hent⟩ := ProcessMapBrushes_single _ _ _ _ _ _ _ _ hrun
  have he3 : e3 = e2 := by
    rw [hes] at hn2
    exact Option.some.inj hn2
  subst he3
  obtain ⟨_, st, brushes, log1, _, hoff, hbr⟩ :=
    ProcessMapBrushes_entity_offset _ _ _ _ _ _ _ _ _ hent hnone
  refine ⟨by decide, horg, map2, entities2, log, e3, hrun, hn2, ?_, ho, he, hrot, hnone,
    st, brushes, log1, hoff, hbr⟩
  have hk : (world_with_origin_brush : mapentity_t ℝ).mapbrushes.filter
      (fun b => !(qbsp_env.sample_cube : qbsp_env ℝ).contents_is_origin b.contents) =
      [{ (cube_brush : mapbrush_t ℝ) with line := 3 }] := by
    simp [world_with_origin_brush, horg, hsolid]
  rw [hk] at hkeys
  have := congrArg (List.map Prod.fst) hkeys
  simpa using this

end world_claims

section areaportal_claims
variable {K : Type} [LinearOrderedField K]

/-- One call of ProcessAreaPortal on an entity that is not an area portal. -/
theorem ProcessAreaPortal_other (Q2_CONTENTS_AREAPORTAL : Int) (skip_texinfo n : Nat)
    (e : mapentity_t K) (h : e.is_areaportal = false) :
    ProcessAreaPortal false Q2_CONTENTS_AREAPORTAL skip_texinfo n e = some (n, e) := by
  unfold mapentity_t.is_areaportal at h
  have h2 : Q_strcasecmp (epairs_get e.epairs "classname") "func_areaportal" ≠ 0 := by
    simpa using h
  unfold ProcessAreaPortal
  simp only [Bool.false_eq_true, if_false]
  rw [if_pos h2]

/-- One call of ProcessAreaPortal on an area portal with exactly one brush. -/
theorem ProcessAreaPortal_portal (Q2_CONTENTS_AREAPORTAL : Int) (skip_texinfo n : Nat)
    (e : mapentity_t K) (h : e.is_areaportal = true) (h1 : e.mapbrushes.length = 1) :
    ∃ e1, ProcessAreaPortal false Q2_CONTENTS_AREAPORTAL skip_texinfo n e = some (n + 1, e1) ∧
      e1.areaportalnum = n + 1 ∧
      e1.epairs = epairs_set e.epairs "style" (toString (n + 1)) ∧
      e1.mapbrushes.length = 1 ∧
      ∀ b ∈ e1.mapbrushes, b.contents.native = Q2_CONTENTS_AREAPORTAL ∧
        ∀ f ∈ b.faces, f.contents.native = Q2_CONTENTS_AREAPORTAL ∧ f.texinfo = skip_texinfo := by
  unfold mapentity_t.is_areaportal at h
  have h2 : ¬ Q_strcasecmp (epairs_get e.epairs "classname") "func_areaportal" ≠ 0 := by
    simpa using h
  unfold ProcessAreaPortal
  simp only [Bool.false_eq_true, if_false]
  rw [if_neg h2, if_neg (by rw [h1]; exact fun h => h rfl)]
  refine ⟨_, rfl, rfl, rfl, ?_, ?_⟩
  · simp [h1]
  · intro b hb
    dsimp only at hb
    obtain ⟨b0, _, rfl⟩ := List.mem_map.mp hb
    refine ⟨rfl, ?_⟩
    intro f hf
    dsimp only at hf
    obtain ⟨f0, _, rfl⟩ := List.mem_map.mp hf
    exact ⟨rfl, rfl⟩

/-- One call of ProcessAreaPortal on an area portal fails exactly when the
entity does not have exactly one brush. -/
theorem ProcessAreaPortal_fatal (Q2_CONTENTS_AREAPORTAL : Int) (skip_texinfo n : Nat)
    (e : mapentity_t K) (h : e.is_areaportal = true) :
    ProcessAreaPortal false Q2_CONTENTS_AREAPORTAL skip_texinfo n e = none ↔
      e.mapbrushes.length ≠ 1 := by
  constructor
  · intro hnone h1
    obtain ⟨e1, he1, _⟩ := ProcessAreaPortal_portal Q2_CONTENTS_AREAPORTAL skip_texinfo n e h h1
    rw [he1] at hnone
    exact absurd hnone (by simp)
  · intro h1
    unfold mapentity_t.is_areaportal at h
    have h2 : ¬ Q_strcasecmp (epairs_get e.epairs "classname") "func_areaportal" ≠ 0 := by
      simpa using h
    unfold ProcessAreaPortal
    simp only [Bool.false_eq_true, if_false]
    rw [if_neg h2, if_pos h1]

/-- Successive calls of ProcessAreaPortal: the area portals among the entities
get, in their order, the numbers that follow the start value of the counter,
and the counter ends at the last number given. -/
theorem ProcessAreaPortal_entities_numbers (Q2_CONTENTS_AREAPORTAL : Int) (skip_texinfo : Nat) :
    ∀ (entities entities1 : List (mapentity_t K)) (n n1 : Nat),
      ProcessAreaPortal_entities false Q2_CONTENTS_AREAPORTAL skip_texinfo n entities =
        some (n1, entities1) →
      entities1.length = entities.length ∧
      n1 = n + (entities.filter fun e => e.is_areaportal).length ∧
      (((entities.zip entities1).filter fun p => p.1.is_areaportal).map
          fun p => p.2.areaportalnum) =
        List.range' (n + 1) (entities.filter fun e => e.is_areaportal).length ∧
      (((entities.zip entities1).filter fun p => !p.1.is_areaportal).map fun p => p.2) =
        entities.filter fun e => !e.is_areaportal := by
  intro entities
  induction entities with
  | nil =>
    intro entities1 n n1 h
    unfold ProcessAreaPortal_entities at h
    have h2 := Option.some.inj h
    have ha := congrArg Prod.fst h2
    have hb := congrArg Prod.snd h2
    dsimp only at ha hb
    rw [← ha, ← hb]
    simp
  | cons e rest ih =>
    intro entities1 n n1 h
    unfold ProcessAreaPortal_entities at h
    cases h1 : ProcessAreaPortal false Q2_CONTENTS_AREAPORTAL skip_texinfo n e with
    | none =>
      rw [h1] at h
      exact absurd h (by simp)
    | some r =>
      obtain ⟨k, e1⟩ := r
      rw [h1] at h
      dsimp only at h
      cases h3 : ProcessAreaPortal_entities false Q2_CONTENTS_AREAPORTAL skip_texinfo k rest with
      | none =>
        rw [h3] at h
        exact absurd h (by simp)
      | some r2 =>
        obtain ⟨k2, rest1⟩ := r2
        rw [h3] at h
        dsimp only at h
        have h2 := Option.some.inj h
        have ha := congrArg Prod.fst h2
        have hb := congrArg Prod.snd h2
        dsimp only at ha hb
        obtain ⟨i1, i2, i3, i4⟩ := ih rest1 k k2 h3
        rw [← ha, ← hb]
        cases hap : e.is_areaportal with
        | false =>
          rw [ProcessAreaPortal_other Q2_CONTENTS_AREAPORTAL skip_texinfo n e hap] at h1
          have h5 := Option.some.inj h1
          have hk : n = k := congrArg Prod.fst h5
          have he : e = e1 := congrArg Prod.snd h5
          subst hk
          subst he
          simp [hap, i1, i2, i3, i4]
        | true =>
          have hlen : e.mapbrushes.length = 1 := by
            by_contra hne
            rw [(ProcessAreaPortal_fatal Q2_CONTENTS_AREAPORTAL skip_texinfo n e hap).mpr hne] at h1
            exact absurd h1 (by simp)
          obtain ⟨e1b, he1, hnum, _⟩ :=
            ProcessAreaPortal_portal Q2_CONTENTS_AREAPORTAL skip_texinfo n e hap hlen
          rw [he1] at h1
          have h5 := Option.some.inj h1
          have hk : n + 1 = k := congrArg Prod.fst h5
          have he : e1b = e1 := congrArg Prod.snd h5
          subst hk
          subst he
          simp only [List.length_cons, i1, List.zip_cons_cons, List.filter_cons, hap, if_true,
            List.map_cons, hnum, i3, Bool.not_true, Bool.false_eq_true, if_false, i4, true_and]
          refine ⟨by omega, ?_⟩
          simp [List.range'_succ]

/-- Successive calls of ProcessAreaPortal return when every area portal among
the entities has exactly one brush. -/
theorem ProcessAreaPortal_entities_returns (Q2_CONTENTS_AREAPORTAL : Int) (skip_texinfo : Nat) :
    ∀ (entities : List (mapentity_t K)) (n : Nat),
      (∀ e ∈ entities, e.is_areaportal = true → e.mapbrushes.length = 1) →
      ∃ n1 entities1,
        ProcessAreaPortal_entities false Q2_CONTENTS_AREAPORTAL skip_texinfo n entities =
          some (n1, entities1) := by
  intro entities
  induction entities with
  | nil =>
    intro n _
    exact ⟨n, [], rfl⟩
  | cons e rest ih =>
    intro n hall
    unfold ProcessAreaPortal_entities
    cases hap : e.is_areaportal with
    | false =>
      rw [ProcessAreaPortal_other Q2_CONTENTS_AREAPORTAL skip_texinfo n e hap]
      dsimp only
      obtain ⟨n1, r1, h1⟩ := ih n (fun x hx => hall x (List.mem_cons_of_mem _ hx))
      rw [h1]
      exact ⟨_, _, rfl⟩
    | true =>
      obtain ⟨e1, he1, _⟩ := ProcessAreaPortal_portal Q2_CONTENTS_AREAPORTAL skip_texinfo n e hap
        (hall e (List.mem_cons_self _ _) hap)
      rw [he1]
      dsimp only
      obtain ⟨n1, r1, h1⟩ := ih (n + 1) (fun x hx => hall x (List.mem_cons_of_mem _ hx))
      rw [h1]
      exact ⟨_, _, rfl⟩

/-- C16: when the option onlyents is off, as the function asserts,
ProcessAreaPortal returns an entity whose classname is not func_areaportal
(compared ignoring case) unchanged, together with the unchanged portal counter;
for a func_areaportal entity it fails exactly when the entity does not have
exactly one brush; on success the counter is incremented by one and the new
value is stored as areaportalnum and, as a decimal string, as the property
"style"; in successive calls on a list of entities the area portals get the
numbers n + 1, n + 2, ... in their order, without repetition, so 1, 2, 3, ...
from the start value 0, and all other entities are unchanged. -/
theorem ProcessAreaPortal_spec (onlyents : Bool) (hon : onlyents = false)
    (Q2_CONTENTS_AREAPORTAL : Int) (skip_texinfo n : Nat) (e : mapentity_t K) :
    (e.is_areaportal = false →
      ProcessAreaPortal onlyents Q2_CONTENTS_AREAPORTAL skip_texinfo n e = some (n, e)) ∧
    (e.is_areaportal = true →
      (ProcessAreaPortal onlyents Q2_CONTENTS_AREAPORTAL skip_texinfo n e = none ↔
        e.mapbrushes.length ≠ 1)) ∧
    (e.is_areaportal = true → e.mapbrushes.length = 1 →
      ∃ e1, ProcessAreaPortal onlyents Q2_CONTENTS_AREAPORTAL skip_texinfo n e =
          some (n + 1, e1) ∧
        e1.areaportalnum = n + 1 ∧
        e1.epairs = epairs_set e.epairs "style" (toString (n + 1)) ∧
        epairs_get e1.epairs "style" = toString (n + 1) ∧
        ∀ b ∈ e1.mapbrushes, b.contents.native = Q2_CONTENTS_AREAPORTAL ∧
          ∀ f ∈ b.faces, f.contents.native = Q2_CONTENTS_AREAPORTAL ∧
            f.texinfo = skip_texinfo) ∧
    (∀ entities : List (mapentity_t K),
      (∀ x ∈ entities, x.is_areaportal = true → x.mapbrushes.length = 1) →
      ∃ n1 entities1,
        ProcessAreaPortal_entities onlyents Q2_CONTENTS_AREAPORTAL skip_texinfo n entities =
          some (n1, entities1) ∧
        n1 = n + (entities.filter fun x => x.is_areaportal).length ∧
        (((entities.zip entities1).filter fun p => p.1.is_areaportal).map
            fun p => p.2.areaportalnum) =
          List.range' (n + 1) (entities.filter fun x => x.is_areaportal).length ∧
        (((entities.zip entities1).filter fun p => p.1.is_areaportal).map
            fun p => p.2.areaportalnum).Nodup ∧
        (((entities.zip entities1).filter fun p => !p.1.is_areaportal).map fun p => p.2) =
          entities.filter fun x => !x.is_areaportal) := by
  subst hon
  refine ⟨ProcessAreaPortal_other Q2_CONTENTS_AREAPORTAL skip_texinfo n e,
    ProcessAreaPortal_fatal Q2_CONTENTS_AREAPORTAL skip_texinfo n e, ?_, ?_⟩
  · intro hap hlen
    obtain ⟨e1, he1, hnum, hep, _, hb⟩ :=
      ProcessAreaPortal_portal Q2_CONTENTS_AREAPORTAL skip_texinfo n e hap hlen
    refine ⟨e1, he1, hnum, hep, ?_, hb⟩
    rw [hep]
    exact epairs_get_set _ _ _
  · intro entities hall
    obtain ⟨n1, entities1, hrun⟩ :=
      ProcessAreaPortal_entities_returns Q2_CONTENTS_AREAPORTAL skip_texinfo entities n hall
    obtain ⟨_, i2, i3, i4⟩ :=
      ProcessAreaPortal_entities_numbers Q2_CONTENTS_AREAPORTAL skip_texinfo entities entities1
        n n1 hrun
    refine ⟨n1, entities1, hrun, i2, i3, ?_, i4⟩
    rw [i3]
    exact List.nodup_range' _ _

/-- C16 (witness): the entity with classname "FUNC_AreaPortal" and one brush
gets the portal number 1 and the property "style" "1" from the counter 0. -/
theorem ProcessAreaPortal_spec_witness :
    (example_areaportal : mapentity_t ℝ).is_areaportal = true ∧
    (example_areaportal : mapentity_t ℝ).mapbrushes.length = 1 ∧
    ∃ e1, ProcessAreaPortal false 32768 0 0 (example_areaportal : mapentity_t ℝ) =
        some (0 + 1, e1) ∧
      e1.areaportalnum = 0 + 1 ∧
      e1.epairs = epairs_set (example_areaportal : mapentity_t ℝ).epairs "style" (toString (0 + 1)) ∧
      epairs_get e1.epairs "style" = toString (0 + 1) ∧
      ∀ b ∈ e1.mapbrushes, b.contents.native = 32768 ∧
        ∀ f ∈ b.faces, f.contents.native = 32768 ∧ f.texinfo = 0 :=
  have hap : (example_areaportal : mapentity_t ℝ).is_areaportal = true := by decide
  ⟨hap, rfl,
    (ProcessAreaPortal_spec false rfl 32768 0 0 (example_areaportal : mapentity_t ℝ)).2.2.1
      hap rfl⟩

end areaportal_claims

section texinfo_claims
variable {K : Type} [LinearOrderedField K]

theorem filter_length_lt {α : Type} (P Q : α → Bool) (hQP : ∀ x, Q x = true → P x = true) :
    ∀ (l : List α) (a : α), a ∈ l → P a = true → Q a = false →
      (l.filter Q).length < (l.filter P).length := by
  intro l
  induction l with
  | nil =>
    intro a ha
    exact absurd ha (List.not_mem_nil a)
  | cons x xs ih =>
    intro a ha hP hQ
    have hle : (xs.filter Q).length ≤ (xs.filter P).length := by
      clear ih ha
      induction xs with
      | nil => simp
      | cons y ys ih2 =>
        simp only [List.filter_cons]
        by_cases hy : Q y = true
        · rw [if_pos hy, if_pos (hQP y hy)]
          simp only [List.length_cons]
          omega
        · rw [if_neg hy]
          split_ifs
          · simp only [List.length_cons]
            omega
          · exact ih2
    rcases List.mem_cons.mp ha with rfl | hmem
    · simp only [List.filter_cons, hP, hQ, if_true, Bool.false_eq_true, if_false,
        List.length_cons]
      omega
    · have := ih a hmem hP hQ
      simp only [List.filter_cons]
      by_cases hx : Q x = true
      · rw [if_pos hx, if_pos (hQP x hx)]
        simp only [List.length_cons]
        omega
      · rw [if_neg hx]
        split_ifs
        · simp only [List.length_cons]
          omega
        · exact this

/-- The lookup after the insertion of a new key. -/
theorem mtexinfo_lookup_find_insert (lookup : List (maptexinfo_t K × Nat))
    (t t2 : maptexinfo_t K) (n : Nat) :
    mtexinfo_lookup_find (lookup ++ [(t, n)]) t2 =
      match mtexinfo_lookup_find lookup t2 with
      | some i => some i
      | none => if t.as_tuple = t2.as_tuple then some n else none := by
  unfold mtexinfo_lookup_find
  rw [List.find?_append]
  cases h : lookup.find? fun kv => decide (kv.1.as_tuple = t2.as_tuple) with
  | some kv => simp
  | none =>
    simp only [Option.none_or, Option.map_none', List.find?_cons, List.find?_nil]
    by_cases he : t.as_tuple = t2.as_tuple
    · simp [he]
    · simp [he]

/-- A key that is found is found with the same index after further keys are
added. -/
theorem mtexinfo_lookup_find_extended (lookup lookup2 : List (maptexinfo_t K × Nat))
    (t : maptexinfo_t K) (i : Nat) (hpre : lookup <+: lookup2)
    (h : mtexinfo_lookup_find lookup t = some i) : mtexinfo_lookup_find lookup2 t = some i := by
  obtain ⟨r, rfl⟩ := hpre
  unfold mtexinfo_lookup_find at h ⊢
  rw [List.find?_append]
  cases hf : lookup.find? fun kv => decide (kv.1.as_tuple = t.as_tuple) with
  | some kv =>
    rw [hf] at h
    simpa using h
  | none =>
    rw [hf] at h
    exact absurd h (by simp)

/-- Inserting a texinfo whose key was missing lowers the bound on the depth of
the recursion. -/
theorem FindTexinfo_missing_insert (miptex : List maptexdata_t)
    (lookup : List (maptexinfo_t K × Nat)) (t : maptexinfo_t K) (n : Nat)
    (hnone : mtexinfo_lookup_find lookup t = none) (hlt : t.miptex < miptex.length) :
    FindTexinfo_missing miptex (lookup ++ [(t, n)]) t < FindTexinfo_missing miptex lookup t := by
  unfold FindTexinfo_missing
  apply filter_length_lt _ _ _ _ t.miptex (List.mem_range.mpr hlt)
  · have e : ({ t with miptex := t.miptex } : maptexinfo_t K) = t := rfl
    rw [e, hnone]
    rfl
  · have e : ({ t with miptex := t.miptex } : maptexinfo_t K) = t := rfl
    rw [e, mtexinfo_lookup_find_insert, hnone]
    simp
  · intro p hp
    rw [mtexinfo_lookup_find_insert] at hp
    cases hf : mtexinfo_lookup_find lookup { t with miptex := p } with
    | none => rfl
    | some i =>
      rw [hf] at hp
      simp at hp

theorem FindTexinfo_missing_miptex (miptex : List maptexdata_t)
    (lookup : List (maptexinfo_t K × Nat)) (t : maptexinfo_t K) (p : Nat) :
    FindTexinfo_missing miptex lookup { t with miptex := p } =
      FindTexinfo_missing miptex lookup t := rfl

/-- FindTexinfo returns when the bound on the depth of the recursion is at
least the number of textures whose texinfo is missing in the lookup. -/
theorem FindTexinfo_fuel_returns (miptex : List maptexdata_t) (hc : miptex_closed miptex) :
    ∀ (fuel : Nat) (tb : texinfo_tables K) (t : maptexinfo_t K),
      (mtexinfo_lookup_find tb.mtexinfo_lookup t ≠ none ∨ t.miptex < miptex.length) →
      FindTexinfo_missing miptex tb.mtexinfo_lookup t ≤ fuel →
      ∃ r, FindTexinfo_fuel miptex fuel tb t = some r := by
  intro fuel
  induction fuel with
  | zero =>
    intro tb t hin hfuel
    unfold FindTexinfo_fuel
    cases hf : mtexinfo_lookup_find tb.mtexinfo_lookup t with
    | some i => exact ⟨_, rfl⟩
    | none =>
      have hlt : t.miptex < miptex.length := by
        rcases hin with hin | hin
        · exact absurd hf hin
        · exact hin
      have := FindTexinfo_missing_insert miptex tb.mtexinfo_lookup t tb.mtexinfos.length hf hlt
      omega
  | succ fuel ih =>
    intro tb t hin hfuel
    unfold FindTexinfo_fuel
    cases hf : mtexinfo_lookup_find tb.mtexinfo_lookup t with
    | some i => exact ⟨_, rfl⟩
    | none =>
      have hlt : t.miptex < miptex.length := by
        rcases hin with hin | hin
        · exact absurd hf hin
        · exact hin
      have hdec := FindTexinfo_missing_insert miptex tb.mtexinfo_lookup t tb.mtexinfos.length
        hf hlt
      dsimp only
      rw [List.getElem?_eq_getElem hlt]
      dsimp only
      cases hp : (miptex[t.miptex]).animation_miptex with
      | none => exact ⟨_, rfl⟩
      | some p =>
        dsimp only
        have hpl : p < miptex.length := hc _ (List.getElem_mem hlt) p hp
        obtain ⟨r, hr⟩ := ih (FindTexinfo_insert tb t) { t with miptex := p } (Or.inr hpl) (by
          rw [FindTexinfo_missing_miptex]
          unfold FindTexinfo_insert
          dsimp only
          omega)
        rw [hr]
        exact ⟨_, rfl⟩

/-- The tables after the insertion of a texinfo whose key was missing. -/
theorem FindTexinfo_insert_spec (tb : texinfo_tables K) (t : maptexinfo_t K) (hok : tb.Ok)
    (hnone : mtexinfo_lookup_find tb.mtexinfo_lookup t = none) :
    (FindTexinfo_insert tb t).Ok ∧
    (FindTexinfo_insert tb t).mtexinfos.length = tb.mtexinfos.length + 1 ∧
    (∀ k, k < tb.mtexinfos.length →
      (FindTexinfo_insert tb t).mtexinfos[k]? = tb.mtexinfos[k]?) ∧
    tb.mtexinfo_lookup <+: (FindTexinfo_insert tb t).mtexinfo_lookup ∧
    (FindTexinfo_insert tb t).mtexinfos[tb.mtexinfos.length]? = some t ∧
    mtexinfo_lookup_find (FindTexinfo_insert tb t).mtexinfo_lookup t =
      some tb.mtexinfos.length := by
  unfold FindTexinfo_insert
  dsimp only
  refine ⟨?_, by simp, ?_, List.prefix_append _ _, by simp, ?_⟩
  · intro kv hkv
    dsimp only at hkv ⊢
    rcases List.mem_append.mp hkv with h | h
    · obtain ⟨e, he, hs⟩ := hok kv h
      refine ⟨e, ?_, hs⟩
      have hlt : kv.2 < tb.mtexinfos.length := by
        by_contra hge
        rw [List.getElem?_eq_none (not_lt.mp hge)] at he
        exact absurd he (by simp)
      rw [List.getElem?_append_left hlt]
      exact he
    · rw [List.mem_singleton] at h
      rw [h]
      exact ⟨t, by simp, rfl, rfl, rfl, rfl⟩
  · intro k hk
    rw [List.getElem?_append_left hk]
  · rw [mtexinfo_lookup_find_insert, hnone]
    simp

/-- The tables after the assignment of the next link of entry num_texinfo. -/
theorem FindTexinfo_link_spec (tb : texinfo_tables K) (num j : Nat) :
    (FindTexinfo_link tb num j).mtexinfo_lookup = tb.mtexinfo_lookup ∧
    (FindTexinfo_link tb num j).mtexinfos.length = tb.mtexinfos.length ∧
    (∀ k, k ≠ num → (FindTexinfo_link tb num j).mtexinfos[k]? = tb.mtexinfos[k]?) ∧
    (∀ e, tb.mtexinfos[num]? = some e →
      (FindTexinfo_link tb num j).mtexinfos[num]? = some { e with next := some j }) := by
  unfold FindTexinfo_link
  cases h : tb.mtexinfos[num]? with
  | none =>
    dsimp only
    refine ⟨rfl, rfl, fun k _ => rfl, ?_⟩
    intro e he
    exact absurd he (by simp)
  | some e0 =>
    dsimp only
    have hlt : num < tb.mtexinfos.length := by
      by_contra hge
      rw [List.getElem?_eq_none (not_lt.mp hge)] at h
      exact absurd h (by simp)
    refine ⟨rfl, by simp, ?_, ?_⟩
    · intro k hk
      rw [List.getElem?_set_ne (Ne.symm hk)]
    · intro e he
      have : e0 = e := Option.some.inj he
      subst this
      rw [List.getElem?_set_self hlt]

/-- Every entry keeps its texture vectors, flags, value and texture index when a
next link is assigned. -/
theorem FindTexinfo_link_same (tb : texinfo_tables K) (num j k : Nat) (e : maptexinfo_t K)
    (he : tb.mtexinfos[k]? = some e) :
    ∃ e2, (FindTexinfo_link tb num j).mtexinfos[k]? = some e2 ∧ e2.SameTex e ∧
      (k ≠ num → e2 = e) := by
  obtain ⟨_, _, h3, h4⟩ := FindTexinfo_link_spec tb num j
  by_cases hk : k = num
  · subst hk
    exact ⟨_, h4 e he, ⟨rfl, rfl, rfl, rfl⟩, fun h => absurd rfl h⟩
  · refine ⟨e, ?_, ⟨rfl, rfl, rfl, rfl⟩, fun _ => rfl⟩
    rw [h3 k hk]
    exact he

theorem FindTexinfo_link_ok (tb : texinfo_tables K) (num j : Nat) (hok : tb.Ok) :
    (FindTexinfo_link tb num j).Ok := by
  intro kv hkv
  rw [(FindTexinfo_link_spec tb num j).1] at hkv
  obtain ⟨e, he, hs⟩ := hok kv hkv
  obtain ⟨e2, he2, hs2, _⟩ := FindTexinfo_link_same tb num j kv.2 e he
  exact ⟨e2, he2, hs2.1.trans hs.1, hs2.2.1.trans hs.2.1, hs2.2.2.1.trans hs.2.2.1,
    hs2.2.2.2.trans hs.2.2.2⟩

/-- An entry other than num_texinfo stays linked when the next link of entry
num_texinfo is assigned. -/
theorem FindTexinfo_link_linked (miptex : List maptexdata_t) (tb : texinfo_tables K)
    (num j k : Nat) (hk : k ≠ num) (h : tb.Linked miptex k) :
    (FindTexinfo_link tb num j).Linked miptex k := by
  intro e tex p he htex hp
  rw [(FindTexinfo_link_spec tb num j).2.2.1 k hk] at he
  obtain ⟨j2, e2, h1, h2, h3, h4, h5, h6⟩ := h e tex p he htex hp
  obtain ⟨e3, he3, hs3, _⟩ := FindTexinfo_link_same tb num j j2 e2 h2
  exact ⟨j2, e3, h1, he3, hs3.1.trans h3, hs3.2.1.trans h4, hs3.2.2.1.trans h5,
    hs3.2.2.2.trans h6⟩

/-- What a call of FindTexinfo does to the tables: the lookup stays consistent,
no entry that existed before is changed, the lookup only gets new keys, the
entry at the index returned has the texture vectors, flags, value and texture
index of the argument, the argument is found in the lookup afterwards under the
index returned, every entry that was added is linked along the animation
chain, and an argument whose key was missing is the first entry added. -/
theorem FindTexinfo_fuel_spec (miptex : List maptexdata_t) :
    ∀ (fuel : Nat) (tb : texinfo_tables K) (t : maptexinfo_t K) (tb2 : texinfo_tables K)
      (i : Nat), FindTexinfo_fuel miptex fuel tb t = some (tb2, i) → tb.Ok →
      tb2.Ok ∧ tb.mtexinfos.length ≤ tb2.mtexinfos.length ∧
      (∀ k, k < tb.mtexinfos.length → tb2.mtexinfos[k]? = tb.mtexinfos[k]?) ∧
      tb.mtexinfo_lookup <+: tb2.mtexinfo_lookup ∧
      (∃ e, tb2.mtexinfos[i]? = some e ∧ e.SameTex t) ∧
      mtexinfo_lookup_find tb2.mtexinfo_lookup t = some i ∧
      (∀ k, tb.mtexinfos.length ≤ k → k < tb2.mtexinfos.length → tb2.Linked miptex k) ∧
      (mtexinfo_lookup_find tb.mtexinfo_lookup t = none →
        i = tb.mtexinfos.length ∧ tb.mtexinfos.length < tb2.mtexinfos.length) := by
  intro fuel
  induction fuel with
  | zero =>
    intro tb t tb2 i h hok
    unfold FindTexinfo_fuel at h
    cases hf : mtexinfo_lookup_find tb.mtexinfo_lookup t with
    | some i0 =>
      rw [hf] at h
      dsimp only at h
      have h2 := Option.some.inj h
      have ha : tb = tb2 := congrArg Prod.fst h2
      have hb : i0 = i := congrArg Prod.snd h2
      subst ha
      subst hb
      refine ⟨hok, le_refl _, fun _ _ => rfl, List.prefix_refl _, ?_, hf, ?_, ?_⟩
      · unfold mtexinfo_lookup_find at hf
        cases hfind : tb.mtexinfo_lookup.find? fun kv => decide (kv.1.as_tuple = t.as_tuple) with
        | none =>
          rw [hfind] at hf
          exact absurd hf (by simp)
        | some kv =>
          rw [hfind] at hf
          have hk : kv.2 = i0 := by simpa using hf
          have hmem := List.mem_of_find?_eq_some hfind
          have hkey := List.find?_some hfind
          have hkey2 : kv.1.as_tuple = t.as_tuple := by simpa using hkey
          obtain ⟨e, he, hs⟩ := hok kv hmem
          rw [hk] at he
          unfold maptexinfo_t.as_tuple at hkey2
          simp only [Prod.mk.injEq] at hkey2
          exact ⟨e, he, hs.1.trans hkey2.1, hs.2.1.trans hkey2.2.2.1,
            hs.2.2.1.trans hkey2.2.2.2.1, hs.2.2.2.trans hkey2.2.1⟩
      · intro k h1 h2
        omega
      · intro hn
        exact absurd hn (by simp)
    | none =>
      rw [hf] at h
      dsimp only at h
      obtain ⟨i1, i2, i3, i4, i5, i6⟩ := FindTexinfo_insert_spec tb t hok hf
      cases hm : miptex[t.miptex]? with
      | none =>
        rw [hm] at h
        exact absurd h (by simp)
      | some tex =>
        rw [hm] at h
        dsimp only at h
        cases hp : tex.animation_miptex with
        | some p =>
          rw [hp] at h
          exact absurd h (by simp)
        | none =>
          rw [hp] at h
          dsimp only at h
          have h2 := Option.some.inj h
          have ha : FindTexinfo_insert tb t = tb2 := congrArg Prod.fst h2
          have hb : tb.mtexinfos.length = i := congrArg Prod.snd h2
          subst ha
          subst hb
          refine ⟨i1, by omega, i3, i4, ⟨t, i5, rfl, rfl, rfl, rfl⟩, i6, ?_,
            fun _ => ⟨rfl, by omega⟩⟩
          intro k hk1 hk2
          have hk : k = tb.mtexinfos.length := by omega
          subst hk
          intro e tex2 p he htex hp2
          rw [i5] at he
          have : t = e := Option.some.inj he
          subst this
          rw [hm] at htex
          have : tex = tex2 := Option.some.inj htex
          subst this
          rw [hp] at hp2
          exact absurd hp2 (by simp)
  | succ fuel ih =>
    intro tb t tb2 i h hok
    unfold FindTexinfo_fuel at h
    cases hf : mtexinfo_lookup_find tb.mtexinfo_lookup t with
    | some i0 =>
      rw [hf] at h
      dsimp only at h
      have h2 := Option.some.inj h
      have ha : tb = tb2 := congrArg Prod.fst h2
      have hb : i0 = i := congrArg Prod.snd h2
      subst ha
      subst hb
      refine ⟨hok, le_refl _, fun _ _ => rfl, List.prefix_refl _, ?_, hf, ?_, ?_⟩
      · unfold mtexinfo_lookup_find at hf
        cases hfind : tb.mtexinfo_lookup.find? fun kv => decide (kv.1.as_tuple = t.as_tuple) with
        | none =>
          rw [hfind] at hf
          exact absurd hf (by simp)
        | some kv =>
          rw [hfind] at hf
          have hk : kv.2 = i0 := by simpa using hf
          have hmem := List.mem_of_find?_eq_some hfind
          have hkey := List.find?_some hfind
          have hkey2 : kv.1.as_tuple = t.as_tuple := by simpa using hkey
          obtain ⟨e, he, hs⟩ := hok kv hmem
          rw [hk] at he
          unfold maptexinfo_t.as_tuple at hkey2
          simp only [Prod.mk.injEq] at hkey2
          exact ⟨e, he, hs.1.trans hkey2.1, hs.2.1.trans hkey2.2.2.1,
            hs.2.2.1.trans hkey2.2.2.2.1, hs.2.2.2.trans hkey2.2.1⟩
      · intro k h1 h2
        omega
      · intro hn
        exact absurd hn (by simp)
    | none =>
      rw [hf] at h
      dsimp only at h
      obtain ⟨i1, i2, i3, i4, i5, i6⟩ := FindTexinfo_insert_spec tb t hok hf
      cases hm : miptex[t.miptex]? with
      | none =>
        rw [hm] at h
        exact absurd h (by simp)
      | some tex =>
        rw [hm] at h
        dsimp only at h
        cases hp : tex.animation_miptex with
        | none =>
          rw [hp] at h
          dsimp only at h
          have h2 := Option.some.inj h
          have ha : FindTexinfo_insert tb t = tb2 := congrArg Prod.fst h2
          have hb : tb.mtexinfos.length = i := congrArg Prod.snd h2
          subst ha
          subst hb
          refine ⟨i1, by omega, i3, i4, ⟨t, i5, rfl, rfl, rfl, rfl⟩, i6, ?_,
            fun _ => ⟨rfl, by omega⟩⟩
          intro k hk1 hk2
          have hk : k = tb.mtexinfos.length := by omega
          subst hk
          intro e tex2 p he htex hp2
          rw [i5] at he
          have : t = e := Option.some.inj he
          subst this
          rw [hm] at htex
          have : tex = tex2 := Option.some.inj htex
          subst this
          rw [hp] at hp2
          exact absurd hp2 (by simp)
        | some p =>
          rw [hp] at h
          dsimp only at h
          cases hr : FindTexinfo_fuel miptex fuel (FindTexinfo_insert tb t)
              { t with miptex := p } with
          | none =>
            rw [hr] at h
            exact absurd h (by simp)
          | some r =>
            obtain ⟨tb3, j⟩ := r
            rw [hr] at h
            dsimp only at h
            have h2 := Option.some.inj h
            have ha : FindTexinfo_link tb3 tb.mtexinfos.length j = tb2 := congrArg Prod.fst h2
            have hb : tb.mtexinfos.length = i := congrArg Prod.snd h2
            subst ha
            subst hb
            obtain ⟨r1, r2, r3, r4, ⟨ej, hej, hsj⟩, r6, r7, _⟩ := ih _ _ tb3 j hr i1
            obtain ⟨l1, l2, l3, l4⟩ := FindTexinfo_link_spec tb3 tb.mtexinfos.length j
            have hnum : tb3.mtexinfos[tb.mtexinfos.length]? = some t := by
              rw [r3 _ (by omega)]
              exact i5
            refine ⟨FindTexinfo_link_ok tb3 _ j r1, by omega, ?_, ?_,
              ⟨_, l4 t hnum, rfl, rfl, rfl, rfl⟩, ?_, ?_, fun _ => ⟨rfl, by omega⟩⟩
            · intro k hk
              rw [l3 k (by omega), r3 k (by omega)]
              exact i3 k hk
            · rw [l1]
              exact List.IsPrefix.trans i4 r4
            · rw [l1]
              exact mtexinfo_lookup_find_extended _ _ t _ r4 i6
            · intro k hk1 hk2
              by_cases hk : k = tb.mtexinfos.length
              · subst hk
                intro e tex2 p2 he htex hp2
                rw [l4 t hnum] at he
                have he2 : ({ t with next := some j } : maptexinfo_t K) = e := Option.some.inj he
                subst he2
                dsimp only at htex
                rw [hm] at htex
                have : tex = tex2 := Option.some.inj htex
                subst this
                rw [hp] at hp2
                have : p = p2 := Option.some.inj hp2
                subst this
                obtain ⟨e3, he3, hs3, _⟩ :=
                  FindTexinfo_link_same tb3 tb.mtexinfos.length j j ej hej
                exact ⟨j, e3, rfl, he3, hs3.1.trans hsj.1, hs3.2.1.trans hsj.2.1,
                  hs3.2.2.1.trans hsj.2.2.1, hs3.2.2.2.trans hsj.2.2.2⟩
              · apply FindTexinfo_link_linked miptex tb3 _ j k hk
                apply r7 k (by omega)
                omega

/-- A texinfo whose key is in the lookup is returned without a change of the
tables. -/
theorem FindTexinfo_fuel_found (miptex : List maptexdata_t) (fuel : Nat) (tb : texinfo_tables K)
    (t : maptexinfo_t K) (i : Nat) (h : mtexinfo_lookup_find tb.mtexinfo_lookup t = some i) :
    FindTexinfo_fuel miptex fuel tb t = some (tb, i) := by
  unfold FindTexinfo_fuel
  rw [h]

/-- FindTexinfo returns for every texinfo whose texture index lies in the
texture table, when the animation partners of the table do. -/
theorem FindTexinfo_returns (miptex : List maptexdata_t) (hc : miptex_closed miptex)
    (tb : texinfo_tables K) (t : maptexinfo_t K) (hlt : t.miptex < miptex.length) :
    ∃ r, FindTexinfo miptex tb t = some r := by
  apply FindTexinfo_fuel_returns miptex hc _ tb t (Or.inr hlt)
  unfold FindTexinfo_missing
  calc _ ≤ (List.range miptex.length).length := List.length_filter_le _ _
    _ = miptex.length := List.length_range _

/-- An entry that is linked stays linked when the table is extended without a
change of the entries it had. -/
theorem texinfo_tables.Linked_extended (miptex : List maptexdata_t) (tb tb2 : texinfo_tables K)
    (hext : ∀ k, k < tb.mtexinfos.length → tb2.mtexinfos[k]? = tb.mtexinfos[k]?)
    (k : Nat) (hk : k < tb.mtexinfos.length) (h : tb.Linked miptex k) : tb2.Linked miptex k := by
  intro e tex p he htex hp
  rw [hext k hk] at he
  obtain ⟨j, e2, h1, h2, h3⟩ := h e tex p he htex hp
  have hj : j < tb.mtexinfos.length := by
    by_contra hge
    rw [List.getElem?_eq_none (not_lt.mp hge)] at h2
    exact absurd h2 (by simp)
  exact ⟨j, e2, h1, by rw [hext j hj]; exact h2, h3⟩

/-- In a table whose entries are all linked, the next links can be followed
along the whole animation chain of the texture of an entry: the n-th entry
reached has the n-th animation partner as its texture and the texture vectors,
flags and value of the first entry. -/
theorem texinfo_tables.follow_chain (miptex : List maptexdata_t) (tb : texinfo_tables K)
    (hl : ∀ k, k < tb.mtexinfos.length → tb.Linked miptex k) (i : Nat) (e : maptexinfo_t K)
    (he : tb.mtexinfos[i]? = some e) :
    ∀ (n q : Nat), animation_partner miptex e.miptex n = some q →
      ∃ j e2, tb.follow i n = some j ∧ tb.mtexinfos[j]? = some e2 ∧
        e2.vecs = e.vecs ∧ e2.flags = e.flags ∧ e2.value = e.value ∧ e2.miptex = q := by
  intro n
  induction n with
  | zero =>
    intro q hq
    unfold animation_partner at hq
    have : e.miptex = q := Option.some.inj hq
    exact ⟨i, e, rfl, he, rfl, rfl, rfl, this⟩
  | succ n ih =>
    intro q hq
    unfold animation_partner at hq
    cases hpn : animation_partner miptex e.miptex n with
    | none =>
      rw [hpn] at hq
      exact absurd hq (by simp)
    | some q1 =>
      rw [hpn] at hq
      dsimp only at hq
      cases hm : miptex[q1]? with
      | none =>
        rw [hm] at hq
        exact absurd hq (by simp)
      | some tex =>
        rw [hm] at hq
        dsimp only at hq
        obtain ⟨j1, e1, hf1, hj1, hv1, hfl1, hva1, hmi1⟩ := ih q1 hpn
        have hj1lt : j1 < tb.mtexinfos.length := by
          by_contra hge
          rw [List.getElem?_eq_none (not_lt.mp hge)] at hj1
          exact absurd hj1 (by simp)
        obtain ⟨j, e2, h1, h2, h3, h4, h5, h6⟩ :=
          hl j1 hj1lt e1 tex q hj1 (by rw [hmi1]; exact hm) hq
        refine ⟨j, e2, ?_, h2, h3.trans hv1, h4.trans hfl1, h5.trans hva1, h6⟩
        unfold texinfo_tables.follow
        rw [hf1]
        dsimp only
        rw [hj1]
        exact h1

theorem texinfo_tables.Ok_empty : (⟨[], []⟩ : texinfo_tables K).Ok := by
  intro kv hkv
  exact absurd hkv (List.not_mem_nil kv)

theorem example_anim_miptex_closed : miptex_closed example_anim_miptex := by
  intro tex htex p hp
  simp only [example_anim_miptex, List.mem_cons, List.mem_singleton, List.not_mem_nil,
    or_false] at htex
  rcases htex with rfl | rfl | rfl <;>
  · simp only [Option.some.injEq] at hp
    subst hp
    decide

/-- C13: for every texinfo t whose texture index lies in the texture table
(whose animation partners lie in the table) and for tables with a consistent
lookup, FindTexinfo returns an index i at which the table holds an entry with
the texture vectors, flags, value and texture index of t; a second call with t
returns the same i and leaves the texinfo table and the lookup unchanged; the
call changes no entry that existed before it, removes none, keeps the keys of
the lookup, and leaves the lookup consistent. -/
theorem FindTexinfo_index (miptex : List maptexdata_t) (hc : miptex_closed miptex)
    (tb : texinfo_tables K) (hok : tb.Ok) (t : maptexinfo_t K)
    (hlt : t.miptex < miptex.length) :
    ∃ tb2 i e, FindTexinfo miptex tb t = some (tb2, i) ∧
      tb2.mtexinfos[i]? = some e ∧
      e.vecs = t.vecs ∧ e.flags = t.flags ∧ e.value = t.value ∧ e.miptex = t.miptex ∧
      FindTexinfo miptex tb2 t = some (tb2, i) ∧
      tb.mtexinfos.length ≤ tb2.mtexinfos.length ∧
      (∀ k, k < tb.mtexinfos.length → tb2.mtexinfos[k]? = tb.mtexinfos[k]?) ∧
      tb.mtexinfo_lookup <+: tb2.mtexinfo_lookup ∧ tb2.Ok := by
  obtain ⟨⟨tb2, i⟩, hr⟩ := FindTexinfo_returns miptex hc tb t hlt
  obtain ⟨s1, s2, s3, s4, ⟨e, he, hs⟩, s6, _, _⟩ :=
    FindTexinfo_fuel_spec miptex _ tb t tb2 i hr hok
  exact ⟨tb2, i, e, hr, he, hs.1, hs.2.1, hs.2.2.1, hs.2.2.2,
    FindTexinfo_fuel_found miptex _ tb2 t i s6, s2, s3, s4, s1⟩

/-- C13 (witness): the default texinfo with texture 1 in the empty tables, for
a texture table with a circular animation chain of three frames. -/
theorem FindTexinfo_index_witness :
    miptex_closed example_anim_miptex ∧ (⟨[], []⟩ : texinfo_tables ℝ).Ok ∧
    ({ (maptexinfo_t.default : maptexinfo_t ℝ) with miptex := 1 } : maptexinfo_t ℝ).miptex <
      example_anim_miptex.length ∧
    ∃ tb2 i e, FindTexinfo example_anim_miptex (⟨[], []⟩ : texinfo_tables ℝ)
        { (maptexinfo_t.default : maptexinfo_t ℝ) with miptex := 1 } = some (tb2, i) ∧
      tb2.mtexinfos[i]? = some e ∧
      e.vecs = ({ (maptexinfo_t.default : maptexinfo_t ℝ) with miptex := 1 } : maptexinfo_t ℝ).vecs ∧
      e.flags = ({ (maptexinfo_t.default : maptexinfo_t ℝ) with miptex := 1 } : maptexinfo_t ℝ).flags ∧
      e.value = ({ (maptexinfo_t.default : maptexinfo_t ℝ) with miptex := 1 } : maptexinfo_t ℝ).value ∧
      e.miptex = ({ (maptexinfo_t.default : maptexinfo_t ℝ) with miptex := 1 } : maptexinfo_t ℝ).miptex ∧
      FindTexinfo example_anim_miptex tb2
        { (maptexinfo_t.default : maptexinfo_t ℝ) with miptex := 1 } = some (tb2, i) ∧
      (⟨[], []⟩ : texinfo_tables ℝ).mtexinfos.length ≤ tb2.mtexinfos.length ∧
      (∀ k, k < (⟨[], []⟩ : texinfo_tables ℝ).mtexinfos.length →
        tb2.mtexinfos[k]? = (⟨[], []⟩ : texinfo_tables ℝ).mtexinfos[k]?) ∧
      (⟨[], []⟩ : texinfo_tables ℝ).mtexinfo_lookup <+: tb2.mtexinfo_lookup ∧ tb2.Ok :=
  ⟨example_anim_miptex_closed, texinfo_tables.Ok_empty, by decide,
    FindTexinfo_index example_anim_miptex example_anim_miptex_closed ⟨[], []⟩
      texinfo_tables.Ok_empty _ (by decide)⟩

/-- C14: for every texinfo t whose texture index lies in the texture table
(whose animation partners lie in the table, circular chains included) and for
tables with a consistent lookup in which every entry is linked along the
animation chain, FindTexinfo returns, and afterwards every entry of the table
is linked again; when t was not in the lookup and its texture has the animation
partner p, the new entry at the index returned has a next link to an entry with
the texture vectors, flags and value of t and the texture index p; and from the
entry returned the next links can be followed along the whole animation chain:
the n-th entry reached has the n-th animation partner as its texture and the
texture vectors, flags and value of t. -/
theorem FindTexinfo_animation_chain (miptex : List maptexdata_t) (hc : miptex_closed miptex)
    (tb : texinfo_tables K) (hok : tb.Ok)
    (hl : ∀ k, k < tb.mtexinfos.length → tb.Linked miptex k) (t : maptexinfo_t K)
    (hlt : t.miptex < miptex.length) :
    ∃ tb2 i, FindTexinfo miptex tb t = some (tb2, i) ∧
      (∀ k, k < tb2.mtexinfos.length → tb2.Linked miptex k) ∧
      (mtexinfo_lookup_find tb.mtexinfo_lookup t = none →
        i = tb.mtexinfos.length ∧ tb.mtexinfos.length < tb2.mtexinfos.length ∧
        ∀ tex p, miptex[t.miptex]? = some tex → tex.animation_miptex = some p →
          ∃ e j e2, tb2.mtexinfos[i]? = some e ∧ e.next = some j ∧
            tb2.mtexinfos[j]? = some e2 ∧
            e2.vecs = t.vecs ∧ e2.flags = t.flags ∧ e2.value = t.value ∧ e2.miptex = p) ∧
      (∀ n q, animation_partner miptex t.miptex n = some q →
        ∃ j e2, tb2.follow i n = some j ∧ tb2.mtexinfos[j]? = some e2 ∧
          e2.vecs = t.vecs ∧ e2.flags = t.flags ∧ e2.value = t.value ∧ e2.miptex = q) := by
  obtain ⟨⟨tb2, i⟩, hr⟩ := FindTexinfo_returns miptex hc tb t hlt
  obtain ⟨s1, s2, s3, s4, ⟨e, he, hs⟩, s6, s7, s8⟩ :=
    FindTexinfo_fuel_spec miptex _ tb t tb2 i hr hok
  have hall : ∀ k, k < tb2.mtexinfos.length → tb2.Linked miptex k := by
    intro k hk
    by_cases hk2 : k < tb.mtexinfos.length
    · exact texinfo_tables.Linked_extended miptex tb tb2 s3 k hk2 (hl k hk2)
    · exact s7 k (not_lt.mp hk2) hk
  have hi : i < tb2.mtexinfos.length := by
    by_contra hge
    rw [List.getElem?_eq_none (not_lt.mp hge)] at he
    exact absurd he (by simp)
  refine ⟨tb2, i, hr, hall, ?_, ?_⟩
  · intro hnone
    obtain ⟨h1, h2⟩ := s8 hnone
    refine ⟨h1, h2, ?_⟩
    intro tex p htex hp
    obtain ⟨j, e2, g1, g2, g3, g4, g5, g6⟩ :=
      hall i hi e tex p he (by rw [hs.2.2.2]; exact htex) hp
    exact ⟨e, j, e2, he, g1, g2, g3.trans hs.1, g4.trans hs.2.1, g5.trans hs.2.2.1, g6⟩
  · intro n q hq
    obtain ⟨j, e2, g1, g2, g3, g4, g5, g6⟩ :=
      texinfo_tables.follow_chain miptex tb2 hall i e he n q (by rw [hs.2.2.2]; exact hq)
    exact ⟨j, e2, g1, g2, g3.trans hs.1, g4.trans hs.2.1, g5.trans hs.2.2.1, g6⟩

/-- C14 (witness): the default texinfo with texture 1 in the empty tables, for
a texture table with the circular animation chain 0, 1, 2, 0: the call returns,
and four steps along the next links lead from the new entry to an entry with
texture 2, the fourth animation partner of texture 1. -/
theorem FindTexinfo_animation_chain_witness :
    miptex_closed example_anim_miptex ∧ (⟨[], []⟩ : texinfo_tables ℝ).Ok ∧
    animation_partner example_anim_miptex 1 4 = some 2 ∧
    ∃ tb2 i, FindTexinfo example_anim_miptex (⟨[], []⟩ : texinfo_tables ℝ)
        { (maptexinfo_t.default : maptexinfo_t ℝ) with miptex := 1 } = some (tb2, i) ∧
      (∀ k, k < tb2.mtexinfos.length → tb2.Linked example_anim_miptex k) ∧
      ∃ j e2, tb2.follow i 4 = some j ∧ tb2.mtexinfos[j]? = some e2 ∧ e2.miptex = 2 :=
  match FindTexinfo_animation_chain example_anim_miptex example_anim_miptex_closed
    (⟨[], []⟩ : texinfo_tables ℝ) texinfo_tables.Ok_empty
    (fun k hk => absurd hk (Nat.not_lt_zero k))
    { (maptexinfo_t.default : maptexinfo_t ℝ) with miptex := 1 } (by decide) with
  | ⟨tb2, i, hr, hall, _, hchain⟩ =>
    ⟨example_anim_miptex_closed, texinfo_tables.Ok_empty, by decide, tb2, i, hr, hall,
      match hchain 4 2 (by decide) with
      | ⟨j, e2, g1, g2, _, _, _, g6⟩ => ⟨j, e2, g1, g2, g6⟩⟩

end texinfo_claims

section miptex_claims
variable {K : Type} [LinearOrderedField K]

theorem Q_strcasecmp_eq_zero (a b : String) :
    Q_strcasecmp a b = 0 ↔ a.data.map Char.toLower = b.data.map Char.toLower := by
  unfold Q_strcasecmp
  dsimp only
  constructor
  · intro h
    by_contra hne
    rw [if_neg hne] at h
    split_ifs at h
    all_goals omega
  · intro h
    rw [if_pos h]

theorem Q_strcasecmp_self (a : String) : Q_strcasecmp a a = 0 :=
  (Q_strcasecmp_eq_zero a a).mpr rfl

/-- Two names that are equal ignoring case compare equal, ignoring case, to the
same names. -/
theorem Q_strcasecmp_congr (a b c : String) (h : Q_strcasecmp a b = 0) :
    (Q_strcasecmp a c = 0) = (Q_strcasecmp b c = 0) := by
  rw [Q_strcasecmp_eq_zero] at h
  simp only [Q_strcasecmp_eq_zero, h]

theorem AddAnimTex_step_extends (framename : List Char) (basechar : Nat)
    (miptex : List maptexdata_t) (i : Nat) :
    miptex <+: AddAnimTex_step framename basechar miptex i := by
  unfold AddAnimTex_step
  dsimp only
  split_ifs
  · exact List.prefix_refl _
  · exact List.prefix_append _ _

/-- AddAnimTex only appends to the texture table. -/
theorem AddAnimTex_extends (miptex miptex2 : List maptexdata_t) (name : String)
    (h : AddAnimTex miptex name = some miptex2) : miptex <+: miptex2 := by
  unfold AddAnimTex at h
  cases hf : AddAnimTex_frame name with
  | none =>
    rw [hf] at h
    exact absurd h (by simp)
  | some r =>
    obtain ⟨frame, basechar⟩ := r
    rw [hf] at h
    dsimp only at h
    rw [← Option.some.inj h]
    exact foldl_inv (fun a => miptex <+: a) _ _
      (fun a ha b _ => List.IsPrefix.trans ha (AddAnimTex_step_extends _ _ a b)) miptex
      (List.prefix_refl _)

/-- FindMiptex for a target other than Quake II: the index returned is the
first index of the new table whose texture has the name, path removed and case
ignored, and the old table is a prefix of the new one. -/
theorem FindMiptex_other_spec (miptex : List maptexdata_t) (name : String)
    (extended_info : Option extended_texinfo_t) (m1 : List maptexdata_t)
    (e1 : extended_texinfo_t) (i : Nat)
    (h : FindMiptex_other miptex name extended_info = some (m1, e1, i)) :
    i < m1.length ∧ miptex <+: m1 ∧
    (m1.findIdx fun tex => decide (Q_strcasecmp (FindMiptex_basename name) tex.name = 0)) = i := by
  unfold FindMiptex_other at h
  dsimp only at h
  by_cases hfound : (miptex.findIdx fun tex =>
      decide (Q_strcasecmp (FindMiptex_basename name) tex.name = 0)) < miptex.length
  · rw [if_pos hfound] at h
    have h2 := Option.some.inj h
    have ha : miptex = m1 := congrArg Prod.fst h2
    have hb := congrArg (fun r => r.2.2) h2
    dsimp only at hb
    subst ha
    exact ⟨by rw [← hb]; exact hfound, List.prefix_refl _, hb⟩
  · rw [if_neg hfound] at h
    have hidx : ((miptex ++ [({ name := FindMiptex_basename name } : maptexdata_t)]).findIdx
        fun tex => decide (Q_strcasecmp (FindMiptex_basename name) tex.name = 0)) =
        miptex.length := by
      rw [List.findIdx_append, if_neg hfound]
      simp [List.findIdx_cons, Q_strcasecmp_self]
    have hkey : ∀ m2 : List maptexdata_t,
        (miptex ++ [({ name := FindMiptex_basename name } : maptexdata_t)]) <+: m2 →
        miptex.length < m2.length ∧ miptex <+: m2 ∧
        (m2.findIdx fun tex =>
          decide (Q_strcasecmp (FindMiptex_basename name) tex.name = 0)) = miptex.length := by
      intro m2 hpre
      refine ⟨?_, List.IsPrefix.trans (List.prefix_append _ _) hpre, ?_⟩
      · have := hpre.length_le
        simp only [List.length_append, List.length_cons, List.length_nil] at this
        omega
      · rw [← hidx]
        apply List.IsPrefix.findIdx_eq_of_findIdx_lt_length hpre
        rw [hidx]
        simp
    split_ifs at h with hplus
    · cases ha : AddAnimTex (miptex ++ [({ name := FindMiptex_basename name } : maptexdata_t)])
          (FindMiptex_basename name) with
      | none =>
        rw [ha] at h
        exact absurd h (by simp)
      | some m2 =>
        rw [ha] at h
        dsimp only at h
        have h2 := Option.some.inj h
        have hm : m2 = m1 := congrArg Prod.fst h2
        have hb := congrArg (fun r => r.2.2) h2
        dsimp only at hb
        subst hm
        rw [← hb]
        exact hkey m2 (AddAnimTex_extends _ _ _ ha)
    · have h2 := Option.some.inj h
      have hm := congrArg Prod.fst h2
      have hb := congrArg (fun r => r.2.2) h2
      dsimp only at hm hb
      rw [← hm, ← hb]
      exact hkey _ (List.prefix_refl _)

/-- A second lookup of a name that is equal to the first after removing the
path and ignoring case returns the same index and changes nothing. -/
theorem FindMiptex_other_again (miptex : List maptexdata_t) (name name2 : String)
    (extended_info extended_info2 : Option extended_texinfo_t) (m1 : List maptexdata_t)
    (e1 : extended_texinfo_t) (i : Nat)
    (hn : Q_strcasecmp (FindMiptex_basename name) (FindMiptex_basename name2) = 0)
    (h : FindMiptex_other miptex name extended_info = some (m1, e1, i)) :
    FindMiptex_other m1 name2 extended_info2 = some (m1, extended_info2.getD {}, i) := by
  obtain ⟨h1, _, h3⟩ := FindMiptex_other_spec miptex name extended_info m1 e1 i h
  have hp : (fun tex : maptexdata_t =>
      decide (Q_strcasecmp (FindMiptex_basename name2) tex.name = 0)) =
      (fun tex : maptexdata_t =>
        decide (Q_strcasecmp (FindMiptex_basename name) tex.name = 0)) := by
    funext tex
    simp only [Q_strcasecmp_congr _ _ tex.name hn]
  unfold FindMiptex_other
  dsimp only
  rw [hp, h3, if_pos h1]

/-- FindMiptex for a target other than Quake II fails exactly when the name is
new, starts with '+', and has a bad frame character. -/
theorem FindMiptex_other_fatal (miptex : List maptexdata_t) (name : String)
    (extended_info : Option extended_texinfo_t) :
    FindMiptex_other miptex name extended_info = none ↔
      (¬ (miptex.findIdx fun tex =>
          decide (Q_strcasecmp (FindMiptex_basename name) tex.name = 0)) < miptex.length ∧
        (FindMiptex_basename name).data.head? = some '+' ∧
        AddAnimTex_frame (FindMiptex_basename name) = none) := by
  unfold FindMiptex_other AddAnimTex
  dsimp only
  constructor
  · intro h
    split_ifs at h with h1 h2
    refine ⟨h1, h2, ?_⟩
    cases hf : AddAnimTex_frame (FindMiptex_basename name) with
    | none => rfl
    | some r =>
      rw [hf] at h
      exact absurd h (by simp)
  · rintro ⟨h1, h2, h3⟩
    rw [if_neg h1, if_pos h2, h3]

theorem miptex_kept_refl (m : List maptexdata_t) : miptex_kept m m :=
  fun _ tex h => ⟨tex, h, rfl, rfl, rfl, rfl⟩

theorem miptex_kept_trans {m m2 m3 : List maptexdata_t} (h : miptex_kept m m2)
    (h2 : miptex_kept m2 m3) : miptex_kept m m3 := by
  intro k tex hk
  obtain ⟨t2, g1, g2, g3, g4, g5⟩ := h k tex hk
  obtain ⟨t3, f1, f2, f3, f4, f5⟩ := h2 k t2 g1
  exact ⟨t3, f1, f2.trans g2, f3.trans g3, f4.trans g4, f5.trans g5⟩

theorem miptex_kept_append (m r : List maptexdata_t) : miptex_kept m (m ++ r) := by
  intro k tex hk
  have hlt : k < m.length := by
    by_contra hge
    rw [List.getElem?_eq_none (not_lt.mp hge)] at hk
    exact absurd hk (by simp)
  exact ⟨tex, by rw [List.getElem?_append_left hlt]; exact hk, rfl, rfl, rfl, rfl⟩

theorem set_animation_miptex_kept (m : List maptexdata_t) (i j : Nat) :
    miptex_kept m (set_animation_miptex m i j) := by
  intro k tex hk
  unfold set_animation_miptex
  cases hi : m[i]? with
  | none => exact ⟨tex, hk, rfl, rfl, rfl, rfl⟩
  | some t0 =>
    dsimp only
    have hlt : i < m.length := by
      by_contra hge
      rw [List.getElem?_eq_none (not_lt.mp hge)] at hi
      exact absurd hi (by simp)
    by_cases hik : i = k
    · subst hik
      rw [hi] at hk
      have : t0 = tex := Option.some.inj hk
      subst this
      exact ⟨_, List.getElem?_set_self hlt, rfl, rfl, rfl, rfl⟩
    · exact ⟨tex, by rw [List.getElem?_set_ne hik]; exact hk, rfl, rfl, rfl, rfl⟩

/-- The lookup part of FindMiptex for Quake II: the entry at the index returned
has the name, ignoring case, and the flags, value and animation name of the
extended info in effect; no entry of the table loses its name, flags, value or
animation name. -/
theorem FindMiptex_q2_entry_spec (load_image_meta : String → Option texture_meta)
    (miptex : List maptexdata_t) (name : String) (extended_info : Option extended_texinfo_t)
    ( internal : Bool) :
    miptex_kept miptex
      (FindMiptex_q2_entry load_image_meta miptex name extended_info internal).miptex ∧
    ∃ tex : maptexdata_t,
      (FindMiptex_q2_entry load_image_meta miptex name extended_info internal).miptex[
        (FindMiptex_q2_entry load_image_meta miptex name extended_info internal).index]? =
        some tex ∧
      Q_strcasecmp name tex.name = 0 ∧
      tex.flags =
        (FindMiptex_q2_entry load_image_meta miptex name extended_info internal).extended_info.flags ∧
      tex.value =
        (FindMiptex_q2_entry load_image_meta miptex name extended_info internal).extended_info.value ∧
      tex.animation =
        (FindMiptex_q2_entry load_image_meta miptex name extended_info internal).extended_info.animation := by
  unfold FindMiptex_q2_entry
  dsimp only
  split_ifs with hfound
  · dsimp only
    refine ⟨miptex_kept_refl _, _, List.getElem?_eq_getElem hfound, ?_⟩
    have := List.findIdx_getElem (w := hfound)
    simp only [Bool.and_eq_true, decide_eq_true_eq] at this
    exact ⟨this.1.1.1, this.1.1.2, this.1.2, this.2⟩
  · dsimp only
    exact ⟨miptex_kept_append _ _,
      ⟨name, (FindMiptex_q2_info (load_image_meta name) extended_info internal).flags,
        (FindMiptex_q2_info (load_image_meta name) extended_info internal).value,
        (FindMiptex_q2_info (load_image_meta name) extended_info internal).animation, none⟩,
      by simp, Q_strcasecmp_self _, rfl, rfl, rfl⟩

theorem FindMiptex_q2_loop_kept (load_image_meta : String → Option texture_meta)
    ( internal : Bool) (name : String) (extended_info : extended_texinfo_t) :
    ∀ (fuel : Nat) (miptex : List maptexdata_t) (wal : Option texture_meta) (last_i : Nat)
      (m2 : List maptexdata_t) (l : Nat),
      FindMiptex_q2_loop load_image_meta internal name extended_info fuel miptex wal last_i =
        some (m2, l) → miptex_kept miptex m2 := by
  intro fuel
  induction fuel with
  | zero =>
    intro miptex wal last_i m2 l h
    unfold FindMiptex_q2_loop at h
    exact absurd h (by simp)
  | succ fuel ih =>
    intro miptex wal last_i m2 l h
    unfold FindMiptex_q2_loop at h
    cases wal with
    | none => exact absurd h (by simp)
    | some w =>
      dsimp only at h
      cases hw : load_image_meta w.animation with
      | none =>
        rw [hw] at h
        exact absurd h (by simp)
      | some w2 =>
        rw [hw] at h
        dsimp only at h
        have hstep : miptex_kept miptex
            (set_animation_miptex (FindMiptex_q2_entry load_image_meta miptex w2.name
              (some { extended_info with animation := w2.animation }) internal).miptex last_i
              (FindMiptex_q2_entry load_image_meta miptex w2.name
                (some { extended_info with animation := w2.animation }) internal).index) :=
          miptex_kept_trans (FindMiptex_q2_entry_spec load_image_meta miptex w2.name _ internal).1
            (set_animation_miptex_kept _ _ _)
        split_ifs at h with hback
        · have a1 := congrArg Prod.fst (Option.some.inj h)
          dsimp only at a1
          rw [← a1]
          exact hstep
        · exact miptex_kept_trans hstep (ih _ _ _ m2 l h)

/-- FindMiptex for Quake II: the entry at the index returned has the name,
ignoring case, and the flags, value and animation name of the extended info
returned; no entry of the table loses its name, flags, value or animation
name. -/
theorem FindMiptex_q2_spec (load_image_meta : String → Option texture_meta) (fuel : Nat)
    (miptex : List maptexdata_t) (name : String) (extended_info : Option extended_texinfo_t)
    ( internal recursive : Bool) (m1 : List maptexdata_t) (e1 : extended_texinfo_t) (i : Nat)
    (h : FindMiptex_q2 load_image_meta fuel miptex name extended_info internal recursive =
      some (m1, e1, i)) :
    miptex_kept miptex m1 ∧
    ∃ tex : maptexdata_t, m1[i]? = some tex ∧ Q_strcasecmp name tex.name = 0 ∧
      tex.flags = e1.flags ∧ tex.value = e1.value ∧ tex.animation = e1.animation := by
  obtain ⟨hk, tex, ht, hn, hf, hv, ha⟩ :=
    FindMiptex_q2_entry_spec load_image_meta miptex name extended_info internal
  unfold FindMiptex_q2 at h
  dsimp only at h
  split_ifs at h with hadd hanim
  · have h2 := Option.some.inj h
    have a1 := congrArg Prod.fst h2
    have a2 := congrArg (fun r => r.2.1) h2
    have a3 := congrArg (fun r => r.2.2) h2
    dsimp only at a1 a2 a3
    rw [← a1, ← a2, ← a3]
    exact ⟨hk, tex, ht, hn, hf, hv, ha⟩
  · cases hl : FindMiptex_q2_loop load_image_meta internal name
        (FindMiptex_q2_entry load_image_meta miptex name extended_info internal).extended_info
        fuel (FindMiptex_q2_entry load_image_meta miptex name extended_info internal).miptex
        (FindMiptex_q2_entry load_image_meta miptex name extended_info internal).wal
        (FindMiptex_q2_entry load_image_meta miptex name extended_info internal).index with
    | none =>
      rw [hl] at h
      exact absurd h (by simp)
    | some r =>
      obtain ⟨m2, last_i⟩ := r
      rw [hl] at h
      dsimp only at h
      have h2 := Option.some.inj h
      have a1 := congrArg Prod.fst h2
      have a2 := congrArg (fun r => r.2.1) h2
      have a3 := congrArg (fun r => r.2.2) h2
      dsimp only at a1 a2 a3
      rw [← a1, ← a2, ← a3]
      have hk2 : miptex_kept
          (FindMiptex_q2_entry load_image_meta miptex name extended_info internal).miptex
          (set_animation_miptex m2 last_i
            (FindMiptex_q2_entry load_image_meta miptex name extended_info internal).index) :=
        miptex_kept_trans (FindMiptex_q2_loop_kept load_image_meta internal name _ fuel _ _ _
          m2 last_i hl) (set_animation_miptex_kept _ _ _)
      obtain ⟨tex2, g1, g2, g3, g4, g5⟩ := hk2 _ tex ht
      exact ⟨miptex_kept_trans hk hk2, tex2, g1, by rw [g2]; exact hn, g3.trans hf,
        g4.trans hv, g5.trans ha⟩
  · have h2 := Option.some.inj h
    have a1 := congrArg Prod.fst h2
    have a2 := congrArg (fun r => r.2.1) h2
    have a3 := congrArg (fun r => r.2.2) h2
    dsimp only at a1 a2 a3
    rw [← a1, ← a2, ← a3]
    exact ⟨hk, tex, ht, hn, hf, hv, ha⟩

/-- C15: for a target other than Quake II and two texture names that are equal
after removing everything up to the last '/' and ignoring letter case, once
FindMiptex has returned an index for the first name, it returns the same index
for the second name and leaves the texture table as it is (the first call
returns unless the name is new, starts with '+' and has a bad frame character,
the fatal error of AddAnimTex); for Quake II two lookups, one after the other,
return the same index only if the names, ignoring case, and the flags, the
value and the animation name of the extended infos in effect agree. -/
theorem FindMiptex_same_index (load_image_meta : String → Option texture_meta)
    (fuel fuel2 : Nat) (miptex : List maptexdata_t) (name name2 : String)
    (extended_info extended_info2 : Option extended_texinfo_t)
    ( internal recursive internal2 recursive2 : Bool) :
    (Q_strcasecmp (FindMiptex_basename name) (FindMiptex_basename name2) = 0 →
      ∀ m1 e1 i,
        FindMiptex load_image_meta false fuel miptex name extended_info internal recursive =
          some (m1, e1, i) →
        FindMiptex load_image_meta false fuel2 m1 name2 extended_info2 internal2 recursive2 =
          some (m1, extended_info2.getD {}, i)) ∧
    (FindMiptex load_image_meta false fuel miptex name extended_info internal recursive = none ↔
      (¬ (miptex.findIdx fun tex =>
          decide (Q_strcasecmp (FindMiptex_basename name) tex.name = 0)) < miptex.length ∧
        (FindMiptex_basename name).data.head? = some '+' ∧
        AddAnimTex_frame (FindMiptex_basename name) = none)) ∧
    (∀ m1 e1 m2 e2 i,
      FindMiptex load_image_meta true fuel miptex name extended_info internal recursive =
        some (m1, e1, i) →
      FindMiptex load_image_meta true fuel2 m1 name2 extended_info2 internal2 recursive2 =
        some (m2, e2, i) →
      Q_strcasecmp name name2 = 0 ∧ e1.flags = e2.flags ∧ e1.value = e2.value ∧
        e1.animation = e2.animation) := by
  refine ⟨?_, ?_, ?_⟩
  · intro hn m1 e1 i h
    unfold FindMiptex at h ⊢
    simp only [if_true] at h ⊢
    exact FindMiptex_other_again miptex name name2 extended_info extended_info2 m1 e1 i hn h
  · unfold FindMiptex
    simp only [if_true]
    exact FindMiptex_other_fatal miptex name extended_info
  · intro m1 e1 m2 e2 i h1 h2
    unfold FindMiptex at h1 h2
    simp only [Bool.true_eq_false, if_false] at h1 h2
    obtain ⟨_, tex, ht, hn, hf, hv, ha⟩ := FindMiptex_q2_spec load_image_meta fuel miptex name
      extended_info internal recursive m1 e1 i h1
    obtain ⟨hk, tex2, ht2, hn2, hf2, hv2, ha2⟩ := FindMiptex_q2_spec load_image_meta fuel2 m1
      name2 extended_info2 internal2 recursive2 m2 e2 i h2
    obtain ⟨tex3, g1, g2, g3, g4, g5⟩ := hk i tex ht
    rw [ht2] at g1
    have : tex2 = tex3 := Option.some.inj g1
    subst this
    refine ⟨?_, ?_, ?_, ?_⟩
    · rw [Q_strcasecmp_eq_zero] at hn hn2 ⊢
      rw [hn, hn2, g2]
    · rw [← hf, ← hf2, g3]
    · rw [← hv, ← hv2, g4]
    · rw [← ha, ← ha2, g5]

/-- C15 (witness): for a target other than Quake II the names "e1u1/WALL" and
"textures/Wall" get the same index 1 of the texture table, which the second
lookup leaves unchanged. -/
theorem FindMiptex_same_index_witness :
    Q_strcasecmp (FindMiptex_basename "e1u1/WALL") (FindMiptex_basename "textures/Wall") = 0 ∧
    FindMiptex example_image_meta false 0 [{ name := "floor" }] "e1u1/WALL" none false true =
      some ([{ name := "floor" }, { name := "WALL" }], {}, 1) ∧
    FindMiptex example_image_meta false 0 [{ name := "floor" }, { name := "WALL" }]
      "textures/Wall" none false true =
      some ([{ name := "floor" }, { name := "WALL" }], {}, 1) :=
  have hn : Q_strcasecmp (FindMiptex_basename "e1u1/WALL")
      (FindMiptex_basename "textures/Wall") = 0 := by decide
  have h1 : FindMiptex example_image_meta false 0 [{ name := "floor" }] "e1u1/WALL" none
      false true = some ([{ name := "floor" }, { name := "WALL" }], {}, 1) := by decide
  ⟨hn, h1,
    (FindMiptex_same_index example_image_meta 0 0 [{ name := "floor" }] "e1u1/WALL"
      "textures/Wall" none none false true false true).1 hn _ _ _ h1⟩

end miptex_claims

section shift_claims
variable {K : Type} [LinearOrderedField K]

/-- Truncated division by a positive width: the remainder has the sign of the
dividend and is smaller than the width. -/
theorem tdiv_remainder (t w : Int) (hw : 0 < w) :
    (0 ≤ t → 0 ≤ t - Int.tdiv t w * w ∧ t - Int.tdiv t w * w ≤ w - 1) ∧
    (t ≤ 0 → -(w - 1) ≤ t - Int.tdiv t w * w ∧ t - Int.tdiv t w * w ≤ 0) := by
  have key : ∀ a : Int, 0 ≤ a → 0 ≤ a - Int.tdiv a w * w ∧ a - Int.tdiv a w * w ≤ w - 1 := by
    intro a ha
    rw [Int.tdiv_eq_ediv ha hw.le]
    have h1 := Int.emod_nonneg a hw.ne'
    have h2 := Int.emod_lt_of_pos a hw
    have h3 := Int.emod_add_ediv a w
    constructor
    · nlinarith
    · nlinarith
  refine ⟨key t, ?_⟩
  intro ht
  have h := key (-t) (by omega)
  rw [Int.neg_tdiv] at h
  constructor
  · nlinarith [h.1, h.2]
  · nlinarith [h.1, h.2]

/-- Truncated division of a number smaller in absolute value than the
divisor gives zero. -/
theorem tdiv_small (t w : Int) (h1 : -w < t) (h2 : t < w) : Int.tdiv t w = 0 := by
  rcases le_total 0 t with ht | ht
  · rw [Int.tdiv_eq_ediv ht (by omega)]
    exact Int.ediv_eq_zero_of_lt ht h2
  · have h : Int.tdiv (-t) w = 0 := by
      rw [Int.tdiv_eq_ediv (by omega) (by omega)]
      exact Int.ediv_eq_zero_of_lt (by omega) (by omega)
    rw [Int.neg_tdiv] at h
    omega

/-- One component of normalizeShift: the result is smaller in absolute value
than the width, and normalising it again subtracts nothing. -/
theorem normalizeShift_component (env : qbsp_env K) (hto : env.ToIntTruncates) (w : Int)
    (hw : 0 < w) (hw2 : w < 2 ^ 31) (x : K) (hx : |x| < 2 ^ 31) :
    |x - ((Int.tdiv (env.to_int x) w * w : Int) : K)| < (w : K) ∧
    Int.tdiv (env.to_int (x - ((Int.tdiv (env.to_int x) w * w : Int) : K))) w = 0 := by
  have hwK : (w : K) < 2 ^ 31 := by exact_mod_cast hw2
  obtain ⟨hpos, hneg⟩ := hto x hx
  obtain ⟨rpos, rneg⟩ := tdiv_remainder (env.to_int x) w hw
  -- the integer remainder
  have hm : ((Int.tdiv (env.to_int x) w * w : Int) : K) =
      ((env.to_int x : Int) : K) - ((env.to_int x - Int.tdiv (env.to_int x) w * w : Int) : K) := by
    push_cast
    ring
  generalize hmdef : env.to_int x - Int.tdiv (env.to_int x) w * w = mm at rpos rneg hm
  generalize env.to_int x = t at hpos hneg rpos rneg hm hmdef
  rw [hm]
  rcases le_total 0 x with h0 | h0
  · obtain ⟨a1, a2⟩ := hpos h0
    have ht : 0 ≤ t := by
      have : (-1 : K) < (t : K) := by linarith
      have : (-1 : Int) < t := by exact_mod_cast this
      omega
    obtain ⟨b1, b2⟩ := rpos ht
    have b1K : (0 : K) ≤ (mm : K) := by exact_mod_cast b1
    have b2K : (mm : K) ≤ (w : K) - 1 := by exact_mod_cast b2
    have hr0 : 0 ≤ x - ((t : K) - (mm : K)) := by linarith
    have hrw : x - ((t : K) - (mm : K)) < (w : K) := by linarith
    refine ⟨by rw [abs_lt]; constructor <;> linarith, ?_⟩
    have habs : |x - ((t : K) - (mm : K))| < 2 ^ 31 := by
      rw [abs_lt]; constructor <;> linarith
    obtain ⟨c1, c2⟩ := (hto _ habs).1 hr0
    generalize env.to_int (x - ((t : K) - (mm : K))) = t2 at c1 c2
    have d1 : (t2 : K) < (w : K) := by linarith
    have d2 : (-1 : K) < (t2 : K) := by linarith
    have d1i : t2 < w := by exact_mod_cast d1
    have d2i : (-1 : Int) < t2 := by exact_mod_cast d2
    exact tdiv_small t2 w (by omega) d1i
  · obtain ⟨a1, a2⟩ := hneg h0
    have ht : t ≤ 0 := by
      have : (t : K) < 1 := by linarith
      have : t < (1 : Int) := by exact_mod_cast this
      omega
    obtain ⟨b1, b2⟩ := rneg ht
    have b1K : -((w : K) - 1) ≤ (mm : K) := by exact_mod_cast b1
    have b2K : (mm : K) ≤ 0 := by exact_mod_cast b2
    have hr0 : x - ((t : K) - (mm : K)) ≤ 0 := by linarith
    have hrw : -(w : K) < x - ((t : K) - (mm : K)) := by linarith
    refine ⟨by rw [abs_lt]; constructor <;> linarith, ?_⟩
    have habs : |x - ((t : K) - (mm : K))| < 2 ^ 31 := by
      rw [abs_lt]; constructor <;> linarith
    obtain ⟨c1, c2⟩ := (hto _ habs).2 hr0
    generalize env.to_int (x - ((t : K) - (mm : K))) = t2 at c1 c2
    have d1 : -(w : K) < (t2 : K) := by linarith
    have d2 : (t2 : K) < 1 := by linarith
    have d1i : -w < t2 := by exact_mod_cast d1
    have d2i : t2 < (1 : Int) := by exact_mod_cast d2
    exact tdiv_small t2 w d1i (by omega)

/-- The conversion to int of the example environment truncates toward zero. -/
theorem qbsp_env.sample_trunc_toIntTruncates [FloorRing K] :
    (qbsp_env.sample_trunc : qbsp_env K).ToIntTruncates := by
  intro x _
  unfold qbsp_env.sample_trunc
  dsimp only
  constructor
  · intro h0
    rw [if_pos h0]
    exact ⟨Int.floor_le x, Int.lt_floor_add_one x⟩
  · intro h0
    by_cases hx : 0 ≤ x
    · have hx0 : x = 0 := le_antisymm h0 hx
      rw [if_pos hx, hx0]
      simp
    · rw [if_neg hx]
      refine ⟨Int.le_ceil x, ?_⟩
      have := Int.ceil_lt_add_one x
      linarith

/-- The function normalizeShift in exact arithmetic (the conversions to float
taken as the identity) and with width and height of type int: it returns its
input when no texture metadata is given.  For a texture of positive width and
height and a shift inside the range of int (positive or negative), each
component of the result is the input component minus an integer multiple of the
width (height), is smaller in absolute value than the width (height), and
normalising the result again returns it unchanged. -/
theorem normalizeShift_spec (env : qbsp_env K) (m : libm K) (hto : env.ToIntTruncates)
    (hfl : m.FloatExact) (hs : env.texture_meta_unsigned = false) (v : qvec2 K)
    (w h : Int) (hw : 0 < w) (hh : 0 < h) (hw2 : w < 2 ^ 31) (hh2 : h < 2 ^ 31)
    (hx : |v.x| < 2 ^ 31) (hy : |v.y| < 2 ^ 31) :
    normalizeShift env m none v = v ∧
    (∃ k : Int, (normalizeShift env m (some (w, h)) v).x = v.x - (k : K) * (w : K)) ∧
    (∃ k : Int, (normalizeShift env m (some (w, h)) v).y = v.y - (k : K) * (h : K)) ∧
    |(normalizeShift env m (some (w, h)) v).x| < (w : K) ∧
    |(normalizeShift env m (some (w, h)) v).y| < (h : K) ∧
    normalizeShift env m (some (w, h)) (normalizeShift env m (some (w, h)) v) =
      normalizeShift env m (some (w, h)) v := by
  have hfl2 : ∀ x, m.to_float x = x := hfl
  have hdef : ∀ u : qvec2 K, normalizeShift env m (some (w, h)) u =
      ⟨u.x - ((Int.tdiv (env.to_int u.x) w * w : Int) : K),
        u.y - ((Int.tdiv (env.to_int u.y) h * h : Int) : K)⟩ := by
    intro u
    unfold normalizeShift normalizeShift_offset
    simp only [hs, hfl2, Bool.false_eq_true, if_false]
  obtain ⟨x1, x2⟩ := normalizeShift_component env hto w hw hw2 v.x hx
  obtain ⟨y1, y2⟩ := normalizeShift_component env hto h hh hh2 v.y hy
  refine ⟨rfl, ⟨Int.tdiv (env.to_int v.x) w, ?_⟩, ⟨Int.tdiv (env.to_int v.y) h, ?_⟩, ?_, ?_, ?_⟩
  · rw [hdef]
    dsimp only
    push_cast
    ring
  · rw [hdef]
    dsimp only
    push_cast
    ring
  · rw [hdef]
    exact x1
  · rw [hdef]
    exact y1
  · rw [hdef, hdef]
    dsimp only
    rw [x2, y2]
    simp

theorem normalizeShift_spec_witness :
    libm.real.FloatExact ∧ (qbsp_env.sample_trunc : qbsp_env ℝ).texture_meta_unsigned = false ∧
    |(⟨-100, 130⟩ : qvec2 ℝ).x| < 2 ^ 31 ∧ |(⟨-100, 130⟩ : qvec2 ℝ).y| < 2 ^ 31 ∧
    (∃ k : Int, (normalizeShift (qbsp_env.sample_trunc : qbsp_env ℝ) libm.real (some (64, 64))
      ⟨-100, 130⟩).x = (-100 : ℝ) - (k : ℝ) * ((64 : Int) : ℝ)) ∧
    |(normalizeShift (qbsp_env.sample_trunc : qbsp_env ℝ) libm.real (some (64, 64))
      ⟨-100, 130⟩).x| < ((64 : Int) : ℝ) :=
  have hx : |(⟨-100, 130⟩ : qvec2 ℝ).x| < 2 ^ 31 := by norm_num [abs_lt]
  have hy : |(⟨-100, 130⟩ : qvec2 ℝ).y| < 2 ^ 31 := by norm_num [abs_lt]
  have h := normalizeShift_spec (qbsp_env.sample_trunc : qbsp_env ℝ) libm.real
    qbsp_env.sample_trunc_toIntTruncates libm.real_floatExact rfl ⟨-100, 130⟩ 64 64
    (by norm_num) (by norm_num) (by norm_num) (by norm_num) hx hy
  ⟨libm.real_floatExact, rfl, hx, hy, h.2.1, h.2.2.2.1⟩

end shift_claims

section snap_claims
variable {K : Type} [LinearOrderedField K]

/-- Q_rint of an integer is that integer. -/
theorem libm.rint_int (m : libm K) (hr : m.RintNearest) (n : Int) : m.rint (n : K) = (n : K) := by
  obtain ⟨r, hr1, hr2⟩ := hr (n : K)
  have h := hr2 n
  rw [sub_self, abs_zero] at h
  have h2 : (n : K) - (r : K) = 0 := abs_eq_zero.mp (le_antisymm h (abs_nonneg _))
  rw [hr1]
  linarith

/-- The rounding step on one component: a component within ZERO_EPSILON of an
integer becomes Q_rint of it, which is an integer nearest to it; a component
at least ZERO_EPSILON away from every integer is kept; the component moves by
less than ZERO_EPSILON; the result is an integer or at least ZERO_EPSILON away
from every integer; and the step is idempotent. -/
theorem snapToInteger_spec (env : qbsp_env K) (m : libm K) (hr : m.RintNearest)
    (heps : 0 < env.ZERO_EPSILON) (v : K) :
    (∃ n : Int, m.rint v = (n : K) ∧ ∀ k : Int, |v - (n : K)| ≤ |v - (k : K)|) ∧
    ((∃ k : Int, |v - (k : K)| < env.ZERO_EPSILON) → snapToInteger env m v = m.rint v) ∧
    ((∀ k : Int, env.ZERO_EPSILON ≤ |v - (k : K)|) → snapToInteger env m v = v) ∧
    |snapToInteger env m v - v| < env.ZERO_EPSILON ∧
    ((∃ n : Int, snapToInteger env m v = (n : K)) ∨
      ∀ k : Int, env.ZERO_EPSILON ≤ |snapToInteger env m v - (k : K)|) ∧
    snapToInteger env m (snapToInteger env m v) = snapToInteger env m v := by
  obtain ⟨n, hn1, hn2⟩ := hr v
  refine ⟨⟨n, hn1, hn2⟩, ?_, ?_, ?_, ?_, ?_⟩
  · rintro ⟨k, hk⟩
    unfold snapToInteger
    dsimp only
    rw [if_pos]
    rw [hn1]
    exact lt_of_le_of_lt (hn2 k) hk
  · intro h
    unfold snapToInteger
    dsimp only
    rw [if_neg]
    rw [hn1]
    exact not_lt.mpr (h n)
  · unfold snapToInteger
    dsimp only
    split_ifs with h
    · rw [abs_sub_comm]
      exact h
    · rw [sub_self, abs_zero]
      exact heps
  · unfold snapToInteger
    dsimp only
    split_ifs with h
    · left
      exact ⟨n, hn1⟩
    · right
      intro k
      rw [hn1] at h
      exact le_trans (not_lt.mp h) (hn2 k)
  · unfold snapToInteger
    dsimp only
    by_cases h : |v - m.rint v| < env.ZERO_EPSILON
    · rw [if_pos h, hn1, libm.rint_int m hr n, sub_self, abs_zero, if_pos heps]
    · rw [if_neg h, if_neg h]

/-- The rounding loop applies the rounding step to each of the eight
components. -/
theorem snapTexvecs_components (env : qbsp_env K) (m : libm K) (vecs : texvecf K) :
    (snapTexvecs env m vecs).components = vecs.components.map (snapToInteger env m) := rfl

/-- Q_rint of the real numbers, rounding half up, returns a nearest integer. -/
theorem libm.real_rintNearest : libm.real.RintNearest := by
  intro x
  refine ⟨⌊x + 1 / 2⌋, rfl, ?_⟩
  intro k
  have h1 := Int.floor_le (x + 1 / 2)
  have h2 := Int.lt_floor_add_one (x + 1 / 2)
  have hn : |x - ((⌊x + 1 / 2⌋ : Int) : ℝ)| ≤ 1 / 2 := by
    rw [abs_le]
    constructor <;> linarith
  rcases lt_trichotomy k ⌊x + 1 / 2⌋ with hk | hk | hk
  · have hk2 : k + 1 ≤ ⌊x + 1 / 2⌋ := hk
    have hk3 : ((k + 1 : Int) : ℝ) ≤ ((⌊x + 1 / 2⌋ : Int) : ℝ) := by exact_mod_cast hk2
    push_cast at hk3
    have : 1 / 2 ≤ x - (k : ℝ) := by linarith
    exact le_trans hn (le_trans this (le_abs_self _))
  · rw [hk]
  · have hk2 : ⌊x + 1 / 2⌋ + 1 ≤ k := hk
    have hk3 : ((⌊x + 1 / 2⌋ + 1 : Int) : ℝ) ≤ (k : ℝ) := by exact_mod_cast hk2
    push_cast at hk3
    have : 1 / 2 ≤ -(x - (k : ℝ)) := by linarith
    exact le_trans hn (le_trans this (neg_le_abs _))

/-- C22: the rounding loop of ParseBrushFace over the eight texture-vector
components.  Every component within ZERO_EPSILON of an integer is replaced by
Q_rint of it, an integer nearest to it, and every other component is kept; each
component moves by less than ZERO_EPSILON; afterwards each component is an
integer or at least ZERO_EPSILON away from every integer; and rounding again
changes nothing. -/
theorem snapTexvecs_spec (env : qbsp_env K) (m : libm K) (hr : m.RintNearest)
    (heps : 0 < env.ZERO_EPSILON) (vecs : texvecf K) :
    (snapTexvecs env m vecs).components.length = 8 ∧
    (∀ i (h1 : i < vecs.components.length)
        (h2 : i < (snapTexvecs env m vecs).components.length),
      (∃ n : Int, m.rint (vecs.components.get ⟨i, h1⟩) = (n : K) ∧
        ∀ k : Int, |vecs.components.get ⟨i, h1⟩ - (n : K)| ≤
          |vecs.components.get ⟨i, h1⟩ - (k : K)|) ∧
      ((∃ k : Int, |vecs.components.get ⟨i, h1⟩ - (k : K)| < env.ZERO_EPSILON) →
        (snapTexvecs env m vecs).components.get ⟨i, h2⟩ = m.rint (vecs.components.get ⟨i, h1⟩)) ∧
      ((∀ k : Int, env.ZERO_EPSILON ≤ |vecs.components.get ⟨i, h1⟩ - (k : K)|) →
        (snapTexvecs env m vecs).components.get ⟨i, h2⟩ = vecs.components.get ⟨i, h1⟩) ∧
      |(snapTexvecs env m vecs).components.get ⟨i, h2⟩ - vecs.components.get ⟨i, h1⟩| <
        env.ZERO_EPSILON ∧
      ((∃ n : Int, (snapTexvecs env m vecs).components.get ⟨i, h2⟩ = (n : K)) ∨
        ∀ k : Int, env.ZERO_EPSILON ≤ |(snapTexvecs env m vecs).components.get ⟨i, h2⟩ - (k : K)|)) ∧
    snapTexvecs env m (snapTexvecs env m vecs) = snapTexvecs env m vecs := by
  refine ⟨rfl, ?_, ?_⟩
  · intro i h1 h2
    have hget : (snapTexvecs env m vecs).components.get ⟨i, h2⟩ =
        snapToInteger env m (vecs.components.get ⟨i, h1⟩) := by
      simp only [snapTexvecs_components, List.get_eq_getElem, List.getElem_map]
    rw [hget]
    obtain ⟨a, b, c, d, e, -⟩ := snapToInteger_spec env m hr heps (vecs.components.get ⟨i, h1⟩)
    exact ⟨a, b, c, d, e⟩
  · have hi := fun v => (snapToInteger_spec env m hr heps v).2.2.2.2.2
    unfold snapTexvecs
    dsimp only
    simp only [hi]

theorem snapTexvecs_spec_witness :
    (0 : ℝ) < (qbsp_env.sample : qbsp_env ℝ).ZERO_EPSILON ∧
    snapTexvecs qbsp_env.sample libm.real
        (snapTexvecs qbsp_env.sample libm.real
          (⟨⟨1 + 1 / 100000, 0, 1 / 2, 3⟩, ⟨0, -1, 1 / 4, 7⟩⟩ : texvecf ℝ)) =
      snapTexvecs qbsp_env.sample libm.real
        (⟨⟨1 + 1 / 100000, 0, 1 / 2, 3⟩, ⟨0, -1, 1 / 4, 7⟩⟩ : texvecf ℝ) :=
  have heps : (0 : ℝ) < (qbsp_env.sample : qbsp_env ℝ).ZERO_EPSILON := by
    norm_num [qbsp_env.sample]
  ⟨heps, (snapTexvecs_spec qbsp_env.sample libm.real libm.real_rintNearest heps
    ⟨⟨1 + 1 / 100000, 0, 1 / 2, 3⟩, ⟨0, -1, 1 / 4, 7⟩⟩).2.2⟩

end snap_claims

section repair_claims
variable {K : Type} [LinearOrderedField K]

/-- Two integers with the same bits are equal. -/
theorem int_eq_of_testBit_eq (a b : Int) (h : ∀ i, Int.testBit a i = Int.testBit b i) : a = b := by
  have hbig : ∀ n k : Nat, n.testBit (n + k) = false := by
    intro n k
    apply Nat.testBit_lt_two_pow
    calc n < 2 ^ n := Nat.lt_two_pow n
      _ ≤ 2 ^ (n + k) := Nat.pow_le_pow_right (by norm_num) (by omega)
  cases a with
  | ofNat m =>
    cases b with
    | ofNat n =>
      congr 1
      apply Nat.eq_of_testBit_eq
      intro i
      exact h i
    | negSucc n =>
      exfalso
      have := h (m + n)
      simp only [Int.testBit] at this
      have h1 := hbig m n
      have h2 := hbig n m
      rw [Nat.add_comm n m] at h2
      rw [h1, h2] at this
      simp at this
  | negSucc m =>
    cases b with
    | ofNat n =>
      exfalso
      have := h (m + n)
      simp only [Int.testBit] at this
      have h1 := hbig m n
      have h2 := hbig n m
      rw [Nat.add_comm n m] at h2
      rw [h1, h2] at this
      simp at this
    | negSucc n =>
      congr 1
      apply Nat.eq_of_testBit_eq
      intro i
      have := h i
      simp only [Int.testBit] at this
      simpa using this

/-- The bits of a power of two. -/
theorem int_testBit_two_pow (k i : Nat) : Int.testBit ((2 ^ k : Nat) : Int) i = decide (k = i) := by
  show Nat.testBit (2 ^ k) i = decide (k = i)
  rw [Nat.testBit_two_pow]

/-- The bits of zero. -/
theorem int_testBit_zero (i : Nat) : Int.testBit 0 i = false := by
  show Nat.testBit 0 i = false
  exact Nat.zero_testBit i

/-- Masking with a single bit gives a non-zero value exactly when the bit is
set. -/
theorem int_land_two_pow_ne_zero (x : Int) (k : Nat) :
    Int.land x ((2 ^ k : Nat) : Int) ≠ 0 ↔ Int.testBit x k = true := by
  constructor
  · intro h
    by_contra hx
    apply h
    apply int_eq_of_testBit_eq
    intro i
    rw [Int.testBit_land, int_testBit_two_pow, int_testBit_zero]
    by_cases hki : k = i
    · subst hki
      simp [hx]
    · simp [hki]
  · intro hx h
    have := congrArg (fun z => Int.testBit z k) h
    simp only [Int.testBit_land, int_testBit_two_pow, int_testBit_zero, hx] at this
    simp at this

/-- Masking with two bits gives zero exactly when neither bit is set. -/
theorem int_land_two_bits_eq_zero (x : Int) (a b : Nat) :
    Int.land x (Int.lor ((2 ^ a : Nat) : Int) ((2 ^ b : Nat) : Int)) = 0 ↔
      Int.testBit x a = false ∧ Int.testBit x b = false := by
  constructor
  · intro h
    have ha := congrArg (fun z => Int.testBit z a) h
    have hb := congrArg (fun z => Int.testBit z b) h
    simp only [Int.testBit_land, Int.testBit_lor, int_testBit_two_pow, int_testBit_zero] at ha hb
    constructor
    · simpa using ha
    · simpa using hb
  · rintro ⟨ha, hb⟩
    apply int_eq_of_testBit_eq
    intro i
    rw [Int.testBit_land, Int.testBit_lor, int_testBit_two_pow, int_testBit_two_pow,
      int_testBit_zero]
    by_cases hai : a = i
    · subst hai
      simp [ha]
    · by_cases hbi : b = i
      · subst hbi
        simp [hb]
      · simp [hai, hbi]

/-- Masking with two bits gives the mask back exactly when both bits are
set. -/
theorem int_land_two_bits_eq_mask (x : Int) (a b : Nat) :
    Int.land x (Int.lor ((2 ^ a : Nat) : Int) ((2 ^ b : Nat) : Int)) =
        Int.lor ((2 ^ a : Nat) : Int) ((2 ^ b : Nat) : Int) ↔
      Int.testBit x a = true ∧ Int.testBit x b = true := by
  constructor
  · intro h
    have ha := congrArg (fun z => Int.testBit z a) h
    have hb := congrArg (fun z => Int.testBit z b) h
    simp only [Int.testBit_land, Int.testBit_lor, int_testBit_two_pow] at ha hb
    constructor
    · simpa using ha
    · simpa using hb
  · rintro ⟨ha, hb⟩
    apply int_eq_of_testBit_eq
    intro i
    rw [Int.testBit_land, Int.testBit_lor, int_testBit_two_pow, int_testBit_two_pow]
    by_cases hai : a = i
    · subst hai
      simp [ha]
    · by_cases hbi : b = i
      · subst hbi
        simp [hb]
      · simp [hai, hbi]

/-- The first repair leaves the surface flags alone. -/
theorem ParseTextureDef_translucent_flags (c : q2_consts) (info : extended_texinfo_t) :
    (ParseTextureDef_translucent c info).1.flags = info.flags := by
  unfold ParseTextureDef_translucent
  dsimp only
  split_ifs <;> rfl

/-- The second repair leaves the contents alone. -/
theorem ParseTextureDef_sky_nodraw_contents (c : q2_consts) (info : extended_texinfo_t) :
    (ParseTextureDef_sky_nodraw c info).1.contents = info.contents := by
  unfold ParseTextureDef_sky_nodraw
  split_ifs <;> rfl

/-- The surface flags after the repair step, bit by bit. -/
theorem ParseTextureDef_repair_flags (c : q2_consts)
    {sky nodraw trans33 trans66 translucent detail : Nat}
    (hc : c.Bits sky nodraw trans33 trans66 translucent detail) (info : extended_texinfo_t)
    (i : Nat) :
    Int.testBit (ParseTextureDef_repair c info).1.flags i =
      if i = nodraw ∧ Int.testBit info.flags sky = true then false
      else Int.testBit info.flags i := by
  unfold ParseTextureDef_repair
  dsimp only
  unfold ParseTextureDef_sky_nodraw
  rw [ParseTextureDef_translucent_flags, hc.sky_eq, hc.nodraw_eq]
  by_cases hb : Int.testBit info.flags sky = true ∧ Int.testBit info.flags nodraw = true
  · rw [if_pos ((int_land_two_bits_eq_mask _ _ _).mpr hb)]
    dsimp only
    rw [Int.testBit_land, Int.testBit_lnot, int_testBit_two_pow]
    by_cases hi : i = nodraw
    · subst hi
      simp [hb.1]
    · have hi2 : ¬ nodraw = i := fun h => hi h.symm
      simp [hi, hi2]
  · rw [if_neg (fun h => hb ((int_land_two_bits_eq_mask _ _ _).mp h))]
    dsimp only
    rw [ParseTextureDef_translucent_flags]
    by_cases hi : i = nodraw
    · subst hi
      by_cases hs : Int.testBit info.flags sky = true
      · have hn : Int.testBit info.flags i = false := by
          by_contra hn
          exact hb ⟨hs, by simpa using hn⟩
        simp [hs, hn]
      · simp [hs]
    · simp [hi]

/-- The contents after the repair step, bit by bit. -/
theorem ParseTextureDef_repair_contents (c : q2_consts)
    {sky nodraw trans33 trans66 translucent detail : Nat}
    (hc : c.Bits sky nodraw trans33 trans66 translucent detail) (info : extended_texinfo_t)
    (i : Nat) :
    Int.testBit (ParseTextureDef_repair c info).1.contents i =
      if i = translucent then false
      else if i = detail then
        (Int.testBit info.contents detail ||
          (Int.testBit info.contents translucent && !Int.testBit info.flags trans33 &&
            !Int.testBit info.flags trans66))
      else Int.testBit info.contents i := by
  have hne := hc.translucent_ne
  unfold ParseTextureDef_repair
  dsimp only
  rw [ParseTextureDef_sky_nodraw_contents]
  unfold ParseTextureDef_translucent
  dsimp only
  rw [hc.translucent_eq, hc.detail_eq, hc.trans33_eq, hc.trans66_eq]
  by_cases ht : Int.testBit info.contents translucent = true
  · rw [if_pos ((int_land_two_pow_ne_zero _ _).mpr ht)]
    by_cases hf : Int.testBit info.flags trans33 = false ∧ Int.testBit info.flags trans66 = false
    · rw [if_pos ((int_land_two_bits_eq_zero _ _ _).mpr hf)]
      dsimp only
      rw [Int.testBit_lor, Int.testBit_land, Int.testBit_lnot, int_testBit_two_pow,
        int_testBit_two_pow]
      by_cases h1 : i = translucent
      · subst h1
        have hne2 : ¬ detail = i := fun h => hne h.symm
        simp [hne, hne2]
      · have h1b : ¬ translucent = i := fun h => h1 h.symm
        by_cases h2 : i = detail
        · subst h2
          simp [h1, ht, hf.1, hf.2]
        · have h2b : ¬ detail = i := fun h => h2 h.symm
          simp [h1, h1b, h2, h2b]
    · rw [if_neg (fun h => hf ((int_land_two_bits_eq_zero _ _ _).mp h))]
      dsimp only
      rw [Int.testBit_land, Int.testBit_lnot, int_testBit_two_pow]
      by_cases h1 : i = translucent
      · subst h1
        simp
      · have h1b : ¬ translucent = i := fun h => h1 h.symm
        by_cases h2 : i = detail
        · subst h2
          by_cases h33 : Int.testBit info.flags trans33 = true
          · simp [h1, h1b, ht, h33]
          · have h66 : Int.testBit info.flags trans66 = true := by
              by_contra h66
              exact hf ⟨by simpa using h33, by simpa using h66⟩
            simp [h1, h1b, ht, h66]
        · simp [h1, h1b, h2]
  · have ht2 : Int.testBit info.contents translucent = false := by simpa using ht
    rw [if_neg (fun h => ht ((int_land_two_pow_ne_zero _ _).mp (by simpa using h)))]
    dsimp only
    by_cases h1 : i = translucent
    · subst h1
      simp [ht2]
    · by_cases h2 : i = detail
      · subst h2
        simp [h1, ht2]
      · simp [h1, h2]

/-- C24: the repair step of ParseTextureDef for a Quake II target, for every
extended info (given with the face, taken from the metadata of the texture, or
default-constructed).  The flags afterwards never have both SKY and NODRAW:
NODRAW is cleared exactly when SKY was set too, and every other flag bit is
unchanged.  The contents afterwards never have TRANSLUCENT; DETAIL is set
afterwards exactly when it was set before or TRANSLUCENT was set with neither
TRANS33 nor TRANS66 in the flags; every other content bit is unchanged. -/
theorem ParseTextureDef_repair_spec (c : q2_consts)
    {sky nodraw trans33 trans66 translucent detail : Nat}
    (hc : c.Bits sky nodraw trans33 trans66 translucent detail) (wal : Option texture_meta)
    (extinfo : Option extended_texinfo_t) :
    ParseTextureDef_q2 c wal extinfo =
      ParseTextureDef_repair c (ParseTextureDef_q2_info wal extinfo) ∧
    ∀ info : extended_texinfo_t,
      ¬ (Int.testBit (ParseTextureDef_repair c info).1.flags sky = true ∧
        Int.testBit (ParseTextureDef_repair c info).1.flags nodraw = true) ∧
      Int.testBit (ParseTextureDef_repair c info).1.flags nodraw =
        (Int.testBit info.flags nodraw && !Int.testBit info.flags sky) ∧
      (∀ i, i ≠ nodraw →
        Int.testBit (ParseTextureDef_repair c info).1.flags i = Int.testBit info.flags i) ∧
      Int.testBit (ParseTextureDef_repair c info).1.contents translucent = false ∧
      Int.testBit (ParseTextureDef_repair c info).1.contents detail =
        (Int.testBit info.contents detail ||
          (Int.testBit info.contents translucent && !Int.testBit info.flags trans33 &&
            !Int.testBit info.flags trans66)) ∧
      (∀ i, i ≠ translucent → i ≠ detail →
        Int.testBit (ParseTextureDef_repair c info).1.contents i = Int.testBit info.contents i) ∧
      (ParseTextureDef_repair c info).1.value = info.value ∧
      (ParseTextureDef_repair c info).1.animation = info.animation := by
  refine ⟨rfl, ?_⟩
  intro info
  have hF := ParseTextureDef_repair_flags c hc info
  have hC := ParseTextureDef_repair_contents c hc info
  have hsn : sky ≠ nodraw := hc.sky_ne
  have htd : translucent ≠ detail := hc.translucent_ne
  refine ⟨?_, ?_, ?_, ?_, ?_, ?_, ?_, ?_⟩
  · rw [hF sky, hF nodraw]
    by_cases hs : Int.testBit info.flags sky = true
    · simp [hs]
    · simp [hs, hsn]
  · rw [hF nodraw]
    by_cases hs : Int.testBit info.flags sky = true
    · simp [hs]
    · simp [hs]
  · intro i hi
    rw [hF i]
    simp [hi]
  · rw [hC translucent]
    simp
  · rw [hC detail]
    simp [htd.symm]
  · intro i h1 h2
    rw [hC i]
    simp [h1, h2]
  · unfold ParseTextureDef_repair ParseTextureDef_sky_nodraw ParseTextureDef_translucent
    dsimp only
    split_ifs <;> rfl
  · unfold ParseTextureDef_repair ParseTextureDef_sky_nodraw ParseTextureDef_translucent
    dsimp only
    split_ifs <;> rfl

/-- The values of the Quake II bits are single bits. -/
theorem q2_consts.standard_bits : q2_consts.standard.Bits 2 7 4 5 28 27 :=
  { sky_eq := by decide, nodraw_eq := by decide, trans33_eq := by decide,
    trans66_eq := by decide, translucent_eq := by decide, detail_eq := by decide,
    sky_ne := by decide, translucent_ne := by decide }

theorem ParseTextureDef_repair_spec_witness :
    q2_consts.standard.Bits 2 7 4 5 28 27 ∧
    Int.testBit (ParseTextureDef_repair q2_consts.standard
      { contents := 0x10000001, flags := 0x84, value := 0 }).1.contents 28 = false :=
  ⟨q2_consts.standard_bits,
    ((ParseTextureDef_repair_spec q2_consts.standard q2_consts.standard_bits none none).2
      { contents := 0x10000001, flags := 0x84, value := 0 }).2.2.2.1⟩

end repair_claims

section translate_claims
variable {K : Type} [LinearOrderedField K]

/-- The texinfo lookup of the example environment keeps the texture vectors of
the entries and returns an entry with the texture vectors looked up. -/
theorem qbsp_env.sample_findTexinfoVecs : (qbsp_env.sample : qbsp_env K).FindTexinfoVecs := by
  intro miptex mtexinfos tx
  unfold qbsp_env.sample
  dsimp only
  by_cases h : tx ∈ mtexinfos
  · rw [if_pos h]
    dsimp only
    refine ⟨fun i t ht => ⟨t, ht, rfl⟩, tx, ?_, rfl⟩
    have hlt : mtexinfos.indexOf tx < mtexinfos.length := List.indexOf_lt_length.mpr h
    rw [List.getElem?_eq_getElem hlt]
    congr 1
    exact List.getElem_indexOf hlt
  · rw [if_neg h]
    dsimp only
    refine ⟨fun i t ht => ⟨t, ?_, rfl⟩, tx, ?_, rfl⟩
    · have hi : i < mtexinfos.length := by
        by_contra hc
        rw [List.getElem?_eq_none (by omega)] at ht
        exact absurd ht (by simp)
      rw [List.getElem?_append_left hi]
      exact ht
    · simp

/-- One row after TranslateMapFace: the first three components are kept and
the row gives the moved point the value that the old row gave the point. -/
theorem TranslateMapFace_row_spec (out : qvec4 K) (offset p : qvec3 K) :
    (TranslateMapFace_row out offset).xyz = out.xyz ∧
    qv.dot (p.add offset) (TranslateMapFace_row out offset).xyz + (TranslateMapFace_row out offset).w =
      qv.dot p out.xyz + out.w := by
  constructor
  · rfl
  · unfold TranslateMapFace_row qv.dot qvec3.add qvec3.scale qvec4.xyz
    dsimp only
    ring

/-- C26: TranslateMapFace on a face whose texinfo index lies in the table.
The call returns; the three plane points of the face are the old ones plus the
offset; the first three components of both texture vectors are those of the
old texture vectors; and for every world point p the new texture vectors
assign to p + offset the texture coordinates that the old ones assigned to
p. -/
theorem TranslateMapFace_spec (env : qbsp_env K) (m : libm K) (hft : env.FindTexinfoVecs)
    (map : mapdata_t K) (face : mapface_t K) (offset : qvec3 K)
    (hface : face.texinfo < map.mtexinfos.length) :
    ∃ map2 face2 old new, TranslateMapFace env m map face offset = some (map2, face2) ∧
      face.get_texvecs map.mtexinfos = some old ∧
      face2.get_texvecs map2.mtexinfos = some new ∧
      face2.planepts = ⟨face.planepts.p0.add offset, face.planepts.p1.add offset,
        face.planepts.p2.add offset⟩ ∧
      new.row0.xyz = old.row0.xyz ∧ new.row1.xyz = old.row1.xyz ∧
      ∀ p : qvec3 K, new.texcoords (p.add offset) = old.texcoords p := by
  obtain ⟨tx, htx⟩ : ∃ tx, map.mtexinfos[face.texinfo]? = some tx :=
    ⟨_, List.getElem?_eq_getElem hface⟩
  unfold TranslateMapFace
  dsimp only
  have h1 : (mapface_t.set_planepts env m map.planes face
      ⟨face.planepts.p0.add offset, face.planepts.p1.add offset,
        face.planepts.p2.add offset⟩).2.1.texinfo = face.texinfo := rfl
  have hget : mapface_t.get_texvecs map.mtexinfos (mapface_t.set_planepts env m map.planes face
      ⟨face.planepts.p0.add offset, face.planepts.p1.add offset,
        face.planepts.p2.add offset⟩).2.1 = some tx.vecs := by
    unfold mapface_t.get_texvecs mapface_t.get_texinfo
    rw [h1, htx]
  rw [hget]
  dsimp only
  unfold mapface_t.set_texvecs
  dsimp only
  have hget2 : mapface_t.get_texinfo map.mtexinfos (mapface_t.set_planepts env m map.planes face
      ⟨face.planepts.p0.add offset, face.planepts.p1.add offset,
        face.planepts.p2.add offset⟩).2.1 = some tx := by
    unfold mapface_t.get_texinfo
    rw [h1, htx]
  rw [hget2]
  dsimp only
  obtain ⟨-, t2, ht2, hv⟩ := hft map.miptex map.mtexinfos
    { tx with outputnum := none,
              vecs := ⟨TranslateMapFace_row tx.vecs.row0 offset,
                TranslateMapFace_row tx.vecs.row1 offset⟩ }
  refine ⟨_, _, tx.vecs, t2.vecs, rfl, ?_, ?_, rfl, ?_, ?_, ?_⟩
  · unfold mapface_t.get_texvecs mapface_t.get_texinfo
    rw [htx]
  · unfold mapface_t.get_texvecs mapface_t.get_texinfo
    dsimp only
    rw [ht2]
  · rw [hv]
    rfl
  · rw [hv]
    rfl
  · intro p
    rw [hv]
    unfold texvecf.texcoords
    dsimp only
    rw [(TranslateMapFace_row_spec tx.vecs.row0 offset p).2,
      (TranslateMapFace_row_spec tx.vecs.row1 offset p).2]

theorem TranslateMapFace_spec_witness :
    (example_floor_face : mapface_t ℝ).texinfo < (example_floor_map : mapdata_t ℝ).mtexinfos.length ∧
    ∃ map2 face2 old new,
      TranslateMapFace qbsp_env.sample libm.real example_floor_map example_floor_face ⟨16, 32, 0⟩ =
        some (map2, face2) ∧
      (example_floor_face : mapface_t ℝ).get_texvecs example_floor_map.mtexinfos = some old ∧
      face2.get_texvecs map2.mtexinfos = some new ∧
      face2.planepts = ⟨(example_floor_face : mapface_t ℝ).planepts.p0.add ⟨16, 32, 0⟩,
        (example_floor_face : mapface_t ℝ).planepts.p1.add ⟨16, 32, 0⟩,
        (example_floor_face : mapface_t ℝ).planepts.p2.add ⟨16, 32, 0⟩⟩ ∧
      new.row0.xyz = old.row0.xyz ∧ new.row1.xyz = old.row1.xyz ∧
      ∀ p : qvec3 ℝ, new.texcoords (p.add ⟨16, 32, 0⟩) = old.texcoords p :=
  have h : (example_floor_face : mapface_t ℝ).texinfo <
      (example_floor_map : mapdata_t ℝ).mtexinfos.length := by
    unfold example_floor_face example_floor_map
    dsimp only
    norm_num
  ⟨h, TranslateMapFace_spec qbsp_env.sample libm.real qbsp_env.sample_findTexinfoVecs
    example_floor_map example_floor_face ⟨16, 32, 0⟩ h⟩

end translate_claims

section contents_claims
variable {K : Type} [LinearOrderedField K]

/-- The classification of a face whose texinfo index lies in the table. -/
theorem Brush_GetContents_face_returns (game : gamedef_t K) (mtexinfos : List (maptexinfo_t K))
    (f : mapface_t K) (hf : f.texinfo < mtexinfos.length) :
    ∃ c, Brush_GetContents_face game mtexinfos f = some c := by
  unfold Brush_GetContents_face mapface_t.get_texinfo
  rw [List.getElem?_eq_getElem hf]
  exact ⟨_, rfl⟩

/-- The loop of Brush_GetContents returns, and its result is the base contents
it was started with once they are set, and otherwise the classification of the
first face with a non-empty classification, if there is one. -/
theorem Brush_GetContents_loop_spec (game : gamedef_t K) (mtexinfos : List (maptexinfo_t K)) :
    ∀ (faces : List (mapface_t K)) (set : Bool) (base : contentflags_t) (log : List String),
      (∀ f ∈ faces, f.texinfo < mtexinfos.length) →
      ∃ log2, Brush_GetContents_loop game mtexinfos faces set base log =
        some (if set then base
          else match (faces.filterMap (Brush_GetContents_face game mtexinfos)).find?
              (fun c => !game.contents_is_empty c) with
            | some c => c
            | none => base, log2) := by
  intro faces
  induction faces with
  | nil =>
    intro set base log _
    refine ⟨log, ?_⟩
    unfold Brush_GetContents_loop
    cases set <;> simp
  | cons f rest ih =>
    intro set base log hv
    obtain ⟨c, hc⟩ := Brush_GetContents_face_returns game mtexinfos f
      (hv f (List.mem_cons_self _ _))
    have hrest : ∀ g ∈ rest, g.texinfo < mtexinfos.length :=
      fun g hg => hv g (List.mem_cons_of_mem _ hg)
    unfold Brush_GetContents_loop
    rw [hc]
    dsimp only
    rw [List.filterMap_cons_some hc]
    by_cases he : game.contents_is_empty c = true
    · rw [if_pos he]
      obtain ⟨log2, h2⟩ := ih set base log hrest
      refine ⟨log2, ?_⟩
      rw [h2]
      rw [List.find?_cons_of_neg]
      simp [he]
    · rw [if_neg he]
      have hfind : (c :: rest.filterMap (Brush_GetContents_face game mtexinfos)).find?
          (fun c => !game.contents_is_empty c) = some c := by
        rw [List.find?_cons_of_pos]
        simp [he]
      rw [hfind]
      cases set with
      | true =>
        simp only [Bool.true_eq_false, if_false, if_true]
        split_ifs with ht
        · exact ⟨_, rfl⟩
        · obtain ⟨log2, h2⟩ := ih true base log hrest
          exact ⟨log2, by rw [h2]; simp⟩
      | false =>
        simp only [if_true, Bool.false_eq_true, if_false]
        split_ifs with ht
        · exact ⟨_, rfl⟩
        · obtain ⟨log2, h2⟩ := ih true c log hrest
          exact ⟨log2, by rw [h2]; simp⟩

/-- The base contents of a brush whose first face with a non-empty
classification is f: the classification of f, whatever faces follow it. -/
theorem Brush_GetContents_base_first (game : gamedef_t K) (mtexinfos : List (maptexinfo_t K))
    (pre post : List (mapface_t K)) (f : mapface_t K) (c : contentflags_t)
    (hpre : ∀ g ∈ pre, ∀ d, Brush_GetContents_face game mtexinfos g = some d →
      game.contents_is_empty d = true)
    (hf : Brush_GetContents_face game mtexinfos f = some c)
    (hc : game.contents_is_empty c = false) :
    Brush_GetContents_base game mtexinfos (pre ++ f :: post) = c := by
  unfold Brush_GetContents_base
  have h : ((pre ++ f :: post).filterMap (Brush_GetContents_face game mtexinfos)).find?
      (fun c => !game.contents_is_empty c) = some c := by
    rw [List.filterMap_append, List.find?_append, List.filterMap_cons_some hf]
    have h1 : (pre.filterMap (Brush_GetContents_face game mtexinfos)).find?
        (fun c => !game.contents_is_empty c) = none := by
      rw [List.find?_eq_none]
      intro d hd
      obtain ⟨g, hg, hgd⟩ := List.mem_filterMap.mp hd
      simp [hpre g hg d hgd]
    rw [h1, List.find?_cons_of_pos]
    · rfl
    · simp [hc]
  rw [h]

/-- The base contents of a brush all of whose faces have an empty
classification: the empty contents of the game. -/
theorem Brush_GetContents_base_empty (game : gamedef_t K) (mtexinfos : List (maptexinfo_t K))
    (faces : List (mapface_t K))
    (hall : ∀ g ∈ faces, ∀ d, Brush_GetContents_face game mtexinfos g = some d →
      game.contents_is_empty d = true) :
    Brush_GetContents_base game mtexinfos faces = game.create_empty_contents := by
  unfold Brush_GetContents_base
  have h : (faces.filterMap (Brush_GetContents_face game mtexinfos)).find?
      (fun c => !game.contents_is_empty c) = none := by
    rw [List.find?_eq_none]
    intro d hd
    obtain ⟨g, hg, hgd⟩ := List.mem_filterMap.mp hd
    simp [hall g hg d hgd]
  rw [h]

/-- C23: Brush_GetContents on a brush whose faces refer to entries of the
texinfo table.  The call aborts exactly when the base contents are not valid,
where the base contents are the classification of the first face, in face
order, whose classification is not empty, whatever faces follow it, and the
empty contents of the game when every classification is empty; otherwise it
returns the base contents with the extended flags of the entity, so with the
native content type of the base contents. -/
theorem Brush_GetContents_spec (game : gamedef_t K) (mtexinfos : List (maptexinfo_t K))
    (entity : mapentity_t K) (mapbrush : mapbrush_t K)
    (hv : ∀ f ∈ mapbrush.faces, f.texinfo < mtexinfos.length) :
    (Brush_GetContents game mtexinfos entity mapbrush = none ↔
      game.contents_is_valid (Brush_GetContents_base game mtexinfos mapbrush.faces) false = false) ∧
    (∀ r log, Brush_GetContents game mtexinfos entity mapbrush = some (r, log) →
      r = Brush_GetContents_extended game entity
        (Brush_GetContents_base game mtexinfos mapbrush.faces) ∧
      r.native = (Brush_GetContents_base game mtexinfos mapbrush.faces).native) ∧
    (∀ pre post f c, mapbrush.faces = pre ++ f :: post →
      (∀ g ∈ pre, ∀ d, Brush_GetContents_face game mtexinfos g = some d →
        game.contents_is_empty d = true) →
      Brush_GetContents_face game mtexinfos f = some c → game.contents_is_empty c = false →
      Brush_GetContents_base game mtexinfos mapbrush.faces = c) ∧
    ((∀ g ∈ mapbrush.faces, ∀ d, Brush_GetContents_face game mtexinfos g = some d →
        game.contents_is_empty d = true) →
      Brush_GetContents_base game mtexinfos mapbrush.faces = game.create_empty_contents) := by
  obtain ⟨log2, h2⟩ := Brush_GetContents_loop_spec game mtexinfos mapbrush.faces false
    game.create_empty_contents [] hv
  simp only [Bool.false_eq_true, if_false] at h2
  have hb : (match (mapbrush.faces.filterMap (Brush_GetContents_face game mtexinfos)).find?
      (fun c => !game.contents_is_empty c) with
      | some c => c
      | none => game.create_empty_contents) =
      Brush_GetContents_base game mtexinfos mapbrush.faces := rfl
  rw [hb] at h2
  refine ⟨?_, ?_, ?_, ?_⟩
  · unfold Brush_GetContents
    rw [h2]
    dsimp only
    split_ifs with hval
    · simp [hval]
    · simp [hval]
  · intro r log h
    unfold Brush_GetContents at h
    rw [h2] at h
    dsimp only at h
    split_ifs at h with hval
    have h3 := congrArg Prod.fst (Option.some.inj h)
    dsimp only at h3
    rw [← h3]
    exact ⟨rfl, rfl⟩
  · intro pre post f c hfaces hpre hf hc
    rw [hfaces]
    exact Brush_GetContents_base_first game mtexinfos pre post f c hpre hf hc
  · exact Brush_GetContents_base_empty game mtexinfos mapbrush.faces

theorem Brush_GetContents_spec_witness :
    (∀ f ∈ (mixed_brush : mapbrush_t ℝ).faces,
      f.texinfo < [(maptexinfo_t.default : maptexinfo_t ℝ)].length) ∧
    Brush_GetContents (gamedef_t.sample : gamedef_t ℝ) [maptexinfo_t.default] mapentity_t.default
      mixed_brush = some ({ native := 1 }, ["WARNING: mixed face contents ( != )"]) ∧
    (∀ r log, Brush_GetContents (gamedef_t.sample : gamedef_t ℝ) [maptexinfo_t.default]
        mapentity_t.default mixed_brush = some (r, log) →
      r.native = (Brush_GetContents_base (gamedef_t.sample : gamedef_t ℝ)
        [maptexinfo_t.default] (mixed_brush : mapbrush_t ℝ).faces).native) :=
  have hv : ∀ f ∈ (mixed_brush : mapbrush_t ℝ).faces,
      f.texinfo < [(maptexinfo_t.default : maptexinfo_t ℝ)].length := by
    intro f hf
    simp only [mixed_brush, List.mem_cons, List.mem_singleton, List.not_mem_nil, or_false] at hf
    rcases hf with h | h | h <;> rw [h] <;> simp
  ⟨hv, by
    simp [Brush_GetContents, Brush_GetContents_loop, Brush_GetContents_face,
      mapface_t.get_texinfo, mixed_brush, gamedef_t.sample, Brush_GetContents_extended,
      mapface_t.default, mapentity_t.default, epairs_has, epairs_get]
    decide,
    fun r log h => ((Brush_GetContents_spec (gamedef_t.sample : gamedef_t ℝ)
      [maptexinfo_t.default] mapentity_t.default mixed_brush hv).2.1 r log h).2⟩

end contents_claims

section entity_parse_claims
variable {K : Type} [LinearOrderedField K]

/-- What parse_token does at the end of the text and before a token. -/
theorem parser_t.parse_token_cases (p : parser_t) :
    (p.tokens = [] ∧ p.parse_token = (false, { p with token := "" })) ∨
    (∃ t rest, p.tokens = t :: rest ∧
      p.parse_token = (true, { tokens := rest, token := t.text, location := t.line })) := by
  unfold parser_t.parse_token
  cases h : p.tokens with
  | nil => exact Or.inl ⟨rfl, rfl⟩
  | cons t rest => exact Or.inr ⟨t, rest, rfl, rfl⟩

/-- The tokens left after parse_token are a suffix of the tokens before it. -/
theorem parser_t.parse_token_suffix (p : parser_t) : p.parse_token.2.tokens <:+ p.tokens := by
  rcases p.parse_token_cases with ⟨h1, h2⟩ | ⟨t, rest, h1, h2⟩
  · rw [h2]
  · rw [h2, h1]
    exact List.suffix_cons t rest

/-- The start of ParseBrush ends, and it only moves forward in the text. -/
theorem ParseBrush_start_spec (p : parser_t) :
    ParseBrush_start p ≠ parse_result.unfinished ∧
    ∀ p1 format, ParseBrush_start p = parse_result.ok (p1, format) → p1.tokens <:+ p.tokens := by
  unfold ParseBrush_start
  dsimp only
  have hpeek : p.peek_token.2.tokens = p.tokens := by
    unfold parser_t.peek_token
    cases p.tokens <;> rfl
  have h1 := p.peek_token.2.parse_token_suffix
  rw [hpeek] at h1
  have h2 := p.peek_token.2.parse_token.2.parse_token_suffix
  by_cases a : p.peek_token.1 = false
  · rw [if_pos a]
    exact ⟨by simp, by simp⟩
  · rw [if_neg a]
    by_cases b : p.peek_token.2.token = "("
    · rw [if_pos b]
      refine ⟨by simp, ?_⟩
      intro p1 format h
      have h3 := congrArg Prod.fst (parse_result.ok.inj h)
      dsimp only at h3
      rw [← h3, hpeek]
    · rw [if_neg b]
      by_cases c : p.peek_token.2.parse_token.2.token = "brushDef"
      · rw [if_pos c]
        by_cases d : p.peek_token.2.parse_token.2.parse_token.1 = false
        · rw [if_pos d]
          exact ⟨by simp, by simp⟩
        · rw [if_neg d]
          dsimp only
          by_cases e : p.peek_token.2.parse_token.2.parse_token.2.token = "\x7b"
          · rw [if_neg (not_not.mpr e)]
            refine ⟨by simp, ?_⟩
            intro p1 format h
            have h3 := congrArg Prod.fst (parse_result.ok.inj h)
            dsimp only at h3
            rw [← h3]
            exact List.IsSuffix.trans h2 h1
          · rw [if_pos e]
            exact ⟨by simp, by simp⟩
      · rw [if_neg c]
        dsimp only
        by_cases e : p.peek_token.2.parse_token.2.token = "\x7b"
        · rw [if_neg (not_not.mpr e)]
          refine ⟨by simp, ?_⟩
          intro p1 format h
          have h3 := congrArg Prod.fst (parse_result.ok.inj h)
          dsimp only at h3
          rw [← h3]
          exact h1
        · rw [if_pos e]
          exact ⟨by simp, by simp⟩

/-- The face loop of ParseBrush ends within a bound larger than the number of
tokens, and it only moves forward in the text. -/
theorem ParseBrush_loop_spec (env : qbsp_env K) (opts : qbsp_options_t K) (m : libm K)
    (penv : parse_env K) (hread : penv.ReaderAdvances) (entity : mapentity_t K) :
    ∀ (fuel : Nat) (st : parse_state K) (brush : mapbrush_t K),
      st.parser.tokens.length < fuel →
      ParseBrush_loop env opts m penv entity fuel st brush ≠ parse_result.unfinished ∧
      ∀ st2 b, ParseBrush_loop env opts m penv entity fuel st brush = parse_result.ok (st2, b) →
        st2.parser.tokens <:+ st.parser.tokens ∧ b.format = brush.format := by
  intro fuel
  induction fuel with
  | zero =>
    intro st brush h
    exact absurd h (by omega)
  | succ fuel ih =>
    intro st brush hlen
    unfold ParseBrush_loop
    dsimp only
    rcases st.parser.parse_token_cases with ⟨h1, h2⟩ | ⟨t, rest, h1, h2⟩
    · rw [h2]
      dsimp only
      rw [if_pos rfl]
      refine ⟨by simp, ?_⟩
      intro st2 b h
      have h3 := parse_result.ok.inj h
      have h4 := congrArg Prod.fst h3
      have h5 := congrArg Prod.snd h3
      dsimp only at h4 h5
      rw [← h4, ← h5]
      exact ⟨List.suffix_refl _, rfl⟩
    · rw [h2]
      dsimp only
      rw [if_neg (by simp)]
      have hfmt : (if brush.line = 0 then { brush with line := t.line } else brush).format =
          brush.format := by
        split_ifs <;> rfl
      generalize (if brush.line = 0 then { brush with line := t.line } else brush) = brush1
        at hfmt ⊢
      by_cases hclose : t.text = "\x7d"
      · rw [if_pos hclose]
        refine ⟨by simp, ?_⟩
        intro st2 b h
        have h3 := parse_result.ok.inj h
        have h4 := congrArg Prod.fst h3
        have h5 := congrArg Prod.snd h3
        dsimp only at h4 h5
        rw [← h4, ← h5]
        dsimp only
        rw [h1]
        exact ⟨List.suffix_cons t rest, hfmt⟩
      · rw [if_neg hclose]
        cases hr : penv.read_face { tokens := rest, token := t.text, location := t.line }
            brush1.format with
        | none => exact ⟨by simp, by simp⟩
        | some r =>
          obtain ⟨p2, src⟩ := r
          dsimp only
          have hsuf0 := hread _ _ _ _ hr
          dsimp only at hsuf0
          have hsuf : p2.tokens <:+ st.parser.tokens := by
            rw [h1]
            exact List.IsSuffix.trans hsuf0 (List.suffix_cons t rest)
          have hlen2 : p2.tokens.length < fuel := by
            have h6 := List.IsSuffix.length_le hsuf0
            rw [h1] at hlen
            simp only [List.length_cons] at hlen
            omega
          cases hf : ParseBrushFace env opts m st.map entity src with
          | none => exact ⟨by simp, by simp⟩
          | some r2 =>
            obtain ⟨map2, oface⟩ := r2
            cases oface with
            | none =>
              dsimp only
              refine ⟨(ih _ _ hlen2).1, ?_⟩
              intro st2 b h
              obtain ⟨j1, j2⟩ := (ih _ _ hlen2).2 st2 b h
              exact ⟨List.IsSuffix.trans j1 hsuf, j2.trans hfmt⟩
            | some face =>
              dsimp only
              split_ifs with hc
              · refine ⟨(ih _ _ hlen2).1, ?_⟩
                intro st2 b h
                obtain ⟨j1, j2⟩ := (ih _ _ hlen2).2 st2 b h
                exact ⟨List.IsSuffix.trans j1 hsuf, j2.trans hfmt⟩
              · refine ⟨(ih _ _ hlen2).1, ?_⟩
                intro st2 b h
                obtain ⟨j1, j2⟩ := (ih _ _ hlen2).2 st2 b h
                exact ⟨List.IsSuffix.trans j1 hsuf, j2.trans hfmt⟩

/-- The end of ParseBrush ends, and it only moves forward in the text. -/
theorem ParseBrush_end_spec (p : parser_t) (format : brushformat_t) :
    ParseBrush_end p format ≠ parse_result.unfinished ∧
    ∀ p3, ParseBrush_end p format = parse_result.ok p3 → p3.tokens <:+ p.tokens := by
  unfold ParseBrush_end
  dsimp only
  by_cases a : format = brushformat_t.BRUSH_PRIMITIVES
  · rw [if_pos a]
    by_cases b : p.parse_token.1 = false
    · rw [if_pos b]
      exact ⟨by simp, by simp⟩
    · rw [if_neg b]
      by_cases c : p.parse_token.2.token = "\x7d"
      · rw [if_neg (not_not.mpr c)]
        refine ⟨by simp, ?_⟩
        intro p3 h
        rw [← parse_result.ok.inj h]
        exact p.parse_token_suffix
      · rw [if_pos c]
        exact ⟨by simp, by simp⟩
  · rw [if_neg a]
    refine ⟨by simp, ?_⟩
    intro p3 h
    rw [← parse_result.ok.inj h]

/-- ParseBrush ends, and it only moves forward in the text. -/
theorem ParseBrush_spec (env : qbsp_env K) (opts : qbsp_options_t K) (m : libm K)
    (penv : parse_env K) (hread : penv.ReaderAdvances) (game : gamedef_t K)
    (st : parse_state K) (entity : mapentity_t K) :
    ParseBrush env opts m penv game st entity ≠ parse_result.unfinished ∧
    ∀ st2 b, ParseBrush env opts m penv game st entity = parse_result.ok (st2, b) →
      st2.parser.tokens <:+ st.parser.tokens := by
  unfold ParseBrush
  obtain ⟨s1, s2⟩ := ParseBrush_start_spec st.parser
  cases hs : ParseBrush_start st.parser with
  | fatal => exact ⟨by simp, by simp⟩
  | unfinished => exact absurd hs s1
  | ok r =>
    obtain ⟨p1, format⟩ := r
    dsimp only
    obtain ⟨l1, l2⟩ := ParseBrush_loop_spec env opts m penv hread entity (p1.tokens.length + 1)
      { st with parser := p1 } { (mapbrush_t.default : mapbrush_t K) with format := format }
      (Nat.lt_succ_self _)
    cases hl : ParseBrush_loop env opts m penv entity (p1.tokens.length + 1)
        { st with parser := p1 } { (mapbrush_t.default : mapbrush_t K) with format := format } with
    | fatal => exact ⟨by simp, by simp⟩
    | unfinished => exact absurd hl l1
    | ok r2 =>
      obtain ⟨st2, brush⟩ := r2
      dsimp only
      obtain ⟨e1, e2⟩ := ParseBrush_end_spec st2.parser brush.format
      cases he : ParseBrush_end st2.parser brush.format with
      | fatal => exact ⟨by simp, by simp⟩
      | unfinished => exact absurd he e1
      | ok p3 =>
        dsimp only
        cases hg : Brush_GetContents game st2.map.mtexinfos entity brush with
        | none => exact ⟨by simp, by simp⟩
        | some c =>
          obtain ⟨contents, log⟩ := c
          dsimp only
          refine ⟨by simp, ?_⟩
          intro st3 b h
          have h3 := congrArg Prod.fst (parse_result.ok.inj h)
          dsimp only at h3
          rw [← h3]
          dsimp only
          exact List.IsSuffix.trans (e2 p3 he)
            (List.IsSuffix.trans (l2 st2 brush hl).1 (s2 p1 format hs))

/-- ParseEpair fails exactly when the value does not follow on the line of the
key; otherwise it consumes the value and sets the pair. -/
theorem ParseEpair_spec (penv : parse_env K) (p : parser_t) (entity : mapentity_t K) :
    ParseEpair penv p entity ≠ parse_result.unfinished ∧
    (p.tokens = [] → ParseEpair penv p entity = parse_result.fatal) ∧
    (∀ v rest, p.tokens = v :: rest →
      (v.line ≠ p.location → ParseEpair penv p entity = parse_result.fatal) ∧
      (v.line = p.location → ParseEpair penv p entity =
        parse_result.ok ({ tokens := rest, token := v.text, location := v.line },
          ParseEpair_set penv entity (ParseEpair_trim p.token) v.text))) := by
  unfold ParseEpair parser_t.parse_token_sameline
  dsimp only
  cases h : p.tokens with
  | nil => exact ⟨by simp, fun _ => rfl, by simp⟩
  | cons v rest =>
    dsimp only
    by_cases hl : v.line = p.location
    · rw [if_pos hl]
      refine ⟨by simp, by simp, ?_⟩
      intro v2 rest2 h2
      obtain ⟨e1, e2⟩ := List.cons.inj h2
      subst e1 e2
      exact ⟨fun hne => absurd hl hne, fun _ => rfl⟩
    · rw [if_neg hl]
      refine ⟨by simp, by simp, ?_⟩
      intro v2 rest2 h2
      obtain ⟨e1, e2⟩ := List.cons.inj h2
      subst e1 e2
      exact ⟨fun _ => rfl, fun he => absurd he hl⟩

/-- A successful ParseEpair has consumed the value, which stood on the line of
the key. -/
theorem ParseEpair_ok (penv : parse_env K) (p p2 : parser_t) (entity entity2 : mapentity_t K)
    (h : ParseEpair penv p entity = parse_result.ok (p2, entity2)) :
    ∃ v rest, p.tokens = v :: rest ∧ v.line = p.location ∧
      p2 = { tokens := rest, token := v.text, location := v.line } ∧
      entity2 = ParseEpair_set penv entity (ParseEpair_trim p.token) v.text := by
  obtain ⟨-, p1, p3⟩ := ParseEpair_spec penv p entity
  cases htok : p.tokens with
  | nil =>
    rw [p1 htok] at h
    exact absurd h (by simp)
  | cons v rest =>
    by_cases hline : v.line = p.location
    · rw [(p3 v rest htok).2 hline] at h
      have h2 := parse_result.ok.inj h
      exact ⟨v, rest, rfl, hline, (congrArg Prod.fst h2).symm, (congrArg Prod.snd h2).symm⟩
    · rw [(p3 v rest htok).1 hline] at h
      exact absurd h (by simp)

/-- One pass of the loop of ParseEntity at the end of the text: a fatal
error. -/
theorem ParseEntity_loop_eof (env : qbsp_env K) (opts : qbsp_options_t K) (m : libm K)
    (penv : parse_env K) (game : gamedef_t K) (fuel : Nat) (st : parse_state K)
    (e : mapentity_t K) (h : st.parser.tokens = []) :
    ParseEntity_loop env opts m penv game (fuel + 1) st e = parse_result.fatal := by
  unfold ParseEntity_loop
  dsimp only
  unfold parser_t.parse_token
  rw [h]
  rfl

/-- One pass of the loop of ParseEntity before a "}": the loop ends. -/
theorem ParseEntity_loop_close (env : qbsp_env K) (opts : qbsp_options_t K) (m : libm K)
    (penv : parse_env K) (game : gamedef_t K) (fuel : Nat) (st : parse_state K)
    (e : mapentity_t K) (t : ptoken) (rest : List ptoken) (h : st.parser.tokens = t :: rest)
    (ht : t.text = "\x7d") :
    ParseEntity_loop env opts m penv game (fuel + 1) st e =
      parse_result.ok ({ st with parser := { tokens := rest, token := t.text, location := t.line } },
        e) := by
  unfold ParseEntity_loop
  dsimp only
  unfold parser_t.parse_token
  rw [h]
  dsimp only
  rw [if_neg (by simp), if_pos ht]

/-- One pass of the loop of ParseEntity before a "{": ParseBrush is called and
its brush is appended. -/
theorem ParseEntity_loop_brush (env : qbsp_env K) (opts : qbsp_options_t K) (m : libm K)
    (penv : parse_env K) (game : gamedef_t K) (fuel : Nat) (st : parse_state K)
    (e : mapentity_t K) (t : ptoken) (rest : List ptoken) (h : st.parser.tokens = t :: rest)
    (ht : t.text = "\x7b") :
    ParseEntity_loop env opts m penv game (fuel + 1) st e =
      match ParseBrush env opts m penv game
          { st with parser := { tokens := rest, token := t.text, location := t.line } } e with
      | parse_result.fatal => parse_result.fatal
      | parse_result.unfinished => parse_result.unfinished
      | parse_result.ok (st2, brush) =>
        ParseEntity_loop env opts m penv game fuel st2
          { e with mapbrushes := e.mapbrushes ++ [brush] } := by
  conv_lhs => unfold ParseEntity_loop
  dsimp only
  unfold parser_t.parse_token
  rw [h]
  dsimp only
  have hne : ¬ t.text = "\x7d" := by
    rw [ht]
    decide
  rw [if_neg (by simp), if_neg hne, if_pos ht]

/-- One pass of the loop of ParseEntity before any other token: ParseEpair is
called with the token as the key. -/
theorem ParseEntity_loop_pair (env : qbsp_env K) (opts : qbsp_options_t K) (m : libm K)
    (penv : parse_env K) (game : gamedef_t K) (fuel : Nat) (st : parse_state K)
    (e : mapentity_t K) (k : ptoken) (rest : List ptoken) (h : st.parser.tokens = k :: rest)
    (h1 : k.text ≠ "\x7b") (h2 : k.text ≠ "\x7d") :
    ParseEntity_loop env opts m penv game (fuel + 1) st e =
      match ParseEpair penv { tokens := rest, token := k.text, location := k.line } e with
      | parse_result.fatal => parse_result.fatal
      | parse_result.unfinished => parse_result.unfinished
      | parse_result.ok (p2, entity2) =>
        ParseEntity_loop env opts m penv game fuel { st with parser := p2 } entity2 := by
  conv_lhs => unfold ParseEntity_loop
  dsimp only
  unfold parser_t.parse_token
  rw [h]
  dsimp only
  rw [if_neg (by simp), if_neg h2, if_neg h1]

/-- The result of the loop of ParseEntity does not depend on the iteration
bound, as long as the bound is larger than the number of tokens left. -/
theorem ParseEntity_loop_fuel (env : qbsp_env K) (opts : qbsp_options_t K) (m : libm K)
    (penv : parse_env K) (hread : penv.ReaderAdvances) (game : gamedef_t K) :
    ∀ (fuel1 fuel2 : Nat) (st : parse_state K) (e : mapentity_t K),
      st.parser.tokens.length < fuel1 → st.parser.tokens.length < fuel2 →
      ParseEntity_loop env opts m penv game fuel1 st e =
        ParseEntity_loop env opts m penv game fuel2 st e := by
  intro fuel1
  induction fuel1 with
  | zero =>
    intro fuel2 st e h
    exact absurd h (by omega)
  | succ fuel1 ih =>
    intro fuel2 st e hl1 hl2
    cases fuel2 with
    | zero => exact absurd hl2 (by omega)
    | succ fuel2 =>
      cases htok : st.parser.tokens with
      | nil =>
        rw [ParseEntity_loop_eof env opts m penv game fuel1 st e htok,
          ParseEntity_loop_eof env opts m penv game fuel2 st e htok]
      | cons t rest =>
        rw [htok] at hl1 hl2
        simp only [List.length_cons] at hl1 hl2
        by_cases hclose : t.text = "\x7d"
        · rw [ParseEntity_loop_close env opts m penv game fuel1 st e t rest htok hclose,
            ParseEntity_loop_close env opts m penv game fuel2 st e t rest htok hclose]
        · by_cases hopen : t.text = "\x7b"
          · rw [ParseEntity_loop_brush env opts m penv game fuel1 st e t rest htok hopen,
              ParseEntity_loop_brush env opts m penv game fuel2 st e t rest htok hopen]
            cases hb : ParseBrush env opts m penv game
                { st with parser := { tokens := rest, token := t.text, location := t.line } } e with
            | fatal => rfl
            | unfinished => rfl
            | ok r =>
              obtain ⟨st2, brush⟩ := r
              dsimp only
              have hs := List.IsSuffix.length_le ((ParseBrush_spec env opts m penv hread game _ e).2
                st2 brush hb)
              dsimp only at hs
              exact ih fuel2 st2 _ (by omega) (by omega)
          · rw [ParseEntity_loop_pair env opts m penv game fuel1 st e t rest htok hopen hclose,
              ParseEntity_loop_pair env opts m penv game fuel2 st e t rest htok hopen hclose]
            cases hp : ParseEpair penv { tokens := rest, token := t.text, location := t.line }
                e with
            | fatal => rfl
            | unfinished => rfl
            | ok r =>
              obtain ⟨p2, entity2⟩ := r
              dsimp only
              obtain ⟨v, rest2, e1, -, e3, -⟩ := ParseEpair_ok penv _ p2 e entity2 hp
              dsimp only at e1
              rw [e1] at hl1 hl2
              simp only [List.length_cons] at hl1 hl2
              rw [e3]
              exact ih fuel2 _ _ (by dsimp only; omega) (by dsimp only; omega)

/-- The items read lead forward in the text. -/
theorem ReadsItems_suffix (env : qbsp_env K) (opts : qbsp_options_t K) (m : libm K)
    (penv : parse_env K) (hread : penv.ReaderAdvances) (game : gamedef_t K)
    {st st2 : parse_state K} {e e2 : mapentity_t K} {items : List (entity_item K)}
    (h : ReadsItems env opts m penv game st e items st2 e2) :
    st2.parser.tokens <:+ st.parser.tokens := by
  induction h with
  | nil st e => exact List.suffix_refl _
  | brush st st2 st3 e e3 t rest b items htok ht hb _ ih =>
    have hs := (ParseBrush_spec env opts m penv hread game _ e).2 st2 b hb
    dsimp only at hs
    rw [htok]
    exact List.IsSuffix.trans ih (List.IsSuffix.trans hs (List.suffix_cons t rest))
  | pair st st3 e e3 k v rest items htok h1 h2 hline _ ih =>
    dsimp only at ih
    rw [htok]
    exact List.IsSuffix.trans ih
      (List.IsSuffix.trans (List.suffix_cons v rest) (List.suffix_cons k (v :: rest)))

/-- The loop of ParseEntity started before the items continues after them as
if it were started there. -/
theorem ReadsItems_loop (env : qbsp_env K) (opts : qbsp_options_t K) (m : libm K)
    (penv : parse_env K) (hread : penv.ReaderAdvances) (game : gamedef_t K)
    {st st2 : parse_state K} {e e2 : mapentity_t K} {items : List (entity_item K)}
    (h : ReadsItems env opts m penv game st e items st2 e2) :
    ∀ fuel, st.parser.tokens.length < fuel →
      ParseEntity_loop env opts m penv game fuel st e =
        ParseEntity_loop env opts m penv game fuel st2 e2 := by
  induction h with
  | nil st e => exact fun _ _ => rfl
  | brush st st2 st3 e e3 t rest b items htok ht hb hrest ih =>
    intro fuel hfuel
    have hs := List.IsSuffix.length_le
      ((ParseBrush_spec env opts m penv hread game _ e).2 st2 b hb)
    dsimp only at hs
    have hs3 := List.IsSuffix.length_le (ReadsItems_suffix env opts m penv hread game hrest)
    rw [htok] at hfuel
    simp only [List.length_cons] at hfuel
    cases fuel with
    | zero => exact absurd hfuel (by omega)
    | succ fuel =>
      rw [ParseEntity_loop_brush env opts m penv game fuel st e t rest htok ht, hb]
      dsimp only
      rw [ih fuel (by omega)]
      exact ParseEntity_loop_fuel env opts m penv hread game _ _ _ _ (by omega) (by omega)
  | pair st st3 e e3 k v rest items htok h1 h2 hline hrest ih =>
    intro fuel hfuel
    have hs3 := List.IsSuffix.length_le (ReadsItems_suffix env opts m penv hread game hrest)
    dsimp only at hs3
    rw [htok] at hfuel
    simp only [List.length_cons] at hfuel
    cases fuel with
    | zero => exact absurd hfuel (by omega)
    | succ fuel =>
      rw [ParseEntity_loop_pair env opts m penv game fuel st e k (v :: rest) htok h1 h2]
      rw [((ParseEpair_spec penv { tokens := v :: rest, token := k.text, location := k.line }
        e).2.2 v rest rfl).2 hline]
      dsimp only
      rw [ih fuel (by dsimp only; omega)]
      exact ParseEntity_loop_fuel env opts m penv hread game _ _ _ _ (by omega) (by omega)

/-- The brushes and the properties of the entity after the items: the brushes
of the items are appended in their order, and the pairs of the items are set
in their order. -/
theorem ReadsItems_entity (env : qbsp_env K) (opts : qbsp_options_t K) (m : libm K)
    (penv : parse_env K) (game : gamedef_t K)
    {st st2 : parse_state K} {e e2 : mapentity_t K} {items : List (entity_item K)}
    (h : ReadsItems env opts m penv game st e items st2 e2) :
    e2.mapbrushes = e.mapbrushes ++ entity_item.brushes items ∧
    e2.epairs = (entity_item.pairs items).foldl (fun eps kv => epairs_set eps kv.1 kv.2)
      e.epairs := by
  induction h with
  | nil st e => exact ⟨by simp [entity_item.brushes], rfl⟩
  | brush st st2 st3 e e3 t rest b items htok ht hb _ ih =>
    obtain ⟨i1, i2⟩ := ih
    dsimp only at i1 i2
    refine ⟨?_, ?_⟩
    · rw [i1]
      simp [entity_item.brushes]
    · rw [i2]
      rfl
  | pair st st3 e e3 k v rest items htok h1 h2 hline _ ih =>
    obtain ⟨i1, i2⟩ := ih
    have hb : (ParseEpair_set penv e (ParseEpair_trim k.text) v.text).mapbrushes = e.mapbrushes := by
      unfold ParseEpair_set
      dsimp only
      split_ifs <;> rfl
    have hp : (ParseEpair_set penv e (ParseEpair_trim k.text) v.text).epairs =
        epairs_set e.epairs (ParseEpair_trim k.text) v.text := by
      unfold ParseEpair_set
      dsimp only
      split_ifs <;> rfl
    rw [hb] at i1
    rw [hp] at i2
    exact ⟨by rw [i1]; rfl, by rw [i2]; rfl⟩

/-- How the loop of ParseEntity ends: it reads a sequence of items and then
either the text ends (a fatal error), or a "}" follows (the loop returns), or
a "{" follows after which ParseBrush fails, or a key follows after which
ParseEpair fails. -/
theorem ParseEntity_loop_reads (env : qbsp_env K) (opts : qbsp_options_t K) (m : libm K)
    (penv : parse_env K) (hread : penv.ReaderAdvances) (game : gamedef_t K) :
    ∀ (fuel : Nat) (st : parse_state K) (e : mapentity_t K), st.parser.tokens.length < fuel →
      ∃ items st2 e2, ReadsItems env opts m penv game st e items st2 e2 ∧
        ((st2.parser.tokens = [] ∧
            ParseEntity_loop env opts m penv game fuel st e = parse_result.fatal) ∨
          (∃ t rest, st2.parser.tokens = t :: rest ∧ t.text = "\x7d" ∧
            ParseEntity_loop env opts m penv game fuel st e = parse_result.ok
              ({ st2 with parser := { tokens := rest, token := t.text, location := t.line } },
                e2)) ∨
          (∃ t rest, st2.parser.tokens = t :: rest ∧ t.text = "\x7b" ∧
            ParseBrush env opts m penv game
              { st2 with parser := { tokens := rest, token := t.text, location := t.line } } e2 =
              parse_result.fatal ∧
            ParseEntity_loop env opts m penv game fuel st e = parse_result.fatal) ∨
          (∃ k rest, st2.parser.tokens = k :: rest ∧ k.text ≠ "\x7b" ∧ k.text ≠ "\x7d" ∧
            ParseEpair penv { tokens := rest, token := k.text, location := k.line } e2 =
              parse_result.fatal ∧
            ParseEntity_loop env opts m penv game fuel st e = parse_result.fatal)) := by
  intro fuel
  induction fuel with
  | zero =>
    intro st e h
    exact absurd h (by omega)
  | succ fuel ih =>
    intro st e hlen
    cases htok : st.parser.tokens with
    | nil =>
      exact ⟨[], st, e, ReadsItems.nil st e,
        Or.inl ⟨htok, ParseEntity_loop_eof env opts m penv game fuel st e htok⟩⟩
    | cons t rest =>
      rw [htok] at hlen
      simp only [List.length_cons] at hlen
      by_cases hclose : t.text = "\x7d"
      · exact ⟨[], st, e, ReadsItems.nil st e, Or.inr (Or.inl ⟨t, rest, htok, hclose,
          ParseEntity_loop_close env opts m penv game fuel st e t rest htok hclose⟩)⟩
      · by_cases hopen : t.text = "\x7b"
        · have hstep := ParseEntity_loop_brush env opts m penv game fuel st e t rest htok hopen
          cases hb : ParseBrush env opts m penv game
              { st with parser := { tokens := rest, token := t.text, location := t.line } } e with
          | fatal =>
            rw [hb] at hstep
            exact ⟨[], st, e, ReadsItems.nil st e,
              Or.inr (Or.inr (Or.inl ⟨t, rest, htok, hopen, hb, hstep⟩))⟩
          | unfinished =>
            exact absurd hb (ParseBrush_spec env opts m penv hread game _ e).1
          | ok r =>
            obtain ⟨st2, brush⟩ := r
            rw [hb] at hstep
            dsimp only at hstep
            have hs := List.IsSuffix.length_le
              ((ParseBrush_spec env opts m penv hread game _ e).2 st2 brush hb)
            dsimp only at hs
            obtain ⟨items, st3, e3, hr, hcase⟩ := ih st2
              { e with mapbrushes := e.mapbrushes ++ [brush] } (by omega)
            refine ⟨entity_item.brush brush :: items, st3, e3,
              ReadsItems.brush st st2 st3 e e3 t rest brush items htok hopen hb hr, ?_⟩
            rw [hstep]
            exact hcase
        · have hstep := ParseEntity_loop_pair env opts m penv game fuel st e t rest htok
            hopen hclose
          cases hp : ParseEpair penv { tokens := rest, token := t.text, location := t.line } e with
          | fatal =>
            rw [hp] at hstep
            exact ⟨[], st, e, ReadsItems.nil st e,
              Or.inr (Or.inr (Or.inr ⟨t, rest, htok, hopen, hclose, hp, hstep⟩))⟩
          | unfinished =>
            exact absurd hp (ParseEpair_spec penv _ e).1
          | ok r =>
            obtain ⟨p2, entity2⟩ := r
            rw [hp] at hstep
            dsimp only at hstep
            obtain ⟨v, rest2, e1, e2, e3, e4⟩ := ParseEpair_ok penv _ p2 e entity2 hp
            dsimp only at e1 e2 e4
            subst e1
            subst e3
            subst e4
            simp only [List.length_cons] at hlen
            obtain ⟨items, st3, e3, hr, hcase⟩ := ih
              { st with parser := { tokens := rest2, token := v.text, location := v.line } }
              (ParseEpair_set penv e (ParseEpair_trim t.text) v.text) (by dsimp only; omega)
            refine ⟨entity_item.pair (ParseEpair_trim t.text) v.text :: items, st3, e3,
              ReadsItems.pair st st3 e e3 t v rest2 items htok hopen hclose e2 hr, ?_⟩
            rw [hstep]
            exact hcase

/-- Setting another key does not change the value stored under a key. -/
theorem epairs_get_set_ne (epairs : List (String × String)) (key key2 val : String)
    (h : key2 ≠ key) : epairs_get (epairs_set epairs key2 val) key = epairs_get epairs key := by
  unfold epairs_set epairs_get
  have hmap : ∀ l : List (String × String),
      (l.map (fun kv => if (kv.1 == key2) = true then (kv.1, val) else kv)).find?
        (fun kv => kv.1 == key) =
      (l.find? (fun kv => kv.1 == key)).map
        (fun kv => if (kv.1 == key2) = true then (kv.1, val) else kv) := by
    intro l
    induction l with
    | nil => rfl
    | cons a t ih =>
      rw [List.map_cons, List.find?_cons, List.find?_cons]
      have hfst : (if (a.1 == key2) = true then (a.1, val) else a).1 = a.1 := by
        split_ifs <;> rfl
      rw [hfst]
      cases ha : (a.1 == key) with
      | true => rfl
      | false => exact ih
  split_ifs with hhas
  · rw [hmap]
    cases hf : epairs.find? (fun kv => kv.1 == key) with
    | none => rfl
    | some kv =>
      have hk := List.find?_some hf
      have hk1 : kv.1 = key := by simpa using hk
      have hk2 : ¬ kv.1 = key2 := by
        rw [hk1]
        exact fun e : key = key2 => h e.symm
      simp [hk2]
  · rw [List.find?_append]
    have hk : ((key2, val).1 == key) = false := by simpa using h
    cases hf : epairs.find? (fun kv => kv.1 == key) with
    | none => simp [List.find?, hk]
    | some kv => simp

/-- After the pairs have been set in their order, the value stored under a key
is the value of the last pair with that key. -/
theorem epairs_get_foldl_set (pre post : List (String × String)) (epairs : List (String × String))
    (key val : String) (hpost : ∀ kv ∈ post, kv.1 ≠ key) :
    epairs_get ((pre ++ (key, val) :: post).foldl (fun eps kv => epairs_set eps kv.1 kv.2) epairs)
      key = val := by
  rw [List.foldl_append, List.foldl_cons]
  generalize pre.foldl (fun eps kv => epairs_set eps kv.1 kv.2) epairs = eps0
  have h0 : epairs_get (epairs_set eps0 key val) key = val := epairs_get_set eps0 key val
  generalize epairs_set eps0 key val = eps1 at h0
  induction post generalizing eps1 with
  | nil => exact h0
  | cons a t ih =>
    rw [List.foldl_cons]
    apply ih (fun kv hkv => hpost kv (List.mem_cons_of_mem _ hkv))
    dsimp only
    rw [epairs_get_set_ne eps1 key a.1 a.2 (hpost a (List.mem_cons_self _ _))]
    exact h0

/-- The replacement of aliases leaves the brushes of the entity alone, and
without aliases the entity is not changed. -/
theorem ParseEntity_aliases_spec (penv : parse_env K) (entity : mapentity_t K) :
    (ParseEntity_aliases penv entity).mapbrushes = entity.mapbrushes ∧
    (penv.loaded_entity_defs = [] → ParseEntity_aliases penv entity = entity) := by
  unfold ParseEntity_aliases
  constructor
  · cases penv.loaded_entity_defs.find? (fun d => d.1 == epairs_get entity.epairs "classname") <;>
      rfl
  · intro h
    rw [h]
    rfl

/-- ParseEntity on a text that starts with "{" is the loop over the body,
followed by the replacement of aliases. -/
theorem ParseEntity_open (env : qbsp_env K) (opts : qbsp_options_t K) (m : libm K)
    (penv : parse_env K) (game : gamedef_t K) (st : parse_state K) (entity : mapentity_t K)
    (t : ptoken) (rest : List ptoken) (htok : st.parser.tokens = t :: rest) (ht : t.text = "\x7b") :
    ParseEntity env opts m penv game st entity =
      match ParseEntity_loop env opts m penv game (rest.length + 1)
          { st with parser := { tokens := rest, token := t.text, location := t.line } }
          { entity with location := st.parser.location, mapbrushes := [] } with
      | parse_result.fatal => parse_result.fatal
      | parse_result.unfinished => parse_result.unfinished
      | parse_result.ok (st2, entity2) =>
        parse_result.ok (true, st2, ParseEntity_aliases penv entity2) := by
  unfold ParseEntity
  dsimp only
  unfold parser_t.parse_token
  rw [htok]
  dsimp only
  rw [if_neg (by simp), if_neg (not_not.mpr ht)]

/-- C25, with the condition added that was missing: ParseEntity returns false,
without error, exactly when no token is left at entry, and it aborts when the
first token is not "{".  After the "{", whenever the text continues with a
sequence of items (nested brushes that ParseBrush can read, and key/value
pairs with the value on the line of the key), ParseEntity aborts if the text
ends after them, and returns true if a "}" follows them: the brush list of the
entity is then replaced by one brush per nested brush, in source order, and
the pairs are set in source order, so that the value of a key is that of its
last pair.  Every run is of this form or aborts inside a nested brush or at a
key whose value is missing on its line; the iteration bound is never
reached. -/
theorem ParseEntity_spec (env : qbsp_env K) (opts : qbsp_options_t K) (m : libm K)
    (penv : parse_env K) (hread : penv.ReaderAdvances) (game : gamedef_t K)
    (st : parse_state K) (entity : mapentity_t K) :
    (st.parser.tokens = [] →
      ParseEntity env opts m penv game st entity =
        parse_result.ok (false, { st with parser := { st.parser with token := "" } },
          { entity with location := st.parser.location })) ∧
    (∀ st2 e2, ParseEntity env opts m penv game st entity = parse_result.ok (false, st2, e2) →
      st.parser.tokens = []) ∧
    (∀ t rest, st.parser.tokens = t :: rest → t.text ≠ "\x7b" →
      ParseEntity env opts m penv game st entity = parse_result.fatal) ∧
    (∀ t rest, st.parser.tokens = t :: rest → t.text = "\x7b" →
      (∀ items st2 e2,
        ReadsItems env opts m penv game
          { st with parser := { tokens := rest, token := t.text, location := t.line } }
          { entity with location := st.parser.location, mapbrushes := [] } items st2 e2 →
        e2.mapbrushes = entity_item.brushes items ∧
        e2.epairs = (entity_item.pairs items).foldl (fun eps kv => epairs_set eps kv.1 kv.2)
          entity.epairs ∧
        (∀ pre post key val, entity_item.pairs items = pre ++ (key, val) :: post →
          (∀ kv ∈ post, kv.1 ≠ key) → epairs_get e2.epairs key = val) ∧
        (st2.parser.tokens = [] →
          ParseEntity env opts m penv game st entity = parse_result.fatal) ∧
        (∀ c rest2, st2.parser.tokens = c :: rest2 → c.text = "\x7d" →
          ParseEntity env opts m penv game st entity =
            parse_result.ok (true,
              { st2 with parser := { tokens := rest2, token := c.text, location := c.line } },
              ParseEntity_aliases penv e2) ∧
          (ParseEntity_aliases penv e2).mapbrushes = entity_item.brushes items)) ∧
      (∃ items st2 e2,
        ReadsItems env opts m penv game
          { st with parser := { tokens := rest, token := t.text, location := t.line } }
          { entity with location := st.parser.location, mapbrushes := [] } items st2 e2 ∧
        ((st2.parser.tokens = [] ∧
            ParseEntity env opts m penv game st entity = parse_result.fatal) ∨
          (∃ c rest2, st2.parser.tokens = c :: rest2 ∧ c.text = "\x7d" ∧
            ParseEntity env opts m penv game st entity =
              parse_result.ok (true,
                { st2 with parser := { tokens := rest2, token := c.text, location := c.line } },
                ParseEntity_aliases penv e2)) ∨
          (∃ c rest2, st2.parser.tokens = c :: rest2 ∧ c.text = "\x7b" ∧
            ParseBrush env opts m penv game
              { st2 with parser := { tokens := rest2, token := c.text, location := c.line } } e2 =
              parse_result.fatal ∧
            ParseEntity env opts m penv game st entity = parse_result.fatal) ∨
          (∃ k rest2, st2.parser.tokens = k :: rest2 ∧ k.text ≠ "\x7b" ∧ k.text ≠ "\x7d" ∧
            ParseEpair penv { tokens := rest2, token := k.text, location := k.line } e2 =
              parse_result.fatal ∧
            ParseEntity env opts m penv game st entity = parse_result.fatal)))) ∧
    ParseEntity env opts m penv game st entity ≠ parse_result.unfinished := by
  have hempty : st.parser.tokens = [] →
      ParseEntity env opts m penv game st entity =
        parse_result.ok (false, { st with parser := { st.parser with token := "" } },
          { entity with location := st.parser.location }) := by
    intro h
    unfold ParseEntity
    dsimp only
    unfold parser_t.parse_token
    rw [h]
    rfl
  have hbad : ∀ t rest, st.parser.tokens = t :: rest → t.text ≠ "\x7b" →
      ParseEntity env opts m penv game st entity = parse_result.fatal := by
    intro t rest htok ht
    unfold ParseEntity
    dsimp only
    unfold parser_t.parse_token
    rw [htok]
    dsimp only
    rw [if_neg (by simp), if_pos ht]
  have hgood : ∀ t rest, st.parser.tokens = t :: rest → t.text = "\x7b" →
      ∃ items st2 e2,
        ReadsItems env opts m penv game
          { st with parser := { tokens := rest, token := t.text, location := t.line } }
          { entity with location := st.parser.location, mapbrushes := [] } items st2 e2 ∧
        ((st2.parser.tokens = [] ∧
            ParseEntity env opts m penv game st entity = parse_result.fatal) ∨
          (∃ c rest2, st2.parser.tokens = c :: rest2 ∧ c.text = "\x7d" ∧
            ParseEntity env opts m penv game st entity =
              parse_result.ok (true,
                { st2 with parser := { tokens := rest2, token := c.text, location := c.line } },
                ParseEntity_aliases penv e2)) ∨
          (∃ c rest2, st2.parser.tokens = c :: rest2 ∧ c.text = "\x7b" ∧
            ParseBrush env opts m penv game
              { st2 with parser := { tokens := rest2, token := c.text, location := c.line } } e2 =
              parse_result.fatal ∧
            ParseEntity env opts m penv game st entity = parse_result.fatal) ∨
          (∃ k rest2, st2.parser.tokens = k :: rest2 ∧ k.text ≠ "\x7b" ∧ k.text ≠ "\x7d" ∧
            ParseEpair penv { tokens := rest2, token := k.text, location := k.line } e2 =
              parse_result.fatal ∧
            ParseEntity env opts m penv game st entity = parse_result.fatal)) := by
    intro t rest htok ht
    obtain ⟨items, st2, e2, hr, hcase⟩ := ParseEntity_loop_reads env opts m penv hread game
      (rest.length + 1)
      { st with parser := { tokens := rest, token := t.text, location := t.line } }
      { entity with location := st.parser.location, mapbrushes := [] } (Nat.lt_succ_self _)
    refine ⟨items, st2, e2, hr, ?_⟩
    rw [ParseEntity_open env opts m penv game st entity t rest htok ht]
    rcases hcase with ⟨h1, h2⟩ | ⟨c, rest2, h1, h2, h3⟩ | ⟨c, rest2, h1, h2, h3, h4⟩ |
      ⟨k, rest2, h1, h2, h3, h4, h5⟩
    · exact Or.inl ⟨h1, by rw [h2]⟩
    · exact Or.inr (Or.inl ⟨c, rest2, h1, h2, by rw [h3]⟩)
    · exact Or.inr (Or.inr (Or.inl ⟨c, rest2, h1, h2, h3, by rw [h4]⟩))
    · exact Or.inr (Or.inr (Or.inr ⟨k, rest2, h1, h2, h3, h4, by rw [h5]⟩))
  refine ⟨hempty, ?_, hbad, ?_, ?_⟩
  · intro st2 e2 h
    cases htok : st.parser.tokens with
    | nil => rfl
    | cons t rest =>
      exfalso
      by_cases ht : t.text = "\x7b"
      · obtain ⟨items, st3, e3, -, hcase⟩ := hgood t rest htok ht
        rcases hcase with ⟨-, h2⟩ | ⟨c, rest2, -, -, h3⟩ | ⟨c, rest2, -, -, -, h4⟩ |
          ⟨k, rest2, -, -, -, -, h5⟩
        · rw [h2] at h
          exact absurd h (by simp)
        · rw [h3] at h
          have := congrArg Prod.fst (parse_result.ok.inj h)
          exact absurd this (by simp)
        · rw [h4] at h
          exact absurd h (by simp)
        · rw [h5] at h
          exact absurd h (by simp)
      · rw [hbad t rest htok ht] at h
        exact absurd h (by simp)
  · intro t rest htok ht
    refine ⟨?_, hgood t rest htok ht⟩
    intro items st2 e2 hr
    obtain ⟨b1, b2⟩ := ReadsItems_entity env opts m penv game hr
    dsimp only at b1 b2
    rw [List.nil_append] at b1
    have hloop := ReadsItems_loop env opts m penv hread game hr (rest.length + 1)
      (Nat.lt_succ_self _)
    have hopen := ParseEntity_open env opts m penv game st entity t rest htok ht
    rw [hloop] at hopen
    refine ⟨b1, b2, ?_, ?_, ?_⟩
    · intro pre post key val hp hpost
      rw [b2, hp]
      exact epairs_get_foldl_set pre post entity.epairs key val hpost
    · intro h
      rw [hopen, ParseEntity_loop_eof env opts m penv game rest.length st2 e2 h]
    · intro c rest2 h hc
      rw [hopen, ParseEntity_loop_close env opts m penv game rest.length st2 e2 c rest2 h hc]
      exact ⟨rfl, by rw [(ParseEntity_aliases_spec penv e2).1, b1]⟩
  · cases htok : st.parser.tokens with
    | nil =>
      rw [hempty htok]
      simp
    | cons t rest =>
      by_cases ht : t.text = "\x7b"
      · obtain ⟨items, st3, e3, -, hcase⟩ := hgood t rest htok ht
        rcases hcase with ⟨-, h2⟩ | ⟨c, rest2, -, -, h3⟩ | ⟨c, rest2, -, -, -, h4⟩ |
          ⟨k, rest2, -, -, -, -, h5⟩
        · rw [h2]
          simp
        · rw [h3]
          simp
        · rw [h4]
          simp
        · rw [h5]
          simp
      · rw [hbad t rest htok ht]
        simp

/-- The face reader of the example parse environment moves forward in the
text (it reads no face at all). -/
theorem parse_env.sample_readerAdvances : (parse_env.sample : parse_env K).ReaderAdvances := by
  intro p p2 format src h
  exact absurd h (by simp [parse_env.sample])

/-- The entity text "{ { x } }": its first token is "{" and its braces are
balanced, but the nested brush is malformed and ParseEntity aborts (in
ParseBrush, "expected second { at beginning of brush"), while the text
"{ { { } } }", an entity with one empty brush in brush-primitives format, is
read and true is returned. -/
theorem ParseEntity_malformed_brush :
    ((line_tokens ["\x7b", "\x7b", "x", "\x7d", "\x7d"]).map fun t => t.text) = ["\x7b", "\x7b", "x", "\x7d", "\x7d"] ∧
    ParseEntity qbsp_env.sample qbsp_options_t.sample libm.real parse_env.sample gamedef_t.sample
      (parse_state.start (line_tokens ["\x7b", "\x7b", "x", "\x7d", "\x7d"]))
      (mapentity_t.default : mapentity_t ℝ) = parse_result.fatal ∧
    ParseEntity qbsp_env.sample qbsp_options_t.sample libm.real parse_env.sample gamedef_t.sample
      (parse_state.start (line_tokens ["\x7b", "\x7b", "\x7b", "\x7d", "\x7d", "\x7d"]))
      (mapentity_t.default : mapentity_t ℝ) =
    parse_result.ok (true,
      { parser := { tokens := [], token := "\x7d", location := 1 }, map := mapdata_t.empty, log := [] },
      { (mapentity_t.default : mapentity_t ℝ) with
        location := 1
        mapbrushes := [{ (mapbrush_t.default : mapbrush_t ℝ) with
          format := brushformat_t.BRUSH_PRIMITIVES, line := 1 }] }) :=
  ⟨rfl, rfl, rfl⟩

theorem ParseEntity_spec_witness :
    (parse_env.sample : parse_env ℝ).ReaderAdvances ∧
    ParseEntity qbsp_env.sample qbsp_options_t.sample libm.real parse_env.sample gamedef_t.sample
      (parse_state.start (line_tokens ["\x7b", "classname", "worldspawn", "\x7b", "\x7b", "\x7d", "\x7d", "\x7d"]))
      (mapentity_t.default : mapentity_t ℝ) =
    parse_result.ok (true,
      { parser := { tokens := [], token := "\x7d", location := 1 }, map := mapdata_t.empty, log := [] },
      { (mapentity_t.default : mapentity_t ℝ) with
        epairs := [("classname", "worldspawn")], location := 1
        mapbrushes := [{ (mapbrush_t.default : mapbrush_t ℝ) with
          format := brushformat_t.BRUSH_PRIMITIVES, line := 1 }] }) ∧
    ParseEntity qbsp_env.sample qbsp_options_t.sample libm.real parse_env.sample gamedef_t.sample
      (parse_state.start (line_tokens ["\x7b", "classname", "worldspawn", "\x7b", "\x7b", "\x7d", "\x7d", "\x7d"]))
      (mapentity_t.default : mapentity_t ℝ) ≠ parse_result.unfinished :=
  ⟨parse_env.sample_readerAdvances, rfl,
    (ParseEntity_spec qbsp_env.sample qbsp_options_t.sample libm.real parse_env.sample
      parse_env.sample_readerAdvances gamedef_t.sample
      (parse_state.start (line_tokens ["\x7b", "classname", "worldspawn", "\x7b", "\x7b", "\x7d", "\x7d", "\x7d"]))
      (mapentity_t.default : mapentity_t ℝ)).2.2.2.2⟩

end entity_parse_claims

section external_map_claims
variable {K : Type} [LinearOrderedField K]

/-- ParseEntity ends; it returns false only at the end of the text, which it
leaves there; and when it returns true it has moved forward in the text. -/
theorem ParseEntity_outcome (env : qbsp_env K) (opts : qbsp_options_t K) (m : libm K)
    (penv : parse_env K) (hread : penv.ReaderAdvances) (game : gamedef_t K)
    (st : parse_state K) (entity : mapentity_t K) :
    ParseEntity env opts m penv game st entity ≠ parse_result.unfinished ∧
    (st.parser.tokens = [] →
      ParseEntity env opts m penv game st entity =
        parse_result.ok (false, { st with parser := { st.parser with token := "" } },
          { entity with location := st.parser.location })) ∧
    (∀ b st2 e2, ParseEntity env opts m penv game st entity = parse_result.ok (b, st2, e2) →
      st.parser.tokens ≠ [] →
      b = true ∧ st2.parser.tokens.length < st.parser.tokens.length) := by
  have hempty : st.parser.tokens = [] →
      ParseEntity env opts m penv game st entity =
        parse_result.ok (false, { st with parser := { st.parser with token := "" } },
          { entity with location := st.parser.location }) := by
    intro h
    unfold ParseEntity
    dsimp only
    unfold parser_t.parse_token
    rw [h]
    rfl
  cases htok : st.parser.tokens with
  | nil =>
    rw [hempty htok]
    exact ⟨by simp, fun _ => rfl, fun b st2 e2 _ h => absurd rfl h⟩
  | cons t rest =>
    by_cases ht : t.text = "\x7b"
    · rw [ParseEntity_open env opts m penv game st entity t rest htok ht]
      obtain ⟨items, st2, e2, hr, hcase⟩ := ParseEntity_loop_reads env opts m penv hread game
        (rest.length + 1)
        { st with parser := { tokens := rest, token := t.text, location := t.line } }
        { entity with location := st.parser.location, mapbrushes := [] } (Nat.lt_succ_self _)
      have hsuf := List.IsSuffix.length_le (ReadsItems_suffix env opts m penv hread game hr)
      dsimp only at hsuf
      rcases hcase with ⟨h1, h2⟩ | ⟨c, rest2, h1, h2, h3⟩ | ⟨c, rest2, h1, h2, h3, h4⟩ |
        ⟨k, rest2, h1, h2, h3, h4, h5⟩
      · rw [h2]
        exact ⟨by simp, by simp, by simp⟩
      · rw [h3]
        refine ⟨by simp, by simp, ?_⟩
        intro b st3 e3 h _
        have h5 := parse_result.ok.inj h
        have h6 := congrArg Prod.fst h5
        have h7 := congrArg (fun r => r.2.1) h5
        dsimp only at h6 h7
        rw [← h6, ← h7]
        dsimp only
        rw [h1] at hsuf
        simp only [List.length_cons] at hsuf
        refine ⟨rfl, ?_⟩
        simp only [List.length_cons]
        omega
      · rw [h4]
        exact ⟨by simp, by simp, by simp⟩
      · rw [h5]
        exact ⟨by simp, by simp, by simp⟩
    · have hbad : ParseEntity env opts m penv game st entity = parse_result.fatal := by
        unfold ParseEntity
        dsimp only
        unfold parser_t.parse_token
        rw [htok]
        dsimp only
        rw [if_neg (by simp), if_pos ht]
      rw [hbad]
      exact ⟨by simp, by simp, by simp⟩

/-- How the loop of LoadExternalMap ends: it reads a sequence of entities and
then either the text ends, and the brushes of the entities have been appended
to the brushes of the first entity in their order, or ParseEntity aborts on
what follows. -/
theorem LoadExternalMap_loop_reads (env : qbsp_env K) (opts : qbsp_options_t K) (m : libm K)
    (penv : parse_env K) (hread : penv.ReaderAdvances) (game : gamedef_t K) :
    ∀ (fuel : Nat) (st : parse_state K) (dest : mapentity_t K), st.parser.tokens.length < fuel →
      ∃ ents st2, ReadsEntities env opts m penv game st ents st2 ∧
        ((st2.parser.tokens = [] ∧
            LoadExternalMap_loop env opts m penv game fuel st dest =
              parse_result.ok ({ st2 with parser := { st2.parser with token := "" } },
                { dest with mapbrushes := dest.mapbrushes ++ entities_brushes ents })) ∨
          (ParseEntity env opts m penv game st2 mapentity_t.default = parse_result.fatal ∧
            LoadExternalMap_loop env opts m penv game fuel st dest = parse_result.fatal)) := by
  intro fuel
  induction fuel with
  | zero =>
    intro st dest h
    exact absurd h (by omega)
  | succ fuel ih =>
    intro st dest hlen
    obtain ⟨o1, o2, o3⟩ := ParseEntity_outcome env opts m penv hread game st mapentity_t.default
    cases hp : ParseEntity env opts m penv game st mapentity_t.default with
    | fatal =>
      refine ⟨[], st, ReadsEntities.nil st, Or.inr ⟨hp, ?_⟩⟩
      unfold LoadExternalMap_loop
      rw [hp]
    | unfinished => exact absurd hp o1
    | ok r =>
      obtain ⟨b, st1, e⟩ := r
      by_cases htok : st.parser.tokens = []
      · have h2 := o2 htok
        rw [hp] at h2
        have h3 := parse_result.ok.inj h2
        have hb := congrArg Prod.fst h3
        have hst := congrArg (fun r => r.2.1) h3
        dsimp only at hb hst
        subst hb
        refine ⟨[], st, ReadsEntities.nil st, Or.inl ⟨htok, ?_⟩⟩
        unfold LoadExternalMap_loop
        rw [hp]
        dsimp only
        rw [hst]
        simp [entities_brushes]
      · obtain ⟨hb, hl⟩ := o3 b st1 e hp htok
        subst hb
        obtain ⟨ents, st2, hr, hcase⟩ := ih st1
          { dest with mapbrushes := dest.mapbrushes ++ e.mapbrushes } (by omega)
        refine ⟨e :: ents, st2, ReadsEntities.cons st st1 st2 e ents hp hr, ?_⟩
        have hstep : LoadExternalMap_loop env opts m penv game (fuel + 1) st dest =
            LoadExternalMap_loop env opts m penv game fuel st1
              { dest with mapbrushes := dest.mapbrushes ++ e.mapbrushes } := by
          conv_lhs => unfold LoadExternalMap_loop
          rw [hp]
        rw [hstep]
        rcases hcase with ⟨h1, h2⟩ | ⟨h1, h2⟩
        · refine Or.inl ⟨h1, ?_⟩
          rw [h2]
          simp [entities_brushes, List.append_assoc]
        · exact Or.inr ⟨h1, h2⟩

/-- C27, with the condition added that was missing: LoadExternalMap aborts when
the file cannot be loaded, when no entity can be parsed (the text is empty or
ParseEntity aborts), and when the classname of the first entity is not
"worldspawn", ignoring case.  Otherwise the text continues with a sequence of
entities after which either ParseEntity aborts, and so does LoadExternalMap, or
the text ends: then LoadExternalMap aborts if the first and the later entities
together have no brush, and else returns the first entity with its own brushes
followed by the brushes of the later entities, in file order.  The iteration
bound is never reached. -/
theorem LoadExternalMap_spec (env : qbsp_env K) (opts : qbsp_options_t K) (m : libm K)
    (penv : parse_env K) (hread : penv.ReaderAdvances) (game : gamedef_t K) (map : mapdata_t K)
    (file : Option (List ptoken)) :
    LoadExternalMap env opts m penv game map file ≠ parse_result.unfinished ∧
    (file = none → LoadExternalMap env opts m penv game map file = parse_result.fatal) ∧
    ∀ tokens, file = some tokens →
      (tokens = [] → LoadExternalMap env opts m penv game map file = parse_result.fatal) ∧
      (ParseEntity env opts m penv game
          { parser := { tokens := tokens, token := "", location := 1 }, map := map, log := [] }
          mapentity_t.default = parse_result.fatal →
        LoadExternalMap env opts m penv game map file = parse_result.fatal) ∧
      ∀ st1 e0, ParseEntity env opts m penv game
          { parser := { tokens := tokens, token := "", location := 1 }, map := map, log := [] }
          mapentity_t.default = parse_result.ok (true, st1, e0) →
        (Q_strcasecmp "worldspawn" (epairs_get e0.epairs "classname") ≠ 0 →
          LoadExternalMap env opts m penv game map file = parse_result.fatal) ∧
        (Q_strcasecmp "worldspawn" (epairs_get e0.epairs "classname") = 0 →
          ∃ ents st2, ReadsEntities env opts m penv game st1 ents st2 ∧
            ((ParseEntity env opts m penv game st2 mapentity_t.default = parse_result.fatal ∧
                LoadExternalMap env opts m penv game map file = parse_result.fatal) ∨
              (st2.parser.tokens = [] ∧ e0.mapbrushes ++ entities_brushes ents = [] ∧
                LoadExternalMap env opts m penv game map file = parse_result.fatal) ∨
              (st2.parser.tokens = [] ∧ e0.mapbrushes ++ entities_brushes ents ≠ [] ∧
                LoadExternalMap env opts m penv game map file =
                  parse_result.ok
                    ({ st2 with parser := { st2.parser with token := "" },
                                log := st2.log ++ ["Loaded mapbrushes."] },
                      { e0 with mapbrushes := e0.mapbrushes ++ entities_brushes ents })))) := by
  cases file with
  | none => exact ⟨by simp [LoadExternalMap], fun _ => rfl, by simp⟩
  | some tokens =>
    obtain ⟨o1, o2, o3⟩ := ParseEntity_outcome env opts m penv hread game
      { parser := { tokens := tokens, token := "", location := 1 }, map := map, log := [] }
      mapentity_t.default
    have hmain : ∀ st1 e0, ParseEntity env opts m penv game
          { parser := { tokens := tokens, token := "", location := 1 }, map := map, log := [] }
          mapentity_t.default = parse_result.ok (true, st1, e0) →
        (Q_strcasecmp "worldspawn" (epairs_get e0.epairs "classname") ≠ 0 →
          LoadExternalMap env opts m penv game map (some tokens) = parse_result.fatal) ∧
        (Q_strcasecmp "worldspawn" (epairs_get e0.epairs "classname") = 0 →
          ∃ ents st2, ReadsEntities env opts m penv game st1 ents st2 ∧
            ((ParseEntity env opts m penv game st2 mapentity_t.default = parse_result.fatal ∧
                LoadExternalMap env opts m penv game map (some tokens) = parse_result.fatal) ∨
              (st2.parser.tokens = [] ∧ e0.mapbrushes ++ entities_brushes ents = [] ∧
                LoadExternalMap env opts m penv game map (some tokens) = parse_result.fatal) ∨
              (st2.parser.tokens = [] ∧ e0.mapbrushes ++ entities_brushes ents ≠ [] ∧
                LoadExternalMap env opts m penv game map (some tokens) =
                  parse_result.ok
                    ({ st2 with parser := { st2.parser with token := "" },
                                log := st2.log ++ ["Loaded mapbrushes."] },
                      { e0 with mapbrushes := e0.mapbrushes ++ entities_brushes ents })))) := by
      intro st1 e0 hp
      constructor
      · intro hc
        unfold LoadExternalMap
        dsimp only
        rw [hp]
        dsimp only
        rw [if_pos hc]
      · intro hc
        obtain ⟨ents, st2, hr, hcase⟩ := LoadExternalMap_loop_reads env opts m penv hread game
          (st1.parser.tokens.length + 1) st1 e0 (Nat.lt_succ_self _)
        refine ⟨ents, st2, hr, ?_⟩
        unfold LoadExternalMap
        dsimp only
        rw [hp]
        dsimp only
        rw [if_neg (not_not.mpr hc)]
        rcases hcase with ⟨h1, h2⟩ | ⟨h1, h2⟩
        · rw [h2]
          dsimp only
          by_cases hb : e0.mapbrushes ++ entities_brushes ents = []
          · refine Or.inr (Or.inl ⟨h1, hb, ?_⟩)
            rw [if_pos (by rw [hb]; rfl)]
          · refine Or.inr (Or.inr ⟨h1, hb, ?_⟩)
            rw [if_neg (fun h => hb (List.length_eq_zero.mp h))]
        · rw [h2]
          exact Or.inl ⟨h1, rfl⟩
    refine ⟨?_, by simp, ?_⟩
    · cases hp : ParseEntity env opts m penv game
          { parser := { tokens := tokens, token := "", location := 1 }, map := map, log := [] }
          mapentity_t.default with
      | fatal =>
        unfold LoadExternalMap
        dsimp only
        rw [hp]
        simp
      | unfinished => exact absurd hp o1
      | ok r =>
        obtain ⟨b, st1, e0⟩ := r
        cases b with
        | false =>
          unfold LoadExternalMap
          dsimp only
          rw [hp]
          simp
        | true =>
          obtain ⟨m1, m2⟩ := hmain st1 e0 hp
          by_cases hc : Q_strcasecmp "worldspawn" (epairs_get e0.epairs "classname") = 0
          · obtain ⟨ents, st2, -, hcase⟩ := m2 hc
            rcases hcase with ⟨-, h⟩ | ⟨-, -, h⟩ | ⟨-, -, h⟩ <;> rw [h] <;> simp
          · rw [m1 hc]
            simp
    · intro tokens2 hfile
      have ht : tokens = tokens2 := Option.some.inj hfile
      subst ht
      refine ⟨?_, ?_, hmain⟩
      · intro h
        unfold LoadExternalMap
        dsimp only
        rw [o2 h]
      · intro h
        unfold LoadExternalMap
        dsimp only
        rw [h]

/-- The text of an external map with a worldspawn that has an (empty) brush,
followed by a stray token: an entity can be parsed, its classname is
"worldspawn" and there is a brush, but LoadExternalMap aborts, since the loop
over the later entities calls ParseEntity on the stray token; without that
token the first entity is returned. -/
theorem LoadExternalMap_stray_token :
    LoadExternalMap qbsp_env.sample qbsp_options_t.sample libm.real parse_env.sample
      gamedef_t.sample (mapdata_t.empty : mapdata_t ℝ)
      (some (line_tokens ["\x7b", "classname", "WorldSpawn", "\x7b", "\x7b", "\x7d", "\x7d", "\x7d", "x"])) =
      parse_result.fatal ∧
    LoadExternalMap qbsp_env.sample qbsp_options_t.sample libm.real parse_env.sample
      gamedef_t.sample (mapdata_t.empty : mapdata_t ℝ)
      (some (line_tokens ["\x7b", "classname", "WorldSpawn", "\x7b", "\x7b", "\x7d", "\x7d", "\x7d"])) =
      parse_result.ok
        ({ parser := { tokens := [], token := "", location := 1 }, map := mapdata_t.empty,
           log := ["Loaded mapbrushes."] },
          { (mapentity_t.default : mapentity_t ℝ) with
            epairs := [("classname", "WorldSpawn")], location := 1
            mapbrushes := [{ (mapbrush_t.default : mapbrush_t ℝ) with
              format := brushformat_t.BRUSH_PRIMITIVES, line := 1 }] }) :=
  ⟨rfl, rfl⟩

theorem LoadExternalMap_spec_witness :
    (parse_env.sample : parse_env ℝ).ReaderAdvances ∧
    LoadExternalMap qbsp_env.sample qbsp_options_t.sample libm.real parse_env.sample
      gamedef_t.sample (mapdata_t.empty : mapdata_t ℝ)
      (some (line_tokens ["\x7b", "classname", "worldspawn", "\x7b", "\x7b", "\x7d", "\x7d", "\x7d",
        "\x7b", "classname", "func_wall", "\x7b", "brushDef", "\x7b", "\x7d", "\x7d", "\x7d"])) =
      parse_result.ok
        ({ parser := { tokens := [], token := "", location := 1 }, map := mapdata_t.empty,
           log := ["Loaded mapbrushes."] },
          { (mapentity_t.default : mapentity_t ℝ) with
            epairs := [("classname", "worldspawn")], location := 1
            mapbrushes := [{ (mapbrush_t.default : mapbrush_t ℝ) with
                format := brushformat_t.BRUSH_PRIMITIVES, line := 1 },
              { (mapbrush_t.default : mapbrush_t ℝ) with
                format := brushformat_t.BRUSH_PRIMITIVES, line := 1 }] }) ∧
    LoadExternalMap qbsp_env.sample qbsp_options_t.sample libm.real parse_env.sample
      gamedef_t.sample (mapdata_t.empty : mapdata_t ℝ)
      (some (line_tokens ["\x7b", "classname", "worldspawn", "\x7b", "\x7b", "\x7d", "\x7d", "\x7d",
        "\x7b", "classname", "func_wall", "\x7b", "brushDef", "\x7b", "\x7d", "\x7d", "\x7d"])) ≠
      parse_result.unfinished :=
  ⟨parse_env.sample_readerAdvances, rfl,
    (LoadExternalMap_spec qbsp_env.sample qbsp_options_t.sample libm.real parse_env.sample
      parse_env.sample_readerAdvances gamedef_t.sample (mapdata_t.empty : mapdata_t ℝ)
      (some (line_tokens ["\x7b", "classname", "worldspawn", "\x7b", "\x7b", "\x7d", "\x7d", "\x7d",
        "\x7b", "classname", "func_wall", "\x7b", "brushDef", "\x7b", "\x7d", "\x7d", "\x7d"]))).1⟩

end external_map_claims

section axial_bevel_claims
variable {K : Type} [LinearOrderedField K]

/-- The first element that satisfies a predicate stands at the index that
findIdx returns. -/
theorem find?_eq_getElem?_findIdx {α : Type} (p : α → Bool) (l : List α) :
    l.find? p = l[l.findIdx p]? := by
  induction l with
  | nil => rfl
  | cons a t ih =>
    rw [List.find?_cons, List.findIdx_cons]
    cases h : p a with
    | true => simp
    | false => simpa using ih

/-- One pass of the axial loop, in more detail: the brush changes in its face
list only.  When the side is missing, the face at the canonical position
afterwards is a new bevel on the axial plane at the bounding box, with the
surface attributes of the face that was first in the brush, and every other
face was in the brush before.  When the side is present, the face at the
canonical position afterwards is the first face that has it, and every face
was in the brush before. -/
theorem AddBrushBevels_axial_step_bevel (st : bevel_state K) (axis : Nat) (dir : Int)
    (order : Nat) (hlen : order ≤ st.b.faces.length)
    (hpre : ∀ j f, j < order → st.b.faces[j]? = some f →
      (f.get_plane st.planes).normal.get axis ≠ (dir : K)) :
    (AddBrushBevels_axial_step st axis dir order).b =
      { st.b with faces := (AddBrushBevels_axial_step st axis dir order).b.faces } ∧
    (¬ axialPresent st.planes st.b axis dir →
      ∃ s, (AddBrushBevels_axial_step st axis dir order).b.faces[order]? = some s ∧
        s.get_plane (AddBrushBevels_axial_step st axis dir order).planes =
          axialBevelPlane st.b axis dir ∧
        s.bevel = true ∧
        s.texinfo = ((st.b.faces ++ [mapface_t.default]).getD 0 mapface_t.default).texinfo ∧
        s.contents = ((st.b.faces ++ [mapface_t.default]).getD 0 mapface_t.default).contents ∧
        s.texname = ((st.b.faces ++ [mapface_t.default]).getD 0 mapface_t.default).texname ∧
        ∀ g ∈ (AddBrushBevels_axial_step st axis dir order).b.faces, g ∈ st.b.faces ∨ g = s) ∧
    (axialPresent st.planes st.b axis dir →
      (AddBrushBevels_axial_step st axis dir order).b.faces[order]? =
        st.b.faces.find?
          (fun s => decide ((get_plane st.planes s.planenum).normal.get axis = (dir : K))) ∧
      ∀ g ∈ (AddBrushBevels_axial_step st axis dir order).b.faces, g ∈ st.b.faces) := by
  unfold AddBrushBevels_axial_step
  simp only []
  set p : mapface_t K → Bool :=
    fun s => decide ((get_plane st.planes s.planenum).normal.get axis = (dir : K)) with hp
  set i := st.b.faces.findIdx p with hi
  have hige : order ≤ i := by
    by_contra hc
    have hlt : i < order := not_le.mp hc
    have hil : i < st.b.faces.length := lt_of_lt_of_le hlt hlen
    have hpi : p (st.b.faces[i]) = true := List.findIdx_getElem
    have := hpre i (st.b.faces[i]) hlt (List.getElem?_eq_getElem hil)
    rw [hp] at hpi
    simp only [decide_eq_true_eq] at hpi
    exact this hpi
  generalize hs : ({ (mapface_t.default : mapface_t K) with
      planenum := (add_or_find_plane st.planes (axialBevelPlane st.b axis dir)).2,
      texinfo := ((st.b.faces ++ [mapface_t.default]).getD 0 mapface_t.default).texinfo,
      contents := ((st.b.faces ++ [mapface_t.default]).getD 0 mapface_t.default).contents,
      texname := ((st.b.faces ++ [mapface_t.default]).getD 0 mapface_t.default).texname,
      bevel := true } : mapface_t K) = snew
  have hsn : snew.planenum = (add_or_find_plane st.planes (axialBevelPlane st.b axis dir)).2 := by
    rw [← hs]
  have hsb : snew.bevel = true := by rw [← hs]
  have hst : snew.texinfo =
      ((st.b.faces ++ [mapface_t.default]).getD 0 mapface_t.default).texinfo := by rw [← hs]
  have hsc : snew.contents =
      ((st.b.faces ++ [mapface_t.default]).getD 0 mapface_t.default).contents := by rw [← hs]
  have hsx : snew.texname =
      ((st.b.faces ++ [mapface_t.default]).getD 0 mapface_t.default).texname := by rw [← hs]
  by_cases hnf : i = st.b.faces.length
  · -- the side is missing
    have habs : ¬ axialPresent st.planes st.b axis dir := by
      rintro ⟨f, hf, hfp⟩
      have hall := List.findIdx_eq_length.mp hnf
      have := hall f hf
      rw [hp] at this
      simp only [decide_eq_false_iff_not] at this
      exact this hfp
    rw [if_pos hnf]
    obtain ⟨hg, hl, hpf⟩ := get_plane_add_or_find st.planes (axialBevelPlane st.b axis dir)
    have hgs : snew.get_plane (add_or_find_plane st.planes (axialBevelPlane st.b axis dir)).1 =
        axialBevelPlane st.b axis dir := by
      unfold mapface_t.get_plane
      rw [hsn]
      exact hg
    by_cases hne : i = order
    · rw [if_neg (not_not.mpr hne)]
      refine ⟨rfl, fun _ => ⟨snew, ?_, hgs, hsb, hst, hsc, hsx, ?_⟩, fun h => absurd h habs⟩
      · simp only []
        rw [← hne, hnf, List.getElem?_append_right (le_refl _)]
        simp
      · intro g hg
        rcases List.mem_append.mp hg with h | h
        · exact Or.inl h
        · exact Or.inr (List.mem_singleton.mp h)
    · rw [if_pos hne]
      have hlt : order < i := lt_of_le_of_ne hige (Ne.symm hne)
      have hil : i < (st.b.faces ++ [snew]).length := by simp [hnf]
      obtain ⟨s1, s2, s3, s4⟩ := swapFaces_spec (st.b.faces ++ [snew]) order i hlt hil
      refine ⟨rfl, fun _ => ⟨snew, ?_, hgs, hsb, hst, hsc, hsx, ?_⟩, fun h => absurd h habs⟩
      · simp only []
        rw [s3, hnf, List.getElem?_append_right (le_refl _)]
        simp
      · intro g hg
        rcases List.mem_append.mp (s1.subset hg) with h | h
        · exact Or.inl h
        · exact Or.inr (List.mem_singleton.mp h)
  · -- the side is present
    have hil : i < st.b.faces.length := lt_of_le_of_ne (List.findIdx_le_length p) hnf
    have hpi : p (st.b.faces[i]) = true := List.findIdx_getElem
    have hpres : axialPresent st.planes st.b axis dir := by
      refine ⟨st.b.faces[i], List.getElem_mem hil, ?_⟩
      rw [hp] at hpi
      simpa using hpi
    rw [if_neg hnf]
    by_cases hne : i = order
    · rw [if_neg (not_not.mpr hne)]
      refine ⟨rfl, fun h => absurd hpres h, fun _ => ⟨?_, fun g hg => hg⟩⟩
      rw [find?_eq_getElem?_findIdx, ← hne]
    · rw [if_pos hne]
      have hlt : order < i := lt_of_le_of_ne hige (Ne.symm hne)
      obtain ⟨s1, s2, s3, s4⟩ := swapFaces_spec st.b.faces order i hlt hil
      refine ⟨rfl, fun h => absurd hpres h, fun _ => ⟨?_, fun g hg => s1.subset hg⟩⟩
      simp only []
      rw [s3, find?_eq_getElem?_findIdx]

/-- The normal of the plane built for a missing axial side is the canonical
normal of its position. -/
theorem axialBevelPlane_normal (b : mapbrush_t K) (k : Nat) :
    (axialBevelPlane b (k / 2) (if k % 2 = 0 then -1 else 1)).normal = canonicalNormal k := by
  unfold axialBevelPlane canonicalNormal
  dsimp only
  split_ifs <;> norm_num

/-- The axial loop is its first six passes. -/
theorem AddBrushBevels_axial_eq_upto (st : bevel_state K) :
    AddBrushBevels_axial st = AddBrushBevels_axial_upto st 6 := by
  rw [AddBrushBevels_axial_unfold]
  rfl

/-- One pass of the axial loop keeps the invariant. -/
theorem AddBrushBevels_axial_step_inv (st0 s : bevel_state K) (k : Nat) (hk : k < 6)
    (hwf0 : st0.WellFormed) (h : st0.AxialInv s k) :
    st0.AxialInv (AddBrushBevels_axial_step s (k / 2) (if k % 2 = 0 then -1 else 1) k) (k + 1) := by
  obtain ⟨hcan, hpre0, hb, hzero, hmem, hbev, hfirst⟩ := h
  obtain ⟨hwf, hlen, hc⟩ := hcan
  have hcast : (((if k % 2 = 0 then -1 else 1 : Int)) : K) = (if k % 2 = 0 then -1 else 1 : K) := by
    split_ifs <;> norm_num
  have haxis : k / 2 < 3 := by omega
  have hdir : (if k % 2 = 0 then -1 else 1 : Int) = -1 ∨ (if k % 2 = 0 then -1 else 1 : Int) = 1 := by
    split_ifs
    · exact Or.inl rfl
    · exact Or.inr rfl
  have hpre : ∀ j f, j < k → s.b.faces[j]? = some f →
      (f.get_plane s.planes).normal.get (k / 2) ≠ ((if k % 2 = 0 then -1 else 1 : Int) : K) := by
    intro j f hj hf
    obtain ⟨g, hg, hn⟩ := hc j hj
    rw [hf] at hg
    cases hg
    rw [hn]
    exact canonicalNormal_get_ne j k hj hk
  obtain ⟨c1, c2, -⟩ := AddBrushBevels_axial_step_canonical s k hk ⟨hwf, hlen, hc⟩
  obtain ⟨-, -, -, r4, -, -⟩ := AddBrushBevels_axial_step_spec s (k / 2)
    (if k % 2 = 0 then -1 else 1) k haxis hdir hwf hlen hpre
  obtain ⟨b1, b2, b3⟩ := AddBrushBevels_axial_step_bevel s (k / 2)
    (if k % 2 = 0 then -1 else 1) k hlen hpre
  generalize AddBrushBevels_axial_step s (k / 2) (if k % 2 = 0 then -1 else 1) k = s2
    at c1 c2 r4 b1 b2 b3
  -- a side that is present in the current brush was present at the start
  have hpresent : axialPresent s.planes s.b (k / 2) (if k % 2 = 0 then -1 else 1) →
      axialPresent st0.planes st0.b (k / 2) (if k % 2 = 0 then -1 else 1) := by
    rintro ⟨g, hg, hn⟩
    rcases hmem g hg with h0 | ⟨j, hj, hcn⟩
    · refine ⟨g, h0, ?_⟩
      have e : g.get_plane s.planes = g.get_plane st0.planes :=
        get_plane_extended hpre0 (hwf0 g h0).1
      rw [← e]
      exact hn
    · exfalso
      rw [hcn] at hn
      exact canonicalNormal_get_ne j k hj hk hn
  -- faces of the current brush keep their planes
  have hkeep : ∀ g ∈ s.b.faces, g.get_plane s2.planes = g.get_plane s.planes :=
    fun g hg => get_plane_extended c2 (hwf g hg).1
  -- the first face of the current brush
  have hsrc : ¬ axialPresent st0.planes st0.b (k / 2) (if k % 2 = 0 then -1 else 1) →
      ((s.b.faces ++ [mapface_t.default]).getD 0 mapface_t.default).texinfo =
        (axialBevelSource st0.planes st0.b).texinfo ∧
      ((s.b.faces ++ [mapface_t.default]).getD 0 mapface_t.default).contents =
        (axialBevelSource st0.planes st0.b).contents ∧
      ((s.b.faces ++ [mapface_t.default]).getD 0 mapface_t.default).texname =
        (axialBevelSource st0.planes st0.b).texname := by
    intro habs
    rcases Nat.eq_zero_or_pos k with hk0 | hk0
    · subst hk0
      rw [hzero rfl]
      have hnone : st0.b.faces.find?
          (fun s => decide ((get_plane st0.planes s.planenum).normal.get 0 = ((-1 : Int) : K))) =
          none := by
        rw [List.find?_eq_none]
        intro g hg hp
        apply habs
        refine ⟨g, hg, ?_⟩
        simpa [mapface_t.get_plane] using hp
      unfold axialBevelSource
      rw [hnone]
      exact ⟨rfl, rfl, rfl⟩
    · obtain ⟨f0, hf0, a1, a2, a3⟩ := hfirst hk0
      have hget : (s.b.faces ++ [mapface_t.default]).getD 0 mapface_t.default = f0 := by
        have h0 : (s.b.faces ++ [mapface_t.default])[0]? = some f0 := by
          rw [List.getElem?_append_left (by omega)]
          exact hf0
        rw [List.getD_eq_getElem?_getD, h0]
        rfl
      rw [hget]
      exact ⟨a1, a2, a3⟩
  refine ⟨c1, hpre0.trans c2, ?_, fun h0 => absurd h0 (by omega), ?_, ?_, ?_⟩
  · rw [b1, hb]
  · intro g hg
    by_cases hp : axialPresent s.planes s.b (k / 2) (if k % 2 = 0 then -1 else 1)
    · have hgs := (b3 hp).2 g hg
      rcases hmem g hgs with h0 | ⟨j, hj, hcn⟩
      · exact Or.inl h0
      · exact Or.inr ⟨j, by omega, by rw [hkeep g hgs]; exact hcn⟩
    · obtain ⟨snew, -, n2, -, -, -, -, n7⟩ := b2 hp
      rcases n7 g hg with hgs | rfl
      · rcases hmem g hgs with h0 | ⟨j, hj, hcn⟩
        · exact Or.inl h0
        · exact Or.inr ⟨j, by omega, by rw [hkeep g hgs]; exact hcn⟩
      · exact Or.inr ⟨k, by omega, by rw [n2]; exact axialBevelPlane_normal s.b k⟩
  · intro j hj habs
    rcases Nat.lt_succ_iff_lt_or_eq.mp hj with hj | rfl
    · obtain ⟨f, hf, p1, p2, p3, p4, p5⟩ := hbev j hj habs
      refine ⟨f, by rw [r4 j hj]; exact hf, ?_, p2, p3, p4, p5⟩
      rw [hkeep f (List.getElem?_mem hf)]
      exact p1
    · have hp : ¬ axialPresent s.planes s.b (j / 2) (if j % 2 = 0 then -1 else 1) :=
        fun hp => habs (hpresent hp)
      obtain ⟨snew, n1, n2, n3, n4, n5, n6, -⟩ := b2 hp
      obtain ⟨a1, a2, a3⟩ := hsrc habs
      refine ⟨snew, n1, ?_, n3, n4.trans a1, n5.trans a2, n6.trans a3⟩
      rw [n2, hb]
      rfl
  · intro _
    rcases Nat.eq_zero_or_pos k with hk0 | hk0
    · subst hk0
      have hs0 := hzero rfl
      subst hs0
      by_cases hp : axialPresent s.planes s.b (0 / 2) (if 0 % 2 = 0 then -1 else 1)
      · obtain ⟨g, hg, hn⟩ := hp
        have hfind := (b3 ⟨g, hg, hn⟩).1
        cases hf : s.b.faces.find? (fun f => decide ((get_plane s.planes f.planenum).normal.get
            (0 / 2) = (((if 0 % 2 = 0 then -1 else 1 : Int)) : K))) with
        | none =>
          exfalso
          rw [List.find?_eq_none] at hf
          exact hf g hg (by simpa [mapface_t.get_plane] using hn)
        | some f0 =>
          rw [hf] at hfind
          have hsrc0 : axialBevelSource s.planes s.b = f0 := by
            unfold axialBevelSource
            have hf2 : s.b.faces.find? (fun f => decide ((get_plane s.planes f.planenum).normal.get
                0 = ((-1 : Int) : K))) = some f0 := hf
            rw [hf2]
          exact ⟨f0, hfind, by rw [hsrc0], by rw [hsrc0], by rw [hsrc0]⟩
      · obtain ⟨snew, n1, -, -, n4, n5, n6, -⟩ := b2 hp
        obtain ⟨a1, a2, a3⟩ := hsrc hp
        exact ⟨snew, n1, n4.trans a1, n5.trans a2, n6.trans a3⟩
    · obtain ⟨f0, hf0, a1, a2, a3⟩ := hfirst hk0
      exact ⟨f0, by rw [r4 0 hk0]; exact hf0, a1, a2, a3⟩

/-- The invariant holds after each of the six passes of the axial loop. -/
theorem AddBrushBevels_axial_upto_inv (st0 : bevel_state K) (hwf0 : st0.WellFormed) :
    ∀ k, k ≤ 6 → st0.AxialInv (AddBrushBevels_axial_upto st0 k) k := by
  intro k
  induction k with
  | zero =>
    intro _
    refine ⟨⟨hwf0, Nat.zero_le _, fun j hj => absurd hj (Nat.not_lt_zero j)⟩,
      List.prefix_refl _, rfl, fun _ => rfl, fun g hg => Or.inl hg,
      fun j hj => absurd hj (Nat.not_lt_zero j), fun h => absurd h (by omega)⟩
  | succ k ih =>
    intro hk
    exact AddBrushBevels_axial_step_inv st0 _ k (by omega) hwf0 (ih (by omega))

/-- AddBrushBevels returns, and its result extends the state after the axial
loop by appended faces. -/
theorem AddBrushBevels_returns_extends (env : qbsp_env K) (opts : qbsp_options_t K) (m : libm K)
    (planes : List (qplane3 K)) (e : mapentity_t K) (b : mapbrush_t K) :
    ∃ st n, AddBrushBevels env opts m planes e b = some st ∧
      (AddBrushBevels_axial (bevel_state.mk planes e b)).Extends st n := by
  unfold AddBrushBevels
  simp only []
  by_cases h6 : (AddBrushBevels_axial (bevel_state.mk planes e b)).b.faces.length = 6
  · rw [if_pos h6]
    exact ⟨_, 0, rfl, bevel_state.Extends_refl _⟩
  · rw [if_neg h6]
    exact AddBrushBevels_edgeLoop_returns env opts m _ 6 _
      (drop_weight_le (AddBrushBevels_axial (bevel_state.mk planes e b)).b.faces 6)

/-- The axial sides that AddBrushBevels adds to a well-formed brush: for each
of the six directions that no face of the brush has, the face at the canonical
position of the result is a bevel on the axial plane at the bounding box, with
the surface attributes of axialBevelSource. -/
theorem AddBrushBevels_axial_sides (env : qbsp_env K) (opts : qbsp_options_t K) (m : libm K)
    (planes : List (qplane3 K)) (e : mapentity_t K) (b : mapbrush_t K)
    (hwf : (bevel_state.mk planes e b).WellFormed) :
    ∃ st, AddBrushBevels env opts m planes e b = some st ∧
      ∀ k, k < 6 → ¬ axialPresent planes b (k / 2) (if k % 2 = 0 then -1 else 1) →
        ∃ f, st.b.faces[k]? = some f ∧
          f.get_plane st.planes = axialBevelPlane b (k / 2) (if k % 2 = 0 then -1 else 1) ∧
          f.bevel = true ∧
          f.texinfo = (axialBevelSource planes b).texinfo ∧
          f.contents = (axialBevelSource planes b).contents ∧
          f.texname = (axialBevelSource planes b).texname := by
  obtain ⟨st, n, hst, hpre, new, hb, -, -, -⟩ := AddBrushBevels_returns_extends env opts m planes e b
  have hinv := AddBrushBevels_axial_upto_inv (bevel_state.mk planes e b) hwf 6 (le_refl _)
  rw [← AddBrushBevels_axial_eq_upto] at hinv
  obtain ⟨⟨hwf1, hlen1, -⟩, -, -, -, -, hbev, -⟩ := hinv
  refine ⟨st, hst, ?_⟩
  intro k hk habs
  obtain ⟨f, hf, p1, p2, p3, p4, p5⟩ := hbev k hk habs
  refine ⟨f, ?_, ?_, p2, p3, p4, p5⟩
  · rw [hb]
    dsimp only
    rw [List.getElem?_append_left (by omega)]
    exact hf
  · have e1 : f.get_plane st.planes =
        f.get_plane (AddBrushBevels_axial (bevel_state.mk planes e b)).planes :=
      get_plane_extended hpre (hwf1 f (List.getElem?_mem hf)).1
    rw [e1]
    exact p1

/-- When no face of the brush has the normal component -1 along x, or the first
face has it, the attributes of the new axial sides are those of the first
face. -/
theorem axialBevelSource_first (planes : List (qplane3 K)) (b : mapbrush_t K) (f0 : mapface_t K)
    (rest : List (mapface_t K)) (hb : b.faces = f0 :: rest)
    (h : ¬ axialPresent planes b 0 (-1) ∨ (f0.get_plane planes).normal.get 0 = ((-1 : Int) : K)) :
    axialBevelSource planes b = f0 := by
  unfold axialBevelSource
  rw [hb]
  rcases h with h | h
  · have hnone : (f0 :: rest).find?
        (fun s => decide ((get_plane planes s.planenum).normal.get 0 = ((-1 : Int) : K))) = none := by
      rw [List.find?_eq_none]
      intro g hg hp
      apply h
      refine ⟨g, by rw [hb]; exact hg, ?_⟩
      simpa [mapface_t.get_plane] using hp
    rw [hnone]
    rfl
  · rw [List.find?_cons_of_pos]
    simpa [mapface_t.get_plane] using h

/-- For a well-formed brush the test of the axial loop finds a face exactly
when some face has the axis vector as its normal. -/
theorem axialPresent_iff (planes : List (qplane3 K)) (e : mapentity_t K) (b : mapbrush_t K)
    (hwf : (bevel_state.mk planes e b).WellFormed) (k : Nat) (hk : k < 6) :
    axialPresent planes b (k / 2) (if k % 2 = 0 then -1 else 1) ↔
      ∃ f ∈ b.faces, (f.get_plane planes).normal = canonicalNormal k := by
  have hdir : (if k % 2 = 0 then -1 else 1 : Int) = -1 ∨ (if k % 2 = 0 then -1 else 1 : Int) = 1 := by
    split_ifs
    · exact Or.inl rfl
    · exact Or.inr rfl
  have hcast : (((if k % 2 = 0 then -1 else 1 : Int)) : K) = (if k % 2 = 0 then -1 else 1 : K) := by
    split_ifs <;> norm_num
  constructor
  · rintro ⟨f, hf, hn⟩
    refine ⟨f, hf, ?_⟩
    rw [unit_axis _ (k / 2) _ (by omega) hdir (hwf f hf).2 hn, hcast]
    rfl
  · rintro ⟨f, hf, hn⟩
    refine ⟨f, hf, ?_⟩
    rw [hn, hcast]
    interval_cases k <;> norm_num [canonicalNormal, qvec3.set, qvec3.get, qvec3.zero]

/-- C29, with the source of the attributes corrected: AddBrushBevels on a
well-formed brush returns, and for each of the six axis directions that no
face of the brush has, the face at the canonical position of the result is on
the plane with that axis normal at distance maxs[axis] (positive direction) or
-mins[axis] (negative direction) of the bounding box, is marked as a bevel,
and has the texinfo, contents and texture name of axialBevelSource: of the
first face with normal component -1 along x, which the loop has moved to
position 0, where there is one, and else of the first face of the brush as
it was passed in.  The two agree when no face has that component or the first
face has it.  A direction is missing exactly when no face has the axis vector
as its normal. -/
theorem AddBrushBevels_axial_bevel_attrs (env : qbsp_env K) (opts : qbsp_options_t K)
    (m : libm K) (planes : List (qplane3 K)) (e : mapentity_t K) (b : mapbrush_t K)
    (hwf : (bevel_state.mk planes e b).WellFormed) :
    (∃ st, AddBrushBevels env opts m planes e b = some st ∧
      ∀ k, k < 6 → ¬ axialPresent planes b (k / 2) (if k % 2 = 0 then -1 else 1) →
        ∃ f, st.b.faces[k]? = some f ∧
          (f.get_plane st.planes).normal =
            (qvec3.zero : qvec3 K).set (k / 2) (((if k % 2 = 0 then -1 else 1 : Int)) : K) ∧
          (f.get_plane st.planes).dist =
            (if k % 2 = 0 then -(b.bounds.mins.get (k / 2)) else b.bounds.maxs.get (k / 2)) ∧
          f.bevel = true ∧
          f.texinfo = (axialBevelSource planes b).texinfo ∧
          f.contents = (axialBevelSource planes b).contents ∧
          f.texname = (axialBevelSource planes b).texname) ∧
    (∀ f0 rest, b.faces = f0 :: rest →
      (¬ axialPresent planes b 0 (-1) ∨ (f0.get_plane planes).normal.get 0 = ((-1 : Int) : K)) →
      axialBevelSource planes b = f0) ∧
    (∀ k, k < 6 → (axialPresent planes b (k / 2) (if k % 2 = 0 then -1 else 1) ↔
      ∃ f ∈ b.faces, (f.get_plane planes).normal = canonicalNormal k)) := by
  refine ⟨?_, fun f0 rest hb h => axialBevelSource_first planes b f0 rest hb h,
    fun k hk => axialPresent_iff planes e b hwf k hk⟩
  obtain ⟨st, hst, hall⟩ := AddBrushBevels_axial_sides env opts m planes e b hwf
  refine ⟨st, hst, ?_⟩
  intro k hk habs
  obtain ⟨f, hf, p1, p2, p3, p4, p5⟩ := hall k hk habs
  refine ⟨f, hf, ?_, ?_, p2, p3, p4, p5⟩
  · rw [p1]
    rfl
  · rw [p1]
    unfold axialBevelPlane
    dsimp only
    by_cases h2 : k % 2 = 0
    · rw [if_pos h2, if_pos h2, if_neg (by decide)]
    · rw [if_neg h2, if_neg h2, if_pos rfl]

/-- The example brush with the faces +x (texinfo 1, texture "a") and -x
(texinfo 2, texture "b"), in this order: the four sides that AddBrushBevels
adds have the texinfo and the texture name of the -x face, which the loop has
moved to position 0, and not those of the +x face, the first face of the brush
as it was passed in. -/
theorem AddBrushBevels_bevel_source_moved :
    (slab_brush : mapbrush_t ℝ).faces.head? =
      some { (cube_face 0 : mapface_t ℝ) with texinfo := 1, texname := "a" } ∧
    AddBrushBevels qbsp_env.sample qbsp_options_t.sample libm.real cube_planes
      mapentity_t.default (slab_brush : mapbrush_t ℝ) =
      some ⟨cube_planes, { (mapentity_t.default : mapentity_t ℝ) with numboxbevels := 4 },
        { (slab_brush : mapbrush_t ℝ) with
          faces := [{ (cube_face 2 : mapface_t ℝ) with texinfo := 2, texname := "b" },
            { (cube_face 0 : mapface_t ℝ) with texinfo := 1, texname := "a" },
            { (cube_face 6 : mapface_t ℝ) with texinfo := 2, texname := "b", bevel := true },
            { (cube_face 4 : mapface_t ℝ) with texinfo := 2, texname := "b", bevel := true },
            { (cube_face 10 : mapface_t ℝ) with texinfo := 2, texname := "b", bevel := true },
            { (cube_face 8 : mapface_t ℝ) with texinfo := 2, texname := "b", bevel := true }] }⟩ := by
  refine ⟨rfl, ?_⟩
  norm_num [AddBrushBevels, AddBrushBevels_axial, axialOrder, AddBrushBevels_axial_step,
      slab_brush, cube_face, cube_planes, get_plane, qvec3.get, qvec3.set, qvec3.zero, swapFaces,
      List.findIdx_cons, mapbrush_t.default, add_or_find_plane, axialBevelPlane, mapface_t.default,
      mapentity_t.default, List.indexOf_cons, qplane3.neg, qvec3.neg]

/-- The example brush is well formed for the planes of the example cube. -/
theorem slab_brush_wellFormed :
    (bevel_state.mk (cube_planes : List (qplane3 ℝ)) mapentity_t.default slab_brush).WellFormed := by
  intro f hf
  simp only [slab_brush, List.mem_cons, List.mem_singleton, List.not_mem_nil, or_false] at hf
  rcases hf with rfl | rfl <;>
    norm_num [cube_face, cube_planes, mapface_t.get_plane, get_plane, qv.dot]

theorem AddBrushBevels_axial_bevel_attrs_witness :
    (bevel_state.mk (cube_planes : List (qplane3 ℝ)) mapentity_t.default slab_brush).WellFormed ∧
    ∃ st, AddBrushBevels qbsp_env.sample qbsp_options_t.sample libm.real cube_planes
        mapentity_t.default (slab_brush : mapbrush_t ℝ) = some st ∧
      ∀ k, k < 6 →
        ¬ axialPresent cube_planes (slab_brush : mapbrush_t ℝ) (k / 2)
          (if k % 2 = 0 then -1 else 1) →
        ∃ f, st.b.faces[k]? = some f ∧
          (f.get_plane st.planes).normal =
            (qvec3.zero : qvec3 ℝ).set (k / 2) (((if k % 2 = 0 then -1 else 1 : Int)) : ℝ) ∧
          (f.get_plane st.planes).dist =
            (if k % 2 = 0 then -((slab_brush : mapbrush_t ℝ).bounds.mins.get (k / 2))
              else (slab_brush : mapbrush_t ℝ).bounds.maxs.get (k / 2)) ∧
          f.bevel = true ∧
          f.texinfo = (axialBevelSource cube_planes (slab_brush : mapbrush_t ℝ)).texinfo ∧
          f.contents = (axialBevelSource cube_planes (slab_brush : mapbrush_t ℝ)).contents ∧
          f.texname = (axialBevelSource cube_planes (slab_brush : mapbrush_t ℝ)).texname :=
  ⟨slab_brush_wellFormed,
    (AddBrushBevels_axial_bevel_attrs qbsp_env.sample qbsp_options_t.sample libm.real cube_planes
      mapentity_t.default slab_brush slab_brush_wellFormed).1⟩

end axial_bevel_claims

section edge_bevel_claims
variable {K : Type} [LinearOrderedField K]

/-- An edge bevel stays one when the plane table and the face list are
extended. -/
theorem EdgeBevel_mono (env : qbsp_env K) (opts : qbsp_options_t K)
    {planes planes2 : List (qplane3 K)} {faces new : List (mapface_t K)} {p : Nat}
    {f : mapface_t K} (h : EdgeBevel env opts planes faces p f) (hp : planes <+: planes2)
    (hvalid : ∀ g ∈ faces, g.planenum < planes.length) (hlen : p ≤ faces.length) :
    EdgeBevel env opts planes2 (faces ++ new) p f := by
  obtain ⟨h1, h2, h3, i, g, wj, h4, h5, h6, h7, h8, h9, h10, h11, h12⟩ := h
  have ef : f.get_plane planes2 = f.get_plane planes := get_plane_extended hp h3
  refine ⟨h1, h2, lt_of_lt_of_le h3 hp.length_le, i, g, wj, h4, h5, ?_, h7, h8, h9, h10, ?_, ?_⟩
  · rw [List.getElem?_append_left (by omega)]
    exact h6
  · rw [ef]
    exact h11
  · intro k h hk hh
    rw [List.getElem?_append_left (by omega)] at hh
    have eh : h.get_plane planes2 = h.get_plane planes :=
      get_plane_extended hp (hvalid h (List.getElem?_mem hh))
    rw [ef, eh]
    exact h12 k h hk hh

theorem bevel_state.EdgeExtends_refl (env : qbsp_env K) (opts : qbsp_options_t K)
    (st : bevel_state K) (hv : st.PlanesValid) : st.EdgeExtends env opts st := by
  refine ⟨List.prefix_refl _, hv, [], by simp, by simp, ?_⟩
  intro p f hp hf
  exfalso
  have := List.getElem?_eq_some_iff.mp hf
  obtain ⟨hlt, -⟩ := this
  omega

theorem bevel_state.EdgeExtends_trans (env : qbsp_env K) (opts : qbsp_options_t K)
    {st st1 st2 : bevel_state K} (h1 : st.EdgeExtends env opts st1)
    (h2 : st1.EdgeExtends env opts st2) : st.EdgeExtends env opts st2 := by
  obtain ⟨p1, v1, new1, b1, e1, a1⟩ := h1
  obtain ⟨p2, v2, new2, b2, e2, a2⟩ := h2
  have hf1 : st1.b.faces = st.b.faces ++ new1 := by rw [b1]
  have hf2 : st2.b.faces = st1.b.faces ++ new2 := by rw [b2]
  refine ⟨p1.trans p2, v2, new1 ++ new2, ?_, ?_, ?_⟩
  · rw [b2, b1]
    simp
  · rw [e2, e1]
    simp [Nat.add_assoc]
  · intro p f hp hf
    by_cases hlt : p < st1.b.faces.length
    · have hf' : st1.b.faces[p]? = some f := by
        rw [hf2, List.getElem?_append_left hlt] at hf
        exact hf
      rw [hf2]
      exact EdgeBevel_mono env opts (a1 p f hp hf') p2 v1 (by omega)
    · exact a2 p f (by omega) hf

/-- A part of the edge-bevel loops keeps the faces that were there. -/
theorem bevel_state.EdgeExtends_getElem (env : qbsp_env K) (opts : qbsp_options_t K)
    {st st2 : bevel_state K} (h : st.EdgeExtends env opts st2) (i : Nat)
    (hi : i < st.b.faces.length) :
    st2.b.faces[i]? = st.b.faces[i]? ∧ i < st2.b.faces.length := by
  obtain ⟨-, -, new, b1, -, -⟩ := h
  rw [b1]
  dsimp only
  rw [List.getElem?_append_left hi]
  exact ⟨rfl, by rw [List.length_append]; omega⟩

/-- The innermost loop body appends at most an edge bevel built from the
vertex wj of face i. -/
theorem AddBrushBevels_tryPlane_edge (env : qbsp_env K) (opts : qbsp_options_t K) (m : libm K)
    (i : Nat) (wj vec : qvec3 K) (st : bevel_state K) (axis : Nat) (dir : Int)
    (hv : st.PlanesValid) (hi6 : 6 ≤ i) (g : mapface_t K) (hg : st.b.faces[i]? = some g)
    (hwj : wj ∈ g.winding) :
    st.EdgeExtends env opts (AddBrushBevels_tryPlane env opts m i wj vec st axis dir) := by
  unfold AddBrushBevels_tryPlane
  simp only []
  split_ifs with h1 h2
  · exact bevel_state.EdgeExtends_refl env opts st hv
  · exact bevel_state.EdgeExtends_refl env opts st hv
  · have hil : i < st.b.faces.length := (List.getElem?_eq_some_iff.mp hg).1
    have hgd : st.b.faces.getD i mapface_t.default = g := by
      rw [List.getD_eq_getElem?_getD, hg]
      rfl
    rw [hgd]
    generalize qv.normalize m (qv.cross vec ((qvec3.zero : qvec3 K).set axis (dir : K))) = n
      at h1 h2 ⊢
    generalize hplane : ({ normal := n.2, dist := qv.dot wj n.2 } : qplane3 K) = plane at h2 ⊢
    have hdot : qv.dot wj plane.normal = plane.dist := by
      rw [← hplane]
    obtain ⟨a1, a2, a3⟩ := get_plane_add_or_find st.planes plane
    have hhull : edgeBevel_isHull env opts st plane = true := by
      simpa using h2
    unfold edgeBevel_isHull at hhull
    rw [List.all_eq_true] at hhull
    refine ⟨a3, ?_, [_], rfl, rfl, ?_⟩
    · intro f hf
      dsimp only at hf ⊢
      rcases List.mem_append.mp hf with hf | hf
      · exact lt_of_lt_of_le (hv f hf) a3.length_le
      · rw [List.mem_singleton.mp hf]
        exact a2
    · intro p f hp hf
      dsimp only at hf ⊢
      have hpl : p = st.b.faces.length := by
        have := (List.getElem?_eq_some_iff.mp hf).1
        rw [List.length_append, List.length_singleton] at this
        omega
      subst hpl
      rw [List.getElem?_append_right (le_refl _)] at hf
      simp only [Nat.sub_self, List.getElem?_cons_zero, Option.some.injEq] at hf
      subst hf
      have hfp : mapface_t.get_plane (add_or_find_plane st.planes plane).1
          { (mapface_t.default : mapface_t K) with
            planenum := (add_or_find_plane st.planes plane).2, texinfo := g.texinfo,
            contents := g.contents, texname := g.texname, bevel := true } = plane := a1
      refine ⟨rfl, rfl, a2, i, g, wj, hi6, hil, ?_, hwj, rfl, rfl, rfl, ?_, ?_⟩
      · rw [List.getElem?_append_left hil]
        exact hg
      · rw [hfp]
        exact hdot
      · intro k h hk hh
        rw [List.getElem?_append_left hk] at hh
        have hmem : h ∈ st.b.faces := List.getElem?_mem hh
        have eh : h.get_plane (add_or_find_plane st.planes plane).1 = h.get_plane st.planes :=
          get_plane_extended a3 (hv h hmem)
        rw [hfp, eh]
        have := hhull h hmem
        simp only [Bool.and_eq_true, Bool.not_eq_true', List.all_eq_true,
          decide_eq_false_iff_not, not_lt] at this
        exact ⟨this.1, fun v hvw => by
          have := this.2 v hvw
          simpa using this⟩

/-- A fold of steps each of which appends edge bevels built from face i. -/
theorem foldl_edgeExtends {α : Type} (env : qbsp_env K) (opts : qbsp_options_t K)
    (f : bevel_state K → α → bevel_state K) (i : Nat) (g : mapface_t K) (l : List α)
    (hf : ∀ (s : bevel_state K) (x : α), x ∈ l → s.PlanesValid → s.b.faces[i]? = some g →
      s.EdgeExtends env opts (f s x)) :
    ∀ st : bevel_state K, st.PlanesValid → st.b.faces[i]? = some g →
      st.EdgeExtends env opts (l.foldl f st) := by
  induction l with
  | nil =>
    intro st hv _
    exact bevel_state.EdgeExtends_refl env opts st hv
  | cons x t ih =>
    intro st hv hg
    rw [List.foldl_cons]
    have h1 := hf st x (List.mem_cons_self _ _) hv hg
    have hil : i < st.b.faces.length := (List.getElem?_eq_some_iff.mp hg).1
    have hg2 : (f st x).b.faces[i]? = some g := by
      rw [(bevel_state.EdgeExtends_getElem env opts h1 i hil).1]
      exact hg
    exact bevel_state.EdgeExtends_trans env opts h1
      (ih (fun s y hy => hf s y (List.mem_cons_of_mem _ hy)) (f st x) h1.2.1 hg2)

/-- The loop body for one edge of face i appends edge bevels built from that
face. -/
theorem AddBrushBevels_edge_edge (env : qbsp_env K) (opts : qbsp_options_t K) (m : libm K)
    (i : Nat) (st : bevel_state K) (j : Nat) (hv : st.PlanesValid) (hi6 : 6 ≤ i)
    (g : mapface_t K) (hg : st.b.faces[i]? = some g) (hj : j < g.winding.length) :
    st.EdgeExtends env opts (AddBrushBevels_edge env opts m i st j) := by
  unfold AddBrushBevels_edge
  simp only []
  have hgd : st.b.faces.getD i mapface_t.default = g := by
    rw [List.getD_eq_getElem?_getD, hg]
    rfl
  rw [hgd]
  have hwj : g.winding.getD j qvec3.zero ∈ g.winding := by
    rw [List.getD_eq_getElem _ _ hj]
    exact List.getElem_mem hj
  split_ifs
  · exact bevel_state.EdgeExtends_refl env opts st hv
  · exact bevel_state.EdgeExtends_refl env opts st hv
  · exact foldl_edgeExtends env opts _ i g edgeOrder
      (fun s c _ hvs hgs => AddBrushBevels_tryPlane_edge env opts m i _ _ s c.1 c.2 hvs hi6 g hgs
        hwj) st hv hg

/-- The loop body for face i appends edge bevels built from that face. -/
theorem AddBrushBevels_face_edge (env : qbsp_env K) (opts : qbsp_options_t K) (m : libm K)
    (st : bevel_state K) (i : Nat) (hv : st.PlanesValid) (hi6 : 6 ≤ i)
    (hi : i < st.b.faces.length) :
    st.EdgeExtends env opts (AddBrushBevels_face env opts m st i) := by
  unfold AddBrushBevels_face
  simp only []
  have hg : st.b.faces[i]? = some (st.b.faces[i]) := List.getElem?_eq_getElem hi
  have hgd : st.b.faces.getD i mapface_t.default = st.b.faces[i] := List.getD_eq_getElem _ _ hi
  rw [hgd]
  exact foldl_edgeExtends env opts _ i (st.b.faces[i]) _
    (fun s j hj hvs hgs => AddBrushBevels_edge_edge env opts m i s j hvs hi6 _ hgs
      (List.mem_range.mp hj)) st hv hg

/-- The edge loop appends edge bevels only. -/
theorem AddBrushBevels_edgeLoop_edge (env : qbsp_env K) (opts : qbsp_options_t K) (m : libm K) :
    ∀ (fuel i : Nat) (st st2 : bevel_state K), 6 ≤ i → st.PlanesValid →
      AddBrushBevels_edgeLoop env opts m fuel i st = some st2 → st.EdgeExtends env opts st2 := by
  intro fuel
  induction fuel with
  | zero =>
    intro i st st2 _ hv h
    unfold AddBrushBevels_edgeLoop at h
    split_ifs at h
    rw [← Option.some.inj h]
    exact bevel_state.EdgeExtends_refl env opts st hv
  | succ fuel ih =>
    intro i st st2 hi6 hv h
    unfold AddBrushBevels_edgeLoop at h
    split_ifs at h with hi
    · have h1 := AddBrushBevels_face_edge env opts m st i hv hi6 hi
      exact bevel_state.EdgeExtends_trans env opts h1
        (ih (i + 1) _ st2 (by omega) h1.2.1 h)
    · rw [← Option.some.inj h]
      exact bevel_state.EdgeExtends_refl env opts st hv

/-- AddBrushBevels on a well-formed brush returns, and its result extends the
state after the axial loop by edge bevels. -/
theorem AddBrushBevels_edgeExtends (env : qbsp_env K) (opts : qbsp_options_t K) (m : libm K)
    (planes : List (qplane3 K)) (e : mapentity_t K) (b : mapbrush_t K)
    (hwf : (bevel_state.mk planes e b).WellFormed) :
    ∃ st, AddBrushBevels env opts m planes e b = some st ∧
      (AddBrushBevels_axial (bevel_state.mk planes e b)).EdgeExtends env opts st ∧
      planes <+: st.planes := by
  obtain ⟨⟨hwf1, -, -⟩, hpre1, -⟩ := AddBrushBevels_axial_spec _ hwf
  have hv1 : (AddBrushBevels_axial (bevel_state.mk planes e b)).PlanesValid :=
    fun f hf => (hwf1 f hf).1
  obtain ⟨st, n, hst, -⟩ := AddBrushBevels_returns_extends env opts m planes e b
  have hext : (AddBrushBevels_axial (bevel_state.mk planes e b)).EdgeExtends env opts st := by
    have hst2 := hst
    unfold AddBrushBevels at hst2
    simp only [] at hst2
    split_ifs at hst2 with h6
    · rw [← Option.some.inj hst2]
      exact bevel_state.EdgeExtends_refl env opts _ hv1
    · exact AddBrushBevels_edgeLoop_edge env opts m _ 6 _ st (le_refl _) hv1 hst2
  exact ⟨st, hst, hext, hpre1.trans hext.1⟩

/-- C30: AddBrushBevels on a well-formed brush returns, and the faces it
appends after the axial loop are edge bevels.  Each of them is marked as a
bevel and carries the texinfo, contents and texture name of the face from
whose winding edge it was built; its plane contains the winding vertex it was
built from; its plane is not epsilon-equal to the plane of any face that was
in the brush when it was appended; and every vertex of every face winding of
the brush lies at most the epsilon option in front of its plane. -/
theorem AddBrushBevels_edge_bevels (env : qbsp_env K) (opts : qbsp_options_t K) (m : libm K)
    (planes : List (qplane3 K)) (e : mapentity_t K) (b : mapbrush_t K)
    (hwf : (bevel_state.mk planes e b).WellFormed) :
    ∃ st new, AddBrushBevels env opts m planes e b = some st ∧
      st.b.faces = (AddBrushBevels_axial (bevel_state.mk planes e b)).b.faces ++ new ∧
      st.e.numedgebevels =
        (AddBrushBevels_axial (bevel_state.mk planes e b)).e.numedgebevels + new.length ∧
      ∀ (p : Nat) (f : mapface_t K),
        (AddBrushBevels_axial (bevel_state.mk planes e b)).b.faces.length ≤ p →
        st.b.faces[p]? = some f →
        EdgeBevel env opts st.planes st.b.faces p f ∧
        ∀ h ∈ st.b.faces, ∀ v ∈ h.winding,
          qv.dot v (f.get_plane st.planes).normal - (f.get_plane st.planes).dist ≤
            opts.epsilon := by
  obtain ⟨st, hst, hext, -⟩ := AddBrushBevels_edgeExtends env opts m planes e b hwf
  obtain ⟨-, -, new, hb, he, hall⟩ := hext
  have hfaces : st.b.faces = (AddBrushBevels_axial (bevel_state.mk planes e b)).b.faces ++ new := by
    rw [hb]
  refine ⟨st, new, hst, hfaces, by rw [he], ?_⟩
  intro p f hp hf
  have hE := hall p f hp hf
  refine ⟨hE, ?_⟩
  intro h hh v hvw
  obtain ⟨k, hk, hget⟩ := List.getElem_of_mem hh
  have hget2 : st.b.faces[k]? = some h := by
    rw [List.getElem?_eq_getElem hk, hget]
  by_cases hkp : k < p
  · obtain ⟨-, -, -, i, g, wj, -, -, -, -, -, -, -, -, h12⟩ := hE
    exact (h12 k h hkp hget2).2 v hvw
  · exfalso
    have hE2 := hall k h (by omega) hget2
    rw [hE2.2.1] at hvw
    exact absurd hvw (List.not_mem_nil v)

theorem AddBrushBevels_edge_bevels_witness :
    (bevel_state.mk (wedge_planes : List (qplane3 ℝ)) mapentity_t.default wedge_brush).WellFormed ∧
    ∃ st new, AddBrushBevels qbsp_env.sample qbsp_options_t.sample libm.real wedge_planes
        mapentity_t.default (wedge_brush : mapbrush_t ℝ) = some st ∧
      st.b.faces = (AddBrushBevels_axial (bevel_state.mk (wedge_planes : List (qplane3 ℝ))
        mapentity_t.default wedge_brush)).b.faces ++ new ∧
      st.e.numedgebevels = (AddBrushBevels_axial (bevel_state.mk (wedge_planes : List (qplane3 ℝ))
        mapentity_t.default wedge_brush)).e.numedgebevels + new.length ∧
      ∀ (p : Nat) (f : mapface_t ℝ),
        (AddBrushBevels_axial (bevel_state.mk (wedge_planes : List (qplane3 ℝ))
          mapentity_t.default wedge_brush)).b.faces.length ≤ p →
        st.b.faces[p]? = some f →
        EdgeBevel qbsp_env.sample qbsp_options_t.sample st.planes st.b.faces p f ∧
        ∀ h ∈ st.b.faces, ∀ v ∈ h.winding,
          qv.dot v (f.get_plane st.planes).normal - (f.get_plane st.planes).dist ≤
            (qbsp_options_t.sample : qbsp_options_t ℝ).epsilon :=
  have h : (bevel_state.mk (wedge_planes : List (qplane3 ℝ)) mapentity_t.default
      wedge_brush).WellFormed := by
    intro f hf
    simp only [wedge_brush, List.mem_singleton] at hf
    subst hf
    norm_num [cube_face, wedge_planes, mapface_t.get_plane, get_plane, qv.dot]
  ⟨h, AddBrushBevels_edge_bevels qbsp_env.sample qbsp_options_t.sample libm.real wedge_planes
    mapentity_t.default wedge_brush h⟩

end edge_bevel_claims

section offset_claims
variable {K : Type} [LinearOrderedField K]

end offset_claims

section bounds_warning_claims
variable {K : Type} [LinearOrderedField K]

/-- The messages of CalculateBrushBounds depend on the component 0 (x) of the
bounds only: the out-of-range warning is printed exactly when the x range of
the bounds reaches the world extent, and the warning about no visible sides
exactly when the x range lies beyond it; the y and z ranges are not looked
at. -/
theorem CalculateBrushBounds_warnings_spec (opts : qbsp_options_t K) (ob : mapbrush_t K) :
    (∀ msg ∈ CalculateBrushBounds_warnings opts ob,
      msg = "WARNING: brush bounds out of range" ∨ msg = "WARNING: no visible sides on brush") ∧
    ("WARNING: brush bounds out of range" ∈ CalculateBrushBounds_warnings opts ob ↔
      (ob.bounds.mins.x ≤ -opts.worldextent ∨ ob.bounds.maxs.x ≥ opts.worldextent)) ∧
    ("WARNING: no visible sides on brush" ∈ CalculateBrushBounds_warnings opts ob ↔
      (ob.bounds.mins.x ≥ opts.worldextent ∨ ob.bounds.maxs.x ≤ -opts.worldextent)) := by
  have hx1 : ob.bounds.mins.get 0 = ob.bounds.mins.x := rfl
  have hx2 : ob.bounds.maxs.get 0 = ob.bounds.maxs.x := rfl
  unfold CalculateBrushBounds_warnings
  rw [hx1, hx2]
  have hne : ("WARNING: brush bounds out of range" : String) ≠
      "WARNING: no visible sides on brush" := by decide
  refine ⟨?_, ?_, ?_⟩
  · intro msg hmsg
    simp only [List.mem_flatMap, List.mem_append] at hmsg
    obtain ⟨_, _, h | h⟩ := hmsg
    · split_ifs at h
      · left
        simpa using h
      · simp at h
    · split_ifs at h
      · right
        simpa using h
      · simp at h
  · constructor
    · intro h
      simp only [List.mem_flatMap, List.mem_append] at h
      obtain ⟨_, _, h | h⟩ := h
      · split_ifs at h with hc
        · exact hc
        · simp at h
      · split_ifs at h
        · simp only [List.mem_singleton] at h
          exact absurd h hne
        · simp at h
    · intro hc
      simp only [List.mem_flatMap, List.mem_append]
      refine ⟨0, by simp, Or.inl ?_⟩
      rw [if_pos hc]
      simp
  · constructor
    · intro h
      simp only [List.mem_flatMap, List.mem_append] at h
      obtain ⟨_, _, h | h⟩ := h
      · split_ifs at h
        · simp only [List.mem_singleton] at h
          exact absurd h.symm hne
        · simp at h
      · split_ifs at h with hc
        · exact hc
        · simp at h
    · intro hc
      simp only [List.mem_flatMap, List.mem_append]
      refine ⟨0, by simp, Or.inr ?_⟩
      rw [if_pos hc]
      simp

/-- C31 (the code at the failing input): the brush is the box from -1 to 1 along
x and y and from 70000 to 70002 along z, and the world extent is 65536.
CalculateBrushBounds stores the windings and the bounds of the box; its z range
lies entirely beyond the world extent, but no warning is printed, neither the
one about bounds out of range nor the one about no visible sides. -/
theorem CalculateBrushBounds_far_box_silent :
    (qbsp_options_t.sample : qbsp_options_t ℝ).worldextent = 65536 ∧
    (CalculateBrushBounds qbsp_env.sample_far_box qbsp_options_t.sample
      (far_box_planes : List (qplane3 ℝ)) far_box_brush).1.bounds =
        ⟨⟨-1, -1, 70000⟩, ⟨1, 1, 70002⟩⟩ ∧
    ((CalculateBrushBounds qbsp_env.sample_far_box qbsp_options_t.sample
      (far_box_planes : List (qplane3 ℝ)) far_box_brush).1.faces.map fun f => f.winding) =
      [[⟨1, -1, 70000⟩, ⟨1, 1, 70000⟩, ⟨1, 1, 70002⟩, ⟨1, -1, 70002⟩],
       [⟨-1, -1, 70000⟩, ⟨-1, 1, 70000⟩, ⟨-1, 1, 70002⟩, ⟨-1, -1, 70002⟩],
       [⟨-1, 1, 70000⟩, ⟨1, 1, 70000⟩, ⟨1, 1, 70002⟩, ⟨-1, 1, 70002⟩],
       [⟨-1, -1, 70000⟩, ⟨1, -1, 70000⟩, ⟨1, -1, 70002⟩, ⟨-1, -1, 70002⟩],
       [⟨-1, -1, 70002⟩, ⟨1, -1, 70002⟩, ⟨1, 1, 70002⟩, ⟨-1, 1, 70002⟩],
       [⟨-1, -1, 70000⟩, ⟨1, -1, 70000⟩, ⟨1, 1, 70000⟩, ⟨-1, 1, 70000⟩]] ∧
    (CalculateBrushBounds qbsp_env.sample_far_box qbsp_options_t.sample
      (far_box_planes : List (qplane3 ℝ)) far_box_brush).1.bounds.mins.z ≥
        (qbsp_options_t.sample : qbsp_options_t ℝ).worldextent ∧
    (CalculateBrushBounds qbsp_env.sample_far_box qbsp_options_t.sample
      (far_box_planes : List (qplane3 ℝ)) far_box_brush).2 = [] := by
  have hb : (CalculateBrushBounds qbsp_env.sample_far_box qbsp_options_t.sample
      (far_box_planes : List (qplane3 ℝ)) far_box_brush).1 =
      { (far_box_brush : mapbrush_t ℝ) with
        bounds := ⟨⟨-1, -1, 70000⟩, ⟨1, 1, 70002⟩⟩
        faces := [
          { (cube_face 0 : mapface_t ℝ) with
            winding := [⟨1, -1, 70000⟩, ⟨1, 1, 70000⟩, ⟨1, 1, 70002⟩, ⟨1, -1, 70002⟩] },
          { (cube_face 2 : mapface_t ℝ) with
            winding := [⟨-1, -1, 70000⟩, ⟨-1, 1, 70000⟩, ⟨-1, 1, 70002⟩, ⟨-1, -1, 70002⟩] },
          { (cube_face 4 : mapface_t ℝ) with
            winding := [⟨-1, 1, 70000⟩, ⟨1, 1, 70000⟩, ⟨1, 1, 70002⟩, ⟨-1, 1, 70002⟩] },
          { (cube_face 6 : mapface_t ℝ) with
            winding := [⟨-1, -1, 70000⟩, ⟨1, -1, 70000⟩, ⟨1, -1, 70002⟩, ⟨-1, -1, 70002⟩] },
          { (cube_face 8 : mapface_t ℝ) with
            winding := [⟨-1, -1, 70002⟩, ⟨1, -1, 70002⟩, ⟨1, 1, 70002⟩, ⟨-1, 1, 70002⟩] },
          { (cube_face 10 : mapface_t ℝ) with
            winding := [⟨-1, -1, 70000⟩, ⟨1, -1, 70000⟩, ⟨1, 1, 70000⟩, ⟨-1, 1, 70000⟩] }] } := by
    norm_num [CalculateBrushBounds, CalculateBrushBounds_face, CalculateBrushBounds_clip,
      qbsp_env.sample_far_box, qbsp_env.sample, far_box_planes, far_box_brush,
      cube_face, far_box_winding, mapface_t.get_plane, get_plane, aabb3.add_point,
      List.range, List.range.loop, mapbrush_t.default, mapface_t.default]
  have hlog : (CalculateBrushBounds qbsp_env.sample_far_box qbsp_options_t.sample
      (far_box_planes : List (qplane3 ℝ)) far_box_brush).2 =
      CalculateBrushBounds_warnings qbsp_options_t.sample
        (CalculateBrushBounds qbsp_env.sample_far_box qbsp_options_t.sample
          (far_box_planes : List (qplane3 ℝ)) far_box_brush).1 := rfl
  rw [hlog, hb]
  refine ⟨rfl, rfl, rfl, ?_, ?_⟩
  · norm_num [qbsp_options_t.sample]
  · norm_num [CalculateBrushBounds_warnings, qbsp_options_t.sample, qvec3.get]

end bounds_warning_claims

section extents_claims
variable {K : Type} [LinearOrderedField K]

end extents_claims

section quark_solve_claims
variable {K : Type} [LinearOrderedField K]

/-- What SetTexinfo_QuArK computes: for plane points whose determinant
a * d - b * c is not below ZERO_EPSILON in absolute value, the first texture
axis out0 written by SetTexinfo_QuArK and the negated second axis -out1 solve
the linear system of the comment,
a * out0 + b * (-out1) = v0 and c * out0 + d * (-out1) = v1, where v0, v1 are
the point differences divided by 128 and a = v0.v0, b = c = v0.v1, d = v1.v1;
and the shifts give planepts[0] the texture coordinates (0, 0). -/
theorem SetTexinfo_QuArK_solves (env : qbsp_env K) (planepts : planepts_t K) (type2 : Bool)
    (heps : 0 < env.ZERO_EPSILON)
    (hdet : ¬ |SetTexinfo_QuArK_determinant planepts type2| < env.ZERO_EPSILON) :
    ((SetTexinfo_QuArK env planepts type2).row0.xyz.scale
        (qv.dot (SetTexinfo_QuArK_vecs planepts type2).1 (SetTexinfo_QuArK_vecs planepts type2).1)).add
      ((SetTexinfo_QuArK env planepts type2).row1.xyz.neg.scale
        (qv.dot (SetTexinfo_QuArK_vecs planepts type2).1 (SetTexinfo_QuArK_vecs planepts type2).2)) =
      (SetTexinfo_QuArK_vecs planepts type2).1 ∧
    ((SetTexinfo_QuArK env planepts type2).row0.xyz.scale
        (qv.dot (SetTexinfo_QuArK_vecs planepts type2).1 (SetTexinfo_QuArK_vecs planepts type2).2)).add
      ((SetTexinfo_QuArK env planepts type2).row1.xyz.neg.scale
        (qv.dot (SetTexinfo_QuArK_vecs planepts type2).2 (SetTexinfo_QuArK_vecs planepts type2).2)) =
      (SetTexinfo_QuArK_vecs planepts type2).2 ∧
    (SetTexinfo_QuArK env planepts type2).texcoords planepts.p0 = ⟨0, 0⟩ := by
  have hne : SetTexinfo_QuArK_determinant planepts type2 ≠ 0 := by
    intro h0
    rw [h0, abs_zero] at hdet
    exact hdet heps
  generalize hv : SetTexinfo_QuArK_vecs planepts type2 = vecs at hne hdet ⊢
  have hdet2 : ¬ |qv.dot vecs.1 vecs.1 * qv.dot vecs.2 vecs.2 -
      qv.dot vecs.1 vecs.2 * qv.dot vecs.1 vecs.2| < env.ZERO_EPSILON := by
    have : SetTexinfo_QuArK_determinant planepts type2 =
        qv.dot vecs.1 vecs.1 * qv.dot vecs.2 vecs.2 -
          qv.dot vecs.1 vecs.2 * qv.dot vecs.1 vecs.2 := by
      unfold SetTexinfo_QuArK_determinant
      rw [hv]
    rw [← this]
    exact hdet
  have hne2 : qv.dot vecs.1 vecs.1 * qv.dot vecs.2 vecs.2 -
      qv.dot vecs.1 vecs.2 * qv.dot vecs.1 vecs.2 ≠ 0 := by
    intro h0
    rw [h0, abs_zero] at hdet2
    exact hdet2 heps
  have hq : SetTexinfo_QuArK env planepts type2 =
      { row0 := ⟨(qv.dot vecs.2 vecs.2 * vecs.1.x - qv.dot vecs.1 vecs.2 * vecs.2.x) /
            (qv.dot vecs.1 vecs.1 * qv.dot vecs.2 vecs.2 -
              qv.dot vecs.1 vecs.2 * qv.dot vecs.1 vecs.2),
          (qv.dot vecs.2 vecs.2 * vecs.1.y - qv.dot vecs.1 vecs.2 * vecs.2.y) /
            (qv.dot vecs.1 vecs.1 * qv.dot vecs.2 vecs.2 -
              qv.dot vecs.1 vecs.2 * qv.dot vecs.1 vecs.2),
          (qv.dot vecs.2 vecs.2 * vecs.1.z - qv.dot vecs.1 vecs.2 * vecs.2.z) /
            (qv.dot vecs.1 vecs.1 * qv.dot vecs.2 vecs.2 -
              qv.dot vecs.1 vecs.2 * qv.dot vecs.1 vecs.2),
          -qv.dot ⟨(qv.dot vecs.2 vecs.2 * vecs.1.x - qv.dot vecs.1 vecs.2 * vecs.2.x) /
            (qv.dot vecs.1 vecs.1 * qv.dot vecs.2 vecs.2 -
              qv.dot vecs.1 vecs.2 * qv.dot vecs.1 vecs.2),
          (qv.dot vecs.2 vecs.2 * vecs.1.y - qv.dot vecs.1 vecs.2 * vecs.2.y) /
            (qv.dot vecs.1 vecs.1 * qv.dot vecs.2 vecs.2 -
              qv.dot vecs.1 vecs.2 * qv.dot vecs.1 vecs.2),
          (qv.dot vecs.2 vecs.2 * vecs.1.z - qv.dot vecs.1 vecs.2 * vecs.2.z) /
            (qv.dot vecs.1 vecs.1 * qv.dot vecs.2 vecs.2 -
              qv.dot vecs.1 vecs.2 * qv.dot vecs.1 vecs.2)⟩ planepts.p0⟩
        row1 := ⟨-(qv.dot vecs.1 vecs.1 * vecs.2.x - qv.dot vecs.1 vecs.2 * vecs.1.x) /
            (qv.dot vecs.1 vecs.1 * qv.dot vecs.2 vecs.2 -
              qv.dot vecs.1 vecs.2 * qv.dot vecs.1 vecs.2),
          -(qv.dot vecs.1 vecs.1 * vecs.2.y - qv.dot vecs.1 vecs.2 * vecs.1.y) /
            (qv.dot vecs.1 vecs.1 * qv.dot vecs.2 vecs.2 -
              qv.dot vecs.1 vecs.2 * qv.dot vecs.1 vecs.2),
          -(qv.dot vecs.1 vecs.1 * vecs.2.z - qv.dot vecs.1 vecs.2 * vecs.1.z) /
            (qv.dot vecs.1 vecs.1 * qv.dot vecs.2 vecs.2 -
              qv.dot vecs.1 vecs.2 * qv.dot vecs.1 vecs.2),
          -qv.dot ⟨-(qv.dot vecs.1 vecs.1 * vecs.2.x - qv.dot vecs.1 vecs.2 * vecs.1.x) /
            (qv.dot vecs.1 vecs.1 * qv.dot vecs.2 vecs.2 -
              qv.dot vecs.1 vecs.2 * qv.dot vecs.1 vecs.2),
          -(qv.dot vecs.1 vecs.1 * vecs.2.y - qv.dot vecs.1 vecs.2 * vecs.1.y) /
            (qv.dot vecs.1 vecs.1 * qv.dot vecs.2 vecs.2 -
              qv.dot vecs.1 vecs.2 * qv.dot vecs.1 vecs.2),
          -(qv.dot vecs.1 vecs.1 * vecs.2.z - qv.dot vecs.1 vecs.2 * vecs.1.z) /
            (qv.dot vecs.1 vecs.1 * qv.dot vecs.2 vecs.2 -
              qv.dot vecs.1 vecs.2 * qv.dot vecs.1 vecs.2)⟩ planepts.p0⟩ } := by
    rw [← hv] at hdet2 ⊢
    unfold SetTexinfo_QuArK_vecs at hdet2 ⊢
    dsimp only at hdet2 ⊢
    unfold SetTexinfo_QuArK
    dsimp only
    simp only [if_neg hdet2]
  rw [hq]
  generalize qv.dot vecs.1 vecs.1 = a at hne2 ⊢
  generalize qv.dot vecs.1 vecs.2 = b at hne2 ⊢
  generalize qv.dot vecs.2 vecs.2 = d at hne2 ⊢
  obtain ⟨⟨x0, y0, z0⟩, ⟨x1, y1, z1⟩⟩ := vecs
  refine ⟨?_, ?_, ?_⟩
  · simp only [qvec4.xyz, qvec3.scale, qvec3.add, qvec3.neg, qvec3.mk.injEq]
    refine ⟨?_, ?_, ?_⟩ <;> field_simp <;> ring
  · simp only [qvec4.xyz, qvec3.scale, qvec3.add, qvec3.neg, qvec3.mk.injEq]
    refine ⟨?_, ?_, ?_⟩ <;> field_simp <;> ring
  · simp only [texvecf.texcoords, qvec4.xyz, qv.dot, qvec2.mk.injEq]
    constructor <;> ring

/-- C33 (the code at the failing input): the plane points (0,0,0), (0,128,0),
(128,0,0) with style TX_QUARK_TYPE1.  The texture-plane vectors are
v0 = (1, 0, 0) and v1 = (0, 1, 0), so a = d = 1, b = c = 0 and the determinant
is 1.  SetTexinfo_QuArK writes out0 = (1, 0, 0) and out1 = (0, -1, 0): the
first equation of the comment of the code holds, but c * out0 + d * out1 is
(0, -1, 0), the negation of v1, so the axes written do not solve the system
that the comment states for them. -/
theorem SetTexinfo_QuArK_second_axis_negated :
    SetTexinfo_QuArK_vecs (quark_example_pts : planepts_t ℝ) false = (⟨1, 0, 0⟩, ⟨0, 1, 0⟩) ∧
    ¬ |SetTexinfo_QuArK_determinant (quark_example_pts : planepts_t ℝ) false| <
      (qbsp_env.sample : qbsp_env ℝ).ZERO_EPSILON ∧
    SetTexinfo_QuArK (qbsp_env.sample : qbsp_env ℝ) quark_example_pts false =
      ⟨⟨1, 0, 0, 0⟩, ⟨0, -1, 0, 0⟩⟩ ∧
    ((SetTexinfo_QuArK (qbsp_env.sample : qbsp_env ℝ) quark_example_pts false).row0.xyz.scale
        (qv.dot (SetTexinfo_QuArK_vecs (quark_example_pts : planepts_t ℝ) false).1
          (SetTexinfo_QuArK_vecs (quark_example_pts : planepts_t ℝ) false).1)).add
      ((SetTexinfo_QuArK (qbsp_env.sample : qbsp_env ℝ) quark_example_pts false).row1.xyz.scale
        (qv.dot (SetTexinfo_QuArK_vecs (quark_example_pts : planepts_t ℝ) false).1
          (SetTexinfo_QuArK_vecs (quark_example_pts : planepts_t ℝ) false).2)) =
      (SetTexinfo_QuArK_vecs (quark_example_pts : planepts_t ℝ) false).1 ∧
    ((SetTexinfo_QuArK (qbsp_env.sample : qbsp_env ℝ) quark_example_pts false).row0.xyz.scale
        (qv.dot (SetTexinfo_QuArK_vecs (quark_example_pts : planepts_t ℝ) false).1
          (SetTexinfo_QuArK_vecs (quark_example_pts : planepts_t ℝ) false).2)).add
      ((SetTexinfo_QuArK (qbsp_env.sample : qbsp_env ℝ) quark_example_pts false).row1.xyz.scale
        (qv.dot (SetTexinfo_QuArK_vecs (quark_example_pts : planepts_t ℝ) false).2
          (SetTexinfo_QuArK_vecs (quark_example_pts : planepts_t ℝ) false).2)) =
      ⟨0, -1, 0⟩ ∧
    ((SetTexinfo_QuArK (qbsp_env.sample : qbsp_env ℝ) quark_example_pts false).row0.xyz.scale
        (qv.dot (SetTexinfo_QuArK_vecs (quark_example_pts : planepts_t ℝ) false).1
          (SetTexinfo_QuArK_vecs (quark_example_pts : planepts_t ℝ) false).2)).add
      ((SetTexinfo_QuArK (qbsp_env.sample : qbsp_env ℝ) quark_example_pts false).row1.xyz.scale
        (qv.dot (SetTexinfo_QuArK_vecs (quark_example_pts : planepts_t ℝ) false).2
          (SetTexinfo_QuArK_vecs (quark_example_pts : planepts_t ℝ) false).2)) ≠
      (SetTexinfo_QuArK_vecs (quark_example_pts : planepts_t ℝ) false).2 := by
  have hv : SetTexinfo_QuArK_vecs (quark_example_pts : planepts_t ℝ) false =
      (⟨1, 0, 0⟩, ⟨0, 1, 0⟩) := by
    norm_num [SetTexinfo_QuArK_vecs, quark_example_pts, qvec3.sub, qvec3.scale]
  have hq : SetTexinfo_QuArK (qbsp_env.sample : qbsp_env ℝ) quark_example_pts false =
      ⟨⟨1, 0, 0, 0⟩, ⟨0, -1, 0, 0⟩⟩ := by
    norm_num [SetTexinfo_QuArK, quark_example_pts, qvec3.sub, qvec3.scale, qv.dot,
      qbsp_env.sample, qvec3.zero]
  have hd : SetTexinfo_QuArK_determinant (quark_example_pts : planepts_t ℝ) false = 1 := by
    unfold SetTexinfo_QuArK_determinant
    rw [hv]
    norm_num [qv.dot]
  rw [hv, hq, hd]
  refine ⟨rfl, ?_, rfl, ?_, ?_, ?_⟩
  · norm_num [qbsp_env.sample]
  · norm_num [qvec4.xyz, qvec3.scale, qvec3.add, qv.dot]
  · norm_num [qvec4.xyz, qvec3.scale, qvec3.add, qv.dot]
  · norm_num [qvec4.xyz, qvec3.scale, qvec3.add, qv.dot]

theorem SetTexinfo_QuArK_solves_witness :
    (0 : ℝ) < (qbsp_env.sample : qbsp_env ℝ).ZERO_EPSILON ∧
    ¬ |SetTexinfo_QuArK_determinant (quark_example_pts : planepts_t ℝ) false| <
      (qbsp_env.sample : qbsp_env ℝ).ZERO_EPSILON ∧
    (SetTexinfo_QuArK (qbsp_env.sample : qbsp_env ℝ) quark_example_pts false).texcoords
      (quark_example_pts : planepts_t ℝ).p0 = ⟨0, 0⟩ := by
  have h0 : (0 : ℝ) < (qbsp_env.sample : qbsp_env ℝ).ZERO_EPSILON := by
    norm_num [qbsp_env.sample]
  have hd : ¬ |SetTexinfo_QuArK_determinant (quark_example_pts : planepts_t ℝ) false| <
      (qbsp_env.sample : qbsp_env ℝ).ZERO_EPSILON := by
    norm_num [SetTexinfo_QuArK_determinant, SetTexinfo_QuArK_vecs, quark_example_pts,
      qvec3.sub, qvec3.scale, qv.dot, qbsp_env.sample]
  exact ⟨h0, hd, (SetTexinfo_QuArK_solves qbsp_env.sample quark_example_pts false h0 hd).2.2⟩

end quark_solve_claims

section valve_decode_claims
variable {K : Type} [LinearOrderedField K]

/-- One row of TexDef_BSPToValve: for a length other than zero the axis is the
row divided by its length and the scale is 1 / length, and for the length zero
the axis is the row as it is and the scale is 0, with no division. -/
theorem TexDef_BSPToValve_row_cases (m : libm K) (row : qvec4 K) :
    (qv.length m row.xyz ≠ 0 →
      TexDef_BSPToValve_row m row =
        (row.xyz.div (qv.length m row.xyz), 1 / qv.length m row.xyz, row.w)) ∧
    (qv.length m row.xyz = 0 → TexDef_BSPToValve_row m row = (row.xyz, 0, row.w)) := by
  unfold TexDef_BSPToValve_row qv.normalize
  dsimp only
  constructor
  · intro h
    rw [if_neg h, if_pos h]
  · intro h
    rw [if_pos h, if_neg (not_not.mpr h)]

/-- One row of TexDef_BSPToValve for a row whose axis part is not zero: the
axis returned has length 1, the scale is the reciprocal of the length of the
row, which is not zero, and dividing the axis by the scale gives the row
back. -/
theorem TexDef_BSPToValve_row_decode {m : libm K} (hm : m.SqrtExact) (row : qvec4 K)
    (h : row.xyz ≠ qvec3.zero) :
    qv.length m row.xyz ≠ 0 ∧
    qv.length m (TexDef_BSPToValve_row m row).1 = 1 ∧
    (TexDef_BSPToValve_row m row).2.1 = 1 / qv.length m row.xyz ∧
    (TexDef_BSPToValve_row m row).2.2 = row.w ∧
    (⟨(TexDef_BSPToValve_row m row).1.x / (TexDef_BSPToValve_row m row).2.1,
      (TexDef_BSPToValve_row m row).1.y / (TexDef_BSPToValve_row m row).2.1,
      (TexDef_BSPToValve_row m row).1.z / (TexDef_BSPToValve_row m row).2.1,
      (TexDef_BSPToValve_row m row).2.2⟩ : qvec4 K) = row := by
  have hL : 0 < qv.length m row.xyz := qv.length_pos hm h
  have hne : qv.length m row.xyz ≠ 0 := ne_of_gt hL
  have hunit := qv.normalize_dot_self hm h
  have hrow := (TexDef_BSPToValve_row_cases m row).1 hne
  have haxis : (TexDef_BSPToValve_row m row).1 = (qv.normalize m row.xyz).2 := rfl
  refine ⟨hne, ?_, ?_, ?_, ?_⟩
  · rw [haxis]
    unfold qv.length
    rw [hunit]
    exact libm.sqrt_one hm
  · rw [hrow]
  · rfl
  · rw [hrow]
    obtain ⟨x, y, z, w⟩ := row
    simp only [qvec3.div, qvec4.xyz] at hne ⊢
    simp only [qvec4.mk.injEq]
    refine ⟨?_, ?_, ?_, trivial⟩ <;> field_simp

/-- C34: TexDef_BSPToValve on texture vectors, with an exact square root.  When
both axis rows are not zero, the axes returned have length 1, the scales are
the reciprocals of the lengths of the rows, the shifts are the fourth
components, and SetTexinfo_Valve220 applied to the result writes the texture
vectors again.  In each row, a length other than zero is the only divisor, and
for the length zero (which the zero row has) the scale returned is 0 and the
axis is the row as it is, with no division. -/
theorem TexDef_BSPToValve_spec (m : libm K) (hm : m.SqrtExact) (in_vecs : texvecf K) :
    (in_vecs.row0.xyz ≠ qvec3.zero → in_vecs.row1.xyz ≠ qvec3.zero →
      qv.length m (TexDef_BSPToValve m in_vecs).axis.row0 = 1 ∧
      qv.length m (TexDef_BSPToValve m in_vecs).axis.row1 = 1 ∧
      (TexDef_BSPToValve m in_vecs).scale.x = 1 / qv.length m in_vecs.row0.xyz ∧
      (TexDef_BSPToValve m in_vecs).scale.y = 1 / qv.length m in_vecs.row1.xyz ∧
      (TexDef_BSPToValve m in_vecs).shift = ⟨in_vecs.row0.w, in_vecs.row1.w⟩ ∧
      SetTexinfo_Valve220 (TexDef_BSPToValve m in_vecs).axis (TexDef_BSPToValve m in_vecs).shift
        (TexDef_BSPToValve m in_vecs).scale = in_vecs) ∧
    (∀ row : qvec4 K,
      (qv.length m row.xyz ≠ 0 →
        TexDef_BSPToValve_row m row =
          (row.xyz.div (qv.length m row.xyz), 1 / qv.length m row.xyz, row.w)) ∧
      (qv.length m row.xyz = 0 → TexDef_BSPToValve_row m row = (row.xyz, 0, row.w)) ∧
      (row.xyz = qvec3.zero → qv.length m row.xyz = 0) ∧
      (row.xyz ≠ qvec3.zero → qv.length m row.xyz ≠ 0)) ∧
    (TexDef_BSPToValve m in_vecs).axis =
      ⟨(TexDef_BSPToValve_row m in_vecs.row0).1, (TexDef_BSPToValve_row m in_vecs.row1).1⟩ ∧
    (TexDef_BSPToValve m in_vecs).scale =
      ⟨(TexDef_BSPToValve_row m in_vecs.row0).2.1, (TexDef_BSPToValve_row m in_vecs.row1).2.1⟩ := by
  refine ⟨?_, ?_, rfl, rfl⟩
  · intro h0 h1
    obtain ⟨-, a1, a2, a3, a4⟩ := TexDef_BSPToValve_row_decode hm in_vecs.row0 h0
    obtain ⟨-, b1, b2, b3, b4⟩ := TexDef_BSPToValve_row_decode hm in_vecs.row1 h1
    refine ⟨a1, b1, a2, b2, rfl, ?_⟩
    unfold SetTexinfo_Valve220 TexDef_BSPToValve
    dsimp only
    rw [a4, b4]
  · intro row
    refine ⟨(TexDef_BSPToValve_row_cases m row).1, (TexDef_BSPToValve_row_cases m row).2, ?_, ?_⟩
    · intro h
      rw [h]
      exact qv.length_zero hm
    · intro h
      exact ne_of_gt (qv.length_pos hm h)

theorem TexDef_BSPToValve_spec_witness :
    libm.real.SqrtExact ∧
    (valve_example_vecs : texvecf ℝ).row0.xyz ≠ qvec3.zero ∧
    (valve_example_vecs : texvecf ℝ).row1.xyz ≠ qvec3.zero ∧
    SetTexinfo_Valve220 (TexDef_BSPToValve libm.real valve_example_vecs).axis
      (TexDef_BSPToValve libm.real valve_example_vecs).shift
      (TexDef_BSPToValve libm.real valve_example_vecs).scale = valve_example_vecs := by
  have h0 : (valve_example_vecs : texvecf ℝ).row0.xyz ≠ qvec3.zero := by
    intro h
    have := congrArg qvec3.x h
    norm_num [valve_example_vecs, qvec4.xyz, qvec3.zero] at this
  have h1 : (valve_example_vecs : texvecf ℝ).row1.xyz ≠ qvec3.zero := by
    intro h
    have := congrArg qvec3.z h
    norm_num [valve_example_vecs, qvec4.xyz, qvec3.zero] at this
  exact ⟨libm.real_sqrtExact, h0, h1,
    ((TexDef_BSPToValve_spec libm.real libm.real_sqrtExact valve_example_vecs).1 h0 h1).2.2.2.2.2⟩

end valve_decode_claims

section shear_claims
variable {K : Type} [LinearOrderedField K]

theorem qv2.normalize_zero_vec {m : libm K} (hm : m.SqrtExact) :
    qv2.normalize m (⟨0, 0⟩ : qvec2 K) = ⟨0, 0⟩ := by
  unfold qv2.normalize
  dsimp only
  have : m.sqrt (qv2.dot (⟨0, 0⟩ : qvec2 K) ⟨0, 0⟩) = 0 := by
    apply libm.sqrt_eq hm (le_refl _)
    simp [qv2.dot]
  rw [if_pos this]

/-- The step "turn 90 degrees" and "scalar projection" of the shear correction
of Reverse_QuakeEd, for either sense of rotation: the vector X is replaced by
X minus its component along Y. -/
theorem Reverse_QuakeEd_shear_project {m : libm K} (hm : m.SqrtExact) (X Y : qvec2 K)
    (hY : Y ≠ ⟨0, 0⟩) (s : K) (hs : s = -1 ∨ s = 1) :
    (qv2.normalize m ⟨(qv.cross ⟨0, 0, s⟩ ⟨Y.x, Y.y, 0⟩).x,
        (qv.cross ⟨0, 0, s⟩ ⟨Y.x, Y.y, 0⟩).y⟩).scale
      (qv2.dot X (qv2.normalize m ⟨(qv.cross ⟨0, 0, s⟩ ⟨Y.x, Y.y, 0⟩).x,
        (qv.cross ⟨0, 0, s⟩ ⟨Y.x, Y.y, 0⟩).y⟩)) =
      X.sub (Y.scale (qv2.dot X Y / qv2.dot Y Y)) := by
  obtain ⟨x1, x2⟩ := X
  obtain ⟨y1, y2⟩ := Y
  have hpos : 0 < y1 * y1 + y2 * y2 := by
    rcases lt_or_eq_of_le (add_nonneg (mul_self_nonneg y1) (mul_self_nonneg y2)) with h | h
    · exact h
    · exfalso
      apply hY
      have h1 : y1 = 0 := by nlinarith [mul_self_nonneg y1, mul_self_nonneg y2]
      have h2 : y2 = 0 := by nlinarith [mul_self_nonneg y1, mul_self_nonneg y2]
      rw [h1, h2]
  obtain ⟨hL0, hLL⟩ := hm (y1 * y1 + y2 * y2) (le_of_lt hpos)
  have hLne : m.sqrt (y1 * y1 + y2 * y2) ≠ 0 := by
    intro h0
    rw [h0, mul_zero] at hLL
    linarith
  have hss : s * s = 1 := by rcases hs with rfl | rfl <;> norm_num
  have harg : (0 * 0 - s * y2) * (0 * 0 - s * y2) + (s * y1 - 0 * 0) * (s * y1 - 0 * 0) =
      y1 * y1 + y2 * y2 := by
    linear_combination (y1 * y1 + y2 * y2) * hss
  simp only [qv.cross, qv2.normalize, qv2.dot, harg, if_neg hLne, qvec2.scale, qvec2.sub,
    qvec2.mk.injEq, div_eq_mul_inv]
  have hne2 : y1 * y1 + y2 * y2 ≠ 0 := ne_of_gt hpos
  have hu : (m.sqrt (y1 * y1 + y2 * y2))⁻¹ * (m.sqrt (y1 * y1 + y2 * y2))⁻¹ =
      (y1 * y1 + y2 * y2)⁻¹ := by
    rw [← mul_inv, hLL]
  have hw : (y1 * y1 + y2 * y2)⁻¹ * (y1 * y1 + y2 * y2) = 1 := inv_mul_cancel₀ hne2
  generalize (m.sqrt (y1 * y1 + y2 * y2))⁻¹ = u at hu ⊢
  generalize (y1 * y1 + y2 * y2)⁻¹ = w at hu hw ⊢
  constructor
  · linear_combination (u * u * (y2 * (x1 * y2 - x2 * y1))) * hss +
      (y2 * (x1 * y2 - x2 * y1)) * hu + x1 * hw
  · linear_combination (u * u * (y1 * (x2 * y1 - x1 * y2))) * hss +
      (y1 * (x2 * y1 - x1 * y2)) * hu + x2 * hw

theorem qv2.dot_sub_projection (X Y : qvec2 K) (hY : Y ≠ ⟨0, 0⟩) :
    qv2.dot (X.sub (Y.scale (qv2.dot X Y / qv2.dot Y Y))) Y = 0 := by
  obtain ⟨x1, x2⟩ := X
  obtain ⟨y1, y2⟩ := Y
  have hpos : y1 * y1 + y2 * y2 ≠ 0 := by
    intro h
    apply hY
    have h1 : y1 = 0 := by nlinarith [mul_self_nonneg y1, mul_self_nonneg y2]
    have h2 : y2 = 0 := by nlinarith [mul_self_nonneg y1, mul_self_nonneg y2]
    rw [h1, h2]
  simp only [qv2.dot, qvec2.sub, qvec2.scale]
  field_simp
  ring

/-- A non-zero cosine between the normalised rows means that neither row is
zero. -/
theorem qv2.ne_zero_of_cos {m : libm K} (hm : m.SqrtExact) (X Y : qvec2 K)
    (h : qv2.dot (qv2.normalize m X) (qv2.normalize m Y) ≠ 0) : X ≠ ⟨0, 0⟩ ∧ Y ≠ ⟨0, 0⟩ := by
  constructor
  · intro h0
    apply h
    rw [h0, qv2.normalize_zero_vec hm]
    simp [qv2.dot]
  · intro h0
    apply h
    rw [h0, qv2.normalize_zero_vec hm]
    simp [qv2.dot]

/-- The shear correction of Reverse_QuakeEd on a matrix with shear: the row to
preserve is kept, the other row is replaced by itself minus its component
along the row kept, and the recheck passes. -/
theorem Reverse_QuakeEd_shear_corrects (env : qbsp_env K) {m : libm K} (hm : m.SqrtExact)
    (M : qmat2x2 K)
    (hcos : |qv2.dot (qv2.normalize m (M.row 0)) (qv2.normalize m (M.row 1))| > 1 / 1000) :
    Reverse_QuakeEd_shear env m M false =
      some { m00 := ((M.row 0).sub ((M.row 1).scale
                (qv2.dot (M.row 0) (M.row 1) / qv2.dot (M.row 1) (M.row 1)))).x
             m01 := ((M.row 0).sub ((M.row 1).scale
                (qv2.dot (M.row 0) (M.row 1) / qv2.dot (M.row 1) (M.row 1)))).y
             m10 := (M.row 1).x, m11 := (M.row 1).y } ∧
    Reverse_QuakeEd_shear env m M true =
      some { m00 := (M.row 0).x, m01 := (M.row 0).y
             m10 := ((M.row 1).sub ((M.row 0).scale
                (qv2.dot (M.row 1) (M.row 0) / qv2.dot (M.row 0) (M.row 0)))).x
             m11 := ((M.row 1).sub ((M.row 0).scale
                (qv2.dot (M.row 1) (M.row 0) / qv2.dot (M.row 0) (M.row 0)))).y } := by
  have hne : qv2.dot (qv2.normalize m (M.row 0)) (qv2.normalize m (M.row 1)) ≠ 0 := by
    intro h0
    rw [h0, abs_zero] at hcos
    norm_num at hcos
  obtain ⟨hX, hY⟩ := qv2.ne_zero_of_cos hm _ _ hne
  have hs : ∀ c : Bool, (if c = true then (-1 : K) else 1) = -1 ∨
      (if c = true then (-1 : K) else 1) = 1 := by
    intro c
    cases c
    · right
      simp
    · left
      simp
  constructor
  · unfold Reverse_QuakeEd_shear
    dsimp only
    rw [if_pos hcos]
    simp only [Bool.false_eq_true, if_false]
    rw [Reverse_QuakeEd_shear_project hm (M.row 0) (M.row 1) hY _ (hs _)]
    have h0 := qv2.dot_sub_projection (M.row 0) (M.row 1) hY
    rw [qv2.dot_normalize_zero m _ _ h0, abs_zero, if_neg (by norm_num)]
  · unfold Reverse_QuakeEd_shear
    dsimp only
    rw [if_pos hcos]
    simp only [if_true]
    rw [Reverse_QuakeEd_shear_project hm (M.row 1) (M.row 0) hX _ (hs _)]
    have h0 := qv2.dot_sub_projection (M.row 1) (M.row 0) hX
    have h1 : qv2.dot (M.row 0) ((M.row 1).sub ((M.row 0).scale
        (qv2.dot (M.row 1) (M.row 0) / qv2.dot (M.row 0) (M.row 0)))) = 0 := by
      rw [← h0]
      simp only [qv2.dot]
      ring
    rw [qv2.dot_normalize_zero m _ _ h1, abs_zero, if_neg (by norm_num)]

/-- C35: the shear correction of Reverse_QuakeEd with an exact square root, on
a matrix M whose normalised rows X and Y have a cosine of magnitude above
0.001 (both rows are then not zero).  With preserveX = false the correction
returns a matrix: its row Y is that of M, its row X is X minus the component
of X along Y, (X . Y / Y . Y) Y, and the two rows are exactly orthogonal.  The
error "SHEAR correction failed" is not reached, for either value of
preserveX. -/
theorem Reverse_QuakeEd_shear_spec (env : qbsp_env K) (m : libm K) (hm : m.SqrtExact)
    (M : qmat2x2 K)
    (hcos : |qv2.dot (qv2.normalize m (M.row 0)) (qv2.normalize m (M.row 1))| > 1 / 1000) :
    M.row 0 ≠ ⟨0, 0⟩ ∧ M.row 1 ≠ ⟨0, 0⟩ ∧
    (∃ M2 : qmat2x2 K, Reverse_QuakeEd_shear env m M false = some M2 ∧
      M2.row 1 = M.row 1 ∧
      M2.row 0 = (M.row 0).sub ((M.row 1).scale
        (qv2.dot (M.row 0) (M.row 1) / qv2.dot (M.row 1) (M.row 1))) ∧
      qv2.dot (M2.row 0) (M2.row 1) = 0) ∧
    ∀ preserveX, Reverse_QuakeEd_shear env m M preserveX ≠ none := by
  have hne : qv2.dot (qv2.normalize m (M.row 0)) (qv2.normalize m (M.row 1)) ≠ 0 := by
    intro h0
    rw [h0, abs_zero] at hcos
    norm_num at hcos
  obtain ⟨hX, hY⟩ := qv2.ne_zero_of_cos hm _ _ hne
  obtain ⟨h1, h2⟩ := Reverse_QuakeEd_shear_corrects env hm M hcos
  refine ⟨hX, hY, ⟨_, h1, rfl, rfl, ?_⟩, ?_⟩
  · exact qv2.dot_sub_projection (M.row 0) (M.row 1) hY
  · intro p
    cases p
    · rw [h1]
      simp
    · rw [h2]
      simp

theorem Reverse_QuakeEd_shear_spec_witness :
    |qv2.dot (qv2.normalize libm.real ((shear_example : qmat2x2 ℝ).row 0))
      (qv2.normalize libm.real ((shear_example : qmat2x2 ℝ).row 1))| > 1 / 1000 ∧
    Reverse_QuakeEd_shear qbsp_env.sample libm.real (shear_example : qmat2x2 ℝ) false =
      some ⟨1, 0, 0, 2⟩ := by
  have hcos : |qv2.dot (qv2.normalize libm.real ((shear_example : qmat2x2 ℝ).row 0))
      (qv2.normalize libm.real ((shear_example : qmat2x2 ℝ).row 1))| > 1 / 1000 := by
    have h4 : Real.sqrt 4 = 2 := by
      rw [show (4 : ℝ) = 2 ^ 2 by norm_num]
      exact Real.sqrt_sq (by norm_num)
    have h2 : (0 : ℝ) < Real.sqrt 2 := Real.sqrt_pos.mpr (by norm_num)
    have h22 : Real.sqrt 2 * Real.sqrt 2 = 2 := Real.mul_self_sqrt (by norm_num)
    have hlt : Real.sqrt 2 < 2 := by nlinarith
    norm_num [shear_example, qmat2x2.row, qv2.normalize, qv2.dot, libm.real, h4,
      ne_of_gt h2]
    rw [abs_of_pos (by positivity)]
    have hinv : (2 : ℝ)⁻¹ < (Real.sqrt 2)⁻¹ := inv_strictAnti₀ h2 hlt
    have : (1 / 1000 : ℝ) < 2⁻¹ := by norm_num
    exact lt_trans this hinv
  obtain ⟨-, -, ⟨M2, hM2, hr1, hr0, -⟩, -⟩ := Reverse_QuakeEd_shear_spec qbsp_env.sample
    libm.real libm.real_sqrtExact shear_example hcos
  refine ⟨hcos, ?_⟩
  rw [hM2]
  have e0 : M2.row 0 = ⟨1, 0⟩ := by
    rw [hr0]
    norm_num [shear_example, qmat2x2.row, qv2.dot, qvec2.sub, qvec2.scale]
  have e1 : M2.row 1 = ⟨0, 2⟩ := by
    rw [hr1]
    norm_num [shear_example, qmat2x2.row]
  obtain ⟨a, b, c, d⟩ := M2
  simp only [qmat2x2.row, if_true, one_ne_zero, if_false, qvec2.mk.injEq] at e0 e1
  obtain ⟨rfl, rfl⟩ := e0
  obtain ⟨rfl, rfl⟩ := e1
  rfl

end shear_claims

section anim_loop_claims
variable {K : Type} [LinearOrderedField K]

/-- The loop with a bound on its iterations returns what the loop with the two
ways of not returning told apart returns. -/
theorem FindMiptex_q2_loop_eq (load_image_meta : String → Option texture_meta) ( internal : Bool)
    (name : String) (extended_info : extended_texinfo_t) :
    ∀ (fuel : Nat) (miptex : List maptexdata_t) (wal : Option texture_meta) (last_i : Nat),
      FindMiptex_q2_loop load_image_meta internal name extended_info fuel miptex wal last_i =
        (FindMiptex_q2_loop_result load_image_meta internal name extended_info fuel miptex wal
          last_i).toOption := by
  intro fuel
  induction fuel with
  | zero =>
    intro miptex wal last_i
    rfl
  | succ fuel ih =>
    intro miptex wal last_i
    unfold FindMiptex_q2_loop FindMiptex_q2_loop_result
    cases wal with
    | none => rfl
    | some w =>
      dsimp only
      cases h : load_image_meta w.animation with
      | none => rfl
      | some w2 =>
        dsimp only
        split_ifs
        · rfl
        · exact ih _ _ _

/-- On chain_image_meta the loop, once it has the texture table chain_miptex,
goes from the texture B to the texture C and back without end: every bound on
the number of iterations is reached. -/
theorem FindMiptex_q2_loop_cycles :
    ∀ fuel : Nat,
      FindMiptex_q2_loop_result chain_image_meta false "A" { animation := "B" } fuel chain_miptex
        (chain_image_meta "B") 1 = miptex_loop_result.unfinished ∧
      FindMiptex_q2_loop_result chain_image_meta false "A" { animation := "B" } fuel chain_miptex
        (chain_image_meta "C") 2 = miptex_loop_result.unfinished := by
  intro fuel
  induction fuel with
  | zero => exact ⟨rfl, rfl⟩
  | succ fuel ih =>
    have step1 : FindMiptex_q2_loop_result chain_image_meta false "A" { animation := "B" }
        (fuel + 1) chain_miptex (chain_image_meta "B") 1 =
        FindMiptex_q2_loop_result chain_image_meta false "A" { animation := "B" } fuel
          chain_miptex (chain_image_meta "C") 2 := by
      rfl
    have step2 : FindMiptex_q2_loop_result chain_image_meta false "A" { animation := "B" }
        (fuel + 1) chain_miptex (chain_image_meta "C") 2 =
        FindMiptex_q2_loop_result chain_image_meta false "A" { animation := "B" } fuel
          chain_miptex (chain_image_meta "B") 1 := by
      rfl
    rw [step1, step2]
    exact ⟨ih.2, ih.1⟩

/-- C36 (the code at the failing inputs): FindMiptex for Quake II on the empty
texture table and the name "A".  With the metadata chain A -> B -> C -> B,
which never returns to the name "A", the animation loop has all the metadata
it asks for but never breaks: it adds B and C and then goes round between
them, so that every bound on the number of iterations is reached and
FindMiptex does not return.  With metadata in which A names a texture B that
has none, the first iteration reads through the empty result of
load_image_meta, and FindMiptex does not return either.  For the chain
A -> B -> A, which closes, FindMiptex returns after two iterations with the
two textures linked to each other. -/
theorem FindMiptex_chain_never_closes :
    (∀ fuel : Nat,
      FindMiptex_q2_loop_result chain_image_meta false "A" { animation := "B" } fuel
        [{ name := "A", animation := "B" }] (chain_image_meta "A") 0 =
        miptex_loop_result.unfinished) ∧
    (∀ fuel : Nat, FindMiptex chain_image_meta true fuel [] "A" none false true = none) ∧
    (∀ fuel : Nat,
      FindMiptex_q2_loop_result dangling_image_meta false "A" { animation := "B" } (fuel + 1)
        [{ name := "A", animation := "B" }] (dangling_image_meta "A") 0 =
        miptex_loop_result.missing) ∧
    (∀ fuel : Nat, FindMiptex dangling_image_meta true fuel [] "A" none false true = none) ∧
    FindMiptex closing_image_meta true 2 [] "A" none false true =
      some ([{ name := "A", animation := "B", animation_miptex := some 1 },
             { name := "B", animation := "A", animation_miptex := some 0 }],
            { animation := "B" }, 0) := by
  have hloop : ∀ fuel : Nat,
      FindMiptex_q2_loop_result chain_image_meta false "A" { animation := "B" } fuel
        [{ name := "A", animation := "B" }] (chain_image_meta "A") 0 =
        miptex_loop_result.unfinished := by
    intro fuel
    match fuel with
    | 0 => rfl
    | 1 => rfl
    | 2 => rfl
    | fuel + 3 =>
      have step : FindMiptex_q2_loop_result chain_image_meta false "A" { animation := "B" }
          (fuel + 3) [{ name := "A", animation := "B" }] (chain_image_meta "A") 0 =
          FindMiptex_q2_loop_result chain_image_meta false "A" { animation := "B" } fuel
            chain_miptex (chain_image_meta "B") 1 := by
        rfl
      rw [step]
      exact (FindMiptex_q2_loop_cycles fuel).1
  refine ⟨hloop, ?_, ?_, ?_, ?_⟩
  · intro fuel
    have e : FindMiptex chain_image_meta true fuel [] "A" none false true =
        match FindMiptex_q2_loop chain_image_meta false "A" { animation := "B" } fuel
          [{ name := "A", animation := "B" }] (chain_image_meta "A") 0 with
        | none => none
        | some (miptex2, last_i) =>
          some (set_animation_miptex miptex2 last_i 0, { animation := "B" }, 0) := by
      rfl
    rw [e, FindMiptex_q2_loop_eq, hloop fuel]
    rfl
  · intro fuel
    rfl
  · intro fuel
    have e : FindMiptex dangling_image_meta true fuel [] "A" none false true =
        match FindMiptex_q2_loop dangling_image_meta false "A" { animation := "B" } fuel
          [{ name := "A", animation := "B" }] (dangling_image_meta "A") 0 with
        | none => none
        | some (miptex2, last_i) =>
          some (set_animation_miptex miptex2 last_i 0, { animation := "B" }, 0) := by
      rfl
    rw [e]
    cases fuel with
    | zero => rfl
    | succ fuel => rfl
  · decide

end anim_loop_claims

section encoders_claims
variable {K : Type} [LinearOrderedField K]

/-- The search loop of TextureAxisFromPlane returns an index of the table. -/
theorem TextureAxisFromPlane_best_lt (oldaxis : Bool) (n : qvec3 K) :
    (TextureAxisFromPlane_best oldaxis n).2 < 6 := by
  rcases (TextureAxisFromPlane_best_spec oldaxis n).2.2 with h | h
  · exact h.1
  · rw [h]
    norm_num

/-- Both Quake-Ed encoders read the scale through the replacement of 0 by
1. -/
theorem SetTexinfo_QuakeEd_sanitized (opts : qbsp_options_t K) (m : libm K) (plane : qplane3 K)
    (pts : planepts_t K) (shift : qvec2 K) (rotate : K) (scale : qvec2 K) :
    SetTexinfo_QuakeEd opts m plane pts shift rotate scale =
      SetTexinfo_QuakeEd opts m plane pts shift rotate
        ⟨if scale.x ≠ 0 then scale.x else 1, if scale.y ≠ 0 then scale.y else 1⟩ ∧
    SetTexinfo_QuakeEd_New opts m plane shift rotate scale =
      SetTexinfo_QuakeEd_New opts m plane shift rotate
        ⟨if scale.x ≠ 0 then scale.x else 1, if scale.y ≠ 0 then scale.y else 1⟩ := by
  constructor
  · unfold SetTexinfo_QuakeEd
    dsimp only
    by_cases hx : scale.x = 0 <;> by_cases hy : scale.y = 0 <;> simp [hx, hy]
  · unfold SetTexinfo_QuakeEd_New
    dsimp only
    by_cases hx : scale.x = 0 <;> by_cases hy : scale.y = 0 <;> simp [hx, hy]

/-- In exact arithmetic (the conversions to float taken as the identity), for
every plane, shift, rotation and scale, SetTexinfo_QuakeEd and
SetTexinfo_QuakeEd_New write the same texture vectors, so that every component
of the one is within 0.001 of the component of the other. -/
theorem SetTexinfo_QuakeEd_New_agrees (opts : qbsp_options_t K) (m : libm K) (plane : qplane3 K)
    (pts : planepts_t K) (shift : qvec2 K) (rotate : K) (scale : qvec2 K)
    (hfl : m.FloatExact) :
    SetTexinfo_QuakeEd opts m plane pts shift rotate scale =
      SetTexinfo_QuakeEd_New opts m plane shift rotate scale ∧
    ∀ i, i < 8 →
      ¬ (|(SetTexinfo_QuakeEd_New opts m plane shift rotate scale).components.getD i 0 -
          (SetTexinfo_QuakeEd opts m plane pts shift rotate scale).components.getD i 0| >
        1 / 1000) := by
  have hk := TextureAxisFromPlane_best_lt opts.oldaxis plane.normal
  have heq : SetTexinfo_QuakeEd opts m plane pts shift rotate scale =
      SetTexinfo_QuakeEd_New opts m plane shift rotate scale := by
    obtain ⟨e1, e2⟩ := SetTexinfo_QuakeEd_sanitized opts m plane pts shift rotate scale
    have hx : (if scale.x ≠ 0 then scale.x else 1) ≠ 0 := by
      split_ifs with h
      · exact h
      · exact one_ne_zero
    have hy : (if scale.y ≠ 0 then scale.y else 1) ≠ 0 := by
      split_ifs with h
      · exact h
      · exact one_ne_zero
    rw [e1, e2, SetTexinfo_QuakeEd_eq_copy opts m plane pts shift rotate _ hk hx hy,
      SetTexinfo_QuakeEd_New_eq_copy opts m plane shift rotate _ hk hx hy hfl]
    have hang : rotate / 180 * m.pi = rotate * (m.pi / 180) := by ring
    rw [hang]
  refine ⟨heq, ?_⟩
  intro i _
  rw [heq, sub_self, abs_zero]
  norm_num

end encoders_claims

section anim_order_claims
variable {K : Type} [LinearOrderedField K]

/-- The loop of AddAnimTex leaves every frame name below the frame number in
the texture table. -/
theorem AddAnimTex_frames_present (name : String) (basechar : Nat) :
    ∀ (frame : Nat) (miptex : List maptexdata_t) (k : Nat), k < frame →
      ∃ tex ∈ (List.range frame).foldl (AddAnimTex_step (name.data.take 15) basechar) miptex,
        Q_strcasecmp (AddAnimTex_framename name basechar k) tex.name = 0 := by
  intro frame
  induction frame with
  | zero =>
    intro miptex k hk
    exact absurd hk (Nat.not_lt_zero k)
  | succ frame ih =>
    intro miptex k hk
    rw [List.range_succ, List.foldl_append, List.foldl_cons, List.foldl_nil]
    rcases Nat.lt_succ_iff_lt_or_eq.mp hk with hlt | heq
    · obtain ⟨tex, htex, hcmp⟩ := ih miptex k hlt
      exact ⟨tex, (AddAnimTex_step_extends _ _ _ _).subset htex, hcmp⟩
    · subst heq
      unfold AddAnimTex_step
      dsimp only
      split_ifs with hany
      · rw [List.any_eq_true] at hany
        obtain ⟨tex, htex, hcmp⟩ := hany
        exact ⟨tex, htex, by simpa using hcmp⟩
      · exact ⟨_, List.mem_append_right _ (List.mem_singleton_self _), Q_strcasecmp_self _⟩

/-- FindMiptex for a target other than Quake II on a new animated texture name
with the frame number frame: the name is entered at the end of the old table,
before AddAnimTex runs.  Afterwards every lower animation frame is in the
table, but a lower frame that was not in the table before stands at an index
that is not below the index of the requested frame. -/
theorem FindMiptex_other_anim_order (miptex : List maptexdata_t) (name : String)
    (extended_info : Option extended_texinfo_t) (m1 : List maptexdata_t)
    (e1 : extended_texinfo_t) (i frame basechar : Nat)
    (h : FindMiptex_other miptex name extended_info = some (m1, e1, i))
    (hnew : ¬ (miptex.findIdx fun tex =>
      decide (Q_strcasecmp (FindMiptex_basename name) tex.name = 0)) < miptex.length)
    (hplus : (FindMiptex_basename name).data.head? = some '+')
    (hframe : AddAnimTex_frame (FindMiptex_basename name) = some (frame, basechar)) :
    i = miptex.length ∧
    (miptex ++ [({ name := FindMiptex_basename name } : maptexdata_t)]) <+: m1 ∧
    ∀ k, k < frame →
      (∃ tex ∈ m1, Q_strcasecmp (AddAnimTex_framename (FindMiptex_basename name) basechar k)
        tex.name = 0) ∧
      ((∀ tex ∈ miptex, Q_strcasecmp (AddAnimTex_framename (FindMiptex_basename name) basechar k)
          tex.name ≠ 0) →
        ∀ j tex, m1[j]? = some tex →
          Q_strcasecmp (AddAnimTex_framename (FindMiptex_basename name) basechar k) tex.name = 0 →
          i ≤ j) := by
  unfold FindMiptex_other at h
  dsimp only at h
  rw [if_neg hnew, if_pos hplus] at h
  unfold AddAnimTex at h
  rw [hframe] at h
  dsimp only at h
  have h2 := Option.some.inj h
  have hm := congrArg Prod.fst h2
  have hi := congrArg (fun r => r.2.2) h2
  dsimp only at hm hi
  have hpre : (miptex ++ [({ name := FindMiptex_basename name } : maptexdata_t)]) <+: m1 := by
    rw [← hm]
    exact foldl_inv (fun a => (miptex ++ [({ name := FindMiptex_basename name } : maptexdata_t)])
      <+: a) _ _
      (fun a ha b _ => List.IsPrefix.trans ha (AddAnimTex_step_extends _ _ a b)) _
      (List.prefix_refl _)
  refine ⟨hi.symm, hpre, ?_⟩
  intro k hk
  constructor
  · rw [← hm]
    exact AddAnimTex_frames_present (FindMiptex_basename name) basechar frame _ k hk
  · intro hnot j tex hj hcmp
    by_contra hlt
    have hjlt : j < miptex.length := by omega
    have hpre2 : miptex <+: m1 := (List.prefix_append _ _).trans hpre
    obtain ⟨t, ht⟩ := hpre2
    rw [← ht, List.getElem?_append_left hjlt] at hj
    exact hnot tex (List.getElem?_mem hj) hcmp

/-- C38 (the code at the failing input): FindMiptex for a target other than
Quake II on the empty texture table and the new name "+2lava".  The name is
entered first, at index 0, which is returned; AddAnimTex then appends the
frames "+0lava" and "+1lava" at the indices 1 and 2.  All frames up to the
requested one are present afterwards, but the lower numbered frames stand
after the requested frame, not before it. -/
theorem FindMiptex_lower_frames_after :
    FindMiptex example_image_meta false 0 [] "+2lava" none false true =
      some ([{ name := "+2lava" }, { name := "+0lava" }, { name := "+1lava" }], {}, 0) ∧
    AddAnimTex_frame "+2lava" = some (2, 48) ∧
    AddAnimTex_framename "+2lava" 48 0 = "+0lava" ∧
    AddAnimTex_framename "+2lava" 48 1 = "+1lava" ∧
    ([{ name := "+2lava" }, { name := "+0lava" }, { name := "+1lava" }] :
      List maptexdata_t).findIdx (fun tex => decide (Q_strcasecmp "+0lava" tex.name = 0)) = 1 ∧
    ([{ name := "+2lava" }, { name := "+0lava" }, { name := "+1lava" }] :
      List maptexdata_t).findIdx (fun tex => decide (Q_strcasecmp "+1lava" tex.name = 0)) = 2 := by
  refine ⟨by decide, by decide, by decide, by decide, by decide, by decide⟩

end anim_order_claims

section axes_claims
variable {K : Type} [LinearOrderedField K]

/-- The length of a vector obtained by dividing a unit vector by a non-zero
number. -/
theorem qv.length_div_unit {m : libm K} (hm : m.SqrtExact) (a b c s : K) (hs : s ≠ 0)
    (h1 : a * a + b * b + c * c = 1) :
    qv.length m ⟨a / s, b / s, c / s⟩ = 1 / |s| := by
  unfold qv.length
  apply libm.sqrt_eq hm
  · exact div_nonneg zero_le_one (abs_nonneg s)
  · simp only [qv.dot]
    have habs : |s| * |s| = s * s := abs_mul_abs_self s
    have hs2 : s * s ≠ 0 := mul_ne_zero hs hs
    have hab : |s| ≠ 0 := abs_ne_zero.mpr hs
    rw [div_mul_div_comm, habs, div_mul_div_comm, div_mul_div_comm, div_mul_div_comm,
      ← add_div, ← add_div, h1, one_mul]

/-- The snapped normal returned by TextureAxisFromPlane lies along one
coordinate axis: its component on that axis is 1 or -1 and the other two are
zero. -/
theorem TextureAxisFromPlane_snapped (oldaxis : Bool) (plane : qplane3 K) :
    baseNormalAxis (TextureAxisFromPlane oldaxis plane).2.2 < 3 ∧
    ((TextureAxisFromPlane oldaxis plane).2.2.get
        (baseNormalAxis (TextureAxisFromPlane oldaxis plane).2.2) = 1 ∨
      (TextureAxisFromPlane oldaxis plane).2.2.get
        (baseNormalAxis (TextureAxisFromPlane oldaxis plane).2.2) = -1) ∧
    ∀ b, b < 3 → b ≠ baseNormalAxis (TextureAxisFromPlane oldaxis plane).2.2 →
      (TextureAxisFromPlane oldaxis plane).2.2.get b = 0 := by
  have hk := TextureAxisFromPlane_best_lt oldaxis plane.normal
  unfold TextureAxisFromPlane
  generalize (TextureAxisFromPlane_best oldaxis plane.normal).2 = k at hk
  interval_cases k <;>
  · refine ⟨?_, ?_, ?_⟩
    · simp [baseaxis_at, baseaxis, baseNormalAxis]
    · simp [baseaxis_at, baseaxis, baseNormalAxis, qvec3.get]
    · intro b hb hne
      interval_cases b <;>
        simp [baseaxis_at, baseaxis, baseNormalAxis, qvec3.get] at hne ⊢

/-- C39: for every plane, rotation angle and scale pair with non-zero
components, the two texture axes written by SetTexinfo_QuakeEd are orthogonal
to each other, have the lengths 1/|scale[0]| and 1/|scale[1]|, and have a zero
component along the coordinate axis of the base normal that
TextureAxisFromPlane snapped the plane to.  The square root is exact and sine
and cosine satisfy the Pythagorean identity. -/
theorem SetTexinfo_QuakeEd_axes_spec (opts : qbsp_options_t K) (m : libm K)
    (hm : m.SqrtExact) (ht : m.TrigPythagorean) (plane : qplane3 K) (pts : planepts_t K)
    (shift : qvec2 K) (rotate : K) (scale : qvec2 K) (hx : scale.x ≠ 0) (hy : scale.y ≠ 0) :
    qv.dot (SetTexinfo_QuakeEd opts m plane pts shift rotate scale).row0.xyz
      (SetTexinfo_QuakeEd opts m plane pts shift rotate scale).row1.xyz = 0 ∧
    qv.length m (SetTexinfo_QuakeEd opts m plane pts shift rotate scale).row0.xyz =
      1 / |scale.x| ∧
    qv.length m (SetTexinfo_QuakeEd opts m plane pts shift rotate scale).row1.xyz =
      1 / |scale.y| ∧
    (SetTexinfo_QuakeEd opts m plane pts shift rotate scale).row0.xyz.get
      (baseNormalAxis (TextureAxisFromPlane opts.oldaxis plane).2.2) = 0 ∧
    (SetTexinfo_QuakeEd opts m plane pts shift rotate scale).row1.xyz.get
      (baseNormalAxis (TextureAxisFromPlane opts.oldaxis plane).2.2) = 0 ∧
    baseNormalAxis (TextureAxisFromPlane opts.oldaxis plane).2.2 < 3 ∧
    ((TextureAxisFromPlane opts.oldaxis plane).2.2.get
        (baseNormalAxis (TextureAxisFromPlane opts.oldaxis plane).2.2) = 1 ∨
      (TextureAxisFromPlane opts.oldaxis plane).2.2.get
        (baseNormalAxis (TextureAxisFromPlane opts.oldaxis plane).2.2) = -1) ∧
    (∀ b, b < 3 → b ≠ baseNormalAxis (TextureAxisFromPlane opts.oldaxis plane).2.2 →
      (TextureAxisFromPlane opts.oldaxis plane).2.2.get b = 0) := by
  have hk := TextureAxisFromPlane_best_lt opts.oldaxis plane.normal
  obtain ⟨hs1, hs2, hs3⟩ := TextureAxisFromPlane_snapped opts.oldaxis plane
  refine ⟨?_, ?_, ?_, ?_, ?_, hs1, hs2, hs3⟩
  all_goals
    rw [SetTexinfo_QuakeEd_eq_copy opts m plane pts shift rotate scale hk hx hy]
    have hp := ht (rotate / 180 * m.pi)
    generalize m.sin (rotate / 180 * m.pi) = s at hp
    generalize m.cos (rotate / 180 * m.pi) = c at hp
    unfold TextureAxisFromPlane
    generalize (TextureAxisFromPlane_best opts.oldaxis plane.normal).2 = k at hk
  · interval_cases k <;>
    · simp only [baseaxis_at, baseaxis, getSTAxes, SetTexinfo_QuakeEd_New_copy, qvec3.set,
        qvec3.zero, qvec4.xyz, qv.dot]
      norm_num
      try ring
  · interval_cases k <;>
    · simp [baseaxis_at, baseaxis, getSTAxes, SetTexinfo_QuakeEd_New_copy, qvec3.set,
        qvec3.zero, qvec4.xyz, -one_div]
      first
        | exact qv.length_div_unit hm _ _ _ _ hx (by linear_combination hp)
        | (rw [show (0 : K) = 0 / scale.x from (zero_div _).symm]
           exact qv.length_div_unit hm _ _ _ _ hx (by linear_combination hp))
  · interval_cases k <;>
    · simp [baseaxis_at, baseaxis, getSTAxes, SetTexinfo_QuakeEd_New_copy, qvec3.set,
        qvec3.zero, qvec4.xyz, -one_div]
      first
        | exact qv.length_div_unit hm _ _ _ _ hy (by linear_combination hp)
        | (rw [show (0 : K) = 0 / scale.y from (zero_div _).symm]
           exact qv.length_div_unit hm _ _ _ _ hy (by linear_combination hp))
  · interval_cases k <;>
      simp [baseaxis_at, baseaxis, getSTAxes, SetTexinfo_QuakeEd_New_copy, qvec3.set,
        qvec3.zero, qvec4.xyz, baseNormalAxis, qvec3.get]
  · interval_cases k <;>
      simp [baseaxis_at, baseaxis, getSTAxes, SetTexinfo_QuakeEd_New_copy, qvec3.set,
        qvec3.zero, qvec4.xyz, baseNormalAxis, qvec3.get]

theorem libm.real_trigPythagorean : libm.real.TrigPythagorean :=
  libm.real_trigExact.2.1

/-- C39 at an example: the floor plane z = 0, rotation by 30 degrees and the
scale pair (2, -4) over the real numbers. -/
theorem SetTexinfo_QuakeEd_axes_spec_witness :
    libm.real.SqrtExact ∧ libm.real.TrigPythagorean ∧
    (⟨2, -4⟩ : qvec2 ℝ).x ≠ 0 ∧ (⟨2, -4⟩ : qvec2 ℝ).y ≠ 0 ∧
    qv.dot
      (SetTexinfo_QuakeEd qbsp_options_t.sample libm.real ⟨⟨0, 0, 1⟩, 0⟩
        ⟨⟨0, 0, 0⟩, ⟨0, 128, 0⟩, ⟨128, 0, 0⟩⟩ ⟨0, 0⟩ 30 ⟨2, -4⟩).row0.xyz
      (SetTexinfo_QuakeEd qbsp_options_t.sample libm.real ⟨⟨0, 0, 1⟩, 0⟩
        ⟨⟨0, 0, 0⟩, ⟨0, 128, 0⟩, ⟨128, 0, 0⟩⟩ ⟨0, 0⟩ 30 ⟨2, -4⟩).row1.xyz = 0 ∧
    qv.length libm.real
      (SetTexinfo_QuakeEd qbsp_options_t.sample libm.real ⟨⟨0, 0, 1⟩, 0⟩
        ⟨⟨0, 0, 0⟩, ⟨0, 128, 0⟩, ⟨128, 0, 0⟩⟩ ⟨0, 0⟩ 30 ⟨2, -4⟩).row0.xyz = 1 / 2 ∧
    qv.length libm.real
      (SetTexinfo_QuakeEd qbsp_options_t.sample libm.real ⟨⟨0, 0, 1⟩, 0⟩
        ⟨⟨0, 0, 0⟩, ⟨0, 128, 0⟩, ⟨128, 0, 0⟩⟩ ⟨0, 0⟩ 30 ⟨2, -4⟩).row1.xyz = 1 / 4 := by
  have hx : (⟨2, -4⟩ : qvec2 ℝ).x ≠ 0 := by norm_num
  have hy : (⟨2, -4⟩ : qvec2 ℝ).y ≠ 0 := by norm_num
  have h := SetTexinfo_QuakeEd_axes_spec qbsp_options_t.sample libm.real libm.real_sqrtExact
    libm.real_trigPythagorean ⟨⟨0, 0, 1⟩, 0⟩ ⟨⟨0, 0, 0⟩, ⟨0, 128, 0⟩, ⟨128, 0, 0⟩⟩ ⟨0, 0⟩ 30
    ⟨2, -4⟩ hx hy
  refine ⟨libm.real_sqrtExact, libm.real_trigPythagorean, hx, hy, h.1, ?_, ?_⟩
  · rw [h.2.1]
    norm_num
  · rw [h.2.2.1]
    norm_num [abs_of_pos]

end axes_claims

section appends_claims
variable {K : Type} [LinearOrderedField K]

theorem bevel_state.Appends_refl (st : bevel_state K) : st.Appends st := by
  refine ⟨List.prefix_refl _, rfl, [], [], ?_, rfl, fun f hf => absurd hf (List.not_mem_nil f)⟩
  simp

theorem bevel_state.Appends_trans {st st2 st3 : bevel_state K} (h : st.Appends st2)
    (h2 : st2.Appends st3) : st.Appends st3 := by
  obtain ⟨a1, a2, box1, edge1, a3, a4, a5⟩ := h
  obtain ⟨b1, b2, box2, edge2, b3, b4, b5⟩ := h2
  refine ⟨a1.trans b1, ?_, box1 ++ box2, edge1 ++ edge2, ?_, ?_, ?_⟩
  · rw [b2, a2]
  · refine b3.trans ?_
    refine (List.Perm.append_right _ a3).trans ?_
    rw [List.append_assoc st.b.faces]
    refine List.Perm.append_left _ ?_
    simp only [List.append_assoc]
    refine List.Perm.append_left _ ?_
    rw [← List.append_assoc edge1, ← List.append_assoc box2]
    exact List.Perm.append_right _ List.perm_append_comm
  · rw [b4, a4]
    simp [Nat.add_assoc]
  · intro f hf
    simp only [List.mem_append] at hf
    rcases hf with (hf | hf) | (hf | hf)
    · exact a5 f (List.mem_append_left _ hf)
    · exact b5 f (List.mem_append_left _ hf)
    · exact a5 f (List.mem_append_right _ hf)
    · exact b5 f (List.mem_append_right _ hf)

/-- The edge-bevel loops only append. -/
theorem bevel_state.Extends_appends {st st2 : bevel_state K} {n : Nat} (h : st.Extends st2 n) :
    st.Appends st2 := by
  obtain ⟨a1, new, a2, a3, -, a5⟩ := h
  refine ⟨a1, by rw [a2], [], new, ?_, ?_, ?_⟩
  · rw [a2]
    simp
  · rw [a3]
    rfl
  · intro f hf
    simp only [List.nil_append] at hf
    exact ⟨(a5 f hf).2.1, (a5 f hf).1⟩

/-- One pass of the axial loop, when the canonical position is inside the face
list or at its end and no earlier face has the side looked for: the pass adds
no face or one box bevel, and exchanges two faces or none. -/
theorem AddBrushBevels_axial_step_appends (st : bevel_state K) (axis : Nat) (dir : Int)
    (order : Nat) (hlen : order ≤ st.b.faces.length)
    (hpre : ∀ j f, j < order → st.b.faces[j]? = some f →
      (f.get_plane st.planes).normal.get axis ≠ (dir : K)) :
    st.Appends (AddBrushBevels_axial_step st axis dir order) := by
  unfold AddBrushBevels_axial_step
  simp only []
  set p : mapface_t K → Bool :=
    fun s => decide ((get_plane st.planes s.planenum).normal.get axis = (dir : K)) with hp
  set i := st.b.faces.findIdx p with hi
  have hige : order ≤ i := by
    by_contra hc
    have hlt : i < order := not_le.mp hc
    have hil : i < st.b.faces.length := lt_of_lt_of_le hlt hlen
    have hpi : p (st.b.faces[i]) = true := List.findIdx_getElem
    have := hpre i (st.b.faces[i]) hlt (List.getElem?_eq_getElem hil)
    rw [hp] at hpi
    simp only [decide_eq_true_eq] at hpi
    exact this hpi
  generalize hs : ({ (mapface_t.default : mapface_t K) with
      planenum := (add_or_find_plane st.planes (axialBevelPlane st.b axis dir)).2,
      texinfo := ((st.b.faces ++ [mapface_t.default]).getD 0 mapface_t.default).texinfo,
      contents := ((st.b.faces ++ [mapface_t.default]).getD 0 mapface_t.default).contents,
      texname := ((st.b.faces ++ [mapface_t.default]).getD 0 mapface_t.default).texname,
      bevel := true } : mapface_t K) = snew
  have hsb : snew.bevel = true ∧ snew.winding = [] := by
    rw [← hs]
    exact ⟨rfl, rfl⟩
  generalize hst1 : (if i = st.b.faces.length then
      ({ planes := (add_or_find_plane st.planes (axialBevelPlane st.b axis dir)).1
         e := { st.e with numboxbevels := st.e.numboxbevels + 1 }
         b := { st.b with faces := st.b.faces ++ [snew] } } : bevel_state K)
    else st) = st1
  have key : st.Appends st1 ∧ i < st1.b.faces.length := by
    by_cases hnf : i = st.b.faces.length
    · rw [if_pos hnf] at hst1
      subst hst1
      refine ⟨⟨(get_plane_add_or_find st.planes (axialBevelPlane st.b axis dir)).2.2, rfl,
        [snew], [], ?_, rfl, ?_⟩, by simp [hnf]⟩
      · simp
      · intro f hf
        simp only [List.append_nil, List.mem_singleton] at hf
        rw [hf]
        exact hsb
    · rw [if_neg hnf] at hst1
      subst hst1
      exact ⟨bevel_state.Appends_refl st,
        lt_of_le_of_ne (List.findIdx_le_length p) hnf⟩
  obtain ⟨k1, k2⟩ := key
  by_cases hne : i = order
  · simp only [hne, ne_eq, not_true_eq_false, if_false]
    exact k1
  · simp only [ne_eq, hne, not_false_eq_true, if_true]
    have hlt : order < i := lt_of_le_of_ne hige (Ne.symm hne)
    obtain ⟨s1, -, -, -⟩ := swapFaces_spec st1.b.faces order i hlt k2
    obtain ⟨a1, a2, box, edge, a3, a4, a5⟩ := k1
    refine ⟨a1, ?_, box, edge, s1.trans a3, a4, a5⟩
    simp only []
    rw [a2]

/-- The axial loop of AddBrushBevels on a well-formed brush only appends box
bevels and reorders. -/
theorem AddBrushBevels_axial_upto_appends (st0 : bevel_state K) (hwf0 : st0.WellFormed) :
    ∀ k, k ≤ 6 → (AddBrushBevels_axial_upto st0 k).Canonical k ∧
      st0.Appends (AddBrushBevels_axial_upto st0 k) := by
  intro k
  induction k with
  | zero =>
    intro _
    exact ⟨⟨hwf0, Nat.zero_le _, fun j hj => absurd hj (Nat.not_lt_zero j)⟩,
      bevel_state.Appends_refl st0⟩
  | succ k ih =>
    intro hk
    obtain ⟨hcan, happ⟩ := ih (by omega)
    have hk6 : k < 6 := by omega
    refine ⟨(AddBrushBevels_axial_step_canonical _ k hk6 hcan).1, ?_⟩
    refine bevel_state.Appends_trans happ ?_
    obtain ⟨hwf, hlen, hc⟩ := hcan
    apply AddBrushBevels_axial_step_appends _ _ _ _ hlen
    intro j f hj hf
    obtain ⟨g, hg, hn⟩ := hc j hj
    rw [hf] at hg
    cases hg
    rw [hn]
    exact canonicalNormal_get_ne j k hj hk6

/-- C40: AddBrushBevels on a well-formed brush (every face refers to an entry
of the plane table, with a unit normal) returns: the loop over the face list
that grows ends within the iteration bound.  It only appends and reorders: the
plane table is extended, the brush changes in its face list only, and the new
face list is a rearrangement of the faces of the input brush followed by the
added faces.  So every face of the input brush is still present, as the same
record (plane number, texinfo, contents and all other fields), and its plane
in the extended table is its plane in the old table.  Every added face is
marked as a bevel and has no winding, and the box-bevel and edge-bevel counters
of the entity grow by the numbers of added box and edge bevels, so that the
number of added faces is the increase of the two counters together. -/
theorem AddBrushBevels_appends_spec (env : qbsp_env K) (opts : qbsp_options_t K) (m : libm K)
    (planes : List (qplane3 K)) (e : mapentity_t K) (b : mapbrush_t K)
    (hwf : (bevel_state.mk planes e b).WellFormed) :
    ∃ (st : bevel_state K) (box edge : List (mapface_t K)),
      AddBrushBevels env opts m planes e b = some st ∧
      planes <+: st.planes ∧
      st.b = { b with faces := st.b.faces } ∧
      st.b.faces.Perm (b.faces ++ (box ++ edge)) ∧
      (∀ f ∈ b.faces, f ∈ st.b.faces ∧ f.get_plane st.planes = f.get_plane planes) ∧
      (∀ f ∈ box ++ edge, f.bevel = true ∧ f.winding = []) ∧
      st.e = { e with numboxbevels := e.numboxbevels + box.length,
                      numedgebevels := e.numedgebevels + edge.length } ∧
      st.b.faces.length = b.faces.length + (box ++ edge).length ∧
      (box ++ edge).length =
        (st.e.numboxbevels - e.numboxbevels) + (st.e.numedgebevels - e.numedgebevels) := by
  obtain ⟨st, n, hst, hext⟩ := AddBrushBevels_returns_extends env opts m planes e b
  have h1 := (AddBrushBevels_axial_upto_appends (bevel_state.mk planes e b) hwf 6 (le_refl _)).2
  rw [← AddBrushBevels_axial_eq_upto] at h1
  obtain ⟨a1, a2, box, edge, a3, a4, a5⟩ :=
    bevel_state.Appends_trans h1 (bevel_state.Extends_appends hext)
  refine ⟨st, box, edge, hst, a1, a2, a3, ?_, a5, a4, ?_, ?_⟩
  · intro f hf
    exact ⟨a3.symm.subset (List.mem_append_left _ hf), get_plane_extended a1 (hwf f hf).1⟩
  · rw [a3.length_eq, List.length_append]
  · rw [a4]
    simp only [List.length_append]
    omega

/-- C40 at an example: the brush with one slanted face of the wedge. -/
theorem AddBrushBevels_appends_spec_witness :
    (bevel_state.mk (wedge_planes : List (qplane3 ℝ)) mapentity_t.default wedge_brush).WellFormed ∧
    ∃ (st : bevel_state ℝ) (box edge : List (mapface_t ℝ)),
      AddBrushBevels qbsp_env.sample qbsp_options_t.sample libm.real wedge_planes
        mapentity_t.default (wedge_brush : mapbrush_t ℝ) = some st ∧
      (wedge_planes : List (qplane3 ℝ)) <+: st.planes ∧
      st.b = { (wedge_brush : mapbrush_t ℝ) with faces := st.b.faces } ∧
      st.b.faces.Perm ((wedge_brush : mapbrush_t ℝ).faces ++ (box ++ edge)) ∧
      (∀ f ∈ (wedge_brush : mapbrush_t ℝ).faces,
        f ∈ st.b.faces ∧ f.get_plane st.planes = f.get_plane wedge_planes) ∧
      (∀ f ∈ box ++ edge, f.bevel = true ∧ f.winding = []) ∧
      st.e = { (mapentity_t.default : mapentity_t ℝ) with
        numboxbevels := (mapentity_t.default : mapentity_t ℝ).numboxbevels + box.length,
        numedgebevels := (mapentity_t.default : mapentity_t ℝ).numedgebevels + edge.length } ∧
      st.b.faces.length = (wedge_brush : mapbrush_t ℝ).faces.length + (box ++ edge).length ∧
      (box ++ edge).length =
        (st.e.numboxbevels - (mapentity_t.default : mapentity_t ℝ).numboxbevels) +
        (st.e.numedgebevels - (mapentity_t.default : mapentity_t ℝ).numedgebevels) :=
  have h : (bevel_state.mk (wedge_planes : List (qplane3 ℝ)) mapentity_t.default
      wedge_brush).WellFormed := by
    intro f hf
    simp only [wedge_brush, List.mem_singleton] at hf
    subst hf
    norm_num [cube_face, wedge_planes, mapface_t.get_plane, get_plane, qv.dot]
  ⟨h, AddBrushBevels_appends_spec qbsp_env.sample qbsp_options_t.sample libm.real wedge_planes
    mapentity_t.default wedge_brush h⟩

end appends_claims

section float_lemmas
variable {K : Type} [LinearOrderedField K]

/-! ### Single-precision floats -/

/-- Integers of absolute value below 2^24 are single-precision values. -/
theorem IsFloat32.of_int (n : Int) (h : |n| < 2 ^ 24) : IsFloat32 ((n : Int) : K) :=
  ⟨n, 0, h, by norm_num, by norm_num, by rw [zpow_zero, mul_one]⟩

/-- An integer multiple of a power of two with a factor below 2^24 in absolute
value is a single-precision value. -/
theorem IsFloat32.of_scaled (n : Int) (e : Int) (h : |n| < 2 ^ 24) (h1 : -149 ≤ e)
    (h2 : e ≤ 104) : IsFloat32 ((n : K) * (2 : K) ^ e) :=
  ⟨n, e, h, h1, h2, rfl⟩

theorem IsFloat32.zero : IsFloat32 (0 : K) := by
  have h := IsFloat32.of_int (K := K) 0 (by norm_num)
  simpa using h

/-- There are finitely many single-precision values. -/
theorem IsFloat32.finite : {y : ℝ | IsFloat32 y}.Finite := by
  apply Set.Finite.subset
    (Set.Finite.image2 (fun (n e : Int) => (n : ℝ) * (2 : ℝ) ^ e)
      (Set.finite_Icc (-(2 ^ 24) : Int) (2 ^ 24)) (Set.finite_Icc (-149 : Int) 104))
  rintro y ⟨n, e, hn, he1, he2, rfl⟩
  refine ⟨n, ?_, e, ⟨he1, he2⟩, rfl⟩
  rw [abs_lt] at hn
  exact ⟨by linarith [hn.1], by linarith [hn.2]⟩

/-- The rounding function returns a nearest single-precision value. -/
theorem float32_round_spec (x : ℝ) :
    IsFloat32 (float32_round x) ∧ ∀ z : ℝ, IsFloat32 z → |float32_round x - x| ≤ |z - x| := by
  have hex : ∃ y : ℝ, IsFloat32 y ∧ ∀ z : ℝ, IsFloat32 z → |y - x| ≤ |z - x| := by
    obtain ⟨a, ha, hmin⟩ := Set.exists_min_image {y : ℝ | IsFloat32 y} (fun y => |y - x|)
      IsFloat32.finite ⟨0, IsFloat32.zero⟩
    exact ⟨a, ha, fun z hz => hmin z hz⟩
  exact Classical.epsilon_spec hex

theorem libm.real32_floatNearest : libm.real32.FloatNearest := fun x => float32_round_spec x

/-- A single-precision value is converted to itself. -/
theorem libm.FloatNearest.of_isFloat32 {m : libm K} (hn : m.FloatNearest) {y : K}
    (hy : IsFloat32 y) : m.to_float y = y := by
  have h := (hn y).2 y hy
  rw [sub_self, abs_zero] at h
  exact sub_eq_zero.mp (abs_eq_zero.mp (le_antisymm h (abs_nonneg _)))

/-- Converting twice is converting once. -/
theorem libm.FloatNearest.idem {m : libm K} (hn : m.FloatNearest) (x : K) :
    m.to_float (m.to_float x) = m.to_float x :=
  hn.of_isFloat32 (hn x).1

/-- The single-precision values of magnitude at least 2^(k+23) are multiples of
2^k. -/
theorem IsFloat32.on_grid {y : K} (hy : IsFloat32 y) (k : Int)
    (hk : (2 : K) ^ (k + 23) ≤ |y|) : ∃ N : Int, y = (N : K) * (2 : K) ^ k := by
  obtain ⟨n, e, hn, -, -, rfl⟩ := hy
  have h2 : (0 : K) < 2 := by norm_num
  by_cases hek : k ≤ e
  · refine ⟨n * 2 ^ (e - k).toNat, ?_⟩
    have hnat : ((e - k).toNat : Int) = e - k := Int.toNat_of_nonneg (by omega)
    have hpow : ((2 : K) ^ (e - k).toNat) = (2 : K) ^ (e - k) := by
      rw [← zpow_natCast, hnat]
    push_cast
    rw [hpow, mul_assoc, ← zpow_add₀ (ne_of_gt h2)]
    congr 2
    omega
  · exfalso
    have hek2 : e ≤ k - 1 := by omega
    have hle : (2 : K) ^ e ≤ (2 : K) ^ (k - 1) := zpow_le_zpow_right₀ (by norm_num) hek2
    have hpos : (0 : K) < (2 : K) ^ e := zpow_pos h2 e
    have hnK : |(n : K)| < 2 ^ 24 := by
      have : ((|n| : Int) : K) < ((2 ^ 24 : Int) : K) := Int.cast_lt.mpr hn
      push_cast at this
      have e : (2 : K) ^ 24 = 16777216 := by norm_num
      rw [e]
      exact this
    have habs : |(n : K) * (2 : K) ^ e| = |(n : K)| * (2 : K) ^ e := by
      rw [abs_mul, abs_of_pos hpos]
    rw [habs] at hk
    have hsplit : (2 : K) ^ (k + 23) = 2 ^ 24 * (2 : K) ^ (k - 1) := by
      have : k + 23 = (24 : Int) + (k - 1) := by omega
      rw [this, zpow_add₀ (ne_of_gt h2)]
      norm_num
    rw [hsplit] at hk
    have hlt : |(n : K)| * (2 : K) ^ e < 2 ^ 24 * (2 : K) ^ (k - 1) := by
      calc |(n : K)| * (2 : K) ^ e ≤ |(n : K)| * (2 : K) ^ (k - 1) :=
            mul_le_mul_of_nonneg_left hle (abs_nonneg _)
        _ < 2 ^ 24 * (2 : K) ^ (k - 1) :=
            mul_lt_mul_of_pos_right hnK (zpow_pos h2 _)
    exact absurd hk (not_le.mpr hlt)

/-- The conversion to float of a value that lies less than half a grid step
from the single-precision value N0 * 2^k, in the range where the grid step is at
least 2^k, is that value. -/
theorem libm.FloatNearest.to_float_eq {m : libm K} (hn : m.FloatNearest) (x : K) (N0 k : Int)
    (hN : |N0| < 2 ^ 24) (hk1 : -149 ≤ k) (hk2 : k ≤ 104)
    (hclose : |x - (N0 : K) * (2 : K) ^ k| < (2 : K) ^ k / 2)
    (hbig : (2 : K) ^ (k + 23) + (2 : K) ^ k / 2 ≤ |x|) :
    m.to_float x = (N0 : K) * (2 : K) ^ k := by
  have h2 : (0 : K) < 2 := by norm_num
  have hpk : (0 : K) < (2 : K) ^ k := zpow_pos h2 k
  have hy0 : IsFloat32 ((N0 : K) * (2 : K) ^ k) := IsFloat32.of_scaled N0 k hN hk1 hk2
  obtain ⟨hf, hmin⟩ := hn x
  have hnear := hmin _ hy0
  rw [abs_sub_comm] at hclose
  have hfx : |m.to_float x - x| < (2 : K) ^ k / 2 := lt_of_le_of_lt hnear hclose
  have hfbig : (2 : K) ^ (k + 23) ≤ |m.to_float x| := by
    have h1 : |x| ≤ |m.to_float x| + |m.to_float x - x| := by
      have := abs_sub_abs_le_abs_sub x (m.to_float x)
      rw [abs_sub_comm x] at this
      linarith
    linarith
  obtain ⟨N, hNeq⟩ := hf.on_grid k hfbig
  have hdiff : |(N : K) - (N0 : K)| * (2 : K) ^ k < 1 * (2 : K) ^ k := by
    have e1 : ((N : K) - (N0 : K)) * (2 : K) ^ k =
        (m.to_float x - x) - ((N0 : K) * (2 : K) ^ k - x) := by
      rw [hNeq]
      ring
    have e2 : |(N : K) - (N0 : K)| * (2 : K) ^ k = |((N : K) - (N0 : K)) * (2 : K) ^ k| := by
      rw [abs_mul, abs_of_pos hpk]
    rw [e2, e1, one_mul]
    calc |(m.to_float x - x) - ((N0 : K) * (2 : K) ^ k - x)|
        ≤ |m.to_float x - x| + |(N0 : K) * (2 : K) ^ k - x| := abs_sub _ _
      _ < (2 : K) ^ k / 2 + (2 : K) ^ k / 2 := add_lt_add hfx hclose
      _ = (2 : K) ^ k := by ring
  have hlt1 : |(N : K) - (N0 : K)| < 1 := lt_of_mul_lt_mul_right hdiff (le_of_lt hpk)
  have hint : |N - N0| < 1 := by
    have : ((|N - N0| : Int) : K) < ((1 : Int) : K) := by
      push_cast
      exact hlt1
    exact Int.cast_lt.mp this
  have hN0 : N = N0 := by
    have := abs_lt.mp hint
    omega
  rw [hNeq, hN0]

/-- The error of the conversion to float of a value of magnitude at most
2^(k+23) is at most half of 2^k. -/
theorem libm.FloatNearest.abs_error {m : libm ℝ} (hn : m.FloatNearest) (x : ℝ) (k : Int)
    (hk1 : -149 ≤ k) (hk2 : k ≤ 104) (hx : |x| ≤ (2 : ℝ) ^ (k + 23)) :
    |m.to_float x - x| ≤ (2 : ℝ) ^ k / 2 := by
  have h2 : (0 : ℝ) < 2 := by norm_num
  have hpk : (0 : ℝ) < (2 : ℝ) ^ k := zpow_pos h2 k
  have hsplit : (2 : ℝ) ^ (k + 23) = 2 ^ 23 * (2 : ℝ) ^ k := by
    rw [add_comm, zpow_add₀ (ne_of_gt h2)]
    norm_num
  set z : ℝ := x / (2 : ℝ) ^ k with hz
  have hzabs : |z| ≤ 2 ^ 23 := by
    rw [hz, abs_div, abs_of_pos hpk, div_le_iff₀ hpk, ← hsplit]
    exact hx
  have hr := abs_sub_round z
  have hrn : |(round z : ℝ)| ≤ 2 ^ 23 + 1 / 2 := by
    have h1 : |(round z : ℝ)| ≤ |z| + |z - round z| := by
      have := abs_sub_abs_le_abs_sub (round z : ℝ) z
      rw [abs_sub_comm (round z : ℝ)] at this
      linarith
    linarith
  have hrint : |round z| < 2 ^ 24 := by
    have h3 : ((|round z| : Int) : ℝ) < ((2 ^ 24 : Int) : ℝ) := by
      push_cast
      linarith
    exact Int.cast_lt.mp h3
  have hy0 : IsFloat32 ((round z : ℝ) * (2 : ℝ) ^ k) := IsFloat32.of_scaled _ k hrint hk1 hk2
  have hnear := (hn x).2 _ hy0
  have hxz : x = z * (2 : ℝ) ^ k := by
    rw [hz]
    field_simp
  have e1 : |(round z : ℝ) * (2 : ℝ) ^ k - x| = |z - round z| * (2 : ℝ) ^ k := by
    have : (round z : ℝ) * (2 : ℝ) ^ k - x = -((z - round z) * (2 : ℝ) ^ k) := by
      rw [hxz]
      ring
    rw [this, abs_neg, abs_mul, abs_of_pos hpk]
  rw [e1] at hnear
  calc |m.to_float x - x| ≤ |z - round z| * (2 : ℝ) ^ k := hnear
    _ ≤ 1 / 2 * (2 : ℝ) ^ k := mul_le_mul_of_nonneg_right hr (le_of_lt hpk)
    _ = (2 : ℝ) ^ k / 2 := by ring

end float_lemmas

section shift_float_claims
variable {K : Type} [LinearOrderedField K]

theorem qbsp_env.sample_trunc_unsigned_toIntTruncates [FloorRing K] :
    (qbsp_env.sample_trunc_unsigned : qbsp_env K).ToIntTruncates :=
  qbsp_env.sample_trunc_toIntTruncates

/-- The truncating conversion to int of an integer inside the range of int is
that integer. -/
theorem qbsp_env.to_int_intCast (env : qbsp_env K) (hto : env.ToIntTruncates) (n : Int)
    (hn : |n| < 2 ^ 31) : env.to_int ((n : Int) : K) = n := by
  have hnK : |((n : Int) : K)| < 2 ^ 31 := by
    have : ((|n| : Int) : K) < ((2 ^ 31 : Int) : K) := Int.cast_lt.mpr hn
    push_cast at this
    have e : (2 : K) ^ 31 = 2147483648 := by norm_num
    rw [e]
    exact this
  obtain ⟨hpos, hneg⟩ := hto _ hnK
  rcases le_total 0 n with h0 | h0
  · obtain ⟨a, b⟩ := hpos (by exact_mod_cast h0)
    have a2 : env.to_int ((n : Int) : K) ≤ n := by exact_mod_cast a
    have b2 : n < env.to_int ((n : Int) : K) + 1 := by exact_mod_cast b
    omega
  · obtain ⟨a, b⟩ := hneg (by exact_mod_cast h0)
    have a2 : n ≤ env.to_int ((n : Int) : K) := by exact_mod_cast a
    have b2 : env.to_int ((n : Int) : K) - 1 < n := by exact_mod_cast b
    omega

/-- The conversion to float of a value that lies half way between the
neighbouring single-precision values N0 * 2^k and (N0 + 1) * 2^k is one of the
two. -/
theorem libm.FloatNearest.to_float_tie {m : libm K} (hn : m.FloatNearest) (x : K) (N0 k : Int)
    (hN : |N0| < 2 ^ 24) (hk1 : -149 ≤ k) (hk2 : k ≤ 104)
    (hmid : x = ((N0 : K) + 1 / 2) * (2 : K) ^ k)
    (hbig : (2 : K) ^ (k + 23) + (2 : K) ^ k / 2 ≤ |x|) :
    m.to_float x = (N0 : K) * (2 : K) ^ k ∨ m.to_float x = ((N0 : K) + 1) * (2 : K) ^ k := by
  have h2 : (0 : K) < 2 := by norm_num
  have hpk : (0 : K) < (2 : K) ^ k := zpow_pos h2 k
  have hy0 : IsFloat32 ((N0 : K) * (2 : K) ^ k) := IsFloat32.of_scaled N0 k hN hk1 hk2
  obtain ⟨hf, hmin⟩ := hn x
  have hnear := hmin _ hy0
  have hd0 : |(N0 : K) * (2 : K) ^ k - x| = (2 : K) ^ k / 2 := by
    have : (N0 : K) * (2 : K) ^ k - x = -((2 : K) ^ k / 2) := by
      rw [hmid]
      ring
    rw [this, abs_neg, abs_of_pos (by positivity)]
  rw [hd0] at hnear
  have hfbig : (2 : K) ^ (k + 23) ≤ |m.to_float x| := by
    have h1 : |x| ≤ |m.to_float x| + |m.to_float x - x| := by
      have := abs_sub_abs_le_abs_sub x (m.to_float x)
      rw [abs_sub_comm x] at this
      linarith
    linarith
  obtain ⟨N, hNeq⟩ := hf.on_grid k hfbig
  have hdiff : |(N : K) - ((N0 : K) + 1 / 2)| * (2 : K) ^ k ≤ 1 / 2 * (2 : K) ^ k := by
    have e1 : ((N : K) - ((N0 : K) + 1 / 2)) * (2 : K) ^ k = m.to_float x - x := by
      rw [hNeq, hmid]
      ring
    have e2 : |(N : K) - ((N0 : K) + 1 / 2)| * (2 : K) ^ k =
        |((N : K) - ((N0 : K) + 1 / 2)) * (2 : K) ^ k| := by
      rw [abs_mul, abs_of_pos hpk]
    rw [e2, e1]
    linarith
  have hle : |(N : K) - ((N0 : K) + 1 / 2)| ≤ 1 / 2 := le_of_mul_le_mul_right hdiff hpk
  obtain ⟨l1, l2⟩ := abs_le.mp hle
  have g1 : N0 ≤ N := by
    have : ((N0 : Int) : K) ≤ ((N : Int) : K) := by linarith
    exact Int.cast_le.mp this
  have g2 : N ≤ N0 + 1 := by
    have : ((N : Int) : K) ≤ ((N0 + 1 : Int) : K) := by
      push_cast
      linarith
    exact Int.cast_le.mp this
  have hcases : N = N0 ∨ N = N0 + 1 := by omega
  rcases hcases with h | h
  · left
    rw [hNeq, h]
  · right
    rw [hNeq, h]
    push_cast
    ring

/-- The function normalizeShift with single-precision floats on the shift
33554440 = 2^25 + 8 and a texture of width and height 3, for either type of
the members width and height: the integer 11184813 * 3 = 33554439 is not a
single-precision value and is converted to 33554440, so the result is 0. -/
theorem normalizeShift_float_33554440 (env : qbsp_env K) (m : libm K)
    (hto : env.ToIntTruncates) (hn : m.FloatNearest) :
    normalizeShift env m (some (3, 3)) ⟨33554440, 33554440⟩ = ⟨0, 0⟩ := by
  have hint : env.to_int (33554440 : K) = 33554440 := by
    have := qbsp_env.to_int_intCast env hto 33554440 (by norm_num)
    push_cast at this
    exact this
  have hoff : ∀ b : Bool, normalizeShift_offset b 33554440 3 = 33554439 := by
    intro b
    cases b <;> decide
  have hfl : m.to_float (((33554439 : Int) : K)) = 33554440 := by
    have h := hn.to_float_eq (33554439 : K) 8388610 2 (by norm_num) (by norm_num) (by norm_num)
      (by norm_num [abs_lt, zpow_ofNat]) (by norm_num [zpow_ofNat, abs_of_pos])
    push_cast
    rw [h]
    norm_num [zpow_ofNat]
  have h0 : m.to_float (0 : K) = 0 := hn.of_isFloat32 IsFloat32.zero
  unfold normalizeShift
  dsimp only
  rw [hint, hoff, hfl, sub_self, h0]

/-- The function normalizeShift with single-precision floats on the shift
16777222 = 2^24 + 6 and a texture of width 3: the integer 5592407 * 3 =
16777221 lies half way between the single-precision values 16777220 and
16777222, so the result is 2 (when the conversion rounds to even) or 0. -/
theorem normalizeShift_float_16777222 (env : qbsp_env K) (m : libm K)
    (hto : env.ToIntTruncates) (hn : m.FloatNearest) :
    (normalizeShift env m (some (3, 3)) ⟨16777222, 16777222⟩).x = 2 ∨
    (normalizeShift env m (some (3, 3)) ⟨16777222, 16777222⟩).x = 0 := by
  have hint : env.to_int (16777222 : K) = 16777222 := by
    have := qbsp_env.to_int_intCast env hto 16777222 (by norm_num)
    push_cast at this
    exact this
  have hoff : ∀ b : Bool, normalizeShift_offset b 16777222 3 = 16777221 := by
    intro b
    cases b <;> decide
  have hfl : m.to_float (((16777221 : Int) : K)) = 16777220 ∨
      m.to_float (((16777221 : Int) : K)) = 16777222 := by
    have h := hn.to_float_tie (16777221 : K) 8388610 1 (by norm_num) (by norm_num) (by norm_num)
      (by norm_num [zpow_ofNat]) (by norm_num [zpow_ofNat, abs_of_pos])
    push_cast
    rcases h with h | h
    · left
      rw [h]
      norm_num [zpow_ofNat]
    · right
      rw [h]
      norm_num [zpow_ofNat]
  have h0 : m.to_float (0 : K) = 0 := hn.of_isFloat32 IsFloat32.zero
  have h2 : m.to_float (2 : K) = 2 := by
    have := hn.of_isFloat32 (IsFloat32.of_int (K := K) 2 (by norm_num))
    push_cast at this
    exact this
  unfold normalizeShift
  dsimp only
  rw [hint, hoff]
  rcases hfl with h | h
  · left
    rw [h]
    norm_num
    exact h2
  · right
    rw [h, sub_self, h0]

end shift_float_claims

section encoder_float_claims
variable {K : Type} [LinearOrderedField K]

/-- The base axes of the floor plane z = 0. -/
theorem TextureAxisFromPlane_floor (oldaxis : Bool) (dist : K) :
    TextureAxisFromPlane oldaxis ⟨⟨0, 0, 1⟩, dist⟩ = (⟨1, 0, 0⟩, ⟨0, -1, 0⟩, ⟨0, 0, 1⟩) := by
  cases oldaxis <;>
    norm_num [TextureAxisFromPlane, TextureAxisFromPlane_best, TextureAxisFromPlane_step,
      List.range, List.range.loop, baseaxis_at, baseaxis, qv.dot]

/-- The first component of the S axis that SetTexinfo_QuakeEd_New writes on the
floor plane, with single-precision floats: the reciprocal of the scale times the
cosine of the float angle, each converted to float. -/
theorem SetTexinfo_QuakeEd_New_floor_x (opts : qbsp_options_t K) (m : libm K)
    (hn : m.FloatNearest) (dist : K) (shift : qvec2 K) (rotate : K) (scale : qvec2 K)
    (hx : scale.x ≠ 0) :
    (SetTexinfo_QuakeEd_New opts m ⟨⟨0, 0, 1⟩, dist⟩ shift rotate scale).row0.x =
      m.to_float (m.to_float (1 / scale.x) *
        m.to_float (m.cos (m.to_float (m.to_float rotate * (m.pi / 180))))) := by
  have h0 : m.to_float (0 : K) = 0 := hn.of_isFloat32 IsFloat32.zero
  have h1 : m.to_float (1 : K) = 1 := by
    have := hn.of_isFloat32 (IsFloat32.of_int (K := K) 1 (by norm_num))
    push_cast at this
    exact this
  unfold SetTexinfo_QuakeEd_New
  rw [TextureAxisFromPlane_floor]
  simp [projectToAxisPlane, getSTAxes, qvec3.get, qvec2.to_float, qmat2x2.to_float,
    qmat2x2.cols, qmat2x2.mul, scale2x2, rotation2x2_deg, SetTexinfo_QuakeEd_New_copy,
    qvec3.set, qvec3.zero, h0, h1, hx, hn.idem]

/-- The first component of the S axis that SetTexinfo_QuakeEd writes on the
floor plane: the cosine of the angle divided by the scale. -/
theorem SetTexinfo_QuakeEd_floor_x (opts : qbsp_options_t K) (m : libm K) (dist : K)
    (pts : planepts_t K) (shift : qvec2 K) (rotate : K) (scale : qvec2 K) (hx : scale.x ≠ 0) :
    (SetTexinfo_QuakeEd opts m ⟨⟨0, 0, 1⟩, dist⟩ pts shift rotate scale).row0.x =
      m.cos (rotate / 180 * m.pi) / scale.x := by
  unfold SetTexinfo_QuakeEd
  rw [TextureAxisFromPlane_floor]
  simp [SetTexinfo_QuakeEd_rotate, qvec3.get, qvec3.set, hx]

/-- The angle of 1000000 degrees as a float: 1000000 * (pi / 180) lies between
17453.2925199 and 17453.2925200, and the nearest single-precision value is
17453.29296875 = 8936086 / 512. -/
theorem rotation2x2_deg_float_angle (m : libm ℝ) (hn : m.FloatNearest) :
    m.to_float (m.to_float 1000000 * (Real.pi / 180)) = 8936086 / 512 := by
  have h1 : m.to_float (1000000 : ℝ) = 1000000 := by
    have := hn.of_isFloat32 (IsFloat32.of_int (K := ℝ) 1000000 (by norm_num))
    push_cast at this
    exact this
  have e9 : (2 : ℝ) ^ (-9 : Int) = 1 / 512 := by
    rw [zpow_neg]
    norm_num [zpow_ofNat]
  have e14 : (2 : ℝ) ^ ((-9 : Int) + 23) = 16384 := by
    norm_num [zpow_ofNat]
  have hlo := Real.pi_gt_d20
  have hhi := Real.pi_lt_d20
  have hpos : (0 : ℝ) < 1000000 * (Real.pi / 180) := by positivity
  rw [h1]
  have h := hn.to_float_eq (1000000 * (Real.pi / 180)) 8936086 (-9) (by norm_num) (by norm_num)
    (by norm_num) (by
      rw [e9, abs_lt]
      push_cast
      constructor <;> linarith) (by
      rw [e14, e9, abs_of_pos hpos]
      linarith)
  rw [h, e9]
  push_cast
  ring

/-- The gap between the cosines of the double angle and of the float angle of
1000000 degrees. -/
theorem cos_float_angle_gap :
    Real.cos (1000000 / 180 * Real.pi) + 4398 / 10000000 < Real.cos (8936086 / 512) := by
  have hlo := Real.pi_gt_d20
  have hhi := Real.pi_lt_d20
  set a : ℝ := 1000000 / 180 * Real.pi with ha
  set r : ℝ := 8936086 / 512 with hr
  have hd1 : 224403 / 1000000000 < (r - a) / 2 := by
    rw [ha, hr]
    linarith
  have hd2 : (r - a) / 2 < 224404 / 1000000000 := by
    rw [ha, hr]
    linarith
  have hθ1 : 0 < Real.pi / 18 + (r - a) / 2 := by linarith
  have hθ2 : Real.pi / 18 + (r - a) / 2 < 175 / 1000 := by linarith
  have hsum : (r + a) / 2 =
      (Real.pi / 18 + (r - a) / 2 + Real.pi / 2 + Real.pi) + (2777 : ℕ) * (2 * Real.pi) := by
    rw [ha]
    push_cast
    ring
  have hsin1 : Real.sin ((r + a) / 2) = -Real.cos (Real.pi / 18 + (r - a) / 2) := by
    rw [hsum, Real.sin_add_nat_mul_two_pi, Real.sin_add_pi, Real.sin_add_pi_div_two]
  have hident : Real.cos r - Real.cos a =
      2 * Real.cos (Real.pi / 18 + (r - a) / 2) * Real.sin ((r - a) / 2) := by
    rw [Real.cos_sub_cos, hsin1]
    ring
  have hsinlow : 2244 / 10000000 < Real.sin ((r - a) / 2) := by
    have h0 : 0 < (r - a) / 2 := by linarith
    have hs := Real.sin_gt_sub_cube h0 (by linarith)
    have hcube : ((r - a) / 2) ^ 3 < (1 / 1000) ^ 3 :=
      pow_lt_pow_left₀ (by linarith) (le_of_lt h0) (by norm_num)
    have : ((1 : ℝ) / 1000) ^ 3 = 1 / 1000000000 := by norm_num
    rw [this] at hcube
    linarith
  have hcoslow : 98 / 100 < Real.cos (Real.pi / 18 + (r - a) / 2) := by
    have hc := Real.one_sub_sq_div_two_le_cos (x := Real.pi / 18 + (r - a) / 2)
    have hsq : (Real.pi / 18 + (r - a) / 2) ^ 2 < (175 / 1000) ^ 2 :=
      pow_lt_pow_left₀ hθ2 (le_of_lt hθ1) (by norm_num)
    have : ((175 : ℝ) / 1000) ^ 2 = 30625 / 1000000 := by norm_num
    rw [this] at hsq
    linarith
  have hprod : 98 / 100 * (2244 / 10000000) <
      Real.cos (Real.pi / 18 + (r - a) / 2) * Real.sin ((r - a) / 2) :=
    mul_lt_mul hcoslow (le_of_lt hsinlow) (by norm_num) (by linarith)
  have : Real.cos r - Real.cos a > 4398 / 10000000 := by
    rw [hident]
    linarith
  linarith

/-- The encoders on the floor plane with rotation 1000000 and scale (1/4, 1/4),
for a math library with the sine, cosine and pi of the real numbers and
single-precision floats: the first component of the S axis written by
SetTexinfo_QuakeEd_New exceeds that written by SetTexinfo_QuakeEd by more than
0.0017. -/
theorem SetTexinfo_QuakeEd_New_float_gap (opts : qbsp_options_t ℝ) (m : libm ℝ)
    (hn : m.FloatNearest) (hcos : m.cos = Real.cos) (hpi : m.pi = Real.pi) (dist : ℝ)
    (pts : planepts_t ℝ) (shift : qvec2 ℝ) :
    (SetTexinfo_QuakeEd opts m ⟨⟨0, 0, 1⟩, dist⟩ pts shift 1000000 ⟨1 / 4, 1 / 4⟩).row0.x +
        17 / 10000 <
      (SetTexinfo_QuakeEd_New opts m ⟨⟨0, 0, 1⟩, dist⟩ shift 1000000 ⟨1 / 4, 1 / 4⟩).row0.x := by
  have hx : (⟨1 / 4, 1 / 4⟩ : qvec2 ℝ).x ≠ 0 := by norm_num
  rw [SetTexinfo_QuakeEd_floor_x opts m dist pts shift 1000000 _ hx,
    SetTexinfo_QuakeEd_New_floor_x opts m hn dist shift 1000000 _ hx]
  dsimp only
  rw [hcos, hpi, rotation2x2_deg_float_angle m hn]
  have h4 : m.to_float ((1 : ℝ) / (1 / 4)) = 4 := by
    have := hn.of_isFloat32 (IsFloat32.of_int (K := ℝ) 4 (by norm_num))
    push_cast at this
    have e : (1 : ℝ) / (1 / 4) = 4 := by norm_num
    rw [e]
    exact this
  rw [h4]
  have e23 : (2 : ℝ) ^ (-23 : Int) = 1 / 8388608 := by
    rw [zpow_neg]
    norm_num [zpow_ofNat]
  have e20 : (2 : ℝ) ^ (-20 : Int) = 1 / 1048576 := by
    rw [zpow_neg]
    norm_num [zpow_ofNat]
  have hc1 := Real.abs_cos_le_one (8936086 / 512)
  have e0 : (2 : ℝ) ^ ((-23 : Int) + 23) = 1 := by norm_num
  have e3 : (2 : ℝ) ^ ((-20 : Int) + 23) = 8 := by norm_num [zpow_ofNat]
  have herr1 := hn.abs_error (Real.cos (8936086 / 512)) (-23) (by norm_num) (by norm_num)
    (by rw [e0]; exact hc1)
  rw [e23] at herr1
  obtain ⟨c1, c2⟩ := abs_le.mp herr1
  obtain ⟨d1, d2⟩ := abs_le.mp hc1
  have herr2 := hn.abs_error (4 * m.to_float (Real.cos (8936086 / 512))) (-20) (by norm_num)
    (by norm_num) (by
      rw [e3, abs_le]
      constructor <;> linarith)
  rw [e20] at herr2
  obtain ⟨f1, f2⟩ := abs_le.mp herr2
  have hgap := cos_float_angle_gap
  have hdiv : Real.cos (1000000 / 180 * Real.pi) / (1 / 4) =
      4 * Real.cos (1000000 / 180 * Real.pi) := by ring
  rw [hdiv]
  linarith

/-- C37 (the code at the failing input): the floor plane z = 0, shift (0, 0),
rotation 1000000 and scale (0.25, 0.25), with the sine and cosine of the real
numbers and single-precision floats.  SetTexinfo_QuakeEd computes the angle
1000000 / 180 * pi in double; rotation2x2_deg stores 1000000 * (pi / 180) in a
float, which is 17453.29296875, more than 0.0004 away.  The first components of
the S axes written by the two encoders differ by more than 0.0017, more than
the 0.001 that the self-test of SetTexinfo_QuakeEd allows.  The double
arithmetic of SetTexinfo_QuakeEd is taken as exact; the rounding of its result
when it is stored in the float matrix is below 0.000001. -/
theorem SetTexinfo_QuakeEd_New_float_differs :
    libm.real32.to_float (libm.real32.to_float 1000000 * (libm.real32.pi / 180)) =
      8936086 / 512 ∧
    0 < (1000000 : ℝ) / 180 * libm.real32.pi ∧
    (1000000 : ℝ) / 180 * libm.real32.pi + 4 / 10000 < 8936086 / 512 ∧
    (SetTexinfo_QuakeEd qbsp_options_t.sample libm.real32 ⟨⟨0, 0, 1⟩, 0⟩
        ⟨⟨0, 0, 0⟩, ⟨1, 0, 0⟩, ⟨0, 1, 0⟩⟩ ⟨0, 0⟩ 1000000 ⟨1 / 4, 1 / 4⟩).row0.x + 17 / 10000 <
      (SetTexinfo_QuakeEd_New qbsp_options_t.sample libm.real32 ⟨⟨0, 0, 1⟩, 0⟩ ⟨0, 0⟩ 1000000
        ⟨1 / 4, 1 / 4⟩).row0.x ∧
    1 / 1000 <
      |(SetTexinfo_QuakeEd_New qbsp_options_t.sample libm.real32 ⟨⟨0, 0, 1⟩, 0⟩ ⟨0, 0⟩ 1000000
          ⟨1 / 4, 1 / 4⟩).components.getD 0 0 -
        (SetTexinfo_QuakeEd qbsp_options_t.sample libm.real32 ⟨⟨0, 0, 1⟩, 0⟩
          ⟨⟨0, 0, 0⟩, ⟨1, 0, 0⟩, ⟨0, 1, 0⟩⟩ ⟨0, 0⟩ 1000000 ⟨1 / 4, 1 / 4⟩).components.getD 0 0| := by
  have hgap := SetTexinfo_QuakeEd_New_float_gap qbsp_options_t.sample libm.real32
    libm.real32_floatNearest rfl rfl 0 ⟨⟨0, 0, 0⟩, ⟨1, 0, 0⟩, ⟨0, 1, 0⟩⟩ ⟨0, 0⟩
  have hlo := Real.pi_gt_d20
  have hhi := Real.pi_lt_d20
  have hpi : libm.real32.pi = Real.pi := rfl
  refine ⟨rotation2x2_deg_float_angle libm.real32 libm.real32_floatNearest, ?_, ?_, hgap, ?_⟩
  · rw [hpi]
    positivity
  · rw [hpi]
    linarith
  · have hcomp : ∀ v : texvecf ℝ, v.components.getD 0 0 = v.row0.x := fun v => rfl
    rw [hcomp, hcomp, abs_of_pos (by linarith)]
    linarith

end encoder_float_claims

section decode_float_claims
variable {K : Type} [LinearOrderedField K]

/-- The texture vectors that SetTexinfo_QuakeEd writes on the floor plane. -/
theorem SetTexinfo_QuakeEd_floor (opts : qbsp_options_t K) (m : libm K) (dist : K)
    (pts : planepts_t K) (shift : qvec2 K) (rotate : K) (scale : qvec2 K) (hx : scale.x ≠ 0)
    (hy : scale.y ≠ 0) :
    SetTexinfo_QuakeEd opts m ⟨⟨0, 0, 1⟩, dist⟩ pts shift rotate scale =
      ⟨⟨m.cos (rotate / 180 * m.pi) / scale.x, m.sin (rotate / 180 * m.pi) / scale.x, 0,
          shift.x⟩,
        ⟨m.sin (rotate / 180 * m.pi) / scale.y, -m.cos (rotate / 180 * m.pi) / scale.y, 0,
          shift.y⟩⟩ := by
  unfold SetTexinfo_QuakeEd
  rw [TextureAxisFromPlane_floor]
  simp [SetTexinfo_QuakeEd_rotate, qvec3.get, qvec3.set, hx, hy]

/-- The matrix texPlaneToUV that TexDef_BSPToQuakeEd computes on the floor
plane from the reference points (0,0,0), (1,0,0), (0,1,0), with
single-precision floats: the first two components of the texture vectors,
converted to float. -/
theorem TexDef_BSPToQuakeEd_matrix_floor (m : libm K) (hn : m.FloatNearest) (a b c d : K) :
    TexDef_BSPToQuakeEd_matrix m ⟨0, 0, 1⟩
      (texVecsTo4x4Matrix m ⟨⟨0, 0, 1⟩, 0⟩ ⟨⟨a, b, 0, 0⟩, ⟨c, d, 0, 0⟩⟩)
      ⟨⟨0, 0, 0⟩, ⟨1, 0, 0⟩, ⟨0, 1, 0⟩⟩ =
      ⟨m.to_float a, m.to_float b, m.to_float c, m.to_float d⟩ := by
  have h0 : m.to_float (0 : K) = 0 := hn.of_isFloat32 IsFloat32.zero
  have h1 : m.to_float (1 : K) = 1 := by
    have := hn.of_isFloat32 (IsFloat32.of_int (K := K) 1 (by norm_num))
    push_cast at this
    exact this
  have hm1 : m.to_float (-1 : K) = -1 := by
    have := hn.of_isFloat32 (IsFloat32.of_int (K := K) (-1) (by norm_num))
    push_cast at this
    exact this
  unfold TexDef_BSPToQuakeEd_matrix
  simp [texcoords_at, texVecsTo4x4Matrix, qmat4x4.cols, qmat4x4.mulVec, projectToAxisPlane,
    getSTAxes, qvec3.get, qvec2.to_float, qvec2.sub, qvec4.to_float, qmat4x4.to_float,
    qmat4x4.inverse, qmat4x4.det, det3, qmat2x2.cols, h0, h1, hm1, hn.idem]

/-- The entries of the float rotation matrix are at most 1 + 2^-24 in absolute
value. -/
theorem rotation2x2_deg_float_bound (m : libm ℝ) (hn : m.FloatNearest)
    (hcos : m.cos = Real.cos) (hsin : m.sin = Real.sin) (degrees : ℝ) :
    ∃ c s : ℝ, |c| ≤ 1001 / 1000 ∧ |s| ≤ 1001 / 1000 ∧
      rotation2x2_deg m degrees = ⟨c, -s, s, c⟩ := by
  have e0 : (2 : ℝ) ^ ((-23 : Int) + 23) = 1 := by norm_num
  have e23 : (2 : ℝ) ^ (-23 : Int) = 1 / 8388608 := by
    rw [zpow_neg]
    norm_num [zpow_ofNat]
  have bound : ∀ x : ℝ, |x| ≤ 1 → |m.to_float x| ≤ 1001 / 1000 := by
    intro x hx
    have h := hn.abs_error x (-23) (by norm_num) (by norm_num) (by rw [e0]; exact hx)
    rw [e23] at h
    have h2 := abs_sub_abs_le_abs_sub (m.to_float x) x
    linarith
  refine ⟨m.to_float (m.cos (m.to_float (m.to_float degrees * (m.pi / 180)))),
    m.to_float (m.sin (m.to_float (m.to_float degrees * (m.pi / 180)))), ?_, ?_, ?_⟩
  · rw [hcos]
    exact bound _ (Real.abs_cos_le_one _)
  · rw [hsin]
    exact bound _ (Real.abs_sin_le_one _)
  · rfl

/-- The conversion to float of a value of size at most 2^-11 changes it by at
most 2^-35. -/
theorem to_float_small (m : libm ℝ) (hn : m.FloatNearest) (z : ℝ) (hz : |z| ≤ 1 / 2048) :
    |m.to_float z - z| ≤ 1 / 34359738368 := by
  have e11 : (2 : ℝ) ^ ((-34 : Int) + 23) = 1 / 2048 := by
    have : (-34 : Int) + 23 = -11 := by norm_num
    rw [this, zpow_neg]
    norm_num [zpow_ofNat]
  have e34 : (2 : ℝ) ^ (-34 : Int) = 1 / 17179869184 := by
    rw [zpow_neg]
    norm_num [zpow_ofNat]
  have h := hn.abs_error z (-34) (by norm_num) (by norm_num) (by rw [e11]; exact hz)
  rw [e34] at h
  have : (1 : ℝ) / 17179869184 / 2 = 1 / 34359738368 := by norm_num
  linarith

/-- The first sign guess of Reverse_QuakeEd on a matrix with small entries:
when the entries of the matrix and the float absolute scales are at most
1/3900 and 1/2700, every entry of the rebuilt matrix is within 0.001 of the
entry of the matrix, and the guess (-1, -1) is accepted. -/
theorem Reverse_QuakeEd_guess_small (m : libm ℝ) (hn : m.FloatNearest)
    (hcos : m.cos = Real.cos) (hsin : m.sin = Real.sin) (M flipRotate : qmat2x2 ℝ)
    (fa fb absXscale absYscale : ℝ)
    (h00 : |M.m00| ≤ 1 / 3900) (h01 : |M.m01| ≤ 1 / 3900) (h10 : |M.m10| ≤ 1 / 3900)
    (h11 : |M.m11| ≤ 1 / 3900) (hfa : |fa| ≤ 1 / 2700) (hfb : |fb| ≤ 1 / 2700) :
    ∃ g, Reverse_QuakeEd_guess m M (qmat2x2.cols fa 0 0 fb) flipRotate (qmat2x2.cols 1 0 0 (-1))
      absXscale absYscale (-1, -1) =
      some { rotate := g, scale := ⟨-1 / absXscale, -1 / absYscale⟩ } := by
  unfold Reverse_QuakeEd_guess
  dsimp only
  obtain ⟨c, s, hc, hs, hrot⟩ := rotation2x2_deg_float_bound m hn hcos hsin
    (extractRotation m (((qmat2x2.cols (-1) 0 0 (-1)).inverse.mul flipRotate).to_float m))
  rw [hrot]
  simp only [qmat2x2.mul, qmat2x2.cols, qmat2x2.to_float]
  have hz : ∀ a t : ℝ, |a| ≤ 1 / 2700 → |t| ≤ 1001 / 1000 → |a * t| ≤ 1 / 2690 := by
    intro a t ha ht
    rw [abs_mul]
    have := mul_le_mul ha ht (abs_nonneg t) (by norm_num)
    have e : (1 : ℝ) / 2700 * (1001 / 1000) ≤ 1 / 2690 := by norm_num
    linarith
  have key : ∀ x z : ℝ, |x| ≤ 1 / 3900 → |z| ≤ 1 / 2690 → |x - m.to_float z| < 1 / 1000 := by
    intro x z hx hz
    have h1 := to_float_small m hn z (by linarith [show (1 : ℝ) / 2690 ≤ 1 / 2048 by norm_num])
    have h2 := abs_sub_abs_le_abs_sub (m.to_float z) z
    have h3 := abs_sub x (m.to_float z)
    have e : (1 : ℝ) / 3900 + (1 / 2690 + 1 / 34359738368) < 1 / 1000 := by norm_num
    linarith
  have hc2 : |(-c)| ≤ 1001 / 1000 := by rwa [abs_neg]
  have hs2 : |(-s)| ≤ 1001 / 1000 := by rwa [abs_neg]
  rw [if_pos]
  · exact ⟨_, rfl⟩
  refine ⟨?_, ?_, ?_, ?_⟩
  · exact key _ _ h00 (le_of_eq_of_le (congrArg abs (by ring : _ = fa * (-c))) (hz _ _ hfa hc2))
  · exact key _ _ h10 (le_of_eq_of_le (congrArg abs (by ring : _ = fb * (-s))) (hz _ _ hfb hs2))
  · exact key _ _ h01 (le_of_eq_of_le (congrArg abs (by ring : _ = fa * (-s))) (hz _ _ hfa hs2))
  · exact key _ _ h11 (le_of_eq_of_le (congrArg abs (by ring : _ = fb * c)) (hz _ _ hfb hc))

/-- A matrix whose rows are nearly orthogonal passes the shear check of
Reverse_QuakeEd unchanged: the cosine of the angle between the rows is at most
0.001 in absolute value. -/
theorem Reverse_QuakeEd_shear_small (env : qbsp_env ℝ) (m : libm ℝ) (hsq : m.sqrt = Real.sqrt)
    (M : qmat2x2 ℝ) (preserveX : Bool) (hX : 0 < M.m00 ^ 2 + M.m01 ^ 2)
    (hY : 0 < M.m10 ^ 2 + M.m11 ^ 2)
    (h : 1000000 * (M.m00 * M.m10 + M.m01 * M.m11) ^ 2 ≤
      (M.m00 ^ 2 + M.m01 ^ 2) * (M.m10 ^ 2 + M.m11 ^ 2)) :
    Reverse_QuakeEd_shear env m M preserveX = some M := by
  have eX : qv2.dot (M.row 0) (M.row 0) = M.m00 ^ 2 + M.m01 ^ 2 := by
    simp only [qmat2x2.row, qv2.dot, if_true]
    ring
  have eY : qv2.dot (M.row 1) (M.row 1) = M.m10 ^ 2 + M.m11 ^ 2 := by
    simp only [qmat2x2.row, qv2.dot, if_false, one_ne_zero]
    ring
  have lX : 0 < Real.sqrt (M.m00 ^ 2 + M.m01 ^ 2) := Real.sqrt_pos.mpr hX
  have lY : 0 < Real.sqrt (M.m10 ^ 2 + M.m11 ^ 2) := Real.sqrt_pos.mpr hY
  have sX : Real.sqrt (M.m00 ^ 2 + M.m01 ^ 2) ^ 2 = M.m00 ^ 2 + M.m01 ^ 2 :=
    Real.sq_sqrt hX.le
  have sY : Real.sqrt (M.m10 ^ 2 + M.m11 ^ 2) ^ 2 = M.m10 ^ 2 + M.m11 ^ 2 :=
    Real.sq_sqrt hY.le
  unfold Reverse_QuakeEd_shear
  dsimp only
  rw [if_neg]
  rw [gt_iff_lt, not_lt]
  unfold qv2.normalize
  dsimp only
  rw [hsq, eX, eY, if_neg lX.ne', if_neg lY.ne']
  simp only [qmat2x2.row, qv2.dot, if_true, if_false, one_ne_zero]
  generalize Real.sqrt (M.m00 ^ 2 + M.m01 ^ 2) = a at lX sX ⊢
  generalize Real.sqrt (M.m10 ^ 2 + M.m11 ^ 2) = b at lY sY ⊢
  have e : M.m00 / a * (M.m10 / b) + M.m01 / a * (M.m11 / b) =
      (M.m00 * M.m10 + M.m01 * M.m11) / (a * b) := by
    field_simp
  rw [e, abs_div, abs_of_pos (mul_pos lX lY), div_le_iff₀ (mul_pos lX lY)]
  apply abs_le_of_sq_le_sq
  · rw [mul_pow, mul_pow, sX, sY]
    nlinarith [h]
  · positivity

/-- Reverse_QuakeEd on the floor plane for a matrix with small entries that
passes the shear check: the first sign guess (-1, -1) is accepted, and both
scales of the result are the negated reciprocals of the lengths of the rows. -/
theorem Reverse_QuakeEd_small_floor (env : qbsp_env ℝ) (opts : qbsp_options_t ℝ) (m : libm ℝ)
    (hn : m.FloatNearest) (hsq : m.sqrt = Real.sqrt) (hcos : m.cos = Real.cos)
    (hsin : m.sin = Real.sin) (M : qmat2x2 ℝ) (dist : ℝ) (preserveX : Bool)
    (hshear : Reverse_QuakeEd_shear env m M preserveX = some M)
    (h00 : |M.m00| ≤ 1 / 3900) (h01 : |M.m01| ≤ 1 / 3900) (h10 : |M.m10| ≤ 1 / 3900)
    (h11 : |M.m11| ≤ 1 / 3900) :
    ∃ g, Reverse_QuakeEd env opts m M ⟨⟨0, 0, 1⟩, dist⟩ preserveX =
      some { rotate := g, scale := ⟨-1 / Real.sqrt (M.m00 ^ 2 + M.m01 ^ 2),
        -1 / Real.sqrt (M.m10 ^ 2 + M.m11 ^ 2)⟩ } := by
  have f0 : m.to_float 0 = 0 := hn.of_isFloat32 IsFloat32.zero
  have f1 : m.to_float 1 = 1 := by
    have := hn.of_isFloat32 (IsFloat32.of_int (K := ℝ) 1 (by norm_num))
    simpa using this
  have fm1 : m.to_float (-1) = -1 := by
    have := hn.of_isFloat32 (IsFloat32.of_int (K := ℝ) (-1) (by norm_num))
    simpa using this
  have hsqrt : ∀ a b : ℝ, |a| ≤ 1 / 3900 → |b| ≤ 1 / 3900 →
      |m.to_float (Real.sqrt (a ^ 2 + b ^ 2))| ≤ 1 / 2700 := by
    intro a b ha hb
    have ha2 : a ^ 2 ≤ (1 / 3900) ^ 2 := by
      rw [← sq_abs a]
      exact pow_le_pow_left₀ (abs_nonneg a) ha 2
    have hb2 : b ^ 2 ≤ (1 / 3900) ^ 2 := by
      rw [← sq_abs b]
      exact pow_le_pow_left₀ (abs_nonneg b) hb 2
    have hs : Real.sqrt (a ^ 2 + b ^ 2) ≤ 1 / 2750 := by
      rw [Real.sqrt_le_iff]
      refine ⟨by norm_num, ?_⟩
      have : ((1 : ℝ) / 3900) ^ 2 + (1 / 3900) ^ 2 ≤ (1 / 2750) ^ 2 := by norm_num
      linarith
    have hs0 : 0 ≤ Real.sqrt (a ^ 2 + b ^ 2) := Real.sqrt_nonneg _
    have habs : |Real.sqrt (a ^ 2 + b ^ 2)| ≤ 1 / 2750 := by rwa [abs_of_nonneg hs0]
    have h1 := to_float_small m hn (Real.sqrt (a ^ 2 + b ^ 2))
      (by linarith [show (1 : ℝ) / 2750 ≤ 1 / 2048 by norm_num])
    have h2 := abs_sub_abs_le_abs_sub (m.to_float (Real.sqrt (a ^ 2 + b ^ 2)))
      (Real.sqrt (a ^ 2 + b ^ 2))
    have e : (1 : ℝ) / 2750 + 1 / 34359738368 ≤ 1 / 2700 := by norm_num
    linarith
  unfold Reverse_QuakeEd
  rw [hshear]
  dsimp only
  rw [TextureAxisFromPlane_floor, hsq]
  have eS : (projectToAxisPlane (⟨0, 0, 1⟩ : qvec3 ℝ) ⟨1, 0, 0⟩).to_float m = ⟨1, 0⟩ := by
    norm_num [projectToAxisPlane, getSTAxes, qvec3.get, qvec2.to_float, f0, f1]
  have eT : (projectToAxisPlane (⟨0, 0, 1⟩ : qvec3 ℝ) ⟨0, -1, 0⟩).to_float m = ⟨0, -1⟩ := by
    norm_num [projectToAxisPlane, getSTAxes, qvec3.get, qvec2.to_float, f0, fm1]
  dsimp only
  rw [eS, eT]
  dsimp only
  obtain ⟨g, hg⟩ := Reverse_QuakeEd_guess_small m hn hcos hsin M
    ((((qmat2x2.cols (m.to_float (Real.sqrt (M.m00 ^ 2 + M.m01 ^ 2))) 0 0
      (m.to_float (Real.sqrt (M.m10 ^ 2 + M.m11 ^ 2)))).inverse.mul M).mul
      (qmat2x2.cols 1 0 0 (-1)).inverse).to_float m)
    (m.to_float (Real.sqrt (M.m00 ^ 2 + M.m01 ^ 2)))
    (m.to_float (Real.sqrt (M.m10 ^ 2 + M.m11 ^ 2)))
    (Real.sqrt (M.m00 ^ 2 + M.m01 ^ 2)) (Real.sqrt (M.m10 ^ 2 + M.m11 ^ 2))
    h00 h01 h10 h11 (hsqrt _ _ h00 h01) (hsqrt _ _ h10 h11)
  rw [List.findSome?, hg]
  exact ⟨g, rfl⟩

/-- The float images of the entries of the matrix of a texture definition with
scale (4000, -4000): the rows have squared lengths between 1/4001^2 and
1/3999^2 and are nearly orthogonal. -/
theorem TexDef_BSPToQuakeEd_large_scale_rows (c0 s0 A B C D : ℝ) (hcs : s0 ^ 2 + c0 ^ 2 = 1)
    (hA : |A - c0 / 4000| ≤ 1 / 10000000000) (hB : |B - s0 / 4000| ≤ 1 / 10000000000)
    (hC : |C - s0 / (-4000)| ≤ 1 / 10000000000)
    (hD : |D - -c0 / (-4000)| ≤ 1 / 10000000000) :
    (1 / 4001) ^ 2 ≤ A ^ 2 + B ^ 2 ∧ A ^ 2 + B ^ 2 ≤ (1 / 3999) ^ 2 ∧
    (1 / 4001) ^ 2 ≤ C ^ 2 + D ^ 2 ∧ C ^ 2 + D ^ 2 ≤ (1 / 3999) ^ 2 ∧
    |A * C + B * D| ≤ 1 / 1000000000000 := by
  have hc1 : |c0| ≤ 1 := by
    apply abs_le_of_sq_le_sq _ (by norm_num)
    · nlinarith [sq_nonneg s0]
  have hs1 : |s0| ≤ 1 := by
    apply abs_le_of_sq_le_sq _ (by norm_num)
    · nlinarith [sq_nonneg c0]
  obtain ⟨c1, c2⟩ := abs_le.mp hc1
  obtain ⟨s1, s2⟩ := abs_le.mp hs1
  obtain ⟨a1, a2⟩ := abs_le.mp hA
  obtain ⟨b1, b2⟩ := abs_le.mp hB
  obtain ⟨d1, d2⟩ := abs_le.mp hC
  obtain ⟨e1, e2⟩ := abs_le.mp hD
  generalize hea : A - c0 / 4000 = ea at a1 a2
  generalize heb : B - s0 / 4000 = eb at b1 b2
  generalize hec : C - s0 / (-4000) = ec at d1 d2
  generalize hed : D - -c0 / (-4000) = ed at e1 e2
  have eA : A = c0 / 4000 + ea := by linarith
  have eB : B = s0 / 4000 + eb := by linarith
  have eC : C = -(s0 / 4000) + ec := by
    have : s0 / (-4000) = -(s0 / 4000) := by ring
    linarith
  have eD : D = c0 / 4000 + ed := by
    have : -c0 / (-4000) = c0 / 4000 := by ring
    linarith
  have prod : ∀ u v : ℝ, -1 ≤ u → u ≤ 1 → -(1 / 10000000000) ≤ v → v ≤ 1 / 10000000000 →
      -(1 / 10000000000) ≤ u * v ∧ u * v ≤ 1 / 10000000000 := by
    intro u v u1 u2 v1 v2
    have k1 := mul_nonneg (sub_nonneg.mpr u2) (sub_nonneg.mpr v2)
    have k2 := mul_nonneg (sub_nonneg.mpr u1) (sub_nonneg.mpr v1)
    have k3 := mul_nonneg (sub_nonneg.mpr u2) (sub_nonneg.mpr v1)
    have k4 := mul_nonneg (sub_nonneg.mpr u1) (sub_nonneg.mpr v2)
    constructor
    · linarith only [k1, k2]
    · linarith only [k3, k4]
  have prod2 : ∀ u v : ℝ, -(1 / 10000000000) ≤ u → u ≤ 1 / 10000000000 →
      -(1 / 10000000000) ≤ v → v ≤ 1 / 10000000000 →
      -(1 / 100000000000000000000) ≤ u * v ∧ u * v ≤ 1 / 100000000000000000000 := by
    intro u v u1 u2 v1 v2
    have k1 := mul_nonneg (sub_nonneg.mpr u2) (sub_nonneg.mpr v2)
    have k2 := mul_nonneg (sub_nonneg.mpr u1) (sub_nonneg.mpr v1)
    have k3 := mul_nonneg (sub_nonneg.mpr u2) (sub_nonneg.mpr v1)
    have k4 := mul_nonneg (sub_nonneg.mpr u1) (sub_nonneg.mpr v2)
    constructor
    · linarith only [k1, k2]
    · linarith only [k3, k4]
  obtain ⟨p1, p2⟩ := prod c0 ea c1 c2 a1 a2
  obtain ⟨p3, p4⟩ := prod s0 eb s1 s2 b1 b2
  obtain ⟨p5, p6⟩ := prod s0 ec s1 s2 d1 d2
  obtain ⟨p7, p8⟩ := prod c0 ed c1 c2 e1 e2
  obtain ⟨q1, q2⟩ := prod2 ea ea a1 a2 a1 a2
  obtain ⟨q3, q4⟩ := prod2 eb eb b1 b2 b1 b2
  obtain ⟨q5, q6⟩ := prod2 ec ec d1 d2 d1 d2
  obtain ⟨q7, q8⟩ := prod2 ed ed e1 e2 e1 e2
  obtain ⟨r1, r2⟩ := prod2 ea ec a1 a2 d1 d2
  obtain ⟨r3, r4⟩ := prod2 eb ed b1 b2 e1 e2
  obtain ⟨t1, t2⟩ := prod c0 ec c1 c2 d1 d2
  obtain ⟨t3, t4⟩ := prod s0 ea s1 s2 a1 a2
  obtain ⟨t5, t6⟩ := prod s0 ed s1 s2 e1 e2
  obtain ⟨t7, t8⟩ := prod c0 eb c1 c2 b1 b2
  have xA : A ^ 2 + B ^ 2 =
      (s0 ^ 2 + c0 ^ 2) / 16000000 + (c0 * ea + s0 * eb) / 2000 + (ea * ea + eb * eb) := by
    rw [eA, eB]
    ring
  have xC : C ^ 2 + D ^ 2 =
      (s0 ^ 2 + c0 ^ 2) / 16000000 + (c0 * ed - s0 * ec) / 2000 + (ec * ec + ed * ed) := by
    rw [eC, eD]
    ring
  have xD : A * C + B * D =
      (c0 * ec - s0 * ea + s0 * ed + c0 * eb) / 4000 + (ea * ec + eb * ed) := by
    rw [eA, eB, eC, eD]
    ring
  rw [xA, xC, xD, hcs]
  have n1 : ((1 : ℝ) / 4001) ^ 2 ≤ 1 / 16000000 - 1 / 1000000000000 := by norm_num
  have n2 : (1 : ℝ) / 16000000 + 1 / 1000000000000 ≤ (1 / 3999) ^ 2 := by norm_num
  refine ⟨?_, ?_, ?_, ?_, ?_⟩
  · linarith only [n1, p1, p3, q1, q3]
  · linarith only [n2, p2, p4, q2, q4]
  · linarith only [n1, p7, p6, q5, q7]
  · linarith only [n2, p8, p5, q6, q8]
  · rw [abs_le]
    constructor
    · linarith only [t1, t4, t5, t7, r1, r3]
    · linarith only [t2, t3, t6, t8, r2, r4]

/-- Decoding a texture definition with scale (4000, -4000) on the floor plane
with single-precision floats: for every rotation the decoder accepts its first
sign guess, and both scales of the result are negative, within 1 of -4000. -/
theorem TexDef_BSPToQuakeEd_large_scale_floor (env : qbsp_env ℝ) (opts : qbsp_options_t ℝ)
    (m : libm ℝ) (hn : m.FloatNearest) (hsq : m.sqrt = Real.sqrt) (hcos : m.cos = Real.cos)
    (hsin : m.sin = Real.sin) (texture : Option (Int × Int)) (rotate : ℝ) :
    ∃ res, TexDef_BSPToQuakeEd env opts m ⟨⟨0, 0, 1⟩, 0⟩ texture
        (SetTexinfo_QuakeEd opts m ⟨⟨0, 0, 1⟩, 0⟩ ⟨⟨0, 0, 0⟩, ⟨1, 0, 0⟩, ⟨0, 1, 0⟩⟩ ⟨0, 0⟩ rotate
          ⟨4000, -4000⟩)
        ⟨⟨0, 0, 0⟩, ⟨1, 0, 0⟩, ⟨0, 1, 0⟩⟩ = some res ∧
      -4001 ≤ res.scale.x ∧ res.scale.x ≤ -3999 ∧
      -4001 ≤ res.scale.y ∧ res.scale.y ≤ -3999 := by
  rw [SetTexinfo_QuakeEd_floor opts m 0 _ ⟨0, 0⟩ rotate ⟨4000, -4000⟩ (by norm_num)
    (by norm_num)]
  dsimp only
  rw [hcos, hsin]
  generalize hc0 : Real.cos (rotate / 180 * m.pi) = c0
  generalize hs0 : Real.sin (rotate / 180 * m.pi) = s0
  have hcs : s0 ^ 2 + c0 ^ 2 = 1 := by
    rw [← hc0, ← hs0]
    exact Real.sin_sq_add_cos_sq _
  have hc1 : |c0| ≤ 1 := by
    rw [← hc0]
    exact Real.abs_cos_le_one _
  have hs1 : |s0| ≤ 1 := by
    rw [← hs0]
    exact Real.abs_sin_le_one _
  have small : ∀ u d : ℝ, |u| ≤ 1 → (d = 4000 ∨ d = -4000) →
      |m.to_float (u / d) - u / d| ≤ 1 / 10000000000 ∧ |m.to_float (u / d)| ≤ 1 / 3900 := by
    intro u d hu hd
    have hud : |u / d| ≤ 1 / 4000 := by
      rw [abs_div]
      have hd4 : |d| = 4000 := by
        rcases hd with rfl | rfl <;> norm_num [abs_of_pos, abs_of_neg]
      rw [hd4]
      exact div_le_div_of_nonneg_right hu (by norm_num)
    have h1 := to_float_small m hn (u / d)
      (by linarith only [hud, show (1 : ℝ) / 4000 ≤ 1 / 2048 by norm_num])
    have h2 := abs_sub_abs_le_abs_sub (m.to_float (u / d)) (u / d)
    constructor
    · linarith only [h1, show (1 : ℝ) / 34359738368 ≤ 1 / 10000000000 by norm_num]
    · linarith only [h1, h2, hud,
        show (1 : ℝ) / 4000 + 1 / 34359738368 ≤ 1 / 3900 by norm_num]
  have hmc1 : |(-c0)| ≤ 1 := by rwa [abs_neg]
  obtain ⟨hA, bA⟩ := small c0 4000 hc1 (Or.inl rfl)
  obtain ⟨hB, bB⟩ := small s0 4000 hs1 (Or.inl rfl)
  obtain ⟨hC, bC⟩ := small s0 (-4000) hs1 (Or.inr rfl)
  obtain ⟨hD, bD⟩ := small (-c0) (-4000) hmc1 (Or.inr rfl)
  obtain ⟨lx1, lx2, ly1, ly2, horth⟩ := TexDef_BSPToQuakeEd_large_scale_rows c0 s0 _ _ _ _ hcs hA hB hC hD
  unfold TexDef_BSPToQuakeEd
  dsimp only
  rw [TextureAxisFromPlane_floor]
  dsimp only
  rw [TexDef_BSPToQuakeEd_matrix_floor m hn]
  generalize m.to_float (c0 / 4000) = A at *
  generalize m.to_float (s0 / 4000) = B at *
  generalize m.to_float (s0 / (-4000)) = C at *
  generalize m.to_float (-c0 / (-4000)) = D at *
  have pX : 0 < A ^ 2 + B ^ 2 := lt_of_lt_of_le (by norm_num) lx1
  have pY : 0 < C ^ 2 + D ^ 2 := lt_of_lt_of_le (by norm_num) ly1
  have hshear : Reverse_QuakeEd_shear env m ⟨A, B, C, D⟩ false = some ⟨A, B, C, D⟩ := by
    apply Reverse_QuakeEd_shear_small env m hsq _ _ pX pY
    show 1000000 * (A * C + B * D) ^ 2 ≤ (A ^ 2 + B ^ 2) * (C ^ 2 + D ^ 2)
    have h1 : (A * C + B * D) ^ 2 ≤ (1 / 1000000000000) ^ 2 := by
      rw [← sq_abs (A * C + B * D)]
      exact pow_le_pow_left₀ (abs_nonneg _) horth 2
    have h2 : ((1 : ℝ) / 4001) ^ 2 * (1 / 4001) ^ 2 ≤ (A ^ 2 + B ^ 2) * (C ^ 2 + D ^ 2) :=
      mul_le_mul lx1 ly1 (by norm_num) pX.le
    have h3 : (1000000 : ℝ) * (1 / 1000000000000) ^ 2 ≤ (1 / 4001) ^ 2 * (1 / 4001) ^ 2 := by
      norm_num
    linarith only [h1, h2, h3]
  obtain ⟨g, hg⟩ := Reverse_QuakeEd_small_floor env opts m hn hsq hcos hsin ⟨A, B, C, D⟩ 0 false
    hshear bA bB bC bD
  have recip : ∀ x : ℝ, (1 / 4001) ^ 2 ≤ x → x ≤ (1 / 3999) ^ 2 →
      -4001 ≤ -1 / Real.sqrt x ∧ -1 / Real.sqrt x ≤ -3999 := by
    intro x x1 x2
    have s1 : 1 / 4001 ≤ Real.sqrt x := Real.le_sqrt_of_sq_le x1
    have s2 : Real.sqrt x ≤ 1 / 3999 := by
      rw [Real.sqrt_le_iff]
      exact ⟨by norm_num, x2⟩
    have sp : 0 < Real.sqrt x := lt_of_lt_of_le (by norm_num) s1
    constructor
    · rw [le_div_iff₀ sp]
      linarith only [s1]
    · rw [div_le_iff₀ sp]
      linarith only [s2]
  rw [hg]
  dsimp only
  refine ⟨_, rfl, ?_⟩
  simp only [addShift]
  obtain ⟨r1, r2⟩ := recip _ lx1 lx2
  obtain ⟨r3, r4⟩ := recip _ ly1 ly2
  exact ⟨r1, r2, r3, r4⟩

/-- C2 (the code at the failing input): the plane z = 0 with the points
(0,0,0), (1,0,0), (0,1,0), shift (0,0), rotation 45 and scale (4000,-4000), all
within the conditions of the claim, decoded with single-precision floats (the
conversion to float returns a nearest float).  TexDef_BSPToQuakeEd applied to
the vectors written by SetTexinfo_QuakeEd returns a texture definition whose
scales are both negative, each within 1 of -4000: the first sign guess (-1,-1)
of Reverse_QuakeEd passes the 0.001 test, because the entries of both matrices
have size 1/4000.  The scale is within 0.001 neither of the input scale
(4000,-4000) nor of its negation (-4000,4000). -/
theorem TexDef_BSPToQuakeEd_float_large_scale :
    qv.dot (⟨0, 0, 1⟩ : qvec3 ℝ) ⟨0, 0, 1⟩ = 1 ∧
    qv.cross ((⟨1, 0, 0⟩ : qvec3 ℝ).sub ⟨0, 0, 0⟩) ((⟨0, 1, 0⟩ : qvec3 ℝ).sub ⟨0, 0, 0⟩) ≠
      qvec3.zero ∧
    ∃ res, TexDef_BSPToQuakeEd qbsp_env.sample qbsp_options_t.sample libm.real32
        ⟨⟨0, 0, 1⟩, 0⟩ none
        (SetTexinfo_QuakeEd qbsp_options_t.sample libm.real32 ⟨⟨0, 0, 1⟩, 0⟩
          ⟨⟨0, 0, 0⟩, ⟨1, 0, 0⟩, ⟨0, 1, 0⟩⟩ ⟨0, 0⟩ 45 ⟨4000, -4000⟩)
        ⟨⟨0, 0, 0⟩, ⟨1, 0, 0⟩, ⟨0, 1, 0⟩⟩ = some res ∧
      -4001 ≤ res.scale.x ∧ res.scale.x ≤ -3999 ∧
      -4001 ≤ res.scale.y ∧ res.scale.y ≤ -3999 ∧
      ¬ (|res.scale.x - 4000| ≤ 1 / 1000 ∧ |res.scale.y - -4000| ≤ 1 / 1000) ∧
      ¬ (|res.scale.x - -4000| ≤ 1 / 1000 ∧ |res.scale.y - 4000| ≤ 1 / 1000) := by
  refine ⟨by norm_num [qv.dot], by norm_num [qv.cross, qvec3.sub, qvec3.zero], ?_⟩
  obtain ⟨res, hres, x1, x2, y1, y2⟩ :=
    TexDef_BSPToQuakeEd_large_scale_floor qbsp_env.sample qbsp_options_t.sample libm.real32
      libm.real32_floatNearest rfl rfl rfl none 45
  refine ⟨res, hres, x1, x2, y1, y2, ?_, ?_⟩
  · rintro ⟨h, _⟩
    have := (abs_le.mp h).1
    linarith
  · rintro ⟨_, h⟩
    have := (abs_le.mp h).1
    linarith

end decode_float_claims

section shift_amended_claims
variable {K : Type} [LinearOrderedField K]

/-- Subtracting an integer from a single-precision value below 2^24 gives a
single-precision value when the difference is not larger in absolute value than
the value. -/
theorem IsFloat32.sub_int {x : K} (hx : IsFloat32 x) (hb : |x| < 2 ^ 24) (P : Int)
    (hP : |x - (P : K)| ≤ |x|) : IsFloat32 (x - (P : K)) := by
  obtain ⟨n, e, hn, he1, he2, rfl⟩ := hx
  have h2 : (0 : K) < 2 := by norm_num
  by_cases he : 0 ≤ e
  · obtain ⟨k, rfl⟩ := Int.eq_ofNat_of_zero_le he
    have ex : (n : K) * (2 : K) ^ ((k : Nat) : Int) - (P : K) = ((n * 2 ^ k - P : Int) : K) := by
      rw [zpow_natCast]
      push_cast
      ring
    rw [ex]
    apply IsFloat32.of_int
    have h1 : |((n * 2 ^ k - P : Int) : K)| < 2 ^ 24 := by
      rw [← ex]
      exact lt_of_le_of_lt hP hb
    have h3 : ((|n * 2 ^ k - P| : Int) : K) < ((2 ^ 24 : Int) : K) := by
      have e : (2 : K) ^ 24 = 16777216 := by norm_num
      push_cast
      push_cast at h1
      rw [e] at h1
      exact h1
    exact Int.cast_lt.mp h3
  · have hneg : 0 ≤ -e := by omega
    obtain ⟨k, hk⟩ := Int.eq_ofNat_of_zero_le hneg
    have hpe : (0 : K) < (2 : K) ^ e := zpow_pos h2 e
    have hinv : (2 : K) ^ k * (2 : K) ^ e = 1 := by
      rw [← zpow_natCast, ← hk, ← zpow_add₀ h2.ne']
      simp
    have ex : (n : K) * (2 : K) ^ e - (P : K) = ((n - P * 2 ^ k : Int) : K) * (2 : K) ^ e := by
      push_cast
      have : (P : K) = (P : K) * ((2 : K) ^ k * (2 : K) ^ e) := by rw [hinv, mul_one]
      rw [sub_mul, mul_assoc, ← this]
    rw [ex]
    apply IsFloat32.of_scaled _ _ _ he1 he2
    have h1 : |((n - P * 2 ^ k : Int) : K)| * (2 : K) ^ e ≤ |(n : K)| * (2 : K) ^ e := by
      have a1 : |((n - P * 2 ^ k : Int) : K)| * (2 : K) ^ e =
          |((n - P * 2 ^ k : Int) : K) * (2 : K) ^ e| := by
        rw [abs_mul, abs_of_pos hpe]
      have a2 : |(n : K)| * (2 : K) ^ e = |(n : K) * (2 : K) ^ e| := by
        rw [abs_mul, abs_of_pos hpe]
      rw [a1, a2, ← ex]
      exact hP
    have h3 : |((n - P * 2 ^ k : Int) : K)| ≤ |(n : K)| := le_of_mul_le_mul_right h1 hpe
    have h4 : ((|n - P * 2 ^ k| : Int) : K) ≤ ((|n| : Int) : K) := by
      push_cast
      push_cast at h3
      exact h3
    have h5 : |n - P * 2 ^ k| ≤ |n| := Int.cast_le.mp h4
    exact lt_of_le_of_lt h5 hn

/-- For a non-negative value of the cast to int, the unsigned computation of
the offset gives the same as the computation with ints. -/
theorem normalizeShift_offset_nonneg (b : Bool) (t w : Int) (ht : 0 ≤ t) (ht2 : t < 2 ^ 31)
    (hw : 0 < w) : normalizeShift_offset b t w = Int.tdiv t w * w := by
  cases b
  · rfl
  · unfold normalizeShift_offset
    rw [if_pos rfl]
    dsimp only
    have e1 : t % 2 ^ 32 = t := Int.emod_eq_of_lt ht (by omega)
    rw [e1, Int.tdiv_eq_ediv ht hw.le]
    have q0 : 0 ≤ t / w := Int.ediv_nonneg ht hw.le
    have q1 : t / w * w ≤ t := Int.ediv_mul_le t hw.ne'
    have q2 : t / w ≤ t := by nlinarith
    rw [if_pos (by omega)]
    have e2 : t / w % 2 ^ 32 = t / w := Int.emod_eq_of_lt q0 (by omega)
    rw [e2]
    exact Int.emod_eq_of_lt (by positivity) (by omega)

/-- One component of normalizeShift with single-precision floats, for a
single-precision shift below 2^24 in absolute value (non-negative if the
members of the texture metadata are unsigned): the product of the offsets and
the width is an integer between 0 and the shift, so that its conversion to
float and the difference are exact. -/
theorem normalizeShift_float_component (env : qbsp_env K) (m : libm K)
    (hto : env.ToIntTruncates) (hn : m.FloatNearest) (w : Int) (hw : 0 < w) (x : K)
    (hx : IsFloat32 x) (hb : |x| < 2 ^ 24)
    (hsign : env.texture_meta_unsigned = false ∨ 0 ≤ x) :
    m.to_float (x - m.to_float
      ((normalizeShift_offset env.texture_meta_unsigned (env.to_int x) w : Int) : K)) =
      x - ((Int.tdiv (env.to_int x) w * w : Int) : K) ∧
    IsFloat32 (x - ((Int.tdiv (env.to_int x) w * w : Int) : K)) ∧
    |x - ((Int.tdiv (env.to_int x) w * w : Int) : K)| ≤ |x| ∧
    (0 ≤ x → 0 ≤ x - ((Int.tdiv (env.to_int x) w * w : Int) : K)) := by
  have e24 : (2 : K) ^ 24 = 16777216 := by norm_num
  have e31 : (2 : K) ^ 31 = 2147483648 := by norm_num
  have hb31 : |x| < 2 ^ 31 := by
    rw [e31]
    rw [e24] at hb
    linarith
  obtain ⟨hpos, hneg⟩ := hto x hb31
  obtain ⟨rpos, rneg⟩ := tdiv_remainder (env.to_int x) w hw
  -- the offset is the product of the truncated quotient and the width
  have hoff : normalizeShift_offset env.texture_meta_unsigned (env.to_int x) w =
      Int.tdiv (env.to_int x) w * w := by
    rcases hsign with hs | h0
    · rw [hs]
      rfl
    · obtain ⟨a1, a2⟩ := hpos h0
      have ht : 0 ≤ env.to_int x := by
        have : (-1 : K) < ((env.to_int x : Int) : K) := by linarith
        have : (-1 : Int) < env.to_int x := by exact_mod_cast this
        omega
      have ht2 : env.to_int x < 2 ^ 31 := by
        have h1 : ((env.to_int x : Int) : K) < 2147483648 := by
          have := (abs_lt.mp hb31).2
          rw [e31] at this
          linarith
        have : env.to_int x < (2147483648 : Int) := by exact_mod_cast h1
        omega
      exact normalizeShift_offset_nonneg _ _ _ ht ht2 hw
  rw [hoff]
  generalize hP : Int.tdiv (env.to_int x) w * w = P at rpos rneg
  generalize env.to_int x = t at hpos hneg rpos rneg hP
  -- the product lies between 0 and the shift
  have hbetween : (0 ≤ x → 0 ≤ (P : K) ∧ (P : K) ≤ x) ∧ (x ≤ 0 → x ≤ (P : K) ∧ (P : K) ≤ 0) := by
    constructor
    · intro h0
      obtain ⟨a1, a2⟩ := hpos h0
      have ht : 0 ≤ t := by
        have : (-1 : K) < (t : K) := by linarith
        have : (-1 : Int) < t := by exact_mod_cast this
        omega
      obtain ⟨b1, b2⟩ := rpos ht
      have hP0 : 0 ≤ P := by
        rw [← hP]
        exact mul_nonneg (Int.tdiv_nonneg ht hw.le) hw.le
      have hPt : P ≤ t := by omega
      have c1 : (0 : K) ≤ (P : K) := by exact_mod_cast hP0
      have c2 : (P : K) ≤ (t : K) := by exact_mod_cast hPt
      exact ⟨c1, by linarith⟩
    · intro h0
      obtain ⟨a1, a2⟩ := hneg h0
      have ht : t ≤ 0 := by
        have : (t : K) < 1 := by linarith
        have : t < (1 : Int) := by exact_mod_cast this
        omega
      obtain ⟨b1, b2⟩ := rneg ht
      have hP0 : P ≤ 0 := by
        have h1 : Int.tdiv (-t) w * w = -P := by
          rw [Int.neg_tdiv, ← hP]
          ring
        have h2 : 0 ≤ Int.tdiv (-t) w * w :=
          mul_nonneg (Int.tdiv_nonneg (by omega) hw.le) hw.le
        omega
      have hPt : t ≤ P := by omega
      have c1 : (P : K) ≤ 0 := by exact_mod_cast hP0
      have c2 : (t : K) ≤ (P : K) := by exact_mod_cast hPt
      exact ⟨by linarith, c1⟩
  have hdiff : |x - (P : K)| ≤ |x| := by
    rcases le_total 0 x with h0 | h0
    · obtain ⟨c1, c2⟩ := hbetween.1 h0
      rw [abs_of_nonneg h0, abs_of_nonneg (by linarith)]
      linarith
    · obtain ⟨c1, c2⟩ := hbetween.2 h0
      rw [abs_of_nonpos h0, abs_of_nonpos (by linarith)]
      linarith
  have hPabs : |(P : K)| ≤ |x| := by
    rcases le_total 0 x with h0 | h0
    · obtain ⟨c1, c2⟩ := hbetween.1 h0
      rw [abs_of_nonneg h0, abs_of_nonneg c1]
      exact c2
    · obtain ⟨c1, c2⟩ := hbetween.2 h0
      rw [abs_of_nonpos h0, abs_of_nonpos c2]
      linarith
  have hPint : |P| < 2 ^ 24 := by
    have h1 : ((|P| : Int) : K) < ((2 ^ 24 : Int) : K) := by
      push_cast
      rw [e24] at hb
      linarith
    exact Int.cast_lt.mp h1
  have hflP : m.to_float ((P : Int) : K) = (P : K) := hn.of_isFloat32 (IsFloat32.of_int P hPint)
  have hfd : IsFloat32 (x - (P : K)) := hx.sub_int hb P hdiff
  rw [hflP, hn.of_isFloat32 hfd]
  refine ⟨rfl, hfd, hdiff, ?_⟩
  intro h0
  obtain ⟨c1, c2⟩ := hbetween.1 h0
  linarith

/-- C21 (amended): normalizeShift with single-precision floats.  It returns its
input when no texture metadata is given.  For a texture of positive width and
height and a single-precision shift whose components are smaller than 2^24 in
absolute value (and non-negative, if the members width and height of the
texture metadata are unsigned), each component of the result is the input
component minus an integer multiple of the width (height), is smaller in
absolute value than the width (height), and normalising the result again returns
it unchanged. -/
theorem normalizeShift_float_spec (env : qbsp_env K) (m : libm K) (hto : env.ToIntTruncates)
    (hn : m.FloatNearest) (v : qvec2 K) (w h : Int) (hw : 0 < w) (hh : 0 < h)
    (hw2 : w < 2 ^ 31) (hh2 : h < 2 ^ 31) (hfx : IsFloat32 v.x) (hfy : IsFloat32 v.y)
    (hx : |v.x| < 2 ^ 24) (hy : |v.y| < 2 ^ 24)
    (hsign : env.texture_meta_unsigned = false ∨ (0 ≤ v.x ∧ 0 ≤ v.y)) :
    normalizeShift env m none v = v ∧
    (∃ k : Int, (normalizeShift env m (some (w, h)) v).x = v.x - (k : K) * (w : K)) ∧
    (∃ k : Int, (normalizeShift env m (some (w, h)) v).y = v.y - (k : K) * (h : K)) ∧
    |(normalizeShift env m (some (w, h)) v).x| < (w : K) ∧
    |(normalizeShift env m (some (w, h)) v).y| < (h : K) ∧
    normalizeShift env m (some (w, h)) (normalizeShift env m (some (w, h)) v) =
      normalizeShift env m (some (w, h)) v := by
  have e24 : (2 : K) ^ 24 = 16777216 := by norm_num
  have e31 : (2 : K) ^ 31 = 2147483648 := by norm_num
  have hsx : env.texture_meta_unsigned = false ∨ 0 ≤ v.x := hsign.imp id (fun a => a.1)
  have hsy : env.texture_meta_unsigned = false ∨ 0 ≤ v.y := hsign.imp id (fun a => a.2)
  obtain ⟨fx, gx, bx, px⟩ := normalizeShift_float_component env m hto hn w hw v.x hfx hx hsx
  obtain ⟨fy, gy, by1, py⟩ := normalizeShift_float_component env m hto hn h hh v.y hfy hy hsy
  have hx31 : |v.x| < 2 ^ 31 := by
    rw [e31]
    rw [e24] at hx
    linarith
  have hy31 : |v.y| < 2 ^ 31 := by
    rw [e31]
    rw [e24] at hy
    linarith
  obtain ⟨x1, x2⟩ := normalizeShift_component env hto w hw hw2 v.x hx31
  obtain ⟨y1, y2⟩ := normalizeShift_component env hto h hh hh2 v.y hy31
  have hdef : normalizeShift env m (some (w, h)) v =
      ⟨v.x - ((Int.tdiv (env.to_int v.x) w * w : Int) : K),
        v.y - ((Int.tdiv (env.to_int v.y) h * h : Int) : K)⟩ := by
    unfold normalizeShift
    dsimp only
    rw [fx, fy]
  rw [hdef]
  refine ⟨rfl, ⟨Int.tdiv (env.to_int v.x) w, ?_⟩, ⟨Int.tdiv (env.to_int v.y) h, ?_⟩, x1, y1, ?_⟩
  · dsimp only
    push_cast
    ring
  · dsimp only
    push_cast
    ring
  · -- the second application subtracts nothing
    generalize hrx : v.x - ((Int.tdiv (env.to_int v.x) w * w : Int) : K) = rx at *
    generalize hry : v.y - ((Int.tdiv (env.to_int v.y) h * h : Int) : K) = ry at *
    have hsx2 : env.texture_meta_unsigned = false ∨ 0 ≤ rx :=
      hsign.imp id (fun a => px a.1)
    have hsy2 : env.texture_meta_unsigned = false ∨ 0 ≤ ry :=
      hsign.imp id (fun a => py a.2)
    obtain ⟨fx2, -, -, -⟩ := normalizeShift_float_component env m hto hn w hw rx gx
      (lt_of_le_of_lt bx hx) hsx2
    obtain ⟨fy2, -, -, -⟩ := normalizeShift_float_component env m hto hn h hh ry gy
      (lt_of_le_of_lt by1 hy) hsy2
    unfold normalizeShift
    dsimp only
    rw [fx2, fy2, x2, y2]
    simp

/-- C21 (witness): the texture of width and height 64 and the single-precision
shift (-100.5, 130.25), with single-precision floats, the truncating conversion
to int and int members of the texture metadata: the first component of the
result is -100.5 minus a multiple of 64 and smaller than 64 in absolute value,
and normalising again changes nothing. -/
theorem normalizeShift_float_spec_witness :
    (qbsp_env.sample_trunc : qbsp_env ℝ).ToIntTruncates ∧ libm.real32.FloatNearest ∧
    IsFloat32 (⟨-201 / 2, 521 / 4⟩ : qvec2 ℝ).x ∧ IsFloat32 (⟨-201 / 2, 521 / 4⟩ : qvec2 ℝ).y ∧
    |(⟨-201 / 2, 521 / 4⟩ : qvec2 ℝ).x| < 2 ^ 24 ∧ |(⟨-201 / 2, 521 / 4⟩ : qvec2 ℝ).y| < 2 ^ 24 ∧
    ((qbsp_env.sample_trunc : qbsp_env ℝ).texture_meta_unsigned = false ∨
      (0 ≤ (⟨-201 / 2, 521 / 4⟩ : qvec2 ℝ).x ∧ 0 ≤ (⟨-201 / 2, 521 / 4⟩ : qvec2 ℝ).y)) ∧
    (∃ k : Int, (normalizeShift (qbsp_env.sample_trunc : qbsp_env ℝ) libm.real32 (some (64, 64))
      ⟨-201 / 2, 521 / 4⟩).x = (⟨-201 / 2, 521 / 4⟩ : qvec2 ℝ).x - (k : ℝ) * ((64 : Int) : ℝ)) ∧
    |(normalizeShift (qbsp_env.sample_trunc : qbsp_env ℝ) libm.real32 (some (64, 64))
      ⟨-201 / 2, 521 / 4⟩).x| < ((64 : Int) : ℝ) ∧
    normalizeShift (qbsp_env.sample_trunc : qbsp_env ℝ) libm.real32 (some (64, 64))
        (normalizeShift (qbsp_env.sample_trunc : qbsp_env ℝ) libm.real32 (some (64, 64))
          ⟨-201 / 2, 521 / 4⟩) =
      normalizeShift (qbsp_env.sample_trunc : qbsp_env ℝ) libm.real32 (some (64, 64))
        ⟨-201 / 2, 521 / 4⟩ :=
  have e1 : (2 : ℝ) ^ (-1 : Int) = 1 / 2 := by
    rw [zpow_neg]
    norm_num
  have e2 : (2 : ℝ) ^ (-2 : Int) = 1 / 4 := by
    rw [zpow_neg]
    norm_num [zpow_ofNat]
  have hfx : IsFloat32 (⟨-201 / 2, 521 / 4⟩ : qvec2 ℝ).x := by
    have h := IsFloat32.of_scaled (K := ℝ) (-201) (-1) (by norm_num) (by norm_num) (by norm_num)
    rw [e1] at h
    have e : (((-201 : Int) : ℝ)) * (1 / 2) = -201 / 2 := by norm_num
    rw [e] at h
    exact h
  have hfy : IsFloat32 (⟨-201 / 2, 521 / 4⟩ : qvec2 ℝ).y := by
    have h := IsFloat32.of_scaled (K := ℝ) 521 (-2) (by norm_num) (by norm_num) (by norm_num)
    rw [e2] at h
    have e : (((521 : Int) : ℝ)) * (1 / 4) = 521 / 4 := by norm_num
    rw [e] at h
    exact h
  have hx : |(⟨-201 / 2, 521 / 4⟩ : qvec2 ℝ).x| < 2 ^ 24 := by norm_num [abs_lt]
  have hy : |(⟨-201 / 2, 521 / 4⟩ : qvec2 ℝ).y| < 2 ^ 24 := by norm_num [abs_lt]
  have h := normalizeShift_float_spec (qbsp_env.sample_trunc : qbsp_env ℝ) libm.real32
    qbsp_env.sample_trunc_toIntTruncates libm.real32_floatNearest ⟨-201 / 2, 521 / 4⟩ 64 64
    (by norm_num) (by norm_num) (by norm_num) (by norm_num) hfx hfy hx hy (Or.inl rfl)
  ⟨qbsp_env.sample_trunc_toIntTruncates, libm.real32_floatNearest, hfx, hfy, hx, hy, Or.inl rfl,
    h.2.1, h.2.2.2.1, h.2.2.2.2.2⟩

/-- The function normalizeShift with single-precision floats and unsigned members
width and height, on the negative shift -5 and a texture of width and height
64: the int -5 is converted to unsigned int for the division, the product of the
quotient and the width is 4294967232, and the result lies below -4294967000. -/
theorem normalizeShift_unsigned_negative (env : qbsp_env K) (m : libm K)
    (hto : env.ToIntTruncates) (hn : m.FloatNearest) (hs : env.texture_meta_unsigned = true) :
    (normalizeShift env m (some (64, 64)) ⟨-5, -5⟩).x < -4294967000 := by
  have hint : env.to_int (-5 : K) = -5 := by
    have := qbsp_env.to_int_intCast env hto (-5) (by norm_num)
    push_cast at this
    exact this
  have hoff : normalizeShift_offset true (-5) 64 = 4294967232 := by decide
  have hbig : IsFloat32 (4294967296 : K) := by
    have h := IsFloat32.of_scaled (K := K) 8388608 9 (by norm_num) (by norm_num) (by norm_num)
    norm_num [zpow_ofNat] at h
    exact h
  have hbigneg : IsFloat32 (-4294967296 : K) := by
    have h := IsFloat32.of_scaled (K := K) (-8388608) 9 (by norm_num) (by norm_num)
      (by norm_num)
    norm_num [zpow_ofNat] at h
    exact h
  unfold normalizeShift
  dsimp only
  rw [hs, hint, hoff]
  push_cast
  have h1 := (hn (4294967232 : K)).2 _ hbig
  have e1 : |(4294967296 : K) - 4294967232| = 64 := by norm_num
  rw [e1] at h1
  obtain ⟨a1, a2⟩ := abs_le.mp h1
  generalize m.to_float (4294967232 : K) = F at a1 a2 ⊢
  have h2 := (hn (-5 - F)).2 _ hbigneg
  have e2 : |(-4294967296 : K) - (-5 - F)| ≤ 123 := by
    rw [abs_le]
    constructor <;> linarith
  have h3 := le_trans h2 e2
  obtain ⟨b1, b2⟩ := abs_le.mp h3
  linarith

/-- C21 (counterexample): normalizeShift with single-precision floats, on a
texture of width and height 3 and the shift 33554440 = 2^25 + 8 in both
components, which is a single-precision value.  The integer 11184813 * 3 =
33554439 is converted to the float 33554440 and the result is (0, 0), for int
and for unsigned members width and height alike: the first component of the
result is not the input component minus an integer multiple of the width,
because the remainder of 33554440 modulo 3 is 1.  The same on the shift
16777222 = 2^24 + 6, where the result is 2 or 0.  With unsigned members and the
texture of width 64, the negative shift -5 gives a result that is not smaller
than 64 in absolute value. -/
theorem normalizeShift_float_not_periodic :
    IsFloat32 (33554440 : ℝ) ∧
    normalizeShift (qbsp_env.sample_trunc : qbsp_env ℝ) libm.real32 (some (3, 3))
      ⟨33554440, 33554440⟩ = ⟨0, 0⟩ ∧
    (¬ ∃ k : Int, (normalizeShift (qbsp_env.sample_trunc : qbsp_env ℝ) libm.real32
      (some (3, 3)) ⟨33554440, 33554440⟩).x = 33554440 - (k : ℝ) * ((3 : Int) : ℝ)) ∧
    (¬ ∃ k : Int, (normalizeShift (qbsp_env.sample_trunc_unsigned : qbsp_env ℝ) libm.real32
      (some (3, 3)) ⟨33554440, 33554440⟩).x = 33554440 - (k : ℝ) * ((3 : Int) : ℝ)) ∧
    IsFloat32 (16777222 : ℝ) ∧
    (¬ ∃ k : Int, (normalizeShift (qbsp_env.sample_trunc : qbsp_env ℝ) libm.real32
      (some (3, 3)) ⟨16777222, 16777222⟩).x = 16777222 - (k : ℝ) * ((3 : Int) : ℝ)) ∧
    ¬ |(normalizeShift (qbsp_env.sample_trunc_unsigned : qbsp_env ℝ) libm.real32
      (some (64, 64)) ⟨-5, -5⟩).x| < ((64 : Int) : ℝ) := by
  have nomul : ∀ a b : Int, (a - b) % 3 ≠ 0 →
      ¬ ∃ k : Int, ((b : Int) : ℝ) = ((a : Int) : ℝ) - (k : ℝ) * ((3 : Int) : ℝ) := by
    intro a b ha
    rintro ⟨k, hk⟩
    have : b = a - k * 3 := by exact_mod_cast hk
    omega
  have r1 := normalizeShift_float_33554440 (qbsp_env.sample_trunc : qbsp_env ℝ) libm.real32
    qbsp_env.sample_trunc_toIntTruncates libm.real32_floatNearest
  have r2 := normalizeShift_float_33554440 (qbsp_env.sample_trunc_unsigned : qbsp_env ℝ)
    libm.real32 qbsp_env.sample_trunc_unsigned_toIntTruncates libm.real32_floatNearest
  have r3 := normalizeShift_float_16777222 (qbsp_env.sample_trunc : qbsp_env ℝ) libm.real32
    qbsp_env.sample_trunc_toIntTruncates libm.real32_floatNearest
  have r4 := normalizeShift_unsigned_negative (qbsp_env.sample_trunc_unsigned : qbsp_env ℝ)
    libm.real32 qbsp_env.sample_trunc_unsigned_toIntTruncates libm.real32_floatNearest rfl
  refine ⟨?_, r1, ?_, ?_, ?_, ?_, ?_⟩
  · have h := IsFloat32.of_scaled (K := ℝ) 8388610 2 (by norm_num) (by norm_num) (by norm_num)
    norm_num [zpow_ofNat] at h
    exact h
  · rw [r1]
    have := nomul 33554440 0 (by decide)
    push_cast at this
    exact this
  · rw [r2]
    have := nomul 33554440 0 (by decide)
    push_cast at this
    exact this
  · have h := IsFloat32.of_scaled (K := ℝ) 8388611 1 (by norm_num) (by norm_num) (by norm_num)
    norm_num [zpow_ofNat] at h
    exact h
  · rcases r3 with h | h
    · rw [h]
      have := nomul 16777222 2 (by decide)
      push_cast at this
      exact this
    · rw [h]
      have := nomul 16777222 0 (by decide)
      push_cast at this
      exact this
  · intro h
    have := (abs_lt.mp h).1
    push_cast at this
    linarith

end shift_amended_claims

end qbsp
